import Mathlib

/-! Network policy translator (npm/translatePolicy.go)

A shallow embedding of the translator of `src/npm/translatePolicy.go` and a
verification of its specification.

Modelling conventions.

* A Go slice that is only read, or appended to by one owner, is a Lean `List`.
  A `nil` slice and an empty slice are the same list wherever the source only
  takes `len`; the one place where the source tells them apart
  (`rule.From != nil`, `rule.To != nil`) is an `Option (List _)`.
* The `Specs` of the entries are modelled twice.  The section `Direction
  compilers` gives every entry the tokens it is built with, as a list: the
  entries as they are built.  The sections `Slices and their backing arrays`
  and `Direction compilers on slices` model the backing arrays: an entry that
  starts as `Specs: fragment` shares the array of the fragment, `append`
  writes in place while the array has room, and `Slices.translatePolicy` gives
  the entries as the caller reads them once all are built.  The two agree on
  sets, lists, chains and the number of entries, and on the tokens when no
  entry is left on an array it shares (`Slices.translatePolicy_unshared`).
* A nullable pointer is an `Option`.
* A Go string is a Lean `String` (text, valid UTF-8).
* A run-time panic (index or slice bound out of range) is `none`; a function
  that can reach one returns an `Option`.
* Logging is dropped.
* The helpers of packages `npm` and `util` that the translator calls but whose
  source is not part of this development are either fields of `Util`
  (`parseSelector`, `GetOperatorsAndLabels`, the digest inside
  `GetHashedName`, the process-wide `IsNewNwPolicyVerFlag`) or definitions
  marked `Modelled from the spec`.
-/

namespace Npm

/-! ## Data model (k8s.io/api/networking/v1, apimachinery meta/v1, npm/iptm) -/

/-- One requirement of `LabelSelector.MatchExpressions`; `Operator` is the
string-typed `LabelSelectorOperator`. -/
structure LabelSelectorRequirement where
  Key : String
  Operator : String
  Values : List String
deriving DecidableEq, Repr

/-- The type `metav1.LabelSelector`; the map `MatchLabels` is its list of
key/value entries. -/
structure LabelSelector where
  MatchLabels : List (String × String)
  MatchExpressions : List LabelSelectorRequirement
deriving DecidableEq, Repr

/-- The type `networkingv1.IPBlock`. -/
structure IPBlock where
  CIDR : String
  Except : List String
deriving DecidableEq, Repr

/-- The type `networkingv1.NetworkPolicyPeer`: three nullable pointers. -/
structure NetworkPolicyPeer where
  PodSelector : Option LabelSelector
  NamespaceSelector : Option LabelSelector
  IPBlock : Option IPBlock
deriving DecidableEq, Repr

/-- The type `intstr.IntOrString`: a numeric or a named port. -/
inductive IntOrString where
  | int (v : Int)
  | str (s : String)
deriving DecidableEq, Repr

/-- The method `IntOrString.String()`: the decimal text of a number, the name
itself otherwise. -/
def IntOrString.text : IntOrString → String
  | .int v => toString v
  | .str s => s

/-- The type `networkingv1.NetworkPolicyPort`; `Protocol` is the string-typed
`v1.Protocol`. -/
structure NetworkPolicyPort where
  Protocol : Option String
  Port : Option IntOrString
deriving DecidableEq, Repr

/-- The type `networkingv1.NetworkPolicyIngressRule`.  `From = none` is the nil
slice, `From = some []` the explicit empty list. -/
structure NetworkPolicyIngressRule where
  Ports : List NetworkPolicyPort
  From : Option (List NetworkPolicyPeer)
deriving DecidableEq, Repr

/-- The type `networkingv1.NetworkPolicyEgressRule`. -/
structure NetworkPolicyEgressRule where
  Ports : List NetworkPolicyPort
  To : Option (List NetworkPolicyPeer)
deriving DecidableEq, Repr

/-- The fields of `networkingv1.NetworkPolicy` the translator reads:
`ObjectMeta.Namespace` and `Spec.{PodSelector, Ingress, Egress, PolicyTypes}`.
`PolicyType` is a string type. -/
structure NetworkPolicy where
  Namespace : String
  PodSelector : LabelSelector
  Ingress : List NetworkPolicyIngressRule
  Egress : List NetworkPolicyEgressRule
  PolicyTypes : List String
deriving DecidableEq, Repr

/-- The fields of `iptm.IptEntry` the translator sets. -/
structure IptEntry where
  Chain : String
  Specs : List String
deriving DecidableEq, Repr

/-- What `translateIngress`, `translateEgress` and `translatePolicy` return. -/
structure Translation where
  sets : List String
  lists : List String
  entries : List IptEntry
deriving DecidableEq, Repr

/-! ## Constants of package `util` -/

/-- Modelled from the spec: constant `networkingv1.PolicyTypeIngress`, the tag
`Ingress` of §3.1. -/
def PolicyTypeIngress : String := "Ingress"
/-- Modelled from the spec: constant `networkingv1.PolicyTypeEgress`, the tag
`Egress` of §3.1. -/
def PolicyTypeEgress : String := "Egress"

/-- Modelled from the spec: constant `util.IptablesAzureIngressPortChain` (§6.3). -/
def IptablesAzureIngressPortChain : String := "AZURE-NPM-INGRESS-PORT"
/-- Modelled from the spec: constant `util.IptablesAzureIngressFromChain` (§6.3). -/
def IptablesAzureIngressFromChain : String := "AZURE-NPM-INGRESS-FROM"
/-- Modelled from the spec: constant `util.IptablesAzureEgressPortChain` (§6.3). -/
def IptablesAzureEgressPortChain : String := "AZURE-NPM-EGRESS-PORT"
/-- Modelled from the spec: constant `util.IptablesAzureEgressToChain` (§6.3). -/
def IptablesAzureEgressToChain : String := "AZURE-NPM-EGRESS-TO"
/-- Modelled from the spec: constant `util.IptablesAzureTargetSetsChain` (§6.3). -/
def IptablesAzureTargetSetsChain : String := "AZURE-NPM-TARGET-SETS"
/-- Modelled from the spec: constant `util.KubeAllNamespacesFlag`, the name of
the synthetic list of all namespaces (§6.3). -/
def KubeAllNamespacesFlag : String := "<ALL-NAMESPACES>"

/-- Modelled from the spec: constant `util.IptablesProtFlag` (§6.2). -/
def IptablesProtFlag : String := "-p"
/-- Modelled from the spec: constant `util.IptablesSFlag` (§6.2). -/
def IptablesSFlag : String := "-s"
/-- Modelled from the spec: constant `util.IptablesDFlag` (§6.2). -/
def IptablesDFlag : String := "-d"
/-- Modelled from the spec: constant `util.IptablesDstPortFlag` (§6.2). -/
def IptablesDstPortFlag : String := "--dport"
/-- Modelled from the spec: constant `util.IptablesModuleFlag` (§6.2). -/
def IptablesModuleFlag : String := "-m"
/-- Modelled from the spec: constant `util.IptablesSetModuleFlag` (§6.2). -/
def IptablesSetModuleFlag : String := "set"
/-- Modelled from the spec: constant `util.IptablesMatchSetFlag` (§6.2). -/
def IptablesMatchSetFlag : String := "--match-set"
/-- Modelled from the spec: constant `util.IptablesCommentModuleFlag` (§6.2). -/
def IptablesCommentModuleFlag : String := "comment"
/-- Modelled from the spec: constant `util.IptablesCommentFlag` (§6.2). -/
def IptablesCommentFlag : String := "--comment"
/-- Modelled from the spec: constant `util.IptablesSrcFlag` (§6.2). -/
def IptablesSrcFlag : String := "src"
/-- Modelled from the spec: constant `util.IptablesDstFlag` (§6.2). -/
def IptablesDstFlag : String := "dst"
/-- Modelled from the spec: constant `util.IptablesJumpFlag` (§6.2). -/
def IptablesJumpFlag : String := "-j"
/-- Modelled from the spec: constant `util.IptablesAccept` (§6.2). -/
def IptablesAccept : String := "ACCEPT"
/-- Modelled from the spec: constant `util.IptablesDrop` (§6.2). -/
def IptablesDrop : String := "DROP"

/-! ## Helpers whose source is not part of this development -/

/-- The helpers the translator takes from elsewhere.

* `parseSelector` is the first result of `parseSelector(selector)` (the
  labels with their operators); the translator discards the other two.
* `GetOperatorsAndLabels` splits such labels into operators and bare labels;
  the two slices it returns are the two components of one list of pairs, the
  pairs `(op, label)` of spec §4.1.
* `digest` is the hexadecimal text of the truncated SHA-256 of §6.4.
* `IsNewNwPolicyVerFlag` is the process-wide variable
  `util.IsNewNwPolicyVerFlag`. -/
structure Util where
  parseSelector : Option LabelSelector → List String
  GetOperatorsAndLabels : List String → List (String × String)
  digest : String → String
  IsNewNwPolicyVerFlag : Bool

/-- Modelled from the spec: `util.GetHashedName`, §6.4: the fixed text
`azure-npm-` followed by the hexadecimal digest of the name. -/
def GetHashedName (u : Util) (name : String) : String :=
  "azure-npm-" ++ u.digest name

/-- Modelled from the spec: `util.DropEmptyFields`, §4.3: the tokens of a
sequence that are not the empty string, in order. -/
def DropEmptyFields (s : List String) : List String :=
  s.filter (fun v => v ≠ "")

/-- Modelled from the spec: `util.UniqueStrSlice`, §4.5 and §3.3(5): the
sequence without its duplicates, each string kept at its first occurrence. -/
def UniqueStrSlice : List String → List String
  | [] => []
  | x :: xs => x :: (UniqueStrSlice xs).filter (fun y => y ≠ x)

/-- The operators `ops` of `ops, labels := GetOperatorsAndLabels(parseSelector(selector))`. -/
def parsedOps (u : Util) (selector : Option LabelSelector) : List String :=
  (u.GetOperatorsAndLabels (u.parseSelector selector)).map Prod.fst

/-- The labels `labels` of `ops, labels := GetOperatorsAndLabels(parseSelector(selector))`. -/
def parsedLabels (u : Util) (selector : Option LabelSelector) : List String :=
  (u.GetOperatorsAndLabels (u.parseSelector selector)).map Prod.snd

/-! ## The selector parser of spec §4.1 -/

/-- The order of strings as a Boolean test: `a` is not after `b`. -/
def strLe (a b : String) : Bool := !decide (b < a)

/-- Insert an element before the first element it is not after. -/
def insertSorted {α : Type} (le : α → α → Bool) (x : α) : List α → List α
  | [] => [x]
  | y :: ys => if le x y then x :: y :: ys else y :: insertSorted le x ys

/-- Insertion sort. -/
def sortBy {α : Type} (le : α → α → Bool) (l : List α) : List α :=
  l.foldr (insertSorted le) []

/-- The order of pairs `(op, label)`: by operator, then by label. -/
def pairLe (a b : String × String) : Bool :=
  decide (a.1 < b.1) || (decide (a.1 = b.1) && strLe a.2 b.2)

/-- Modelled from the spec: §4.1, the pair of one `matchExpressions` entry.
`In` gives `("", "key:v1,v2,…")` and `NotIn` gives `("!", "key:v1,v2,…")`, the
values sorted; `Exists` gives `("", "key")`, `DoesNotExist` gives `("!", "key")`.
`In`/`NotIn` without values and any other operator are malformed. -/
def requirementPair (req : LabelSelectorRequirement) : Option (String × String) :=
  if req.Operator = "In" then
    if req.Values = [] then none
    else some ("", req.Key ++ ":" ++ ",".intercalate (sortBy strLe req.Values))
  else if req.Operator = "NotIn" then
    if req.Values = [] then none
    else some ("!", req.Key ++ ":" ++ ",".intercalate (sortBy strLe req.Values))
  else if req.Operator = "Exists" then some ("", req.Key)
  else if req.Operator = "DoesNotExist" then some ("!", req.Key)
  else none

/-- Modelled from the spec: §4.1 `parse(selector)`, the selector parser (Go
`parseSelector` followed by `GetOperatorsAndLabels`, neither of which is in the
sources at hand).  The empty selector gives the single pair `("", "")`;
otherwise every `matchLabels` entry gives `("", "key:value")`, every expression
its pair, and the pairs are sorted by `(op, label)`.  A malformed expression
fails (`InvalidSelector`, here `none`). -/
def parse (selector : LabelSelector) : Option (List (String × String)) :=
  if selector.MatchLabels = [] ∧ selector.MatchExpressions = [] then some [("", "")]
  else do
    let exprs ← selector.MatchExpressions.mapM requirementPair
    some (sortBy pairLe
      (selector.MatchLabels.map (fun kv => ("", kv.1 ++ ":" ++ kv.2)) ++ exprs))

/-- Modelled from the spec: §4.1, the split of a label with its operator into
the pair `(op, label)`: the operator is `!` when the text starts with `!`, and
empty otherwise. -/
def GetOperatorAndLabel (labelWithOp : String) : String × String :=
  match labelWithOp.data with
  | '!' :: rest => ("!", ⟨rest⟩)
  | _ => ("", labelWithOp)

/-- Modelled from the spec: the helpers of §4.1 and §6.4 as one `Util`, for a
given digest and a given value of the process-wide flag.  `parseSelector`
hands back the labels with their operators; the translator never sees the
failure of a parse (it discards the other results), and a failed parse hands
back no label. -/
def specUtil (digest : String → String) (isNewNwPolicyVer : Bool) : Util :=
  { parseSelector := fun selector =>
      match selector with
      | none => []
      | some sel => ((parse sel).getD []).map (fun p => p.1 ++ p.2),
    GetOperatorsAndLabels := fun labelsWithOps => labelsWithOps.map GetOperatorAndLabel,
    digest := digest,
    IsNewNwPolicyVerFlag := isNewNwPolicyVer }

/-! ## Fragment builders -/

/-- Go: `craftPartialIptEntrySpecFromPort`. -/
def craftPartialIptEntrySpecFromPort (portRule : NetworkPolicyPort)
    (sPortOrDPortFlag : String) : List String :=
  (match portRule.Protocol with
    | some protocol => [IptablesProtFlag, protocol]
    | none => []) ++
  (match portRule.Port with
    | some port => [sPortOrDPortFlag, port.text]
    | none => [])

/-- Go: `craftPartialIptablesCommentFromPort`. -/
def craftPartialIptablesCommentFromPort (portRule : NetworkPolicyPort)
    (_sPortOrDPortFlag : String) : String :=
  (match portRule.Protocol with
    | some protocol => protocol ++ (if portRule.Port.isSome then "-" else "")
    | none => "") ++
  (match portRule.Port with
    | some port => "PORT-" ++ port.text
    | none => "")

/-- Go: `craftPartialIptEntrySpecFromOpAndLabel`. -/
def craftPartialIptEntrySpecFromOpAndLabel (u : Util) (op label srcOrDstFlag : String)
    (isNamespaceSelector : Bool) : List String :=
  let label := if isNamespaceSelector then "ns-" ++ label else label
  DropEmptyFields
    [IptablesModuleFlag, IptablesSetModuleFlag, op, IptablesMatchSetFlag,
     GetHashedName u label, srcOrDstFlag]

/-- Go: `craftPartialIptEntrySpecFromOpsAndLabels`.  The test
`len(ops) == 1 && len(labels) == 1 && ops[0] == "" && labels[0] == ""` is
`ops = [""] ∧ labels = [""]`; the loop `for i := range ops` reads `labels[i]`
and panics when `labels` is the shorter slice. -/
def craftPartialIptEntrySpecFromOpsAndLabels (u : Util) (ns : String)
    (ops labels : List String) (srcOrDstFlag : String) (isNamespaceSelector : Bool) :
    Option (List String) :=
  if ops = [""] ∧ labels = [""] then
    if !isNamespaceSelector then
      some [IptablesModuleFlag, IptablesSetModuleFlag, IptablesMatchSetFlag,
            GetHashedName u ("ns-" ++ ns), srcOrDstFlag]
    else
      some [IptablesModuleFlag, IptablesSetModuleFlag, IptablesMatchSetFlag,
            GetHashedName u KubeAllNamespacesFlag, srcOrDstFlag]
  else if labels.length < ops.length then
    none
  else
    some ((List.zipWith
      (fun op label =>
        craftPartialIptEntrySpecFromOpAndLabel u op label srcOrDstFlag isNamespaceSelector)
      ops labels).foldr (fun a b => a ++ b) [])

/-- Go: `craftPartialIptEntrySpecFromSelector`. -/
def craftPartialIptEntrySpecFromSelector (u : Util) (ns : String)
    (selector : Option LabelSelector) (srcOrDstFlag : String) (isNamespaceSelector : Bool) :
    Option (List String) :=
  craftPartialIptEntrySpecFromOpsAndLabels u ns (parsedOps u selector) (parsedLabels u selector)
    srcOrDstFlag isNamespaceSelector

/-- Go: `craftPartialIptablesCommentFromSelector`.  The final
`comment[:len(comment)-len("-AND-")]` panics when no label was appended;
otherwise the five bytes cut off are the last separator. -/
def craftPartialIptablesCommentFromSelector (u : Util) (ns : String)
    (selector : Option LabelSelector) (isNamespaceSelector : Bool) : Option String :=
  match selector with
  | none => some "none"
  | some sel =>
    if sel.MatchExpressions.length = 0 ∧ sel.MatchLabels.length = 0 then
      if isNamespaceSelector then some KubeAllNamespacesFlag else some ("ns-" ++ ns)
    else
      let pfx := if isNamespaceSelector then "ns-" else ""
      let comment := (u.GetOperatorsAndLabels (u.parseSelector selector)).foldl
        (fun comment p => comment ++ (pfx ++ p.1 ++ p.2) ++ "-AND-") ""
      if comment.length < "-AND-".length then none
      else some ⟨comment.data.take (comment.length - "-AND-".length)⟩

/-- The tokens every entry ends with: `-j <target> -m comment --comment <comment>`. -/
def jumpAndComment (target comment : String) : List String :=
  [IptablesJumpFlag, target, IptablesModuleFlag, IptablesCommentModuleFlag,
   IptablesCommentFlag, comment]

/-- The first lines shared by `translateIngress`, `translateEgress` and
`getDefaultDropEntries`: parse the target selector and, when it is the empty
selector, overwrite `labels[0]` with `"ns-" + ns`. -/
def targetOpsAndLabels (u : Util) (ns : String) (targetSelector : LabelSelector) :
    List String × List String :=
  let ops := parsedOps u (some targetSelector)
  let labels := parsedLabels u (some targetSelector)
  if ops = [""] ∧ labels = [""] then (ops, ["ns-" ++ ns]) else (ops, labels)

/-! ## Direction compilers

The two direction compilers with every entry given the tokens it is built
with: `Specs` is the list of the tokens of the fragment the entry starts from
followed by the tokens appended to it.  This is what the entry holds when its
last `append` returns.  What the caller reads once all entries are built is in
the section `Direction compilers on slices`: there an entry that shares its
backing array with a later one is read with the cells the later one wrote. -/

/-- The local variables of `translateIngress` / `translateEgress` that the
loops over rules and peers update: `sets`, `lists`, `entries`, the side buffer
(`fromRuleEntries`, resp. `toRuleEntries`), the flag of the side chain
(`addedIngressFromEntry`, resp. `addedEgressToEntry`) and `addedPortEntry`. -/
structure LoopState where
  sets : List String
  lists : List String
  entries : List IptEntry
  peerEntries : List IptEntry
  addedPeerEntry : Bool
  addedPortEntry : Bool
deriving DecidableEq, Repr

/-- Whether some peer of the list has a selector or an ipBlock (the loop that
sets `fromRuleExists` / `toRuleExists` and breaks). -/
def peerExists (peers : List NetworkPolicyPeer) : Bool :=
  peers.any (fun r => r.PodSelector.isSome || r.NamespaceSelector.isSome || r.IPBlock.isSome)

/-- Go: `translateIngress`, the body of `for _, fromRule := range rule.From`
for one peer (source lines 244-551), with every entry as it is built; the
slices the entries are built on are those of `Slices.ingressPeer`. -/
def ingressPeer (u : Util) (ns : String) (targetSelectorIptEntrySpec : List String)
    (targetSelectorComment : String) (ports : List NetworkPolicyPort) (portRuleExists : Bool)
    (st : LoopState) (fromRule : NetworkPolicyPeer) : Option LoopState :=
  match fromRule.IPBlock with
  | some ipBlock =>
    let st1 :=
      if ipBlock.Except.length > 0 then
        { st with
          peerEntries := st.peerEntries ++ ipBlock.Except.map (fun except =>
            { Chain := IptablesAzureIngressFromChain,
              Specs := [IptablesSFlag, except] ++ targetSelectorIptEntrySpec ++
                jumpAndComment IptablesDrop
                  ("DROP-" ++ except ++ "-TO-" ++ targetSelectorComment) }),
          addedPeerEntry := true }
      else st
    if ipBlock.CIDR ≠ "" then
      if portRuleExists then
        some { st1 with
          peerEntries := st1.peerEntries ++ ports.map (fun portRule =>
            { Chain := IptablesAzureIngressPortChain,
              Specs := targetSelectorIptEntrySpec ++ [IptablesSFlag, ipBlock.CIDR] ++
                craftPartialIptEntrySpecFromPort portRule IptablesDstPortFlag ++
                jumpAndComment IptablesAccept
                  ("ALLOW-" ++ ipBlock.CIDR ++ "-:-" ++
                    craftPartialIptablesCommentFromPort portRule IptablesDstPortFlag ++
                    "-TO-" ++ targetSelectorComment) }) }
      else
        some { st1 with
          peerEntries := st1.peerEntries ++
            [{ Chain := IptablesAzureIngressFromChain,
               Specs := targetSelectorIptEntrySpec ++ [IptablesSFlag, ipBlock.CIDR] ++
                 jumpAndComment IptablesAccept
                   ("ALLOW-" ++ ipBlock.CIDR ++ "-TO-" ++ targetSelectorComment) }],
          addedPeerEntry := true }
    else some st1
  | none =>
    match fromRule.PodSelector, fromRule.NamespaceSelector with
    | none, none => some st
    | none, some nsSel => do
      let nsLabelsWithoutOps := parsedLabels u (some nsSel)
      let nsLabelsWithoutOps :=
        if nsLabelsWithoutOps = [""] then [KubeAllNamespacesFlag]
        else nsLabelsWithoutOps.map (fun l => "ns-" ++ l)
      let lists := st.lists ++ nsLabelsWithoutOps
      let iptPartNsSpec ←
        craftPartialIptEntrySpecFromSelector u ns (some nsSel) IptablesSrcFlag true
      let iptPartNsComment ← craftPartialIptablesCommentFromSelector u ns (some nsSel) true
      if portRuleExists then
        some { st with
          lists := lists,
          entries := st.entries ++ ports.map (fun portRule =>
            { Chain := IptablesAzureIngressPortChain,
              Specs := targetSelectorIptEntrySpec ++ iptPartNsSpec ++
                craftPartialIptEntrySpecFromPort portRule IptablesDstPortFlag ++
                jumpAndComment IptablesAccept
                  ("ALLOW-" ++ iptPartNsComment ++ "-AND-" ++
                    craftPartialIptablesCommentFromPort portRule IptablesDstPortFlag ++
                    "-TO-" ++ targetSelectorComment) }) }
      else
        some { st with
          lists := lists,
          entries := st.entries ++
            [{ Chain := IptablesAzureIngressFromChain,
               Specs := iptPartNsSpec ++ targetSelectorIptEntrySpec ++
                 jumpAndComment IptablesAccept
                   ("ALLOW-" ++ iptPartNsComment ++ "-TO-" ++ targetSelectorComment) }],
          addedPeerEntry := true }
    | some podSel, none => do
      let podLabelsWithoutOps := parsedLabels u (some podSel)
      let podLabelsWithoutOps :=
        if podLabelsWithoutOps = [""] then ["ns-" ++ ns] else podLabelsWithoutOps
      let sets := st.sets ++ podLabelsWithoutOps
      let iptPartPodSpec ←
        craftPartialIptEntrySpecFromSelector u ns (some podSel) IptablesSrcFlag false
      let iptPartPodComment ← craftPartialIptablesCommentFromSelector u ns (some podSel) false
      if portRuleExists then
        some { st with
          sets := sets,
          entries := st.entries ++ ports.map (fun portRule =>
            { Chain := IptablesAzureIngressPortChain,
              Specs := targetSelectorIptEntrySpec ++ iptPartPodSpec ++
                craftPartialIptEntrySpecFromPort portRule IptablesDstPortFlag ++
                jumpAndComment IptablesAccept
                  ("ALLOW-" ++ iptPartPodComment ++ "-AND-" ++
                    craftPartialIptablesCommentFromPort portRule IptablesDstPortFlag ++
                    "-TO-" ++ targetSelectorComment) }) }
      else
        some { st with
          sets := sets,
          entries := st.entries ++
            [{ Chain := IptablesAzureIngressFromChain,
               Specs := iptPartPodSpec ++ targetSelectorIptEntrySpec ++
                 jumpAndComment IptablesAccept
                   ("ALLOW-" ++ iptPartPodComment ++ "-TO-" ++ targetSelectorComment) }],
          addedPeerEntry := true }
    | some podSel, some nsSel =>
      if !u.IsNewNwPolicyVerFlag then some st
      else do
        let nsLabelsWithoutOps := (parsedLabels u (some nsSel)).map (fun l => "ns-" ++ l)
        let lists := st.lists ++ nsLabelsWithoutOps
        let podLabelsWithoutOps := parsedLabels u (some podSel)
        let sets := st.sets ++ podLabelsWithoutOps
        let iptPartNsSpec ←
          craftPartialIptEntrySpecFromSelector u ns (some nsSel) IptablesSrcFlag true
        let iptPartPodSpec ←
          craftPartialIptEntrySpecFromSelector u ns (some podSel) IptablesSrcFlag false
        let iptPartNsComment ← craftPartialIptablesCommentFromSelector u ns (some nsSel) true
        let iptPartPodComment ← craftPartialIptablesCommentFromSelector u ns (some podSel) false
        if portRuleExists then
          some { st with
            sets := sets,
            lists := lists,
            entries := st.entries ++ ports.map (fun portRule =>
              { Chain := IptablesAzureIngressPortChain,
                Specs := iptPartNsSpec ++ iptPartPodSpec ++ targetSelectorIptEntrySpec ++
                  craftPartialIptEntrySpecFromPort portRule IptablesDstPortFlag ++
                  jumpAndComment IptablesAccept
                    ("ALLOW-" ++ iptPartNsComment ++ "-AND-" ++ iptPartPodComment ++ "-AND-" ++
                      craftPartialIptablesCommentFromPort portRule IptablesDstPortFlag ++
                      "-TO-" ++ targetSelectorComment) }) }
        else
          some { st with
            sets := sets,
            lists := lists,
            entries := st.entries ++
              [{ Chain := IptablesAzureIngressFromChain,
                 Specs := targetSelectorIptEntrySpec ++ iptPartNsSpec ++ iptPartPodSpec ++
                   jumpAndComment IptablesAccept
                     ("ALLOW-" ++ iptPartNsComment ++ "-AND-" ++ iptPartPodComment ++
                       "-TO-" ++ targetSelectorComment) }],
            addedPeerEntry := true }

/-- Go: `translateIngress`, the body of `for _, rule := range rules` for one
rule (source lines 169-571), with every entry as it is built
(`Slices.ingressRule` for the slices). -/
def ingressRule (u : Util) (ns : String) (targetSelectorIptEntrySpec : List String)
    (targetSelectorComment : String) (st : LoopState) (rule : NetworkPolicyIngressRule) :
    Option LoopState :=
  let portRuleExists : Bool := decide (rule.Ports.length > 0)
  let st := { st with addedPortEntry := st.addedPortEntry || portRuleExists }
  let allowExternal : Bool :=
    match rule.From with
    | some peers => decide (peers.length = 0)
    | none => false
  let fromRuleExists : Bool :=
    match rule.From with
    | some peers => decide (peers.length = 0) || peerExists peers
    | none => false
  if !portRuleExists && !fromRuleExists && !allowExternal then
    some { st with
      entries := st.entries ++
        [{ Chain := IptablesAzureIngressPortChain,
           Specs := [IptablesModuleFlag, IptablesSetModuleFlag, IptablesMatchSetFlag,
                     GetHashedName u KubeAllNamespacesFlag, IptablesSrcFlag] ++
             targetSelectorIptEntrySpec ++
             jumpAndComment IptablesAccept
               ("ALLOW-ALL-TO-" ++ targetSelectorComment ++ "-FROM-" ++
                 KubeAllNamespacesFlag) }],
      lists := st.lists ++ [KubeAllNamespacesFlag] }
  else if portRuleExists && !fromRuleExists && !allowExternal then
    some { st with
      entries := st.entries ++ rule.Ports.map (fun portRule =>
        { Chain := IptablesAzureIngressPortChain,
          Specs := craftPartialIptEntrySpecFromPort portRule IptablesDstPortFlag ++
            targetSelectorIptEntrySpec ++
            jumpAndComment IptablesAccept
              ("ALLOW-ALL-" ++
                craftPartialIptablesCommentFromPort portRule IptablesDstPortFlag ++
                "-TO-" ++ targetSelectorComment) }) }
  else do
    let st ← (rule.From.getD []).foldlM
      (ingressPeer u ns targetSelectorIptEntrySpec targetSelectorComment rule.Ports
        portRuleExists) st
    if allowExternal then
      some { st with
        entries := st.entries ++
          [{ Chain := IptablesAzureIngressPortChain,
             Specs := targetSelectorIptEntrySpec ++
               jumpAndComment IptablesAccept ("ALLOW-ALL-TO-" ++ targetSelectorComment) }] }
    else some st

/-- Go: `translateIngress`, the lines after the loop over the rules (source
lines 573-630), with the closing jumps as they are built
(`Slices.ingressClosing` for the slices). -/
def ingressFinish (targetSelectorIptEntrySpec : List String) (targetSelectorComment : String)
    (st : LoopState) : Translation :=
  let entries := st.entries ++ st.peerEntries
  let entries :=
    if st.addedPortEntry && !st.addedPeerEntry then
      entries ++
        [{ Chain := IptablesAzureIngressPortChain,
           Specs := targetSelectorIptEntrySpec ++
             jumpAndComment IptablesAzureTargetSetsChain
               ("ALLOW-ALL-TO-" ++ targetSelectorComment ++ "-TO-JUMP-TO-" ++
                 IptablesAzureTargetSetsChain) }]
    else if st.addedPeerEntry then
      entries ++
        [{ Chain := IptablesAzureIngressPortChain,
           Specs := targetSelectorIptEntrySpec ++
             jumpAndComment IptablesAzureIngressFromChain
               ("ALLOW-ALL-TO-" ++ targetSelectorComment ++ "-TO-JUMP-TO-" ++
                 IptablesAzureIngressFromChain) },
         { Chain := IptablesAzureIngressFromChain,
           Specs := targetSelectorIptEntrySpec ++
             jumpAndComment IptablesAzureTargetSetsChain
               ("ALLOW-ALL-TO-" ++ targetSelectorComment ++ "-TO-JUMP-TO-" ++
                 IptablesAzureTargetSetsChain) }]
    else entries
  { sets := DropEmptyFields st.sets, lists := DropEmptyFields st.lists, entries := entries }

/-- Go: `translateIngress`, with every entry as it is built.  The entries as
the caller reads them are those of `Slices.translateIngress`. -/
def translateIngress (u : Util) (ns : String) (targetSelector : LabelSelector)
    (rules : List NetworkPolicyIngressRule) : Option Translation := do
  let (ops, labels) := targetOpsAndLabels u ns targetSelector
  let targetSelectorIptEntrySpec ←
    craftPartialIptEntrySpecFromOpsAndLabels u ns ops labels IptablesDstFlag false
  let targetSelectorComment ←
    craftPartialIptablesCommentFromSelector u ns (some targetSelector) false
  let st ← rules.foldlM (ingressRule u ns targetSelectorIptEntrySpec targetSelectorComment)
    { sets := labels, lists := [], entries := [], peerEntries := [],
      addedPeerEntry := false, addedPortEntry := false }
  some (ingressFinish targetSelectorIptEntrySpec targetSelectorComment st)

/-- Go: `translateEgress`, the body of `for _, toRule := range rule.To` for one
peer (source lines 727-1037), with every entry as it is built; the slices the
entries are built on are those of `Slices.egressPeer`. -/
def egressPeer (u : Util) (ns : String) (targetSelectorIptEntrySpec : List String)
    (targetSelectorComment : String) (ports : List NetworkPolicyPort) (portRuleExists : Bool)
    (st : LoopState) (toRule : NetworkPolicyPeer) : Option LoopState :=
  match toRule.IPBlock with
  | some ipBlock =>
    let st1 :=
      if ipBlock.Except.length > 0 then
        { st with
          peerEntries := st.peerEntries ++ ipBlock.Except.map (fun except =>
            { Chain := IptablesAzureEgressToChain,
              Specs := targetSelectorIptEntrySpec ++ [IptablesDFlag, except] ++
                jumpAndComment IptablesDrop
                  ("DROP-" ++ except ++ "-FROM-" ++ targetSelectorComment) }),
          addedPeerEntry := true }
      else st
    if ipBlock.CIDR ≠ "" then
      if portRuleExists then
        some { st1 with
          peerEntries := st1.peerEntries ++ ports.map (fun portRule =>
            { Chain := IptablesAzureEgressPortChain,
              Specs := craftPartialIptEntrySpecFromPort portRule IptablesDstPortFlag ++
                targetSelectorIptEntrySpec ++ [IptablesDFlag, ipBlock.CIDR] ++
                jumpAndComment IptablesAccept
                  ("ALLOW-" ++ ipBlock.CIDR ++ "-:-" ++
                    craftPartialIptablesCommentFromPort portRule IptablesDstPortFlag ++
                    "-FROM-" ++ targetSelectorComment) }) }
      else
        some { st1 with
          peerEntries := st1.peerEntries ++
            [{ Chain := IptablesAzureEgressToChain,
               Specs := [IptablesDFlag, ipBlock.CIDR] ++ targetSelectorIptEntrySpec ++
                 jumpAndComment IptablesAccept
                   ("ALLOW-" ++ ipBlock.CIDR ++ "-FROM-" ++ targetSelectorComment) }],
          addedPeerEntry := true }
    else some st1
  | none =>
    match toRule.PodSelector, toRule.NamespaceSelector with
    | none, none => some st
    | none, some nsSel => do
      let nsLabelsWithoutOps := parsedLabels u (some nsSel)
      let nsLabelsWithoutOps :=
        if nsLabelsWithoutOps = [""] then [KubeAllNamespacesFlag]
        else nsLabelsWithoutOps.map (fun l => "ns-" ++ l)
      let lists := st.lists ++ nsLabelsWithoutOps
      let iptPartNsSpec ←
        craftPartialIptEntrySpecFromSelector u ns (some nsSel) IptablesDstFlag true
      let iptPartNsComment ← craftPartialIptablesCommentFromSelector u ns (some nsSel) true
      if portRuleExists then
        some { st with
          lists := lists,
          entries := st.entries ++ ports.map (fun portRule =>
            { Chain := IptablesAzureEgressPortChain,
              Specs := iptPartNsSpec ++
                craftPartialIptEntrySpecFromPort portRule IptablesDstPortFlag ++
                targetSelectorIptEntrySpec ++
                jumpAndComment IptablesAccept
                  ("ALLOW-" ++ iptPartNsComment ++ "-AND-" ++
                    craftPartialIptablesCommentFromPort portRule IptablesDstPortFlag ++
                    "-FROM-" ++ targetSelectorComment) }) }
      else
        some { st with
          lists := lists,
          entries := st.entries ++
            [{ Chain := IptablesAzureEgressToChain,
               Specs := targetSelectorIptEntrySpec ++ iptPartNsSpec ++
                 jumpAndComment IptablesAccept
                   ("ALLOW-" ++ targetSelectorComment ++ "-TO-" ++ iptPartNsComment) }],
          addedPeerEntry := true }
    | some podSel, none => do
      let podLabelsWithoutOps := parsedLabels u (some podSel)
      let podLabelsWithoutOps :=
        if podLabelsWithoutOps = [""] then ["ns-" ++ ns] else podLabelsWithoutOps
      let sets := st.sets ++ podLabelsWithoutOps
      let iptPartPodSpec ←
        craftPartialIptEntrySpecFromSelector u ns (some podSel) IptablesDstFlag false
      let iptPartPodComment ← craftPartialIptablesCommentFromSelector u ns (some podSel) false
      if portRuleExists then
        some { st with
          sets := sets,
          entries := st.entries ++ ports.map (fun portRule =>
            { Chain := IptablesAzureEgressPortChain,
              Specs := iptPartPodSpec ++
                craftPartialIptEntrySpecFromPort portRule IptablesDstPortFlag ++
                targetSelectorIptEntrySpec ++
                jumpAndComment IptablesAccept
                  ("ALLOW-" ++ iptPartPodComment ++ "-AND-" ++
                    craftPartialIptablesCommentFromPort portRule IptablesDstPortFlag ++
                    "-FROM-" ++ targetSelectorComment) }) }
      else
        some { st with
          sets := sets,
          entries := st.entries ++
            [{ Chain := IptablesAzureEgressToChain,
               Specs := targetSelectorIptEntrySpec ++ iptPartPodSpec ++
                 jumpAndComment IptablesAccept
                   ("ALLOW-" ++ targetSelectorComment ++ "-TO-" ++ iptPartPodComment) }],
          addedPeerEntry := true }
    | some podSel, some nsSel =>
      if !u.IsNewNwPolicyVerFlag then some st
      else do
        let nsLabelsWithoutOps := (parsedLabels u (some nsSel)).map (fun l => "ns-" ++ l)
        let lists := st.lists ++ nsLabelsWithoutOps
        let podLabelsWithoutOps := parsedLabels u (some podSel)
        let sets := st.sets ++ podLabelsWithoutOps
        let iptPartNsSpec ←
          craftPartialIptEntrySpecFromSelector u ns (some nsSel) IptablesDstFlag true
        let iptPartPodSpec ←
          craftPartialIptEntrySpecFromSelector u ns (some podSel) IptablesDstFlag false
        let iptPartNsComment ← craftPartialIptablesCommentFromSelector u ns (some nsSel) true
        let iptPartPodComment ← craftPartialIptablesCommentFromSelector u ns (some podSel) false
        if portRuleExists then
          some { st with
            sets := sets,
            lists := lists,
            entries := st.entries ++ ports.map (fun portRule =>
              { Chain := IptablesAzureEgressPortChain,
                Specs := targetSelectorIptEntrySpec ++ iptPartNsSpec ++ iptPartPodSpec ++
                  craftPartialIptEntrySpecFromPort portRule IptablesDstPortFlag ++
                  jumpAndComment IptablesAccept
                    ("ALLOW-" ++ targetSelectorComment ++ "-TO-" ++ iptPartNsComment ++
                      "-AND-" ++ iptPartPodComment ++ "-AND-" ++
                      craftPartialIptablesCommentFromPort portRule IptablesDstPortFlag) }) }
        else
          some { st with
            sets := sets,
            lists := lists,
            entries := st.entries ++
              [{ Chain := IptablesAzureEgressToChain,
                 Specs := targetSelectorIptEntrySpec ++ iptPartNsSpec ++ iptPartPodSpec ++
                   jumpAndComment IptablesAccept
                     ("ALLOW-" ++ targetSelectorComment ++ "-TO-" ++ iptPartNsComment ++
                       "-AND-" ++ iptPartPodComment) }],
            addedPeerEntry := true }

/-- Go: `translateEgress`, the body of `for _, rule := range rules` for one rule
(source lines 655-1058), with every entry as it is built (`Slices.egressRule`
for the slices). -/
def egressRule (u : Util) (ns : String) (targetSelectorIptEntrySpec : List String)
    (targetSelectorComment : String) (st : LoopState) (rule : NetworkPolicyEgressRule) :
    Option LoopState :=
  let portRuleExists : Bool := decide (rule.Ports.length > 0)
  let st := { st with addedPortEntry := st.addedPortEntry || portRuleExists }
  let allowExternal : Bool :=
    match rule.To with
    | some peers => decide (peers.length = 0)
    | none => false
  let toRuleExists : Bool :=
    match rule.To with
    | some peers => decide (peers.length = 0) || peerExists peers
    | none => false
  if !portRuleExists && !toRuleExists && !allowExternal then
    some { st with
      entries := st.entries ++
        [{ Chain := IptablesAzureEgressPortChain,
           Specs := targetSelectorIptEntrySpec ++
             ([IptablesModuleFlag, IptablesSetModuleFlag, IptablesMatchSetFlag,
               GetHashedName u KubeAllNamespacesFlag, IptablesDstFlag] ++
              jumpAndComment IptablesAccept
                ("ALLOW-ALL-FROM-" ++ targetSelectorComment ++ "-TO-" ++
                  KubeAllNamespacesFlag)) }],
      lists := st.lists ++ [KubeAllNamespacesFlag] }
  else if portRuleExists && !toRuleExists && !allowExternal then
    some { st with
      entries := st.entries ++ rule.Ports.map (fun portRule =>
        { Chain := IptablesAzureEgressPortChain,
          Specs := craftPartialIptEntrySpecFromPort portRule IptablesDstPortFlag ++
            targetSelectorIptEntrySpec ++
            jumpAndComment IptablesAccept
              ("ALLOW-ALL-TO-" ++
                craftPartialIptablesCommentFromPort portRule IptablesDstPortFlag ++
                "-FROM-" ++ targetSelectorComment) }) }
  else do
    let st ← (rule.To.getD []).foldlM
      (egressPeer u ns targetSelectorIptEntrySpec targetSelectorComment rule.Ports
        portRuleExists) st
    if allowExternal then
      some { st with
        entries := st.entries ++
          [{ Chain := IptablesAzureEgressPortChain,
             Specs := targetSelectorIptEntrySpec ++
               jumpAndComment IptablesAccept ("ALLOW-ALL-FROM-" ++ targetSelectorComment) }],
        addedPortEntry := true }
    else some st

/-- Go: `translateEgress`, the lines after the loop over the rules (source
lines 1060-1117), with the closing jumps as they are built
(`Slices.egressClosing` for the slices). -/
def egressFinish (targetSelectorIptEntrySpec : List String) (targetSelectorComment : String)
    (st : LoopState) : Translation :=
  let entries := st.entries ++ st.peerEntries
  let entries :=
    if st.addedPortEntry && !st.addedPeerEntry then
      entries ++
        [{ Chain := IptablesAzureEgressPortChain,
           Specs := targetSelectorIptEntrySpec ++
             jumpAndComment IptablesAzureTargetSetsChain
               ("ALLOW-ALL-FROM-" ++ targetSelectorComment ++ "-TO-JUMP-TO-" ++
                 IptablesAzureTargetSetsChain) }]
    else if st.addedPeerEntry then
      entries ++
        [{ Chain := IptablesAzureEgressPortChain,
           Specs := targetSelectorIptEntrySpec ++
             jumpAndComment IptablesAzureEgressToChain
               ("ALLOW-ALL-FROM-" ++ targetSelectorComment ++ "-TO-JUMP-TO-" ++
                 IptablesAzureEgressToChain) },
         { Chain := IptablesAzureEgressToChain,
           Specs := targetSelectorIptEntrySpec ++
             jumpAndComment IptablesAzureTargetSetsChain
               ("ALLOW-ALL-FROM-" ++ targetSelectorComment ++ "-TO-JUMP-TO-" ++
                 IptablesAzureTargetSetsChain) }]
    else entries
  { sets := DropEmptyFields st.sets, lists := DropEmptyFields st.lists, entries := entries }

/-- Go: `translateEgress`, with every entry as it is built.  The entries as
the caller reads them are those of `Slices.translateEgress`. -/
def translateEgress (u : Util) (ns : String) (targetSelector : LabelSelector)
    (rules : List NetworkPolicyEgressRule) : Option Translation := do
  let (ops, labels) := targetOpsAndLabels u ns targetSelector
  let targetSelectorIptEntrySpec ←
    craftPartialIptEntrySpecFromOpsAndLabels u ns ops labels IptablesSrcFlag false
  let targetSelectorComment ←
    craftPartialIptablesCommentFromSelector u ns (some targetSelector) false
  let st ← rules.foldlM (egressRule u ns targetSelectorIptEntrySpec targetSelectorComment)
    { sets := labels, lists := [], entries := [], peerEntries := [],
      addedPeerEntry := false, addedPortEntry := false }
  some (egressFinish targetSelectorIptEntrySpec targetSelectorComment st)

/-! ## Policy orchestrator -/

/-- The entry `DROP-ALL-TO-<target>` of `getDefaultDropEntries`. -/
def dropAllToEntry (targetSelectorIngressIptEntrySpec : List String)
    (targetSelectorComment : String) : IptEntry :=
  { Chain := IptablesAzureTargetSetsChain,
    Specs := targetSelectorIngressIptEntrySpec ++
      jumpAndComment IptablesDrop ("DROP-ALL-TO-" ++ targetSelectorComment) }

/-- The entry `DROP-ALL-FROM-<target>` of `getDefaultDropEntries`. -/
def dropAllFromEntry (targetSelectorEgressIptEntrySpec : List String)
    (targetSelectorComment : String) : IptEntry :=
  { Chain := IptablesAzureTargetSetsChain,
    Specs := targetSelectorEgressIptEntrySpec ++
      jumpAndComment IptablesDrop ("DROP-ALL-FROM-" ++ targetSelectorComment) }

/-- Go: `getDefaultDropEntries`. -/
def getDefaultDropEntries (u : Util) (ns : String) (targetSelector : LabelSelector)
    (hasIngress hasEgress : Bool) : Option (List IptEntry) := do
  let (ops, labels) := targetOpsAndLabels u ns targetSelector
  let targetSelectorIngressIptEntrySpec ←
    craftPartialIptEntrySpecFromOpsAndLabels u ns ops labels IptablesDstFlag false
  let targetSelectorEgressIptEntrySpec ←
    craftPartialIptEntrySpecFromOpsAndLabels u ns ops labels IptablesSrcFlag false
  let targetSelectorComment ←
    craftPartialIptablesCommentFromSelector u ns (some targetSelector) false
  let entries : List IptEntry := []
  let entries :=
    if hasIngress then
      entries ++ [dropAllToEntry targetSelectorIngressIptEntrySpec targetSelectorComment]
    else entries
  let entries :=
    if hasEgress then
      entries ++ [dropAllFromEntry targetSelectorEgressIptEntrySpec targetSelectorComment]
    else entries
  some entries

/-- The local variables of `translatePolicy`. -/
structure PolicyState where
  resultSets : List String
  resultLists : List String
  entries : List IptEntry
  hasIngress : Bool
  hasEgress : Bool
deriving DecidableEq, Repr

/-- Go: `translatePolicy`, the body of `for _, ptype := range npObj.Spec.PolicyTypes`
for one policy type (source lines 1222-1252). -/
def policyTypeStep (u : Util) (npObj : NetworkPolicy) (st : PolicyState) (ptype : String) :
    Option PolicyState := do
  let st ←
    if ptype = PolicyTypeIngress then do
      let ingress ← translateIngress u npObj.Namespace npObj.PodSelector npObj.Ingress
      let degenerate : Bool :=
        match npObj.Ingress with
        | [rule] => decide (rule.Ports.length = 0) && decide ((rule.From.getD []).length = 0)
        | _ => false
      some { st with
        resultSets := st.resultSets ++ ingress.sets,
        resultLists := st.resultLists ++ ingress.lists,
        entries := st.entries ++ ingress.entries,
        hasIngress := !degenerate }
    else some st
  if ptype = PolicyTypeEgress then do
    let egress ← translateEgress u npObj.Namespace npObj.PodSelector npObj.Egress
    let degenerate : Bool :=
      match npObj.Egress with
      | [rule] => decide (rule.Ports.length = 0) && decide ((rule.To.getD []).length = 0)
      | _ => false
    some { st with
      resultSets := st.resultSets ++ egress.sets,
      resultLists := st.resultLists ++ egress.lists,
      entries := st.entries ++ egress.entries,
      hasEgress := !degenerate }
  else some st

/-- Go: `translatePolicy` up to, and without, the call of
`getDefaultDropEntries`: source lines 1203-1215 when `PolicyTypes` is empty,
the loop of lines 1221-1253 otherwise. -/
def translatePolicyDirections (u : Util) (npObj : NetworkPolicy) : Option PolicyState :=
  if npObj.PolicyTypes.length = 0 then do
    let ingress ← translateIngress u npObj.Namespace npObj.PodSelector npObj.Ingress
    let egress ← translateEgress u npObj.Namespace npObj.PodSelector npObj.Egress
    some { resultSets := ingress.sets ++ egress.sets,
           resultLists := ingress.lists ++ egress.lists,
           entries := ingress.entries ++ egress.entries,
           hasIngress := decide (ingress.sets.length > 0),
           hasEgress := decide (egress.sets.length > 0) }
  else
    npObj.PolicyTypes.foldlM (policyTypeStep u npObj)
      { resultSets := [], resultLists := [], entries := [],
        hasIngress := false, hasEgress := false }

/-- Go: `translatePolicy`, with every entry as it is built.  Both return sites
(lines 1216-1218 and 1255-1259) append the default-drop entries and
de-duplicate the two name lists.  The entries as the caller reads them are
those of `Slices.translatePolicy`. -/
def translatePolicy (u : Util) (npObj : NetworkPolicy) : Option Translation := do
  let st ← translatePolicyDirections u npObj
  let drops ← getDefaultDropEntries u npObj.Namespace npObj.PodSelector st.hasIngress st.hasEgress
  some { sets := UniqueStrSlice st.resultSets,
         lists := UniqueStrSlice st.resultLists,
         entries := st.entries ++ drops }

/-! ## Slices and their backing arrays

The direction compilers build many entries with `Specs: fragment` followed by
`append`, so the header of the entry and the fragment point to one backing
array.  `append` writes in place while the array has room and moves the slice
to a new array otherwise, and the caller of the translator reads every entry
after all of them have been built.  This section models the heap of backing
arrays and Go's `append` on it; the compilers on top of it are in the next
section.  The growth policy of `append` is not fixed by the language and is a
parameter (`Runtime`). -/

/-- What the language leaves to the runtime when `append` finds no room: the
capacity of the new array, from the length and the capacity of the old slice
and the number of elements the new one has to hold.  (`append` never allocates
less than that number, whatever the field says, see `goAppend`.) -/
structure Runtime where
  growslice : Nat → Nat → Nat → Nat

/-- The object sizes of the allocator of the gc runtime, in bytes
(`runtime/sizeclasses.go`). -/
def sizeClasses : List Nat :=
  [8, 16, 32, 48, 64, 80, 96, 112, 128, 144, 160, 176, 192, 208, 224, 240, 256,
   288, 320, 352, 384, 416, 448, 480, 512, 576, 640, 704, 768, 896, 1024, 1152, 1280, 1408,
   1536, 1792, 2048, 2304, 2688, 3072, 3200, 3456, 4096, 4864, 5120, 5376, 6144, 6528, 6784,
   6912, 8192, 9472, 9728, 10240, 10880, 12288, 13568, 14336, 16384, 18432, 19072, 20480,
   21760, 24576, 27264, 28672, 32768]

/-- The function `runtime.roundupsize` of the gc runtime: the size of the
memory block the allocator hands out for a request of `size` bytes (a size
class for a small request, whole pages of 8192 bytes otherwise). -/
def roundupsize (size : Nat) : Nat :=
  if size < 32768 - 8 then (sizeClasses.find? (fun c => decide (size ≤ c))).getD size
  else (size + 8191) / 8192 * 8192

/-- The loop `for 0 < newcap && newcap < cap { newcap += newcap / 4 }` of
`runtime.growslice`; it ends within `cap` rounds. -/
def growLoop : Nat → Nat → Nat → Nat
  | 0, newcap, _ => newcap
  | fuel + 1, newcap, cap =>
    if 0 < newcap ∧ newcap < cap then growLoop fuel (newcap + newcap / 4) cap else newcap

/-- The function `runtime.growslice` of the gc runtime for a slice of strings
on a 64-bit platform (an element takes 16 bytes): twice the old capacity, or
the needed length when that is more (a quarter more at a time from 1024
elements on), rounded up to the size of the memory block. -/
def gcGrowslice (oldLen oldCap needed : Nat) : Nat :=
  let doublecap := oldCap + oldCap
  let newcap :=
    if needed > doublecap then needed
    else if oldLen < 1024 then doublecap
    else growLoop needed oldCap needed
  roundupsize (newcap * 16) / 16

/-- The gc runtime. -/
def gcRuntime : Runtime := { growslice := gcGrowslice }

/-- The backing arrays allocated so far; an array is the list of its cells,
one for every element of its capacity. -/
abbrev Heap := List (List String)

/-- A slice header: the backing array (its position in the heap) and the
length.  Every slice of the translator starts at the first cell of its array,
so its capacity is the number of cells of the array. -/
structure Slice where
  array : Nat
  len : Nat
deriving DecidableEq, Repr

/-- The cells of the backing array of a slice. -/
def Slice.cells (s : Slice) (h : Heap) : List String := h.getD s.array []

/-- Go: `cap(s)`. -/
def Slice.cap (s : Slice) (h : Heap) : Nat := (s.cells h).length

/-- The elements of a slice: the first `len` cells of its array. -/
def Slice.read (s : Slice) (h : Heap) : List String := (s.cells h).take s.len

/-- A composite literal `[]string{…}` (and the nil slice, for `cells = []`): a
new array that holds the elements and nothing else. -/
def alloc (h : Heap) (cells : List String) : Heap × Slice :=
  (h ++ [cells], { array := h.length, len := cells.length })

/-- Go: `append(s, xs...)`.  Without elements to add the slice comes back as it
is.  With room in the array the elements are written into the cells behind the
slice and the new header points to the same array; otherwise a new array of the
capacity the runtime chooses takes the elements of the slice followed by the
new ones. -/
def goAppend (rt : Runtime) (h : Heap) (s : Slice) (xs : List String) : Heap × Slice :=
  if xs.length = 0 then (h, s)
  else if s.len + xs.length ≤ s.cap h then
    (h.set s.array
      ((s.cells h).take s.len ++ xs ++ (s.cells h).drop (s.len + xs.length)),
     { s with len := s.len + xs.length })
  else
    (h ++ [s.read h ++ xs ++
        List.replicate
          (max (s.len + xs.length) (rt.growslice s.len (s.cap h) (s.len + xs.length)) -
            (s.len + xs.length)) ""],
     { array := h.length, len := s.len + xs.length })

/-- Successive calls `s = append(s, xs...)`, one for every list of `xss`. -/
def appendAll (rt : Runtime) (h : Heap) (s : Slice) : List (List String) → Heap × Slice
  | [] => (h, s)
  | xs :: xss => appendAll rt (goAppend rt h s xs).1 (goAppend rt h s xs).2 xss

/-- How a fragment comes into being: a composite literal (`literal = []` for
`var spec []string` and for `[]string{}`) followed by the calls of `append`
that extend it.  The capacity of the fragment depends on both. -/
structure Fragment where
  literal : List String
  appends : List (List String)
deriving DecidableEq, Repr

/-- The tokens of a fragment. -/
def Fragment.tokens (f : Fragment) : List String := f.literal ++ f.appends.flatten

/-- The fragment as a slice of the heap. -/
def Fragment.make (rt : Runtime) (h : Heap) (f : Fragment) : Heap × Slice :=
  appendAll rt (alloc h f.literal).1 (alloc h f.literal).2 f.appends

/-- The nil slice, the zero value of the field `Specs`. -/
def Fragment.nil : Fragment := { literal := [], appends := [] }

/-- One entry under construction: its chain and the arguments of the calls
`entry.Specs = append(entry.Specs, …)`, in order. -/
structure Build where
  Chain : String
  appends : List (List String)
deriving DecidableEq, Repr

/-- One step of a direction compiler that builds entries.

* `onTarget`: an entry that starts as `Specs: targetSelectorIptEntrySpec`.
* `onFragment`: entries that start on a slice made for them: the nil slice,
  the result of `craftPartialIptEntrySpecFromPort`, or the fragment of a peer
  (one fragment for all the entries of its loop over the ports).

`toSide` tells whether the entries go to the side buffer (`fromRuleEntries`,
`toRuleEntries`) or to `entries`. -/
inductive Step where
  | onTarget (toSide : Bool) (b : Build)
  | onFragment (toSide : Bool) (f : Fragment) (bs : List Build)
deriving DecidableEq, Repr

/-- An entry as the translator holds it: the chain and the slice header. -/
structure Built where
  toSide : Bool
  Chain : String
  Specs : Slice
deriving DecidableEq, Repr

/-- Build entries one after the other, each starting on the slice `start`. -/
def runBuilds (rt : Runtime) (toSide : Bool) (start : Slice) :
    Heap → List Build → Heap × List Built
  | h, [] => (h, [])
  | h, b :: bs =>
    ((runBuilds rt toSide start (appendAll rt h start b.appends).1 bs).1,
     { toSide := toSide, Chain := b.Chain, Specs := (appendAll rt h start b.appends).2 } ::
       (runBuilds rt toSide start (appendAll rt h start b.appends).1 bs).2)

/-- Run one step on the heap. -/
def runStep (rt : Runtime) (target : Slice) (h : Heap) : Step → Heap × List Built
  | .onTarget toSide b => runBuilds rt toSide target h [b]
  | .onFragment toSide f bs => runBuilds rt toSide (f.make rt h).2 (f.make rt h).1 bs

/-- Run the steps in the order of the program. -/
def runSteps (rt : Runtime) (target : Slice) : Heap → List Step → Heap × List Built
  | h, [] => (h, [])
  | h, s :: ss =>
    ((runSteps rt target (runStep rt target h s).1 ss).1,
     (runStep rt target h s).2 ++ (runSteps rt target (runStep rt target h s).1 ss).2)

/-- The entry the caller reads once the translator has returned. -/
def Built.entry (h : Heap) (b : Built) : IptEntry :=
  { Chain := b.Chain, Specs := b.Specs.read h }

/-- The entries a direction returns: the target fragment is made, the steps of
the loop over the rules run, then the closing steps; the result lists the
entries of the loop, the side buffer behind the others (`entries =
append(entries, fromRuleEntries...)`), then the closing entries, each read
from the heap as it is in the end. -/
def returnedEntries (rt : Runtime) (targetFragment : Fragment) (steps closing : List Step) :
    List IptEntry :=
  let target := targetFragment.make rt []
  let loop := runSteps rt target.2 target.1 steps
  let last := runSteps rt target.2 loop.1 closing
  (loop.2.filter (fun b => !b.toSide) ++ loop.2.filter (fun b => b.toSide) ++ last.2).map
    (Built.entry last.1)

/-! ## Direction compilers on slices

The translator once more, with every entry given by the slice it starts on and
by its calls of `append`.  Sets, lists, chains and flags are those of the
section `Direction compilers`; the tokens an entry is given are the same too
(`Step.values`), what differs is that an entry left on a shared array is read
with the cells later entries have written. -/

/-- Go: `craftPartialIptEntrySpecFromPort`: `partialSpec := []string{}` and one
`append` for the protocol, one for the port. -/
def Slices.craftPartialIptEntrySpecFromPort (portRule : NetworkPolicyPort)
    (sPortOrDPortFlag : String) : Fragment :=
  { literal := [],
    appends :=
      (match portRule.Protocol with
        | some protocol => [[IptablesProtFlag, protocol]]
        | none => []) ++
      (match portRule.Port with
        | some port => [[sPortOrDPortFlag, port.text]]
        | none => []) }

/-- Go: `craftPartialIptEntrySpecFromOpsAndLabels`: a composite literal for the
empty selector, otherwise `var spec []string` and one `append` for every
operator and label. -/
def Slices.craftPartialIptEntrySpecFromOpsAndLabels (u : Util) (ns : String)
    (ops labels : List String) (srcOrDstFlag : String) (isNamespaceSelector : Bool) :
    Option Fragment :=
  if ops = [""] ∧ labels = [""] then
    if !isNamespaceSelector then
      some { literal := [IptablesModuleFlag, IptablesSetModuleFlag, IptablesMatchSetFlag,
                         GetHashedName u ("ns-" ++ ns), srcOrDstFlag],
             appends := [] }
    else
      some { literal := [IptablesModuleFlag, IptablesSetModuleFlag, IptablesMatchSetFlag,
                         GetHashedName u KubeAllNamespacesFlag, srcOrDstFlag],
             appends := [] }
  else if labels.length < ops.length then
    none
  else
    some { literal := [],
           appends := List.zipWith
             (fun op label =>
               craftPartialIptEntrySpecFromOpAndLabel u op label srcOrDstFlag isNamespaceSelector)
             ops labels }

/-- Go: `craftPartialIptEntrySpecFromSelector`. -/
def Slices.craftPartialIptEntrySpecFromSelector (u : Util) (ns : String)
    (selector : Option LabelSelector) (srcOrDstFlag : String) (isNamespaceSelector : Bool) :
    Option Fragment :=
  Slices.craftPartialIptEntrySpecFromOpsAndLabels u ns (parsedOps u selector)
    (parsedLabels u selector) srcOrDstFlag isNamespaceSelector

/-- The local variables of `translateIngress` / `translateEgress` that the
loops update, with the entries given by the steps that build them, in the
order of the program. -/
structure Slices.LoopState where
  sets : List String
  lists : List String
  steps : List Step
  addedPeerEntry : Bool
  addedPortEntry : Bool
deriving DecidableEq, Repr

/-- Go: `translateIngress`, the body of `for _, fromRule := range rule.From`
for one peer (source lines 244-551). -/
def Slices.ingressPeer (u : Util) (ns : String) (targetSelectorIptEntrySpec : List String)
    (targetSelectorComment : String) (ports : List NetworkPolicyPort) (portRuleExists : Bool)
    (st : Slices.LoopState) (fromRule : NetworkPolicyPeer) : Option Slices.LoopState :=
  match fromRule.IPBlock with
  | some ipBlock =>
    let st1 :=
      if ipBlock.Except.length > 0 then
        { st with
          steps := st.steps ++ ipBlock.Except.map (fun except =>
            Step.onFragment true Fragment.nil
              [{ Chain := IptablesAzureIngressFromChain,
                 appends := [[IptablesSFlag, except], targetSelectorIptEntrySpec,
                   jumpAndComment IptablesDrop
                     ("DROP-" ++ except ++ "-TO-" ++ targetSelectorComment)] }]),
          addedPeerEntry := true }
      else st
    if ipBlock.CIDR ≠ "" then
      if portRuleExists then
        some { st1 with
          steps := st1.steps ++ ports.map (fun portRule =>
            Step.onTarget true
              { Chain := IptablesAzureIngressPortChain,
                appends := [[IptablesSFlag, ipBlock.CIDR],
                  Npm.craftPartialIptEntrySpecFromPort portRule IptablesDstPortFlag,
                  jumpAndComment IptablesAccept
                    ("ALLOW-" ++ ipBlock.CIDR ++ "-:-" ++
                      craftPartialIptablesCommentFromPort portRule IptablesDstPortFlag ++
                      "-TO-" ++ targetSelectorComment)] }) }
      else
        some { st1 with
          steps := st1.steps ++
            [Step.onTarget true
              { Chain := IptablesAzureIngressFromChain,
                appends := [[IptablesSFlag, ipBlock.CIDR],
                  jumpAndComment IptablesAccept
                    ("ALLOW-" ++ ipBlock.CIDR ++ "-TO-" ++ targetSelectorComment)] }],
          addedPeerEntry := true }
    else some st1
  | none =>
    match fromRule.PodSelector, fromRule.NamespaceSelector with
    | none, none => some st
    | none, some nsSel => do
      let nsLabelsWithoutOps := parsedLabels u (some nsSel)
      let nsLabelsWithoutOps :=
        if nsLabelsWithoutOps = [""] then [KubeAllNamespacesFlag]
        else nsLabelsWithoutOps.map (fun l => "ns-" ++ l)
      let lists := st.lists ++ nsLabelsWithoutOps
      let iptPartNsSpec ←
        Slices.craftPartialIptEntrySpecFromSelector u ns (some nsSel) IptablesSrcFlag true
      let iptPartNsComment ← craftPartialIptablesCommentFromSelector u ns (some nsSel) true
      if portRuleExists then
        some { st with
          lists := lists,
          steps := st.steps ++ ports.map (fun portRule =>
            Step.onTarget false
              { Chain := IptablesAzureIngressPortChain,
                appends := [iptPartNsSpec.tokens,
                  Npm.craftPartialIptEntrySpecFromPort portRule IptablesDstPortFlag,
                  jumpAndComment IptablesAccept
                    ("ALLOW-" ++ iptPartNsComment ++ "-AND-" ++
                      craftPartialIptablesCommentFromPort portRule IptablesDstPortFlag ++
                      "-TO-" ++ targetSelectorComment)] }) }
      else
        some { st with
          lists := lists,
          steps := st.steps ++
            [Step.onFragment false iptPartNsSpec
              [{ Chain := IptablesAzureIngressFromChain,
                 appends := [targetSelectorIptEntrySpec,
                   jumpAndComment IptablesAccept
                     ("ALLOW-" ++ iptPartNsComment ++ "-TO-" ++ targetSelectorComment)] }]],
          addedPeerEntry := true }
    | some podSel, none => do
      let podLabelsWithoutOps := parsedLabels u (some podSel)
      let podLabelsWithoutOps :=
        if podLabelsWithoutOps = [""] then ["ns-" ++ ns] else podLabelsWithoutOps
      let sets := st.sets ++ podLabelsWithoutOps
      let iptPartPodSpec ←
        Slices.craftPartialIptEntrySpecFromSelector u ns (some podSel) IptablesSrcFlag false
      let iptPartPodComment ← craftPartialIptablesCommentFromSelector u ns (some podSel) false
      if portRuleExists then
        some { st with
          sets := sets,
          steps := st.steps ++ ports.map (fun portRule =>
            Step.onTarget false
              { Chain := IptablesAzureIngressPortChain,
                appends := [iptPartPodSpec.tokens,
                  Npm.craftPartialIptEntrySpecFromPort portRule IptablesDstPortFlag,
                  jumpAndComment IptablesAccept
                    ("ALLOW-" ++ iptPartPodComment ++ "-AND-" ++
                      craftPartialIptablesCommentFromPort portRule IptablesDstPortFlag ++
                      "-TO-" ++ targetSelectorComment)] }) }
      else
        some { st with
          sets := sets,
          steps := st.steps ++
            [Step.onFragment false iptPartPodSpec
              [{ Chain := IptablesAzureIngressFromChain,
                 appends := [targetSelectorIptEntrySpec,
                   jumpAndComment IptablesAccept
                     ("ALLOW-" ++ iptPartPodComment ++ "-TO-" ++ targetSelectorComment)] }]],
          addedPeerEntry := true }
    | some podSel, some nsSel =>
      if !u.IsNewNwPolicyVerFlag then some st
      else do
        let nsLabelsWithoutOps := (parsedLabels u (some nsSel)).map (fun l => "ns-" ++ l)
        let lists := st.lists ++ nsLabelsWithoutOps
        let podLabelsWithoutOps := parsedLabels u (some podSel)
        let sets := st.sets ++ podLabelsWithoutOps
        let iptPartNsSpec ←
          Slices.craftPartialIptEntrySpecFromSelector u ns (some nsSel) IptablesSrcFlag true
        let iptPartPodSpec ←
          Slices.craftPartialIptEntrySpecFromSelector u ns (some podSel) IptablesSrcFlag false
        let iptPartNsComment ← craftPartialIptablesCommentFromSelector u ns (some nsSel) true
        let iptPartPodComment ← craftPartialIptablesCommentFromSelector u ns (some podSel) false
        if portRuleExists then
          some { st with
            sets := sets,
            lists := lists,
            steps := st.steps ++
              [Step.onFragment false iptPartNsSpec (ports.map (fun portRule =>
                { Chain := IptablesAzureIngressPortChain,
                  appends := [iptPartPodSpec.tokens, targetSelectorIptEntrySpec,
                    Npm.craftPartialIptEntrySpecFromPort portRule IptablesDstPortFlag,
                    jumpAndComment IptablesAccept
                      ("ALLOW-" ++ iptPartNsComment ++ "-AND-" ++ iptPartPodComment ++
                        "-AND-" ++
                        craftPartialIptablesCommentFromPort portRule IptablesDstPortFlag ++
                        "-TO-" ++ targetSelectorComment)] }))] }
        else
          some { st with
            sets := sets,
            lists := lists,
            steps := st.steps ++
              [Step.onTarget false
                { Chain := IptablesAzureIngressFromChain,
                  appends := [iptPartNsSpec.tokens, iptPartPodSpec.tokens,
                    jumpAndComment IptablesAccept
                      ("ALLOW-" ++ iptPartNsComment ++ "-AND-" ++ iptPartPodComment ++
                        "-TO-" ++ targetSelectorComment)] }],
            addedPeerEntry := true }

/-- Go: `translateIngress`, the body of `for _, rule := range rules` for one
rule (source lines 169-571). -/
def Slices.ingressRule (u : Util) (ns : String) (targetSelectorIptEntrySpec : List String)
    (targetSelectorComment : String) (st : Slices.LoopState) (rule : NetworkPolicyIngressRule) :
    Option Slices.LoopState :=
  let portRuleExists : Bool := decide (rule.Ports.length > 0)
  let st := { st with addedPortEntry := st.addedPortEntry || portRuleExists }
  let allowExternal : Bool :=
    match rule.From with
    | some peers => decide (peers.length = 0)
    | none => false
  let fromRuleExists : Bool :=
    match rule.From with
    | some peers => decide (peers.length = 0) || peerExists peers
    | none => false
  if !portRuleExists && !fromRuleExists && !allowExternal then
    some { st with
      steps := st.steps ++
        [Step.onFragment false Fragment.nil
          [{ Chain := IptablesAzureIngressPortChain,
             appends := [[IptablesModuleFlag, IptablesSetModuleFlag, IptablesMatchSetFlag,
                          GetHashedName u KubeAllNamespacesFlag, IptablesSrcFlag],
               targetSelectorIptEntrySpec,
               jumpAndComment IptablesAccept
                 ("ALLOW-ALL-TO-" ++ targetSelectorComment ++ "-FROM-" ++
                   KubeAllNamespacesFlag)] }]],
      lists := st.lists ++ [KubeAllNamespacesFlag] }
  else if portRuleExists && !fromRuleExists && !allowExternal then
    some { st with
      steps := st.steps ++ rule.Ports.map (fun portRule =>
        Step.onFragment false
          (Slices.craftPartialIptEntrySpecFromPort portRule IptablesDstPortFlag)
          [{ Chain := IptablesAzureIngressPortChain,
             appends := [targetSelectorIptEntrySpec,
               jumpAndComment IptablesAccept
                 ("ALLOW-ALL-" ++
                   craftPartialIptablesCommentFromPort portRule IptablesDstPortFlag ++
                   "-TO-" ++ targetSelectorComment)] }]) }
  else do
    let st ← (rule.From.getD []).foldlM
      (Slices.ingressPeer u ns targetSelectorIptEntrySpec targetSelectorComment rule.Ports
        portRuleExists) st
    if allowExternal then
      some { st with
        steps := st.steps ++
          [Step.onTarget false
            { Chain := IptablesAzureIngressPortChain,
              appends :=
                [jumpAndComment IptablesAccept ("ALLOW-ALL-TO-" ++ targetSelectorComment)] }] }
    else some st

/-- Go: `translateIngress`, the entries built after the loop over the rules
(source lines 577-626). -/
def Slices.ingressClosing (targetSelectorComment : String) (st : Slices.LoopState) :
    List Step :=
  if st.addedPortEntry && !st.addedPeerEntry then
    [Step.onTarget false
      { Chain := IptablesAzureIngressPortChain,
        appends := [jumpAndComment IptablesAzureTargetSetsChain
          ("ALLOW-ALL-TO-" ++ targetSelectorComment ++ "-TO-JUMP-TO-" ++
            IptablesAzureTargetSetsChain)] }]
  else if st.addedPeerEntry then
    [Step.onTarget false
      { Chain := IptablesAzureIngressPortChain,
        appends := [jumpAndComment IptablesAzureIngressFromChain
          ("ALLOW-ALL-TO-" ++ targetSelectorComment ++ "-TO-JUMP-TO-" ++
            IptablesAzureIngressFromChain)] },
     Step.onTarget false
      { Chain := IptablesAzureIngressFromChain,
        appends := [jumpAndComment IptablesAzureTargetSetsChain
          ("ALLOW-ALL-TO-" ++ targetSelectorComment ++ "-TO-JUMP-TO-" ++
            IptablesAzureTargetSetsChain)] }]
  else []

/-- Go: `translateIngress`, with the entries as the caller reads them. -/
def Slices.translateIngress (rt : Runtime) (u : Util) (ns : String)
    (targetSelector : LabelSelector) (rules : List NetworkPolicyIngressRule) :
    Option Translation := do
  let (ops, labels) := targetOpsAndLabels u ns targetSelector
  let targetSelectorIptEntrySpec ←
    Slices.craftPartialIptEntrySpecFromOpsAndLabels u ns ops labels IptablesDstFlag false
  let targetSelectorComment ←
    craftPartialIptablesCommentFromSelector u ns (some targetSelector) false
  let st ← rules.foldlM
    (Slices.ingressRule u ns targetSelectorIptEntrySpec.tokens targetSelectorComment)
    { sets := labels, lists := [], steps := [],
      addedPeerEntry := false, addedPortEntry := false }
  some { sets := DropEmptyFields st.sets, lists := DropEmptyFields st.lists,
         entries := returnedEntries rt targetSelectorIptEntrySpec st.steps
           (Slices.ingressClosing targetSelectorComment st) }

/-- Go: `translateEgress`, the body of `for _, toRule := range rule.To` for one
peer (source lines 727-1037). -/
def Slices.egressPeer (u : Util) (ns : String) (targetSelectorIptEntrySpec : List String)
    (targetSelectorComment : String) (ports : List NetworkPolicyPort) (portRuleExists : Bool)
    (st : Slices.LoopState) (toRule : NetworkPolicyPeer) : Option Slices.LoopState :=
  match toRule.IPBlock with
  | some ipBlock =>
    let st1 :=
      if ipBlock.Except.length > 0 then
        { st with
          steps := st.steps ++ ipBlock.Except.map (fun except =>
            Step.onTarget true
              { Chain := IptablesAzureEgressToChain,
                appends := [[IptablesDFlag, except],
                  jumpAndComment IptablesDrop
                    ("DROP-" ++ except ++ "-FROM-" ++ targetSelectorComment)] }),
          addedPeerEntry := true }
      else st
    if ipBlock.CIDR ≠ "" then
      if portRuleExists then
        some { st1 with
          steps := st1.steps ++ ports.map (fun portRule =>
            Step.onFragment true
              (Slices.craftPartialIptEntrySpecFromPort portRule IptablesDstPortFlag)
              [{ Chain := IptablesAzureEgressPortChain,
                 appends := [targetSelectorIptEntrySpec, [IptablesDFlag, ipBlock.CIDR],
                   jumpAndComment IptablesAccept
                     ("ALLOW-" ++ ipBlock.CIDR ++ "-:-" ++
                       craftPartialIptablesCommentFromPort portRule IptablesDstPortFlag ++
                       "-FROM-" ++ targetSelectorComment)] }]) }
      else
        some { st1 with
          steps := st1.steps ++
            [Step.onFragment true Fragment.nil
              [{ Chain := IptablesAzureEgressToChain,
                 appends := [[IptablesDFlag, ipBlock.CIDR], targetSelectorIptEntrySpec,
                   jumpAndComment IptablesAccept
                     ("ALLOW-" ++ ipBlock.CIDR ++ "-FROM-" ++ targetSelectorComment)] }]],
          addedPeerEntry := true }
    else some st1
  | none =>
    match toRule.PodSelector, toRule.NamespaceSelector with
    | none, none => some st
    | none, some nsSel => do
      let nsLabelsWithoutOps := parsedLabels u (some nsSel)
      let nsLabelsWithoutOps :=
        if nsLabelsWithoutOps = [""] then [KubeAllNamespacesFlag]
        else nsLabelsWithoutOps.map (fun l => "ns-" ++ l)
      let lists := st.lists ++ nsLabelsWithoutOps
      let iptPartNsSpec ←
        Slices.craftPartialIptEntrySpecFromSelector u ns (some nsSel) IptablesDstFlag true
      let iptPartNsComment ← craftPartialIptablesCommentFromSelector u ns (some nsSel) true
      if portRuleExists then
        some { st with
          lists := lists,
          steps := st.steps ++
            [Step.onFragment false iptPartNsSpec (ports.map (fun portRule =>
              { Chain := IptablesAzureEgressPortChain,
                appends := [Npm.craftPartialIptEntrySpecFromPort portRule IptablesDstPortFlag,
                  targetSelectorIptEntrySpec,
                  jumpAndComment IptablesAccept
                    ("ALLOW-" ++ iptPartNsComment ++ "-AND-" ++
                      craftPartialIptablesCommentFromPort portRule IptablesDstPortFlag ++
                      "-FROM-" ++ targetSelectorComment)] }))] }
      else
        some { st with
          lists := lists,
          steps := st.steps ++
            [Step.onTarget false
              { Chain := IptablesAzureEgressToChain,
                appends := [iptPartNsSpec.tokens,
                  jumpAndComment IptablesAccept
                    ("ALLOW-" ++ targetSelectorComment ++ "-TO-" ++ iptPartNsComment)] }],
          addedPeerEntry := true }
    | some podSel, none => do
      let podLabelsWithoutOps := parsedLabels u (some podSel)
      let podLabelsWithoutOps :=
        if podLabelsWithoutOps = [""] then ["ns-" ++ ns] else podLabelsWithoutOps
      let sets := st.sets ++ podLabelsWithoutOps
      let iptPartPodSpec ←
        Slices.craftPartialIptEntrySpecFromSelector u ns (some podSel) IptablesDstFlag false
      let iptPartPodComment ← craftPartialIptablesCommentFromSelector u ns (some podSel) false
      if portRuleExists then
        some { st with
          sets := sets,
          steps := st.steps ++
            [Step.onFragment false iptPartPodSpec (ports.map (fun portRule =>
              { Chain := IptablesAzureEgressPortChain,
                appends := [Npm.craftPartialIptEntrySpecFromPort portRule IptablesDstPortFlag,
                  targetSelectorIptEntrySpec,
                  jumpAndComment IptablesAccept
                    ("ALLOW-" ++ iptPartPodComment ++ "-AND-" ++
                      craftPartialIptablesCommentFromPort portRule IptablesDstPortFlag ++
                      "-FROM-" ++ targetSelectorComment)] }))] }
      else
        some { st with
          sets := sets,
          steps := st.steps ++
            [Step.onTarget false
              { Chain := IptablesAzureEgressToChain,
                appends := [iptPartPodSpec.tokens,
                  jumpAndComment IptablesAccept
                    ("ALLOW-" ++ targetSelectorComment ++ "-TO-" ++ iptPartPodComment)] }],
          addedPeerEntry := true }
    | some podSel, some nsSel =>
      if !u.IsNewNwPolicyVerFlag then some st
      else do
        let nsLabelsWithoutOps := (parsedLabels u (some nsSel)).map (fun l => "ns-" ++ l)
        let lists := st.lists ++ nsLabelsWithoutOps
        let podLabelsWithoutOps := parsedLabels u (some podSel)
        let sets := st.sets ++ podLabelsWithoutOps
        let iptPartNsSpec ←
          Slices.craftPartialIptEntrySpecFromSelector u ns (some nsSel) IptablesDstFlag true
        let iptPartPodSpec ←
          Slices.craftPartialIptEntrySpecFromSelector u ns (some podSel) IptablesDstFlag false
        let iptPartNsComment ← craftPartialIptablesCommentFromSelector u ns (some nsSel) true
        let iptPartPodComment ← craftPartialIptablesCommentFromSelector u ns (some podSel) false
        if portRuleExists then
          some { st with
            sets := sets,
            lists := lists,
            steps := st.steps ++ ports.map (fun portRule =>
              Step.onTarget false
                { Chain := IptablesAzureEgressPortChain,
                  appends := [iptPartNsSpec.tokens, iptPartPodSpec.tokens,
                    Npm.craftPartialIptEntrySpecFromPort portRule IptablesDstPortFlag,
                    jumpAndComment IptablesAccept
                      ("ALLOW-" ++ targetSelectorComment ++ "-TO-" ++ iptPartNsComment ++
                        "-AND-" ++ iptPartPodComment ++ "-AND-" ++
                        craftPartialIptablesCommentFromPort portRule IptablesDstPortFlag)] }) }
        else
          some { st with
            sets := sets,
            lists := lists,
            steps := st.steps ++
              [Step.onTarget false
                { Chain := IptablesAzureEgressToChain,
                  appends := [iptPartNsSpec.tokens, iptPartPodSpec.tokens,
                    jumpAndComment IptablesAccept
                      ("ALLOW-" ++ targetSelectorComment ++ "-TO-" ++ iptPartNsComment ++
                        "-AND-" ++ iptPartPodComment)] }],
            addedPeerEntry := true }

/-- Go: `translateEgress`, the body of `for _, rule := range rules` for one rule
(source lines 655-1058). -/
def Slices.egressRule (u : Util) (ns : String) (targetSelectorIptEntrySpec : List String)
    (targetSelectorComment : String) (st : Slices.LoopState) (rule : NetworkPolicyEgressRule) :
    Option Slices.LoopState :=
  let portRuleExists : Bool := decide (rule.Ports.length > 0)
  let st := { st with addedPortEntry := st.addedPortEntry || portRuleExists }
  let allowExternal : Bool :=
    match rule.To with
    | some peers => decide (peers.length = 0)
    | none => false
  let toRuleExists : Bool :=
    match rule.To with
    | some peers => decide (peers.length = 0) || peerExists peers
    | none => false
  if !portRuleExists && !toRuleExists && !allowExternal then
    some { st with
      steps := st.steps ++
        [Step.onTarget false
          { Chain := IptablesAzureEgressPortChain,
            appends := [[IptablesModuleFlag, IptablesSetModuleFlag, IptablesMatchSetFlag,
                         GetHashedName u KubeAllNamespacesFlag, IptablesDstFlag] ++
              jumpAndComment IptablesAccept
                ("ALLOW-ALL-FROM-" ++ targetSelectorComment ++ "-TO-" ++
                  KubeAllNamespacesFlag)] }],
      lists := st.lists ++ [KubeAllNamespacesFlag] }
  else if portRuleExists && !toRuleExists && !allowExternal then
    some { st with
      steps := st.steps ++ rule.Ports.map (fun portRule =>
        Step.onFragment false
          (Slices.craftPartialIptEntrySpecFromPort portRule IptablesDstPortFlag)
          [{ Chain := IptablesAzureEgressPortChain,
             appends := [targetSelectorIptEntrySpec,
               jumpAndComment IptablesAccept
                 ("ALLOW-ALL-TO-" ++
                   craftPartialIptablesCommentFromPort portRule IptablesDstPortFlag ++
                   "-FROM-" ++ targetSelectorComment)] }]) }
  else do
    let st ← (rule.To.getD []).foldlM
      (Slices.egressPeer u ns targetSelectorIptEntrySpec targetSelectorComment rule.Ports
        portRuleExists) st
    if allowExternal then
      some { st with
        steps := st.steps ++
          [Step.onTarget false
            { Chain := IptablesAzureEgressPortChain,
              appends :=
                [jumpAndComment IptablesAccept
                  ("ALLOW-ALL-FROM-" ++ targetSelectorComment)] }],
        addedPortEntry := true }
    else some st

/-- Go: `translateEgress`, the entries built after the loop over the rules
(source lines 1064-1113). -/
def Slices.egressClosing (targetSelectorComment : String) (st : Slices.LoopState) :
    List Step :=
  if st.addedPortEntry && !st.addedPeerEntry then
    [Step.onTarget false
      { Chain := IptablesAzureEgressPortChain,
        appends := [jumpAndComment IptablesAzureTargetSetsChain
          ("ALLOW-ALL-FROM-" ++ targetSelectorComment ++ "-TO-JUMP-TO-" ++
            IptablesAzureTargetSetsChain)] }]
  else if st.addedPeerEntry then
    [Step.onTarget false
      { Chain := IptablesAzureEgressPortChain,
        appends := [jumpAndComment IptablesAzureEgressToChain
          ("ALLOW-ALL-FROM-" ++ targetSelectorComment ++ "-TO-JUMP-TO-" ++
            IptablesAzureEgressToChain)] },
     Step.onTarget false
      { Chain := IptablesAzureEgressToChain,
        appends := [jumpAndComment IptablesAzureTargetSetsChain
          ("ALLOW-ALL-FROM-" ++ targetSelectorComment ++ "-TO-JUMP-TO-" ++
            IptablesAzureTargetSetsChain)] }]
  else []

/-- Go: `translateEgress`, with the entries as the caller reads them. -/
def Slices.translateEgress (rt : Runtime) (u : Util) (ns : String)
    (targetSelector : LabelSelector) (rules : List NetworkPolicyEgressRule) :
    Option Translation := do
  let (ops, labels) := targetOpsAndLabels u ns targetSelector
  let targetSelectorIptEntrySpec ←
    Slices.craftPartialIptEntrySpecFromOpsAndLabels u ns ops labels IptablesSrcFlag false
  let targetSelectorComment ←
    craftPartialIptablesCommentFromSelector u ns (some targetSelector) false
  let st ← rules.foldlM
    (Slices.egressRule u ns targetSelectorIptEntrySpec.tokens targetSelectorComment)
    { sets := labels, lists := [], steps := [],
      addedPeerEntry := false, addedPortEntry := false }
  some { sets := DropEmptyFields st.sets, lists := DropEmptyFields st.lists,
         entries := returnedEntries rt targetSelectorIptEntrySpec st.steps
           (Slices.egressClosing targetSelectorComment st) }

/-- Go: `translatePolicy`, the body of `for _, ptype := range npObj.Spec.PolicyTypes`
for one policy type (source lines 1222-1252). -/
def Slices.policyTypeStep (rt : Runtime) (u : Util) (npObj : NetworkPolicy) (st : PolicyState)
    (ptype : String) : Option PolicyState := do
  let st ←
    if ptype = PolicyTypeIngress then do
      let ingress ←
        Slices.translateIngress rt u npObj.Namespace npObj.PodSelector npObj.Ingress
      let degenerate : Bool :=
        match npObj.Ingress with
        | [rule] => decide (rule.Ports.length = 0) && decide ((rule.From.getD []).length = 0)
        | _ => false
      some { st with
        resultSets := st.resultSets ++ ingress.sets,
        resultLists := st.resultLists ++ ingress.lists,
        entries := st.entries ++ ingress.entries,
        hasIngress := !degenerate }
    else some st
  if ptype = PolicyTypeEgress then do
    let egress ← Slices.translateEgress rt u npObj.Namespace npObj.PodSelector npObj.Egress
    let degenerate : Bool :=
      match npObj.Egress with
      | [rule] => decide (rule.Ports.length = 0) && decide ((rule.To.getD []).length = 0)
      | _ => false
    some { st with
      resultSets := st.resultSets ++ egress.sets,
      resultLists := st.resultLists ++ egress.lists,
      entries := st.entries ++ egress.entries,
      hasEgress := !degenerate }
  else some st

/-- Go: `translatePolicy` up to, and without, the call of
`getDefaultDropEntries`. -/
def Slices.translatePolicyDirections (rt : Runtime) (u : Util) (npObj : NetworkPolicy) :
    Option PolicyState :=
  if npObj.PolicyTypes.length = 0 then do
    let ingress ← Slices.translateIngress rt u npObj.Namespace npObj.PodSelector npObj.Ingress
    let egress ← Slices.translateEgress rt u npObj.Namespace npObj.PodSelector npObj.Egress
    some { resultSets := ingress.sets ++ egress.sets,
           resultLists := ingress.lists ++ egress.lists,
           entries := ingress.entries ++ egress.entries,
           hasIngress := decide (ingress.sets.length > 0),
           hasEgress := decide (egress.sets.length > 0) }
  else
    npObj.PolicyTypes.foldlM (Slices.policyTypeStep rt u npObj)
      { resultSets := [], resultLists := [], entries := [],
        hasIngress := false, hasEgress := false }

/-- Go: `translatePolicy`, with the entries as the caller reads them.  The two
entries of `getDefaultDropEntries` start on fragments made for them alone
(source lines 1132-1133), so they are read as they were built. -/
def Slices.translatePolicy (rt : Runtime) (u : Util) (npObj : NetworkPolicy) :
    Option Translation := do
  let st ← Slices.translatePolicyDirections rt u npObj
  let drops ← getDefaultDropEntries u npObj.Namespace npObj.PodSelector st.hasIngress st.hasEgress
  some { sets := UniqueStrSlice st.resultSets,
         lists := UniqueStrSlice st.resultLists,
         entries := st.entries ++ drops }

/-! ## The baremetal configuration source (ipam/baremetal.go) -/

/-- The platform the ipam package runs on and the constants of the package
that are not among the sources at hand: `runtime.GOOS`, the constant `windows`
and the two default paths of the configuration file. -/
structure Platform where
  GOOS : String
  windows : String
  defaultWindowsFilePath : String
  defaultLinuxFilePath : String
deriving DecidableEq, Repr

/-- Go: the constant `envname`. -/
def envname : String := "baremetal"

/-- Go: `baremetalSource`.  `sink` holds an interface value (`none` is nil);
a field the constructor leaves out has the zero value of its type. -/
structure baremetalSource (σ : Type) where
  name : String
  sink : Option σ
  fileLoaded : Bool
  filePath : String
deriving DecidableEq, Repr

/-- Go: `newBaremetalSource`.  The result is the pair of the source and the
error (`none` is nil); the options are a map from names to values of any
type. -/
def newBaremetalSource {σ β : Type} (platform : Platform) (_options : List (String × β)) :
    baremetalSource σ × Option String :=
  let filePath :=
    if platform.GOOS = platform.windows then platform.defaultWindowsFilePath
    else platform.defaultLinuxFilePath
  ({ name := envname, sink := none, fileLoaded := false, filePath := filePath }, none)

/-- Go: `start`. -/
def baremetalSource.start {σ : Type} (source : baremetalSource σ) (sink : σ) :
    baremetalSource σ × Option String :=
  ({ source with sink := some sink }, none)

/-- Go: `stop`. -/
def baremetalSource.stop {σ : Type} (source : baremetalSource σ) : baremetalSource σ :=
  { source with sink := none }

/-! ## Auxiliary definitions for the statements -/

/-- The state in which nothing has been emitted. -/
def LoopState.empty : LoopState :=
  { sets := [], lists := [], entries := [], peerEntries := [],
    addedPeerEntry := false, addedPortEntry := false }

/-- What a piece of a loop adds, put after what was there before. -/
def LoopState.append (a b : LoopState) : LoopState :=
  { sets := a.sets ++ b.sets, lists := a.lists ++ b.lists,
    entries := a.entries ++ b.entries, peerEntries := a.peerEntries ++ b.peerEntries,
    addedPeerEntry := a.addedPeerEntry || b.addedPeerEntry,
    addedPortEntry := a.addedPortEntry || b.addedPortEntry }

/-- The state `translateIngress` and `translateEgress` start their loop from:
the labels of the target are already in `sets`. -/
def LoopState.init (labels : List String) : LoopState :=
  { sets := labels, lists := [], entries := [], peerEntries := [],
    addedPeerEntry := false, addedPortEntry := false }

/-- Every entry emitted so far, in the main list or in the side buffer, has
the property `P`. -/
def LoopState.All (P : IptEntry → Prop) (d : LoopState) : Prop :=
  (∀ e ∈ d.entries, P e) ∧ (∀ e ∈ d.peerEntries, P e)

/-- The directions `translatePolicy` translates, in the order in which it
translates them: ingress then egress when `PolicyTypes` is empty, otherwise
one direction for every `Ingress` or `Egress` of `PolicyTypes`. -/
def translatedDirections (npObj : NetworkPolicy) : List String :=
  if npObj.PolicyTypes.length = 0 then [PolicyTypeIngress, PolicyTypeEgress]
  else npObj.PolicyTypes.filter (fun t => t = PolicyTypeIngress ∨ t = PolicyTypeEgress)

/-- The translation of one direction of a policy. -/
def translateDirection (u : Util) (npObj : NetworkPolicy) (dir : String) :
    Option Translation :=
  if dir = PolicyTypeIngress then
    translateIngress u npObj.Namespace npObj.PodSelector npObj.Ingress
  else translateEgress u npObj.Namespace npObj.PodSelector npObj.Egress

/-- The ingress rule list is exactly one rule with no ports and no peers
(source lines 1228-1231). -/
def ingressDegenerate (npObj : NetworkPolicy) : Bool :=
  match npObj.Ingress with
  | [rule] => decide (rule.Ports.length = 0) && decide ((rule.From.getD []).length = 0)
  | _ => false

/-- The egress rule list is exactly one rule with no ports and no peers
(source lines 1244-1247). -/
def egressDegenerate (npObj : NetworkPolicy) : Bool :=
  match npObj.Egress with
  | [rule] => decide (rule.Ports.length = 0) && decide ((rule.To.getD []).length = 0)
  | _ => false

/-- What `a` holds is held by `b`: the entries of `a` are a block of
consecutive entries of `b`, in the main list and in the side buffer, and the
names of `a` are names of `b`. -/
def LoopState.Within (a b : LoopState) : Prop :=
  a.entries <:+: b.entries ∧ a.peerEntries <:+: b.peerEntries ∧
    (∀ x ∈ a.sets, x ∈ b.sets) ∧ (∀ x ∈ a.lists, x ∈ b.lists)

/-- The parser gives at least one label for every selector that has a label or
an expression. -/
def ParserNonempty (u : Util) : Prop :=
  ∀ sel : LabelSelector, ¬ (sel.MatchExpressions.length = 0 ∧ sel.MatchLabels.length = 0) →
    u.GetOperatorsAndLabels (u.parseSelector (some sel)) ≠ []

/-- An entry of the ingress direction sits on the Ingress-Port or the
Ingress-From chain. -/
def IngressChain (e : IptEntry) : Prop :=
  e.Chain = IptablesAzureIngressPortChain ∨ e.Chain = IptablesAzureIngressFromChain

/-- An entry of the egress direction sits on the Egress-Port or the Egress-To
chain. -/
def EgressChain (e : IptEntry) : Prop :=
  e.Chain = IptablesAzureEgressPortChain ∨ e.Chain = IptablesAzureEgressToChain

/-- The entry holds the two consecutive tokens `-j target`. -/
def jumpsTo (target : String) (e : IptEntry) : Prop :=
  [IptablesJumpFlag, target] <:+: e.Specs

/-- The entry holds the two consecutive tokens `flag cidr` (`flag` is `-s` or
`-d`). -/
def matchesCidr (flag cidr : String) (e : IptEntry) : Prop :=
  [flag, cidr] <:+: e.Specs

/-- The ordering of claim C3 for one ipBlock and one list of entries: every
DROP entry that matches one of the except CIDRs comes before every ACCEPT entry
that matches the parent cidr. -/
def ExceptDropsBeforeAccepts (flag : String) (block : IPBlock) (entries : List IptEntry) :
    Prop :=
  ∀ (i j : Nat) (ei ej : IptEntry) (except : String), except ∈ block.Except →
    entries[i]? = some ei → entries[j]? = some ej →
    matchesCidr flag except ei → jumpsTo IptablesDrop ei →
    matchesCidr flag block.CIDR ej → jumpsTo IptablesAccept ej → i < j

/-- The parser hands the single pair `("", "")` back for a selector without
labels and without expressions (spec §4.1). -/
def ParserSentinel (u : Util) : Prop :=
  ∀ sel : LabelSelector, sel.MatchLabels = [] → sel.MatchExpressions = [] →
    u.GetOperatorsAndLabels (u.parseSelector (some sel)) = [("", "")]

/-- The match of one set, `-m set --match-set <hashed name> <flag>`. -/
def matchSet (u : Util) (name flag : String) : List String :=
  [IptablesModuleFlag, IptablesSetModuleFlag, IptablesMatchSetFlag, GetHashedName u name, flag]

/-- The selector without labels and without expressions. -/
def emptySelector : LabelSelector := { MatchLabels := [], MatchExpressions := [] }

/-- The policy of namespace `ns` with the empty pod selector, no rules and no
policy types. -/
def emptyPolicy (ns : String) : NetworkPolicy :=
  { Namespace := ns, PodSelector := emptySelector, Ingress := [], Egress := [],
    PolicyTypes := [] }

/-- A family of properties of the tokens of an entry that every way of
assembling an entry preserves: `A` of the match tokens (kept by concatenation),
`B` of the jump target (held by the five targets), `K` of the comment (held by
the texts a comment starts with, and kept when a part with `Kp` is appended),
`Kp` of the parts of a comment (held by the fixed texts between the parts). -/
structure TokenProps (A : List String → Prop) (B K Kp : String → Prop) : Prop where
  A_append : ∀ a b, A a → A b → A (a ++ b)
  K_append : ∀ a b, K a → Kp b → K (a ++ b)
  B_accept : B IptablesAccept
  B_drop : B IptablesDrop
  B_from : B IptablesAzureIngressFromChain
  B_to : B IptablesAzureEgressToChain
  B_targetSets : B IptablesAzureTargetSetsChain
  K_allow : K "ALLOW-"
  K_allowAll : K "ALLOW-ALL-"
  K_allowAllTo : K "ALLOW-ALL-TO-"
  K_allowAllFrom : K "ALLOW-ALL-FROM-"
  K_drop : K "DROP-"
  K_dropAllTo : K "DROP-ALL-TO-"
  K_dropAllFrom : K "DROP-ALL-FROM-"
  Kp_to : Kp "-TO-"
  Kp_from : Kp "-FROM-"
  Kp_and : Kp "-AND-"
  Kp_colon : Kp "-:-"
  Kp_jump : Kp "-TO-JUMP-TO-"
  Kp_allNamespaces : Kp KubeAllNamespacesFlag
  Kp_ingressFrom : Kp IptablesAzureIngressFromChain
  Kp_egressTo : Kp IptablesAzureEgressToChain
  Kp_targetSets : Kp IptablesAzureTargetSetsChain

/-- The specs of the entry are match tokens with `A`, then `-j T` with `B T`,
then `-m comment --comment c` with `K c`. -/
def EntryOK (A : List String → Prop) (B K : String → Prop) (e : IptEntry) : Prop :=
  ∃ m T c, e.Specs = m ++ jumpAndComment T c ∧ A m ∧ B T ∧ K c

/-- The fragment and the comment of a port have `A` and `Kp`. -/
def PortOK (A : List String → Prop) (Kp : String → Prop) (port : NetworkPolicyPort) : Prop :=
  A (craftPartialIptEntrySpecFromPort port IptablesDstPortFlag) ∧
    Kp (craftPartialIptablesCommentFromPort port IptablesDstPortFlag)

/-- The fragment and the comment of a selector have `A` and `Kp`. -/
def SelectorOK (A : List String → Prop) (Kp : String → Prop) (u : Util) (ns : String)
    (sel : LabelSelector) (flag : String) (isNs : Bool) : Prop :=
  (∀ spec, craftPartialIptEntrySpecFromSelector u ns (some sel) flag isNs = some spec → A spec) ∧
    (∀ c, craftPartialIptablesCommentFromSelector u ns (some sel) isNs = some c → Kp c)

/-- The tokens a peer contributes have `A` and `Kp`: the match of its cidr
when it has one, the match of every except CIDR, the fragments and comments of
its selectors.  `cidrFlag` is `-s` or `-d`, `flag` is `src` or `dst`. -/
def PeerOK (A : List String → Prop) (Kp : String → Prop) (u : Util) (ns : String)
    (cidrFlag flag : String) (peer : NetworkPolicyPeer) : Prop :=
  (∀ block, peer.IPBlock = some block →
    (block.CIDR ≠ "" → A [cidrFlag, block.CIDR] ∧ Kp block.CIDR) ∧
    (∀ x ∈ block.Except, A [cidrFlag, x] ∧ Kp x)) ∧
  (∀ sel, peer.PodSelector = some sel → SelectorOK A Kp u ns sel flag false) ∧
  (∀ sel, peer.NamespaceSelector = some sel → SelectorOK A Kp u ns sel flag true)

/-- The ports and the peers of an ingress rule have `A` and `Kp`. -/
def IngressRuleOK (A : List String → Prop) (Kp : String → Prop) (u : Util) (ns : String)
    (rule : NetworkPolicyIngressRule) : Prop :=
  (∀ port ∈ rule.Ports, PortOK A Kp port) ∧
    (∀ peer ∈ rule.From.getD [], PeerOK A Kp u ns IptablesSFlag IptablesSrcFlag peer)

/-- The ports and the peers of an egress rule have `A` and `Kp`. -/
def EgressRuleOK (A : List String → Prop) (Kp : String → Prop) (u : Util) (ns : String)
    (rule : NetworkPolicyEgressRule) : Prop :=
  (∀ port ∈ rule.Ports, PortOK A Kp port) ∧
    (∀ peer ∈ rule.To.getD [], PeerOK A Kp u ns IptablesDFlag IptablesDstFlag peer)

/-- Everything a policy contributes to its entries has `A` and `Kp`: the
target fragment for either flag, the target comment, the match of the set of
all namespaces for either flag, and the ports and peers of every rule. -/
def PolicyOK (A : List String → Prop) (Kp : String → Prop) (u : Util)
    (npObj : NetworkPolicy) : Prop :=
  (∀ flag tS, flag = IptablesDstFlag ∨ flag = IptablesSrcFlag →
    craftPartialIptEntrySpecFromOpsAndLabels u npObj.Namespace
      (targetOpsAndLabels u npObj.Namespace npObj.PodSelector).1
      (targetOpsAndLabels u npObj.Namespace npObj.PodSelector).2 flag false = some tS → A tS) ∧
  (∀ tC, craftPartialIptablesCommentFromSelector u npObj.Namespace (some npObj.PodSelector)
    false = some tC → Kp tC) ∧
  (∀ flag, flag = IptablesDstFlag ∨ flag = IptablesSrcFlag →
    A [IptablesModuleFlag, IptablesSetModuleFlag, IptablesMatchSetFlag,
       GetHashedName u KubeAllNamespacesFlag, flag]) ∧
  (∀ rule ∈ npObj.Ingress, IngressRuleOK A Kp u npObj.Namespace rule) ∧
  (∀ rule ∈ npObj.Egress, EgressRuleOK A Kp u npObj.Namespace rule)

/-- The match of one pair `(op, label)` as spec §4.3.2 words it:
`-m set <op> --match-set <hash(prefix+label)> <flag>`, the operator left out
when it is empty, the prefix `ns-` for a namespace selector. -/
def selectorMatch (u : Util) (op label flag : String) (isNamespaceSelector : Bool) :
    List String :=
  [IptablesModuleFlag, IptablesSetModuleFlag] ++ (if op = "" then [] else [op]) ++
    [IptablesMatchSetFlag,
     GetHashedName u ((if isNamespaceSelector then "ns-" else "") ++ label), flag]

/-- The comment of a list of pairs as spec §4.3.2 words it: the texts
`prefix+op+label` joined by `-AND-`. -/
def selectorComment (pairs : List (String × String)) (isNamespaceSelector : Bool) : String :=
  "-AND-".intercalate
    (pairs.map (fun p => (if isNamespaceSelector then "ns-" else "") ++ p.1 ++ p.2))

/-- An entry as the loop over the rules emits it, for the target fragment
`tS`: its specs are match tokens that hold `tS` as a block, then `-j T` and the
comment tokens, where `T` is `ACCEPT` on the Port chain of the direction and
`ACCEPT` or `DROP` on its From/To chain. -/
def RuleEntry (portChain peerChain : String) (tS : List String) (e : IptEntry) : Prop :=
  ∃ m T c, e.Specs = m ++ jumpAndComment T c ∧ tS <:+: m ∧
    ((e.Chain = portChain ∧ T = IptablesAccept) ∨
     (e.Chain = peerChain ∧ (T = IptablesAccept ∨ T = IptablesDrop)))

/-- What the loop over the rules keeps true of its additions: every entry is a
`RuleEntry`; unless the flag `addedIngressFromEntry` / `addedEgressToEntry` is
set, every entry is on the Port chain; and when the flag is set, some entry is on
the From/To chain. -/
def RuleInv (portChain peerChain : String) (tS : List String) (d : LoopState) : Prop :=
  d.All (RuleEntry portChain peerChain tS) ∧
    (d.addedPeerEntry = true ∨ d.All (fun e => e.Chain = portChain)) ∧
    (d.addedPeerEntry = true →
      ∃ e, (e ∈ d.entries ∨ e ∈ d.peerEntries) ∧ e.Chain = peerChain)

/-- The target of the jump of an entry. The specs of an entry end with
`-j <target> -m comment --comment <comment>`, so the target is the fifth token
counted from the end. -/
def IptEntry.jumpTarget (e : IptEntry) : Option String := e.Specs.reverse[4]?

/-- An ACCEPT or DROP entry on the given chain: what the loop over the rules
places on the From/To chain. -/
def peerChainEntry (chain : String) (e : IptEntry) : Bool :=
  decide (e.Chain = chain) &&
    (decide (e.jumpTarget = some IptablesAccept) || decide (e.jumpTarget = some IptablesDrop))

/-- The entry on `chain` that matches only the fragment `tS` and jumps to
`target`. -/
def jumpEntry (chain : String) (tS : List String) (target comment : String) : IptEntry :=
  { Chain := chain, Specs := tS ++ jumpAndComment target comment }

/-- The number of entries a loop has emitted, side buffer included. -/
def LoopState.size (d : LoopState) : Nat := d.entries.length + d.peerEntries.length

/-- The number of except CIDRs of a peer: those of its ipBlock, if it has one. -/
def exceptsOf (peer : NetworkPolicyPeer) : Nat :=
  match peer.IPBlock with
  | some ipBlock => ipBlock.Except.length
  | none => 0

/-- The total number of except CIDRs over the ipBlock peers of a rule. -/
def exceptCount (peers : List NetworkPolicyPeer) : Nat := (peers.map exceptsOf).sum

/-- The bound of claim C28 for one rule with the given ports and peers (the
`from` or `to` field, absent or present):
`max(1, |ports|) · max(1, |peers|)` plus the number of except CIDRs. -/
def ruleBound (ports : List NetworkPolicyPort) (peers : Option (List NetworkPolicyPeer)) :
    Nat :=
  max 1 ports.length * max 1 (peers.getD []).length + exceptCount (peers.getD [])

/-- The chain of the egress direction that stands for a chain of the ingress
direction: Ingress-Port ↦ Egress-Port, Ingress-From ↦ Egress-To; any other
name, such as `ACCEPT`, `DROP` or the TargetSets chain, stands for itself. -/
def mirrorChain (chain : String) : String :=
  if chain = IptablesAzureIngressPortChain then IptablesAzureEgressPortChain
  else if chain = IptablesAzureIngressFromChain then IptablesAzureEgressToChain
  else chain

/-- The rule of the egress direction with the same ports and the same peers as
an ingress rule (`from` renamed to `to`). -/
def mirrorRule (rule : NetworkPolicyIngressRule) : NetworkPolicyEgressRule :=
  { Ports := rule.Ports, To := rule.From }

/-- The chain and the jump target of an entry of the ingress direction, both
carried over to the egress direction. -/
def ingressShape (e : IptEntry) : String × Option String :=
  (mirrorChain e.Chain, e.jumpTarget.map mirrorChain)

/-- The chain and the jump target of an entry of the egress direction. -/
def egressShape (e : IptEntry) : String × Option String := (e.Chain, e.jumpTarget)

/-- What the loops of the two directions keep in common: the same sets and
lists, entries of corresponding chains and jump targets at every position, in
the main list and in the side buffer, and the same flag of the From/To chain. -/
def MirrorState (di de : LoopState) : Prop :=
  de.sets = di.sets ∧ de.lists = di.lists ∧
    di.entries.map ingressShape = de.entries.map egressShape ∧
    di.peerEntries.map ingressShape = de.peerEntries.map egressShape ∧
    de.addedPeerEntry = di.addedPeerEntry

/-- The entry is scoped to the fragment `tS`: its specs are match tokens that
hold `tS` as a block of consecutive tokens, followed by `-j <target>` and the
comment tokens. -/
def scopedTo (tS : List String) (e : IptEntry) : Prop :=
  ∃ m T c, e.Specs = m ++ jumpAndComment T c ∧ tS <:+: m

/-- The helpers `u` with the process-wide flag `IsNewNwPolicyVerFlag` set to
`flag`. -/
def Util.withFlag (u : Util) (flag : Bool) : Util := { u with IsNewNwPolicyVerFlag := flag }

/-- The peer does not have both a pod selector and a namespace selector. -/
def notCombined (peer : NetworkPolicyPeer) : Prop :=
  ¬ (peer.PodSelector.isSome = true ∧ peer.NamespaceSelector.isSome = true)

/-- No peer of a rule of the policy, ingress or egress, has both a pod selector
and a namespace selector. -/
def noCombinedPeer (npObj : NetworkPolicy) : Prop :=
  (∀ rule ∈ npObj.Ingress, ∀ peer ∈ rule.From.getD [], notCombined peer) ∧
  (∀ rule ∈ npObj.Egress, ∀ peer ∈ rule.To.getD [], notCombined peer)

/-- The length and the capacity of a slice after `append(s, xs...)`, from its
length and capacity before. -/
def capAppend (rt : Runtime) (lc : Nat × Nat) (xs : List String) : Nat × Nat :=
  if xs.length = 0 then lc
  else if lc.1 + xs.length ≤ lc.2 then (lc.1 + xs.length, lc.2)
  else (lc.1 + xs.length, max (lc.1 + xs.length) (rt.growslice lc.1 lc.2 (lc.1 + xs.length)))

/-- The length and the capacity of a fragment. -/
def Fragment.lenCap (rt : Runtime) (f : Fragment) : Nat × Nat :=
  f.appends.foldl (capAppend rt) (f.literal.length, f.literal.length)

/-- The room of a fragment: the number of cells of its array behind its last
element. -/
def Fragment.room (rt : Runtime) (f : Fragment) : Nat :=
  (f.lenCap rt).2 - (f.lenCap rt).1

/-- The number of tokens appended to an entry. -/
def Build.size (b : Build) : Nat := b.appends.flatten.length

/-- The entry as it is when it has just been built on a slice with the elements
`start`. -/
def Build.entry (start : List String) (b : Build) : IptEntry :=
  { Chain := b.Chain, Specs := start ++ b.appends.flatten }

/-- Whether the entries of the step go to the side buffer. -/
def Step.toSide : Step → Bool
  | .onTarget toSide _ => toSide
  | .onFragment toSide _ _ => toSide

/-- The entries of a step as they are when they have just been built. -/
def Step.values (targetSelectorIptEntrySpec : List String) : Step → List IptEntry
  | .onTarget _ b => [b.entry targetSelectorIptEntrySpec]
  | .onFragment _ f bs => bs.map (Build.entry f.tokens)

/-- No entry of the step stays on an array it shares with another entry: an
entry that starts on the target fragment is given more tokens than the fragment
has room for, and so is every entry that starts on a fragment on which more
than one entry starts.  (`targetRoom` is the room of the target fragment.) -/
def Step.unshared (rt : Runtime) (targetRoom : Nat) : Step → Bool
  | .onTarget _ b => decide (targetRoom < b.size)
  | .onFragment _ f bs =>
    decide (bs.length ≤ 1) || bs.all (fun b => decide (f.room rt < b.size))

/-- The target fragment and the steps of `translateIngress`, those of the loop
over the rules followed by the closing ones. -/
def Slices.ingressSteps (u : Util) (ns : String) (targetSelector : LabelSelector)
    (rules : List NetworkPolicyIngressRule) : Option (Fragment × List Step) := do
  let (ops, labels) := targetOpsAndLabels u ns targetSelector
  let targetSelectorIptEntrySpec ←
    Slices.craftPartialIptEntrySpecFromOpsAndLabels u ns ops labels IptablesDstFlag false
  let targetSelectorComment ←
    craftPartialIptablesCommentFromSelector u ns (some targetSelector) false
  let st ← rules.foldlM
    (Slices.ingressRule u ns targetSelectorIptEntrySpec.tokens targetSelectorComment)
    { sets := labels, lists := [], steps := [],
      addedPeerEntry := false, addedPortEntry := false }
  some (targetSelectorIptEntrySpec, st.steps ++ Slices.ingressClosing targetSelectorComment st)

/-- The target fragment and the steps of `translateEgress`. -/
def Slices.egressSteps (u : Util) (ns : String) (targetSelector : LabelSelector)
    (rules : List NetworkPolicyEgressRule) : Option (Fragment × List Step) := do
  let (ops, labels) := targetOpsAndLabels u ns targetSelector
  let targetSelectorIptEntrySpec ←
    Slices.craftPartialIptEntrySpecFromOpsAndLabels u ns ops labels IptablesSrcFlag false
  let targetSelectorComment ←
    craftPartialIptablesCommentFromSelector u ns (some targetSelector) false
  let st ← rules.foldlM
    (Slices.egressRule u ns targetSelectorIptEntrySpec.tokens targetSelectorComment)
    { sets := labels, lists := [], steps := [],
      addedPeerEntry := false, addedPortEntry := false }
  some (targetSelectorIptEntrySpec, st.steps ++ Slices.egressClosing targetSelectorComment st)

/-- No entry of `translateIngress` stays on an array it shares with another
entry. -/
def Slices.ingressUnshared (rt : Runtime) (u : Util) (ns : String)
    (targetSelector : LabelSelector) (rules : List NetworkPolicyIngressRule) : Bool :=
  match Slices.ingressSteps u ns targetSelector rules with
  | some (targetFragment, steps) => steps.all (Step.unshared rt (targetFragment.room rt))
  | none => true

/-- No entry of `translateEgress` stays on an array it shares with another
entry. -/
def Slices.egressUnshared (rt : Runtime) (u : Util) (ns : String)
    (targetSelector : LabelSelector) (rules : List NetworkPolicyEgressRule) : Bool :=
  match Slices.egressSteps u ns targetSelector rules with
  | some (targetFragment, steps) => steps.all (Step.unshared rt (targetFragment.room rt))
  | none => true

/-- No entry of a direction that `translatePolicy` translates stays on an array
it shares with another entry. -/
def Slices.policyUnshared (rt : Runtime) (u : Util) (npObj : NetworkPolicy) : Prop :=
  (PolicyTypeIngress ∈ translatedDirections npObj →
    Slices.ingressUnshared rt u npObj.Namespace npObj.PodSelector npObj.Ingress = true) ∧
  (PolicyTypeEgress ∈ translatedDirections npObj →
    Slices.egressUnshared rt u npObj.Namespace npObj.PodSelector npObj.Egress = true)

/-- The state of the loops of the section `Direction compilers` that tells
what the steps add when they run: the entries as they are when they have just
been built. -/
def Slices.LoopState.built (targetSelectorIptEntrySpec : List String)
    (st : Slices.LoopState) : Npm.LoopState :=
  { sets := st.sets, lists := st.lists,
    entries := (st.steps.filter (fun s => !s.toSide)).flatMap
      (Step.values targetSelectorIptEntrySpec),
    peerEntries := (st.steps.filter (fun s => s.toSide)).flatMap
      (Step.values targetSelectorIptEntrySpec),
    addedPeerEntry := st.addedPeerEntry, addedPortEntry := st.addedPortEntry }

/-- The tokens a step writes to the heap: those of the fragment it makes, if it
makes one, and those appended to its entries. -/
def Step.tokens : Step → List String
  | .onTarget _ b => b.appends.flatten
  | .onFragment _ f bs => f.tokens ++ bs.flatMap (fun b => b.appends.flatten)

/-- The step builds an entry. -/
def Step.proper : Step → Bool
  | .onTarget _ _ => true
  | .onFragment _ _ bs => !bs.isEmpty

/-- The entries of a direction as they are when they have just been built, in
the order in which they are returned: those of the loop over the rules, the
side buffer behind the others, then the closing entries. -/
def builtEntries (targetSelectorIptEntrySpec : List String) (steps closing : List Step) :
    List IptEntry :=
  (steps.filter (fun s => !s.toSide)).flatMap (Step.values targetSelectorIptEntrySpec) ++
    (steps.filter (fun s => s.toSide)).flatMap (Step.values targetSelectorIptEntrySpec) ++
    closing.flatMap (Step.values targetSelectorIptEntrySpec)

/-- The slice points into the heap and is no longer than its array. -/
def Slice.valid (s : Slice) (h : Heap) : Prop := s.array < h.length ∧ s.len ≤ s.cap h

/-- What running code that appends to the slice `s` and to slices made later
leaves of the heap `h`: every array of `h` but the one of `s` is as it was, and
the array of `s` has kept its capacity and the elements of `s`. -/
def Frame (s : Slice) (h h' : Heap) : Prop :=
  h.length ≤ h'.length ∧
  (∀ i, i < h.length → i ≠ s.array → h'.getD i [] = h.getD i []) ∧
  (h'.getD s.array []).length = (h.getD s.array []).length ∧
  (h'.getD s.array []).take s.len = (h.getD s.array []).take s.len

/-- The calls of `append` of the build hand the entry the fragment `tS` in one
call, after the calls `ps` and before the calls `rest`; `rest` adds at least
the six tokens of a jump and its comment.  `K` is a number of tokens, the same
for all the entries of a loop over the ports, that bounds the tokens of `ps`
and is no more than those of `ps` and `rest` together. -/
def Build.holdsTarget (tS : List String) (K : Nat) (b : Build) : Prop :=
  ∃ ps rest, b.appends = ps ++ tS :: rest ∧ ps.flatten.length ≤ K ∧
    K ≤ ps.flatten.length + rest.flatten.length ∧ 6 ≤ rest.flatten.length

/-- Every entry of the step is given the fragment `tS`: an entry that starts
on the target fragment has it from the start (and is given six tokens or more),
the entries that start on another fragment are handed it by a call of
`append`. -/
def Step.holdsTarget (tS : List String) : Step → Prop
  | .onTarget _ b => 6 ≤ b.appends.flatten.length
  | .onFragment _ _ bs => ∃ K, ∀ b ∈ bs, Build.holdsTarget tS K b

/-- What is kept true of an entry while the steps run, `t` being the slice of
the target fragment `tS` and `values` the entries as they were built: the entry
is on the array of the target fragment, behind it, or it is on another array
and reads as `pre ++ tS ++ post`; either way some entry as it was built starts
with `pre ++ tS` and has six tokens or more behind. -/
def Built.holdsTarget (tS : List String) (values : List IptEntry) (t : Slice) (h : Heap)
    (e : Built) : Prop :=
  e.Specs.valid h ∧
    ((e.Specs.array = t.array ∧ t.len ≤ e.Specs.len ∧
        ∃ v ∈ values, ∃ rest, v.Specs = tS ++ rest ∧ 6 ≤ rest.length) ∨
     (e.Specs.array ≠ t.array ∧
        ∃ v ∈ values, ∃ pre post rest, e.Specs.read h = pre ++ tS ++ post ∧
          v.Specs = pre ++ tS ++ rest ∧ 6 ≤ rest.length))

/-! ## Example inputs -/

/-- The helpers of the spec with the name itself standing for its digest, and
the intersection of pod and namespace selectors enabled. -/
def exampleUtil : Util := specUtil (fun name => name) true

/-- The same helpers with the intersection disabled. -/
def exampleUtilOld : Util := specUtil (fun name => name) false

/-- The selector `matchLabels: {key: value}`. -/
def selectorOf (key value : String) : LabelSelector :=
  { MatchLabels := [(key, value)], MatchExpressions := [] }

/-- An ipBlock peer. -/
def ipBlockPeer (cidr : String) (except : List String) : NetworkPolicyPeer :=
  { PodSelector := none, NamespaceSelector := none,
    IPBlock := some { CIDR := cidr, Except := except } }

/-- A policy of namespace `default` for the pods `app=web` whose single ingress
rule, without ports, admits `10.0.0.0/8` twice: once whole, once with the hole
`10.1.0.0/16`. -/
def twoBlocksPolicy : NetworkPolicy :=
  { Namespace := "default", PodSelector := selectorOf "app" "web",
    Ingress := [{ Ports := [],
                  From := some [ipBlockPeer "10.0.0.0/8" [],
                                ipBlockPeer "10.0.0.0/8" ["10.1.0.0/16"]] }],
    Egress := [], PolicyTypes := [PolicyTypeIngress] }

/-- A policy of namespace `default` for the pods `app=web`, without policy
types, that admits traffic from the pods `app=web` and to the namespaces
`env=prod`. -/
def webPolicy : NetworkPolicy :=
  { Namespace := "default", PodSelector := selectorOf "app" "web",
    Ingress := [{ Ports := [],
                  From := some [{ PodSelector := some (selectorOf "app" "web"),
                                  NamespaceSelector := none, IPBlock := none }] }],
    Egress := [{ Ports := [],
                 To := some [{ PodSelector := none,
                               NamespaceSelector := some (selectorOf "env" "prod"),
                               IPBlock := none }] }],
    PolicyTypes := [] }

/-- A policy for the pods `app=web` with `PolicyTypes = [Ingress]` and no
ingress rule. -/
def ingressOnlyNoRules : NetworkPolicy :=
  { Namespace := "default", PodSelector := selectorOf "app" "web",
    Ingress := [], Egress := [], PolicyTypes := [PolicyTypeIngress] }

/-- A policy for the pods `app=web` with `PolicyTypes = [Ingress]` and the
single ingress rule that has no ports and no peers. -/
def ingressOnlyAllowAll : NetworkPolicy :=
  { Namespace := "default", PodSelector := selectorOf "app" "web",
    Ingress := [{ Ports := [], From := none }], Egress := [],
    PolicyTypes := [PolicyTypeIngress] }

/-- A policy for the pods `app=web` with `PolicyTypes = [Egress]` whose single
egress rule has the explicit empty list of peers, and with an ingress rule that
is not translated. -/
def egressOnlyPolicy : NetworkPolicy :=
  { Namespace := "default", PodSelector := selectorOf "app" "web",
    Ingress := [{ Ports := [], From := none }],
    Egress := [{ Ports := [], To := some [] }],
    PolicyTypes := [PolicyTypeEgress] }

/-- A policy whose single ingress peer is an ipBlock without cidr and with the
except CIDR `10.1.0.0/16`. -/
def emptyCidrPolicy : NetworkPolicy :=
  { Namespace := "default", PodSelector := selectorOf "app" "web",
    Ingress := [{ Ports := [], From := some [ipBlockPeer "" ["10.1.0.0/16"]] }],
    Egress := [], PolicyTypes := [PolicyTypeIngress] }

/-- The peer `podSelector: app=a` with `namespaceSelector: env=prod`. -/
def intersectionPeer : NetworkPolicyPeer :=
  { PodSelector := some (selectorOf "app" "a"),
    NamespaceSelector := some (selectorOf "env" "prod"), IPBlock := none }

/-- The peer `podSelector: app=b`. -/
def podPeer : NetworkPolicyPeer :=
  { PodSelector := some (selectorOf "app" "b"), NamespaceSelector := none, IPBlock := none }

/-- The policy of namespace `default` with the empty pod selector, without
policy types, whose single ingress rule admits the pods `app=b`. -/
def allPodsPolicy : NetworkPolicy :=
  { Namespace := "default", PodSelector := emptySelector,
    Ingress := [{ Ports := [], From := some [podPeer] }], Egress := [], PolicyTypes := [] }

/-- A policy for the pods `app=web` with `PolicyTypes = [Ingress]` whose single
ingress rule has the ports `TCP/80` and `UDP/53` and no `from` field. -/
def portsOnlyPolicy : NetworkPolicy :=
  { Namespace := "default", PodSelector := selectorOf "app" "web",
    Ingress := [{ Ports := [{ Protocol := some "TCP", Port := some (.int 80) },
                            { Protocol := some "UDP", Port := some (.int 53) }],
                  From := none }],
    Egress := [], PolicyTypes := [PolicyTypeIngress] }

/-- Whether the entry sits on one of the two chains of the ingress direction. -/
def onIngressChain (e : IptEntry) : Bool :=
  decide (e.Chain = IptablesAzureIngressPortChain) ||
    decide (e.Chain = IptablesAzureIngressFromChain)

/-- Whether the entry sits on one of the two chains of the egress direction. -/
def onEgressChain (e : IptEntry) : Bool :=
  decide (e.Chain = IptablesAzureEgressPortChain) ||
    decide (e.Chain = IptablesAzureEgressToChain)

/-- The peer `namespaceSelector: env=prod`. -/
def namespacePeer : NetworkPolicyPeer :=
  { PodSelector := none, NamespaceSelector := some (selectorOf "env" "prod"), IPBlock := none }

/-- A policy for the pods `app=web` whose single ingress rule, without ports,
admits the namespaces `env=prod`, with the given policy types. -/
def namespacePeerPolicy (policyTypes : List String) : NetworkPolicy :=
  { Namespace := "default", PodSelector := selectorOf "app" "web",
    Ingress := [{ Ports := [], From := some [namespacePeer] }], Egress := [],
    PolicyTypes := policyTypes }

/-- A policy for the pods `app=web` whose single ingress rule, without ports,
admits `10.0.0.0/8` but for `10.1.0.0/16`, with the given policy types. -/
def exceptPolicy (policyTypes : List String) : NetworkPolicy :=
  { Namespace := "default", PodSelector := selectorOf "app" "web",
    Ingress := [{ Ports := [], From := some [ipBlockPeer "10.0.0.0/8" ["10.1.0.0/16"]] }],
    Egress := [], PolicyTypes := policyTypes }

/-- A policy for the pods `app=web` whose single egress rule has no ports and
the explicit empty list of peers, with the given policy types. -/
def allowExternalPolicy (policyTypes : List String) : NetworkPolicy :=
  { Namespace := "default", PodSelector := selectorOf "app" "web",
    Ingress := [], Egress := [{ Ports := [], To := some [] }],
    PolicyTypes := policyTypes }

/-- Whether the entry sits on the given chain. -/
def onChain (chain : String) (e : IptEntry) : Bool := decide (e.Chain = chain)

/-- The text holds no whitespace character. -/
@[reducible]
def NoWhitespace (s : String) : Prop := ∀ ch ∈ s.data, ch.isWhitespace = false

/-- The input strings of a port: its protocol name and its port text. -/
def portStrings (port : NetworkPolicyPort) : List String :=
  port.Protocol.toList ++ (port.Port.map IntOrString.text).toList

/-- The input strings of a peer: the cidr of its ipBlock when it has one (the
empty cidr is the absent one), and its except CIDRs. -/
def peerStrings (peer : NetworkPolicyPeer) : List String :=
  match peer.IPBlock with
  | some block => (if block.CIDR ≠ "" then [block.CIDR] else []) ++ block.Except
  | none => []

/-- The input strings of a policy that reach its entries as they are: the
protocol names, the port texts, the CIDRs and the except CIDRs of all its
rules. -/
def inputStrings (npObj : NetworkPolicy) : List String :=
  npObj.Ingress.flatMap (fun rule =>
    rule.Ports.flatMap portStrings ++ (rule.From.getD []).flatMap peerStrings) ++
  npObj.Egress.flatMap (fun rule =>
    rule.Ports.flatMap portStrings ++ (rule.To.getD []).flatMap peerStrings)

/-- The keys and the values of a selector. -/
def selectorStrings (sel : LabelSelector) : List String :=
  sel.MatchLabels.flatMap (fun kv => [kv.1, kv.2]) ++
    sel.MatchExpressions.flatMap (fun req => req.Key :: req.Values)

/-- The selectors of a peer. -/
def peerSelectors (peer : NetworkPolicyPeer) : List LabelSelector :=
  peer.PodSelector.toList ++ peer.NamespaceSelector.toList

/-- The selectors of a policy: its pod selector and the selectors of the peers
of all its rules. -/
def policySelectors (npObj : NetworkPolicy) : List LabelSelector :=
  npObj.PodSelector ::
    (npObj.Ingress.flatMap (fun rule => (rule.From.getD []).flatMap peerSelectors) ++
     npObj.Egress.flatMap (fun rule => (rule.To.getD []).flatMap peerSelectors))

/-- The operator the parser gives is empty or `!` (spec §4.1). -/
def ParserOps (u : Util) : Prop :=
  ∀ sel : Option LabelSelector, ∀ op ∈ parsedOps u sel, op = "" ∨ op = "!"

/-- The parser gives operators and labels without whitespace for a selector
whose keys and values hold no whitespace (spec §4.1: a label is `key`,
`key:value` or `key:v1,v2,…`). -/
def ParserClean (u : Util) : Prop :=
  ∀ sel : LabelSelector, (∀ s ∈ selectorStrings sel, NoWhitespace s) →
    ∀ p ∈ u.GetOperatorsAndLabels (u.parseSelector (some sel)),
      NoWhitespace p.1 ∧ NoWhitespace p.2

/-- A policy of namespace `default` for the pods `app=web`, without policy
types: one ingress rule with the port `TCP/80` and four peers (an ipBlock with
an except, a namespace selector, a pod selector, both selectors), and one
egress rule without ports to the namespaces `env=prod`. -/
def mixedPolicy : NetworkPolicy :=
  { Namespace := "default", PodSelector := selectorOf "app" "web",
    Ingress := [{ Ports := [{ Protocol := some "TCP", Port := some (.int 80) }],
                  From := some [ipBlockPeer "10.0.0.0/8" ["10.1.0.0/16"], namespacePeer,
                                podPeer, intersectionPeer] }],
    Egress := [{ Ports := [], To := some [namespacePeer] }],
    PolicyTypes := [] }

/-- A policy for the pods `app=web` with `PolicyTypes = [Ingress]` whose single
ingress rule has one port, with the empty text for protocol and no port
number, and no `from` field. -/
def emptyProtocolPolicy : NetworkPolicy :=
  { Namespace := "default", PodSelector := selectorOf "app" "web",
    Ingress := [{ Ports := [{ Protocol := some "", Port := none }], From := none }],
    Egress := [], PolicyTypes := [PolicyTypeIngress] }

/-- A policy for the pods `app=web` with `PolicyTypes = [Ingress]` whose single
ingress rule, without ports, has the given peer only. -/
def onePeerPolicy (peer : NetworkPolicyPeer) : NetworkPolicy :=
  { Namespace := "default", PodSelector := selectorOf "app" "web",
    Ingress := [{ Ports := [], From := some [peer] }], Egress := [],
    PolicyTypes := [PolicyTypeIngress] }

/-- The peer `podSelector: app=a` with the empty `namespaceSelector`: the pods
`app=a` of all namespaces. -/
def anyNamespacePodPeer : NetworkPolicyPeer :=
  { PodSelector := some (selectorOf "app" "a"), NamespaceSelector := some emptySelector,
    IPBlock := none }

/-- The peer with the empty `podSelector` and `namespaceSelector: env=prod`:
all pods of the namespaces `env=prod`. -/
def allPodsOfNamespacePeer : NetworkPolicyPeer :=
  { PodSelector := some emptySelector, NamespaceSelector := some (selectorOf "env" "prod"),
    IPBlock := none }

/-- The peer with the empty `namespaceSelector` only: all namespaces. -/
def anyNamespacePeer : NetworkPolicyPeer :=
  { PodSelector := none, NamespaceSelector := some emptySelector, IPBlock := none }

/-- The peer with the empty `podSelector` only: all pods of the namespace of
the policy. -/
def allPodsPeer : NetworkPolicyPeer :=
  { PodSelector := some emptySelector, NamespaceSelector := none, IPBlock := none }

/-- A Linux platform, with stand-ins for the two default paths. -/
def linuxPlatform : Platform :=
  { GOOS := "linux", windows := "windows",
    defaultWindowsFilePath := "/windows/default.json",
    defaultLinuxFilePath := "/linux/default.json" }

/-- The same constants on Windows. -/
def windowsPlatform : Platform := { linuxPlatform with GOOS := "windows" }

/-- The selector with the single expression `tier NotIn (db)`. -/
def notDbSelector : LabelSelector :=
  { MatchLabels := [],
    MatchExpressions := [{ Key := "tier", Operator := "NotIn", Values := ["db"] }] }

/-- The port `TCP/80`. -/
def tcp80 : NetworkPolicyPort := { Protocol := some "TCP", Port := some (.int 80) }

/-- One ingress rule with the port `TCP/80` and no `from` field. -/
def portsIngressRules : List NetworkPolicyIngressRule := [{ Ports := [tcp80], From := none }]

/-- One egress rule with the port `TCP/80` and no `to` field. -/
def portsEgressRules : List NetworkPolicyEgressRule := [{ Ports := [tcp80], To := none }]

/-- One ingress rule, without ports, that admits `10.0.0.0/8` but for
`10.1.0.0/16`. -/
def exceptIngressRules : List NetworkPolicyIngressRule :=
  [{ Ports := [], From := some [ipBlockPeer "10.0.0.0/8" ["10.1.0.0/16"]] }]

/-- One egress rule, without ports, that admits `10.0.0.0/8` but for
`10.1.0.0/16`. -/
def exceptEgressRules : List NetworkPolicyEgressRule :=
  [{ Ports := [], To := some [ipBlockPeer "10.0.0.0/8" ["10.1.0.0/16"]] }]

/-- One ingress rule without ports and with the explicit empty list of peers
(`from: []`). -/
def allowExternalIngressRules : List NetworkPolicyIngressRule :=
  [{ Ports := [], From := some [] }]

/-- A selector whose only content is the expression `app In []`, without
values. -/
def emptyInSelector : LabelSelector :=
  { MatchLabels := [],
    MatchExpressions := [{ Key := "app", Operator := "In", Values := [] }] }

/-- A selector whose only content is an expression with the operator `Near`,
which is none of `In`, `NotIn`, `Exists`, `DoesNotExist`. -/
def unknownOperatorSelector : LabelSelector :=
  { MatchLabels := [],
    MatchExpressions := [{ Key := "app", Operator := "Near", Values := ["web"] }] }

/-- A policy of namespace `default`, without rules and without policy types,
for the given target selector. -/
def targetOnlyPolicy (targetSelector : LabelSelector) : NetworkPolicy :=
  { Namespace := "default", PodSelector := targetSelector, Ingress := [], Egress := [],
    PolicyTypes := [] }

/-- A policy for the pods `app=web` whose only ingress rule is the rule without
ports and without `from`, and without egress rules, with the given policy
types. -/
def allowAllPolicy (policyTypes : List String) : NetworkPolicy :=
  { Namespace := "default", PodSelector := selectorOf "app" "web",
    Ingress := [{ Ports := [], From := none }], Egress := [],
    PolicyTypes := policyTypes }

/-- One ingress rule with the port `TCP/80` that admits `10.0.0.0/8` but for
`10.1.0.0/16`. -/
def portExceptIngressRule : NetworkPolicyIngressRule :=
  { Ports := [tcp80], From := some [ipBlockPeer "10.0.0.0/8" ["10.1.0.0/16"]] }

/-- The selector `matchLabels: {a: 1, b: 2, c: 3, d: 4, e: 5}`. -/
def fiveLabels : LabelSelector :=
  { MatchLabels := [("a", "1"), ("b", "2"), ("c", "3"), ("d", "4"), ("e", "5")],
    MatchExpressions := [] }

/-- The selector `matchLabels: {a: 1, …, i: 9}`. -/
def nineLabels : LabelSelector :=
  { MatchLabels := [("a", "1"), ("b", "2"), ("c", "3"), ("d", "4"), ("e", "5"), ("f", "6"),
                    ("g", "7"), ("h", "8"), ("i", "9")],
    MatchExpressions := [] }

/-- The helpers of `exampleUtil` with the labels of `fiveLabels` and of
`nineLabels` written out: both selectors list their labels in order, so the
sort of spec §4.1 leaves them as they are (`exampleUtilListed_eq`). -/
def exampleUtilListed : Util :=
  { exampleUtil with
    parseSelector := fun selector =>
      if selector = some fiveLabels then ["a:1", "b:2", "c:3", "d:4", "e:5"]
      else if selector = some nineLabels then
        ["a:1", "b:2", "c:3", "d:4", "e:5", "f:6", "g:7", "h:8", "i:9"]
      else exampleUtil.parseSelector selector }

/-- The match tokens of the five labels of `fiveLabels`, with `dst` or `src`. -/
def fiveLabelsSpec (srcOrDstFlag : String) : List String :=
  ["-m", "set", "--match-set", "azure-npm-a:1", srcOrDstFlag,
   "-m", "set", "--match-set", "azure-npm-b:2", srcOrDstFlag,
   "-m", "set", "--match-set", "azure-npm-c:3", srcOrDstFlag,
   "-m", "set", "--match-set", "azure-npm-d:4", srcOrDstFlag,
   "-m", "set", "--match-set", "azure-npm-e:5", srcOrDstFlag]

/-- The comment of `fiveLabels`. -/
def fiveLabelsComment : String := "a:1-AND-b:2-AND-c:3-AND-d:4-AND-e:5"

/-- The match tokens of the nine labels of `nineLabels`, with `dst` or `src`. -/
def nineLabelsSpec (srcOrDstFlag : String) : List String :=
  fiveLabelsSpec srcOrDstFlag ++
    ["-m", "set", "--match-set", "azure-npm-f:6", srcOrDstFlag,
     "-m", "set", "--match-set", "azure-npm-g:7", srcOrDstFlag,
     "-m", "set", "--match-set", "azure-npm-h:8", srcOrDstFlag,
     "-m", "set", "--match-set", "azure-npm-i:9", srcOrDstFlag]

/-- The comment of `nineLabels`. -/
def nineLabelsComment : String := fiveLabelsComment ++ "-AND-f:6-AND-g:7-AND-h:8-AND-i:9"

/-! ## General lemmas -/

theorem foldlM_rel {σ α : Type} (f : σ → α → Option σ) (R : σ → σ → Prop)
    (hrefl : ∀ s, R s s) (htrans : ∀ a b c, R a b → R b c → R a c)
    (hstep : ∀ s x s', f s x = some s' → R s s') :
    ∀ (xs : List α) (s s' : σ), xs.foldlM f s = some s' → R s s' := by
  intro xs
  induction xs with
  | nil =>
    intro s s' h
    simp at h
    subst h
    exact hrefl _
  | cons x xs ih =>
    intro s s' h
    simp only [List.foldlM_cons, Option.bind_eq_bind, Option.bind_eq_some] at h
    obtain ⟨s1, h1, h2⟩ := h
    exact htrans _ _ _ (hstep _ _ _ h1) (ih _ _ h2)

theorem forall₂_right_mem {α β : Type} {R : α → β → Prop} {l1 : List α} {l2 : List β}
    (h : List.Forall₂ R l1 l2) : ∀ b ∈ l2, ∃ a ∈ l1, R a b := by
  induction h with
  | nil => intro b hb; cases hb
  | cons hd _ ih =>
    intro b hb
    rcases List.mem_cons.1 hb with rfl | hb
    · exact ⟨_, List.mem_cons_self _ _, hd⟩
    · obtain ⟨a, ha, hr⟩ := ih b hb
      exact ⟨a, List.mem_cons_of_mem _ ha, hr⟩

theorem LoopState.append_empty (a : LoopState) : a.append LoopState.empty = a := by
  cases a; simp [LoopState.append, LoopState.empty]

theorem LoopState.empty_append (a : LoopState) : LoopState.empty.append a = a := by
  cases a; simp [LoopState.append, LoopState.empty]

theorem LoopState.append_assoc (a b c : LoopState) :
    (a.append b).append c = a.append (b.append c) := by
  simp [LoopState.append, List.append_assoc, Bool.or_assoc]

/-- A loop whose body only adds to the state adds the same whatever the state
it starts from. -/
theorem foldlM_additive {α : Type} (f : LoopState → α → Option LoopState)
    (hf : ∀ s x, f s x = (f LoopState.empty x).map (LoopState.append s)) :
    ∀ (xs : List α) (s : LoopState),
      xs.foldlM f s = (xs.foldlM f LoopState.empty).map (LoopState.append s) := by
  intro xs
  induction xs with
  | nil => intro s; simp [LoopState.append_empty]
  | cons x xs ih =>
    intro s
    simp only [List.foldlM_cons, Option.bind_eq_bind]
    rw [hf s x]
    cases hx : f LoopState.empty x with
    | none => simp
    | some d =>
      simp only [Option.map_some', Option.some_bind]
      rw [ih (s.append d), ih d]
      cases xs.foldlM f LoopState.empty with
      | none => simp
      | some e => simp [LoopState.append_assoc]

/-- The additions of two consecutive stretches of a loop are put one after the
other. -/
theorem foldlM_additive_append {α : Type} (f : LoopState → α → Option LoopState)
    (hf : ∀ s x, f s x = (f LoopState.empty x).map (LoopState.append s))
    (xs ys : List α) :
    (xs ++ ys).foldlM f LoopState.empty =
      (xs.foldlM f LoopState.empty).bind (fun a =>
        (ys.foldlM f LoopState.empty).map (fun b => a.append b)) := by
  rw [List.foldlM_append]
  simp only [Option.bind_eq_bind]
  cases xs.foldlM f LoopState.empty with
  | none => simp
  | some a =>
    simp only [Option.some_bind]
    rw [foldlM_additive f hf ys a]

/-- One peer of `translateIngress` only adds to the state. -/
theorem ingressPeer_append (u : Util) (ns : String) (tS : List String) (tC : String)
    (ports : List NetworkPolicyPort) (pre : Bool) (st : LoopState) (peer : NetworkPolicyPeer) :
    ingressPeer u ns tS tC ports pre st peer =
      (ingressPeer u ns tS tC ports pre LoopState.empty peer).map (LoopState.append st) := by
  obtain ⟨pod, nsSel, ip⟩ := peer
  cases ip with
  | some ipBlock =>
    simp only [ingressPeer, LoopState.empty]
    split <;> split <;> (try split) <;>
      simp only [LoopState.append, Option.map_some', List.append_nil, List.nil_append,
        Bool.or_false, Bool.or_true, Bool.false_or, List.append_assoc]
  | none =>
    cases pod with
    | none =>
      cases nsSel with
      | none => simp only [ingressPeer, LoopState.empty, LoopState.append, Option.map_some',
          List.append_nil, Bool.or_false]
      | some nsSel =>
        simp only [ingressPeer, LoopState.empty, Option.bind_eq_bind, Option.pure_def]
        cases craftPartialIptEntrySpecFromSelector u ns (some nsSel) IptablesSrcFlag true with
        | none => rfl
        | some a =>
          cases craftPartialIptablesCommentFromSelector u ns (some nsSel) true with
          | none => rfl
          | some b =>
            cases pre <;>
            simp only [LoopState.append, Option.map_some', List.append_nil, List.nil_append,
              Bool.or_false, Bool.or_true, Bool.false_or, Option.some_bind, if_true,
              Bool.false_eq_true, if_false]
    | some podSel =>
      cases nsSel with
      | none =>
        simp only [ingressPeer, LoopState.empty, Option.bind_eq_bind, Option.pure_def]
        cases craftPartialIptEntrySpecFromSelector u ns (some podSel) IptablesSrcFlag false with
        | none => rfl
        | some a =>
          cases craftPartialIptablesCommentFromSelector u ns (some podSel) false with
          | none => rfl
          | some b =>
            cases pre <;>
            simp only [LoopState.append, Option.map_some', List.append_nil, List.nil_append,
              Bool.or_false, Bool.or_true, Bool.false_or, Option.some_bind, if_true,
              Bool.false_eq_true, if_false]
      | some nsSel =>
        simp only [ingressPeer, LoopState.empty, Option.bind_eq_bind, Option.pure_def]
        cases u.IsNewNwPolicyVerFlag with
        | false =>
          simp only [Bool.not_false, if_true, LoopState.append, Option.map_some',
            List.append_nil, Bool.or_false]
        | true =>
          simp only [Bool.not_true, Bool.false_eq_true, if_false]
          cases craftPartialIptEntrySpecFromSelector u ns (some nsSel) IptablesSrcFlag true with
          | none => rfl
          | some a =>
            cases craftPartialIptEntrySpecFromSelector u ns (some podSel) IptablesSrcFlag false with
            | none => rfl
            | some a2 =>
              cases craftPartialIptablesCommentFromSelector u ns (some nsSel) true with
              | none => rfl
              | some b =>
                cases craftPartialIptablesCommentFromSelector u ns (some podSel) false with
                | none => rfl
                | some b2 =>
                  cases pre <;>
                  simp only [LoopState.append, Option.map_some', List.append_nil,
                    List.nil_append, Bool.or_false, Bool.or_true, Bool.false_or,
                    Option.some_bind, if_true, Bool.false_eq_true, if_false]

/-- One peer of `translateEgress` only adds to the state. -/
theorem egressPeer_append (u : Util) (ns : String) (tS : List String) (tC : String)
    (ports : List NetworkPolicyPort) (pre : Bool) (st : LoopState) (peer : NetworkPolicyPeer) :
    egressPeer u ns tS tC ports pre st peer =
      (egressPeer u ns tS tC ports pre LoopState.empty peer).map (LoopState.append st) := by
  obtain ⟨pod, nsSel, ip⟩ := peer
  cases ip with
  | some ipBlock =>
    simp only [egressPeer, LoopState.empty]
    split <;> split <;> (try split) <;>
      simp only [LoopState.append, Option.map_some', List.append_nil, List.nil_append,
        Bool.or_false, Bool.or_true, Bool.false_or, List.append_assoc]
  | none =>
    cases pod with
    | none =>
      cases nsSel with
      | none => simp only [egressPeer, LoopState.empty, LoopState.append, Option.map_some',
          List.append_nil, Bool.or_false]
      | some nsSel =>
        simp only [egressPeer, LoopState.empty, Option.bind_eq_bind, Option.pure_def]
        cases craftPartialIptEntrySpecFromSelector u ns (some nsSel) IptablesDstFlag true with
        | none => rfl
        | some a =>
          cases craftPartialIptablesCommentFromSelector u ns (some nsSel) true with
          | none => rfl
          | some b =>
            cases pre <;>
            simp only [LoopState.append, Option.map_some', List.append_nil, List.nil_append,
              Bool.or_false, Bool.or_true, Bool.false_or, Option.some_bind, if_true,
              Bool.false_eq_true, if_false]
    | some podSel =>
      cases nsSel with
      | none =>
        simp only [egressPeer, LoopState.empty, Option.bind_eq_bind, Option.pure_def]
        cases craftPartialIptEntrySpecFromSelector u ns (some podSel) IptablesDstFlag false with
        | none => rfl
        | some a =>
          cases craftPartialIptablesCommentFromSelector u ns (some podSel) false with
          | none => rfl
          | some b =>
            cases pre <;>
            simp only [LoopState.append, Option.map_some', List.append_nil, List.nil_append,
              Bool.or_false, Bool.or_true, Bool.false_or, Option.some_bind, if_true,
              Bool.false_eq_true, if_false]
      | some nsSel =>
        simp only [egressPeer, LoopState.empty, Option.bind_eq_bind, Option.pure_def]
        cases u.IsNewNwPolicyVerFlag with
        | false =>
          simp only [Bool.not_false, if_true, LoopState.append, Option.map_some',
            List.append_nil, Bool.or_false]
        | true =>
          simp only [Bool.not_true, Bool.false_eq_true, if_false]
          cases craftPartialIptEntrySpecFromSelector u ns (some nsSel) IptablesDstFlag true with
          | none => rfl
          | some a =>
            cases craftPartialIptEntrySpecFromSelector u ns (some podSel) IptablesDstFlag false with
            | none => rfl
            | some a2 =>
              cases craftPartialIptablesCommentFromSelector u ns (some nsSel) true with
              | none => rfl
              | some b =>
                cases craftPartialIptablesCommentFromSelector u ns (some podSel) false with
                | none => rfl
                | some b2 =>
                  cases pre <;>
                  simp only [LoopState.append, Option.map_some', List.append_nil,
                    List.nil_append, Bool.or_false, Bool.or_true, Bool.false_or,
                    Option.some_bind, if_true, Bool.false_eq_true, if_false]

/-- One rule of `translateIngress` only adds to the state. -/
theorem ingressRule_append (u : Util) (ns : String) (tS : List String) (tC : String)
    (st : LoopState) (rule : NetworkPolicyIngressRule) :
    ingressRule u ns tS tC st rule =
      (ingressRule u ns tS tC LoopState.empty rule).map (LoopState.append st) := by
  simp only [ingressRule]
  split
  · simp only [LoopState.empty, LoopState.append, Option.map_some', List.append_nil,
      List.nil_append, Bool.or_false, Bool.false_or]
  · split
    · simp only [LoopState.empty, LoopState.append, Option.map_some', List.append_nil,
        List.nil_append, Bool.or_false, Bool.false_or]
    · simp only [Option.bind_eq_bind]
      rw [foldlM_additive _ (ingressPeer_append u ns tS tC rule.Ports _) _
            { st with addedPortEntry := st.addedPortEntry || decide (rule.Ports.length > 0) },
          foldlM_additive _ (ingressPeer_append u ns tS tC rule.Ports _) _
            { LoopState.empty with
              addedPortEntry := LoopState.empty.addedPortEntry ||
                decide (rule.Ports.length > 0) }]
      cases (rule.From.getD []).foldlM
        (ingressPeer u ns tS tC rule.Ports (decide (rule.Ports.length > 0))) LoopState.empty with
      | none => rfl
      | some d =>
        simp only [Option.map_some', Option.some_bind]
        split <;>
          simp only [LoopState.empty, LoopState.append, Option.map_some', List.append_nil,
            List.nil_append, Bool.or_false, Bool.false_or, List.append_assoc, Bool.or_assoc]

/-- One rule of `translateEgress` only adds to the state. -/
theorem egressRule_append (u : Util) (ns : String) (tS : List String) (tC : String)
    (st : LoopState) (rule : NetworkPolicyEgressRule) :
    egressRule u ns tS tC st rule =
      (egressRule u ns tS tC LoopState.empty rule).map (LoopState.append st) := by
  simp only [egressRule]
  split
  · simp only [LoopState.empty, LoopState.append, Option.map_some', List.append_nil,
      List.nil_append, Bool.or_false, Bool.false_or]
  · split
    · simp only [LoopState.empty, LoopState.append, Option.map_some', List.append_nil,
        List.nil_append, Bool.or_false, Bool.false_or]
    · simp only [Option.bind_eq_bind]
      rw [foldlM_additive _ (egressPeer_append u ns tS tC rule.Ports _) _
            { st with addedPortEntry := st.addedPortEntry || decide (rule.Ports.length > 0) },
          foldlM_additive _ (egressPeer_append u ns tS tC rule.Ports _) _
            { LoopState.empty with
              addedPortEntry := LoopState.empty.addedPortEntry ||
                decide (rule.Ports.length > 0) }]
      cases (rule.To.getD []).foldlM
        (egressPeer u ns tS tC rule.Ports (decide (rule.Ports.length > 0))) LoopState.empty with
      | none => rfl
      | some d =>
        simp only [Option.map_some', Option.some_bind]
        split <;>
          simp only [LoopState.empty, LoopState.append, Option.map_some', List.append_nil,
            List.nil_append, Bool.or_false, Bool.false_or, List.append_assoc, Bool.or_assoc,
            Bool.or_true]

/-- The result of `translateIngress`, read off the additions of its rules. -/
theorem translateIngress_eq_some (u : Util) (ns : String) (t : LabelSelector)
    (rules : List NetworkPolicyIngressRule) (r : Translation) :
    translateIngress u ns t rules = some r ↔
      ∃ tS tC d,
        craftPartialIptEntrySpecFromOpsAndLabels u ns (targetOpsAndLabels u ns t).1
          (targetOpsAndLabels u ns t).2 IptablesDstFlag false = some tS ∧
        craftPartialIptablesCommentFromSelector u ns (some t) false = some tC ∧
        rules.foldlM (ingressRule u ns tS tC) LoopState.empty = some d ∧
        r = ingressFinish tS tC ((LoopState.init (targetOpsAndLabels u ns t).2).append d) := by
  unfold translateIngress
  simp only [Option.bind_eq_bind, Option.bind_eq_some, LoopState.init]
  constructor
  · rintro ⟨tS, h1, tC, h2, st, h3, h4⟩
    rw [foldlM_additive _ (ingressRule_append u ns tS tC)] at h3
    simp only [Option.map_eq_some'] at h3
    obtain ⟨d, hd, rfl⟩ := h3
    exact ⟨tS, tC, d, h1, h2, hd, (Option.some.inj h4).symm⟩
  · rintro ⟨tS, tC, d, h1, h2, h3, rfl⟩
    refine ⟨tS, h1, tC, h2, _, ?_, rfl⟩
    rw [foldlM_additive _ (ingressRule_append u ns tS tC), h3]
    rfl

/-- The result of `translateEgress`, read off the additions of its rules. -/
theorem translateEgress_eq_some (u : Util) (ns : String) (t : LabelSelector)
    (rules : List NetworkPolicyEgressRule) (r : Translation) :
    translateEgress u ns t rules = some r ↔
      ∃ tS tC d,
        craftPartialIptEntrySpecFromOpsAndLabels u ns (targetOpsAndLabels u ns t).1
          (targetOpsAndLabels u ns t).2 IptablesSrcFlag false = some tS ∧
        craftPartialIptablesCommentFromSelector u ns (some t) false = some tC ∧
        rules.foldlM (egressRule u ns tS tC) LoopState.empty = some d ∧
        r = egressFinish tS tC ((LoopState.init (targetOpsAndLabels u ns t).2).append d) := by
  unfold translateEgress
  simp only [Option.bind_eq_bind, Option.bind_eq_some, LoopState.init]
  constructor
  · rintro ⟨tS, h1, tC, h2, st, h3, h4⟩
    rw [foldlM_additive _ (egressRule_append u ns tS tC)] at h3
    simp only [Option.map_eq_some'] at h3
    obtain ⟨d, hd, rfl⟩ := h3
    exact ⟨tS, tC, d, h1, h2, hd, (Option.some.inj h4).symm⟩
  · rintro ⟨tS, tC, d, h1, h2, h3, rfl⟩
    refine ⟨tS, h1, tC, h2, _, ?_, rfl⟩
    rw [foldlM_additive _ (egressRule_append u ns tS tC), h3]
    rfl

theorem LoopState.All_append (P : IptEntry → Prop) (a b : LoopState)
    (ha : a.All P) (hb : b.All P) : (a.append b).All P := by
  simp only [LoopState.All, LoopState.append, List.forall_mem_append] at *
  exact ⟨⟨ha.1, hb.1⟩, ⟨ha.2, hb.2⟩⟩

/-- A property of the entries that every step of an additive loop gives to
what it adds holds of everything the loop adds. -/
theorem foldlM_additive_all {α : Type} (f : LoopState → α → Option LoopState)
    (hf : ∀ s x, f s x = (f LoopState.empty x).map (LoopState.append s))
    (P : IptEntry → Prop)
    (hP : ∀ x d, f LoopState.empty x = some d → d.All P) :
    ∀ (xs : List α) (d : LoopState), xs.foldlM f LoopState.empty = some d → d.All P := by
  intro xs
  induction xs with
  | nil =>
    intro d h
    simp only [List.foldlM_nil, Option.pure_def, Option.some.injEq] at h
    subst h
    simp [LoopState.All, LoopState.empty]
  | cons x xs ih =>
    intro d h
    simp only [List.foldlM_cons, Option.bind_eq_bind, Option.bind_eq_some] at h
    obtain ⟨d1, h1, h2⟩ := h
    rw [foldlM_additive f hf xs d1] at h2
    simp only [Option.map_eq_some'] at h2
    obtain ⟨d2, h2, rfl⟩ := h2
    exact LoopState.All_append P d1 d2 (hP x d1 h1) (ih d2 h2)

theorem ingressPeer_chain (u : Util) (ns : String) (tS : List String) (tC : String)
    (ports : List NetworkPolicyPort) (pre : Bool) (peer : NetworkPolicyPeer) (d : LoopState)
    (h : ingressPeer u ns tS tC ports pre LoopState.empty peer = some d) :
    d.All IngressChain := by
  obtain ⟨pod, nsSel, ip⟩ := peer
  cases ip with
  | some ipBlock =>
    simp only [ingressPeer, LoopState.empty] at h
    split at h <;> split at h <;> (try split at h) <;>
      simp only [Option.some.injEq] at h <;> subst h <;>
      simp only [LoopState.All, List.nil_append, List.forall_mem_append, List.forall_mem_map,
        List.forall_mem_singleton, List.not_mem_nil, IngressChain, true_or, or_true,
        implies_true, and_self, false_implies]
  | none =>
    cases pod with
    | none =>
      cases nsSel with
      | none =>
        simp only [ingressPeer, LoopState.empty, Option.some.injEq] at h
        subst h
        simp only [LoopState.All, List.not_mem_nil, false_implies, implies_true, and_self]
      | some nsSel =>
        simp only [ingressPeer, LoopState.empty, Option.bind_eq_bind, Option.bind_eq_some,
          Option.pure_def] at h
        obtain ⟨a, -, b, -, h⟩ := h
        split at h <;>
          simp only [Option.some.injEq] at h <;> subst h <;>
          simp only [LoopState.All, List.nil_append, List.forall_mem_append,
            List.forall_mem_map, List.forall_mem_singleton, List.not_mem_nil, IngressChain,
            true_or, or_true, implies_true, and_self, false_implies]
    | some podSel =>
      cases nsSel with
      | none =>
        simp only [ingressPeer, LoopState.empty, Option.bind_eq_bind, Option.bind_eq_some,
          Option.pure_def] at h
        obtain ⟨a, -, b, -, h⟩ := h
        split at h <;>
          simp only [Option.some.injEq] at h <;> subst h <;>
          simp only [LoopState.All, List.nil_append, List.forall_mem_append,
            List.forall_mem_map, List.forall_mem_singleton, List.not_mem_nil, IngressChain,
            true_or, or_true, implies_true, and_self, false_implies]
      | some nsSel =>
        simp only [ingressPeer, LoopState.empty, Option.bind_eq_bind, Option.pure_def] at h
        split at h
        · simp only [Option.some.injEq] at h
          subst h
          simp only [LoopState.All, List.not_mem_nil, false_implies, implies_true, and_self]
        · simp only [Option.bind_eq_some] at h
          obtain ⟨a, -, a2, -, b, -, b2, -, h⟩ := h
          split at h <;>
            simp only [Option.some.injEq] at h <;> subst h <;>
            simp only [LoopState.All, List.nil_append, List.forall_mem_append,
              List.forall_mem_map, List.forall_mem_singleton, List.not_mem_nil, IngressChain,
              true_or, or_true, implies_true, and_self, false_implies]

theorem ingressRule_chain (u : Util) (ns : String) (tS : List String) (tC : String)
    (rule : NetworkPolicyIngressRule) (d : LoopState)
    (h : ingressRule u ns tS tC LoopState.empty rule = some d) :
    d.All IngressChain := by
  simp only [ingressRule] at h
  split at h
  · simp only [Option.some.injEq] at h
    subst h
    simp only [LoopState.empty, LoopState.All, List.nil_append, List.forall_mem_singleton,
      List.not_mem_nil, IngressChain, true_or, implies_true, and_self, false_implies]
  · split at h
    · simp only [Option.some.injEq] at h
      subst h
      simp only [LoopState.empty, LoopState.All, List.nil_append, List.forall_mem_map,
        List.not_mem_nil, IngressChain, true_or, implies_true, and_self, false_implies]
    · simp only [Option.bind_eq_bind, Option.bind_eq_some] at h
      obtain ⟨d1, h1, h⟩ := h
      rw [foldlM_additive _ (ingressPeer_append u ns tS tC rule.Ports _)] at h1
      simp only [Option.map_eq_some'] at h1
      obtain ⟨d2, h2, rfl⟩ := h1
      have hd2 := foldlM_additive_all _ (ingressPeer_append u ns tS tC rule.Ports _) IngressChain
        (fun x d hx => ingressPeer_chain u ns tS tC rule.Ports _ x d hx) _ d2 h2
      split at h <;>
        simp only [Option.some.injEq] at h <;> subst h <;>
        simp only [LoopState.All, LoopState.append, LoopState.empty, List.nil_append,
          List.forall_mem_append, List.forall_mem_singleton, IngressChain, true_or,
          and_true] <;>
        exact hd2

theorem ingressRules_chain (u : Util) (ns : String) (tS : List String) (tC : String)
    (rules : List NetworkPolicyIngressRule) (d : LoopState)
    (h : rules.foldlM (ingressRule u ns tS tC) LoopState.empty = some d) :
    d.All IngressChain :=
  foldlM_additive_all _ (ingressRule_append u ns tS tC) IngressChain
    (fun x d hx => ingressRule_chain u ns tS tC x d hx) rules d h

/-- Every entry `translateIngress` returns is on one of the two chains of its
direction. -/
theorem translateIngress_chain (u : Util) (ns : String) (t : LabelSelector)
    (rules : List NetworkPolicyIngressRule) (r : Translation)
    (h : translateIngress u ns t rules = some r) : ∀ e ∈ r.entries, IngressChain e := by
  rw [translateIngress_eq_some] at h
  obtain ⟨tS, tC, d, -, -, hd, rfl⟩ := h
  have hall := ingressRules_chain u ns tS tC rules d hd
  simp only [ingressFinish, LoopState.init, LoopState.append, List.nil_append]
  split
  · simp only [List.forall_mem_append, List.forall_mem_singleton, IngressChain, true_or, and_true]
    exact hall
  · split
    · simp only [List.forall_mem_append, List.forall_mem_cons, List.not_mem_nil, IngressChain,
        true_or, or_true, and_true, false_implies, implies_true]
      exact hall
    · simp only [List.forall_mem_append]
      exact hall

theorem egressPeer_chain (u : Util) (ns : String) (tS : List String) (tC : String)
    (ports : List NetworkPolicyPort) (pre : Bool) (peer : NetworkPolicyPeer) (d : LoopState)
    (h : egressPeer u ns tS tC ports pre LoopState.empty peer = some d) :
    d.All EgressChain := by
  obtain ⟨pod, nsSel, ip⟩ := peer
  cases ip with
  | some ipBlock =>
    simp only [egressPeer, LoopState.empty] at h
    split at h <;> split at h <;> (try split at h) <;>
      simp only [Option.some.injEq] at h <;> subst h <;>
      simp only [LoopState.All, List.nil_append, List.forall_mem_append, List.forall_mem_map,
        List.forall_mem_singleton, List.not_mem_nil, EgressChain, true_or, or_true,
        implies_true, and_self, false_implies]
  | none =>
    cases pod with
    | none =>
      cases nsSel with
      | none =>
        simp only [egressPeer, LoopState.empty, Option.some.injEq] at h
        subst h
        simp only [LoopState.All, List.not_mem_nil, false_implies, implies_true, and_self]
      | some nsSel =>
        simp only [egressPeer, LoopState.empty, Option.bind_eq_bind, Option.bind_eq_some,
          Option.pure_def] at h
        obtain ⟨a, -, b, -, h⟩ := h
        split at h <;>
          simp only [Option.some.injEq] at h <;> subst h <;>
          simp only [LoopState.All, List.nil_append, List.forall_mem_append,
            List.forall_mem_map, List.forall_mem_singleton, List.not_mem_nil, EgressChain,
            true_or, or_true, implies_true, and_self, false_implies]
    | some podSel =>
      cases nsSel with
      | none =>
        simp only [egressPeer, LoopState.empty, Option.bind_eq_bind, Option.bind_eq_some,
          Option.pure_def] at h
        obtain ⟨a, -, b, -, h⟩ := h
        split at h <;>
          simp only [Option.some.injEq] at h <;> subst h <;>
          simp only [LoopState.All, List.nil_append, List.forall_mem_append,
            List.forall_mem_map, List.forall_mem_singleton, List.not_mem_nil, EgressChain,
            true_or, or_true, implies_true, and_self, false_implies]
      | some nsSel =>
        simp only [egressPeer, LoopState.empty, Option.bind_eq_bind, Option.pure_def] at h
        split at h
        · simp only [Option.some.injEq] at h
          subst h
          simp only [LoopState.All, List.not_mem_nil, false_implies, implies_true, and_self]
        · simp only [Option.bind_eq_some] at h
          obtain ⟨a, -, a2, -, b, -, b2, -, h⟩ := h
          split at h <;>
            simp only [Option.some.injEq] at h <;> subst h <;>
            simp only [LoopState.All, List.nil_append, List.forall_mem_append,
              List.forall_mem_map, List.forall_mem_singleton, List.not_mem_nil, EgressChain,
              true_or, or_true, implies_true, and_self, false_implies]

theorem egressRule_chain (u : Util) (ns : String) (tS : List String) (tC : String)
    (rule : NetworkPolicyEgressRule) (d : LoopState)
    (h : egressRule u ns tS tC LoopState.empty rule = some d) :
    d.All EgressChain := by
  simp only [egressRule] at h
  split at h
  · simp only [Option.some.injEq] at h
    subst h
    simp only [LoopState.empty, LoopState.All, List.nil_append, List.forall_mem_singleton,
      List.not_mem_nil, EgressChain, true_or, implies_true, and_self, false_implies]
  · split at h
    · simp only [Option.some.injEq] at h
      subst h
      simp only [LoopState.empty, LoopState.All, List.nil_append, List.forall_mem_map,
        List.not_mem_nil, EgressChain, true_or, implies_true, and_self, false_implies]
    · simp only [Option.bind_eq_bind, Option.bind_eq_some] at h
      obtain ⟨d1, h1, h⟩ := h
      rw [foldlM_additive _ (egressPeer_append u ns tS tC rule.Ports _)] at h1
      simp only [Option.map_eq_some'] at h1
      obtain ⟨d2, h2, rfl⟩ := h1
      have hd2 := foldlM_additive_all _ (egressPeer_append u ns tS tC rule.Ports _) EgressChain
        (fun x d hx => egressPeer_chain u ns tS tC rule.Ports _ x d hx) _ d2 h2
      split at h <;>
        simp only [Option.some.injEq] at h <;> subst h <;>
        simp only [LoopState.All, LoopState.append, LoopState.empty, List.nil_append,
          List.forall_mem_append, List.forall_mem_singleton, EgressChain, true_or,
          and_true] <;>
        exact hd2

theorem egressRules_chain (u : Util) (ns : String) (tS : List String) (tC : String)
    (rules : List NetworkPolicyEgressRule) (d : LoopState)
    (h : rules.foldlM (egressRule u ns tS tC) LoopState.empty = some d) :
    d.All EgressChain :=
  foldlM_additive_all _ (egressRule_append u ns tS tC) EgressChain
    (fun x d hx => egressRule_chain u ns tS tC x d hx) rules d h

/-- Every entry `translateEgress` returns is on one of the two chains of its
direction. -/
theorem translateEgress_chain (u : Util) (ns : String) (t : LabelSelector)
    (rules : List NetworkPolicyEgressRule) (r : Translation)
    (h : translateEgress u ns t rules = some r) : ∀ e ∈ r.entries, EgressChain e := by
  rw [translateEgress_eq_some] at h
  obtain ⟨tS, tC, d, -, -, hd, rfl⟩ := h
  have hall := egressRules_chain u ns tS tC rules d hd
  simp only [egressFinish, LoopState.init, LoopState.append, List.nil_append]
  split
  · simp only [List.forall_mem_append, List.forall_mem_singleton, EgressChain, true_or, and_true]
    exact hall
  · split
    · simp only [List.forall_mem_append, List.forall_mem_cons, List.not_mem_nil, EgressChain,
        true_or, or_true, and_true, false_implies, implies_true]
      exact hall
    · simp only [List.forall_mem_append]
      exact hall

/-! ## De-duplication -/

theorem mem_UniqueStrSlice (l : List String) (y : String) : y ∈ UniqueStrSlice l ↔ y ∈ l := by
  induction l with
  | nil => simp [UniqueStrSlice]
  | cons x xs ih =>
    simp only [UniqueStrSlice, List.mem_cons, List.mem_filter, ih, decide_eq_true_eq]
    constructor
    · rintro (h | ⟨h, -⟩)
      · exact Or.inl h
      · exact Or.inr h
    · rintro (h | h)
      · exact Or.inl h
      · by_cases hy : y = x
        · exact Or.inl hy
        · exact Or.inr ⟨h, hy⟩

theorem UniqueStrSlice_nodup (l : List String) : (UniqueStrSlice l).Nodup := by
  induction l with
  | nil => simp [UniqueStrSlice]
  | cons x xs ih =>
    simp only [UniqueStrSlice, List.nodup_cons, List.mem_filter, decide_eq_true_eq]
    exact ⟨fun h => h.2 rfl, ih.filter _⟩

/-! ## The orchestrator, direction by direction -/

theorem policyTypes_ne : PolicyTypeIngress ≠ PolicyTypeEgress := by decide

theorem policyTypeStep_ingress (u : Util) (npObj : NetworkPolicy) (st : PolicyState) :
    policyTypeStep u npObj st PolicyTypeIngress =
      (translateIngress u npObj.Namespace npObj.PodSelector npObj.Ingress).map (fun ingress =>
        { st with
          resultSets := st.resultSets ++ ingress.sets,
          resultLists := st.resultLists ++ ingress.lists,
          entries := st.entries ++ ingress.entries,
          hasIngress := !ingressDegenerate npObj }) := by
  simp only [policyTypeStep, if_true, policyTypes_ne, if_false, Option.bind_eq_bind,
    Option.pure_def]
  cases translateIngress u npObj.Namespace npObj.PodSelector npObj.Ingress with
  | none => rfl
  | some i => rfl

theorem policyTypeStep_egress (u : Util) (npObj : NetworkPolicy) (st : PolicyState) :
    policyTypeStep u npObj st PolicyTypeEgress =
      (translateEgress u npObj.Namespace npObj.PodSelector npObj.Egress).map (fun egress =>
        { st with
          resultSets := st.resultSets ++ egress.sets,
          resultLists := st.resultLists ++ egress.lists,
          entries := st.entries ++ egress.entries,
          hasEgress := !egressDegenerate npObj }) := by
  simp only [policyTypeStep, if_true, policyTypes_ne.symm, if_false, Option.bind_eq_bind,
    Option.pure_def, Option.some_bind]
  cases translateEgress u npObj.Namespace npObj.PodSelector npObj.Egress with
  | none => rfl
  | some i => rfl

theorem policyTypeStep_other (u : Util) (npObj : NetworkPolicy) (st : PolicyState)
    (ptype : String) (h1 : ptype ≠ PolicyTypeIngress) (h2 : ptype ≠ PolicyTypeEgress) :
    policyTypeStep u npObj st ptype = some st := by
  simp only [policyTypeStep, h1, h2, if_false, Option.bind_eq_bind, Option.some_bind]

/-- The loop of `translatePolicy` over the policy types: what it has collected
is the concatenation of the translations of the listed directions, and each
flag is set by the last step of its direction. -/
theorem policyTypes_foldlM (u : Util) (npObj : NetworkPolicy) :
    ∀ (pts : List String) (st0 st : PolicyState),
      pts.foldlM (policyTypeStep u npObj) st0 = some st →
      ∃ ts : List Translation,
        List.Forall₂ (fun dir t => translateDirection u npObj dir = some t)
          (pts.filter (fun t => t = PolicyTypeIngress ∨ t = PolicyTypeEgress)) ts ∧
        st.resultSets = st0.resultSets ++ (ts.map Translation.sets).flatten ∧
        st.resultLists = st0.resultLists ++ (ts.map Translation.lists).flatten ∧
        st.entries = st0.entries ++ (ts.map Translation.entries).flatten ∧
        st.hasIngress =
          (if PolicyTypeIngress ∈ pts then !ingressDegenerate npObj else st0.hasIngress) ∧
        st.hasEgress =
          (if PolicyTypeEgress ∈ pts then !egressDegenerate npObj else st0.hasEgress) := by
  intro pts
  induction pts with
  | nil =>
    intro st0 st h
    simp only [List.foldlM_nil, Option.pure_def, Option.some.injEq] at h
    subst h
    exact ⟨[], by simp⟩
  | cons pt pts ih =>
    intro st0 st h
    simp only [List.foldlM_cons, Option.bind_eq_bind, Option.bind_eq_some] at h
    obtain ⟨st1, h1, h2⟩ := h
    obtain ⟨ts, hts, hs, hl, he, hi, hg⟩ := ih st1 st h2
    by_cases hpi : pt = PolicyTypeIngress
    · subst hpi
      rw [policyTypeStep_ingress, Option.map_eq_some'] at h1
      obtain ⟨i, hi1, rfl⟩ := h1
      refine ⟨i :: ts, ?_, ?_, ?_, ?_, ?_, ?_⟩
      · simp only [true_or, decide_True, List.filter_cons_of_pos]
        exact List.Forall₂.cons (by simp [translateDirection, hi1]) hts
      · simp [hs, List.append_assoc]
      · simp [hl, List.append_assoc]
      · simp [he, List.append_assoc]
      · rw [hi]; simp
      · rw [hg]; simp [policyTypes_ne.symm]
    · by_cases hpe : pt = PolicyTypeEgress
      · subst hpe
        rw [policyTypeStep_egress, Option.map_eq_some'] at h1
        obtain ⟨i, hi1, rfl⟩ := h1
        refine ⟨i :: ts, ?_, ?_, ?_, ?_, ?_, ?_⟩
        · simp only [or_true, decide_True, List.filter_cons_of_pos]
          exact List.Forall₂.cons
            (by simp [translateDirection, hi1, policyTypes_ne.symm]) hts
        · simp [hs, List.append_assoc]
        · simp [hl, List.append_assoc]
        · simp [he, List.append_assoc]
        · rw [hi]; simp [policyTypes_ne]
        · rw [hg]; simp
      · rw [policyTypeStep_other u npObj st0 pt hpi hpe, Option.some.injEq] at h1
        subst h1
        refine ⟨ts, ?_, hs, hl, he, ?_, ?_⟩
        · simpa [hpi, hpe] using hts
        · rw [hi]; simp [Ne.symm hpi]
        · rw [hg]; simp [Ne.symm hpe]

/-- What `translatePolicy` has collected before it appends the default-drop
entries: the concatenation of the translations of the translated directions. -/
theorem translatePolicyDirections_spec (u : Util) (npObj : NetworkPolicy) (st : PolicyState)
    (h : translatePolicyDirections u npObj = some st) :
    ∃ ts : List Translation,
      List.Forall₂ (fun dir t => translateDirection u npObj dir = some t)
        (translatedDirections npObj) ts ∧
      st.resultSets = (ts.map Translation.sets).flatten ∧
      st.resultLists = (ts.map Translation.lists).flatten ∧
      st.entries = (ts.map Translation.entries).flatten := by
  unfold translatePolicyDirections at h
  unfold translatedDirections
  split at h
  · rename_i hlen
    simp only [Option.bind_eq_bind, Option.bind_eq_some, Option.some.injEq] at h
    obtain ⟨i, hi, e, he, rfl⟩ := h
    refine ⟨[i, e], ?_, by simp, by simp, by simp⟩
    rw [if_pos hlen]
    exact List.Forall₂.cons (by simp [translateDirection, hi])
      (List.Forall₂.cons (by simp [translateDirection, he, policyTypes_ne.symm])
        List.Forall₂.nil)
  · rename_i hlen
    obtain ⟨ts, hts, hs, hl, he, -, -⟩ := policyTypes_foldlM u npObj _ _ _ h
    rw [if_neg hlen]
    exact ⟨ts, hts, by simpa using hs, by simpa using hl, by simpa using he⟩

/-- The parts of a result of `translatePolicy`. -/
theorem translatePolicy_eq_some (u : Util) (npObj : NetworkPolicy) (r : Translation) :
    translatePolicy u npObj = some r ↔
      ∃ st drops, translatePolicyDirections u npObj = some st ∧
        getDefaultDropEntries u npObj.Namespace npObj.PodSelector st.hasIngress st.hasEgress =
          some drops ∧
        r = { sets := UniqueStrSlice st.resultSets, lists := UniqueStrSlice st.resultLists,
              entries := st.entries ++ drops } := by
  unfold translatePolicy
  simp only [Option.bind_eq_bind, Option.bind_eq_some, Option.some.injEq]
  constructor
  · rintro ⟨st, h1, drops, h2, rfl⟩
    exact ⟨st, drops, h1, h2, rfl⟩
  · rintro ⟨st, drops, h1, h2, rfl⟩
    exact ⟨st, h1, drops, h2, rfl⟩

/-! ## C1 -/

/-- C1. Whenever `translatePolicy` returns, the returned `sets` and `lists` have
no duplicate string, and each is the first-occurrence de-duplication
(`UniqueStrSlice`) of the concatenation of the `sets` (resp. `lists`) of the
translated directions, in the order in which the directions were translated;
in particular they have the same members as that concatenation. -/
theorem translatePolicy_sets_lists_deduplicated (u : Util) (npObj : NetworkPolicy)
    (r : Translation) (h : translatePolicy u npObj = some r) :
    ∃ ts : List Translation,
      List.Forall₂ (fun dir t => translateDirection u npObj dir = some t)
        (translatedDirections npObj) ts ∧
      r.sets = UniqueStrSlice (ts.map Translation.sets).flatten ∧
      r.lists = UniqueStrSlice (ts.map Translation.lists).flatten ∧
      r.sets.Nodup ∧ r.lists.Nodup ∧
      (∀ x, x ∈ r.sets ↔ x ∈ (ts.map Translation.sets).flatten) ∧
      (∀ x, x ∈ r.lists ↔ x ∈ (ts.map Translation.lists).flatten) := by
  rw [translatePolicy_eq_some] at h
  obtain ⟨st, drops, hst, -, rfl⟩ := h
  obtain ⟨ts, hts, hs, hl, -⟩ := translatePolicyDirections_spec u npObj st hst
  refine ⟨ts, hts, ?_, ?_, UniqueStrSlice_nodup _, UniqueStrSlice_nodup _, ?_, ?_⟩
  · simp only [hs]
  · simp only [hl]
  · intro x; simp only [hs, mem_UniqueStrSlice]
  · intro x; simp only [hl, mem_UniqueStrSlice]

/-- Witness of C1: the policy `webPolicy`, whose ingress direction names the
set `app:web` twice and whose egress direction names it once more. -/
theorem translatePolicy_sets_lists_deduplicated_witness :
    ∃ r, translatePolicy exampleUtil webPolicy = some r ∧
      r.sets = ["app:web"] ∧ r.lists = ["ns-env:prod"] ∧
      ∃ ts : List Translation,
        List.Forall₂ (fun dir t => translateDirection exampleUtil webPolicy dir = some t)
          (translatedDirections webPolicy) ts ∧
        r.sets = UniqueStrSlice (ts.map Translation.sets).flatten ∧
        r.lists = UniqueStrSlice (ts.map Translation.lists).flatten ∧
        r.sets.Nodup ∧ r.lists.Nodup ∧
        (∀ x, x ∈ r.sets ↔ x ∈ (ts.map Translation.sets).flatten) ∧
        (∀ x, x ∈ r.lists ↔ x ∈ (ts.map Translation.lists).flatten) :=
  ⟨_, rfl, rfl, rfl, translatePolicy_sets_lists_deduplicated exampleUtil webPolicy _ rfl⟩

/-! ## C2 -/

/-- What `getDefaultDropEntries` returns. -/
theorem getDefaultDropEntries_eq_some (u : Util) (ns : String) (t : LabelSelector)
    (hasIngress hasEgress : Bool) (drops : List IptEntry) :
    getDefaultDropEntries u ns t hasIngress hasEgress = some drops ↔
      ∃ tSd tSs tC,
        craftPartialIptEntrySpecFromOpsAndLabels u ns (targetOpsAndLabels u ns t).1
          (targetOpsAndLabels u ns t).2 IptablesDstFlag false = some tSd ∧
        craftPartialIptEntrySpecFromOpsAndLabels u ns (targetOpsAndLabels u ns t).1
          (targetOpsAndLabels u ns t).2 IptablesSrcFlag false = some tSs ∧
        craftPartialIptablesCommentFromSelector u ns (some t) false = some tC ∧
        drops = (if hasIngress then [dropAllToEntry tSd tC] else []) ++
          (if hasEgress then [dropAllFromEntry tSs tC] else []) := by
  unfold getDefaultDropEntries
  simp only [Option.bind_eq_bind, Option.bind_eq_some, Option.some.injEq]
  constructor
  · rintro ⟨tSd, h1, tSs, h2, tC, h3, rfl⟩
    refine ⟨tSd, tSs, tC, h1, h2, h3, ?_⟩
    cases hasIngress <;> cases hasEgress <;> rfl
  · rintro ⟨tSd, tSs, tC, h1, h2, h3, rfl⟩
    refine ⟨tSd, h1, tSs, h2, tC, h3, ?_⟩
    cases hasIngress <;> cases hasEgress <;> rfl

theorem ingressChain_ne_targetSets {e : IptEntry} (h : IngressChain e) :
    e.Chain ≠ IptablesAzureTargetSetsChain := by
  rcases h with h | h <;> rw [h] <;> decide

theorem egressChain_ne_targetSets {e : IptEntry} (h : EgressChain e) :
    e.Chain ≠ IptablesAzureTargetSetsChain := by
  rcases h with h | h <;> rw [h] <;> decide

/-- No entry of a translated direction is on the TargetSets chain. -/
theorem translateDirection_chain (u : Util) (npObj : NetworkPolicy) (dir : String)
    (t : Translation) (h : translateDirection u npObj dir = some t) :
    ∀ e ∈ t.entries, IngressChain e ∨ EgressChain e := by
  unfold translateDirection at h
  split at h
  · exact fun e he => Or.inl (translateIngress_chain u _ _ _ t h e he)
  · exact fun e he => Or.inr (translateEgress_chain u _ _ _ t h e he)

/-- Before the default-drop entries are appended, every collected entry is on
a chain of the ingress or of the egress direction. -/
theorem translatePolicyDirections_chain (u : Util) (npObj : NetworkPolicy) (st : PolicyState)
    (h : translatePolicyDirections u npObj = some st) :
    ∀ e ∈ st.entries, IngressChain e ∨ EgressChain e := by
  obtain ⟨ts, hts, -, -, he⟩ := translatePolicyDirections_spec u npObj st h
  rw [he]
  intro e hmem
  simp only [List.mem_flatten, List.mem_map] at hmem
  obtain ⟨l, ⟨t, ht, rfl⟩, hel⟩ := hmem
  obtain ⟨dir, -, hdir⟩ := forall₂_right_mem hts t ht
  exact translateDirection_chain u npObj dir t hdir e hel

/-- In a list made of a first part off a chain and a second part on it, every
entry on the chain comes after every entry off it. -/
theorem index_lt_of_split (c : String) (pre drops : List IptEntry)
    (hpre : ∀ e ∈ pre, e.Chain ≠ c) (hdrops : ∀ e ∈ drops, e.Chain = c)
    (i j : Nat) (ei ej : IptEntry)
    (hi : (pre ++ drops)[i]? = some ei) (hj : (pre ++ drops)[j]? = some ej)
    (hci : ei.Chain = c) (hcj : ej.Chain ≠ c) : j < i := by
  have hj' : j < pre.length := by
    by_contra hlt
    rw [List.getElem?_append_right (Nat.le_of_not_lt hlt)] at hj
    exact hcj (hdrops ej (List.getElem?_mem hj))
  have hi' : pre.length ≤ i := by
    by_contra hlt
    rw [List.getElem?_append_left (Nat.lt_of_not_le hlt)] at hi
    exact hpre ei (List.getElem?_mem hi) hci
  omega

/-- An entry does not end both with `-j ACCEPT` and with `-j DROP`. -/
theorem accept_ne_drop_specs (m m' : List String) (c c' : String) :
    m ++ jumpAndComment IptablesAccept c ≠ m' ++ jumpAndComment IptablesDrop c' := by
  intro h
  have h2 := (List.append_inj' h (by simp [jumpAndComment])).2
  simp only [jumpAndComment, List.cons.injEq] at h2
  exact absurd h2.2.1 (by decide)

/-- C2. Whenever `translatePolicy` returns, the returned entries are a first
part in which no entry is on the TargetSets chain, followed by the entries of
`getDefaultDropEntries`, each of which is on the TargetSets chain and jumps to
`DROP`: the default-drop entries form a suffix, and every entry on the
TargetSets chain comes after every entry on any other chain and after every
entry that ends with `-j ACCEPT` and its comment. -/
theorem translatePolicy_default_drops_last (u : Util) (npObj : NetworkPolicy)
    (r : Translation) (h : translatePolicy u npObj = some r) :
    (∃ (st : PolicyState) (drops : List IptEntry),
      translatePolicyDirections u npObj = some st ∧
      getDefaultDropEntries u npObj.Namespace npObj.PodSelector st.hasIngress st.hasEgress =
        some drops ∧
      r.entries = st.entries ++ drops ∧
      (∀ e ∈ st.entries, e.Chain ≠ IptablesAzureTargetSetsChain) ∧
      (∀ e ∈ drops, e.Chain = IptablesAzureTargetSetsChain ∧
        ∃ m c, e.Specs = m ++ jumpAndComment IptablesDrop c)) ∧
    (∀ (i j : Nat) (ei ej : IptEntry), r.entries[i]? = some ei → r.entries[j]? = some ej →
      ei.Chain = IptablesAzureTargetSetsChain → ej.Chain ≠ IptablesAzureTargetSetsChain →
      j < i) ∧
    (∀ (i j : Nat) (ei ej : IptEntry), r.entries[i]? = some ei → r.entries[j]? = some ej →
      ei.Chain = IptablesAzureTargetSetsChain →
      (∃ m c, ej.Specs = m ++ jumpAndComment IptablesAccept c) → j < i) := by
  rw [translatePolicy_eq_some] at h
  obtain ⟨st, drops, hst, hdrops, rfl⟩ := h
  have hpre : ∀ e ∈ st.entries, e.Chain ≠ IptablesAzureTargetSetsChain := by
    intro e he
    rcases translatePolicyDirections_chain u npObj st hst e he with hc | hc
    · exact ingressChain_ne_targetSets hc
    · exact egressChain_ne_targetSets hc
  have hd : ∀ e ∈ drops, e.Chain = IptablesAzureTargetSetsChain ∧
      ∃ m c, e.Specs = m ++ jumpAndComment IptablesDrop c := by
    obtain ⟨tSd, tSs, tC, -, -, -, rfl⟩ :=
      (getDefaultDropEntries_eq_some u _ _ _ _ drops).1 hdrops
    intro e he
    simp only [List.mem_append] at he
    rcases he with he | he
    · split at he
      · simp only [List.mem_singleton] at he
        subst he
        exact ⟨rfl, _, _, rfl⟩
      · simp at he
    · split at he
      · simp only [List.mem_singleton] at he
        subst he
        exact ⟨rfl, _, _, rfl⟩
      · simp at he
  refine ⟨⟨st, drops, hst, hdrops, rfl, hpre, hd⟩, ?_, ?_⟩
  · intro i j ei ej hi hj hci hcj
    exact index_lt_of_split _ st.entries drops hpre (fun e he => (hd e he).1) i j ei ej hi hj
      hci hcj
  · intro i j ei ej hi hj hci hacc
    refine index_lt_of_split _ st.entries drops hpre (fun e he => (hd e he).1) i j ei ej hi hj
      hci ?_
    intro hcj
    have hmem : ej ∈ drops := by
      rcases List.mem_append.1 (List.getElem?_mem hj) with hm | hm
      · exact absurd hcj (hpre ej hm)
      · exact hm
    obtain ⟨-, m, c, hs⟩ := hd ej hmem
    obtain ⟨m', c', hs'⟩ := hacc
    exact accept_ne_drop_specs m' m c' c (hs'.symm.trans hs)

/-- Witness of C2: the policy `webPolicy`, whose translation ends with its two
default-drop entries. -/
theorem translatePolicy_default_drops_last_witness :
    ∃ r, translatePolicy exampleUtil webPolicy = some r ∧
      (∃ (st : PolicyState) (drops : List IptEntry),
        translatePolicyDirections exampleUtil webPolicy = some st ∧
        getDefaultDropEntries exampleUtil webPolicy.Namespace webPolicy.PodSelector
          st.hasIngress st.hasEgress = some drops ∧
        r.entries = st.entries ++ drops ∧
        (∀ e ∈ st.entries, e.Chain ≠ IptablesAzureTargetSetsChain) ∧
        (∀ e ∈ drops, e.Chain = IptablesAzureTargetSetsChain ∧
          ∃ m c, e.Specs = m ++ jumpAndComment IptablesDrop c)) ∧
      (∀ (i j : Nat) (ei ej : IptEntry), r.entries[i]? = some ei → r.entries[j]? = some ej →
        ei.Chain = IptablesAzureTargetSetsChain → ej.Chain ≠ IptablesAzureTargetSetsChain →
        j < i) ∧
      (∀ (i j : Nat) (ei ej : IptEntry), r.entries[i]? = some ei → r.entries[j]? = some ej →
        ei.Chain = IptablesAzureTargetSetsChain →
        (∃ m c, ej.Specs = m ++ jumpAndComment IptablesAccept c) → j < i) :=
  ⟨_, rfl, translatePolicy_default_drops_last exampleUtil webPolicy _ rfl⟩

/-! ## Totality

The translator panics only where a selector with a label or an expression is
parsed to no label at all; with a parser that never does so it returns for
every policy, so that the statements of the form `translatePolicy u npObj =
some r → …` speak of every policy. -/

theorem foldlM_isSome {σ α : Type} (f : σ → α → Option σ)
    (hf : ∀ s x, ∃ s', f s x = some s') :
    ∀ (xs : List α) (s : σ), ∃ s', xs.foldlM f s = some s' := by
  intro xs
  induction xs with
  | nil => intro s; exact ⟨s, rfl⟩
  | cons x xs ih =>
    intro s
    obtain ⟨s1, h1⟩ := hf s x
    obtain ⟨s2, h2⟩ := ih s1
    exact ⟨s2, by simp [List.foldlM_cons, h1, h2]⟩

theorem comment_foldl_length (pfx : String) (l : List (String × String)) (init : String)
    (h : l ≠ [] ∨ "-AND-".length ≤ init.length) :
    "-AND-".length ≤ (l.foldl (fun comment p => comment ++ (pfx ++ p.1 ++ p.2) ++ "-AND-")
      init).length := by
  induction l generalizing init with
  | nil =>
    rcases h with h | h
    · exact absurd rfl h
    · simpa using h
  | cons p ps ih =>
    simp only [List.foldl_cons]
    apply ih
    right
    simp only [String.length_append]
    omega

theorem comment_isSome (u : Util) (hparse : ParserNonempty u) (ns : String)
    (sel : Option LabelSelector) (isNs : Bool) :
    ∃ c, craftPartialIptablesCommentFromSelector u ns sel isNs = some c := by
  cases sel with
  | none => exact ⟨_, rfl⟩
  | some sel =>
    simp only [craftPartialIptablesCommentFromSelector]
    split
    · split <;> exact ⟨_, rfl⟩
    · rename_i hne
      rw [if_neg (Nat.not_lt.2 (comment_foldl_length _ _ _ (Or.inl (hparse sel hne))))]
      exact ⟨_, rfl⟩

theorem craftSpec_isSome_of_length (u : Util) (ns : String) (ops labels : List String)
    (flag : String) (isNs : Bool) (h : ops.length = labels.length) :
    ∃ s, craftPartialIptEntrySpecFromOpsAndLabels u ns ops labels flag isNs = some s := by
  simp only [craftPartialIptEntrySpecFromOpsAndLabels]
  split
  · split <;> exact ⟨_, rfl⟩
  · rw [if_neg (by omega)]
    exact ⟨_, rfl⟩

theorem craftSelector_isSome (u : Util) (ns : String) (sel : Option LabelSelector)
    (flag : String) (isNs : Bool) :
    ∃ s, craftPartialIptEntrySpecFromSelector u ns sel flag isNs = some s :=
  craftSpec_isSome_of_length u ns _ _ flag isNs (by simp [parsedOps, parsedLabels])

theorem targetSpec_isSome (u : Util) (ns : String) (t : LabelSelector) (flag : String) :
    ∃ s, craftPartialIptEntrySpecFromOpsAndLabels u ns (targetOpsAndLabels u ns t).1
      (targetOpsAndLabels u ns t).2 flag false = some s := by
  apply craftSpec_isSome_of_length
  simp only [targetOpsAndLabels]
  split
  · rename_i h; simp [h.1]
  · simp [parsedOps, parsedLabels]

theorem ingressPeer_isSome (u : Util) (hparse : ParserNonempty u) (ns : String)
    (tS : List String) (tC : String) (ports : List NetworkPolicyPort) (pre : Bool)
    (st : LoopState) (peer : NetworkPolicyPeer) :
    ∃ st', ingressPeer u ns tS tC ports pre st peer = some st' := by
  obtain ⟨pod, nsSel, ip⟩ := peer
  cases ip with
  | some b =>
    simp only [ingressPeer]
    split <;> (try split) <;> exact ⟨_, rfl⟩
  | none =>
    cases pod with
    | none =>
      cases nsSel with
      | none => exact ⟨_, rfl⟩
      | some n =>
        obtain ⟨a, ha⟩ := craftSelector_isSome u ns (some n) IptablesSrcFlag true
        obtain ⟨b, hb⟩ := comment_isSome u hparse ns (some n) true
        simp only [ingressPeer, ha, hb, Option.bind_eq_bind, Option.some_bind, Option.pure_def]
        split <;> exact ⟨_, rfl⟩
    | some p =>
      cases nsSel with
      | none =>
        obtain ⟨a, ha⟩ := craftSelector_isSome u ns (some p) IptablesSrcFlag false
        obtain ⟨b, hb⟩ := comment_isSome u hparse ns (some p) false
        simp only [ingressPeer, ha, hb, Option.bind_eq_bind, Option.some_bind, Option.pure_def]
        split <;> exact ⟨_, rfl⟩
      | some n =>
        obtain ⟨a, ha⟩ := craftSelector_isSome u ns (some n) IptablesSrcFlag true
        obtain ⟨b, hb⟩ := comment_isSome u hparse ns (some n) true
        obtain ⟨a2, ha2⟩ := craftSelector_isSome u ns (some p) IptablesSrcFlag false
        obtain ⟨b2, hb2⟩ := comment_isSome u hparse ns (some p) false
        simp only [ingressPeer, ha, hb, ha2, hb2, Option.bind_eq_bind, Option.some_bind,
          Option.pure_def]
        split <;> (try split) <;> exact ⟨_, rfl⟩

theorem egressPeer_isSome (u : Util) (hparse : ParserNonempty u) (ns : String)
    (tS : List String) (tC : String) (ports : List NetworkPolicyPort) (pre : Bool)
    (st : LoopState) (peer : NetworkPolicyPeer) :
    ∃ st', egressPeer u ns tS tC ports pre st peer = some st' := by
  obtain ⟨pod, nsSel, ip⟩ := peer
  cases ip with
  | some b =>
    simp only [egressPeer]
    split <;> (try split) <;> exact ⟨_, rfl⟩
  | none =>
    cases pod with
    | none =>
      cases nsSel with
      | none => exact ⟨_, rfl⟩
      | some n =>
        obtain ⟨a, ha⟩ := craftSelector_isSome u ns (some n) IptablesDstFlag true
        obtain ⟨b, hb⟩ := comment_isSome u hparse ns (some n) true
        simp only [egressPeer, ha, hb, Option.bind_eq_bind, Option.some_bind, Option.pure_def]
        split <;> exact ⟨_, rfl⟩
    | some p =>
      cases nsSel with
      | none =>
        obtain ⟨a, ha⟩ := craftSelector_isSome u ns (some p) IptablesDstFlag false
        obtain ⟨b, hb⟩ := comment_isSome u hparse ns (some p) false
        simp only [egressPeer, ha, hb, Option.bind_eq_bind, Option.some_bind, Option.pure_def]
        split <;> exact ⟨_, rfl⟩
      | some n =>
        obtain ⟨a, ha⟩ := craftSelector_isSome u ns (some n) IptablesDstFlag true
        obtain ⟨b, hb⟩ := comment_isSome u hparse ns (some n) true
        obtain ⟨a2, ha2⟩ := craftSelector_isSome u ns (some p) IptablesDstFlag false
        obtain ⟨b2, hb2⟩ := comment_isSome u hparse ns (some p) false
        simp only [egressPeer, ha, hb, ha2, hb2, Option.bind_eq_bind, Option.some_bind,
          Option.pure_def]
        split <;> (try split) <;> exact ⟨_, rfl⟩

theorem ingressRule_isSome (u : Util) (hparse : ParserNonempty u) (ns : String)
    (tS : List String) (tC : String) (st : LoopState) (rule : NetworkPolicyIngressRule) :
    ∃ st', ingressRule u ns tS tC st rule = some st' := by
  simp only [ingressRule]
  split
  · exact ⟨_, rfl⟩
  · split
    · exact ⟨_, rfl⟩
    · obtain ⟨d, hd⟩ := foldlM_isSome _
        (fun s x => ingressPeer_isSome u hparse ns tS tC rule.Ports
          (decide (rule.Ports.length > 0)) s x) (rule.From.getD [])
        { st with addedPortEntry := st.addedPortEntry || decide (rule.Ports.length > 0) }
      simp only [hd, Option.bind_eq_bind, Option.some_bind]
      split <;> exact ⟨_, rfl⟩

theorem egressRule_isSome (u : Util) (hparse : ParserNonempty u) (ns : String)
    (tS : List String) (tC : String) (st : LoopState) (rule : NetworkPolicyEgressRule) :
    ∃ st', egressRule u ns tS tC st rule = some st' := by
  simp only [egressRule]
  split
  · exact ⟨_, rfl⟩
  · split
    · exact ⟨_, rfl⟩
    · obtain ⟨d, hd⟩ := foldlM_isSome _
        (fun s x => egressPeer_isSome u hparse ns tS tC rule.Ports
          (decide (rule.Ports.length > 0)) s x) (rule.To.getD [])
        { st with addedPortEntry := st.addedPortEntry || decide (rule.Ports.length > 0) }
      simp only [hd, Option.bind_eq_bind, Option.some_bind]
      split <;> exact ⟨_, rfl⟩

/-- `translateIngress` returns whenever the parser gives every non-empty
selector at least one label. -/
theorem translateIngress_isSome (u : Util) (hparse : ParserNonempty u) (ns : String)
    (t : LabelSelector) (rules : List NetworkPolicyIngressRule) :
    ∃ r, translateIngress u ns t rules = some r := by
  obtain ⟨tS, h1⟩ := targetSpec_isSome u ns t IptablesDstFlag
  obtain ⟨tC, h2⟩ := comment_isSome u hparse ns (some t) false
  obtain ⟨d, h3⟩ := foldlM_isSome _ (fun s x => ingressRule_isSome u hparse ns tS tC s x)
    rules LoopState.empty
  exact ⟨_, (translateIngress_eq_some u ns t rules _).2 ⟨tS, tC, d, h1, h2, h3, rfl⟩⟩

/-- `translateEgress` returns whenever the parser gives every non-empty
selector at least one label. -/
theorem translateEgress_isSome (u : Util) (hparse : ParserNonempty u) (ns : String)
    (t : LabelSelector) (rules : List NetworkPolicyEgressRule) :
    ∃ r, translateEgress u ns t rules = some r := by
  obtain ⟨tS, h1⟩ := targetSpec_isSome u ns t IptablesSrcFlag
  obtain ⟨tC, h2⟩ := comment_isSome u hparse ns (some t) false
  obtain ⟨d, h3⟩ := foldlM_isSome _ (fun s x => egressRule_isSome u hparse ns tS tC s x)
    rules LoopState.empty
  exact ⟨_, (translateEgress_eq_some u ns t rules _).2 ⟨tS, tC, d, h1, h2, h3, rfl⟩⟩

/-- `translatePolicy` returns for every policy whenever the parser gives every
non-empty selector at least one label. -/
theorem translatePolicy_isSome (u : Util) (hparse : ParserNonempty u) (npObj : NetworkPolicy) :
    ∃ r, translatePolicy u npObj = some r := by
  have hstep : ∀ st ptype, ∃ st', policyTypeStep u npObj st ptype = some st' := by
    intro st ptype
    obtain ⟨i, hi⟩ := translateIngress_isSome u hparse npObj.Namespace npObj.PodSelector
      npObj.Ingress
    obtain ⟨e, he⟩ := translateEgress_isSome u hparse npObj.Namespace npObj.PodSelector
      npObj.Egress
    by_cases h1 : ptype = PolicyTypeIngress
    · subst h1
      rw [policyTypeStep_ingress, hi]
      exact ⟨_, rfl⟩
    · by_cases h2 : ptype = PolicyTypeEgress
      · subst h2
        rw [policyTypeStep_egress, he]
        exact ⟨_, rfl⟩
      · exact ⟨_, policyTypeStep_other u npObj st ptype h1 h2⟩
  have hdir : ∃ st, translatePolicyDirections u npObj = some st := by
    unfold translatePolicyDirections
    split
    · obtain ⟨i, hi⟩ := translateIngress_isSome u hparse npObj.Namespace npObj.PodSelector
        npObj.Ingress
      obtain ⟨e, he⟩ := translateEgress_isSome u hparse npObj.Namespace npObj.PodSelector
        npObj.Egress
      simp only [hi, he, Option.bind_eq_bind, Option.some_bind]
      exact ⟨_, rfl⟩
    · exact foldlM_isSome _ hstep _ _
  obtain ⟨st, hst⟩ := hdir
  obtain ⟨tSd, h1⟩ := targetSpec_isSome u npObj.Namespace npObj.PodSelector IptablesDstFlag
  obtain ⟨tSs, h2⟩ := targetSpec_isSome u npObj.Namespace npObj.PodSelector IptablesSrcFlag
  obtain ⟨tC, h3⟩ := comment_isSome u hparse npObj.Namespace (some npObj.PodSelector) false
  exact ⟨_, (translatePolicy_eq_some u npObj _).2 ⟨st, _, hst,
    (getDefaultDropEntries_eq_some u _ _ _ _ _).2 ⟨tSd, tSs, tC, h1, h2, h3, rfl⟩, rfl⟩⟩

/-! ## One rule and one peer inside a rule list -/

/-- The additions of a loop over `l1 ++ x :: l2` are those of `l1`, of `x` and
of `l2`, in this order. -/
theorem foldlM_additive_split {α : Type} (f : LoopState → α → Option LoopState)
    (hf : ∀ s x, f s x = (f LoopState.empty x).map (LoopState.append s))
    (l1 : List α) (x : α) (l2 : List α) (d : LoopState)
    (h : (l1 ++ x :: l2).foldlM f LoopState.empty = some d) :
    ∃ d1 dx d2, l1.foldlM f LoopState.empty = some d1 ∧ f LoopState.empty x = some dx ∧
      l2.foldlM f LoopState.empty = some d2 ∧ d = d1.append (dx.append d2) := by
  rw [foldlM_additive_append f hf] at h
  simp only [Option.bind_eq_some, Option.map_eq_some'] at h
  obtain ⟨d1, h1, d', h2, rfl⟩ := h
  simp only [List.foldlM_cons, Option.bind_eq_bind, Option.bind_eq_some] at h2
  obtain ⟨dx, hx, h3⟩ := h2
  rw [foldlM_additive f hf] at h3
  simp only [Option.map_eq_some'] at h3
  obtain ⟨d2, h4, rfl⟩ := h3
  exact ⟨d1, dx, d2, h1, hx, h4, rfl⟩

theorem peerExists_ne_nil {peers : List NetworkPolicyPeer} (h : peerExists peers = true) :
    peers.length ≠ 0 := by
  cases peers with
  | nil => simp [peerExists] at h
  | cons p ps => simp

/-- A rule of `translateIngress` one of whose peers has a selector or an
ipBlock is the loop over its peers. -/
theorem ingressRule_of_peerExists (u : Util) (ns : String) (tS : List String) (tC : String)
    (st : LoopState) (rule : NetworkPolicyIngressRule) (peers : List NetworkPolicyPeer)
    (hfrom : rule.From = some peers) (hex : peerExists peers = true) :
    ingressRule u ns tS tC st rule =
      peers.foldlM (ingressPeer u ns tS tC rule.Ports (decide (rule.Ports.length > 0)))
        { st with addedPortEntry := st.addedPortEntry || decide (rule.Ports.length > 0) } := by
  have hlen := peerExists_ne_nil hex
  simp only [ingressRule, hfrom, hex, hlen, decide_False, Bool.or_true, Bool.not_true,
    Bool.and_false, Bool.false_and, Bool.false_eq_true, if_false, Option.getD_some,
    Option.bind_eq_bind]
  cases List.foldlM (ingressPeer u ns tS tC rule.Ports (decide (rule.Ports.length > 0)))
      { st with addedPortEntry := st.addedPortEntry || decide (rule.Ports.length > 0) }
      peers with
  | none => rfl
  | some d => rfl

/-- A rule of `translateEgress` one of whose peers has a selector or an ipBlock
is the loop over its peers. -/
theorem egressRule_of_peerExists (u : Util) (ns : String) (tS : List String) (tC : String)
    (st : LoopState) (rule : NetworkPolicyEgressRule) (peers : List NetworkPolicyPeer)
    (hto : rule.To = some peers) (hex : peerExists peers = true) :
    egressRule u ns tS tC st rule =
      peers.foldlM (egressPeer u ns tS tC rule.Ports (decide (rule.Ports.length > 0)))
        { st with addedPortEntry := st.addedPortEntry || decide (rule.Ports.length > 0) } := by
  have hlen := peerExists_ne_nil hex
  simp only [egressRule, hto, hex, hlen, decide_False, Bool.or_true, Bool.not_true,
    Bool.and_false, Bool.false_and, Bool.false_eq_true, if_false, Option.getD_some,
    Option.bind_eq_bind]
  cases List.foldlM (egressPeer u ns tS tC rule.Ports (decide (rule.Ports.length > 0)))
      { st with addedPortEntry := st.addedPortEntry || decide (rule.Ports.length > 0) }
      peers with
  | none => rfl
  | some d => rfl

theorem peerExists_append_cons (ps1 ps2 : List NetworkPolicyPeer) (peer : NetworkPolicyPeer)
    (h : (peer.PodSelector.isSome || peer.NamespaceSelector.isSome || peer.IPBlock.isSome)
      = true) :
    peerExists (ps1 ++ peer :: ps2) = true := by
  simp only [peerExists, List.any_append, List.any_cons, h, Bool.true_or, Bool.or_true]

theorem LoopState.Within.refl (a : LoopState) : a.Within a :=
  ⟨List.infix_rfl, List.infix_rfl, fun _ h => h, fun _ h => h⟩

theorem LoopState.Within.trans {a b c : LoopState} (h1 : a.Within b) (h2 : b.Within c) :
    a.Within c :=
  ⟨h1.1.trans h2.1, h1.2.1.trans h2.2.1, fun x hx => h2.2.2.1 x (h1.2.2.1 x hx),
    fun x hx => h2.2.2.2 x (h1.2.2.2 x hx)⟩

theorem LoopState.within_append_left (a b : LoopState) : a.Within (a.append b) :=
  ⟨List.prefix_append _ _ |>.isInfix, List.prefix_append _ _ |>.isInfix,
    fun _ h => List.mem_append_left _ h, fun _ h => List.mem_append_left _ h⟩

theorem LoopState.within_append_right (a b : LoopState) : b.Within (a.append b) :=
  ⟨List.suffix_append _ _ |>.isInfix, List.suffix_append _ _ |>.isInfix,
    fun _ h => List.mem_append_right _ h, fun _ h => List.mem_append_right _ h⟩

/-- In a loop over `l1 ++ x :: l2` that returns, the step for `x` returns and
what it adds is held by the result. -/
theorem foldlM_additive_within {α : Type} (f : LoopState → α → Option LoopState)
    (hf : ∀ s x, f s x = (f LoopState.empty x).map (LoopState.append s))
    (l1 : List α) (x : α) (l2 : List α) (s d : LoopState)
    (h : (l1 ++ x :: l2).foldlM f s = some d) :
    ∃ dx, f LoopState.empty x = some dx ∧ dx.Within d := by
  rw [foldlM_additive f hf] at h
  simp only [Option.map_eq_some'] at h
  obtain ⟨d', h, rfl⟩ := h
  obtain ⟨d1, dx, d2, -, hx, -, rfl⟩ := foldlM_additive_split f hf l1 x l2 d' h
  exact ⟨dx, hx, ((LoopState.within_append_left dx d2).trans
    (LoopState.within_append_right d1 _)).trans (LoopState.within_append_right s _)⟩

theorem mem_DropEmptyFields (l : List String) (x : String) :
    x ∈ DropEmptyFields l ↔ x ∈ l ∧ x ≠ "" := by
  simp [DropEmptyFields]

theorem ingressFinish_within (tS : List String) (tC : String) (st : LoopState) :
    st.entries <:+: (ingressFinish tS tC st).entries ∧
    st.peerEntries <:+: (ingressFinish tS tC st).entries ∧
    (∀ x ∈ st.sets, x ≠ "" → x ∈ (ingressFinish tS tC st).sets) ∧
    (∀ x ∈ st.lists, x ≠ "" → x ∈ (ingressFinish tS tC st).lists) := by
  refine ⟨?_, ?_, fun x hx hne => (mem_DropEmptyFields _ _).2 ⟨hx, hne⟩,
    fun x hx hne => (mem_DropEmptyFields _ _).2 ⟨hx, hne⟩⟩
  · simp only [ingressFinish]
    split
    · exact ((List.prefix_append _ _).trans (List.prefix_append _ _)).isInfix
    · split
      · exact ((List.prefix_append _ _).trans (List.prefix_append _ _)).isInfix
      · exact (List.prefix_append _ _).isInfix
  · simp only [ingressFinish]
    split
    · exact List.infix_append _ _ _
    · split
      · exact List.infix_append _ _ _
      · exact (List.suffix_append _ _).isInfix

theorem egressFinish_within (tS : List String) (tC : String) (st : LoopState) :
    st.entries <:+: (egressFinish tS tC st).entries ∧
    st.peerEntries <:+: (egressFinish tS tC st).entries ∧
    (∀ x ∈ st.sets, x ≠ "" → x ∈ (egressFinish tS tC st).sets) ∧
    (∀ x ∈ st.lists, x ≠ "" → x ∈ (egressFinish tS tC st).lists) := by
  refine ⟨?_, ?_, fun x hx hne => (mem_DropEmptyFields _ _).2 ⟨hx, hne⟩,
    fun x hx hne => (mem_DropEmptyFields _ _).2 ⟨hx, hne⟩⟩
  · simp only [egressFinish]
    split
    · exact ((List.prefix_append _ _).trans (List.prefix_append _ _)).isInfix
    · split
      · exact ((List.prefix_append _ _).trans (List.prefix_append _ _)).isInfix
      · exact (List.prefix_append _ _).isInfix
  · simp only [egressFinish]
    split
    · exact List.infix_append _ _ _
    · split
      · exact List.infix_append _ _ _
      · exact (List.suffix_append _ _).isInfix

/-- One peer of one rule of `translateIngress`: when the translation returns,
the step for the peer returns, the entries it adds are a block of consecutive
returned entries and the non-empty names it adds are returned. -/
theorem translateIngress_peer_block (u : Util) (ns : String) (t : LabelSelector)
    (pre post : List NetworkPolicyIngressRule) (rule : NetworkPolicyIngressRule)
    (ps1 ps2 : List NetworkPolicyPeer) (peer : NetworkPolicyPeer) (r : Translation)
    (hfrom : rule.From = some (ps1 ++ peer :: ps2))
    (hpeer : (peer.PodSelector.isSome || peer.NamespaceSelector.isSome ||
      peer.IPBlock.isSome) = true)
    (h : translateIngress u ns t (pre ++ rule :: post) = some r) :
    ∃ tS tC dx,
      craftPartialIptEntrySpecFromOpsAndLabels u ns (targetOpsAndLabels u ns t).1
        (targetOpsAndLabels u ns t).2 IptablesDstFlag false = some tS ∧
      craftPartialIptablesCommentFromSelector u ns (some t) false = some tC ∧
      ingressPeer u ns tS tC rule.Ports (decide (rule.Ports.length > 0)) LoopState.empty peer
        = some dx ∧
      dx.entries <:+: r.entries ∧ dx.peerEntries <:+: r.entries ∧
      (∀ x ∈ dx.sets, x ≠ "" → x ∈ r.sets) ∧ (∀ x ∈ dx.lists, x ≠ "" → x ∈ r.lists) := by
  rw [translateIngress_eq_some] at h
  obtain ⟨tS, tC, d, h1, h2, hd, rfl⟩ := h
  obtain ⟨dr, hr, hrd⟩ := foldlM_additive_within _ (ingressRule_append u ns tS tC)
    pre rule post _ d hd
  rw [ingressRule_of_peerExists u ns tS tC _ rule _ hfrom
    (peerExists_append_cons ps1 ps2 peer hpeer)] at hr
  obtain ⟨dx, hx, hxr⟩ := foldlM_additive_within _
    (ingressPeer_append u ns tS tC rule.Ports _) ps1 peer ps2 _ dr hr
  have hw := (hxr.trans hrd).trans (LoopState.within_append_right
    (LoopState.init (targetOpsAndLabels u ns t).2) d)
  obtain ⟨f1, f2, f3, f4⟩ := ingressFinish_within tS tC
    ((LoopState.init (targetOpsAndLabels u ns t).2).append d)
  exact ⟨tS, tC, dx, h1, h2, hx, hw.1.trans f1, hw.2.1.trans f2,
    fun x hx hne => f3 x (hw.2.2.1 x hx) hne, fun x hx hne => f4 x (hw.2.2.2 x hx) hne⟩

/-- One peer of one rule of `translateEgress`: when the translation returns,
the step for the peer returns, the entries it adds are a block of consecutive
returned entries and the non-empty names it adds are returned. -/
theorem translateEgress_peer_block (u : Util) (ns : String) (t : LabelSelector)
    (pre post : List NetworkPolicyEgressRule) (rule : NetworkPolicyEgressRule)
    (ps1 ps2 : List NetworkPolicyPeer) (peer : NetworkPolicyPeer) (r : Translation)
    (hto : rule.To = some (ps1 ++ peer :: ps2))
    (hpeer : (peer.PodSelector.isSome || peer.NamespaceSelector.isSome ||
      peer.IPBlock.isSome) = true)
    (h : translateEgress u ns t (pre ++ rule :: post) = some r) :
    ∃ tS tC dx,
      craftPartialIptEntrySpecFromOpsAndLabels u ns (targetOpsAndLabels u ns t).1
        (targetOpsAndLabels u ns t).2 IptablesSrcFlag false = some tS ∧
      craftPartialIptablesCommentFromSelector u ns (some t) false = some tC ∧
      egressPeer u ns tS tC rule.Ports (decide (rule.Ports.length > 0)) LoopState.empty peer
        = some dx ∧
      dx.entries <:+: r.entries ∧ dx.peerEntries <:+: r.entries ∧
      (∀ x ∈ dx.sets, x ≠ "" → x ∈ r.sets) ∧ (∀ x ∈ dx.lists, x ≠ "" → x ∈ r.lists) := by
  rw [translateEgress_eq_some] at h
  obtain ⟨tS, tC, d, h1, h2, hd, rfl⟩ := h
  obtain ⟨dr, hr, hrd⟩ := foldlM_additive_within _ (egressRule_append u ns tS tC)
    pre rule post _ d hd
  rw [egressRule_of_peerExists u ns tS tC _ rule _ hto
    (peerExists_append_cons ps1 ps2 peer hpeer)] at hr
  obtain ⟨dx, hx, hxr⟩ := foldlM_additive_within _
    (egressPeer_append u ns tS tC rule.Ports _) ps1 peer ps2 _ dr hr
  have hw := (hxr.trans hrd).trans (LoopState.within_append_right
    (LoopState.init (targetOpsAndLabels u ns t).2) d)
  obtain ⟨f1, f2, f3, f4⟩ := egressFinish_within tS tC
    ((LoopState.init (targetOpsAndLabels u ns t).2).append d)
  exact ⟨tS, tC, dx, h1, h2, hx, hw.1.trans f1, hw.2.1.trans f2,
    fun x hx hne => f3 x (hw.2.2.1 x hx) hne, fun x hx hne => f4 x (hw.2.2.2 x hx) hne⟩

theorem forall₂_left_mem {α β : Type} {R : α → β → Prop} {l1 : List α} {l2 : List β}
    (h : List.Forall₂ R l1 l2) : ∀ a ∈ l1, ∃ b ∈ l2, R a b := by
  induction h with
  | nil => intro a ha; cases ha
  | cons hd _ ih =>
    intro a ha
    rcases List.mem_cons.1 ha with rfl | ha
    · exact ⟨_, List.mem_cons_self _ _, hd⟩
    · obtain ⟨b, hb, hr⟩ := ih a ha
      exact ⟨b, List.mem_cons_of_mem _ hb, hr⟩

/-- A translated direction inside the result of `translatePolicy`: its entries
are a block of consecutive returned entries and its names are returned. -/
theorem translatePolicy_direction_block (u : Util) (npObj : NetworkPolicy) (r : Translation)
    (dir : String) (h : translatePolicy u npObj = some r)
    (hdir : dir ∈ translatedDirections npObj) :
    ∃ t, translateDirection u npObj dir = some t ∧ t.entries <:+: r.entries ∧
      (∀ x ∈ t.sets, x ∈ r.sets) ∧ (∀ x ∈ t.lists, x ∈ r.lists) := by
  rw [translatePolicy_eq_some] at h
  obtain ⟨st, drops, hst, -, rfl⟩ := h
  obtain ⟨ts, hts, hs, hl, he⟩ := translatePolicyDirections_spec u npObj st hst
  obtain ⟨t, ht, hdt⟩ := forall₂_left_mem hts dir hdir
  refine ⟨t, hdt, ?_, ?_, ?_⟩
  · have h1 : t.entries <:+: st.entries := by
      rw [he]
      exact List.infix_of_mem_flatten (List.mem_map_of_mem _ ht)
    exact h1.trans (List.prefix_append _ _).isInfix
  · intro x hx
    simp only [mem_UniqueStrSlice, hs, List.mem_flatten, List.mem_map]
    exact ⟨t.sets, ⟨t, ht, rfl⟩, hx⟩
  · intro x hx
    simp only [mem_UniqueStrSlice, hl, List.mem_flatten, List.mem_map]
    exact ⟨t.lists, ⟨t, ht, rfl⟩, hx⟩

/-! ## C3: the entries as they are built -/

/-- What an ipBlock peer adds in `translateIngress`: nothing but entries of the
side buffer, the DROP entries of its except CIDRs followed by the ACCEPT
entries of its cidr. -/
theorem ingressPeer_ipBlock (u : Util) (ns : String) (tS : List String) (tC : String)
    (ports : List NetworkPolicyPort) (pre : Bool) (peer : NetworkPolicyPeer) (block : IPBlock)
    (hb : peer.IPBlock = some block) :
    ∃ dx, ingressPeer u ns tS tC ports pre LoopState.empty peer = some dx ∧
      dx.sets = [] ∧ dx.lists = [] ∧ dx.entries = [] ∧
      dx.peerEntries =
        block.Except.map (fun except =>
          { Chain := IptablesAzureIngressFromChain,
            Specs := [IptablesSFlag, except] ++ tS ++
              jumpAndComment IptablesDrop ("DROP-" ++ except ++ "-TO-" ++ tC) }) ++
        (if block.CIDR ≠ "" then
          if pre then
            ports.map (fun portRule =>
              { Chain := IptablesAzureIngressPortChain,
                Specs := tS ++ [IptablesSFlag, block.CIDR] ++
                  craftPartialIptEntrySpecFromPort portRule IptablesDstPortFlag ++
                  jumpAndComment IptablesAccept
                    ("ALLOW-" ++ block.CIDR ++ "-:-" ++
                      craftPartialIptablesCommentFromPort portRule IptablesDstPortFlag ++
                      "-TO-" ++ tC) })
          else
            [{ Chain := IptablesAzureIngressFromChain,
               Specs := tS ++ [IptablesSFlag, block.CIDR] ++
                 jumpAndComment IptablesAccept ("ALLOW-" ++ block.CIDR ++ "-TO-" ++ tC) }]
        else []) := by
  obtain ⟨pod, nsSel, ip⟩ := peer
  simp only at hb
  subst hb
  simp only [ingressPeer, LoopState.empty]
  rcases block with ⟨cidr, excepts⟩
  cases excepts with
  | nil => by_cases hc : cidr = "" <;> cases pre <;> simp [hc]
  | cons x xs => by_cases hc : cidr = "" <;> cases pre <;> simp [hc]

/-- What an ipBlock peer adds in `translateEgress`: nothing but entries of the
side buffer, the DROP entries of its except CIDRs followed by the ACCEPT
entries of its cidr. -/
theorem egressPeer_ipBlock (u : Util) (ns : String) (tS : List String) (tC : String)
    (ports : List NetworkPolicyPort) (pre : Bool) (peer : NetworkPolicyPeer) (block : IPBlock)
    (hb : peer.IPBlock = some block) :
    ∃ dx, egressPeer u ns tS tC ports pre LoopState.empty peer = some dx ∧
      dx.sets = [] ∧ dx.lists = [] ∧ dx.entries = [] ∧
      dx.peerEntries =
        block.Except.map (fun except =>
          { Chain := IptablesAzureEgressToChain,
            Specs := tS ++ [IptablesDFlag, except] ++
              jumpAndComment IptablesDrop ("DROP-" ++ except ++ "-FROM-" ++ tC) }) ++
        (if block.CIDR ≠ "" then
          if pre then
            ports.map (fun portRule =>
              { Chain := IptablesAzureEgressPortChain,
                Specs := craftPartialIptEntrySpecFromPort portRule IptablesDstPortFlag ++
                  tS ++ [IptablesDFlag, block.CIDR] ++
                  jumpAndComment IptablesAccept
                    ("ALLOW-" ++ block.CIDR ++ "-:-" ++
                      craftPartialIptablesCommentFromPort portRule IptablesDstPortFlag ++
                      "-FROM-" ++ tC) })
          else
            [{ Chain := IptablesAzureEgressToChain,
               Specs := [IptablesDFlag, block.CIDR] ++ tS ++
                 jumpAndComment IptablesAccept ("ALLOW-" ++ block.CIDR ++ "-FROM-" ++ tC) }]
        else []) := by
  obtain ⟨pod, nsSel, ip⟩ := peer
  simp only at hb
  subst hb
  simp only [egressPeer, LoopState.empty]
  rcases block with ⟨cidr, excepts⟩
  cases excepts with
  | nil => by_cases hc : cidr = "" <;> cases pre <;> simp [hc]
  | cons x xs => by_cases hc : cidr = "" <;> cases pre <;> simp [hc]

/-- Of the entries as they are built.  Whenever `translatePolicy` returns, for each translated
direction and every ipBlock peer of one of its rules, the DROP entries of the
peer's except CIDRs, in the order of the except list, are immediately followed
in the returned entries by the ACCEPT entries emitted for that same peer (one
per port of the rule, or one on the From/To chain when the rule has no ports,
none when the cidr is empty). -/
theorem ipBlock_except_drops_before_own_accepts (u : Util) (npObj : NetworkPolicy)
    (r : Translation) (h : translatePolicy u npObj = some r) :
    (PolicyTypeIngress ∈ translatedDirections npObj →
      ∀ (pre post : List NetworkPolicyIngressRule) (rule : NetworkPolicyIngressRule)
        (ps1 ps2 : List NetworkPolicyPeer) (peer : NetworkPolicyPeer) (block : IPBlock),
        npObj.Ingress = pre ++ rule :: post → rule.From = some (ps1 ++ peer :: ps2) →
        peer.IPBlock = some block →
        ∃ tS tC,
          craftPartialIptEntrySpecFromOpsAndLabels u npObj.Namespace
            (targetOpsAndLabels u npObj.Namespace npObj.PodSelector).1
            (targetOpsAndLabels u npObj.Namespace npObj.PodSelector).2 IptablesDstFlag false
            = some tS ∧
          craftPartialIptablesCommentFromSelector u npObj.Namespace (some npObj.PodSelector)
            false = some tC ∧
          (block.Except.map (fun except =>
              ({ Chain := IptablesAzureIngressFromChain,
                 Specs := [IptablesSFlag, except] ++ tS ++
                   jumpAndComment IptablesDrop ("DROP-" ++ except ++ "-TO-" ++ tC) }
                : IptEntry)) ++
            (if block.CIDR ≠ "" then
              if rule.Ports.length > 0 then
                rule.Ports.map (fun portRule =>
                  { Chain := IptablesAzureIngressPortChain,
                    Specs := tS ++ [IptablesSFlag, block.CIDR] ++
                      craftPartialIptEntrySpecFromPort portRule IptablesDstPortFlag ++
                      jumpAndComment IptablesAccept
                        ("ALLOW-" ++ block.CIDR ++ "-:-" ++
                          craftPartialIptablesCommentFromPort portRule IptablesDstPortFlag ++
                          "-TO-" ++ tC) })
              else
                [{ Chain := IptablesAzureIngressFromChain,
                   Specs := tS ++ [IptablesSFlag, block.CIDR] ++
                     jumpAndComment IptablesAccept
                       ("ALLOW-" ++ block.CIDR ++ "-TO-" ++ tC) }]
            else [])) <:+: r.entries) ∧
    (PolicyTypeEgress ∈ translatedDirections npObj →
      ∀ (pre post : List NetworkPolicyEgressRule) (rule : NetworkPolicyEgressRule)
        (ps1 ps2 : List NetworkPolicyPeer) (peer : NetworkPolicyPeer) (block : IPBlock),
        npObj.Egress = pre ++ rule :: post → rule.To = some (ps1 ++ peer :: ps2) →
        peer.IPBlock = some block →
        ∃ tS tC,
          craftPartialIptEntrySpecFromOpsAndLabels u npObj.Namespace
            (targetOpsAndLabels u npObj.Namespace npObj.PodSelector).1
            (targetOpsAndLabels u npObj.Namespace npObj.PodSelector).2 IptablesSrcFlag false
            = some tS ∧
          craftPartialIptablesCommentFromSelector u npObj.Namespace (some npObj.PodSelector)
            false = some tC ∧
          (block.Except.map (fun except =>
              ({ Chain := IptablesAzureEgressToChain,
                 Specs := tS ++ [IptablesDFlag, except] ++
                   jumpAndComment IptablesDrop ("DROP-" ++ except ++ "-FROM-" ++ tC) }
                : IptEntry)) ++
            (if block.CIDR ≠ "" then
              if rule.Ports.length > 0 then
                rule.Ports.map (fun portRule =>
                  { Chain := IptablesAzureEgressPortChain,
                    Specs := craftPartialIptEntrySpecFromPort portRule IptablesDstPortFlag ++
                      tS ++ [IptablesDFlag, block.CIDR] ++
                      jumpAndComment IptablesAccept
                        ("ALLOW-" ++ block.CIDR ++ "-:-" ++
                          craftPartialIptablesCommentFromPort portRule IptablesDstPortFlag ++
                          "-FROM-" ++ tC) })
              else
                [{ Chain := IptablesAzureEgressToChain,
                   Specs := [IptablesDFlag, block.CIDR] ++ tS ++
                     jumpAndComment IptablesAccept
                       ("ALLOW-" ++ block.CIDR ++ "-FROM-" ++ tC) }]
            else [])) <:+: r.entries) := by
  constructor
  · intro hdir pre post rule ps1 ps2 peer block hrules hfrom hb
    obtain ⟨t, ht, hblock, -, -⟩ :=
      translatePolicy_direction_block u npObj r PolicyTypeIngress h hdir
    simp only [translateDirection, if_true, hrules] at ht
    obtain ⟨tS, tC, dx, h1, h2, hx, -, hpe, -, -⟩ :=
      translateIngress_peer_block u _ _ pre post rule ps1 ps2 peer t hfrom
        (by simp [hb]) ht
    obtain ⟨dx', hx', -, -, -, hpe'⟩ := ingressPeer_ipBlock u npObj.Namespace tS tC
      rule.Ports (decide (rule.Ports.length > 0)) peer block hb
    rw [hx, Option.some.injEq] at hx'
    subst hx'
    refine ⟨tS, tC, h1, h2, ?_⟩
    have := hpe.trans hblock
    rw [hpe'] at this
    simpa using this
  · intro hdir pre post rule ps1 ps2 peer block hrules hto hb
    obtain ⟨t, ht, hblock, -, -⟩ :=
      translatePolicy_direction_block u npObj r PolicyTypeEgress h hdir
    simp only [translateDirection, policyTypes_ne.symm, if_false, hrules] at ht
    obtain ⟨tS, tC, dx, h1, h2, hx, -, hpe, -, -⟩ :=
      translateEgress_peer_block u _ _ pre post rule ps1 ps2 peer t hto
        (by simp [hb]) ht
    obtain ⟨dx', hx', -, -, -, hpe'⟩ := egressPeer_ipBlock u npObj.Namespace tS tC
      rule.Ports (decide (rule.Ports.length > 0)) peer block hb
    rw [hx, Option.some.injEq] at hx'
    subst hx'
    refine ⟨tS, tC, h1, h2, ?_⟩
    have := hpe.trans hblock
    rw [hpe'] at this
    simpa using this

/-- The entries as they are built, an instance: in `twoBlocksPolicy` the DROP entry of
`10.1.0.0/16` is immediately followed by the ACCEPT entry of its own peer. -/
theorem ipBlock_except_drops_before_own_accepts_witness :
    ∃ r, translatePolicy exampleUtil twoBlocksPolicy = some r ∧
      ∃ tS tC,
        craftPartialIptEntrySpecFromOpsAndLabels exampleUtil "default"
          (targetOpsAndLabels exampleUtil "default" (selectorOf "app" "web")).1
          (targetOpsAndLabels exampleUtil "default" (selectorOf "app" "web")).2
          IptablesDstFlag false = some tS ∧
        craftPartialIptablesCommentFromSelector exampleUtil "default"
          (some (selectorOf "app" "web")) false = some tC ∧
        [({ Chain := IptablesAzureIngressFromChain,
            Specs := [IptablesSFlag, "10.1.0.0/16"] ++ tS ++
              jumpAndComment IptablesDrop ("DROP-" ++ "10.1.0.0/16" ++ "-TO-" ++ tC) }
            : IptEntry),
         { Chain := IptablesAzureIngressFromChain,
           Specs := tS ++ [IptablesSFlag, "10.0.0.0/8"] ++
             jumpAndComment IptablesAccept ("ALLOW-" ++ "10.0.0.0/8" ++ "-TO-" ++ tC) }]
          <:+: r.entries :=
  ⟨_, rfl,
    (ipBlock_except_drops_before_own_accepts exampleUtil twoBlocksPolicy _ rfl).1
      (by decide) [] [] _ [ipBlockPeer "10.0.0.0/8" []] []
      (ipBlockPeer "10.0.0.0/8" ["10.1.0.0/16"]) _ rfl rfl rfl⟩

/-- The entries as they are built: in the translation of `twoBlocksPolicy` the
DROP entry of the except CIDR `10.1.0.0/16` (the second entry) comes after an
ACCEPT entry that matches the parent cidr `10.0.0.0/8` (the first entry, which
the other peer of the same rule emitted). -/
theorem except_drop_after_accept_of_same_cidr :
    ∃ r, translatePolicy exampleUtil twoBlocksPolicy = some r ∧
      ¬ ExceptDropsBeforeAccepts IptablesSFlag
        { CIDR := "10.0.0.0/8", Except := ["10.1.0.0/16"] } r.entries := by
  refine ⟨_, rfl, ?_⟩
  intro hC
  have h := hC 1 0 _ _ "10.1.0.0/16" (List.mem_singleton.2 rfl) rfl rfl
    ⟨[], _, rfl⟩ ⟨_ :: _ :: _ :: _ :: _ :: _ :: _ :: [], _, rfl⟩
    ⟨_ :: _ :: _ :: _ :: _ :: [], _, rfl⟩ ⟨_ :: _ :: _ :: _ :: _ :: _ :: _ :: [], _, rfl⟩
  omega

/-! ## C4 -/

theorem dropAllTo_comment_ne (a b : String) : "DROP-ALL-TO-" ++ a ≠ "DROP-ALL-FROM-" ++ b := by
  intro h
  have h2 := congrArg String.data h
  simp only [String.data_append] at h2
  exact absurd h2 (by simp)

theorem getLast?_jumpAndComment (m : List String) (T c : String) :
    (m ++ jumpAndComment T c).getLast? = some c := by
  simp [jumpAndComment]

theorem dropAllToEntry_ne_dropAllFromEntry (tSd tSs : List String) (a b : String) :
    dropAllToEntry tSd a ≠ dropAllFromEntry tSs b := by
  intro h
  have h2 := congrArg (fun e => e.Specs.getLast?) h
  simp only [dropAllToEntry, dropAllFromEntry, getLast?_jumpAndComment, Option.some.injEq] at h2
  exact dropAllTo_comment_ne a b h2

/-- The entries `translatePolicy` returns: the entries of the translated
directions, none on the TargetSets chain, then `DROP-ALL-TO-<target>` when
`hasIngress` is set, then `DROP-ALL-FROM-<target>` when `hasEgress` is set. -/
theorem translatePolicy_entries (u : Util) (npObj : NetworkPolicy) (r : Translation)
    (h : translatePolicy u npObj = some r) :
    ∃ st tSd tSs tC,
      translatePolicyDirections u npObj = some st ∧
      craftPartialIptEntrySpecFromOpsAndLabels u npObj.Namespace
        (targetOpsAndLabels u npObj.Namespace npObj.PodSelector).1
        (targetOpsAndLabels u npObj.Namespace npObj.PodSelector).2 IptablesDstFlag false
        = some tSd ∧
      craftPartialIptEntrySpecFromOpsAndLabels u npObj.Namespace
        (targetOpsAndLabels u npObj.Namespace npObj.PodSelector).1
        (targetOpsAndLabels u npObj.Namespace npObj.PodSelector).2 IptablesSrcFlag false
        = some tSs ∧
      craftPartialIptablesCommentFromSelector u npObj.Namespace (some npObj.PodSelector) false
        = some tC ∧
      r.entries = st.entries ++
        ((if st.hasIngress then [dropAllToEntry tSd tC] else []) ++
          (if st.hasEgress then [dropAllFromEntry tSs tC] else [])) ∧
      r.sets = UniqueStrSlice st.resultSets ∧ r.lists = UniqueStrSlice st.resultLists ∧
      (∀ e ∈ st.entries, e.Chain ≠ IptablesAzureTargetSetsChain) := by
  rw [translatePolicy_eq_some] at h
  obtain ⟨st, drops, hst, hdrops, rfl⟩ := h
  obtain ⟨tSd, tSs, tC, h1, h2, h3, rfl⟩ :=
    (getDefaultDropEntries_eq_some u _ _ _ _ drops).1 hdrops
  refine ⟨st, tSd, tSs, tC, hst, h1, h2, h3, rfl, rfl, rfl, ?_⟩
  intro e he
  rcases translatePolicyDirections_chain u npObj st hst e he with hc | hc
  · exact ingressChain_ne_targetSets hc
  · exact egressChain_ne_targetSets hc

theorem count_eq_zero_of_chain (l : List IptEntry) (e : IptEntry)
    (hl : ∀ x ∈ l, x.Chain ≠ IptablesAzureTargetSetsChain)
    (he : e.Chain = IptablesAzureTargetSetsChain) : l.count e = 0 := by
  rw [List.count_eq_zero]
  intro hmem
  exact hl e hmem he

theorem filter_targetSets_eq_nil (l : List IptEntry)
    (hl : ∀ x ∈ l, x.Chain ≠ IptablesAzureTargetSetsChain) :
    l.filter (fun e => e.Chain = IptablesAzureTargetSetsChain) = [] := by
  rw [List.filter_eq_nil_iff]
  intro x hx
  simpa using hl x hx

/-- C4. Whenever `translatePolicy` returns, with `hasIngress` and `hasEgress`
as it computes them: the returned entries on the TargetSets chain are exactly
the entry `DROP-ALL-TO-<target>` (target matched with `dst`, jump to `DROP`)
when `hasIngress` is set, followed by the entry `DROP-ALL-FROM-<target>`
(target matched with `src`) when `hasEgress` is set; so the first occurs once
when `hasIngress` is set and never otherwise, the second once when `hasEgress`
is set and never otherwise, and the first precedes the second. -/
theorem default_drop_entries_count (u : Util) (npObj : NetworkPolicy) (r : Translation)
    (h : translatePolicy u npObj = some r) :
    ∃ st tSd tSs tC,
      translatePolicyDirections u npObj = some st ∧
      craftPartialIptEntrySpecFromOpsAndLabels u npObj.Namespace
        (targetOpsAndLabels u npObj.Namespace npObj.PodSelector).1
        (targetOpsAndLabels u npObj.Namespace npObj.PodSelector).2 IptablesDstFlag false
        = some tSd ∧
      craftPartialIptEntrySpecFromOpsAndLabels u npObj.Namespace
        (targetOpsAndLabels u npObj.Namespace npObj.PodSelector).1
        (targetOpsAndLabels u npObj.Namespace npObj.PodSelector).2 IptablesSrcFlag false
        = some tSs ∧
      craftPartialIptablesCommentFromSelector u npObj.Namespace (some npObj.PodSelector) false
        = some tC ∧
      r.entries.filter (fun e => e.Chain = IptablesAzureTargetSetsChain) =
        (if st.hasIngress then [dropAllToEntry tSd tC] else []) ++
          (if st.hasEgress then [dropAllFromEntry tSs tC] else []) ∧
      r.entries.count (dropAllToEntry tSd tC) = (if st.hasIngress then 1 else 0) ∧
      r.entries.count (dropAllFromEntry tSs tC) = (if st.hasEgress then 1 else 0) ∧
      (st.hasIngress = true → st.hasEgress = true →
        ∃ before, r.entries = before ++ [dropAllToEntry tSd tC, dropAllFromEntry tSs tC]) := by
  obtain ⟨st, tSd, tSs, tC, hst, h1, h2, h3, he, -, -, hchain⟩ :=
    translatePolicy_entries u npObj r h
  have hne := dropAllToEntry_ne_dropAllFromEntry tSd tSs tC tC
  refine ⟨st, tSd, tSs, tC, hst, h1, h2, h3, ?_, ?_, ?_, ?_⟩
  · rw [he, List.filter_append, filter_targetSets_eq_nil _ hchain]
    cases st.hasIngress <;> cases st.hasEgress <;>
      simp [dropAllToEntry, dropAllFromEntry]
  · rw [he, List.count_append, count_eq_zero_of_chain _ _ hchain rfl]
    cases st.hasIngress <;> cases st.hasEgress <;> simp [hne, Ne.symm hne]
  · rw [he, List.count_append, count_eq_zero_of_chain _ _ hchain rfl]
    cases st.hasIngress <;> cases st.hasEgress <;> simp [hne, Ne.symm hne]
  · intro hi hg
    exact ⟨st.entries, by rw [he, hi, hg]; rfl⟩

/-- Witness of C4: the policy `webPolicy`, for which both flags are set. -/
theorem default_drop_entries_count_witness :
    ∃ r, translatePolicy exampleUtil webPolicy = some r ∧
      ∃ st tSd tSs tC,
        translatePolicyDirections exampleUtil webPolicy = some st ∧
        craftPartialIptEntrySpecFromOpsAndLabels exampleUtil webPolicy.Namespace
          (targetOpsAndLabels exampleUtil webPolicy.Namespace webPolicy.PodSelector).1
          (targetOpsAndLabels exampleUtil webPolicy.Namespace webPolicy.PodSelector).2
          IptablesDstFlag false = some tSd ∧
        craftPartialIptEntrySpecFromOpsAndLabels exampleUtil webPolicy.Namespace
          (targetOpsAndLabels exampleUtil webPolicy.Namespace webPolicy.PodSelector).1
          (targetOpsAndLabels exampleUtil webPolicy.Namespace webPolicy.PodSelector).2
          IptablesSrcFlag false = some tSs ∧
        craftPartialIptablesCommentFromSelector exampleUtil webPolicy.Namespace
          (some webPolicy.PodSelector) false = some tC ∧
        r.entries.filter (fun e => e.Chain = IptablesAzureTargetSetsChain) =
          (if st.hasIngress then [dropAllToEntry tSd tC] else []) ++
            (if st.hasEgress then [dropAllFromEntry tSs tC] else []) ∧
        r.entries.count (dropAllToEntry tSd tC) = (if st.hasIngress then 1 else 0) ∧
        r.entries.count (dropAllFromEntry tSs tC) = (if st.hasEgress then 1 else 0) ∧
        (st.hasIngress = true → st.hasEgress = true →
          ∃ before,
            r.entries = before ++ [dropAllToEntry tSd tC, dropAllFromEntry tSs tC]) :=
  ⟨_, rfl, default_drop_entries_count exampleUtil webPolicy _ rfl⟩

/-! ## C5 -/

theorem policyTypes_flags (u : Util) (npObj : NetworkPolicy) (st : PolicyState)
    (hpt : npObj.PolicyTypes ≠ []) (h : translatePolicyDirections u npObj = some st) :
    st.hasIngress = (decide (PolicyTypeIngress ∈ npObj.PolicyTypes) && !ingressDegenerate npObj) ∧
    st.hasEgress = (decide (PolicyTypeEgress ∈ npObj.PolicyTypes) && !egressDegenerate npObj) := by
  unfold translatePolicyDirections at h
  rw [if_neg (by simpa using hpt)] at h
  obtain ⟨ts, -, -, -, -, hi, hg⟩ := policyTypes_foldlM u npObj _ _ _ h
  constructor
  · rw [hi]; by_cases hm : PolicyTypeIngress ∈ npObj.PolicyTypes <;> simp [hm]
  · rw [hg]; by_cases hm : PolicyTypeEgress ∈ npObj.PolicyTypes <;> simp [hm]

theorem translateIngress_nil (u : Util) (ns : String) (t : LabelSelector) (r : Translation)
    (h : translateIngress u ns t [] = some r) : r.entries = [] := by
  rw [translateIngress_eq_some] at h
  obtain ⟨tS, tC, d, -, -, hd, rfl⟩ := h
  simp only [List.foldlM_nil, Option.pure_def, Option.some.injEq] at hd
  subst hd
  rfl

theorem translateEgress_nil (u : Util) (ns : String) (t : LabelSelector) (r : Translation)
    (h : translateEgress u ns t [] = some r) : r.entries = [] := by
  rw [translateEgress_eq_some] at h
  obtain ⟨tS, tC, d, -, -, hd, rfl⟩ := h
  simp only [List.foldlM_nil, Option.pure_def, Option.some.injEq] at hd
  subst hd
  rfl

/-- With `PolicyTypes = [Ingress]` only `translateIngress` runs. -/
theorem translatePolicyDirections_ingress_only (u : Util) (npObj : NetworkPolicy)
    (hpt : npObj.PolicyTypes = [PolicyTypeIngress]) :
    translatePolicyDirections u npObj =
      (translateIngress u npObj.Namespace npObj.PodSelector npObj.Ingress).map (fun ingress =>
        { resultSets := ingress.sets, resultLists := ingress.lists, entries := ingress.entries,
          hasIngress := !ingressDegenerate npObj, hasEgress := false }) := by
  unfold translatePolicyDirections
  rw [hpt]
  simp only [List.length_singleton, one_ne_zero, if_false, List.foldlM_cons, List.foldlM_nil,
    policyTypeStep_ingress, Option.bind_eq_bind, Option.pure_def]
  cases translateIngress u npObj.Namespace npObj.PodSelector npObj.Ingress with
  | none => rfl
  | some i => simp

/-- With `PolicyTypes = [Egress]` only `translateEgress` runs. -/
theorem translatePolicyDirections_egress_only (u : Util) (npObj : NetworkPolicy)
    (hpt : npObj.PolicyTypes = [PolicyTypeEgress]) :
    translatePolicyDirections u npObj =
      (translateEgress u npObj.Namespace npObj.PodSelector npObj.Egress).map (fun egress =>
        { resultSets := egress.sets, resultLists := egress.lists, entries := egress.entries,
          hasIngress := false, hasEgress := !egressDegenerate npObj }) := by
  unfold translatePolicyDirections
  rw [hpt]
  simp only [List.length_singleton, one_ne_zero, if_false, List.foldlM_cons, List.foldlM_nil,
    policyTypeStep_egress, Option.bind_eq_bind, Option.pure_def]
  cases translateEgress u npObj.Namespace npObj.PodSelector npObj.Egress with
  | none => rfl
  | some i => simp

/-- C5. For a policy with explicit (non-empty) `PolicyTypes`, whenever
`translatePolicy` returns: the entry `DROP-ALL-TO-<target>` is returned if and
only if `Ingress` is listed and the ingress rule list is not exactly one rule
with no ports and no peers, and likewise `DROP-ALL-FROM-<target>` for egress.
In particular, with `PolicyTypes = [Ingress]`, a single ingress rule with no
ports and no peers gives no entry on the TargetSets chain, and no ingress rule
at all gives exactly the single entry `DROP-ALL-TO-<target>`. -/
theorem explicit_policyTypes_default_drop (u : Util) (npObj : NetworkPolicy) (r : Translation)
    (hpt : npObj.PolicyTypes ≠ []) (h : translatePolicy u npObj = some r) :
    ∃ tSd tSs tC,
      craftPartialIptEntrySpecFromOpsAndLabels u npObj.Namespace
        (targetOpsAndLabels u npObj.Namespace npObj.PodSelector).1
        (targetOpsAndLabels u npObj.Namespace npObj.PodSelector).2 IptablesDstFlag false
        = some tSd ∧
      craftPartialIptEntrySpecFromOpsAndLabels u npObj.Namespace
        (targetOpsAndLabels u npObj.Namespace npObj.PodSelector).1
        (targetOpsAndLabels u npObj.Namespace npObj.PodSelector).2 IptablesSrcFlag false
        = some tSs ∧
      craftPartialIptablesCommentFromSelector u npObj.Namespace (some npObj.PodSelector) false
        = some tC ∧
      (dropAllToEntry tSd tC ∈ r.entries ↔
        PolicyTypeIngress ∈ npObj.PolicyTypes ∧ ingressDegenerate npObj = false) ∧
      (dropAllFromEntry tSs tC ∈ r.entries ↔
        PolicyTypeEgress ∈ npObj.PolicyTypes ∧ egressDegenerate npObj = false) ∧
      (npObj.PolicyTypes = [PolicyTypeIngress] →
        (∃ rule, npObj.Ingress = [rule] ∧ rule.Ports = [] ∧ rule.From.getD [] = []) →
        ∀ e ∈ r.entries, e.Chain ≠ IptablesAzureTargetSetsChain) ∧
      (npObj.PolicyTypes = [PolicyTypeIngress] → npObj.Ingress = [] →
        r.entries = [dropAllToEntry tSd tC]) := by
  obtain ⟨st, tSd, tSs, tC, hst, h1, h2, h3, he, -, -, hchain⟩ :=
    translatePolicy_entries u npObj r h
  obtain ⟨hi, hg⟩ := policyTypes_flags u npObj st hpt hst
  have hne := dropAllToEntry_ne_dropAllFromEntry tSd tSs tC tC
  have hto : dropAllToEntry tSd tC ∉ st.entries := fun hm => hchain _ hm rfl
  have hfrom : dropAllFromEntry tSs tC ∉ st.entries := fun hm => hchain _ hm rfl
  refine ⟨tSd, tSs, tC, h1, h2, h3, ?_, ?_, ?_, ?_⟩
  · rw [he, hi, hg]
    by_cases hm : PolicyTypeIngress ∈ npObj.PolicyTypes <;>
      cases ingressDegenerate npObj <;>
      by_cases hm2 : PolicyTypeEgress ∈ npObj.PolicyTypes <;>
      cases egressDegenerate npObj <;> simp [hm, hm2, hto, hne]
  · rw [he, hi, hg]
    by_cases hm : PolicyTypeIngress ∈ npObj.PolicyTypes <;>
      cases ingressDegenerate npObj <;>
      by_cases hm2 : PolicyTypeEgress ∈ npObj.PolicyTypes <;>
      cases egressDegenerate npObj <;> simp [hm, hm2, hfrom, Ne.symm hne]
  · rintro hp ⟨rule, hr, hports, hpeers⟩
    have hdeg : ingressDegenerate npObj = true := by
      simp [ingressDegenerate, hr, hports, hpeers]
    have hnot : PolicyTypeEgress ∉ npObj.PolicyTypes := by
      rw [hp]; simp [policyTypes_ne.symm]
    rw [he, hi, hg]
    simp only [hdeg, hnot, Bool.not_true, Bool.and_false, decide_False, Bool.false_and,
      Bool.false_eq_true, if_false, List.append_nil]
    exact hchain
  · intro hp hnil
    have hdeg : ingressDegenerate npObj = false := by
      simp [ingressDegenerate, hnil]
    have hnot : PolicyTypeEgress ∉ npObj.PolicyTypes := by
      rw [hp]; simp [policyTypes_ne.symm]
    have hin : PolicyTypeIngress ∈ npObj.PolicyTypes := by
      rw [hp]; simp
    rw [translatePolicyDirections_ingress_only u npObj hp, Option.map_eq_some'] at hst
    obtain ⟨i, hti, rfl⟩ := hst
    rw [hnil] at hti
    have hnil' := translateIngress_nil u _ _ i hti
    simp only [hnil'] at he
    rw [he]
    simp [hdeg]

/-- Witness of C5: `ingressOnlyNoRules` gets exactly its `DROP-ALL-TO` entry and
`ingressOnlyAllowAll` gets no entry on the TargetSets chain. -/
theorem explicit_policyTypes_default_drop_witness :
    (ingressOnlyNoRules.PolicyTypes ≠ [] ∧
      ∃ r, translatePolicy exampleUtil ingressOnlyNoRules = some r ∧
        ∃ tSd tSs tC,
          craftPartialIptEntrySpecFromOpsAndLabels exampleUtil ingressOnlyNoRules.Namespace
            (targetOpsAndLabels exampleUtil ingressOnlyNoRules.Namespace
              ingressOnlyNoRules.PodSelector).1
            (targetOpsAndLabels exampleUtil ingressOnlyNoRules.Namespace
              ingressOnlyNoRules.PodSelector).2 IptablesDstFlag false = some tSd ∧
          craftPartialIptEntrySpecFromOpsAndLabels exampleUtil ingressOnlyNoRules.Namespace
            (targetOpsAndLabels exampleUtil ingressOnlyNoRules.Namespace
              ingressOnlyNoRules.PodSelector).1
            (targetOpsAndLabels exampleUtil ingressOnlyNoRules.Namespace
              ingressOnlyNoRules.PodSelector).2 IptablesSrcFlag false = some tSs ∧
          craftPartialIptablesCommentFromSelector exampleUtil ingressOnlyNoRules.Namespace
            (some ingressOnlyNoRules.PodSelector) false = some tC ∧
          (dropAllToEntry tSd tC ∈ r.entries ↔
            PolicyTypeIngress ∈ ingressOnlyNoRules.PolicyTypes ∧
              ingressDegenerate ingressOnlyNoRules = false) ∧
          (dropAllFromEntry tSs tC ∈ r.entries ↔
            PolicyTypeEgress ∈ ingressOnlyNoRules.PolicyTypes ∧
              egressDegenerate ingressOnlyNoRules = false) ∧
          (ingressOnlyNoRules.PolicyTypes = [PolicyTypeIngress] →
            (∃ rule, ingressOnlyNoRules.Ingress = [rule] ∧ rule.Ports = [] ∧
              rule.From.getD [] = []) →
            ∀ e ∈ r.entries, e.Chain ≠ IptablesAzureTargetSetsChain) ∧
          (ingressOnlyNoRules.PolicyTypes = [PolicyTypeIngress] →
            ingressOnlyNoRules.Ingress = [] → r.entries = [dropAllToEntry tSd tC])) ∧
    (∃ r, translatePolicy exampleUtil ingressOnlyAllowAll = some r ∧
      ∀ e ∈ r.entries, e.Chain ≠ IptablesAzureTargetSetsChain) :=
  ⟨⟨by decide, _, rfl,
      explicit_policyTypes_default_drop exampleUtil ingressOnlyNoRules _ (by decide) rfl⟩,
    _, rfl,
    by
      obtain ⟨_, _, _, _, _, _, _, _, h, _⟩ :=
        explicit_policyTypes_default_drop exampleUtil ingressOnlyAllowAll _ (by decide) rfl
      exact h rfl ⟨_, rfl, rfl, rfl⟩⟩

/-! ## C6 -/

/-- C6. For a policy with empty `PolicyTypes`, `translatePolicy` is
`translateIngress`, then `translateEgress`, then `getDefaultDropEntries` with
`hasIngress` set when `translateIngress` returned at least one set and
`hasEgress` set when `translateEgress` returned at least one set: the returned
entries are the ingress entries, followed by the egress entries, followed by
the default-drop entries (and the returned sets and lists are the
de-duplicated concatenations). -/
theorem translatePolicy_empty_policyTypes (u : Util) (npObj : NetworkPolicy)
    (hpt : npObj.PolicyTypes = []) :
    translatePolicy u npObj =
      (translateIngress u npObj.Namespace npObj.PodSelector npObj.Ingress).bind (fun ingress =>
        (translateEgress u npObj.Namespace npObj.PodSelector npObj.Egress).bind (fun egress =>
          (getDefaultDropEntries u npObj.Namespace npObj.PodSelector
            (decide (ingress.sets.length > 0)) (decide (egress.sets.length > 0))).map
            (fun drops =>
              { sets := UniqueStrSlice (ingress.sets ++ egress.sets),
                lists := UniqueStrSlice (ingress.lists ++ egress.lists),
                entries := ingress.entries ++ egress.entries ++ drops }))) := by
  simp only [translatePolicy, translatePolicyDirections, hpt, List.length_nil, if_true,
    Option.bind_eq_bind]
  cases translateIngress u npObj.Namespace npObj.PodSelector npObj.Ingress with
  | none => rfl
  | some i =>
    cases translateEgress u npObj.Namespace npObj.PodSelector npObj.Egress with
    | none => rfl
    | some e =>
      simp only [Option.some_bind]
      cases getDefaultDropEntries u npObj.Namespace npObj.PodSelector
        (decide (i.sets.length > 0)) (decide (e.sets.length > 0)) with
      | none => rfl
      | some d => rfl

/-- Witness of C6: the policy `webPolicy` has no policy types. -/
theorem translatePolicy_empty_policyTypes_witness :
    webPolicy.PolicyTypes = [] ∧
    translatePolicy exampleUtil webPolicy =
      (translateIngress exampleUtil webPolicy.Namespace webPolicy.PodSelector
        webPolicy.Ingress).bind (fun ingress =>
        (translateEgress exampleUtil webPolicy.Namespace webPolicy.PodSelector
          webPolicy.Egress).bind (fun egress =>
          (getDefaultDropEntries exampleUtil webPolicy.Namespace webPolicy.PodSelector
            (decide (ingress.sets.length > 0)) (decide (egress.sets.length > 0))).map
            (fun drops =>
              { sets := UniqueStrSlice (ingress.sets ++ egress.sets),
                lists := UniqueStrSlice (ingress.lists ++ egress.lists),
                entries := ingress.entries ++ egress.entries ++ drops }))) :=
  ⟨rfl, translatePolicy_empty_policyTypes exampleUtil webPolicy rfl⟩

/-! ## C7 -/

theorem dropAllFromEntry_not_mem (l : List IptEntry) (tSd : List String) (tC : String)
    (b : Bool) (hl : ∀ e ∈ l, e.Chain ≠ IptablesAzureTargetSetsChain)
    (tSs : List String) (c : String) :
    dropAllFromEntry tSs c ∉ l ++ ((if b then [dropAllToEntry tSd tC] else []) ++ []) := by
  intro hm
  simp only [List.append_nil, List.mem_append] at hm
  rcases hm with hm | hm
  · exact hl _ hm rfl
  · cases b
    · simp at hm
    · simp only [if_true, List.mem_singleton] at hm
      exact dropAllToEntry_ne_dropAllFromEntry _ _ _ _ hm.symm

theorem dropAllToEntry_not_mem (l : List IptEntry) (tSs : List String) (tC : String)
    (b : Bool) (hl : ∀ e ∈ l, e.Chain ≠ IptablesAzureTargetSetsChain)
    (tSd : List String) (c : String) :
    dropAllToEntry tSd c ∉ l ++ ([] ++ (if b then [dropAllFromEntry tSs tC] else [])) := by
  intro hm
  simp only [List.nil_append, List.mem_append] at hm
  rcases hm with hm | hm
  · exact hl _ hm rfl
  · cases b
    · simp at hm
    · simp only [if_true, List.mem_singleton] at hm
      exact dropAllToEntry_ne_dropAllFromEntry _ _ _ _ hm

/-- C7. With `PolicyTypes = [Ingress]` only the ingress direction is
translated: `translatePolicy` is `translateIngress` followed by
`getDefaultDropEntries` with `hasEgress` unset; the egress rule list has no
influence on the result; every returned entry is on the Ingress-Port, the
Ingress-From or the TargetSets chain; no entry `DROP-ALL-FROM` is returned; and
the returned sets and lists are the de-duplicated sets and lists of
`translateIngress`.  Symmetrically for `PolicyTypes = [Egress]`. -/
theorem translatePolicy_single_direction (u : Util) (npObj : NetworkPolicy) :
    (npObj.PolicyTypes = [PolicyTypeIngress] →
      translatePolicy u npObj =
        (translateIngress u npObj.Namespace npObj.PodSelector npObj.Ingress).bind
          (fun ingress =>
            (getDefaultDropEntries u npObj.Namespace npObj.PodSelector
              (!ingressDegenerate npObj) false).map (fun drops =>
                { sets := UniqueStrSlice ingress.sets, lists := UniqueStrSlice ingress.lists,
                  entries := ingress.entries ++ drops })) ∧
      (∀ egress, translatePolicy u { npObj with Egress := egress } = translatePolicy u npObj) ∧
      (∀ r, translatePolicy u npObj = some r →
        (∀ e ∈ r.entries, e.Chain = IptablesAzureIngressPortChain ∨
          e.Chain = IptablesAzureIngressFromChain ∨ e.Chain = IptablesAzureTargetSetsChain) ∧
        (∀ tSs c, dropAllFromEntry tSs c ∉ r.entries))) ∧
    (npObj.PolicyTypes = [PolicyTypeEgress] →
      translatePolicy u npObj =
        (translateEgress u npObj.Namespace npObj.PodSelector npObj.Egress).bind
          (fun egress =>
            (getDefaultDropEntries u npObj.Namespace npObj.PodSelector
              false (!egressDegenerate npObj)).map (fun drops =>
                { sets := UniqueStrSlice egress.sets, lists := UniqueStrSlice egress.lists,
                  entries := egress.entries ++ drops })) ∧
      (∀ ingress, translatePolicy u { npObj with Ingress := ingress } =
        translatePolicy u npObj) ∧
      (∀ r, translatePolicy u npObj = some r →
        (∀ e ∈ r.entries, e.Chain = IptablesAzureEgressPortChain ∨
          e.Chain = IptablesAzureEgressToChain ∨ e.Chain = IptablesAzureTargetSetsChain) ∧
        (∀ tSd c, dropAllToEntry tSd c ∉ r.entries))) := by
  constructor
  · intro hpt
    have heq : ∀ p : NetworkPolicy, p.PolicyTypes = [PolicyTypeIngress] →
        translatePolicy u p =
          (translateIngress u p.Namespace p.PodSelector p.Ingress).bind (fun ingress =>
            (getDefaultDropEntries u p.Namespace p.PodSelector
              (!ingressDegenerate p) false).map (fun drops =>
                { sets := UniqueStrSlice ingress.sets, lists := UniqueStrSlice ingress.lists,
                  entries := ingress.entries ++ drops })) := by
      intro p hp
      simp only [translatePolicy, translatePolicyDirections_ingress_only u p hp,
        Option.bind_eq_bind]
      cases translateIngress u p.Namespace p.PodSelector p.Ingress with
      | none => rfl
      | some i =>
        simp only [Option.map_some', Option.some_bind]
        cases getDefaultDropEntries u p.Namespace p.PodSelector (!ingressDegenerate p) false with
        | none => rfl
        | some d => rfl
    refine ⟨heq npObj hpt, ?_, ?_⟩
    · intro egress
      rw [heq npObj hpt, heq { npObj with Egress := egress } hpt]
      rfl
    · intro r hr
      obtain ⟨st, tSd, tSs, tC, hst, -, -, -, he, -, -, hchain⟩ :=
        translatePolicy_entries u npObj r hr
      rw [translatePolicyDirections_ingress_only u npObj hpt, Option.map_eq_some'] at hst
      obtain ⟨i, hi, rfl⟩ := hst
      simp only [Bool.false_eq_true, if_false] at he
      constructor
      · intro e hmem
        rw [he] at hmem
        simp only [List.append_nil, List.mem_append] at hmem
        rcases hmem with hmem | hmem
        · rcases translateIngress_chain u _ _ _ i hi e hmem with hc | hc
          · exact Or.inl hc
          · exact Or.inr (Or.inl hc)
        · split at hmem
          · simp only [List.mem_singleton] at hmem
            subst hmem
            exact Or.inr (Or.inr rfl)
          · simp at hmem
      · intro tSs' c
        rw [he]
        exact dropAllFromEntry_not_mem _ _ _ _ hchain _ _
  · intro hpt
    have heq : ∀ p : NetworkPolicy, p.PolicyTypes = [PolicyTypeEgress] →
        translatePolicy u p =
          (translateEgress u p.Namespace p.PodSelector p.Egress).bind (fun egress =>
            (getDefaultDropEntries u p.Namespace p.PodSelector
              false (!egressDegenerate p)).map (fun drops =>
                { sets := UniqueStrSlice egress.sets, lists := UniqueStrSlice egress.lists,
                  entries := egress.entries ++ drops })) := by
      intro p hp
      simp only [translatePolicy, translatePolicyDirections_egress_only u p hp,
        Option.bind_eq_bind]
      cases translateEgress u p.Namespace p.PodSelector p.Egress with
      | none => rfl
      | some i =>
        simp only [Option.map_some', Option.some_bind]
        cases getDefaultDropEntries u p.Namespace p.PodSelector false (!egressDegenerate p) with
        | none => rfl
        | some d => rfl
    refine ⟨heq npObj hpt, ?_, ?_⟩
    · intro ingress
      rw [heq npObj hpt, heq { npObj with Ingress := ingress } hpt]
      rfl
    · intro r hr
      obtain ⟨st, tSd, tSs, tC, hst, -, -, -, he, -, -, hchain⟩ :=
        translatePolicy_entries u npObj r hr
      rw [translatePolicyDirections_egress_only u npObj hpt, Option.map_eq_some'] at hst
      obtain ⟨i, hi, rfl⟩ := hst
      simp only [Bool.false_eq_true, if_false] at he
      constructor
      · intro e hmem
        rw [he] at hmem
        simp only [List.nil_append, List.mem_append] at hmem
        rcases hmem with hmem | hmem
        · rcases translateEgress_chain u _ _ _ i hi e hmem with hc | hc
          · exact Or.inl hc
          · exact Or.inr (Or.inl hc)
        · split at hmem
          · simp only [List.mem_singleton] at hmem
            subst hmem
            exact Or.inr (Or.inr rfl)
          · simp at hmem
      · intro tSd' c
        rw [he]
        exact dropAllToEntry_not_mem _ _ _ _ hchain _ _

/-- Witness of C7: `ingressOnlyAllowAll` (only `Ingress` listed) and
`egressOnlyPolicy` (only `Egress` listed). -/
theorem translatePolicy_single_direction_witness :
    (ingressOnlyAllowAll.PolicyTypes = [PolicyTypeIngress] ∧
      (∀ egress, translatePolicy exampleUtil { ingressOnlyAllowAll with Egress := egress } =
        translatePolicy exampleUtil ingressOnlyAllowAll) ∧
      ∃ r, translatePolicy exampleUtil ingressOnlyAllowAll = some r ∧
        (∀ e ∈ r.entries, e.Chain = IptablesAzureIngressPortChain ∨
          e.Chain = IptablesAzureIngressFromChain ∨
          e.Chain = IptablesAzureTargetSetsChain) ∧
        (∀ tSs c, dropAllFromEntry tSs c ∉ r.entries)) ∧
    (egressOnlyPolicy.PolicyTypes = [PolicyTypeEgress] ∧
      (∀ ingress, translatePolicy exampleUtil { egressOnlyPolicy with Ingress := ingress } =
        translatePolicy exampleUtil egressOnlyPolicy) ∧
      ∃ r, translatePolicy exampleUtil egressOnlyPolicy = some r ∧
        (∀ e ∈ r.entries, e.Chain = IptablesAzureEgressPortChain ∨
          e.Chain = IptablesAzureEgressToChain ∨ e.Chain = IptablesAzureTargetSetsChain) ∧
        (∀ tSd c, dropAllToEntry tSd c ∉ r.entries)) :=
  ⟨⟨rfl, ((translatePolicy_single_direction exampleUtil ingressOnlyAllowAll).1 rfl).2.1,
      _, rfl, ((translatePolicy_single_direction exampleUtil ingressOnlyAllowAll).1 rfl).2.2
        _ rfl⟩,
    ⟨rfl, ((translatePolicy_single_direction exampleUtil egressOnlyPolicy).2 rfl).2.1,
      _, rfl, ((translatePolicy_single_direction exampleUtil egressOnlyPolicy).2 rfl).2.2
        _ rfl⟩⟩

/-! ## C8: the entries as they are built -/

/-- The entries as they are built: the policy `emptyCidrPolicy` contains an
ipBlock peer whose cidr is the empty string, and `translatePolicy` returns a
translation with entries for it. -/
theorem empty_cidr_is_translated :
    ∃ r, translatePolicy exampleUtil emptyCidrPolicy = some r ∧ r.entries ≠ [] :=
  ⟨_, rfl, by decide⟩

/-- Of the entries as they are built.  An ipBlock peer whose cidr is the empty string raises no
error and does not abort the translation: in both directions the step for the
peer returns and adds nothing but the DROP entries of its except CIDRs to the
side buffer of the From/To chain (no ACCEPT entry), and whenever
`translatePolicy` returns for a policy that has such a peer in a translated
direction, these DROP entries are among the returned entries. -/
theorem empty_cidr_adds_only_except_drops (u : Util) (ns : String) (tS : List String)
    (tC : String) (ports : List NetworkPolicyPort) (pre : Bool) (st : LoopState)
    (peer : NetworkPolicyPeer) (excepts : List String)
    (hb : peer.IPBlock = some { CIDR := "", Except := excepts }) :
    ingressPeer u ns tS tC ports pre st peer =
      some { st with
        peerEntries := st.peerEntries ++ excepts.map (fun except =>
          { Chain := IptablesAzureIngressFromChain,
            Specs := [IptablesSFlag, except] ++ tS ++
              jumpAndComment IptablesDrop ("DROP-" ++ except ++ "-TO-" ++ tC) }),
        addedPeerEntry := st.addedPeerEntry || decide (excepts.length > 0) } ∧
    egressPeer u ns tS tC ports pre st peer =
      some { st with
        peerEntries := st.peerEntries ++ excepts.map (fun except =>
          { Chain := IptablesAzureEgressToChain,
            Specs := tS ++ [IptablesDFlag, except] ++
              jumpAndComment IptablesDrop ("DROP-" ++ except ++ "-FROM-" ++ tC) }),
        addedPeerEntry := st.addedPeerEntry || decide (excepts.length > 0) } ∧
    (∀ (npObj : NetworkPolicy) (r : Translation) (before after : List NetworkPolicyIngressRule)
      (rule : NetworkPolicyIngressRule) (ps1 ps2 : List NetworkPolicyPeer),
      translatePolicy u npObj = some r → PolicyTypeIngress ∈ translatedDirections npObj →
      npObj.Ingress = before ++ rule :: after → rule.From = some (ps1 ++ peer :: ps2) →
      ∃ tS' tC',
        craftPartialIptEntrySpecFromOpsAndLabels u npObj.Namespace
          (targetOpsAndLabels u npObj.Namespace npObj.PodSelector).1
          (targetOpsAndLabels u npObj.Namespace npObj.PodSelector).2 IptablesDstFlag false
          = some tS' ∧
        craftPartialIptablesCommentFromSelector u npObj.Namespace (some npObj.PodSelector)
          false = some tC' ∧
        excepts.map (fun except =>
          ({ Chain := IptablesAzureIngressFromChain,
             Specs := [IptablesSFlag, except] ++ tS' ++
               jumpAndComment IptablesDrop ("DROP-" ++ except ++ "-TO-" ++ tC') }
            : IptEntry)) <:+: r.entries) ∧
    (∀ (npObj : NetworkPolicy) (r : Translation) (before after : List NetworkPolicyEgressRule)
      (rule : NetworkPolicyEgressRule) (ps1 ps2 : List NetworkPolicyPeer),
      translatePolicy u npObj = some r → PolicyTypeEgress ∈ translatedDirections npObj →
      npObj.Egress = before ++ rule :: after → rule.To = some (ps1 ++ peer :: ps2) →
      ∃ tS' tC',
        craftPartialIptEntrySpecFromOpsAndLabels u npObj.Namespace
          (targetOpsAndLabels u npObj.Namespace npObj.PodSelector).1
          (targetOpsAndLabels u npObj.Namespace npObj.PodSelector).2 IptablesSrcFlag false
          = some tS' ∧
        craftPartialIptablesCommentFromSelector u npObj.Namespace (some npObj.PodSelector)
          false = some tC' ∧
        excepts.map (fun except =>
          ({ Chain := IptablesAzureEgressToChain,
             Specs := tS' ++ [IptablesDFlag, except] ++
               jumpAndComment IptablesDrop ("DROP-" ++ except ++ "-FROM-" ++ tC') }
            : IptEntry)) <:+: r.entries) := by
  refine ⟨?_, ?_, ?_, ?_⟩
  · obtain ⟨dx, hx, h1, h2, h3, h4⟩ := ingressPeer_ipBlock u ns tS tC ports pre peer _ hb
    rw [ingressPeer_append, hx]
    obtain ⟨pod, nsSel, ip⟩ := peer
    simp only at hb
    subst hb
    cases excepts with
    | nil => simp [ingressPeer, LoopState.empty] at hx; subst hx; simp [LoopState.append]
    | cons x xs => simp [ingressPeer, LoopState.empty] at hx; subst hx; simp [LoopState.append]
  · obtain ⟨dx, hx, h1, h2, h3, h4⟩ := egressPeer_ipBlock u ns tS tC ports pre peer _ hb
    rw [egressPeer_append, hx]
    obtain ⟨pod, nsSel, ip⟩ := peer
    simp only at hb
    subst hb
    cases excepts with
    | nil => simp [egressPeer, LoopState.empty] at hx; subst hx; simp [LoopState.append]
    | cons x xs => simp [egressPeer, LoopState.empty] at hx; subst hx; simp [LoopState.append]
  · intro npObj r before after rule ps1 ps2 h hdir hrules hfrom
    obtain ⟨t, ht, hblock, -, -⟩ :=
      translatePolicy_direction_block u npObj r PolicyTypeIngress h hdir
    simp only [translateDirection, if_true, hrules] at ht
    obtain ⟨tS', tC', dx, h1, h2, hx, -, hpe, -, -⟩ :=
      translateIngress_peer_block u _ _ before after rule ps1 ps2 peer t hfrom
        (by simp [hb]) ht
    obtain ⟨dx', hx', -, -, -, hpe'⟩ := ingressPeer_ipBlock u npObj.Namespace tS' tC'
      rule.Ports (decide (rule.Ports.length > 0)) peer _ hb
    rw [hx, Option.some.injEq] at hx'
    subst hx'
    refine ⟨tS', tC', h1, h2, ?_⟩
    have := hpe.trans hblock
    rw [hpe'] at this
    simpa using this
  · intro npObj r before after rule ps1 ps2 h hdir hrules hto
    obtain ⟨t, ht, hblock, -, -⟩ :=
      translatePolicy_direction_block u npObj r PolicyTypeEgress h hdir
    simp only [translateDirection, policyTypes_ne.symm, if_false, hrules] at ht
    obtain ⟨tS', tC', dx, h1, h2, hx, -, hpe, -, -⟩ :=
      translateEgress_peer_block u _ _ before after rule ps1 ps2 peer t hto
        (by simp [hb]) ht
    obtain ⟨dx', hx', -, -, -, hpe'⟩ := egressPeer_ipBlock u npObj.Namespace tS' tC'
      rule.Ports (decide (rule.Ports.length > 0)) peer _ hb
    rw [hx, Option.some.injEq] at hx'
    subst hx'
    refine ⟨tS', tC', h1, h2, ?_⟩
    have := hpe.trans hblock
    rw [hpe'] at this
    simpa using this

/-- The entries as they are built, an instance: the peer of `emptyCidrPolicy`; the DROP entry of
its except CIDR is returned, and no error. -/
theorem empty_cidr_adds_only_except_drops_witness :
    (ipBlockPeer "" ["10.1.0.0/16"]).IPBlock =
      some { CIDR := "", Except := ["10.1.0.0/16"] } ∧
    ∃ r, translatePolicy exampleUtil emptyCidrPolicy = some r ∧
      ∃ tS tC,
        craftPartialIptEntrySpecFromOpsAndLabels exampleUtil emptyCidrPolicy.Namespace
          (targetOpsAndLabels exampleUtil emptyCidrPolicy.Namespace
            emptyCidrPolicy.PodSelector).1
          (targetOpsAndLabels exampleUtil emptyCidrPolicy.Namespace
            emptyCidrPolicy.PodSelector).2 IptablesDstFlag false = some tS ∧
        craftPartialIptablesCommentFromSelector exampleUtil emptyCidrPolicy.Namespace
          (some emptyCidrPolicy.PodSelector) false = some tC ∧
        ["10.1.0.0/16"].map (fun except =>
          ({ Chain := IptablesAzureIngressFromChain,
             Specs := [IptablesSFlag, except] ++ tS ++
               jumpAndComment IptablesDrop ("DROP-" ++ except ++ "-TO-" ++ tC) }
            : IptEntry)) <:+: r.entries :=
  ⟨rfl, _, rfl,
    (empty_cidr_adds_only_except_drops exampleUtil "default" [] "" [] false LoopState.empty
      (ipBlockPeer "" ["10.1.0.0/16"]) ["10.1.0.0/16"] rfl).2.2.1
      emptyCidrPolicy _ [] [] _ [] [] rfl (by decide) rfl rfl⟩

/-! ## C9 -/

theorem foldlM_skip {σ α : Type} (f : σ → α → Option σ) (l1 l2 : List α) (x : α) (s : σ)
    (hx : ∀ s, f s x = some s) :
    (l1 ++ x :: l2).foldlM f s = (l1 ++ l2).foldlM f s := by
  simp only [List.foldlM_append, List.foldlM_cons, hx, Option.bind_eq_bind, Option.some_bind]

theorem ingressPeer_skip (u : Util) (hflag : u.IsNewNwPolicyVerFlag = false) (ns : String)
    (tS : List String) (tC : String) (ports : List NetworkPolicyPort) (pre : Bool)
    (st : LoopState) (peer : NetworkPolicyPeer)
    (hpod : peer.PodSelector.isSome = true) (hns : peer.NamespaceSelector.isSome = true)
    (hip : peer.IPBlock = none) :
    ingressPeer u ns tS tC ports pre st peer = some st := by
  obtain ⟨pod, nsSel, ip⟩ := peer
  simp only at hip
  subst hip
  cases pod with
  | none => simp at hpod
  | some podSel =>
    cases nsSel with
    | none => simp at hns
    | some nsSel => simp only [ingressPeer, hflag, Bool.not_false, if_true]

theorem egressPeer_skip (u : Util) (hflag : u.IsNewNwPolicyVerFlag = false) (ns : String)
    (tS : List String) (tC : String) (ports : List NetworkPolicyPort) (pre : Bool)
    (st : LoopState) (peer : NetworkPolicyPeer)
    (hpod : peer.PodSelector.isSome = true) (hns : peer.NamespaceSelector.isSome = true)
    (hip : peer.IPBlock = none) :
    egressPeer u ns tS tC ports pre st peer = some st := by
  obtain ⟨pod, nsSel, ip⟩ := peer
  simp only at hip
  subst hip
  cases pod with
  | none => simp at hpod
  | some podSel =>
    cases nsSel with
    | none => simp at hns
    | some nsSel => simp only [egressPeer, hflag, Bool.not_false, if_true]

/-- C9. With the intersection flag disabled, a peer that has both a podSelector
and a namespaceSelector (and, as every peer of spec §3.1 with a selector, no
ipBlock) is skipped without error: whenever the rule it belongs to keeps
another peer with a selector or an ipBlock, `translateIngress` (resp.
`translateEgress`) gives for the rule list the same result (the same sets,
lists and entries, or the same failure) as for the rule list with that peer
removed. -/
theorem intersection_peer_skipped (u : Util) (hflag : u.IsNewNwPolicyVerFlag = false)
    (ns : String) (t : LabelSelector) (ps1 ps2 : List NetworkPolicyPeer)
    (peer : NetworkPolicyPeer)
    (hpod : peer.PodSelector.isSome = true) (hns : peer.NamespaceSelector.isSome = true)
    (hip : peer.IPBlock = none) (hother : peerExists (ps1 ++ ps2) = true) :
    (∀ (before after : List NetworkPolicyIngressRule) (rule : NetworkPolicyIngressRule),
      rule.From = some (ps1 ++ peer :: ps2) →
      translateIngress u ns t (before ++ rule :: after) =
        translateIngress u ns t (before ++ { rule with From := some (ps1 ++ ps2) } :: after)) ∧
    (∀ (before after : List NetworkPolicyEgressRule) (rule : NetworkPolicyEgressRule),
      rule.To = some (ps1 ++ peer :: ps2) →
      translateEgress u ns t (before ++ rule :: after) =
        translateEgress u ns t (before ++ { rule with To := some (ps1 ++ ps2) } :: after)) := by
  have hpeer : (peer.PodSelector.isSome || peer.NamespaceSelector.isSome ||
      peer.IPBlock.isSome) = true := by simp [hpod]
  constructor
  · intro before after rule hfrom
    have hstep : ∀ tS tC st, ingressRule u ns tS tC st rule =
        ingressRule u ns tS tC st { rule with From := some (ps1 ++ ps2) } := by
      intro tS tC st
      rw [ingressRule_of_peerExists u ns tS tC st rule _ hfrom
          (peerExists_append_cons ps1 ps2 peer hpeer),
        ingressRule_of_peerExists u ns tS tC st { rule with From := some (ps1 ++ ps2) } _ rfl
          hother]
      exact foldlM_skip _ ps1 ps2 peer _
        (fun s => ingressPeer_skip u hflag ns tS tC _ _ s peer hpod hns hip)
    have hfold : ∀ tS tC st,
        (before ++ rule :: after).foldlM (ingressRule u ns tS tC) st =
        (before ++ { rule with From := some (ps1 ++ ps2) } :: after).foldlM
          (ingressRule u ns tS tC) st := by
      intro tS tC st
      simp only [List.foldlM_append, List.foldlM_cons, hstep]
    unfold translateIngress
    simp only [hfold]
  · intro before after rule hto
    have hstep : ∀ tS tC st, egressRule u ns tS tC st rule =
        egressRule u ns tS tC st { rule with To := some (ps1 ++ ps2) } := by
      intro tS tC st
      rw [egressRule_of_peerExists u ns tS tC st rule _ hto
          (peerExists_append_cons ps1 ps2 peer hpeer),
        egressRule_of_peerExists u ns tS tC st { rule with To := some (ps1 ++ ps2) } _ rfl
          hother]
      exact foldlM_skip _ ps1 ps2 peer _
        (fun s => egressPeer_skip u hflag ns tS tC _ _ s peer hpod hns hip)
    have hfold : ∀ tS tC st,
        (before ++ rule :: after).foldlM (egressRule u ns tS tC) st =
        (before ++ { rule with To := some (ps1 ++ ps2) } :: after).foldlM
          (egressRule u ns tS tC) st := by
      intro tS tC st
      simp only [List.foldlM_append, List.foldlM_cons, hstep]
    unfold translateEgress
    simp only [hfold]

/-- Witness of C9: with the flag disabled, the ingress rule
`from: [intersectionPeer, podPeer]` translates as the rule `from: [podPeer]`. -/
theorem intersection_peer_skipped_witness :
    exampleUtilOld.IsNewNwPolicyVerFlag = false ∧
    peerExists ([] ++ [podPeer]) = true ∧
    translateIngress exampleUtilOld "default" (selectorOf "app" "web")
        ([] ++ { Ports := [], From := some ([] ++ intersectionPeer :: [podPeer]) } :: []) =
      translateIngress exampleUtilOld "default" (selectorOf "app" "web")
        ([] ++ { Ports := [], From := some ([] ++ [podPeer]) } :: []) ∧
    (translateIngress exampleUtilOld "default" (selectorOf "app" "web")
      ([] ++ { Ports := [], From := some ([] ++ [podPeer]) } :: [])).isSome = true :=
  ⟨rfl, rfl,
    (intersection_peer_skipped exampleUtilOld rfl "default" (selectorOf "app" "web") []
      [podPeer] intersectionPeer rfl rfl rfl rfl).1 [] []
      { Ports := [], From := some ([] ++ intersectionPeer :: [podPeer]) } rfl,
    rfl⟩

/-! ## C10: the entries as they are built -/

theorem ns_append_ne_empty (l : String) : "ns-" ++ l ≠ "" := by
  intro h
  have h2 := congrArg String.data h
  simp only [String.data_append] at h2
  exact absurd h2 (by simp)

/-- What a peer with both selectors adds in `translateIngress` when the
intersection flag is enabled. -/
theorem ingressPeer_both (u : Util) (hflag : u.IsNewNwPolicyVerFlag = true) (ns : String)
    (tS : List String) (tC : String) (ports : List NetworkPolicyPort) (pre : Bool)
    (st : LoopState) (peer : NetworkPolicyPeer) (podSel nsSel : LabelSelector)
    (hpod : peer.PodSelector = some podSel) (hns : peer.NamespaceSelector = some nsSel)
    (hip : peer.IPBlock = none) (st' : LoopState)
    (h : ingressPeer u ns tS tC ports pre st peer = some st') :
    ∃ nsSpec podSpec nsC podC,
      craftPartialIptEntrySpecFromSelector u ns (some nsSel) IptablesSrcFlag true = some nsSpec ∧
      craftPartialIptEntrySpecFromSelector u ns (some podSel) IptablesSrcFlag false
        = some podSpec ∧
      craftPartialIptablesCommentFromSelector u ns (some nsSel) true = some nsC ∧
      craftPartialIptablesCommentFromSelector u ns (some podSel) false = some podC ∧
      st' = { st with
        sets := st.sets ++ parsedLabels u (some podSel),
        lists := st.lists ++ (parsedLabels u (some nsSel)).map (fun l => "ns-" ++ l),
        entries := st.entries ++
          (if pre then
            ports.map (fun portRule =>
              { Chain := IptablesAzureIngressPortChain,
                Specs := nsSpec ++ podSpec ++ tS ++
                  craftPartialIptEntrySpecFromPort portRule IptablesDstPortFlag ++
                  jumpAndComment IptablesAccept
                    ("ALLOW-" ++ nsC ++ "-AND-" ++ podC ++ "-AND-" ++
                      craftPartialIptablesCommentFromPort portRule IptablesDstPortFlag ++
                      "-TO-" ++ tC) })
          else
            [{ Chain := IptablesAzureIngressFromChain,
               Specs := tS ++ nsSpec ++ podSpec ++
                 jumpAndComment IptablesAccept
                   ("ALLOW-" ++ nsC ++ "-AND-" ++ podC ++ "-TO-" ++ tC) }]),
        addedPeerEntry := st.addedPeerEntry || !pre } := by
  obtain ⟨pod, nsS, ip⟩ := peer
  simp only at hpod hns hip
  subst hpod hns hip
  simp only [ingressPeer, hflag, Bool.not_true, Bool.false_eq_true, if_false,
    Option.bind_eq_bind, Option.bind_eq_some, Option.pure_def] at h
  obtain ⟨nsSpec, h1, podSpec, h2, nsC, h3, podC, h4, h⟩ := h
  refine ⟨nsSpec, podSpec, nsC, podC, h1, h2, h3, h4, ?_⟩
  cases pre <;> simp at h <;> subst h <;> simp

/-- Of the entries as they are built.  With the intersection flag enabled, for a
peer of an ingress rule that has both a podSelector and a namespaceSelector
(and, as every peer of spec §3.1 with a selector, no ipBlock), whenever
`translateIngress` returns: the step for the peer adds exactly one ACCEPT entry
per port of the rule, on the Ingress-Port chain, or exactly one ACCEPT entry on
the Ingress-From chain when the rule has no ports; the match predicates of each
of them hold the namespace-selector fragment (`src`), the pod-selector fragment
(`src`) and the target fragment (`dst`); these entries are a block of
consecutive returned entries; every non-empty pod label is in the returned sets
and every namespace label, prefixed with `ns-`, is in the returned lists. -/
theorem intersection_peer_entries (u : Util) (hflag : u.IsNewNwPolicyVerFlag = true)
    (ns : String) (t : LabelSelector) (before after : List NetworkPolicyIngressRule)
    (rule : NetworkPolicyIngressRule) (ps1 ps2 : List NetworkPolicyPeer)
    (peer : NetworkPolicyPeer) (podSel nsSel : LabelSelector) (r : Translation)
    (hfrom : rule.From = some (ps1 ++ peer :: ps2))
    (hpod : peer.PodSelector = some podSel) (hns : peer.NamespaceSelector = some nsSel)
    (hip : peer.IPBlock = none)
    (h : translateIngress u ns t (before ++ rule :: after) = some r) :
    ∃ tS tC nsSpec podSpec nsC podC,
      craftPartialIptEntrySpecFromOpsAndLabels u ns (targetOpsAndLabels u ns t).1
        (targetOpsAndLabels u ns t).2 IptablesDstFlag false = some tS ∧
      craftPartialIptablesCommentFromSelector u ns (some t) false = some tC ∧
      craftPartialIptEntrySpecFromSelector u ns (some nsSel) IptablesSrcFlag true = some nsSpec ∧
      craftPartialIptEntrySpecFromSelector u ns (some podSel) IptablesSrcFlag false
        = some podSpec ∧
      craftPartialIptablesCommentFromSelector u ns (some nsSel) true = some nsC ∧
      craftPartialIptablesCommentFromSelector u ns (some podSel) false = some podC ∧
      (∀ st, ingressPeer u ns tS tC rule.Ports (decide (rule.Ports.length > 0)) st peer =
        some { st with
          sets := st.sets ++ parsedLabels u (some podSel),
          lists := st.lists ++ (parsedLabels u (some nsSel)).map (fun l => "ns-" ++ l),
          entries := st.entries ++
            (if rule.Ports.length > 0 then
              rule.Ports.map (fun portRule =>
                { Chain := IptablesAzureIngressPortChain,
                  Specs := nsSpec ++ podSpec ++ tS ++
                    craftPartialIptEntrySpecFromPort portRule IptablesDstPortFlag ++
                    jumpAndComment IptablesAccept
                      ("ALLOW-" ++ nsC ++ "-AND-" ++ podC ++ "-AND-" ++
                        craftPartialIptablesCommentFromPort portRule IptablesDstPortFlag ++
                        "-TO-" ++ tC) })
            else
              [{ Chain := IptablesAzureIngressFromChain,
                 Specs := tS ++ nsSpec ++ podSpec ++
                   jumpAndComment IptablesAccept
                     ("ALLOW-" ++ nsC ++ "-AND-" ++ podC ++ "-TO-" ++ tC) }]),
          addedPeerEntry := st.addedPeerEntry || !decide (rule.Ports.length > 0) }) ∧
      (if rule.Ports.length > 0 then
          rule.Ports.map (fun portRule =>
            ({ Chain := IptablesAzureIngressPortChain,
               Specs := nsSpec ++ podSpec ++ tS ++
                 craftPartialIptEntrySpecFromPort portRule IptablesDstPortFlag ++
                 jumpAndComment IptablesAccept
                   ("ALLOW-" ++ nsC ++ "-AND-" ++ podC ++ "-AND-" ++
                     craftPartialIptablesCommentFromPort portRule IptablesDstPortFlag ++
                     "-TO-" ++ tC) } : IptEntry))
        else
          [{ Chain := IptablesAzureIngressFromChain,
             Specs := tS ++ nsSpec ++ podSpec ++
               jumpAndComment IptablesAccept
                 ("ALLOW-" ++ nsC ++ "-AND-" ++ podC ++ "-TO-" ++ tC) }]) <:+: r.entries ∧
      (∀ l ∈ parsedLabels u (some podSel), l ≠ "" → l ∈ r.sets) ∧
      (∀ l ∈ parsedLabels u (some nsSel), "ns-" ++ l ∈ r.lists) := by
  obtain ⟨tS, tC, dx, h1, h2, hx, hent, -, hsets, hlists⟩ :=
    translateIngress_peer_block u ns t before after rule ps1 ps2 peer r hfrom
      (by simp [hpod]) h
  obtain ⟨nsSpec, podSpec, nsC, podC, c1, c2, c3, c4, hdx⟩ :=
    ingressPeer_both u hflag ns tS tC rule.Ports _ LoopState.empty peer podSel nsSel
      hpod hns hip dx hx
  refine ⟨tS, tC, nsSpec, podSpec, nsC, podC, h1, h2, c1, c2, c3, c4, ?_, ?_, ?_, ?_⟩
  · intro st
    rw [ingressPeer_append, hx, hdx]
    by_cases hp : rule.Ports.length > 0 <;>
      simp [LoopState.append, LoopState.empty, hp]
  · rw [hdx] at hent
    by_cases hp : rule.Ports.length > 0 <;>
      simpa [LoopState.empty, hp] using hent
  · intro l hl hne
    apply hsets l _ hne
    rw [hdx]
    simpa [LoopState.empty] using hl
  · intro l hl
    apply hlists _ _ (ns_append_ne_empty l)
    rw [hdx]
    simp only [LoopState.empty, List.nil_append, List.mem_map]
    exact ⟨l, hl, rfl⟩

/-- The entries as they are built, an instance: target `app=web`, `from:
[intersectionPeer]`, no ports: the returned sets contain `app:a` and the
returned lists contain `ns-env:prod`. -/
theorem intersection_peer_entries_witness :
    exampleUtil.IsNewNwPolicyVerFlag = true ∧
    ∃ r, translateIngress exampleUtil "default" (selectorOf "app" "web")
        ([] ++ { Ports := [], From := some ([] ++ intersectionPeer :: []) } :: []) = some r ∧
      "app:a" ∈ r.sets ∧ "ns-env:prod" ∈ r.lists ∧
      ∃ tS nsSpec podSpec c,
        [({ Chain := IptablesAzureIngressFromChain,
            Specs := tS ++ nsSpec ++ podSpec ++ jumpAndComment IptablesAccept c } : IptEntry)]
          <:+: r.entries := by
  refine ⟨rfl, _, rfl, ?_⟩
  obtain ⟨tS, tC, nsSpec, podSpec, nsC, podC, -, -, -, -, -, -, -, hblock, hsets, hlists⟩ :=
    intersection_peer_entries exampleUtil rfl "default" (selectorOf "app" "web") [] []
      { Ports := [], From := some ([] ++ intersectionPeer :: []) } [] [] intersectionPeer
      (selectorOf "app" "a") (selectorOf "env" "prod") _ rfl rfl rfl rfl rfl
  exact ⟨hsets "app:a" (by decide) (by decide), hlists "env:prod" (by decide),
    tS, nsSpec, podSpec, _, hblock⟩

/-! ## C12, C13: the empty pod selector -/

/-- A hashed name is never the empty string: it starts with `azure-npm-`. -/
theorem GetHashedName_ne_empty (u : Util) (name : String) : GetHashedName u name ≠ "" := by
  intro h
  have := congrArg String.data h
  simp [GetHashedName, String.data_append] at this

/-- The parser of spec §4.1 hands `("", "")` back for the empty selector. -/
theorem specUtil_sentinel (digest : String → String) (flag : Bool) :
    ParserSentinel (specUtil digest flag) := by
  intro sel hl he
  simp [specUtil, parse, hl, he, GetOperatorAndLabel]

/-- The target of an empty pod selector: one empty operator and the label
`ns-<namespace>` (source lines 158-161). -/
theorem targetOpsAndLabels_empty (u : Util) (hs : ParserSentinel u) (ns : String)
    (sel : LabelSelector) (hl : sel.MatchLabels = []) (he : sel.MatchExpressions = []) :
    targetOpsAndLabels u ns sel = ([""], ["ns-" ++ ns]) := by
  simp [targetOpsAndLabels, parsedOps, parsedLabels, hs sel hl he]

/-- The match of one label without operator: the empty operator is dropped. -/
theorem craftOpAndLabel_no_op (u : Util) (label flag : String) (hflag : flag ≠ "") :
    craftPartialIptEntrySpecFromOpAndLabel u "" label flag false = matchSet u label flag := by
  have hh := GetHashedName_ne_empty u label
  simp [craftPartialIptEntrySpecFromOpAndLabel, DropEmptyFields, matchSet, List.filter, hh, hflag,
    IptablesModuleFlag, IptablesSetModuleFlag, IptablesMatchSetFlag]

/-- The target fragment of an empty pod selector. -/
theorem craft_target_empty (u : Util) (ns flag : String) (hflag : flag ≠ "") :
    craftPartialIptEntrySpecFromOpsAndLabels u ns [""] ["ns-" ++ ns] flag false =
      some (matchSet u ("ns-" ++ ns) flag) := by
  have hne : ¬ (["ns-" ++ ns] = [""]) := by
    intro h
    exact ns_append_ne_empty ns (by simpa using h)
  simp [craftPartialIptEntrySpecFromOpsAndLabels, hne, craftOpAndLabel_no_op u _ _ hflag]

/-- The fragment the selector-match builder gives for an empty pod selector
(source lines 77-86). -/
theorem craftSelector_empty (u : Util) (hs : ParserSentinel u) (ns flag : String)
    (sel : LabelSelector) (hl : sel.MatchLabels = []) (he : sel.MatchExpressions = []) :
    craftPartialIptEntrySpecFromSelector u ns (some sel) flag false =
      some (matchSet u ("ns-" ++ ns) flag) := by
  simp [craftPartialIptEntrySpecFromSelector, craftPartialIptEntrySpecFromOpsAndLabels,
    parsedOps, parsedLabels, hs sel hl he, matchSet]

/-- The comment of an empty pod selector (source lines 121-127). -/
theorem comment_empty (u : Util) (ns : String)
    (sel : LabelSelector) (hl : sel.MatchLabels = []) (he : sel.MatchExpressions = []) :
    craftPartialIptablesCommentFromSelector u ns (some sel) false = some ("ns-" ++ ns) := by
  simp [craftPartialIptablesCommentFromSelector, hl, he]

/-- The flag `src` is not empty. -/
theorem src_ne_empty : IptablesSrcFlag ≠ "" := by decide
/-- The flag `dst` is not empty. -/
theorem dst_ne_empty : IptablesDstFlag ≠ "" := by decide

/-- The name `ns-<namespace>` is kept by `DropEmptyFields`. -/
theorem DropEmptyFields_ns (ns : String) : DropEmptyFields ["ns-" ++ ns] = ["ns-" ++ ns] := by
  simp [DropEmptyFields, List.filter, ns_append_ne_empty]

/-- The ingress translation of an empty pod selector without rules. -/
theorem translateIngress_empty_nil (u : Util) (hs : ParserSentinel u) (ns : String)
    (sel : LabelSelector) (hl : sel.MatchLabels = []) (he : sel.MatchExpressions = []) :
    translateIngress u ns sel [] =
      some { sets := ["ns-" ++ ns], lists := [], entries := [] } := by
  rw [translateIngress_eq_some]
  refine ⟨matchSet u ("ns-" ++ ns) IptablesDstFlag, "ns-" ++ ns, LoopState.empty, ?_, ?_, rfl, ?_⟩
  · rw [targetOpsAndLabels_empty u hs ns sel hl he]
    exact craft_target_empty u ns _ dst_ne_empty
  · exact comment_empty u ns sel hl he
  · rw [targetOpsAndLabels_empty u hs ns sel hl he]
    simp [ingressFinish, LoopState.init, LoopState.append, LoopState.empty, DropEmptyFields_ns]
    rfl

/-- The egress translation of an empty pod selector without rules. -/
theorem translateEgress_empty_nil (u : Util) (hs : ParserSentinel u) (ns : String)
    (sel : LabelSelector) (hl : sel.MatchLabels = []) (he : sel.MatchExpressions = []) :
    translateEgress u ns sel [] =
      some { sets := ["ns-" ++ ns], lists := [], entries := [] } := by
  rw [translateEgress_eq_some]
  refine ⟨matchSet u ("ns-" ++ ns) IptablesSrcFlag, "ns-" ++ ns, LoopState.empty, ?_, ?_, rfl, ?_⟩
  · rw [targetOpsAndLabels_empty u hs ns sel hl he]
    exact craft_target_empty u ns _ src_ne_empty
  · exact comment_empty u ns sel hl he
  · rw [targetOpsAndLabels_empty u hs ns sel hl he]
    simp [egressFinish, LoopState.init, LoopState.append, LoopState.empty, DropEmptyFields_ns]
    rfl

/-- C13. For every namespace `ns`, the policy of `ns` with the empty pod
selector, no ingress rule, no egress rule and no policy types translates to
`sets = ["ns-" ++ ns]`, no lists, and exactly the two entries
`DROP-ALL-TO-ns-<ns>` (the match of the hashed `ns-<ns>` as destination) and
`DROP-ALL-FROM-ns-<ns>` (the same match as source), both on the Target-Sets
chain.  The parser is taken to give the pair `("", "")` for the empty selector,
as spec §4.1 describes it. -/
theorem empty_policy_translation (u : Util) (hs : ParserSentinel u) (ns : String) :
    translatePolicy u (emptyPolicy ns) =
      some { sets := ["ns-" ++ ns], lists := [],
             entries :=
               [{ Chain := IptablesAzureTargetSetsChain,
                  Specs := matchSet u ("ns-" ++ ns) IptablesDstFlag ++
                    jumpAndComment IptablesDrop ("DROP-ALL-TO-" ++ ("ns-" ++ ns)) },
                { Chain := IptablesAzureTargetSetsChain,
                  Specs := matchSet u ("ns-" ++ ns) IptablesSrcFlag ++
                    jumpAndComment IptablesDrop ("DROP-ALL-FROM-" ++ ("ns-" ++ ns)) }] } := by
  rw [translatePolicy_eq_some]
  refine ⟨{ resultSets := ["ns-" ++ ns, "ns-" ++ ns], resultLists := [], entries := [],
            hasIngress := true, hasEgress := true },
    [dropAllToEntry (matchSet u ("ns-" ++ ns) IptablesDstFlag) ("ns-" ++ ns)] ++
      [dropAllFromEntry (matchSet u ("ns-" ++ ns) IptablesSrcFlag) ("ns-" ++ ns)], ?_, ?_, ?_⟩
  · simp [translatePolicyDirections, emptyPolicy,
      translateIngress_empty_nil u hs ns emptySelector rfl rfl,
      translateEgress_empty_nil u hs ns emptySelector rfl rfl]
  · rw [getDefaultDropEntries_eq_some]
    refine ⟨matchSet u ("ns-" ++ ns) IptablesDstFlag, matchSet u ("ns-" ++ ns) IptablesSrcFlag,
      "ns-" ++ ns, ?_, ?_, ?_, rfl⟩
    · show craftPartialIptEntrySpecFromOpsAndLabels u ns (targetOpsAndLabels u ns emptySelector).1
        (targetOpsAndLabels u ns emptySelector).2 IptablesDstFlag false = _
      rw [targetOpsAndLabels_empty u hs ns emptySelector rfl rfl]
      exact craft_target_empty u ns _ dst_ne_empty
    · show craftPartialIptEntrySpecFromOpsAndLabels u ns (targetOpsAndLabels u ns emptySelector).1
        (targetOpsAndLabels u ns emptySelector).2 IptablesSrcFlag false = _
      rw [targetOpsAndLabels_empty u hs ns emptySelector rfl rfl]
      exact craft_target_empty u ns _ src_ne_empty
    · exact comment_empty u ns emptySelector rfl rfl
  · simp [UniqueStrSlice, dropAllToEntry, dropAllFromEntry]

/-- C13 at the namespace `default`, with the parser of spec §4.1. -/
theorem empty_policy_translation_witness :
    ParserSentinel exampleUtil ∧
    translatePolicy exampleUtil (emptyPolicy "default") =
      some { sets := ["ns-default"], lists := [],
             entries :=
               [{ Chain := "AZURE-NPM-TARGET-SETS",
                  Specs := ["-m", "set", "--match-set", "azure-npm-ns-default", "dst",
                            "-j", "DROP", "-m", "comment", "--comment",
                            "DROP-ALL-TO-ns-default"] },
                { Chain := "AZURE-NPM-TARGET-SETS",
                  Specs := ["-m", "set", "--match-set", "azure-npm-ns-default", "src",
                            "-j", "DROP", "-m", "comment", "--comment",
                            "DROP-ALL-FROM-ns-default"] }] } :=
  ⟨specUtil_sentinel _ _, empty_policy_translation exampleUtil (specUtil_sentinel _ _) "default"⟩

/-- Every direction of a policy with the empty pod selector records
`ns-<namespace>` in its sets. -/
theorem translateDirection_empty (u : Util) (hs : ParserSentinel u) (npObj : NetworkPolicy)
    (hl : npObj.PodSelector.MatchLabels = []) (he : npObj.PodSelector.MatchExpressions = [])
    (dir : String) (t : Translation) (h : translateDirection u npObj dir = some t) :
    "ns-" ++ npObj.Namespace ∈ t.sets := by
  have hmem : ∀ d : LoopState, "ns-" ++ npObj.Namespace ∈
      DropEmptyFields (((LoopState.init ["ns-" ++ npObj.Namespace]).append d).sets) := by
    intro d
    rw [mem_DropEmptyFields]
    exact ⟨by simp [LoopState.init, LoopState.append], ns_append_ne_empty _⟩
  unfold translateDirection at h
  split at h
  · rw [translateIngress_eq_some] at h
    obtain ⟨tS, tC, d, -, -, -, rfl⟩ := h
    rw [targetOpsAndLabels_empty u hs _ _ hl he]
    exact hmem d
  · rw [translateEgress_eq_some] at h
    obtain ⟨tS, tC, d, -, -, -, rfl⟩ := h
    rw [targetOpsAndLabels_empty u hs _ _ hl he]
    exact hmem d

/-- C12. For a policy of namespace `ns` whose pod selector is empty and of
which at least one direction is translated: the target fragment every builder
call computes is the single match `-m set --match-set <hash of ns-ns> flag`,
for the flag `dst` (ingress, `DROP-ALL-TO`) as for the flag `src` (egress,
`DROP-ALL-FROM`); it is the token list the selector-match builder gives for
the empty pod selector; `"ns-" ++ ns` is one of the returned sets; and the
returned entries use it: the rules of either direction are translated with
this fragment and the comment `ns-<ns>`, the entries of every translated
direction are a block of the returned entries, and the default-drop entries
are built from it.  The parser is taken to give the pair `("", "")` for the
empty selector, as spec §4.1 describes it. -/
theorem empty_target_fragment (u : Util) (hs : ParserSentinel u) (npObj : NetworkPolicy)
    (r : Translation)
    (hl : npObj.PodSelector.MatchLabels = []) (he : npObj.PodSelector.MatchExpressions = [])
    (hdir : translatedDirections npObj ≠ [])
    (h : translatePolicy u npObj = some r) :
    (∀ flag, flag ≠ "" →
      craftPartialIptEntrySpecFromOpsAndLabels u npObj.Namespace
          (targetOpsAndLabels u npObj.Namespace npObj.PodSelector).1
          (targetOpsAndLabels u npObj.Namespace npObj.PodSelector).2 flag false =
        some (matchSet u ("ns-" ++ npObj.Namespace) flag) ∧
      craftPartialIptEntrySpecFromSelector u npObj.Namespace (some npObj.PodSelector) flag false =
        some (matchSet u ("ns-" ++ npObj.Namespace) flag)) ∧
    "ns-" ++ npObj.Namespace ∈ r.sets ∧
    (∀ i, translateIngress u npObj.Namespace npObj.PodSelector npObj.Ingress = some i →
      ∃ d,
        npObj.Ingress.foldlM
          (ingressRule u npObj.Namespace (matchSet u ("ns-" ++ npObj.Namespace) IptablesDstFlag)
            ("ns-" ++ npObj.Namespace)) LoopState.empty = some d ∧
        i = ingressFinish (matchSet u ("ns-" ++ npObj.Namespace) IptablesDstFlag)
          ("ns-" ++ npObj.Namespace) ((LoopState.init ["ns-" ++ npObj.Namespace]).append d)) ∧
    (∀ e, translateEgress u npObj.Namespace npObj.PodSelector npObj.Egress = some e →
      ∃ d,
        npObj.Egress.foldlM
          (egressRule u npObj.Namespace (matchSet u ("ns-" ++ npObj.Namespace) IptablesSrcFlag)
            ("ns-" ++ npObj.Namespace)) LoopState.empty = some d ∧
        e = egressFinish (matchSet u ("ns-" ++ npObj.Namespace) IptablesSrcFlag)
          ("ns-" ++ npObj.Namespace) ((LoopState.init ["ns-" ++ npObj.Namespace]).append d)) ∧
    (∀ dir ∈ translatedDirections npObj,
      ∃ t, translateDirection u npObj dir = some t ∧ t.entries <:+: r.entries) ∧
    ∃ st, translatePolicyDirections u npObj = some st ∧
      r.entries = st.entries ++
        ((if st.hasIngress then
            [dropAllToEntry (matchSet u ("ns-" ++ npObj.Namespace) IptablesDstFlag)
              ("ns-" ++ npObj.Namespace)] else []) ++
         (if st.hasEgress then
            [dropAllFromEntry (matchSet u ("ns-" ++ npObj.Namespace) IptablesSrcFlag)
              ("ns-" ++ npObj.Namespace)] else [])) := by
  have htarget := targetOpsAndLabels_empty u hs npObj.Namespace npObj.PodSelector hl he
  have hcomment := comment_empty u npObj.Namespace npObj.PodSelector hl he
  have hcraft : ∀ flag, flag ≠ "" →
      craftPartialIptEntrySpecFromOpsAndLabels u npObj.Namespace
          (targetOpsAndLabels u npObj.Namespace npObj.PodSelector).1
          (targetOpsAndLabels u npObj.Namespace npObj.PodSelector).2 flag false =
        some (matchSet u ("ns-" ++ npObj.Namespace) flag) := by
    intro flag hflag
    rw [htarget]
    exact craft_target_empty u npObj.Namespace flag hflag
  refine ⟨fun flag hflag => ⟨hcraft flag hflag,
    craftSelector_empty u hs npObj.Namespace flag npObj.PodSelector hl he⟩, ?_, ?_, ?_, ?_, ?_⟩
  · obtain ⟨dir, hmem⟩ := List.exists_mem_of_ne_nil _ hdir
    obtain ⟨t, ht, -, hsets, -⟩ := translatePolicy_direction_block u npObj r dir h hmem
    exact hsets _ (translateDirection_empty u hs npObj hl he dir t ht)
  · intro i hi
    rw [translateIngress_eq_some] at hi
    obtain ⟨tS, tC, d, h1, h2, h3, rfl⟩ := hi
    rw [hcraft _ dst_ne_empty] at h1
    rw [hcomment] at h2
    cases h1
    cases h2
    exact ⟨d, h3, by rw [htarget]⟩
  · intro e he'
    rw [translateEgress_eq_some] at he'
    obtain ⟨tS, tC, d, h1, h2, h3, rfl⟩ := he'
    rw [hcraft _ src_ne_empty] at h1
    rw [hcomment] at h2
    cases h1
    cases h2
    exact ⟨d, h3, by rw [htarget]⟩
  · intro dir hmem
    obtain ⟨t, ht, hblock, -, -⟩ := translatePolicy_direction_block u npObj r dir h hmem
    exact ⟨t, ht, hblock⟩
  · obtain ⟨st, tSd, tSs, tC, hst, h1, h2, h3, hentries, -, -, -⟩ :=
      translatePolicy_entries u npObj r h
    rw [hcraft _ dst_ne_empty] at h1
    rw [hcraft _ src_ne_empty] at h2
    rw [hcomment] at h3
    cases h1
    cases h2
    cases h3
    exact ⟨st, hst, hentries⟩

/-- C12 at a policy with the empty pod selector that admits the pods `app=b`:
the match of `ns-default` opens every returned entry but the first, which
opens with the match of the peer. -/
theorem empty_target_fragment_witness :
    ∃ r, translatePolicy exampleUtil allPodsPolicy = some r ∧
      "ns-default" ∈ r.sets ∧
      craftPartialIptEntrySpecFromSelector exampleUtil "default" (some emptySelector)
          IptablesDstFlag false =
        some ["-m", "set", "--match-set", "azure-npm-ns-default", "dst"] ∧
      r.entries.map (fun e => e.Specs.take 5) =
        [["-m", "set", "--match-set", "azure-npm-app:b", "src"],
         ["-m", "set", "--match-set", "azure-npm-ns-default", "dst"],
         ["-m", "set", "--match-set", "azure-npm-ns-default", "dst"],
         ["-m", "set", "--match-set", "azure-npm-ns-default", "dst"],
         ["-m", "set", "--match-set", "azure-npm-ns-default", "src"]] :=
  ⟨_, rfl,
    (empty_target_fragment exampleUtil (specUtil_sentinel _ _) allPodsPolicy _ rfl rfl
      (by decide) rfl).2.1,
    rfl, rfl⟩

/-! ## Closed forms of single-rule policies -/

/-- `translateIngress` once the target fragment and the target comment are
known: the loop over the rules, then the closing lines. -/
theorem translateIngress_of_target (u : Util) (ns : String) (t : LabelSelector)
    (rules : List NetworkPolicyIngressRule) (tS : List String) (tC : String)
    (htS : craftPartialIptEntrySpecFromOpsAndLabels u ns (targetOpsAndLabels u ns t).1
      (targetOpsAndLabels u ns t).2 IptablesDstFlag false = some tS)
    (htC : craftPartialIptablesCommentFromSelector u ns (some t) false = some tC) :
    translateIngress u ns t rules =
      (rules.foldlM (ingressRule u ns tS tC) LoopState.empty).map (fun d =>
        ingressFinish tS tC ((LoopState.init (targetOpsAndLabels u ns t).2).append d)) := by
  cases hd : List.foldlM (ingressRule u ns tS tC) LoopState.empty rules with
  | some d =>
    exact (translateIngress_eq_some u ns t rules _).2 ⟨tS, tC, d, htS, htC, hd, rfl⟩
  | none =>
    cases hr : translateIngress u ns t rules with
    | none => rfl
    | some r =>
      obtain ⟨tS', tC', d, h1, h2, h3, -⟩ := (translateIngress_eq_some u ns t rules r).1 hr
      rw [htS] at h1
      rw [htC] at h2
      cases h1
      cases h2
      rw [hd] at h3
      cases h3

/-- `translateEgress` once the target fragment and the target comment are
known: the loop over the rules, then the closing lines. -/
theorem translateEgress_of_target (u : Util) (ns : String) (t : LabelSelector)
    (rules : List NetworkPolicyEgressRule) (tS : List String) (tC : String)
    (htS : craftPartialIptEntrySpecFromOpsAndLabels u ns (targetOpsAndLabels u ns t).1
      (targetOpsAndLabels u ns t).2 IptablesSrcFlag false = some tS)
    (htC : craftPartialIptablesCommentFromSelector u ns (some t) false = some tC) :
    translateEgress u ns t rules =
      (rules.foldlM (egressRule u ns tS tC) LoopState.empty).map (fun d =>
        egressFinish tS tC ((LoopState.init (targetOpsAndLabels u ns t).2).append d)) := by
  cases hd : List.foldlM (egressRule u ns tS tC) LoopState.empty rules with
  | some d =>
    exact (translateEgress_eq_some u ns t rules _).2 ⟨tS, tC, d, htS, htC, hd, rfl⟩
  | none =>
    cases hr : translateEgress u ns t rules with
    | none => rfl
    | some r =>
      obtain ⟨tS', tC', d, h1, h2, h3, -⟩ := (translateEgress_eq_some u ns t rules r).1 hr
      rw [htS] at h1
      rw [htC] at h2
      cases h1
      cases h2
      rw [hd] at h3
      cases h3

/-- The loop over a single element is one step. -/
theorem foldlM_singleton {α : Type} (f : LoopState → α → Option LoopState) (x : α)
    (s : LoopState) : [x].foldlM f s = f s x := by
  simp [List.foldlM]

/-- An ingress rule with ports and without `from` field gives one entry to
every port (source lines 220-241). -/
theorem ingressRule_ports_only (u : Util) (ns : String) (tS : List String) (tC : String)
    (rule : NetworkPolicyIngressRule) (hfrom : rule.From = none) (hports : rule.Ports ≠ []) :
    ingressRule u ns tS tC LoopState.empty rule =
      some { LoopState.empty with
        addedPortEntry := true,
        entries := rule.Ports.map (fun portRule =>
          { Chain := IptablesAzureIngressPortChain,
            Specs := craftPartialIptEntrySpecFromPort portRule IptablesDstPortFlag ++ tS ++
              jumpAndComment IptablesAccept
                ("ALLOW-ALL-" ++
                  craftPartialIptablesCommentFromPort portRule IptablesDstPortFlag ++
                  "-TO-" ++ tC) }) } := by
  have hlen : rule.Ports.length > 0 := List.length_pos.2 hports
  simp [ingressRule, hfrom, hlen, LoopState.empty]

/-! ## C16: a rule with ports only -/

/-- `translatePolicy` once its directions are translated and the target
fragments and comment are known. -/
theorem translatePolicy_of_directions (u : Util) (npObj : NetworkPolicy) (st : PolicyState)
    (tSd tSs : List String) (tC : String)
    (hst : translatePolicyDirections u npObj = some st)
    (htSd : craftPartialIptEntrySpecFromOpsAndLabels u npObj.Namespace
      (targetOpsAndLabels u npObj.Namespace npObj.PodSelector).1
      (targetOpsAndLabels u npObj.Namespace npObj.PodSelector).2 IptablesDstFlag false = some tSd)
    (htSs : craftPartialIptEntrySpecFromOpsAndLabels u npObj.Namespace
      (targetOpsAndLabels u npObj.Namespace npObj.PodSelector).1
      (targetOpsAndLabels u npObj.Namespace npObj.PodSelector).2 IptablesSrcFlag false = some tSs)
    (htC : craftPartialIptablesCommentFromSelector u npObj.Namespace (some npObj.PodSelector)
      false = some tC) :
    translatePolicy u npObj =
      some { sets := UniqueStrSlice st.resultSets, lists := UniqueStrSlice st.resultLists,
             entries := st.entries ++
               ((if st.hasIngress then [dropAllToEntry tSd tC] else []) ++
                (if st.hasEgress then [dropAllFromEntry tSs tC] else [])) } := by
  rw [translatePolicy_eq_some]
  refine ⟨st, _, hst, ?_, rfl⟩
  rw [getDefaultDropEntries_eq_some]
  exact ⟨tSd, tSs, tC, htSd, htSs, htC, rfl⟩

/-- C16. For a policy with `PolicyTypes = [Ingress]` whose ingress rule list
is a single rule with ports `p1..pn` (`n ≥ 1`) and no `from` field, whenever
the target fragment `tS` (flag `dst`) and the target comment `tC` are built,
`translatePolicy` returns, and returns exactly: for every port in order one
ACCEPT entry on the Ingress-Port chain whose specs are the port fragment
(`-p <proto> --dport <port>`) followed by the target fragment; then the jump
from Ingress-Port to TargetSets; then the entry `DROP-ALL-TO-<target>` on
TargetSets.  The sets are the target's labels (without repetition and without
the empty string) and there is no list. -/
theorem ports_only_rule_entries (u : Util) (npObj : NetworkPolicy)
    (rule : NetworkPolicyIngressRule) (tS : List String) (tC : String)
    (hpt : npObj.PolicyTypes = [PolicyTypeIngress]) (hrules : npObj.Ingress = [rule])
    (hports : rule.Ports ≠ []) (hfrom : rule.From = none)
    (htS : craftPartialIptEntrySpecFromOpsAndLabels u npObj.Namespace
      (targetOpsAndLabels u npObj.Namespace npObj.PodSelector).1
      (targetOpsAndLabels u npObj.Namespace npObj.PodSelector).2 IptablesDstFlag false = some tS)
    (htC : craftPartialIptablesCommentFromSelector u npObj.Namespace (some npObj.PodSelector)
      false = some tC) :
    translatePolicy u npObj =
      some { sets := UniqueStrSlice
               (DropEmptyFields (targetOpsAndLabels u npObj.Namespace npObj.PodSelector).2),
             lists := [],
             entries :=
               rule.Ports.map (fun portRule =>
                 { Chain := IptablesAzureIngressPortChain,
                   Specs := craftPartialIptEntrySpecFromPort portRule IptablesDstPortFlag ++ tS ++
                     jumpAndComment IptablesAccept
                       ("ALLOW-ALL-" ++
                         craftPartialIptablesCommentFromPort portRule IptablesDstPortFlag ++
                         "-TO-" ++ tC) }) ++
               [{ Chain := IptablesAzureIngressPortChain,
                  Specs := tS ++
                    jumpAndComment IptablesAzureTargetSetsChain
                      ("ALLOW-ALL-TO-" ++ tC ++ "-TO-JUMP-TO-" ++ IptablesAzureTargetSetsChain) },
                { Chain := IptablesAzureTargetSetsChain,
                  Specs := tS ++ jumpAndComment IptablesDrop ("DROP-ALL-TO-" ++ tC) }] } := by
  obtain ⟨tSs, htSs⟩ := targetSpec_isSome u npObj.Namespace npObj.PodSelector IptablesSrcFlag
  have hlen : rule.Ports.length ≠ 0 := fun h => hports (List.length_eq_zero.1 h)
  have hdeg : ingressDegenerate npObj = false := by
    simp [ingressDegenerate, hrules, hlen]
  have hst : translatePolicyDirections u npObj =
      some { resultSets := DropEmptyFields (targetOpsAndLabels u npObj.Namespace npObj.PodSelector).2,
             resultLists := [],
             entries :=
               rule.Ports.map (fun portRule =>
                 { Chain := IptablesAzureIngressPortChain,
                   Specs := craftPartialIptEntrySpecFromPort portRule IptablesDstPortFlag ++ tS ++
                     jumpAndComment IptablesAccept
                       ("ALLOW-ALL-" ++
                         craftPartialIptablesCommentFromPort portRule IptablesDstPortFlag ++
                         "-TO-" ++ tC) }) ++
               [{ Chain := IptablesAzureIngressPortChain,
                  Specs := tS ++
                    jumpAndComment IptablesAzureTargetSetsChain
                      ("ALLOW-ALL-TO-" ++ tC ++ "-TO-JUMP-TO-" ++ IptablesAzureTargetSetsChain) }],
             hasIngress := true, hasEgress := false } := by
    rw [translatePolicyDirections_ingress_only u npObj hpt,
      translateIngress_of_target u _ _ _ tS tC htS htC, hrules, foldlM_singleton,
      ingressRule_ports_only u _ tS tC rule hfrom hports]
    simp [ingressFinish, LoopState.init, LoopState.append, LoopState.empty, hdeg,
      DropEmptyFields]
  rw [translatePolicy_of_directions u npObj _ tS tSs tC hst htS htSs htC]
  simp [dropAllToEntry, UniqueStrSlice]

/-- C16 at the ports `TCP/80` and `UDP/53` for the pods `app=web`. -/
theorem ports_only_rule_entries_witness :
    translatePolicy exampleUtil portsOnlyPolicy =
      some { sets := ["app:web"], lists := [],
             entries :=
               [{ Chain := "AZURE-NPM-INGRESS-PORT",
                  Specs := ["-p", "TCP", "--dport", "80",
                            "-m", "set", "--match-set", "azure-npm-app:web", "dst",
                            "-j", "ACCEPT", "-m", "comment", "--comment",
                            "ALLOW-ALL-TCP-PORT-80-TO-app:web"] },
                { Chain := "AZURE-NPM-INGRESS-PORT",
                  Specs := ["-p", "UDP", "--dport", "53",
                            "-m", "set", "--match-set", "azure-npm-app:web", "dst",
                            "-j", "ACCEPT", "-m", "comment", "--comment",
                            "ALLOW-ALL-UDP-PORT-53-TO-app:web"] },
                { Chain := "AZURE-NPM-INGRESS-PORT",
                  Specs := ["-m", "set", "--match-set", "azure-npm-app:web", "dst",
                            "-j", "AZURE-NPM-TARGET-SETS", "-m", "comment", "--comment",
                            "ALLOW-ALL-TO-app:web-TO-JUMP-TO-AZURE-NPM-TARGET-SETS"] },
                { Chain := "AZURE-NPM-TARGET-SETS",
                  Specs := ["-m", "set", "--match-set", "azure-npm-app:web", "dst",
                            "-j", "DROP", "-m", "comment", "--comment",
                            "DROP-ALL-TO-app:web"] }] } :=
  ports_only_rule_entries exampleUtil portsOnlyPolicy _ _ _ rfl rfl (by decide) rfl rfl rfl

/-! ## A direction translated exactly once -/

/-- No entry is on a chain of both directions. -/
theorem ingress_egress_chain_disjoint (e : IptEntry) (hi : IngressChain e) (he : EgressChain e) :
    False := by
  rcases hi with hi | hi <;> rcases he with he | he <;> rw [hi] at he <;>
    exact absurd he (by decide)

/-- A translated direction is `Ingress` or `Egress`. -/
theorem mem_translatedDirections (npObj : NetworkPolicy) (dir : String)
    (h : dir ∈ translatedDirections npObj) : dir = PolicyTypeIngress ∨ dir = PolicyTypeEgress := by
  unfold translatedDirections at h
  split at h
  · simpa using h
  · simpa using (List.mem_filter.1 h).2

/-- Entries selected by `q` come from the direction `a` only: where `a` is not
translated, `q` selects nothing. -/
theorem filter_directions_none (u : Util) (npObj : NetworkPolicy) (a : String)
    (q : IptEntry → Bool)
    (hother : ∀ dir t, dir ≠ a → (dir = PolicyTypeIngress ∨ dir = PolicyTypeEgress) →
      translateDirection u npObj dir = some t → ∀ e ∈ t.entries, q e = false) :
    ∀ (dirs : List String) (ts : List Translation),
      List.Forall₂ (fun dir t => translateDirection u npObj dir = some t) dirs ts →
      (∀ d ∈ dirs, d = PolicyTypeIngress ∨ d = PolicyTypeEgress) →
      dirs.count a = 0 → ((ts.map Translation.entries).flatten).filter q = [] := by
  intro dirs ts h
  induction h with
  | nil => intro _ _; rfl
  | @cons dir t dirs ts hd _ ih =>
    intro hD hcount
    have hne : dir ≠ a := by
      intro heq
      subst heq
      simp at hcount
    rw [List.count_cons_of_ne (Ne.symm hne)] at hcount
    simp only [List.map_cons, List.flatten_cons, List.filter_append,
      ih (fun d hd => hD d (List.mem_cons_of_mem _ hd)) hcount,
      List.append_nil, List.filter_eq_nil_iff]
    intro e he
    simp [hother dir t hne (hD dir (List.mem_cons_self _ _)) hd e he]

/-- Where the direction `a` is translated exactly once, `q` selects exactly
what it selects in the translation of `a`. -/
theorem filter_directions_once (u : Util) (npObj : NetworkPolicy) (a : String)
    (q : IptEntry → Bool)
    (hother : ∀ dir t, dir ≠ a → (dir = PolicyTypeIngress ∨ dir = PolicyTypeEgress) →
      translateDirection u npObj dir = some t → ∀ e ∈ t.entries, q e = false) :
    ∀ (dirs : List String) (ts : List Translation),
      List.Forall₂ (fun dir t => translateDirection u npObj dir = some t) dirs ts →
      (∀ d ∈ dirs, d = PolicyTypeIngress ∨ d = PolicyTypeEgress) →
      dirs.count a = 1 →
      ∃ t, translateDirection u npObj a = some t ∧
        ((ts.map Translation.entries).flatten).filter q = t.entries.filter q := by
  intro dirs ts h
  induction h with
  | nil => intro _ hcount; simp at hcount
  | @cons dir t dirs ts hd htl ih =>
    intro hD hcount
    have hD' : ∀ d ∈ dirs, d = PolicyTypeIngress ∨ d = PolicyTypeEgress :=
      fun d hd => hD d (List.mem_cons_of_mem _ hd)
    by_cases heq : dir = a
    · subst heq
      rw [List.count_cons_self] at hcount
      refine ⟨t, hd, ?_⟩
      simp only [List.map_cons, List.flatten_cons, List.filter_append,
        filter_directions_none u npObj dir q hother dirs ts htl hD' (by omega), List.append_nil]
    · rw [List.count_cons_of_ne (Ne.symm heq)] at hcount
      obtain ⟨t', ht', hfilter⟩ := ih hD' hcount
      refine ⟨t', ht', ?_⟩
      have hnil : t.entries.filter q = [] := by
        rw [List.filter_eq_nil_iff]
        intro e he
        simp [hother dir t heq (hD dir (List.mem_cons_self _ _)) hd e he]
      simp only [List.map_cons, List.flatten_cons, List.filter_append, hnil, hfilter,
        List.nil_append]

/-- The default-drop entries are on the TargetSets chain. -/
theorem dropAll_filter_nil (q : IptEntry → Bool)
    (hq : ∀ e, q e = true → e.Chain ≠ IptablesAzureTargetSetsChain)
    (tSd tSs : List String) (tC : String) (a b : Bool) :
    ((if a then [dropAllToEntry tSd tC] else []) ++
      (if b then [dropAllFromEntry tSs tC] else [])).filter q = [] := by
  rw [List.filter_eq_nil_iff]
  intro e he
  intro hqe
  apply hq e hqe
  cases a <;> cases b <;> simp [dropAllToEntry, dropAllFromEntry] at he
  · rw [he]
  · rw [he]
  · rcases he with he | he <;> rw [he]

/-- When ingress is translated exactly once, the returned entries selected on
ingress chains are those of `translateIngress`. -/
theorem translatePolicy_filter_ingress (u : Util) (npObj : NetworkPolicy) (r : Translation)
    (h : translatePolicy u npObj = some r)
    (hcount : (translatedDirections npObj).count PolicyTypeIngress = 1)
    (q : IptEntry → Bool) (hq : ∀ e, q e = true → IngressChain e) :
    ∃ i, translateIngress u npObj.Namespace npObj.PodSelector npObj.Ingress = some i ∧
      r.entries.filter q = i.entries.filter q := by
  obtain ⟨st, tSd, tSs, tC, hst, -, -, -, hentries, -, -, -⟩ := translatePolicy_entries u npObj r h
  obtain ⟨ts, hts, -, -, he⟩ := translatePolicyDirections_spec u npObj st hst
  have hother : ∀ dir t, dir ≠ PolicyTypeIngress →
      (dir = PolicyTypeIngress ∨ dir = PolicyTypeEgress) →
      translateDirection u npObj dir = some t → ∀ e ∈ t.entries, q e = false := by
    intro dir t hne _ ht e hmem
    unfold translateDirection at ht
    rw [if_neg hne] at ht
    cases hqe : q e with
    | false => rfl
    | true =>
      exact (ingress_egress_chain_disjoint e (hq e hqe)
        (translateEgress_chain u _ _ _ t ht e hmem)).elim
  obtain ⟨t, ht, hfilter⟩ := filter_directions_once u npObj PolicyTypeIngress q hother _ ts hts
    (mem_translatedDirections npObj) hcount
  unfold translateDirection at ht
  rw [if_pos rfl] at ht
  refine ⟨t, ht, ?_⟩
  rw [hentries, List.filter_append, he, hfilter,
    dropAll_filter_nil q (fun e hqe => ingressChain_ne_targetSets (hq e hqe)), List.append_nil]

/-- When egress is translated exactly once, the returned entries selected on
egress chains are those of `translateEgress`. -/
theorem translatePolicy_filter_egress (u : Util) (npObj : NetworkPolicy) (r : Translation)
    (h : translatePolicy u npObj = some r)
    (hcount : (translatedDirections npObj).count PolicyTypeEgress = 1)
    (q : IptEntry → Bool) (hq : ∀ e, q e = true → EgressChain e) :
    ∃ t, translateEgress u npObj.Namespace npObj.PodSelector npObj.Egress = some t ∧
      r.entries.filter q = t.entries.filter q := by
  obtain ⟨st, tSd, tSs, tC, hst, -, -, -, hentries, -, -, -⟩ := translatePolicy_entries u npObj r h
  obtain ⟨ts, hts, -, -, he⟩ := translatePolicyDirections_spec u npObj st hst
  have hne : PolicyTypeEgress ≠ PolicyTypeIngress := by decide
  have hother : ∀ dir t, dir ≠ PolicyTypeEgress →
      (dir = PolicyTypeIngress ∨ dir = PolicyTypeEgress) →
      translateDirection u npObj dir = some t → ∀ e ∈ t.entries, q e = false := by
    intro dir t hne hdir ht e hmem
    have hdir' : dir = PolicyTypeIngress := hdir.resolve_right hne
    unfold translateDirection at ht
    rw [if_pos hdir'] at ht
    cases hqe : q e with
    | false => rfl
    | true =>
      exact (ingress_egress_chain_disjoint e (translateIngress_chain u _ _ _ t ht e hmem)
        (hq e hqe)).elim
  obtain ⟨t, ht, hfilter⟩ := filter_directions_once u npObj PolicyTypeEgress q hother _ ts hts
    (mem_translatedDirections npObj) hcount
  unfold translateDirection at ht
  rw [if_neg hne] at ht
  refine ⟨t, ht, ?_⟩
  rw [hentries, List.filter_append, he, hfilter,
    dropAll_filter_nil q (fun e hqe => egressChain_ne_targetSets (hq e hqe)), List.append_nil]

/-- The value of `hasIngress` at the call of `getDefaultDropEntries`. -/
theorem hasIngress_eq (u : Util) (npObj : NetworkPolicy) (st : PolicyState) (i : Translation)
    (hst : translatePolicyDirections u npObj = some st)
    (hi : translateIngress u npObj.Namespace npObj.PodSelector npObj.Ingress = some i) :
    st.hasIngress =
      if npObj.PolicyTypes = [] then decide (i.sets.length > 0)
      else (decide (PolicyTypeIngress ∈ npObj.PolicyTypes) && !ingressDegenerate npObj) := by
  by_cases hpt : npObj.PolicyTypes = []
  · rw [if_pos hpt]
    unfold translatePolicyDirections at hst
    rw [if_pos (by simp [hpt]), hi] at hst
    cases he : translateEgress u npObj.Namespace npObj.PodSelector npObj.Egress with
    | none => rw [he] at hst; cases hst
    | some e =>
      rw [he] at hst
      cases hst
      rfl
  · rw [if_neg hpt]
    exact (policyTypes_flags u npObj st hpt hst).1

/-- The value of `hasEgress` at the call of `getDefaultDropEntries`. -/
theorem hasEgress_eq (u : Util) (npObj : NetworkPolicy) (st : PolicyState) (e : Translation)
    (hst : translatePolicyDirections u npObj = some st)
    (he : translateEgress u npObj.Namespace npObj.PodSelector npObj.Egress = some e) :
    st.hasEgress =
      if npObj.PolicyTypes = [] then decide (e.sets.length > 0)
      else (decide (PolicyTypeEgress ∈ npObj.PolicyTypes) && !egressDegenerate npObj) := by
  by_cases hpt : npObj.PolicyTypes = []
  · rw [if_pos hpt]
    unfold translatePolicyDirections at hst
    rw [if_pos (by simp [hpt]), he] at hst
    cases hi : translateIngress u npObj.Namespace npObj.PodSelector npObj.Ingress with
    | none => rw [hi] at hst; cases hst
    | some i =>
      rw [hi] at hst
      cases hst
      rfl
  · rw [if_neg hpt]
    exact (policyTypes_flags u npObj st hpt hst).2

/-- A direction translated once for a policy with policy types is one of the
policy types. -/
theorem mem_policyTypes_of_count (npObj : NetworkPolicy) (dir : String)
    (hpt : npObj.PolicyTypes ≠ []) (hcount : (translatedDirections npObj).count dir = 1) :
    dir ∈ npObj.PolicyTypes := by
  have hmem : dir ∈ translatedDirections npObj := by
    rw [← List.count_pos_iff]
    omega
  unfold translatedDirections at hmem
  rw [if_neg (by simpa using hpt)] at hmem
  exact (List.mem_filter.1 hmem).1

/-- The test `onIngressChain` decides `IngressChain`. -/
theorem onIngressChain_iff (e : IptEntry) : onIngressChain e = true ↔ IngressChain e := by
  simp [onIngressChain, IngressChain]

/-- The test `onEgressChain` decides `EgressChain`. -/
theorem onEgressChain_iff (e : IptEntry) : onEgressChain e = true ↔ EgressChain e := by
  simp [onEgressChain, EgressChain]

/-- What `translatePolicy` returns when it translates ingress exactly once, in
terms of what `translateIngress` returns. -/
theorem translatePolicy_ingress_once (u : Util) (npObj : NetworkPolicy) (r : Translation)
    (h : translatePolicy u npObj = some r)
    (hcount : (translatedDirections npObj).count PolicyTypeIngress = 1) :
    ∃ (i : Translation) (st : PolicyState) (tSd tSs : List String) (tC : String),
      translateIngress u npObj.Namespace npObj.PodSelector npObj.Ingress = some i ∧
      craftPartialIptEntrySpecFromOpsAndLabels u npObj.Namespace
        (targetOpsAndLabels u npObj.Namespace npObj.PodSelector).1
        (targetOpsAndLabels u npObj.Namespace npObj.PodSelector).2 IptablesDstFlag false
        = some tSd ∧
      craftPartialIptEntrySpecFromOpsAndLabels u npObj.Namespace
        (targetOpsAndLabels u npObj.Namespace npObj.PodSelector).1
        (targetOpsAndLabels u npObj.Namespace npObj.PodSelector).2 IptablesSrcFlag false
        = some tSs ∧
      craftPartialIptablesCommentFromSelector u npObj.Namespace (some npObj.PodSelector) false
        = some tC ∧
      (∀ q : IptEntry → Bool, (∀ e, q e = true → IngressChain e) →
        r.entries.filter q = i.entries.filter q) ∧
      r.entries = st.entries ++
        ((if st.hasIngress then [dropAllToEntry tSd tC] else []) ++
          (if st.hasEgress then [dropAllFromEntry tSs tC] else [])) ∧
      st.hasIngress =
        (if npObj.PolicyTypes = [] then decide (i.sets.length > 0)
         else !ingressDegenerate npObj) ∧
      (∀ e ∈ st.entries, e.Chain ≠ IptablesAzureTargetSetsChain) ∧
      (∀ x ∈ i.sets, x ∈ r.sets) ∧ (∀ x ∈ i.lists, x ∈ r.lists) := by
  obtain ⟨st, tSd, tSs, tC, hst, h1, h2, h3, hentries, -, -, hchain⟩ :=
    translatePolicy_entries u npObj r h
  obtain ⟨i, hi, -⟩ := translatePolicy_filter_ingress u npObj r h hcount onIngressChain
    (fun e he => (onIngressChain_iff e).1 he)
  have hmem : PolicyTypeIngress ∈ translatedDirections npObj := by
    rw [← List.count_pos_iff]
    omega
  obtain ⟨t, ht, -, hsets, hlists⟩ :=
    translatePolicy_direction_block u npObj r PolicyTypeIngress h hmem
  unfold translateDirection at ht
  rw [if_pos rfl, hi] at ht
  cases ht
  refine ⟨i, st, tSd, tSs, tC, hi, h1, h2, h3, ?_, hentries, ?_, hchain, hsets, hlists⟩
  · intro q hq
    obtain ⟨i', hi', hfilter⟩ := translatePolicy_filter_ingress u npObj r h hcount q hq
    rw [hi] at hi'
    cases hi'
    exact hfilter
  · rw [hasIngress_eq u npObj st i hst hi]
    by_cases hpt : npObj.PolicyTypes = []
    · rw [if_pos hpt, if_pos hpt]
    · rw [if_neg hpt, if_neg hpt]
      simp [mem_policyTypes_of_count npObj _ hpt hcount]

/-- What `translatePolicy` returns when it translates egress exactly once, in
terms of what `translateEgress` returns. -/
theorem translatePolicy_egress_once (u : Util) (npObj : NetworkPolicy) (r : Translation)
    (h : translatePolicy u npObj = some r)
    (hcount : (translatedDirections npObj).count PolicyTypeEgress = 1) :
    ∃ (t : Translation) (st : PolicyState) (tSd tSs : List String) (tC : String),
      translateEgress u npObj.Namespace npObj.PodSelector npObj.Egress = some t ∧
      craftPartialIptEntrySpecFromOpsAndLabels u npObj.Namespace
        (targetOpsAndLabels u npObj.Namespace npObj.PodSelector).1
        (targetOpsAndLabels u npObj.Namespace npObj.PodSelector).2 IptablesDstFlag false
        = some tSd ∧
      craftPartialIptEntrySpecFromOpsAndLabels u npObj.Namespace
        (targetOpsAndLabels u npObj.Namespace npObj.PodSelector).1
        (targetOpsAndLabels u npObj.Namespace npObj.PodSelector).2 IptablesSrcFlag false
        = some tSs ∧
      craftPartialIptablesCommentFromSelector u npObj.Namespace (some npObj.PodSelector) false
        = some tC ∧
      (∀ q : IptEntry → Bool, (∀ e, q e = true → EgressChain e) →
        r.entries.filter q = t.entries.filter q) ∧
      r.entries = st.entries ++
        ((if st.hasIngress then [dropAllToEntry tSd tC] else []) ++
          (if st.hasEgress then [dropAllFromEntry tSs tC] else [])) ∧
      st.hasEgress =
        (if npObj.PolicyTypes = [] then decide (t.sets.length > 0)
         else !egressDegenerate npObj) ∧
      (∀ e ∈ st.entries, e.Chain ≠ IptablesAzureTargetSetsChain) ∧
      (∀ x ∈ t.sets, x ∈ r.sets) ∧ (∀ x ∈ t.lists, x ∈ r.lists) := by
  obtain ⟨st, tSd, tSs, tC, hst, h1, h2, h3, hentries, -, -, hchain⟩ :=
    translatePolicy_entries u npObj r h
  obtain ⟨e, he, -⟩ := translatePolicy_filter_egress u npObj r h hcount onEgressChain
    (fun e he => (onEgressChain_iff e).1 he)
  have hmem : PolicyTypeEgress ∈ translatedDirections npObj := by
    rw [← List.count_pos_iff]
    omega
  obtain ⟨t, ht, -, hsets, hlists⟩ :=
    translatePolicy_direction_block u npObj r PolicyTypeEgress h hmem
  unfold translateDirection at ht
  rw [if_neg (by decide), he] at ht
  cases ht
  refine ⟨e, st, tSd, tSs, tC, he, h1, h2, h3, ?_, hentries, ?_, hchain, hsets, hlists⟩
  · intro q hq
    obtain ⟨e', he', hfilter⟩ := translatePolicy_filter_egress u npObj r h hcount q hq
    rw [he] at he'
    cases he'
    exact hfilter
  · rw [hasEgress_eq u npObj st e hst he]
    by_cases hpt : npObj.PolicyTypes = []
    · rw [if_pos hpt, if_pos hpt]
    · rw [if_neg hpt, if_neg hpt]
      simp [mem_policyTypes_of_count npObj _ hpt hcount]

/-! ## C14, the entries as they are built: a rule with one namespace peer -/

/-- An ingress rule without ports whose only peer has a namespace selector
only (source lines 335-401). -/
theorem ingressRule_namespace_peer (u : Util) (ns : String) (tS : List String) (tC : String)
    (rule : NetworkPolicyIngressRule) (peer : NetworkPolicyPeer) (nsSel : LabelSelector)
    (hports : rule.Ports = []) (hfrom : rule.From = some [peer])
    (hip : peer.IPBlock = none) (hpod : peer.PodSelector = none)
    (hnsSel : peer.NamespaceSelector = some nsSel) :
    ingressRule u ns tS tC LoopState.empty rule =
      (craftPartialIptEntrySpecFromSelector u ns (some nsSel) IptablesSrcFlag true).bind
        (fun nsSpec =>
          (craftPartialIptablesCommentFromSelector u ns (some nsSel) true).map (fun nsC =>
            { LoopState.empty with
              lists := if parsedLabels u (some nsSel) = [""] then [KubeAllNamespacesFlag]
                else (parsedLabels u (some nsSel)).map (fun l => "ns-" ++ l),
              entries :=
                [{ Chain := IptablesAzureIngressFromChain,
                   Specs := nsSpec ++ tS ++
                     jumpAndComment IptablesAccept ("ALLOW-" ++ nsC ++ "-TO-" ++ tC) }],
              addedPeerEntry := true })) := by
  have hex : peerExists [peer] = true := by simp [peerExists, hnsSel]
  rw [ingressRule_of_peerExists u ns tS tC _ rule [peer] hfrom hex, foldlM_singleton]
  rcases peer with ⟨pod, nsS, ip⟩
  simp only at hip hpod hnsSel
  subst hip hpod hnsSel
  cases hspec : craftPartialIptEntrySpecFromSelector u ns (some nsSel) IptablesSrcFlag true with
  | none => simp [ingressPeer, hspec]
  | some nsSpec =>
    cases hcom : craftPartialIptablesCommentFromSelector u ns (some nsSel) true with
    | none => simp [ingressPeer, hspec, hcom]
    | some nsC => simp [ingressPeer, hports, hspec, hcom, LoopState.empty]

/-- The names `ingressFinish` returns. -/
theorem ingressFinish_sets (tS : List String) (tC : String) (st : LoopState) :
    (ingressFinish tS tC st).sets = DropEmptyFields st.sets ∧
    (ingressFinish tS tC st).lists = DropEmptyFields st.lists := ⟨rfl, rfl⟩

/-- The names `egressFinish` returns. -/
theorem egressFinish_sets (tS : List String) (tC : String) (st : LoopState) :
    (egressFinish tS tC st).sets = DropEmptyFields st.sets ∧
    (egressFinish tS tC st).lists = DropEmptyFields st.lists := ⟨rfl, rfl⟩

/-- A filter keeps a list all of whose elements pass. -/
theorem filter_eq_self_of_chain (l : List IptEntry) (q : IptEntry → Bool)
    (h : ∀ e ∈ l, q e = true) : l.filter q = l :=
  List.filter_eq_self.2 h

/-- What follows `DROP-ALL-TO` is on the TargetSets chain. -/
theorem dropAll_post (tSs : List String) (tC : String) (b : Bool) :
    ∀ e ∈ (if b then [dropAllFromEntry tSs tC] else []),
      e.Chain = IptablesAzureTargetSetsChain := by
  intro e he
  cases b
  · simp at he
  · simp only [if_true, List.mem_singleton] at he
    rw [he]
    rfl

/-- Of the entries as they are built.  For a policy that translates ingress exactly once
(`PolicyTypes` is empty or lists `Ingress` once), whose target has a label, and
whose ingress rule list is a single rule without ports whose only peer has a
namespace selector only, the parser giving that selector labels other than the
single empty label: the returned entries on the ingress chains are exactly the
ACCEPT entry on Ingress-From whose match is the namespace fragment (flag `src`)
followed by the target fragment (flag `dst`), then the jump from Ingress-Port
to Ingress-From, then the jump from Ingress-From to TargetSets; the entry
`DROP-ALL-TO-<target>` comes after every entry that is not on TargetSets; the
sets hold the target's labels and the lists hold `"ns-" ++ label` for every
label of the namespace selector. -/
theorem namespace_peer_rule_entries (u : Util) (npObj : NetworkPolicy)
    (rule : NetworkPolicyIngressRule) (peer : NetworkPolicyPeer) (nsSel : LabelSelector)
    (r : Translation)
    (hrules : npObj.Ingress = [rule]) (hports : rule.Ports = [])
    (hfrom : rule.From = some [peer])
    (hip : peer.IPBlock = none) (hpod : peer.PodSelector = none)
    (hnsSel : peer.NamespaceSelector = some nsSel)
    (hns : parsedLabels u (some nsSel) ≠ [""])
    (htarget : ∃ l ∈ (targetOpsAndLabels u npObj.Namespace npObj.PodSelector).2, l ≠ "")
    (hcount : (translatedDirections npObj).count PolicyTypeIngress = 1)
    (h : translatePolicy u npObj = some r) :
    ∃ (tS : List String) (tC : String) (nsSpec : List String) (nsC : String),
      craftPartialIptEntrySpecFromOpsAndLabels u npObj.Namespace
        (targetOpsAndLabels u npObj.Namespace npObj.PodSelector).1
        (targetOpsAndLabels u npObj.Namespace npObj.PodSelector).2 IptablesDstFlag false
        = some tS ∧
      craftPartialIptablesCommentFromSelector u npObj.Namespace (some npObj.PodSelector) false
        = some tC ∧
      craftPartialIptEntrySpecFromSelector u npObj.Namespace (some nsSel) IptablesSrcFlag true
        = some nsSpec ∧
      craftPartialIptablesCommentFromSelector u npObj.Namespace (some nsSel) true = some nsC ∧
      r.entries.filter onIngressChain =
        [{ Chain := IptablesAzureIngressFromChain,
           Specs := nsSpec ++ tS ++
             jumpAndComment IptablesAccept ("ALLOW-" ++ nsC ++ "-TO-" ++ tC) },
         { Chain := IptablesAzureIngressPortChain,
           Specs := tS ++
             jumpAndComment IptablesAzureIngressFromChain
               ("ALLOW-ALL-TO-" ++ tC ++ "-TO-JUMP-TO-" ++ IptablesAzureIngressFromChain) },
         { Chain := IptablesAzureIngressFromChain,
           Specs := tS ++
             jumpAndComment IptablesAzureTargetSetsChain
               ("ALLOW-ALL-TO-" ++ tC ++ "-TO-JUMP-TO-" ++ IptablesAzureTargetSetsChain) }] ∧
      (∃ pre post, r.entries = pre ++ dropAllToEntry tS tC :: post ∧
        (∀ e ∈ pre, e.Chain ≠ IptablesAzureTargetSetsChain) ∧
        (∀ e ∈ post, e.Chain = IptablesAzureTargetSetsChain)) ∧
      (∀ l ∈ (targetOpsAndLabels u npObj.Namespace npObj.PodSelector).2, l ≠ "" → l ∈ r.sets) ∧
      (∀ l ∈ parsedLabels u (some nsSel), "ns-" ++ l ∈ r.lists) := by
  obtain ⟨i, st, tSd, tSs, tC, hi, h1, h2, h3, hfilter, hentries, hhas, hchain, hsets, hlists⟩ :=
    translatePolicy_ingress_once u npObj r h hcount
  rw [translateIngress_of_target u _ _ _ tSd tC h1 h3, hrules, foldlM_singleton,
    ingressRule_namespace_peer u _ tSd tC rule peer nsSel hports hfrom hip hpod hnsSel] at hi
  cases hspec : craftPartialIptEntrySpecFromSelector u npObj.Namespace (some nsSel)
      IptablesSrcFlag true with
  | none => rw [hspec] at hi; cases hi
  | some nsSpec =>
    cases hcom : craftPartialIptablesCommentFromSelector u npObj.Namespace (some nsSel) true with
    | none => rw [hspec, hcom] at hi; cases hi
    | some nsC =>
      rw [hspec, hcom] at hi
      simp only [Option.some_bind, Option.map_some', Option.some.injEq] at hi
      subst hi
      have hisets : ∀ l ∈ (targetOpsAndLabels u npObj.Namespace npObj.PodSelector).2, l ≠ "" →
          l ∈ (ingressFinish tSd tC
            ((LoopState.init (targetOpsAndLabels u npObj.Namespace npObj.PodSelector).2).append
              { LoopState.empty with
                lists := if parsedLabels u (some nsSel) = [""] then [KubeAllNamespacesFlag]
                  else (parsedLabels u (some nsSel)).map (fun l => "ns-" ++ l),
                entries :=
                  [{ Chain := IptablesAzureIngressFromChain,
                     Specs := nsSpec ++ tSd ++
                       jumpAndComment IptablesAccept ("ALLOW-" ++ nsC ++ "-TO-" ++ tC) }],
                addedPeerEntry := true })).sets := by
        intro l hl hne
        rw [(ingressFinish_sets _ _ _).1, mem_DropEmptyFields]
        exact ⟨by simp [LoopState.init, LoopState.append, hl], hne⟩
      refine ⟨tSd, tC, nsSpec, nsC, h1, h3, rfl, rfl, ?_, ?_, ?_, ?_⟩
      · rw [hfilter onIngressChain (fun e he => (onIngressChain_iff e).1 he)]
        simp [ingressFinish, LoopState.init, LoopState.append, LoopState.empty, onIngressChain,
          IptablesAzureIngressFromChain, IptablesAzureIngressPortChain]
      · have htrue : st.hasIngress = true := by
          rw [hhas]
          by_cases hpt : npObj.PolicyTypes = []
          · rw [if_pos hpt]
            obtain ⟨l, hl, hne⟩ := htarget
            have := hisets l hl hne
            simp only [decide_eq_true_eq]
            exact List.length_pos_of_mem this
          · rw [if_neg hpt]
            simp [ingressDegenerate, hrules, hfrom]
        rw [htrue] at hentries
        exact ⟨st.entries, _, hentries, hchain, dropAll_post tSs tC st.hasEgress⟩
      · exact fun l hl hne => hsets l (hisets l hl hne)
      · intro l hl
        apply hlists
        rw [(ingressFinish_sets _ _ _).2, mem_DropEmptyFields]
        refine ⟨?_, ns_append_ne_empty l⟩
        simp only [LoopState.init, LoopState.append, LoopState.empty, if_neg hns,
          List.nil_append, List.mem_map]
        exact ⟨l, hl, rfl⟩

/-- The entries as they are built, at the target `app=web` and the namespace
selector `env=prod`, without policy types. -/
theorem namespace_peer_rule_entries_witness :
    ∃ r, translatePolicy exampleUtil (namespacePeerPolicy []) = some r ∧
      r.entries.filter onIngressChain =
        [{ Chain := "AZURE-NPM-INGRESS-FROM",
           Specs := ["-m", "set", "--match-set", "azure-npm-ns-env:prod", "src",
                     "-m", "set", "--match-set", "azure-npm-app:web", "dst",
                     "-j", "ACCEPT", "-m", "comment", "--comment",
                     "ALLOW-ns-env:prod-TO-app:web"] },
         { Chain := "AZURE-NPM-INGRESS-PORT",
           Specs := ["-m", "set", "--match-set", "azure-npm-app:web", "dst",
                     "-j", "AZURE-NPM-INGRESS-FROM", "-m", "comment", "--comment",
                     "ALLOW-ALL-TO-app:web-TO-JUMP-TO-AZURE-NPM-INGRESS-FROM"] },
         { Chain := "AZURE-NPM-INGRESS-FROM",
           Specs := ["-m", "set", "--match-set", "azure-npm-app:web", "dst",
                     "-j", "AZURE-NPM-TARGET-SETS", "-m", "comment", "--comment",
                     "ALLOW-ALL-TO-app:web-TO-JUMP-TO-AZURE-NPM-TARGET-SETS"] }] ∧
      "app:web" ∈ r.sets ∧ "ns-env:prod" ∈ r.lists := by
  obtain ⟨tS, tC, nsSpec, nsC, h1, h2, h3, h4, h5, -, h7, h8⟩ :=
    namespace_peer_rule_entries exampleUtil (namespacePeerPolicy []) _ namespacePeer
      (selectorOf "env" "prod") _ rfl rfl rfl rfl rfl rfl (by decide)
      ⟨"app:web", by decide, by decide⟩ (by decide) rfl
  cases h1
  cases h2
  cases h3
  cases h4
  exact ⟨_, rfl, h5, h7 "app:web" (by decide) (by decide), h8 "env:prod" (by decide)⟩

/-- The entries as they are built, for a policy whose ingress direction is not
translated: with `PolicyTypes = [Egress]` the policy of the witness (target
`app=web`, one ingress rule admitting the namespaces `env=prod`) returns no
entry on an ingress chain, no `DROP-ALL-TO` entry and no list. -/
theorem namespace_peer_not_translated :
    ∃ r, translatePolicy exampleUtil (namespacePeerPolicy [PolicyTypeEgress]) = some r ∧
      r.entries.filter onIngressChain = [] ∧ "ns-env:prod" ∉ r.lists ∧
      r.entries =
        [{ Chain := "AZURE-NPM-TARGET-SETS",
           Specs := ["-m", "set", "--match-set", "azure-npm-app:web", "src",
                     "-j", "DROP", "-m", "comment", "--comment", "DROP-ALL-FROM-app:web"] }] :=
  ⟨_, rfl, rfl, by decide, rfl⟩

/-! ## C15, the entries as they are built: a rule with one ipBlock peer -/

/-- An ingress rule without ports whose only peer is an ipBlock with a cidr
(source lines 244-326). -/
theorem ingressRule_ipBlock_peer (u : Util) (ns : String) (tS : List String) (tC : String)
    (rule : NetworkPolicyIngressRule) (peer : NetworkPolicyPeer) (block : IPBlock)
    (hports : rule.Ports = []) (hfrom : rule.From = some [peer])
    (hb : peer.IPBlock = some block) (hc : block.CIDR ≠ "") :
    ingressRule u ns tS tC LoopState.empty rule =
      some { LoopState.empty with
        peerEntries :=
          block.Except.map (fun except =>
            { Chain := IptablesAzureIngressFromChain,
              Specs := [IptablesSFlag, except] ++ tS ++
                jumpAndComment IptablesDrop ("DROP-" ++ except ++ "-TO-" ++ tC) }) ++
          [{ Chain := IptablesAzureIngressFromChain,
             Specs := tS ++ [IptablesSFlag, block.CIDR] ++
               jumpAndComment IptablesAccept ("ALLOW-" ++ block.CIDR ++ "-TO-" ++ tC) }],
        addedPeerEntry := true } := by
  have hex : peerExists [peer] = true := by simp [peerExists, hb]
  rw [ingressRule_of_peerExists u ns tS tC _ rule [peer] hfrom hex, foldlM_singleton]
  rcases peer with ⟨pod, nsS, ip⟩
  simp only at hb
  subst hb
  rcases block with ⟨cidr, excepts⟩
  cases excepts with
  | nil => simp [ingressPeer, hports, LoopState.empty, hc]
  | cons x xs => simp [ingressPeer, hports, LoopState.empty, hc]

/-- Of the entries as they are built.  For a policy that translates ingress exactly once
(`PolicyTypes` is empty or lists `Ingress` once) and whose ingress rule list is
a single rule without ports whose only peer is an ipBlock with the non-empty
cidr `c` and the except list `e1..ek`: the returned entries on the Ingress-From
chain are, in order, the DROP entries `-s ei` followed by the target fragment,
one for every `ei` in the order of the list, then the ACCEPT entry that matches
the target and `-s c`, then the jump from Ingress-From to TargetSets. -/
theorem ipBlock_rule_from_chain (u : Util) (npObj : NetworkPolicy)
    (rule : NetworkPolicyIngressRule) (peer : NetworkPolicyPeer) (block : IPBlock)
    (r : Translation)
    (hrules : npObj.Ingress = [rule]) (hports : rule.Ports = [])
    (hfrom : rule.From = some [peer])
    (hb : peer.IPBlock = some block) (hc : block.CIDR ≠ "")
    (hcount : (translatedDirections npObj).count PolicyTypeIngress = 1)
    (h : translatePolicy u npObj = some r) :
    ∃ (tS : List String) (tC : String),
      craftPartialIptEntrySpecFromOpsAndLabels u npObj.Namespace
        (targetOpsAndLabels u npObj.Namespace npObj.PodSelector).1
        (targetOpsAndLabels u npObj.Namespace npObj.PodSelector).2 IptablesDstFlag false
        = some tS ∧
      craftPartialIptablesCommentFromSelector u npObj.Namespace (some npObj.PodSelector) false
        = some tC ∧
      r.entries.filter (onChain IptablesAzureIngressFromChain) =
        block.Except.map (fun except =>
          { Chain := IptablesAzureIngressFromChain,
            Specs := [IptablesSFlag, except] ++ tS ++
              jumpAndComment IptablesDrop ("DROP-" ++ except ++ "-TO-" ++ tC) }) ++
        [{ Chain := IptablesAzureIngressFromChain,
           Specs := tS ++ [IptablesSFlag, block.CIDR] ++
             jumpAndComment IptablesAccept ("ALLOW-" ++ block.CIDR ++ "-TO-" ++ tC) },
         { Chain := IptablesAzureIngressFromChain,
           Specs := tS ++
             jumpAndComment IptablesAzureTargetSetsChain
               ("ALLOW-ALL-TO-" ++ tC ++ "-TO-JUMP-TO-" ++ IptablesAzureTargetSetsChain) }] := by
  obtain ⟨i, st, tSd, tSs, tC, hi, h1, h2, h3, hfilter, -, -, -, -, -⟩ :=
    translatePolicy_ingress_once u npObj r h hcount
  rw [translateIngress_of_target u _ _ _ tSd tC h1 h3, hrules, foldlM_singleton,
    ingressRule_ipBlock_peer u _ tSd tC rule peer block hports hfrom hb hc] at hi
  simp only [Option.map_some', Option.some.injEq] at hi
  subst hi
  refine ⟨tSd, tC, h1, h3, ?_⟩
  rw [hfilter (onChain IptablesAzureIngressFromChain)
    (fun e he => Or.inr (by simpa [onChain] using he))]
  have hdrops : ∀ e ∈ block.Except.map (fun except =>
      ({ Chain := IptablesAzureIngressFromChain,
         Specs := [IptablesSFlag, except] ++ tSd ++
           jumpAndComment IptablesDrop ("DROP-" ++ except ++ "-TO-" ++ tC) } : IptEntry)),
      onChain IptablesAzureIngressFromChain e = true := by
    intro e he
    obtain ⟨x, -, rfl⟩ := List.mem_map.1 he
    simp [onChain]
  have hent : (ingressFinish tSd tC
      ((LoopState.init (targetOpsAndLabels u npObj.Namespace npObj.PodSelector).2).append
        { LoopState.empty with
          peerEntries :=
            block.Except.map (fun except =>
              { Chain := IptablesAzureIngressFromChain,
                Specs := [IptablesSFlag, except] ++ tSd ++
                  jumpAndComment IptablesDrop ("DROP-" ++ except ++ "-TO-" ++ tC) }) ++
            [{ Chain := IptablesAzureIngressFromChain,
               Specs := tSd ++ [IptablesSFlag, block.CIDR] ++
                 jumpAndComment IptablesAccept ("ALLOW-" ++ block.CIDR ++ "-TO-" ++ tC) }],
          addedPeerEntry := true })).entries =
      block.Except.map (fun except =>
        ({ Chain := IptablesAzureIngressFromChain,
           Specs := [IptablesSFlag, except] ++ tSd ++
             jumpAndComment IptablesDrop ("DROP-" ++ except ++ "-TO-" ++ tC) } : IptEntry)) ++
      ([{ Chain := IptablesAzureIngressFromChain,
          Specs := tSd ++ [IptablesSFlag, block.CIDR] ++
            jumpAndComment IptablesAccept ("ALLOW-" ++ block.CIDR ++ "-TO-" ++ tC) },
        { Chain := IptablesAzureIngressPortChain,
          Specs := tSd ++
            jumpAndComment IptablesAzureIngressFromChain
              ("ALLOW-ALL-TO-" ++ tC ++ "-TO-JUMP-TO-" ++ IptablesAzureIngressFromChain) },
        { Chain := IptablesAzureIngressFromChain,
          Specs := tSd ++
            jumpAndComment IptablesAzureTargetSetsChain
              ("ALLOW-ALL-TO-" ++ tC ++ "-TO-JUMP-TO-" ++ IptablesAzureTargetSetsChain) }]) := by
    simp [ingressFinish, LoopState.init, LoopState.append, LoopState.empty]
  rw [hent, List.filter_append, filter_eq_self_of_chain _ _ hdrops]
  rfl

/-- The entries as they are built, at the cidr `10.0.0.0/8` with the except
`10.1.0.0/16`, without policy types. -/
theorem ipBlock_rule_from_chain_witness :
    ∃ r, translatePolicy exampleUtil (exceptPolicy []) = some r ∧
      r.entries.filter (onChain IptablesAzureIngressFromChain) =
        [{ Chain := "AZURE-NPM-INGRESS-FROM",
           Specs := ["-s", "10.1.0.0/16",
                     "-m", "set", "--match-set", "azure-npm-app:web", "dst",
                     "-j", "DROP", "-m", "comment", "--comment",
                     "DROP-10.1.0.0/16-TO-app:web"] },
         { Chain := "AZURE-NPM-INGRESS-FROM",
           Specs := ["-m", "set", "--match-set", "azure-npm-app:web", "dst",
                     "-s", "10.0.0.0/8",
                     "-j", "ACCEPT", "-m", "comment", "--comment",
                     "ALLOW-10.0.0.0/8-TO-app:web"] },
         { Chain := "AZURE-NPM-INGRESS-FROM",
           Specs := ["-m", "set", "--match-set", "azure-npm-app:web", "dst",
                     "-j", "AZURE-NPM-TARGET-SETS", "-m", "comment", "--comment",
                     "ALLOW-ALL-TO-app:web-TO-JUMP-TO-AZURE-NPM-TARGET-SETS"] }] := by
  obtain ⟨tS, tC, h1, h2, h3⟩ :=
    ipBlock_rule_from_chain exampleUtil (exceptPolicy []) _
      (ipBlockPeer "10.0.0.0/8" ["10.1.0.0/16"]) _ _ rfl rfl rfl rfl (by decide) (by decide) rfl
  cases h1
  cases h2
  exact ⟨_, rfl, h3⟩

/-- The entries as they are built, for a policy whose ingress direction is not
translated: with `PolicyTypes = [Egress]` the policy of the witness returns no
entry on the Ingress-From chain. -/
theorem ipBlock_rule_not_translated :
    ∃ r, translatePolicy exampleUtil (exceptPolicy [PolicyTypeEgress]) = some r ∧
      r.entries.filter (onChain IptablesAzureIngressFromChain) = [] :=
  ⟨_, rfl, rfl⟩

/-! ## C17, the entries as they are built: a rule that allows all external traffic -/

/-- An egress rule without ports and with the explicit empty list of peers
(source lines 1039-1056). -/
theorem egressRule_allow_external (u : Util) (ns : String) (tS : List String) (tC : String)
    (rule : NetworkPolicyEgressRule) (hports : rule.Ports = []) (hto : rule.To = some []) :
    egressRule u ns tS tC LoopState.empty rule =
      some { LoopState.empty with
        entries :=
          [{ Chain := IptablesAzureEgressPortChain,
             Specs := tS ++ jumpAndComment IptablesAccept ("ALLOW-ALL-FROM-" ++ tC) }],
        addedPortEntry := true } := by
  simp [egressRule, hports, hto, LoopState.empty, List.foldlM]

/-- `DropEmptyFields` keeps something exactly when something is not empty. -/
theorem length_DropEmptyFields_pos (l : List String) :
    (DropEmptyFields l).length > 0 ↔ ∃ x ∈ l, x ≠ "" := by
  constructor
  · intro h
    obtain ⟨x, hx⟩ := List.exists_mem_of_length_pos h
    exact ⟨x, (mem_DropEmptyFields l x).1 hx⟩
  · rintro ⟨x, hx, hne⟩
    exact List.length_pos_of_mem ((mem_DropEmptyFields l x).2 ⟨hx, hne⟩)

/-- Of the entries as they are built.  For a policy that translates egress exactly once
(`PolicyTypes` is empty or lists `Egress` once) and whose egress rule list is a
single rule without ports and with the explicit empty list `to`: the returned
entries on the egress chains are exactly the ACCEPT entry on Egress-Port whose
only match is the target fragment (flag `src`), with the comment
`ALLOW-ALL-FROM-<target>`, followed by the jump from Egress-Port to TargetSets;
and the entry `DROP-ALL-FROM-<target>` is returned exactly when `PolicyTypes` is
empty and the target has a label.  With `PolicyTypes` listing `Egress` the rule
list is the degenerate form of source lines 1244-1248 and no `DROP-ALL-FROM`
entry is returned. -/
theorem allow_external_egress_entries (u : Util) (npObj : NetworkPolicy)
    (rule : NetworkPolicyEgressRule) (r : Translation)
    (hrules : npObj.Egress = [rule]) (hports : rule.Ports = []) (hto : rule.To = some [])
    (hcount : (translatedDirections npObj).count PolicyTypeEgress = 1)
    (h : translatePolicy u npObj = some r) :
    ∃ (tS : List String) (tC : String),
      craftPartialIptEntrySpecFromOpsAndLabels u npObj.Namespace
        (targetOpsAndLabels u npObj.Namespace npObj.PodSelector).1
        (targetOpsAndLabels u npObj.Namespace npObj.PodSelector).2 IptablesSrcFlag false
        = some tS ∧
      craftPartialIptablesCommentFromSelector u npObj.Namespace (some npObj.PodSelector) false
        = some tC ∧
      r.entries.filter onEgressChain =
        [{ Chain := IptablesAzureEgressPortChain,
           Specs := tS ++ jumpAndComment IptablesAccept ("ALLOW-ALL-FROM-" ++ tC) },
         { Chain := IptablesAzureEgressPortChain,
           Specs := tS ++
             jumpAndComment IptablesAzureTargetSetsChain
               ("ALLOW-ALL-FROM-" ++ tC ++ "-TO-JUMP-TO-" ++ IptablesAzureTargetSetsChain) }] ∧
      (dropAllFromEntry tS tC ∈ r.entries ↔
        npObj.PolicyTypes = [] ∧
          ∃ l ∈ (targetOpsAndLabels u npObj.Namespace npObj.PodSelector).2, l ≠ "") := by
  obtain ⟨t, st, tSd, tSs, tC, ht, h1, h2, h3, hfilter, hentries, hhas, hchain, -, -⟩ :=
    translatePolicy_egress_once u npObj r h hcount
  rw [translateEgress_of_target u _ _ _ tSs tC h2 h3, hrules, foldlM_singleton,
    egressRule_allow_external u _ tSs tC rule hports hto] at ht
  simp only [Option.map_some', Option.some.injEq] at ht
  subst ht
  refine ⟨tSs, tC, h2, h3, ?_, ?_⟩
  · rw [hfilter onEgressChain (fun e he => (onEgressChain_iff e).1 he)]
    rfl
  · have hdeg : egressDegenerate npObj = true := by
      simp [egressDegenerate, hrules, hports, hto]
    have hmem : dropAllFromEntry tSs tC ∈ r.entries ↔ st.hasEgress = true := by
      rw [hentries]
      constructor
      · intro hm
        cases hE : st.hasEgress with
        | true => rfl
        | false =>
          rw [hE] at hm
          exact absurd hm (dropAllFromEntry_not_mem st.entries tSd tC st.hasIngress hchain tSs tC)
      · intro hE
        rw [hE]
        simp
    rw [hmem, hhas]
    by_cases hpt : npObj.PolicyTypes = []
    · rw [if_pos hpt, decide_eq_true_eq, (egressFinish_sets _ _ _).1,
        length_DropEmptyFields_pos]
      simp [hpt, LoopState.init, LoopState.append, LoopState.empty]
    · rw [if_neg hpt, hdeg]
      simp [hpt]

/-- The entries as they are built, at the pods `app=web`, without policy types. -/
theorem allow_external_egress_entries_witness :
    ∃ r, translatePolicy exampleUtil (allowExternalPolicy []) = some r ∧
      r.entries.filter onEgressChain =
        [{ Chain := "AZURE-NPM-EGRESS-PORT",
           Specs := ["-m", "set", "--match-set", "azure-npm-app:web", "src",
                     "-j", "ACCEPT", "-m", "comment", "--comment", "ALLOW-ALL-FROM-app:web"] },
         { Chain := "AZURE-NPM-EGRESS-PORT",
           Specs := ["-m", "set", "--match-set", "azure-npm-app:web", "src",
                     "-j", "AZURE-NPM-TARGET-SETS", "-m", "comment", "--comment",
                     "ALLOW-ALL-FROM-app:web-TO-JUMP-TO-AZURE-NPM-TARGET-SETS"] }] ∧
      ({ Chain := "AZURE-NPM-TARGET-SETS",
         Specs := ["-m", "set", "--match-set", "azure-npm-app:web", "src",
                   "-j", "DROP", "-m", "comment", "--comment", "DROP-ALL-FROM-app:web"] }
        : IptEntry) ∈ r.entries := by
  obtain ⟨tS, tC, h1, h2, h3, h4⟩ :=
    allow_external_egress_entries exampleUtil (allowExternalPolicy []) _ _ rfl rfl rfl
      (by decide) rfl
  cases h1
  cases h2
  exact ⟨_, rfl, h3, h4.2 ⟨rfl, "app:web", by decide, by decide⟩⟩

/-- The entries as they are built, when the egress direction is enabled by
`PolicyTypes = [Egress]`: the single rule without ports and with `to: []` is
the degenerate form, `hasEgress` is false, and the two entries on Egress-Port
are all that is returned; there is no `DROP-ALL-FROM-<target>` entry. -/
theorem allow_external_without_default_drop :
    translatePolicy exampleUtil (allowExternalPolicy [PolicyTypeEgress]) =
      some { sets := ["app:web"], lists := [],
             entries :=
               [{ Chain := "AZURE-NPM-EGRESS-PORT",
                  Specs := ["-m", "set", "--match-set", "azure-npm-app:web", "src",
                            "-j", "ACCEPT", "-m", "comment", "--comment",
                            "ALLOW-ALL-FROM-app:web"] },
                { Chain := "AZURE-NPM-EGRESS-PORT",
                  Specs := ["-m", "set", "--match-set", "azure-npm-app:web", "src",
                            "-j", "AZURE-NPM-TARGET-SETS", "-m", "comment", "--comment",
                            "ALLOW-ALL-FROM-app:web-TO-JUMP-TO-AZURE-NPM-TARGET-SETS"] }] } :=
  rfl

/-! ## Properties of the tokens of every entry -/

set_option linter.unusedTactic false
set_option linter.unreachableTactic false

/-- A property of the entries that every step of an additive loop gives to
what it adds for the elements of the list holds of everything the loop adds. -/
theorem foldlM_additive_all_mem {α : Type} (f : LoopState → α → Option LoopState)
    (hf : ∀ s x, f s x = (f LoopState.empty x).map (LoopState.append s))
    (P : IptEntry → Prop) :
    ∀ (xs : List α), (∀ x ∈ xs, ∀ d, f LoopState.empty x = some d → d.All P) →
      ∀ d : LoopState, xs.foldlM f LoopState.empty = some d → d.All P := by
  intro xs
  induction xs with
  | nil =>
    intro _ d h
    simp only [List.foldlM_nil, Option.pure_def, Option.some.injEq] at h
    subst h
    simp [LoopState.All, LoopState.empty]
  | cons x xs ih =>
    intro hP d h
    simp only [List.foldlM_cons, Option.bind_eq_bind, Option.bind_eq_some] at h
    obtain ⟨d1, h1, h2⟩ := h
    rw [foldlM_additive f hf xs d1] at h2
    simp only [Option.map_eq_some'] at h2
    obtain ⟨d2, h2, rfl⟩ := h2
    exact LoopState.All_append P d1 d2 (hP x (List.mem_cons_self _ _) d1 h1)
      (ih (fun y hy => hP y (List.mem_cons_of_mem _ hy)) d2 h2)

/-- An entry assembled from match tokens, a target and a comment with the
three properties. -/
theorem entryOK_mk {A : List String → Prop} {B K : String → Prop} (chain : String)
    (m : List String) (T c : String) (hm : A m) (hT : B T) (hc : K c) :
    EntryOK A B K { Chain := chain, Specs := m ++ jumpAndComment T c } :=
  ⟨m, T, c, rfl, hm, hT, hc⟩

/-- Every entry an ingress peer adds is assembled from parts with the
properties. -/
theorem ingressPeer_ok {A : List String → Prop} {B K Kp : String → Prop}
    (hp : TokenProps A B K Kp) (u : Util) (ns : String) (tS : List String) (tC : String)
    (ports : List NetworkPolicyPort) (pre : Bool) (peer : NetworkPolicyPeer)
    (htS : A tS) (htC : Kp tC) (hports : ∀ port ∈ ports, PortOK A Kp port)
    (hpeer : PeerOK A Kp u ns IptablesSFlag IptablesSrcFlag peer) (d : LoopState)
    (h : ingressPeer u ns tS tC ports pre LoopState.empty peer = some d) :
    d.All (EntryOK A B K) := by
  obtain ⟨pod, nsSel, ip⟩ := peer
  cases ip with
  | some ipBlock =>
    obtain ⟨hcidr, hexcept⟩ := hpeer.1 ipBlock rfl
    simp only [ingressPeer, LoopState.empty] at h
    split at h <;> split at h <;> (try split at h) <;>
      simp only [Option.some.injEq] at h <;> subst h <;>
      simp only [LoopState.All, List.nil_append, List.forall_mem_append, List.forall_mem_map,
        List.forall_mem_singleton, List.not_mem_nil, implies_true, and_self, false_implies,
        true_and, and_true]
    all_goals (
      repeat' apply And.intro
      all_goals (
        try (intro j hj)
        apply entryOK_mk
        · repeat' (first | assumption | exact (hexcept _ hj).1 | exact (hports _ hj).1 |
            exact (hcidr (by assumption)).1 | apply hp.A_append)
        · first
          | exact hp.B_accept
          | exact hp.B_drop
          | exact hp.B_from
          | exact hp.B_to
          | exact hp.B_targetSets
        · repeat' (first | assumption | exact (hexcept _ hj).2 | exact (hports _ hj).2 |
            exact (hcidr (by assumption)).2 | exact hp.K_allow | exact hp.K_allowAll |
            exact hp.K_allowAllTo | exact hp.K_allowAllFrom | exact hp.K_drop |
            exact hp.K_dropAllTo | exact hp.K_dropAllFrom | exact hp.Kp_to |
            exact hp.Kp_from | exact hp.Kp_and | exact hp.Kp_colon | exact hp.Kp_jump |
            exact hp.Kp_allNamespaces | exact hp.Kp_ingressFrom | exact hp.Kp_egressTo |
            exact hp.Kp_targetSets | apply hp.K_append)))
  | none =>
    have hexcept : ∀ x ∈ ([] : List String), A [IptablesSFlag, x] ∧ Kp x := by
      intro x hx
      cases hx
    have hcidr : False → A [] ∧ Kp "" := False.elim
    cases pod with
    | none =>
      cases nsSel with
      | none =>
        simp only [ingressPeer, LoopState.empty, Option.some.injEq] at h
        subst h
        simp only [LoopState.All, List.not_mem_nil, false_implies, implies_true, and_self]
      | some nsSel =>
        simp only [ingressPeer, LoopState.empty, Option.bind_eq_bind, Option.bind_eq_some,
          Option.pure_def] at h
        obtain ⟨a, ha, b, hb, h⟩ := h
        have hnsA := (hpeer.2.2 nsSel rfl).1 a ha
        have hnsK := (hpeer.2.2 nsSel rfl).2 b hb
        split at h <;>
          simp only [Option.some.injEq] at h <;> subst h <;>
          simp only [LoopState.All, List.nil_append, List.forall_mem_append, List.forall_mem_map,
        List.forall_mem_singleton, List.not_mem_nil, implies_true, and_self, false_implies,
        true_and, and_true]
        all_goals (
      repeat' apply And.intro
      all_goals (
        try (intro j hj)
        apply entryOK_mk
        · repeat' (first | assumption | exact (hexcept _ hj).1 | exact (hports _ hj).1 |
            exact (hcidr (by assumption)).1 | apply hp.A_append)
        · first
          | exact hp.B_accept
          | exact hp.B_drop
          | exact hp.B_from
          | exact hp.B_to
          | exact hp.B_targetSets
        · repeat' (first | assumption | exact (hexcept _ hj).2 | exact (hports _ hj).2 |
            exact (hcidr (by assumption)).2 | exact hp.K_allow | exact hp.K_allowAll |
            exact hp.K_allowAllTo | exact hp.K_allowAllFrom | exact hp.K_drop |
            exact hp.K_dropAllTo | exact hp.K_dropAllFrom | exact hp.Kp_to |
            exact hp.Kp_from | exact hp.Kp_and | exact hp.Kp_colon | exact hp.Kp_jump |
            exact hp.Kp_allNamespaces | exact hp.Kp_ingressFrom | exact hp.Kp_egressTo |
            exact hp.Kp_targetSets | apply hp.K_append)))
    | some podSel =>
      cases nsSel with
      | none =>
        simp only [ingressPeer, LoopState.empty, Option.bind_eq_bind, Option.bind_eq_some,
          Option.pure_def] at h
        obtain ⟨a, ha, b, hb, h⟩ := h
        have hpodA := (hpeer.2.1 podSel rfl).1 a ha
        have hpodK := (hpeer.2.1 podSel rfl).2 b hb
        split at h <;>
          simp only [Option.some.injEq] at h <;> subst h <;>
          simp only [LoopState.All, List.nil_append, List.forall_mem_append, List.forall_mem_map,
        List.forall_mem_singleton, List.not_mem_nil, implies_true, and_self, false_implies,
        true_and, and_true]
        all_goals (
      repeat' apply And.intro
      all_goals (
        try (intro j hj)
        apply entryOK_mk
        · repeat' (first | assumption | exact (hexcept _ hj).1 | exact (hports _ hj).1 |
            exact (hcidr (by assumption)).1 | apply hp.A_append)
        · first
          | exact hp.B_accept
          | exact hp.B_drop
          | exact hp.B_from
          | exact hp.B_to
          | exact hp.B_targetSets
        · repeat' (first | assumption | exact (hexcept _ hj).2 | exact (hports _ hj).2 |
            exact (hcidr (by assumption)).2 | exact hp.K_allow | exact hp.K_allowAll |
            exact hp.K_allowAllTo | exact hp.K_allowAllFrom | exact hp.K_drop |
            exact hp.K_dropAllTo | exact hp.K_dropAllFrom | exact hp.Kp_to |
            exact hp.Kp_from | exact hp.Kp_and | exact hp.Kp_colon | exact hp.Kp_jump |
            exact hp.Kp_allNamespaces | exact hp.Kp_ingressFrom | exact hp.Kp_egressTo |
            exact hp.Kp_targetSets | apply hp.K_append)))
      | some nsSel =>
        simp only [ingressPeer, LoopState.empty, Option.bind_eq_bind, Option.pure_def] at h
        split at h
        · simp only [Option.some.injEq] at h
          subst h
          simp only [LoopState.All, List.not_mem_nil, false_implies, implies_true, and_self]
        · simp only [Option.bind_eq_some] at h
          obtain ⟨a, ha, a2, ha2, b, hb, b2, hb2, h⟩ := h
          have hnsA := (hpeer.2.2 nsSel rfl).1 a ha
          have hpodA := (hpeer.2.1 podSel rfl).1 a2 ha2
          have hnsK := (hpeer.2.2 nsSel rfl).2 b hb
          have hpodK := (hpeer.2.1 podSel rfl).2 b2 hb2
          split at h <;>
            simp only [Option.some.injEq] at h <;> subst h <;>
            simp only [LoopState.All, List.nil_append, List.forall_mem_append, List.forall_mem_map,
        List.forall_mem_singleton, List.not_mem_nil, implies_true, and_self, false_implies,
        true_and, and_true]
          all_goals (
      repeat' apply And.intro
      all_goals (
        try (intro j hj)
        apply entryOK_mk
        · repeat' (first | assumption | exact (hexcept _ hj).1 | exact (hports _ hj).1 |
            exact (hcidr (by assumption)).1 | apply hp.A_append)
        · first
          | exact hp.B_accept
          | exact hp.B_drop
          | exact hp.B_from
          | exact hp.B_to
          | exact hp.B_targetSets
        · repeat' (first | assumption | exact (hexcept _ hj).2 | exact (hports _ hj).2 |
            exact (hcidr (by assumption)).2 | exact hp.K_allow | exact hp.K_allowAll |
            exact hp.K_allowAllTo | exact hp.K_allowAllFrom | exact hp.K_drop |
            exact hp.K_dropAllTo | exact hp.K_dropAllFrom | exact hp.Kp_to |
            exact hp.Kp_from | exact hp.Kp_and | exact hp.Kp_colon | exact hp.Kp_jump |
            exact hp.Kp_allNamespaces | exact hp.Kp_ingressFrom | exact hp.Kp_egressTo |
            exact hp.Kp_targetSets | apply hp.K_append)))

/-- Every entry an egress peer adds is assembled from parts with the
properties. -/
theorem egressPeer_ok {A : List String → Prop} {B K Kp : String → Prop}
    (hp : TokenProps A B K Kp) (u : Util) (ns : String) (tS : List String) (tC : String)
    (ports : List NetworkPolicyPort) (pre : Bool) (peer : NetworkPolicyPeer)
    (htS : A tS) (htC : Kp tC) (hports : ∀ port ∈ ports, PortOK A Kp port)
    (hpeer : PeerOK A Kp u ns IptablesDFlag IptablesDstFlag peer) (d : LoopState)
    (h : egressPeer u ns tS tC ports pre LoopState.empty peer = some d) :
    d.All (EntryOK A B K) := by
  obtain ⟨pod, nsSel, ip⟩ := peer
  cases ip with
  | some ipBlock =>
    obtain ⟨hcidr, hexcept⟩ := hpeer.1 ipBlock rfl
    simp only [egressPeer, LoopState.empty] at h
    split at h <;> split at h <;> (try split at h) <;>
      simp only [Option.some.injEq] at h <;> subst h <;>
      simp only [LoopState.All, List.nil_append, List.forall_mem_append, List.forall_mem_map,
        List.forall_mem_singleton, List.not_mem_nil, implies_true, and_self, false_implies,
        true_and, and_true]
    all_goals (
      repeat' apply And.intro
      all_goals (
        try (intro j hj)
        apply entryOK_mk
        · repeat' (first | assumption | exact (hexcept _ hj).1 | exact (hports _ hj).1 |
            exact (hcidr (by assumption)).1 | apply hp.A_append)
        · first
          | exact hp.B_accept
          | exact hp.B_drop
          | exact hp.B_from
          | exact hp.B_to
          | exact hp.B_targetSets
        · repeat' (first | assumption | exact (hexcept _ hj).2 | exact (hports _ hj).2 |
            exact (hcidr (by assumption)).2 | exact hp.K_allow | exact hp.K_allowAll |
            exact hp.K_allowAllTo | exact hp.K_allowAllFrom | exact hp.K_drop |
            exact hp.K_dropAllTo | exact hp.K_dropAllFrom | exact hp.Kp_to |
            exact hp.Kp_from | exact hp.Kp_and | exact hp.Kp_colon | exact hp.Kp_jump |
            exact hp.Kp_allNamespaces | exact hp.Kp_ingressFrom | exact hp.Kp_egressTo |
            exact hp.Kp_targetSets | apply hp.K_append)))
  | none =>
    have hexcept : ∀ x ∈ ([] : List String), A [IptablesDFlag, x] ∧ Kp x := by
      intro x hx
      cases hx
    have hcidr : False → A [] ∧ Kp "" := False.elim
    cases pod with
    | none =>
      cases nsSel with
      | none =>
        simp only [egressPeer, LoopState.empty, Option.some.injEq] at h
        subst h
        simp only [LoopState.All, List.not_mem_nil, false_implies, implies_true, and_self]
      | some nsSel =>
        simp only [egressPeer, LoopState.empty, Option.bind_eq_bind, Option.bind_eq_some,
          Option.pure_def] at h
        obtain ⟨a, ha, b, hb, h⟩ := h
        have hnsA := (hpeer.2.2 nsSel rfl).1 a ha
        have hnsK := (hpeer.2.2 nsSel rfl).2 b hb
        split at h <;>
          simp only [Option.some.injEq] at h <;> subst h <;>
          simp only [LoopState.All, List.nil_append, List.forall_mem_append, List.forall_mem_map,
        List.forall_mem_singleton, List.not_mem_nil, implies_true, and_self, false_implies,
        true_and, and_true]
        all_goals (
      repeat' apply And.intro
      all_goals (
        try (intro j hj)
        apply entryOK_mk
        · repeat' (first | assumption | exact (hexcept _ hj).1 | exact (hports _ hj).1 |
            exact (hcidr (by assumption)).1 | apply hp.A_append)
        · first
          | exact hp.B_accept
          | exact hp.B_drop
          | exact hp.B_from
          | exact hp.B_to
          | exact hp.B_targetSets
        · repeat' (first | assumption | exact (hexcept _ hj).2 | exact (hports _ hj).2 |
            exact (hcidr (by assumption)).2 | exact hp.K_allow | exact hp.K_allowAll |
            exact hp.K_allowAllTo | exact hp.K_allowAllFrom | exact hp.K_drop |
            exact hp.K_dropAllTo | exact hp.K_dropAllFrom | exact hp.Kp_to |
            exact hp.Kp_from | exact hp.Kp_and | exact hp.Kp_colon | exact hp.Kp_jump |
            exact hp.Kp_allNamespaces | exact hp.Kp_ingressFrom | exact hp.Kp_egressTo |
            exact hp.Kp_targetSets | apply hp.K_append)))
    | some podSel =>
      cases nsSel with
      | none =>
        simp only [egressPeer, LoopState.empty, Option.bind_eq_bind, Option.bind_eq_some,
          Option.pure_def] at h
        obtain ⟨a, ha, b, hb, h⟩ := h
        have hpodA := (hpeer.2.1 podSel rfl).1 a ha
        have hpodK := (hpeer.2.1 podSel rfl).2 b hb
        split at h <;>
          simp only [Option.some.injEq] at h <;> subst h <;>
          simp only [LoopState.All, List.nil_append, List.forall_mem_append, List.forall_mem_map,
        List.forall_mem_singleton, List.not_mem_nil, implies_true, and_self, false_implies,
        true_and, and_true]
        all_goals (
      repeat' apply And.intro
      all_goals (
        try (intro j hj)
        apply entryOK_mk
        · repeat' (first | assumption | exact (hexcept _ hj).1 | exact (hports _ hj).1 |
            exact (hcidr (by assumption)).1 | apply hp.A_append)
        · first
          | exact hp.B_accept
          | exact hp.B_drop
          | exact hp.B_from
          | exact hp.B_to
          | exact hp.B_targetSets
        · repeat' (first | assumption | exact (hexcept _ hj).2 | exact (hports _ hj).2 |
            exact (hcidr (by assumption)).2 | exact hp.K_allow | exact hp.K_allowAll |
            exact hp.K_allowAllTo | exact hp.K_allowAllFrom | exact hp.K_drop |
            exact hp.K_dropAllTo | exact hp.K_dropAllFrom | exact hp.Kp_to |
            exact hp.Kp_from | exact hp.Kp_and | exact hp.Kp_colon | exact hp.Kp_jump |
            exact hp.Kp_allNamespaces | exact hp.Kp_ingressFrom | exact hp.Kp_egressTo |
            exact hp.Kp_targetSets | apply hp.K_append)))
      | some nsSel =>
        simp only [egressPeer, LoopState.empty, Option.bind_eq_bind, Option.pure_def] at h
        split at h
        · simp only [Option.some.injEq] at h
          subst h
          simp only [LoopState.All, List.not_mem_nil, false_implies, implies_true, and_self]
        · simp only [Option.bind_eq_some] at h
          obtain ⟨a, ha, a2, ha2, b, hb, b2, hb2, h⟩ := h
          have hnsA := (hpeer.2.2 nsSel rfl).1 a ha
          have hpodA := (hpeer.2.1 podSel rfl).1 a2 ha2
          have hnsK := (hpeer.2.2 nsSel rfl).2 b hb
          have hpodK := (hpeer.2.1 podSel rfl).2 b2 hb2
          split at h <;>
            simp only [Option.some.injEq] at h <;> subst h <;>
            simp only [LoopState.All, List.nil_append, List.forall_mem_append, List.forall_mem_map,
        List.forall_mem_singleton, List.not_mem_nil, implies_true, and_self, false_implies,
        true_and, and_true]
          all_goals (
      repeat' apply And.intro
      all_goals (
        try (intro j hj)
        apply entryOK_mk
        · repeat' (first | assumption | exact (hexcept _ hj).1 | exact (hports _ hj).1 |
            exact (hcidr (by assumption)).1 | apply hp.A_append)
        · first
          | exact hp.B_accept
          | exact hp.B_drop
          | exact hp.B_from
          | exact hp.B_to
          | exact hp.B_targetSets
        · repeat' (first | assumption | exact (hexcept _ hj).2 | exact (hports _ hj).2 |
            exact (hcidr (by assumption)).2 | exact hp.K_allow | exact hp.K_allowAll |
            exact hp.K_allowAllTo | exact hp.K_allowAllFrom | exact hp.K_drop |
            exact hp.K_dropAllTo | exact hp.K_dropAllFrom | exact hp.Kp_to |
            exact hp.Kp_from | exact hp.Kp_and | exact hp.Kp_colon | exact hp.Kp_jump |
            exact hp.Kp_allNamespaces | exact hp.Kp_ingressFrom | exact hp.Kp_egressTo |
            exact hp.Kp_targetSets | apply hp.K_append)))

/-- Every entry an ingress rule adds is assembled from parts with the
properties. -/
theorem ingressRule_ok {A : List String → Prop} {B K Kp : String → Prop}
    (hp : TokenProps A B K Kp) (u : Util) (ns : String) (tS : List String) (tC : String)
    (rule : NetworkPolicyIngressRule) (htS : A tS) (htC : Kp tC)
    (hall : A [IptablesModuleFlag, IptablesSetModuleFlag, IptablesMatchSetFlag,
      GetHashedName u KubeAllNamespacesFlag, IptablesSrcFlag])
    (hrule : IngressRuleOK A Kp u ns rule) (d : LoopState)
    (h : ingressRule u ns tS tC LoopState.empty rule = some d) :
    d.All (EntryOK A B K) := by
  obtain ⟨hports, hpeers⟩ := hrule
  have hexcept : ∀ x ∈ ([] : List String), A [IptablesSFlag, x] ∧ Kp x := by
    intro x hx
    cases hx
  have hcidr : False → A [] ∧ Kp "" := False.elim
  simp only [ingressRule] at h
  split at h
  · simp only [Option.some.injEq] at h
    subst h
    simp only [LoopState.empty, LoopState.All, List.nil_append, List.forall_mem_singleton,
      List.not_mem_nil, implies_true, and_self, false_implies, and_true, true_and]
    exact ⟨_, _, _, rfl,
      hp.A_append _ _ hall htS, hp.B_accept,
      hp.K_append _ _ (hp.K_append _ _ (hp.K_append _ _
        hp.K_allowAllTo htC)
        hp.Kp_from) hp.Kp_allNamespaces⟩
  · split at h
    · simp only [Option.some.injEq] at h
      subst h
      simp only [LoopState.empty, LoopState.All, List.nil_append, List.forall_mem_map,
        List.not_mem_nil, implies_true, and_self, false_implies, and_true, true_and]
      (
      repeat' apply And.intro
      all_goals (
        try (intro j hj)
        apply entryOK_mk
        · repeat' (first | assumption | exact (hexcept _ hj).1 | exact (hports _ hj).1 |
            exact (hcidr (by assumption)).1 | apply hp.A_append)
        · first
          | exact hp.B_accept
          | exact hp.B_drop
          | exact hp.B_from
          | exact hp.B_to
          | exact hp.B_targetSets
        · repeat' (first | assumption | exact (hexcept _ hj).2 | exact (hports _ hj).2 |
            exact (hcidr (by assumption)).2 | exact hp.K_allow | exact hp.K_allowAll |
            exact hp.K_allowAllTo | exact hp.K_allowAllFrom | exact hp.K_drop |
            exact hp.K_dropAllTo | exact hp.K_dropAllFrom | exact hp.Kp_to |
            exact hp.Kp_from | exact hp.Kp_and | exact hp.Kp_colon | exact hp.Kp_jump |
            exact hp.Kp_allNamespaces | exact hp.Kp_ingressFrom | exact hp.Kp_egressTo |
            exact hp.Kp_targetSets | apply hp.K_append)))
    · simp only [Option.bind_eq_bind, Option.bind_eq_some] at h
      obtain ⟨d1, h1, h⟩ := h
      rw [foldlM_additive _ (ingressPeer_append u ns tS tC rule.Ports _)] at h1
      simp only [Option.map_eq_some'] at h1
      obtain ⟨d2, h2, rfl⟩ := h1
      have hd2 := foldlM_additive_all_mem _ (ingressPeer_append u ns tS tC rule.Ports _)
        (EntryOK A B K) (rule.From.getD [])
        (fun x hx d hd => ingressPeer_ok hp u ns tS tC rule.Ports _ x htS htC hports
          (hpeers x hx) d hd) d2 h2
      have hext : EntryOK A B K
          { Chain := IptablesAzureIngressPortChain,
            Specs := tS ++ jumpAndComment IptablesAccept
              ("ALLOW-ALL-TO-" ++ tC) } :=
        entryOK_mk _ _ _ _ htS hp.B_accept
          (hp.K_append _ _ hp.K_allowAllTo htC)
      split at h <;>
        simp only [Option.some.injEq] at h <;> subst h <;>
        simp only [LoopState.All, LoopState.append, LoopState.empty, List.nil_append,
          List.forall_mem_append, List.forall_mem_singleton] <;>
        first
        | exact ⟨⟨hd2.1, hext⟩, hd2.2⟩
        | exact hd2

/-- Every entry an egress rule adds is assembled from parts with the
properties. -/
theorem egressRule_ok {A : List String → Prop} {B K Kp : String → Prop}
    (hp : TokenProps A B K Kp) (u : Util) (ns : String) (tS : List String) (tC : String)
    (rule : NetworkPolicyEgressRule) (htS : A tS) (htC : Kp tC)
    (hall : A [IptablesModuleFlag, IptablesSetModuleFlag, IptablesMatchSetFlag,
      GetHashedName u KubeAllNamespacesFlag, IptablesDstFlag])
    (hrule : EgressRuleOK A Kp u ns rule) (d : LoopState)
    (h : egressRule u ns tS tC LoopState.empty rule = some d) :
    d.All (EntryOK A B K) := by
  obtain ⟨hports, hpeers⟩ := hrule
  have hexcept : ∀ x ∈ ([] : List String), A [IptablesDFlag, x] ∧ Kp x := by
    intro x hx
    cases hx
  have hcidr : False → A [] ∧ Kp "" := False.elim
  simp only [egressRule] at h
  split at h
  · simp only [Option.some.injEq] at h
    subst h
    simp only [LoopState.empty, LoopState.All, List.nil_append, List.forall_mem_singleton,
      List.not_mem_nil, implies_true, and_self, false_implies, and_true, true_and]
    exact ⟨_, _, _, (List.append_assoc _ _ _).symm,
      hp.A_append _ _ htS hall, hp.B_accept,
      hp.K_append _ _ (hp.K_append _ _ (hp.K_append _ _
        hp.K_allowAllFrom htC)
        hp.Kp_to) hp.Kp_allNamespaces⟩
  · split at h
    · simp only [Option.some.injEq] at h
      subst h
      simp only [LoopState.empty, LoopState.All, List.nil_append, List.forall_mem_map,
        List.not_mem_nil, implies_true, and_self, false_implies, and_true, true_and]
      (
      repeat' apply And.intro
      all_goals (
        try (intro j hj)
        apply entryOK_mk
        · repeat' (first | assumption | exact (hexcept _ hj).1 | exact (hports _ hj).1 |
            exact (hcidr (by assumption)).1 | apply hp.A_append)
        · first
          | exact hp.B_accept
          | exact hp.B_drop
          | exact hp.B_from
          | exact hp.B_to
          | exact hp.B_targetSets
        · repeat' (first | assumption | exact (hexcept _ hj).2 | exact (hports _ hj).2 |
            exact (hcidr (by assumption)).2 | exact hp.K_allow | exact hp.K_allowAll |
            exact hp.K_allowAllTo | exact hp.K_allowAllFrom | exact hp.K_drop |
            exact hp.K_dropAllTo | exact hp.K_dropAllFrom | exact hp.Kp_to |
            exact hp.Kp_from | exact hp.Kp_and | exact hp.Kp_colon | exact hp.Kp_jump |
            exact hp.Kp_allNamespaces | exact hp.Kp_ingressFrom | exact hp.Kp_egressTo |
            exact hp.Kp_targetSets | apply hp.K_append)))
    · simp only [Option.bind_eq_bind, Option.bind_eq_some] at h
      obtain ⟨d1, h1, h⟩ := h
      rw [foldlM_additive _ (egressPeer_append u ns tS tC rule.Ports _)] at h1
      simp only [Option.map_eq_some'] at h1
      obtain ⟨d2, h2, rfl⟩ := h1
      have hd2 := foldlM_additive_all_mem _ (egressPeer_append u ns tS tC rule.Ports _)
        (EntryOK A B K) (rule.To.getD [])
        (fun x hx d hd => egressPeer_ok hp u ns tS tC rule.Ports _ x htS htC hports
          (hpeers x hx) d hd) d2 h2
      have hext : EntryOK A B K
          { Chain := IptablesAzureEgressPortChain,
            Specs := tS ++ jumpAndComment IptablesAccept
              ("ALLOW-ALL-FROM-" ++ tC) } :=
        entryOK_mk _ _ _ _ htS hp.B_accept
          (hp.K_append _ _ hp.K_allowAllFrom htC)
      split at h <;>
        simp only [Option.some.injEq] at h <;> subst h <;>
        simp only [LoopState.All, LoopState.append, LoopState.empty, List.nil_append,
          List.forall_mem_append, List.forall_mem_singleton] <;>
        first
        | exact ⟨⟨hd2.1, hext⟩, hd2.2⟩
        | exact hd2

/-- Every entry `translateIngress` returns is assembled from parts with the
properties. -/
theorem translateIngress_ok {A : List String → Prop} {B K Kp : String → Prop}
    (hp : TokenProps A B K Kp) (u : Util) (npObj : NetworkPolicy)
    (hok : PolicyOK A Kp u npObj) (r : Translation)
    (h : translateIngress u npObj.Namespace npObj.PodSelector npObj.Ingress = some r) :
    ∀ e ∈ r.entries, EntryOK A B K e := by
  obtain ⟨htarget, hcomment, hall, hingress, hegress⟩ := hok
  rw [translateIngress_eq_some] at h
  obtain ⟨tS, tC, d, h1, h2, hd, rfl⟩ := h
  have htS : A tS := htarget IptablesDstFlag tS (Or.inl rfl) h1
  have htC : Kp tC := hcomment tC h2
  have hd' := foldlM_additive_all_mem _ (ingressRule_append u npObj.Namespace tS tC)
    (EntryOK A B K) npObj.Ingress
    (fun x hx d hd => ingressRule_ok hp u npObj.Namespace tS tC x htS htC
      (hall IptablesSrcFlag (Or.inr rfl)) (hingress x hx) d hd) d hd
  have hjumpTS : EntryOK A B K
      { Chain := IptablesAzureIngressPortChain,
        Specs := tS ++ jumpAndComment IptablesAzureTargetSetsChain
          ("ALLOW-ALL-TO-" ++ tC ++ "-TO-JUMP-TO-" ++ IptablesAzureTargetSetsChain) } :=
    entryOK_mk _ _ _ _ htS hp.B_targetSets
      (hp.K_append _ _ (hp.K_append _ _ (hp.K_append _ _ hp.K_allowAllTo htC) hp.Kp_jump)
        hp.Kp_targetSets)
  have hjumpPeer : EntryOK A B K
      { Chain := IptablesAzureIngressPortChain,
        Specs := tS ++ jumpAndComment IptablesAzureIngressFromChain
          ("ALLOW-ALL-TO-" ++ tC ++ "-TO-JUMP-TO-" ++ IptablesAzureIngressFromChain) } :=
    entryOK_mk _ _ _ _ htS hp.B_from
      (hp.K_append _ _ (hp.K_append _ _ (hp.K_append _ _ hp.K_allowAllTo htC) hp.Kp_jump)
        hp.Kp_ingressFrom)
  have hjumpLast : EntryOK A B K
      { Chain := IptablesAzureIngressFromChain,
        Specs := tS ++ jumpAndComment IptablesAzureTargetSetsChain
          ("ALLOW-ALL-TO-" ++ tC ++ "-TO-JUMP-TO-" ++ IptablesAzureTargetSetsChain) } :=
    entryOK_mk _ _ _ _ htS hp.B_targetSets
      (hp.K_append _ _ (hp.K_append _ _ (hp.K_append _ _ hp.K_allowAllTo htC) hp.Kp_jump)
        hp.Kp_targetSets)
  simp only [ingressFinish, LoopState.init, LoopState.append, List.nil_append]
  split
  · simp only [List.forall_mem_append, List.forall_mem_singleton]
    exact ⟨⟨hd'.1, hd'.2⟩, hjumpTS⟩
  · split
    · simp only [List.forall_mem_append, List.forall_mem_cons, List.not_mem_nil,
        false_implies, implies_true, and_true]
      exact ⟨⟨hd'.1, hd'.2⟩, hjumpPeer, hjumpLast⟩
    · simp only [List.forall_mem_append]
      exact ⟨hd'.1, hd'.2⟩

/-- Every entry `translateEgress` returns is assembled from parts with the
properties. -/
theorem translateEgress_ok {A : List String → Prop} {B K Kp : String → Prop}
    (hp : TokenProps A B K Kp) (u : Util) (npObj : NetworkPolicy)
    (hok : PolicyOK A Kp u npObj) (r : Translation)
    (h : translateEgress u npObj.Namespace npObj.PodSelector npObj.Egress = some r) :
    ∀ e ∈ r.entries, EntryOK A B K e := by
  obtain ⟨htarget, hcomment, hall, hingress, hegress⟩ := hok
  rw [translateEgress_eq_some] at h
  obtain ⟨tS, tC, d, h1, h2, hd, rfl⟩ := h
  have htS : A tS := htarget IptablesSrcFlag tS (Or.inr rfl) h1
  have htC : Kp tC := hcomment tC h2
  have hd' := foldlM_additive_all_mem _ (egressRule_append u npObj.Namespace tS tC)
    (EntryOK A B K) npObj.Egress
    (fun x hx d hd => egressRule_ok hp u npObj.Namespace tS tC x htS htC
      (hall IptablesDstFlag (Or.inl rfl)) (hegress x hx) d hd) d hd
  have hjumpTS : EntryOK A B K
      { Chain := IptablesAzureEgressPortChain,
        Specs := tS ++ jumpAndComment IptablesAzureTargetSetsChain
          ("ALLOW-ALL-FROM-" ++ tC ++ "-TO-JUMP-TO-" ++ IptablesAzureTargetSetsChain) } :=
    entryOK_mk _ _ _ _ htS hp.B_targetSets
      (hp.K_append _ _ (hp.K_append _ _ (hp.K_append _ _ hp.K_allowAllFrom htC) hp.Kp_jump)
        hp.Kp_targetSets)
  have hjumpPeer : EntryOK A B K
      { Chain := IptablesAzureEgressPortChain,
        Specs := tS ++ jumpAndComment IptablesAzureEgressToChain
          ("ALLOW-ALL-FROM-" ++ tC ++ "-TO-JUMP-TO-" ++ IptablesAzureEgressToChain) } :=
    entryOK_mk _ _ _ _ htS hp.B_to
      (hp.K_append _ _ (hp.K_append _ _ (hp.K_append _ _ hp.K_allowAllFrom htC) hp.Kp_jump)
        hp.Kp_egressTo)
  have hjumpLast : EntryOK A B K
      { Chain := IptablesAzureEgressToChain,
        Specs := tS ++ jumpAndComment IptablesAzureTargetSetsChain
          ("ALLOW-ALL-FROM-" ++ tC ++ "-TO-JUMP-TO-" ++ IptablesAzureTargetSetsChain) } :=
    entryOK_mk _ _ _ _ htS hp.B_targetSets
      (hp.K_append _ _ (hp.K_append _ _ (hp.K_append _ _ hp.K_allowAllFrom htC) hp.Kp_jump)
        hp.Kp_targetSets)
  simp only [egressFinish, LoopState.init, LoopState.append, List.nil_append]
  split
  · simp only [List.forall_mem_append, List.forall_mem_singleton]
    exact ⟨⟨hd'.1, hd'.2⟩, hjumpTS⟩
  · split
    · simp only [List.forall_mem_append, List.forall_mem_cons, List.not_mem_nil,
        false_implies, implies_true, and_true]
      exact ⟨⟨hd'.1, hd'.2⟩, hjumpPeer, hjumpLast⟩
    · simp only [List.forall_mem_append]
      exact ⟨hd'.1, hd'.2⟩

/-- Every entry `translatePolicy` returns is match tokens with `A`, then `-j T`
with `B T`, then `-m comment --comment c` with `K c`, whenever everything the
policy contributes has `A` and `Kp`. -/
theorem translatePolicy_ok {A : List String → Prop} {B K Kp : String → Prop}
    (hp : TokenProps A B K Kp) (u : Util) (npObj : NetworkPolicy)
    (hok : PolicyOK A Kp u npObj) (r : Translation)
    (h : translatePolicy u npObj = some r) :
    ∀ e ∈ r.entries, EntryOK A B K e := by
  obtain ⟨st, tSd, tSs, tC, hst, h1, h2, h3, hentries, -, -, -⟩ :=
    translatePolicy_entries u npObj r h
  obtain ⟨ts, hts, -, -, he⟩ := translatePolicyDirections_spec u npObj st hst
  have htSd : A tSd := hok.1 IptablesDstFlag tSd (Or.inl rfl) h1
  have htSs : A tSs := hok.1 IptablesSrcFlag tSs (Or.inr rfl) h2
  have htC : Kp tC := hok.2.1 tC h3
  intro e hmem
  rw [hentries, List.mem_append, List.mem_append] at hmem
  rcases hmem with hmem | hmem | hmem
  · rw [he] at hmem
    simp only [List.mem_flatten, List.mem_map] at hmem
    obtain ⟨l, ⟨t, ht, rfl⟩, hel⟩ := hmem
    obtain ⟨dir, -, hdir⟩ := forall₂_right_mem hts t ht
    unfold translateDirection at hdir
    split at hdir
    · exact translateIngress_ok hp u npObj hok t hdir e hel
    · exact translateEgress_ok hp u npObj hok t hdir e hel
  · split at hmem
    · rw [List.mem_singleton] at hmem
      subst hmem
      exact entryOK_mk _ _ _ _ htSd hp.B_drop (hp.K_append _ _ hp.K_dropAllTo htC)
    · cases hmem
  · split at hmem
    · rw [List.mem_singleton] at hmem
      subst hmem
      exact entryOK_mk _ _ _ _ htSs hp.B_drop (hp.K_append _ _ hp.K_dropAllFrom htC)
    · cases hmem

set_option linter.unusedTactic true
set_option linter.unreachableTactic true

/-! ## The input strings and the selectors of a policy -/

/-- The strings of a port of an ingress rule are input strings. -/
theorem mem_inputStrings_ingress_port (npObj : NetworkPolicy) (rule : NetworkPolicyIngressRule)
    (port : NetworkPolicyPort) (s : String) (hr : rule ∈ npObj.Ingress)
    (hport : port ∈ rule.Ports) (hs : s ∈ portStrings port) : s ∈ inputStrings npObj := by
  simp only [inputStrings, List.mem_append, List.mem_flatMap]
  exact Or.inl ⟨rule, hr, Or.inl ⟨port, hport, hs⟩⟩

/-- The strings of a peer of an ingress rule are input strings. -/
theorem mem_inputStrings_ingress_peer (npObj : NetworkPolicy) (rule : NetworkPolicyIngressRule)
    (peer : NetworkPolicyPeer) (s : String) (hr : rule ∈ npObj.Ingress)
    (hpeer : peer ∈ rule.From.getD []) (hs : s ∈ peerStrings peer) : s ∈ inputStrings npObj := by
  simp only [inputStrings, List.mem_append, List.mem_flatMap]
  exact Or.inl ⟨rule, hr, Or.inr ⟨peer, hpeer, hs⟩⟩

/-- The strings of a port of an egress rule are input strings. -/
theorem mem_inputStrings_egress_port (npObj : NetworkPolicy) (rule : NetworkPolicyEgressRule)
    (port : NetworkPolicyPort) (s : String) (hr : rule ∈ npObj.Egress)
    (hport : port ∈ rule.Ports) (hs : s ∈ portStrings port) : s ∈ inputStrings npObj := by
  simp only [inputStrings, List.mem_append, List.mem_flatMap]
  exact Or.inr ⟨rule, hr, Or.inl ⟨port, hport, hs⟩⟩

/-- The strings of a peer of an egress rule are input strings. -/
theorem mem_inputStrings_egress_peer (npObj : NetworkPolicy) (rule : NetworkPolicyEgressRule)
    (peer : NetworkPolicyPeer) (s : String) (hr : rule ∈ npObj.Egress)
    (hpeer : peer ∈ rule.To.getD []) (hs : s ∈ peerStrings peer) : s ∈ inputStrings npObj := by
  simp only [inputStrings, List.mem_append, List.mem_flatMap]
  exact Or.inr ⟨rule, hr, Or.inr ⟨peer, hpeer, hs⟩⟩

/-- The cidr of a peer, when it is not empty, is one of its strings. -/
theorem mem_peerStrings_cidr (peer : NetworkPolicyPeer) (block : IPBlock)
    (hb : peer.IPBlock = some block) (hc : block.CIDR ≠ "") : block.CIDR ∈ peerStrings peer := by
  simp [peerStrings, hb, hc]

/-- An except CIDR of a peer is one of its strings. -/
theorem mem_peerStrings_except (peer : NetworkPolicyPeer) (block : IPBlock)
    (hb : peer.IPBlock = some block) (x : String) (hx : x ∈ block.Except) :
    x ∈ peerStrings peer := by
  simp [peerStrings, hb, hx]

/-- A selector of a peer of an ingress rule is a selector of the policy. -/
theorem mem_policySelectors_ingress (npObj : NetworkPolicy) (rule : NetworkPolicyIngressRule)
    (peer : NetworkPolicyPeer) (sel : LabelSelector) (hr : rule ∈ npObj.Ingress)
    (hpeer : peer ∈ rule.From.getD []) (hs : sel ∈ peerSelectors peer) :
    sel ∈ policySelectors npObj := by
  simp only [policySelectors, List.mem_cons, List.mem_append, List.mem_flatMap]
  exact Or.inr (Or.inl ⟨rule, hr, peer, hpeer, hs⟩)

/-- A selector of a peer of an egress rule is a selector of the policy. -/
theorem mem_policySelectors_egress (npObj : NetworkPolicy) (rule : NetworkPolicyEgressRule)
    (peer : NetworkPolicyPeer) (sel : LabelSelector) (hr : rule ∈ npObj.Egress)
    (hpeer : peer ∈ rule.To.getD []) (hs : sel ∈ peerSelectors peer) :
    sel ∈ policySelectors npObj := by
  simp only [policySelectors, List.mem_cons, List.mem_append, List.mem_flatMap]
  exact Or.inr (Or.inr ⟨rule, hr, peer, hpeer, hs⟩)

/-- The generic reduction: everything a policy contributes has `A` and `Kp`
when its ports, CIDRs, selectors and target have. -/
theorem policyOK_of_parts {A : List String → Prop} {Kp : String → Prop} (u : Util)
    (npObj : NetworkPolicy)
    (hport : ∀ port, (∀ s ∈ portStrings port, s ∈ inputStrings npObj) → PortOK A Kp port)
    (hcidr : ∀ flag s, flag = IptablesSFlag ∨ flag = IptablesDFlag → s ∈ inputStrings npObj →
      A [flag, s] ∧ Kp s)
    (hsel : ∀ sel flag isNs, sel ∈ policySelectors npObj →
      flag = IptablesDstFlag ∨ flag = IptablesSrcFlag →
      SelectorOK A Kp u npObj.Namespace sel flag isNs)
    (htarget : ∀ flag tS, flag = IptablesDstFlag ∨ flag = IptablesSrcFlag →
      craftPartialIptEntrySpecFromOpsAndLabels u npObj.Namespace
        (targetOpsAndLabels u npObj.Namespace npObj.PodSelector).1
        (targetOpsAndLabels u npObj.Namespace npObj.PodSelector).2 flag false = some tS → A tS)
    (hall : ∀ flag, flag = IptablesDstFlag ∨ flag = IptablesSrcFlag →
      A [IptablesModuleFlag, IptablesSetModuleFlag, IptablesMatchSetFlag,
         GetHashedName u KubeAllNamespacesFlag, flag]) :
    PolicyOK A Kp u npObj := by
  refine ⟨htarget, ?_, hall, ?_, ?_⟩
  · exact (hsel npObj.PodSelector IptablesDstFlag false (by simp [policySelectors])
      (Or.inl rfl)).2
  · intro rule hr
    refine ⟨fun port hp => hport port (fun s hs =>
      mem_inputStrings_ingress_port npObj rule port s hr hp hs), ?_⟩
    intro peer hpeer
    refine ⟨?_, ?_, ?_⟩
    · intro block hb
      exact ⟨fun hc => hcidr _ _ (Or.inl rfl) (mem_inputStrings_ingress_peer npObj rule peer _
          hr hpeer (mem_peerStrings_cidr peer block hb hc)),
        fun x hx => hcidr _ _ (Or.inl rfl) (mem_inputStrings_ingress_peer npObj rule peer _
          hr hpeer (mem_peerStrings_except peer block hb x hx))⟩
    · intro sel hs
      exact hsel sel _ _ (mem_policySelectors_ingress npObj rule peer sel hr hpeer
        (by simp [peerSelectors, hs])) (Or.inr rfl)
    · intro sel hs
      exact hsel sel _ _ (mem_policySelectors_ingress npObj rule peer sel hr hpeer
        (by simp [peerSelectors, hs])) (Or.inr rfl)
  · intro rule hr
    refine ⟨fun port hp => hport port (fun s hs =>
      mem_inputStrings_egress_port npObj rule port s hr hp hs), ?_⟩
    intro peer hpeer
    refine ⟨?_, ?_, ?_⟩
    · intro block hb
      exact ⟨fun hc => hcidr _ _ (Or.inr rfl) (mem_inputStrings_egress_peer npObj rule peer _
          hr hpeer (mem_peerStrings_cidr peer block hb hc)),
        fun x hx => hcidr _ _ (Or.inr rfl) (mem_inputStrings_egress_peer npObj rule peer _
          hr hpeer (mem_peerStrings_except peer block hb x hx))⟩
    · intro sel hs
      exact hsel sel _ _ (mem_policySelectors_egress npObj rule peer sel hr hpeer
        (by simp [peerSelectors, hs])) (Or.inl rfl)
    · intro sel hs
      exact hsel sel _ _ (mem_policySelectors_egress npObj rule peer sel hr hpeer
        (by simp [peerSelectors, hs])) (Or.inl rfl)

/-- A token of the concatenation of the matches comes from one operator and one
label. -/
theorem mem_zipWith_foldr {α β : Type} (f : α → β → List String) (tok : String) :
    ∀ (xs : List α) (ys : List β),
      tok ∈ (List.zipWith f xs ys).foldr (fun a b => a ++ b) [] →
      ∃ x ∈ xs, ∃ y ∈ ys, tok ∈ f x y := by
  intro xs
  induction xs with
  | nil => intro ys h; simp at h
  | cons x xs ih =>
    intro ys h
    cases ys with
    | nil => simp at h
    | cons y ys =>
      simp only [List.zipWith_cons_cons, List.foldr_cons, List.mem_append] at h
      rcases h with h | h
      · exact ⟨x, List.mem_cons_self _ _, y, List.mem_cons_self _ _, h⟩
      · obtain ⟨x', hx', y', hy', h'⟩ := ih ys h
        exact ⟨x', List.mem_cons_of_mem _ hx', y', List.mem_cons_of_mem _ hy', h'⟩

/-- The tokens of a selector-match fragment: the three fixed tokens, the flag,
an operator that is not empty, or a hashed name. -/
theorem craft_tokens (u : Util) (ns : String) (ops labels : List String) (flag : String)
    (isNs : Bool) (spec : List String)
    (h : craftPartialIptEntrySpecFromOpsAndLabels u ns ops labels flag isNs = some spec) :
    ∀ tok ∈ spec, tok = IptablesModuleFlag ∨ tok = IptablesSetModuleFlag ∨
      tok = IptablesMatchSetFlag ∨ tok = flag ∨
      (tok ∈ ops ∧ tok ≠ "") ∨ ∃ name, tok = GetHashedName u name := by
  intro tok htok
  simp only [craftPartialIptEntrySpecFromOpsAndLabels] at h
  split at h
  · split at h <;> simp only [Option.some.injEq] at h <;> subst h <;>
      simp only [List.mem_cons, List.mem_singleton, List.not_mem_nil, or_false] at htok <;>
      rcases htok with h1 | h1 | h1 | h1 | h1
    all_goals first
      | exact Or.inl h1
      | exact Or.inr (Or.inl h1)
      | exact Or.inr (Or.inr (Or.inl h1))
      | exact Or.inr (Or.inr (Or.inr (Or.inl h1)))
      | exact Or.inr (Or.inr (Or.inr (Or.inr (Or.inr ⟨_, h1⟩))))
  · split at h
    · cases h
    · simp only [Option.some.injEq] at h
      subst h
      obtain ⟨op, hop, label, -, hmem⟩ := mem_zipWith_foldr _ tok ops labels htok
      simp only [craftPartialIptEntrySpecFromOpAndLabel, mem_DropEmptyFields, List.mem_cons,
        List.mem_singleton, List.not_mem_nil, or_false] at hmem
      obtain ⟨h1 | h1 | h1 | h1 | h1 | h1, hne⟩ := hmem
      · exact Or.inl h1
      · exact Or.inr (Or.inl h1)
      · exact Or.inr (Or.inr (Or.inr (Or.inr (Or.inl ⟨h1 ▸ hop, hne⟩))))
      · exact Or.inr (Or.inr (Or.inl h1))
      · exact Or.inr (Or.inr (Or.inr (Or.inr (Or.inr ⟨_, h1⟩))))
      · exact Or.inr (Or.inr (Or.inr (Or.inl h1)))

/-! ## C18, the entries as they are built: one jump in every entry -/

/-- The operators of the target are those the parser gives. -/
theorem targetOps_eq (u : Util) (ns : String) (t : LabelSelector) :
    (targetOpsAndLabels u ns t).1 = parsedOps u (some t) := by
  simp only [targetOpsAndLabels]
  split <;> rfl

/-- A hashed name is not the token `-j`. -/
theorem GetHashedName_ne_jump (u : Util) (name : String) :
    GetHashedName u name ≠ IptablesJumpFlag := by
  intro h
  have := congrArg String.data h
  simp [GetHashedName, String.data_append, IptablesJumpFlag] at this

/-- A selector-match fragment holds no `-j`. -/
theorem craft_no_jump (u : Util) (hops : ParserOps u) (ns : String)
    (sel : Option LabelSelector) (labels : List String) (flag : String) (isNs : Bool)
    (hflag : flag = IptablesDstFlag ∨ flag = IptablesSrcFlag) (spec : List String)
    (h : craftPartialIptEntrySpecFromOpsAndLabels u ns (parsedOps u sel) labels flag isNs =
      some spec) : IptablesJumpFlag ∉ spec := by
  intro hmem
  rcases craft_tokens u ns _ labels flag isNs spec h _ hmem with h1 | h1 | h1 | h1 | h1 | h1
  · exact absurd h1 (by decide)
  · exact absurd h1 (by decide)
  · exact absurd h1 (by decide)
  · rcases hflag with hf | hf <;> rw [hf] at h1 <;> exact absurd h1 (by decide)
  · rcases hops sel _ h1.1 with h2 | h2 <;> exact absurd h2 (by decide)
  · obtain ⟨name, hname⟩ := h1
    exact GetHashedName_ne_jump u name hname.symm

/-- The properties for C18: no `-j` among the match tokens, one of the five
targets, a comment that does not start with a dash. -/
theorem noJump_props :
    TokenProps (fun m => IptablesJumpFlag ∉ m)
      (fun T => T = IptablesAccept ∨ T = IptablesDrop ∨ T = IptablesAzureIngressFromChain ∨
        T = IptablesAzureEgressToChain ∨ T = IptablesAzureTargetSetsChain)
      (fun c => ∃ ch rest, c.data = ch :: rest ∧ ch ≠ '-') (fun _ => True) where
  A_append := by
    intro a b ha hb
    simp only [List.mem_append, not_or]
    exact ⟨ha, hb⟩
  K_append := by
    rintro a b ⟨ch, rest, h, hne⟩ -
    exact ⟨ch, rest ++ b.data, by rw [String.data_append, h]; rfl, hne⟩
  B_accept := Or.inl rfl
  B_drop := Or.inr (Or.inl rfl)
  B_from := Or.inr (Or.inr (Or.inl rfl))
  B_to := Or.inr (Or.inr (Or.inr (Or.inl rfl)))
  B_targetSets := Or.inr (Or.inr (Or.inr (Or.inr rfl)))
  K_allow := ⟨_, _, rfl, by decide⟩
  K_allowAll := ⟨_, _, rfl, by decide⟩
  K_allowAllTo := ⟨_, _, rfl, by decide⟩
  K_allowAllFrom := ⟨_, _, rfl, by decide⟩
  K_drop := ⟨_, _, rfl, by decide⟩
  K_dropAllTo := ⟨_, _, rfl, by decide⟩
  K_dropAllFrom := ⟨_, _, rfl, by decide⟩
  Kp_to := trivial
  Kp_from := trivial
  Kp_and := trivial
  Kp_colon := trivial
  Kp_jump := trivial
  Kp_allNamespaces := trivial
  Kp_ingressFrom := trivial
  Kp_egressTo := trivial
  Kp_targetSets := trivial

/-- A policy none of whose input strings is `-j` contributes no `-j`. -/
theorem noJump_policyOK (u : Util) (hops : ParserOps u) (npObj : NetworkPolicy)
    (hin : IptablesJumpFlag ∉ inputStrings npObj) :
    PolicyOK (fun m => IptablesJumpFlag ∉ m) (fun _ => True) u npObj := by
  apply policyOK_of_parts
  · intro port hport
    refine ⟨?_, trivial⟩
    rcases port with ⟨proto, p⟩
    cases proto <;> cases p <;>
      simp only [craftPartialIptEntrySpecFromPort, List.append_nil, List.nil_append,
        List.cons_append, List.mem_cons, List.not_mem_nil, or_false, not_or,
        not_false_eq_true] <;>
      simp only [portStrings, Option.toList, Option.map, List.append_nil, List.nil_append,
        List.cons_append, List.mem_cons, List.not_mem_nil, or_false, forall_eq_or_imp,
        forall_eq, false_implies, implies_true] at hport
    · refine ⟨by decide, ?_⟩
      intro h
      exact hin (h ▸ hport)
    · refine ⟨by decide, ?_⟩
      intro h
      exact hin (h ▸ hport)
    · refine ⟨by decide, ?_, by decide, ?_⟩
      · intro h
        exact hin (h ▸ hport.1)
      · intro h
        exact hin (h ▸ hport.2)
  · intro flag s hflag hs
    refine ⟨?_, trivial⟩
    simp only [List.mem_cons, List.mem_singleton, List.not_mem_nil, or_false, not_or]
    refine ⟨?_, fun h => hin (h ▸ hs)⟩
    rcases hflag with hf | hf <;> rw [hf] <;> decide
  · intro sel flag isNs _ hflag
    exact ⟨fun spec h => craft_no_jump u hops _ (some sel) _ flag isNs hflag spec h,
      fun _ _ => trivial⟩
  · intro flag tS hflag h
    rw [targetOps_eq] at h
    exact craft_no_jump u hops _ (some npObj.PodSelector) _ flag false hflag tS h
  · intro flag hflag
    simp only [List.mem_cons, List.mem_singleton, List.not_mem_nil, or_false, not_or]
    refine ⟨by decide, by decide, by decide, (GetHashedName_ne_jump u _).symm, ?_⟩
    rcases hflag with hf | hf <;> rw [hf] <;> decide

/-- The parser of spec §4.1 gives the operators `""` and `!` only. -/
theorem specUtil_ops (digest : String → String) (flag : Bool) :
    ParserOps (specUtil digest flag) := by
  intro sel op hop
  simp only [parsedOps, specUtil, List.map_map, List.mem_map, Function.comp] at hop
  obtain ⟨x, -, rfl⟩ := hop
  unfold GetOperatorAndLabel
  split
  · exact Or.inr rfl
  · exact Or.inl rfl

/-- Of the entries as they are built.  For a policy none of whose input strings
(CIDRs, except CIDRs, protocol names, port texts) is the token `-j`, the parser
giving no operator but the empty one and `!`: the specs of every returned entry
are `preds ++ [-j, T, -m, comment, --comment, c]` where `preds` holds no `-j`,
`T` is one of `ACCEPT`, `DROP`, Ingress-From, Egress-To, TargetSets, and `c` is
one token other than `-j`; so `-j` occurs exactly once in the entry, and only
the comment tokens follow its target. -/
theorem entries_single_jump (u : Util) (hops : ParserOps u) (npObj : NetworkPolicy)
    (r : Translation) (hin : IptablesJumpFlag ∉ inputStrings npObj)
    (h : translatePolicy u npObj = some r) :
    ∀ e ∈ r.entries, ∃ preds T c,
      e.Specs = preds ++ [IptablesJumpFlag, T, IptablesModuleFlag, IptablesCommentModuleFlag,
        IptablesCommentFlag, c] ∧
      IptablesJumpFlag ∉ preds ∧
      (T = IptablesAccept ∨ T = IptablesDrop ∨ T = IptablesAzureIngressFromChain ∨
        T = IptablesAzureEgressToChain ∨ T = IptablesAzureTargetSetsChain) ∧
      c ≠ IptablesJumpFlag ∧ e.Specs.count IptablesJumpFlag = 1 := by
  intro e he
  obtain ⟨m, T, c, hspecs, hm, hT, ch, rest, hc, hne⟩ :=
    translatePolicy_ok noJump_props u npObj (noJump_policyOK u hops npObj hin) r h e he
  have hcne : c ≠ IptablesJumpFlag := by
    intro heq
    rw [heq] at hc
    simp only [IptablesJumpFlag, List.cons.injEq] at hc
    exact hne hc.1.symm
  have hTne : T ≠ IptablesJumpFlag := by
    rcases hT with h1 | h1 | h1 | h1 | h1 <;> rw [h1] <;> decide
  refine ⟨m, T, c, hspecs, hm, hT, hcne, ?_⟩
  have h0 : List.count IptablesJumpFlag m = 0 := List.count_eq_zero.2 hm
  have h1 : (IptablesJumpFlag == IptablesModuleFlag) = false := by decide
  have h2 : (IptablesJumpFlag == IptablesCommentModuleFlag) = false := by decide
  have h3 : (IptablesJumpFlag == IptablesCommentFlag) = false := by decide
  have h4 : (T == IptablesJumpFlag) = false := by simpa using hTne
  have h5 : (c == IptablesJumpFlag) = false := by simpa using hcne
  rw [hspecs, jumpAndComment, List.count_append, h0]
  simp [List.count_cons, h4, h5]
  decide

/-- The entries as they are built, at a policy with a port, an ipBlock with an
except, and peers of the three selector shapes: all twelve entries have the
form. -/
theorem entries_single_jump_witness :
    ∃ r, translatePolicy exampleUtil mixedPolicy = some r ∧ r.entries.length = 12 ∧
      ∀ e ∈ r.entries, ∃ preds T c,
        e.Specs = preds ++ [IptablesJumpFlag, T, IptablesModuleFlag, IptablesCommentModuleFlag,
          IptablesCommentFlag, c] ∧
        IptablesJumpFlag ∉ preds ∧
        (T = IptablesAccept ∨ T = IptablesDrop ∨ T = IptablesAzureIngressFromChain ∨
          T = IptablesAzureEgressToChain ∨ T = IptablesAzureTargetSetsChain) ∧
        c ≠ IptablesJumpFlag ∧ e.Specs.count IptablesJumpFlag = 1 :=
  ⟨_, rfl, rfl,
    entries_single_jump exampleUtil (specUtil_ops _ _) mixedPolicy _ (by decide) rfl⟩

/-! ## C20: no empty token -/

/-- A text that starts with a non-empty text is not empty. -/
theorem append_ne_empty_left (a b : String) (h : a ≠ "") : a ++ b ≠ "" := by
  intro hab
  apply h
  have := congrArg String.data hab
  simp only [String.data_append, List.append_eq_nil] at this
  exact String.ext this.1

/-- A selector-match fragment for a non-empty flag holds no empty token. -/
theorem craft_no_empty (u : Util) (ns : String) (ops labels : List String) (flag : String)
    (isNs : Bool) (hflag : flag ≠ "") (spec : List String)
    (h : craftPartialIptEntrySpecFromOpsAndLabels u ns ops labels flag isNs = some spec) :
    "" ∉ spec := by
  intro hmem
  rcases craft_tokens u ns ops labels flag isNs spec h _ hmem with h1 | h1 | h1 | h1 | h1 | h1
  · exact absurd h1 (by decide)
  · exact absurd h1 (by decide)
  · exact absurd h1 (by decide)
  · exact hflag h1.symm
  · exact h1.2 rfl
  · obtain ⟨name, hname⟩ := h1
    exact GetHashedName_ne_empty u name hname.symm

/-- A port fragment holds no empty token when the flag, the protocol name and
the port text are not empty. -/
theorem port_no_empty (port : NetworkPolicyPort) (flag : String) (hflag : flag ≠ "")
    (hport : "" ∉ portStrings port) : "" ∉ craftPartialIptEntrySpecFromPort port flag := by
  rcases port with ⟨proto, p⟩
  cases proto <;> cases p <;>
    simp only [craftPartialIptEntrySpecFromPort, List.append_nil, List.nil_append,
      List.cons_append, List.mem_cons, List.not_mem_nil, or_false, not_or,
      not_false_eq_true] <;>
    simp only [portStrings, Option.toList, Option.map, List.append_nil, List.nil_append,
      List.cons_append, List.mem_cons, List.not_mem_nil, or_false, not_or] at hport
  · exact ⟨Ne.symm hflag, hport⟩
  · exact ⟨by decide, hport⟩
  · exact ⟨by decide, hport.1, Ne.symm hflag, hport.2⟩

/-- The properties for C20: no empty token among the match tokens, a target
and a comment that are not empty. -/
theorem noEmpty_props :
    TokenProps (fun m => "" ∉ m) (fun T => T ≠ "") (fun c => c ≠ "") (fun _ => True) where
  A_append := by
    intro a b ha hb
    simp only [List.mem_append, not_or]
    exact ⟨ha, hb⟩
  K_append := fun a b ha _ => append_ne_empty_left a b ha
  B_accept := by decide
  B_drop := by decide
  B_from := by decide
  B_to := by decide
  B_targetSets := by decide
  K_allow := by decide
  K_allowAll := by decide
  K_allowAllTo := by decide
  K_allowAllFrom := by decide
  K_drop := by decide
  K_dropAllTo := by decide
  K_dropAllFrom := by decide
  Kp_to := trivial
  Kp_from := trivial
  Kp_and := trivial
  Kp_colon := trivial
  Kp_jump := trivial
  Kp_allNamespaces := trivial
  Kp_ingressFrom := trivial
  Kp_egressTo := trivial
  Kp_targetSets := trivial

/-- The flags `dst` and `src` are not empty. -/
theorem flag_ne_empty (flag : String) (h : flag = IptablesDstFlag ∨ flag = IptablesSrcFlag) :
    flag ≠ "" := by
  rcases h with h | h <;> rw [h] <;> decide

/-- A policy none of whose input strings is empty contributes no empty token. -/
theorem noEmpty_policyOK (u : Util) (npObj : NetworkPolicy)
    (hin : "" ∉ inputStrings npObj) :
    PolicyOK (fun m => "" ∉ m) (fun _ => True) u npObj := by
  apply policyOK_of_parts
  · intro port hport
    exact ⟨port_no_empty port _ (by decide) (fun h => hin (hport _ h)), trivial⟩
  · intro flag s hflag hs
    refine ⟨?_, trivial⟩
    simp only [List.mem_cons, List.mem_singleton, List.not_mem_nil, or_false, not_or]
    refine ⟨?_, fun h => hin (h ▸ hs)⟩
    rcases hflag with hf | hf <;> rw [hf] <;> decide
  · intro sel flag isNs _ hflag
    exact ⟨fun spec h => craft_no_empty u _ _ _ flag isNs (flag_ne_empty flag hflag) spec h,
      fun _ _ => trivial⟩
  · intro flag tS hflag h
    exact craft_no_empty u _ _ _ flag false (flag_ne_empty flag hflag) tS h
  · intro flag hflag
    simp only [List.mem_cons, List.mem_singleton, List.not_mem_nil, or_false, not_or]
    exact ⟨by decide, by decide, by decide, (GetHashedName_ne_empty u _).symm,
      (flag_ne_empty flag hflag).symm⟩

/-- C20, as amended. The single-label match never holds an empty token (it
drops them); the selector-match fragment holds none when the flag it is given
is not empty; the port fragment holds none when the flag, the protocol name
and the port text are not empty (it drops nothing); consequently, for a policy
none of whose input strings (protocol names, port texts, CIDRs, except CIDRs)
is empty, no returned entry holds an empty token. -/
theorem no_empty_token (u : Util) (npObj : NetworkPolicy) (r : Translation)
    (hin : "" ∉ inputStrings npObj) (h : translatePolicy u npObj = some r) :
    (∀ port flag, flag ≠ "" → "" ∉ portStrings port →
      "" ∉ craftPartialIptEntrySpecFromPort port flag) ∧
    (∀ op label flag isNs, "" ∉ craftPartialIptEntrySpecFromOpAndLabel u op label flag isNs) ∧
    (∀ ns ops labels flag isNs spec, flag ≠ "" →
      craftPartialIptEntrySpecFromOpsAndLabels u ns ops labels flag isNs = some spec →
      "" ∉ spec) ∧
    (∀ ns sel flag isNs spec, flag ≠ "" →
      craftPartialIptEntrySpecFromSelector u ns sel flag isNs = some spec → "" ∉ spec) ∧
    ∀ e ∈ r.entries, "" ∉ e.Specs := by
  refine ⟨fun port flag hflag hport => port_no_empty port flag hflag hport, ?_,
    fun ns ops labels flag isNs spec hflag hs => craft_no_empty u ns ops labels flag isNs hflag
      spec hs,
    fun ns sel flag isNs spec hflag hs => craft_no_empty u ns _ _ flag isNs hflag spec hs, ?_⟩
  · intro op label flag isNs hmem
    simp only [craftPartialIptEntrySpecFromOpAndLabel, mem_DropEmptyFields] at hmem
    exact hmem.2 rfl
  · intro e he
    obtain ⟨m, T, c, hspecs, hm, hT, hc⟩ :=
      translatePolicy_ok noEmpty_props u npObj (noEmpty_policyOK u npObj hin) r h e he
    rw [hspecs]
    simp only [jumpAndComment, List.mem_append, List.mem_cons, List.mem_singleton,
      List.not_mem_nil, or_false, not_or]
    exact ⟨hm, by decide, Ne.symm hT, by decide, by decide, by decide, Ne.symm hc⟩

/-- C20, as amended, at a policy with a port, an ipBlock with an except, and
peers of the three selector shapes. -/
theorem no_empty_token_witness :
    ∃ r, translatePolicy exampleUtil mixedPolicy = some r ∧ r.entries.length = 12 ∧
      ∀ e ∈ r.entries, "" ∉ e.Specs :=
  ⟨_, rfl, rfl, (no_empty_token exampleUtil mixedPolicy _ (by decide) rfl).2.2.2.2⟩

/-- C20 as stated fails: the port fragment of a port whose protocol is the
empty text is `["-p", ""]`; the selector-match fragment of the empty selector
for the empty flag ends with the empty token; the policy whose single port has
the empty protocol returns an entry with an empty token; and so does the policy
whose single peer is an ipBlock with the empty text among its except CIDRs
(source lines 247-269 append every except as it is). -/
theorem empty_token_from_empty_input :
    craftPartialIptEntrySpecFromPort { Protocol := some "", Port := none } IptablesDstPortFlag =
      ["-p", ""] ∧
    craftPartialIptEntrySpecFromOpsAndLabels exampleUtil "default" [""] [""] "" false =
      some ["-m", "set", "--match-set", "azure-npm-ns-default", ""] ∧
    (∃ r, translatePolicy exampleUtil emptyProtocolPolicy = some r ∧
      r.entries.map (fun e => e.Specs) =
        [["-p", "", "-m", "set", "--match-set", "azure-npm-app:web", "dst",
          "-j", "ACCEPT", "-m", "comment", "--comment", "ALLOW-ALL--TO-app:web"],
         ["-m", "set", "--match-set", "azure-npm-app:web", "dst",
          "-j", "AZURE-NPM-TARGET-SETS", "-m", "comment", "--comment",
          "ALLOW-ALL-TO-app:web-TO-JUMP-TO-AZURE-NPM-TARGET-SETS"],
         ["-m", "set", "--match-set", "azure-npm-app:web", "dst",
          "-j", "DROP", "-m", "comment", "--comment", "DROP-ALL-TO-app:web"]]) ∧
    ∃ r, translatePolicy exampleUtil (onePeerPolicy (ipBlockPeer "10.0.0.0/8" [""])) = some r ∧
      r.entries.head? =
        some { Chain := "AZURE-NPM-INGRESS-FROM",
               Specs := ["-s", "", "-m", "set", "--match-set", "azure-npm-app:web", "dst",
                         "-j", "DROP", "-m", "comment", "--comment", "DROP--TO-app:web"] } :=
  ⟨rfl, rfl, ⟨_, rfl, rfl⟩, _, rfl, rfl⟩

/-! ## C19, the entries as they are built: the comment token -/

/-- Two texts without whitespace, put together, hold no whitespace. -/
theorem noWhitespace_append (a b : String) (ha : NoWhitespace a) (hb : NoWhitespace b) :
    NoWhitespace (a ++ b) := by
  intro ch hch
  rw [String.data_append, List.mem_append] at hch
  rcases hch with h | h
  · exact ha ch h
  · exact hb ch h

/-- The properties for C19: a comment that is not empty and holds no
whitespace, made of parts without whitespace. -/
theorem clean_props :
    TokenProps (fun _ => True) (fun _ => True) (fun c => c ≠ "" ∧ NoWhitespace c)
      NoWhitespace where
  A_append := fun _ _ _ _ => trivial
  K_append := fun a b ha hb => ⟨append_ne_empty_left a b ha.1, noWhitespace_append a b ha.2 hb⟩
  B_accept := trivial
  B_drop := trivial
  B_from := trivial
  B_to := trivial
  B_targetSets := trivial
  K_allow := by decide
  K_allowAll := by decide
  K_allowAllTo := by decide
  K_allowAllFrom := by decide
  K_drop := by decide
  K_dropAllTo := by decide
  K_dropAllFrom := by decide
  Kp_to := by decide
  Kp_from := by decide
  Kp_and := by decide
  Kp_colon := by decide
  Kp_jump := by decide
  Kp_allNamespaces := by decide
  Kp_ingressFrom := by decide
  Kp_egressTo := by decide
  Kp_targetSets := by decide

/-- The text the comment builder accumulates holds no whitespace. -/
theorem comment_foldl_noWhitespace (pfx : String) (hpfx : NoWhitespace pfx) :
    ∀ (pairs : List (String × String)) (acc : String), NoWhitespace acc →
      (∀ p ∈ pairs, NoWhitespace p.1 ∧ NoWhitespace p.2) →
      NoWhitespace (pairs.foldl (fun comment p => comment ++ (pfx ++ p.1 ++ p.2) ++ "-AND-") acc) := by
  intro pairs
  induction pairs with
  | nil => intro acc hacc _; exact hacc
  | cons p ps ih =>
    intro acc hacc hps
    simp only [List.foldl_cons]
    apply ih
    · have hp := hps p (List.mem_cons_self _ _)
      exact noWhitespace_append _ _
        (noWhitespace_append _ _ hacc
          (noWhitespace_append _ _ (noWhitespace_append _ _ hpfx hp.1) hp.2)) (by decide)
    · exact fun q hq => hps q (List.mem_cons_of_mem _ hq)

/-- The comment of a selector holds no whitespace when the namespace and the
parsed operators and labels hold none. -/
theorem comment_noWhitespace (u : Util) (ns : String) (sel : LabelSelector) (isNs : Bool)
    (hns : NoWhitespace ns)
    (hpairs : ∀ p ∈ u.GetOperatorsAndLabels (u.parseSelector (some sel)),
      NoWhitespace p.1 ∧ NoWhitespace p.2)
    (c : String) (h : craftPartialIptablesCommentFromSelector u ns (some sel) isNs = some c) :
    NoWhitespace c := by
  simp only [craftPartialIptablesCommentFromSelector] at h
  split at h
  · split at h <;> simp only [Option.some.injEq] at h <;> subst h
    · decide
    · exact noWhitespace_append _ _ (by decide) hns
  · have hfold := comment_foldl_noWhitespace (if isNs = true then "ns-" else "")
      (by cases isNs <;> decide) _ "" (by decide) hpairs
    by_cases hlen : (List.foldl
        (fun comment p => comment ++ ((if isNs = true then "ns-" else "") ++ p.1 ++ p.2) ++ "-AND-")
        "" (u.GetOperatorsAndLabels (u.parseSelector (some sel)))).length < "-AND-".length
    · rw [if_pos hlen] at h
      cases h
    · rw [if_neg hlen] at h
      simp only [Option.some.injEq] at h
      subst h
      intro ch hch
      exact hfold ch (List.mem_of_mem_take hch)

/-- The comment of a port holds no whitespace when its protocol name and port
text hold none. -/
theorem portComment_noWhitespace (port : NetworkPolicyPort) (flag : String)
    (hport : ∀ s ∈ portStrings port, NoWhitespace s) :
    NoWhitespace (craftPartialIptablesCommentFromPort port flag) := by
  rcases port with ⟨proto, p⟩
  cases proto <;> cases p <;>
    simp only [portStrings, Option.toList, Option.map, List.append_nil, List.nil_append,
      List.cons_append, List.mem_cons, List.not_mem_nil, or_false, forall_eq_or_imp,
      forall_eq, false_implies, implies_true] at hport <;>
    simp only [craftPartialIptablesCommentFromPort, Option.isSome, Bool.false_eq_true,
      if_false, if_true]
  · decide
  · exact noWhitespace_append _ _ (by decide) (noWhitespace_append _ _ (by decide) hport)
  · exact noWhitespace_append _ _ (noWhitespace_append _ _ hport (by decide)) (by decide)
  · exact noWhitespace_append _ _ (noWhitespace_append _ _ hport.1 (by decide))
      (noWhitespace_append _ _ (by decide) hport.2)

/-- A policy without whitespace in its namespace, selectors and input strings
contributes comment parts without whitespace. -/
theorem clean_policyOK (u : Util) (hparser : ParserClean u) (npObj : NetworkPolicy)
    (hns : NoWhitespace npObj.Namespace)
    (hsel : ∀ sel ∈ policySelectors npObj, ∀ s ∈ selectorStrings sel, NoWhitespace s)
    (hin : ∀ s ∈ inputStrings npObj, NoWhitespace s) :
    PolicyOK (fun _ => True) NoWhitespace u npObj := by
  apply policyOK_of_parts
  · intro port hport
    exact ⟨trivial, portComment_noWhitespace port _ (fun s hs => hin s (hport s hs))⟩
  · intro flag s _ hs
    exact ⟨trivial, hin s hs⟩
  · intro sel flag isNs hmem _
    exact ⟨fun _ _ => trivial,
      fun c hc => comment_noWhitespace u _ sel isNs hns (hparser sel (hsel sel hmem)) c hc⟩
  · intro _ _ _ _
    trivial
  · intro _ _
    trivial

/-- The empty text holds no whitespace. -/
theorem noWhitespace_empty : NoWhitespace "" := by decide

/-- The operator `!` holds no whitespace. -/
theorem noWhitespace_bang : NoWhitespace "!" := by decide

/-- Insertion adds the inserted element only. -/
theorem mem_insertSorted {α : Type} (le : α → α → Bool) (x y : α) :
    ∀ l : List α, y ∈ insertSorted le x l → y = x ∨ y ∈ l := by
  intro l
  induction l with
  | nil =>
    intro h
    simp only [insertSorted, List.mem_singleton] at h
    exact Or.inl h
  | cons z zs ih =>
    intro h
    simp only [insertSorted] at h
    split at h
    · simpa using h
    · simp only [List.mem_cons] at h ⊢
      rcases h with h | h
      · exact Or.inr (Or.inl h)
      · rcases ih h with h | h
        · exact Or.inl h
        · exact Or.inr (Or.inr h)

/-- Sorting adds no element. -/
theorem mem_sortBy {α : Type} (le : α → α → Bool) (y : α) :
    ∀ l : List α, y ∈ sortBy le l → y ∈ l := by
  intro l
  induction l with
  | nil =>
    intro h
    simp [sortBy] at h
  | cons x xs ih =>
    intro h
    simp only [sortBy, List.foldr_cons] at h
    rcases mem_insertSorted le x y _ h with h | h
    · exact h ▸ List.mem_cons_self _ _
    · exact List.mem_cons_of_mem _ (ih h)

/-- The loop of `String.intercalate` keeps texts free of whitespace. -/
theorem intercalate_go_noWhitespace (sep : String) (hsep : NoWhitespace sep) :
    ∀ (l : List String) (acc : String), NoWhitespace acc → (∀ x ∈ l, NoWhitespace x) →
      NoWhitespace (String.intercalate.go acc sep l) := by
  intro l
  induction l with
  | nil => intro acc hacc _; exact hacc
  | cons x xs ih =>
    intro acc hacc hl
    simp only [String.intercalate.go]
    exact ih _ (noWhitespace_append _ _ (noWhitespace_append _ _ hacc hsep)
      (hl x (List.mem_cons_self _ _))) (fun y hy => hl y (List.mem_cons_of_mem _ hy))

/-- Texts without whitespace joined by a separator without whitespace. -/
theorem intercalate_noWhitespace (sep : String) (hsep : NoWhitespace sep) (l : List String)
    (hl : ∀ x ∈ l, NoWhitespace x) : NoWhitespace (sep.intercalate l) := by
  cases l with
  | nil => simp only [String.intercalate]; decide
  | cons x xs =>
    simp only [String.intercalate]
    exact intercalate_go_noWhitespace sep hsep xs x (hl x (List.mem_cons_self _ _))
      (fun y hy => hl y (List.mem_cons_of_mem _ hy))

/-- Every result of a successful `mapM` is the result of one element. -/
theorem mem_mapM_option {α β : Type} (f : α → Option β) :
    ∀ (l : List α) (l' : List β), l.mapM f = some l' → ∀ y ∈ l', ∃ x ∈ l, f x = some y := by
  intro l
  induction l with
  | nil =>
    intro l' h y hy
    simp only [List.mapM_nil, Option.pure_def, Option.some.injEq] at h
    subst h
    cases hy
  | cons a as ih =>
    intro l' h y hy
    simp only [List.mapM_cons, Option.pure_def, Option.bind_eq_bind, Option.bind_eq_some,
      Option.some.injEq] at h
    obtain ⟨b, hb, bs, hbs, rfl⟩ := h
    rcases List.mem_cons.1 hy with h1 | h1
    · exact ⟨a, List.mem_cons_self _ _, h1 ▸ hb⟩
    · obtain ⟨x, hx, hfx⟩ := ih bs hbs y h1
      exact ⟨x, List.mem_cons_of_mem _ hx, hfx⟩

/-- The pair of an expression whose key and values hold no whitespace. -/
theorem requirementPair_noWhitespace (req : LabelSelectorRequirement) (q : String × String)
    (h : requirementPair req = some q) (hkey : NoWhitespace req.Key)
    (hvalues : ∀ v ∈ req.Values, NoWhitespace v) : NoWhitespace (q.1 ++ q.2) := by
  have hjoin : NoWhitespace (req.Key ++ ":" ++ ",".intercalate (sortBy strLe req.Values)) :=
    noWhitespace_append _ _ (noWhitespace_append _ _ hkey (by decide))
      (intercalate_noWhitespace _ (by decide) _ (fun x hx => hvalues x (mem_sortBy _ _ _ hx)))
  simp only [requirementPair] at h
  split at h
  · split at h
    · cases h
    · simp only [Option.some.injEq] at h
      subst h
      exact noWhitespace_append _ _ noWhitespace_empty hjoin
  · split at h
    · split at h
      · cases h
      · simp only [Option.some.injEq] at h
        subst h
        exact noWhitespace_append _ _ noWhitespace_bang hjoin
    · split at h
      · simp only [Option.some.injEq] at h
        subst h
        exact noWhitespace_append _ _ noWhitespace_empty hkey
      · split at h
        · simp only [Option.some.injEq] at h
          subst h
          exact noWhitespace_append _ _ noWhitespace_bang hkey
        · cases h

/-- The pairs of a selector whose keys and values hold no whitespace. -/
theorem parse_noWhitespace (sel : LabelSelector) (pairs : List (String × String))
    (h : parse sel = some pairs) (hsel : ∀ s ∈ selectorStrings sel, NoWhitespace s) :
    ∀ q ∈ pairs, NoWhitespace (q.1 ++ q.2) := by
  simp only [parse] at h
  split at h
  · simp only [Option.some.injEq] at h
    subst h
    intro q hq
    rw [List.mem_singleton] at hq
    subst hq
    decide
  · simp only [Option.bind_eq_bind, Option.bind_eq_some, Option.some.injEq] at h
    obtain ⟨exprs, hexprs, rfl⟩ := h
    intro q hq
    have hq' := mem_sortBy _ _ _ hq
    rw [List.mem_append] at hq'
    rcases hq' with hq' | hq'
    · obtain ⟨kv, hkv, rfl⟩ := List.mem_map.1 hq'
      have h1 : NoWhitespace kv.1 := hsel _ (by
        simp only [selectorStrings, List.mem_append, List.mem_flatMap]
        exact Or.inl ⟨kv, hkv, by simp⟩)
      have h2 : NoWhitespace kv.2 := hsel _ (by
        simp only [selectorStrings, List.mem_append, List.mem_flatMap]
        exact Or.inl ⟨kv, hkv, by simp⟩)
      exact noWhitespace_append _ _ noWhitespace_empty
        (noWhitespace_append _ _ (noWhitespace_append _ _ h1 (by decide)) h2)
    · obtain ⟨req, hreq, hpair⟩ := mem_mapM_option _ _ _ hexprs q hq'
      apply requirementPair_noWhitespace req q hpair
      · exact hsel _ (by
          simp only [selectorStrings, List.mem_append, List.mem_flatMap]
          exact Or.inr ⟨req, hreq, by simp⟩)
      · intro v hv
        exact hsel _ (by
          simp only [selectorStrings, List.mem_append, List.mem_flatMap]
          exact Or.inr ⟨req, hreq, by simp [hv]⟩)

/-- Splitting off the operator keeps a label free of whitespace. -/
theorem GetOperatorAndLabel_noWhitespace (x : String) (hx : NoWhitespace x) :
    NoWhitespace (GetOperatorAndLabel x).1 ∧ NoWhitespace (GetOperatorAndLabel x).2 := by
  unfold GetOperatorAndLabel
  split
  · rename_i rest heq
    refine ⟨noWhitespace_bang, ?_⟩
    intro ch hch
    apply hx ch
    rw [heq]
    exact List.mem_cons_of_mem _ hch
  · exact ⟨noWhitespace_empty, hx⟩

/-- The parser of spec §4.1 gives operators and labels without whitespace for
keys and values without whitespace. -/
theorem specUtil_clean (digest : String → String) (flag : Bool) :
    ParserClean (specUtil digest flag) := by
  intro sel hsel p hp
  simp only [specUtil, List.map_map, List.mem_map, Function.comp] at hp
  obtain ⟨q, hq, rfl⟩ := hp
  apply GetOperatorAndLabel_noWhitespace
  cases hparse : parse sel with
  | none =>
    rw [hparse] at hq
    cases hq
  | some pairs =>
    rw [hparse] at hq
    exact parse_noWhitespace sel pairs hparse hsel q hq

/-- Of the entries as they are built.  For a policy whose namespace, selector
keys and values, CIDRs, except CIDRs, protocol names and port texts hold no
whitespace, the parser giving operators and labels without whitespace for such
selectors: the last token of the specs of every returned entry (its comment) is
not empty and holds no whitespace. -/
theorem comment_token_clean (u : Util) (hparser : ParserClean u) (npObj : NetworkPolicy)
    (r : Translation) (hns : NoWhitespace npObj.Namespace)
    (hsel : ∀ sel ∈ policySelectors npObj, ∀ s ∈ selectorStrings sel, NoWhitespace s)
    (hin : ∀ s ∈ inputStrings npObj, NoWhitespace s)
    (h : translatePolicy u npObj = some r) :
    ∀ e ∈ r.entries, ∃ c, e.Specs.getLast? = some c ∧ c ≠ "" ∧ NoWhitespace c := by
  intro e he
  obtain ⟨m, T, c, hspecs, -, -, hc⟩ :=
    translatePolicy_ok clean_props u npObj (clean_policyOK u hparser npObj hns hsel hin) r h e he
  exact ⟨c, by rw [hspecs, getLast?_jumpAndComment], hc⟩

/-- The entries as they are built, at a policy with a port, an ipBlock with an
except, and peers of the three selector shapes, with the parser of spec §4.1. -/
theorem comment_token_clean_witness :
    ∃ r, translatePolicy exampleUtil mixedPolicy = some r ∧ r.entries.length = 12 ∧
      ∀ e ∈ r.entries, ∃ c, e.Specs.getLast? = some c ∧ c ≠ "" ∧ NoWhitespace c :=
  ⟨_, rfl, rfl,
    comment_token_clean exampleUtil (specUtil_clean _ _) mixedPolicy _ (by decide) (by decide)
      (by decide) rfl⟩

/-! ## C11: the names of the sets an entry matches -/

/-- C11 fails for a peer with both selectors one of which is empty. For the
peer `podSelector: app=a` with the empty `namespaceSelector`, the entry matches
the hashed name of `<ALL-NAMESPACES>` while the returned lists are `["ns-"]`:
no returned name has that hash. For the peer with the empty `podSelector` and
`namespaceSelector: env=prod`, the entry matches the hashed name of
`ns-default` while the returned sets are `["app:web"]`. The branches for a peer
with one selector do record the names: the empty `namespaceSelector` alone
gives the list `<ALL-NAMESPACES>`, the empty `podSelector` alone gives the set
`ns-default` (source lines 338-340 and 405-409 against 475-485). -/
theorem combined_peer_empty_selector_not_recorded :
    (∃ r, translatePolicy exampleUtil (onePeerPolicy anyNamespacePodPeer) = some r ∧
      r.sets = ["app:web", "app:a"] ∧ r.lists = ["ns-"] ∧
      (∃ e ∈ r.entries,
        [IptablesMatchSetFlag, GetHashedName exampleUtil KubeAllNamespacesFlag] <:+: e.Specs) ∧
      ∀ name ∈ r.sets ++ r.lists,
        GetHashedName exampleUtil name ≠ GetHashedName exampleUtil KubeAllNamespacesFlag) ∧
    (∃ r, translatePolicy exampleUtil (onePeerPolicy allPodsOfNamespacePeer) = some r ∧
      r.sets = ["app:web"] ∧ r.lists = ["ns-env:prod"] ∧
      (∃ e ∈ r.entries,
        [IptablesMatchSetFlag, GetHashedName exampleUtil "ns-default"] <:+: e.Specs) ∧
      ∀ name ∈ r.sets ++ r.lists,
        GetHashedName exampleUtil name ≠ GetHashedName exampleUtil "ns-default") ∧
    (∃ r, translatePolicy exampleUtil (onePeerPolicy anyNamespacePeer) = some r ∧
      r.lists = [KubeAllNamespacesFlag]) ∧
    (∃ r, translatePolicy exampleUtil (onePeerPolicy allPodsPeer) = some r ∧
      r.sets = ["app:web", "ns-default"]) := by
  refine ⟨⟨_, rfl, rfl, rfl, ⟨_, List.mem_cons_self _ _, ?_⟩, by decide⟩,
    ⟨_, rfl, rfl, rfl, ⟨_, List.mem_cons_self _ _, ?_⟩, by decide⟩, ⟨_, rfl, rfl⟩, ⟨_, rfl, rfl⟩⟩
  · exact ⟨["-m", "set", "--match-set", "azure-npm-app:web", "dst", "-m", "set"],
      ["src", "-m", "set", "--match-set", "azure-npm-app:a", "src", "-j", "ACCEPT", "-m",
       "comment", "--comment", "ALLOW-<ALL-NAMESPACES>-AND-app:a-TO-app:web"], rfl⟩
  · exact ⟨["-m", "set", "--match-set", "azure-npm-app:web", "dst", "-m", "set", "--match-set",
       "azure-npm-ns-env:prod", "src", "-m", "set"],
      ["src", "-j", "ACCEPT", "-m", "comment", "--comment",
       "ALLOW-ns-env:prod-AND-ns-default-TO-app:web"], rfl⟩

/-! ## C22: the baremetal source -/

/-- C22. For every options map, `newBaremetalSource` returns the nil error
and the source named `baremetal` whose `filePath` is the Windows default when
`runtime.GOOS` is `windows` and the Linux default otherwise, whose `fileLoaded`
is false and whose `sink` is unset; and the result is the same for every other
options map, whatever the type of its values. -/
theorem newBaremetalSource_result {σ β : Type} (platform : Platform)
    (options : List (String × β)) :
    (newBaremetalSource platform options : baremetalSource σ × Option String) =
      ({ name := "baremetal", sink := none, fileLoaded := false,
         filePath := if platform.GOOS = platform.windows then platform.defaultWindowsFilePath
           else platform.defaultLinuxFilePath }, none) ∧
    ∀ (γ : Type) (options' : List (String × γ)),
      (newBaremetalSource platform options' : baremetalSource σ × Option String) =
        newBaremetalSource platform options :=
  ⟨rfl, fun _ _ => rfl⟩

/-- C22 on a Linux and on a Windows platform. -/
theorem newBaremetalSource_result_witness :
    (newBaremetalSource linuxPlatform [("k", 1)] : baremetalSource Unit × Option String) =
      ({ name := "baremetal", sink := none, fileLoaded := false,
         filePath := "/linux/default.json" }, none) ∧
    (newBaremetalSource windowsPlatform ([] : List (String × String)) :
        baremetalSource Unit × Option String) =
      ({ name := "baremetal", sink := none, fileLoaded := false,
         filePath := "/windows/default.json" }, none) :=
  ⟨(@newBaremetalSource_result Unit Nat linuxPlatform [("k", 1)]).1,
   (@newBaremetalSource_result Unit String windowsPlatform []).1⟩

/-! ## C25: a rule without ports and without peers -/

/-- Peers without selector and without ipBlock do not count as peers. -/
theorem peerExists_eq_false (peers : List NetworkPolicyPeer)
    (h : ∀ peer ∈ peers, peer.PodSelector = none ∧ peer.NamespaceSelector = none ∧
      peer.IPBlock = none) : peerExists peers = false := by
  simp only [peerExists, List.any_eq_false]
  intro peer hp
  obtain ⟨h1, h2, h3⟩ := h peer hp
  simp [h1, h2, h3]

/-- An ingress rule without ports and without peers (source lines 190-218). -/
theorem ingressRule_allow_all (u : Util) (ns : String) (tS : List String) (tC : String)
    (rule : NetworkPolicyIngressRule) (hports : rule.Ports = [])
    (hfrom : rule.From = none ∨ ∃ peers, rule.From = some peers ∧ peers ≠ [] ∧
      ∀ peer ∈ peers, peer.PodSelector = none ∧ peer.NamespaceSelector = none ∧
        peer.IPBlock = none) :
    ingressRule u ns tS tC LoopState.empty rule =
      some { LoopState.empty with
        entries :=
          [{ Chain := IptablesAzureIngressPortChain,
             Specs := [IptablesModuleFlag, IptablesSetModuleFlag, IptablesMatchSetFlag,
                       GetHashedName u KubeAllNamespacesFlag, IptablesSrcFlag] ++ tS ++
               jumpAndComment IptablesAccept
                 ("ALLOW-ALL-TO-" ++ tC ++ "-FROM-" ++ KubeAllNamespacesFlag) }],
        lists := [KubeAllNamespacesFlag] } := by
  rcases hfrom with hfrom | ⟨peers, hfrom, hne, hpeers⟩
  · simp [ingressRule, hports, hfrom, LoopState.empty]
  · have hex := peerExists_eq_false peers hpeers
    have hlen : peers.length ≠ 0 := fun h => hne (List.length_eq_zero.1 h)
    simp [ingressRule, hports, hfrom, hex, hlen, LoopState.empty]

/-- C25. For every namespace and target selector whose fragment `tS` (flag
`dst`) and comment `tC` are built, `translateIngress` on a single rule without
ports and without peers (`from` absent, or a non-empty list of peers none of
which has a pod selector, a namespace selector or an ipBlock) returns exactly
one entry, on the Ingress-Port chain, with the specs
`[-m, set, --match-set, hash(<ALL-NAMESPACES>), src] ++ tS ++
[-j, ACCEPT, -m, comment, --comment, "ALLOW-ALL-TO-" ++ tC ++ "-FROM-<ALL-NAMESPACES>"]`;
the lists are exactly `[<ALL-NAMESPACES>]` and the sets are the target's
labels. -/
theorem allow_all_rule_translation (u : Util) (ns : String) (targetSelector : LabelSelector)
    (rule : NetworkPolicyIngressRule) (tS : List String) (tC : String)
    (hports : rule.Ports = [])
    (hfrom : rule.From = none ∨ ∃ peers, rule.From = some peers ∧ peers ≠ [] ∧
      ∀ peer ∈ peers, peer.PodSelector = none ∧ peer.NamespaceSelector = none ∧
        peer.IPBlock = none)
    (htS : craftPartialIptEntrySpecFromOpsAndLabels u ns (targetOpsAndLabels u ns targetSelector).1
      (targetOpsAndLabels u ns targetSelector).2 IptablesDstFlag false = some tS)
    (htC : craftPartialIptablesCommentFromSelector u ns (some targetSelector) false = some tC) :
    translateIngress u ns targetSelector [rule] =
      some { sets := DropEmptyFields (targetOpsAndLabels u ns targetSelector).2,
             lists := [KubeAllNamespacesFlag],
             entries :=
               [{ Chain := IptablesAzureIngressPortChain,
                  Specs := [IptablesModuleFlag, IptablesSetModuleFlag, IptablesMatchSetFlag,
                            GetHashedName u KubeAllNamespacesFlag, IptablesSrcFlag] ++ tS ++
                    [IptablesJumpFlag, IptablesAccept, IptablesModuleFlag,
                     IptablesCommentModuleFlag, IptablesCommentFlag,
                     "ALLOW-ALL-TO-" ++ tC ++ "-FROM-" ++ KubeAllNamespacesFlag] }] } := by
  rw [translateIngress_of_target u ns targetSelector [rule] tS tC htS htC, foldlM_singleton,
    ingressRule_allow_all u ns tS tC rule hports hfrom]
  simp [ingressFinish, LoopState.init, LoopState.append, LoopState.empty, DropEmptyFields,
    jumpAndComment, KubeAllNamespacesFlag]

/-- C25 at the target `app=web`, for the absent `from` and for a peer without
any field. -/
theorem allow_all_rule_translation_witness :
    translateIngress exampleUtil "default" (selectorOf "app" "web")
        [{ Ports := [], From := none }] =
      some { sets := ["app:web"], lists := ["<ALL-NAMESPACES>"],
             entries :=
               [{ Chain := "AZURE-NPM-INGRESS-PORT",
                  Specs := ["-m", "set", "--match-set", "azure-npm-<ALL-NAMESPACES>", "src",
                            "-m", "set", "--match-set", "azure-npm-app:web", "dst",
                            "-j", "ACCEPT", "-m", "comment", "--comment",
                            "ALLOW-ALL-TO-app:web-FROM-<ALL-NAMESPACES>"] }] } ∧
    translateIngress exampleUtil "default" (selectorOf "app" "web")
        [{ Ports := [],
           From := some [{ PodSelector := none, NamespaceSelector := none, IPBlock := none }] }] =
      translateIngress exampleUtil "default" (selectorOf "app" "web")
        [{ Ports := [], From := none }] :=
  ⟨allow_all_rule_translation exampleUtil "default" (selectorOf "app" "web") _ _ _ rfl
      (Or.inl rfl) rfl rfl,
    rfl⟩

/-! ## C26, the entries as they are built: a rule with the explicit empty list of peers -/

/-- An ingress rule with the explicit empty list of peers (source lines
174-178 and 553-570). -/
theorem ingressRule_explicit_empty (u : Util) (ns : String) (tS : List String) (tC : String)
    (rule : NetworkPolicyIngressRule) (hfrom : rule.From = some []) :
    ingressRule u ns tS tC LoopState.empty rule =
      some { LoopState.empty with
        entries :=
          [{ Chain := IptablesAzureIngressPortChain,
             Specs := tS ++ jumpAndComment IptablesAccept ("ALLOW-ALL-TO-" ++ tC) }],
        addedPortEntry := decide (rule.Ports.length > 0) } := by
  simp [ingressRule, hfrom, LoopState.empty, List.foldlM]

/-- Of the entries as they are built.  For every namespace and target selector
whose fragment `tS` and comment `tC` are built, `translateIngress` on a single
rule whose `from` is the explicit empty list returns, whatever the ports of the
rule are, the ACCEPT entry on the Ingress-Port chain whose only match is the
target fragment, with the comment `"ALLOW-ALL-TO-" ++ tC`, followed by the jump
from Ingress-Port to TargetSets exactly when the rule has ports, and nothing
else; the lists are empty. -/
theorem allow_external_rule_translation (u : Util) (ns : String)
    (targetSelector : LabelSelector) (rule : NetworkPolicyIngressRule) (tS : List String)
    (tC : String) (hfrom : rule.From = some [])
    (htS : craftPartialIptEntrySpecFromOpsAndLabels u ns (targetOpsAndLabels u ns targetSelector).1
      (targetOpsAndLabels u ns targetSelector).2 IptablesDstFlag false = some tS)
    (htC : craftPartialIptablesCommentFromSelector u ns (some targetSelector) false = some tC) :
    translateIngress u ns targetSelector [rule] =
      some { sets := DropEmptyFields (targetOpsAndLabels u ns targetSelector).2,
             lists := [],
             entries :=
               [{ Chain := IptablesAzureIngressPortChain,
                  Specs := tS ++
                    [IptablesJumpFlag, IptablesAccept, IptablesModuleFlag,
                     IptablesCommentModuleFlag, IptablesCommentFlag, "ALLOW-ALL-TO-" ++ tC] }] ++
               (if rule.Ports ≠ [] then
                 [{ Chain := IptablesAzureIngressPortChain,
                    Specs := tS ++
                      [IptablesJumpFlag, IptablesAzureTargetSetsChain, IptablesModuleFlag,
                       IptablesCommentModuleFlag, IptablesCommentFlag,
                       "ALLOW-ALL-TO-" ++ tC ++ "-TO-JUMP-TO-" ++
                         IptablesAzureTargetSetsChain] }]
                else []) } := by
  rw [translateIngress_of_target u ns targetSelector [rule] tS tC htS htC, foldlM_singleton,
    ingressRule_explicit_empty u ns tS tC rule hfrom]
  by_cases hp : rule.Ports = []
  · simp [ingressFinish, LoopState.init, LoopState.append, LoopState.empty, DropEmptyFields,
      jumpAndComment, hp]
  · have hlen : 0 < rule.Ports.length := List.length_pos.2 hp
    simp [ingressFinish, LoopState.init, LoopState.append, LoopState.empty, DropEmptyFields,
      jumpAndComment, hp, hlen]

/-- The entries as they are built, at the target `app=web`, with the port
`TCP/80` and without ports. -/
theorem allow_external_rule_translation_witness :
    translateIngress exampleUtil "default" (selectorOf "app" "web")
        [{ Ports := [{ Protocol := some "TCP", Port := some (.int 80) }], From := some [] }] =
      some { sets := ["app:web"], lists := [],
             entries :=
               [{ Chain := "AZURE-NPM-INGRESS-PORT",
                  Specs := ["-m", "set", "--match-set", "azure-npm-app:web", "dst",
                            "-j", "ACCEPT", "-m", "comment", "--comment",
                            "ALLOW-ALL-TO-app:web"] },
                { Chain := "AZURE-NPM-INGRESS-PORT",
                  Specs := ["-m", "set", "--match-set", "azure-npm-app:web", "dst",
                            "-j", "AZURE-NPM-TARGET-SETS", "-m", "comment", "--comment",
                            "ALLOW-ALL-TO-app:web-TO-JUMP-TO-AZURE-NPM-TARGET-SETS"] }] } ∧
    translateIngress exampleUtil "default" (selectorOf "app" "web")
        [{ Ports := [], From := some [] }] =
      some { sets := ["app:web"], lists := [],
             entries :=
               [{ Chain := "AZURE-NPM-INGRESS-PORT",
                  Specs := ["-m", "set", "--match-set", "azure-npm-app:web", "dst",
                            "-j", "ACCEPT", "-m", "comment", "--comment",
                            "ALLOW-ALL-TO-app:web"] }] } :=
  ⟨allow_external_rule_translation exampleUtil "default" (selectorOf "app" "web") _ _ _ rfl
      rfl rfl,
    allow_external_rule_translation exampleUtil "default" (selectorOf "app" "web") _ _ _ rfl
      rfl rfl⟩

/-! ## C29: the selector-match fragment -/

/-- The single-label match is the match of spec §4.3.2 when the flag is not
empty. -/
theorem craftOpAndLabel_eq (u : Util) (op label flag : String) (isNs : Bool)
    (hflag : flag ≠ "") :
    craftPartialIptEntrySpecFromOpAndLabel u op label flag isNs =
      selectorMatch u op label flag isNs := by
  have hh := GetHashedName_ne_empty u ((if isNs = true then "ns-" else "") ++ label)
  have hh' := GetHashedName_ne_empty u (if isNs = true then "ns-" ++ label else label)
  by_cases hop : op = "" <;> cases isNs <;>
    simp [craftPartialIptEntrySpecFromOpAndLabel, DropEmptyFields, selectorMatch, List.filter,
      hflag, hop, IptablesModuleFlag, IptablesSetModuleFlag, IptablesMatchSetFlag,
      GetHashedName_ne_empty]

/-- Concatenating from the right is flattening. -/
theorem foldr_append_eq_flatten {α : Type} (l : List (List α)) :
    l.foldr (fun a b => a ++ b) [] = l.flatten := by
  induction l with
  | nil => rfl
  | cons x xs ih => simp only [List.foldr_cons, List.flatten_cons, ih]

/-- Zipping the two components of a list of pairs. -/
theorem zipWith_fst_snd {α β γ : Type} (f : α → β → γ) (l : List (α × β)) :
    List.zipWith f (l.map Prod.fst) (l.map Prod.snd) = l.map (fun p => f p.1 p.2) := by
  induction l with
  | nil => rfl
  | cons x xs ih => simp only [List.map_cons, List.zipWith_cons_cons, ih]

/-- The fragment of pairs other than the single empty pair: the matches of
the pairs, in order. -/
theorem craft_of_pairs (u : Util) (ns : String) (pairs : List (String × String))
    (flag : String) (isNs : Bool) (hflag : flag ≠ "") (hne : pairs ≠ [("", "")]) :
    craftPartialIptEntrySpecFromOpsAndLabels u ns (pairs.map Prod.fst) (pairs.map Prod.snd)
        flag isNs =
      some ((pairs.map (fun p => selectorMatch u p.1 p.2 flag isNs)).flatten) := by
  have hcond : ¬ (pairs.map Prod.fst = [""] ∧ pairs.map Prod.snd = [""]) := by
    rintro ⟨h1, h2⟩
    apply hne
    cases pairs with
    | nil => simp at h1
    | cons p ps =>
      cases ps with
      | nil =>
        simp only [List.map_cons, List.map_nil, List.cons.injEq, and_true] at h1 h2
        rw [List.cons.injEq]
        exact ⟨Prod.ext h1 h2, rfl⟩
      | cons q qs => simp at h1
  simp only [craftPartialIptEntrySpecFromOpsAndLabels, if_neg hcond, List.length_map,
    Nat.lt_irrefl, if_false, zipWith_fst_snd, foldr_append_eq_flatten]
  have hfun : (fun p : String × String =>
      craftPartialIptEntrySpecFromOpAndLabel u p.1 p.2 flag isNs) =
      (fun p => selectorMatch u p.1 p.2 flag isNs) :=
    funext (fun p => craftOpAndLabel_eq u p.1 p.2 flag isNs hflag)
  rw [hfun]

/-- The fragment of the single empty pair (source lines 75-97). -/
theorem craft_of_sentinel (u : Util) (ns flag : String) (isNs : Bool) :
    craftPartialIptEntrySpecFromOpsAndLabels u ns [""] [""] flag isNs =
      some (matchSet u (if isNs then KubeAllNamespacesFlag else "ns-" ++ ns) flag) := by
  cases isNs <;> simp [craftPartialIptEntrySpecFromOpsAndLabels, matchSet]

/-- C29. For every namespace `ns` and every flag `f` that is not empty (the
flags are `src` and `dst`): the fragment of a selector the parser answers with
the single empty pair (its answer for the empty selector, spec §4.1) is the
single match `[-m, set, --match-set, hash(N), f]`, `N` being `"ns-" ++ ns` for
a pod selector and `<ALL-NAMESPACES>` for a namespace selector; the fragment of
a selector with any other parsed pairs `(op1,l1)..(opn,ln)` is the
concatenation, in pair order, of the matches
`[-m, set, op_i, --match-set, hash(prefix ++ l_i), f]`, where the operator is
left out when it is empty and stands as the token `!` right before
`--match-set` when it is `!`, and the prefix is `ns-` for a namespace selector
and empty otherwise. -/
theorem selector_fragment (u : Util) (ns flag : String) (isNs : Bool) (hflag : flag ≠ "") :
    (∀ sel, u.GetOperatorsAndLabels (u.parseSelector sel) = [("", "")] →
      craftPartialIptEntrySpecFromSelector u ns sel flag isNs =
        some [IptablesModuleFlag, IptablesSetModuleFlag, IptablesMatchSetFlag,
              GetHashedName u (if isNs then KubeAllNamespacesFlag else "ns-" ++ ns), flag]) ∧
    (ParserSentinel u → ∀ sel : LabelSelector, sel.MatchLabels = [] →
      sel.MatchExpressions = [] →
      craftPartialIptEntrySpecFromSelector u ns (some sel) flag isNs =
        some [IptablesModuleFlag, IptablesSetModuleFlag, IptablesMatchSetFlag,
              GetHashedName u (if isNs then KubeAllNamespacesFlag else "ns-" ++ ns), flag]) ∧
    (∀ sel, u.GetOperatorsAndLabels (u.parseSelector sel) ≠ [("", "")] →
      craftPartialIptEntrySpecFromSelector u ns sel flag isNs =
        some (((u.GetOperatorsAndLabels (u.parseSelector sel)).map
          (fun p => selectorMatch u p.1 p.2 flag isNs)).flatten)) ∧
    (∀ pairs : List (String × String), pairs ≠ [("", "")] →
      craftPartialIptEntrySpecFromOpsAndLabels u ns (pairs.map Prod.fst) (pairs.map Prod.snd)
          flag isNs =
        some ((pairs.map (fun p => selectorMatch u p.1 p.2 flag isNs)).flatten)) ∧
    (∀ op label, craftPartialIptEntrySpecFromOpAndLabel u op label flag isNs =
      selectorMatch u op label flag isNs) ∧
    (∀ label, selectorMatch u "" label flag isNs =
      [IptablesModuleFlag, IptablesSetModuleFlag, IptablesMatchSetFlag,
       GetHashedName u ((if isNs then "ns-" else "") ++ label), flag]) ∧
    (∀ label, selectorMatch u "!" label flag isNs =
      [IptablesModuleFlag, IptablesSetModuleFlag, "!", IptablesMatchSetFlag,
       GetHashedName u ((if isNs then "ns-" else "") ++ label), flag]) := by
  have hsent : ∀ sel, u.GetOperatorsAndLabels (u.parseSelector sel) = [("", "")] →
      craftPartialIptEntrySpecFromSelector u ns sel flag isNs =
        some [IptablesModuleFlag, IptablesSetModuleFlag, IptablesMatchSetFlag,
              GetHashedName u (if isNs then KubeAllNamespacesFlag else "ns-" ++ ns), flag] := by
    intro sel hsel
    simp only [craftPartialIptEntrySpecFromSelector, parsedOps, parsedLabels, hsel,
      List.map_cons, List.map_nil]
    exact craft_of_sentinel u ns flag isNs
  refine ⟨hsent, fun hs sel hl he => hsent (some sel) (hs sel hl he), ?_,
    fun pairs hne => craft_of_pairs u ns pairs flag isNs hflag hne,
    fun op label => craftOpAndLabel_eq u op label flag isNs hflag, fun _ => rfl, fun _ => rfl⟩
  intro sel hsel
  exact craft_of_pairs u ns _ flag isNs hflag hsel

/-- C29 at the empty selector, as namespace and as pod selector, and at the
selector `tier NotIn (db)`. -/
theorem selector_fragment_witness :
    craftPartialIptEntrySpecFromSelector exampleUtil "default" (some emptySelector)
        IptablesSrcFlag true =
      some ["-m", "set", "--match-set", "azure-npm-<ALL-NAMESPACES>", "src"] ∧
    craftPartialIptEntrySpecFromSelector exampleUtil "default" (some emptySelector)
        IptablesSrcFlag false =
      some ["-m", "set", "--match-set", "azure-npm-ns-default", "src"] ∧
    craftPartialIptEntrySpecFromSelector exampleUtil "default" (some notDbSelector)
        IptablesSrcFlag true =
      some ["-m", "set", "!", "--match-set", "azure-npm-ns-tier:db", "src"] :=
  ⟨(selector_fragment exampleUtil "default" IptablesSrcFlag true (by decide)).1 _ rfl,
   (selector_fragment exampleUtil "default" IptablesSrcFlag false (by decide)).1 _ rfl,
   (selector_fragment exampleUtil "default" IptablesSrcFlag true (by decide)).2.2.1 _
     (by decide)⟩

/-! ## C30: the comment of a selector -/

/-- The loop of the comment builder, started after a first text, is the loop
of `String.intercalate` followed by one separator. -/
theorem comment_foldl_eq (g : String × String → String) :
    ∀ (pairs : List (String × String)) (acc : String),
      pairs.foldl (fun comment p => comment ++ g p ++ "-AND-") (acc ++ "-AND-") =
        String.intercalate.go acc "-AND-" (pairs.map g) ++ "-AND-" := by
  intro pairs
  induction pairs with
  | nil => intro acc; rfl
  | cons p ps ih =>
    intro acc
    simp only [List.foldl_cons, List.map_cons, String.intercalate.go]
    exact ih (acc ++ "-AND-" ++ g p)

/-- The comment of a selector with labels or expressions that the parser
answers with at least one pair. -/
theorem comment_of_pairs (u : Util) (ns : String) (sel : LabelSelector) (isNs : Bool)
    (hsel : ¬ (sel.MatchExpressions.length = 0 ∧ sel.MatchLabels.length = 0))
    (hne : u.GetOperatorsAndLabels (u.parseSelector (some sel)) ≠ []) :
    craftPartialIptablesCommentFromSelector u ns (some sel) isNs =
      some (selectorComment (u.GetOperatorsAndLabels (u.parseSelector (some sel))) isNs) := by
  simp only [craftPartialIptablesCommentFromSelector, if_neg hsel]
  cases hpairs : u.GetOperatorsAndLabels (u.parseSelector (some sel)) with
  | nil => exact absurd hpairs hne
  | cons p ps =>
    have hfold : List.foldl
        (fun comment (q : String × String) =>
          comment ++ ((if isNs = true then "ns-" else "") ++ q.1 ++ q.2) ++ "-AND-") ""
        (p :: ps) =
        selectorComment (p :: ps) isNs ++ "-AND-" := by
      simp only [List.foldl_cons, String.empty_append, selectorComment, List.map_cons,
        String.intercalate]
      exact comment_foldl_eq
        (fun q => (if isNs = true then "ns-" else "") ++ q.1 ++ q.2) ps _
    rw [hfold]
    have hlen : ¬ (selectorComment (p :: ps) isNs ++ "-AND-").length < "-AND-".length := by
      rw [String.length_append]
      omega
    rw [if_neg hlen]
    congr 1
    apply String.ext
    simp only [String.data_append, String.length_append, Nat.add_sub_cancel]
    exact List.take_left' rfl

/-- C30. `craftPartialIptablesCommentFromSelector` returns, for a selector
without labels and without expressions, `<ALL-NAMESPACES>` when
`isNamespaceSelector` is true and `"ns-" ++ ns` otherwise; and for a selector
with labels or expressions and parsed pairs `(op1,l1)..(opn,ln)`, `n ≥ 1`, the
texts `prefix ++ op_i ++ l_i` joined by `-AND-` (`String.intercalate`: no
separator before the first or after the last), the prefix being `ns-` when
`isNamespaceSelector` is true and empty otherwise. -/
theorem selector_comment (u : Util) (ns : String) (sel : LabelSelector) (isNs : Bool) :
    (sel.MatchLabels = [] → sel.MatchExpressions = [] →
      craftPartialIptablesCommentFromSelector u ns (some sel) isNs =
        some (if isNs then KubeAllNamespacesFlag else "ns-" ++ ns)) ∧
    (¬ (sel.MatchLabels = [] ∧ sel.MatchExpressions = []) →
      u.GetOperatorsAndLabels (u.parseSelector (some sel)) ≠ [] →
      craftPartialIptablesCommentFromSelector u ns (some sel) isNs =
        some ("-AND-".intercalate
          ((u.GetOperatorsAndLabels (u.parseSelector (some sel))).map
            (fun p => (if isNs then "ns-" else "") ++ p.1 ++ p.2)))) := by
  constructor
  · intro hl he
    cases isNs <;> simp [craftPartialIptablesCommentFromSelector, hl, he]
  · intro hsel hne
    exact comment_of_pairs u ns sel isNs
      (fun h => hsel ⟨List.length_eq_zero.1 h.2, List.length_eq_zero.1 h.1⟩) hne

/-- C30 at the empty selector and at the selector `tier NotIn (db)`; the last
line shows the join of two texts. -/
theorem selector_comment_witness :
    craftPartialIptablesCommentFromSelector exampleUtil "default" (some emptySelector) true =
      some "<ALL-NAMESPACES>" ∧
    craftPartialIptablesCommentFromSelector exampleUtil "default" (some emptySelector) false =
      some "ns-default" ∧
    craftPartialIptablesCommentFromSelector exampleUtil "default" (some notDbSelector) true =
      some "ns-!tier:db" ∧
    "-AND-".intercalate ["ns-a:b", "ns-!c"] = "ns-a:b-AND-ns-!c" :=
  ⟨(selector_comment exampleUtil "default" emptySelector true).1 rfl rfl,
   (selector_comment exampleUtil "default" emptySelector false).1 rfl rfl,
   (selector_comment exampleUtil "default" notDbSelector true).2 (by decide) (by decide),
   rfl⟩

/-! ## The shape of the entries of the loop over the rules -/

theorem infix_append_of_left {α : Type} {a l r : List α} (h : a <:+: l) :
    a <:+: l ++ r :=
  h.trans (List.prefix_append l r).isInfix

theorem infix_append_of_right {α : Type} {a l r : List α} (h : a <:+: r) :
    a <:+: l ++ r :=
  h.trans (List.suffix_append l r).isInfix

set_option linter.unusedTactic false
set_option linter.unreachableTactic false

theorem ingressPeer_inv (u : Util) (ns : String) (tS : List String) (tC : String)
    (ports : List NetworkPolicyPort) (pre : Bool) (peer : NetworkPolicyPeer) (d : LoopState)
    (h : ingressPeer u ns tS tC ports pre LoopState.empty peer = some d) :
    RuleInv IptablesAzureIngressPortChain IptablesAzureIngressFromChain tS d ∧ d.addedPortEntry = false := by
  obtain ⟨pod, nsSel, ip⟩ := peer
  cases ip with
  | some ipBlock =>
    simp only [ingressPeer, LoopState.empty] at h
    split at h <;> split at h <;> (try split at h) <;>
      simp only [Option.some.injEq] at h <;> subst h <;> refine ⟨⟨?_, ?_, ?_⟩, rfl⟩
    all_goals (
      first
      | exact fun hf => absurd hf Bool.false_ne_true
      | exact fun _ => ⟨_, Or.inl (List.mem_append_right _ (List.mem_singleton_self _)), rfl⟩
      | exact fun _ => ⟨_, Or.inr (List.mem_append_right _ (List.mem_singleton_self _)), rfl⟩
      | (obtain ⟨x, hx⟩ := List.exists_mem_of_length_pos (by assumption)
         exact fun _ => ⟨_, Or.inr (List.mem_append_left _
           (List.mem_append_right _ (List.mem_map_of_mem _ hx))), rfl⟩)
      | (obtain ⟨x, hx⟩ := List.exists_mem_of_length_pos (by assumption)
         exact fun _ => ⟨_, Or.inr (List.mem_append_right _ (List.mem_map_of_mem _ hx)), rfl⟩)
      | exact Or.inl rfl
      | (refine Or.inr ?_
         simp only [LoopState.All, List.nil_append, List.forall_mem_append,
           List.forall_mem_map, List.forall_mem_singleton, List.not_mem_nil, implies_true,
           and_self, false_implies, eq_self])
      | (simp only [LoopState.All, List.nil_append, List.forall_mem_append,
        List.forall_mem_map, List.forall_mem_singleton, List.not_mem_nil, implies_true,
        and_self, false_implies, true_and, and_true, or_true]
         repeat' apply And.intro
         all_goals (
          try (intro j _)
          refine ⟨_, _, _, rfl, ?_, ?_⟩
          · first
            | exact List.infix_refl _
            | exact infix_append_of_left (List.infix_refl _)
            | exact infix_append_of_right (List.infix_refl _)
            | exact infix_append_of_left (infix_append_of_left (List.infix_refl _))
            | exact infix_append_of_left (infix_append_of_right (List.infix_refl _))
            | exact infix_append_of_left (infix_append_of_left
                (infix_append_of_left (List.infix_refl _)))
          · first
            | exact Or.inl ⟨rfl, rfl⟩
            | exact Or.inr ⟨rfl, Or.inl rfl⟩
            | exact Or.inr ⟨rfl, Or.inr rfl⟩)))
  | none =>
    cases pod with
    | none =>
      cases nsSel with
      | none =>
        simp only [ingressPeer, LoopState.empty, Option.some.injEq] at h
        subst h
        refine ⟨⟨?_, Or.inr ?_, fun hf => absurd hf Bool.false_ne_true⟩, rfl⟩ <;>
          simp only [LoopState.All, List.not_mem_nil, false_implies, implies_true, and_self]
      | some nsSel =>
        simp only [ingressPeer, LoopState.empty, Option.bind_eq_bind, Option.bind_eq_some,
          Option.pure_def] at h
        obtain ⟨a, -, b, -, h⟩ := h
        split at h <;>
          simp only [Option.some.injEq] at h <;> subst h <;> refine ⟨⟨?_, ?_, ?_⟩, rfl⟩
        all_goals (
      first
      | exact fun hf => absurd hf Bool.false_ne_true
      | exact fun _ => ⟨_, Or.inl (List.mem_append_right _ (List.mem_singleton_self _)), rfl⟩
      | exact fun _ => ⟨_, Or.inr (List.mem_append_right _ (List.mem_singleton_self _)), rfl⟩
      | (obtain ⟨x, hx⟩ := List.exists_mem_of_length_pos (by assumption)
         exact fun _ => ⟨_, Or.inr (List.mem_append_left _
           (List.mem_append_right _ (List.mem_map_of_mem _ hx))), rfl⟩)
      | (obtain ⟨x, hx⟩ := List.exists_mem_of_length_pos (by assumption)
         exact fun _ => ⟨_, Or.inr (List.mem_append_right _ (List.mem_map_of_mem _ hx)), rfl⟩)
      | exact Or.inl rfl
      | (refine Or.inr ?_
         simp only [LoopState.All, List.nil_append, List.forall_mem_append,
           List.forall_mem_map, List.forall_mem_singleton, List.not_mem_nil, implies_true,
           and_self, false_implies, eq_self])
      | (simp only [LoopState.All, List.nil_append, List.forall_mem_append,
        List.forall_mem_map, List.forall_mem_singleton, List.not_mem_nil, implies_true,
        and_self, false_implies, true_and, and_true, or_true]
         repeat' apply And.intro
         all_goals (
          try (intro j _)
          refine ⟨_, _, _, rfl, ?_, ?_⟩
          · first
            | exact List.infix_refl _
            | exact infix_append_of_left (List.infix_refl _)
            | exact infix_append_of_right (List.infix_refl _)
            | exact infix_append_of_left (infix_append_of_left (List.infix_refl _))
            | exact infix_append_of_left (infix_append_of_right (List.infix_refl _))
            | exact infix_append_of_left (infix_append_of_left
                (infix_append_of_left (List.infix_refl _)))
          · first
            | exact Or.inl ⟨rfl, rfl⟩
            | exact Or.inr ⟨rfl, Or.inl rfl⟩
            | exact Or.inr ⟨rfl, Or.inr rfl⟩)))
    | some podSel =>
      cases nsSel with
      | none =>
        simp only [ingressPeer, LoopState.empty, Option.bind_eq_bind, Option.bind_eq_some,
          Option.pure_def] at h
        obtain ⟨a, -, b, -, h⟩ := h
        split at h <;>
          simp only [Option.some.injEq] at h <;> subst h <;> refine ⟨⟨?_, ?_, ?_⟩, rfl⟩
        all_goals (
      first
      | exact fun hf => absurd hf Bool.false_ne_true
      | exact fun _ => ⟨_, Or.inl (List.mem_append_right _ (List.mem_singleton_self _)), rfl⟩
      | exact fun _ => ⟨_, Or.inr (List.mem_append_right _ (List.mem_singleton_self _)), rfl⟩
      | (obtain ⟨x, hx⟩ := List.exists_mem_of_length_pos (by assumption)
         exact fun _ => ⟨_, Or.inr (List.mem_append_left _
           (List.mem_append_right _ (List.mem_map_of_mem _ hx))), rfl⟩)
      | (obtain ⟨x, hx⟩ := List.exists_mem_of_length_pos (by assumption)
         exact fun _ => ⟨_, Or.inr (List.mem_append_right _ (List.mem_map_of_mem _ hx)), rfl⟩)
      | exact Or.inl rfl
      | (refine Or.inr ?_
         simp only [LoopState.All, List.nil_append, List.forall_mem_append,
           List.forall_mem_map, List.forall_mem_singleton, List.not_mem_nil, implies_true,
           and_self, false_implies, eq_self])
      | (simp only [LoopState.All, List.nil_append, List.forall_mem_append,
        List.forall_mem_map, List.forall_mem_singleton, List.not_mem_nil, implies_true,
        and_self, false_implies, true_and, and_true, or_true]
         repeat' apply And.intro
         all_goals (
          try (intro j _)
          refine ⟨_, _, _, rfl, ?_, ?_⟩
          · first
            | exact List.infix_refl _
            | exact infix_append_of_left (List.infix_refl _)
            | exact infix_append_of_right (List.infix_refl _)
            | exact infix_append_of_left (infix_append_of_left (List.infix_refl _))
            | exact infix_append_of_left (infix_append_of_right (List.infix_refl _))
            | exact infix_append_of_left (infix_append_of_left
                (infix_append_of_left (List.infix_refl _)))
          · first
            | exact Or.inl ⟨rfl, rfl⟩
            | exact Or.inr ⟨rfl, Or.inl rfl⟩
            | exact Or.inr ⟨rfl, Or.inr rfl⟩)))
      | some nsSel =>
        simp only [ingressPeer, LoopState.empty, Option.bind_eq_bind, Option.pure_def] at h
        split at h
        · simp only [Option.some.injEq] at h
          subst h
          refine ⟨⟨?_, Or.inr ?_, fun hf => absurd hf Bool.false_ne_true⟩, rfl⟩ <;>
            simp only [LoopState.All, List.not_mem_nil, false_implies, implies_true, and_self]
        · simp only [Option.bind_eq_some] at h
          obtain ⟨a, -, a2, -, b, -, b2, -, h⟩ := h
          split at h <;>
            simp only [Option.some.injEq] at h <;> subst h <;> refine ⟨⟨?_, ?_, ?_⟩, rfl⟩
          all_goals (
      first
      | exact fun hf => absurd hf Bool.false_ne_true
      | exact fun _ => ⟨_, Or.inl (List.mem_append_right _ (List.mem_singleton_self _)), rfl⟩
      | exact fun _ => ⟨_, Or.inr (List.mem_append_right _ (List.mem_singleton_self _)), rfl⟩
      | (obtain ⟨x, hx⟩ := List.exists_mem_of_length_pos (by assumption)
         exact fun _ => ⟨_, Or.inr (List.mem_append_left _
           (List.mem_append_right _ (List.mem_map_of_mem _ hx))), rfl⟩)
      | (obtain ⟨x, hx⟩ := List.exists_mem_of_length_pos (by assumption)
         exact fun _ => ⟨_, Or.inr (List.mem_append_right _ (List.mem_map_of_mem _ hx)), rfl⟩)
      | exact Or.inl rfl
      | (refine Or.inr ?_
         simp only [LoopState.All, List.nil_append, List.forall_mem_append,
           List.forall_mem_map, List.forall_mem_singleton, List.not_mem_nil, implies_true,
           and_self, false_implies, eq_self])
      | (simp only [LoopState.All, List.nil_append, List.forall_mem_append,
        List.forall_mem_map, List.forall_mem_singleton, List.not_mem_nil, implies_true,
        and_self, false_implies, true_and, and_true, or_true]
         repeat' apply And.intro
         all_goals (
          try (intro j _)
          refine ⟨_, _, _, rfl, ?_, ?_⟩
          · first
            | exact List.infix_refl _
            | exact infix_append_of_left (List.infix_refl _)
            | exact infix_append_of_right (List.infix_refl _)
            | exact infix_append_of_left (infix_append_of_left (List.infix_refl _))
            | exact infix_append_of_left (infix_append_of_right (List.infix_refl _))
            | exact infix_append_of_left (infix_append_of_left
                (infix_append_of_left (List.infix_refl _)))
          · first
            | exact Or.inl ⟨rfl, rfl⟩
            | exact Or.inr ⟨rfl, Or.inl rfl⟩
            | exact Or.inr ⟨rfl, Or.inr rfl⟩)))

theorem egressPeer_inv (u : Util) (ns : String) (tS : List String) (tC : String)
    (ports : List NetworkPolicyPort) (pre : Bool) (peer : NetworkPolicyPeer) (d : LoopState)
    (h : egressPeer u ns tS tC ports pre LoopState.empty peer = some d) :
    RuleInv IptablesAzureEgressPortChain IptablesAzureEgressToChain tS d ∧ d.addedPortEntry = false := by
  obtain ⟨pod, nsSel, ip⟩ := peer
  cases ip with
  | some ipBlock =>
    simp only [egressPeer, LoopState.empty] at h
    split at h <;> split at h <;> (try split at h) <;>
      simp only [Option.some.injEq] at h <;> subst h <;> refine ⟨⟨?_, ?_, ?_⟩, rfl⟩
    all_goals (
      first
      | exact fun hf => absurd hf Bool.false_ne_true
      | exact fun _ => ⟨_, Or.inl (List.mem_append_right _ (List.mem_singleton_self _)), rfl⟩
      | exact fun _ => ⟨_, Or.inr (List.mem_append_right _ (List.mem_singleton_self _)), rfl⟩
      | (obtain ⟨x, hx⟩ := List.exists_mem_of_length_pos (by assumption)
         exact fun _ => ⟨_, Or.inr (List.mem_append_left _
           (List.mem_append_right _ (List.mem_map_of_mem _ hx))), rfl⟩)
      | (obtain ⟨x, hx⟩ := List.exists_mem_of_length_pos (by assumption)
         exact fun _ => ⟨_, Or.inr (List.mem_append_right _ (List.mem_map_of_mem _ hx)), rfl⟩)
      | exact Or.inl rfl
      | (refine Or.inr ?_
         simp only [LoopState.All, List.nil_append, List.forall_mem_append,
           List.forall_mem_map, List.forall_mem_singleton, List.not_mem_nil, implies_true,
           and_self, false_implies, eq_self])
      | (simp only [LoopState.All, List.nil_append, List.forall_mem_append,
        List.forall_mem_map, List.forall_mem_singleton, List.not_mem_nil, implies_true,
        and_self, false_implies, true_and, and_true, or_true]
         repeat' apply And.intro
         all_goals (
          try (intro j _)
          refine ⟨_, _, _, rfl, ?_, ?_⟩
          · first
            | exact List.infix_refl _
            | exact infix_append_of_left (List.infix_refl _)
            | exact infix_append_of_right (List.infix_refl _)
            | exact infix_append_of_left (infix_append_of_left (List.infix_refl _))
            | exact infix_append_of_left (infix_append_of_right (List.infix_refl _))
            | exact infix_append_of_left (infix_append_of_left
                (infix_append_of_left (List.infix_refl _)))
          · first
            | exact Or.inl ⟨rfl, rfl⟩
            | exact Or.inr ⟨rfl, Or.inl rfl⟩
            | exact Or.inr ⟨rfl, Or.inr rfl⟩)))
  | none =>
    cases pod with
    | none =>
      cases nsSel with
      | none =>
        simp only [egressPeer, LoopState.empty, Option.some.injEq] at h
        subst h
        refine ⟨⟨?_, Or.inr ?_, fun hf => absurd hf Bool.false_ne_true⟩, rfl⟩ <;>
          simp only [LoopState.All, List.not_mem_nil, false_implies, implies_true, and_self]
      | some nsSel =>
        simp only [egressPeer, LoopState.empty, Option.bind_eq_bind, Option.bind_eq_some,
          Option.pure_def] at h
        obtain ⟨a, -, b, -, h⟩ := h
        split at h <;>
          simp only [Option.some.injEq] at h <;> subst h <;> refine ⟨⟨?_, ?_, ?_⟩, rfl⟩
        all_goals (
      first
      | exact fun hf => absurd hf Bool.false_ne_true
      | exact fun _ => ⟨_, Or.inl (List.mem_append_right _ (List.mem_singleton_self _)), rfl⟩
      | exact fun _ => ⟨_, Or.inr (List.mem_append_right _ (List.mem_singleton_self _)), rfl⟩
      | (obtain ⟨x, hx⟩ := List.exists_mem_of_length_pos (by assumption)
         exact fun _ => ⟨_, Or.inr (List.mem_append_left _
           (List.mem_append_right _ (List.mem_map_of_mem _ hx))), rfl⟩)
      | (obtain ⟨x, hx⟩ := List.exists_mem_of_length_pos (by assumption)
         exact fun _ => ⟨_, Or.inr (List.mem_append_right _ (List.mem_map_of_mem _ hx)), rfl⟩)
      | exact Or.inl rfl
      | (refine Or.inr ?_
         simp only [LoopState.All, List.nil_append, List.forall_mem_append,
           List.forall_mem_map, List.forall_mem_singleton, List.not_mem_nil, implies_true,
           and_self, false_implies, eq_self])
      | (simp only [LoopState.All, List.nil_append, List.forall_mem_append,
        List.forall_mem_map, List.forall_mem_singleton, List.not_mem_nil, implies_true,
        and_self, false_implies, true_and, and_true, or_true]
         repeat' apply And.intro
         all_goals (
          try (intro j _)
          refine ⟨_, _, _, rfl, ?_, ?_⟩
          · first
            | exact List.infix_refl _
            | exact infix_append_of_left (List.infix_refl _)
            | exact infix_append_of_right (List.infix_refl _)
            | exact infix_append_of_left (infix_append_of_left (List.infix_refl _))
            | exact infix_append_of_left (infix_append_of_right (List.infix_refl _))
            | exact infix_append_of_left (infix_append_of_left
                (infix_append_of_left (List.infix_refl _)))
          · first
            | exact Or.inl ⟨rfl, rfl⟩
            | exact Or.inr ⟨rfl, Or.inl rfl⟩
            | exact Or.inr ⟨rfl, Or.inr rfl⟩)))
    | some podSel =>
      cases nsSel with
      | none =>
        simp only [egressPeer, LoopState.empty, Option.bind_eq_bind, Option.bind_eq_some,
          Option.pure_def] at h
        obtain ⟨a, -, b, -, h⟩ := h
        split at h <;>
          simp only [Option.some.injEq] at h <;> subst h <;> refine ⟨⟨?_, ?_, ?_⟩, rfl⟩
        all_goals (
      first
      | exact fun hf => absurd hf Bool.false_ne_true
      | exact fun _ => ⟨_, Or.inl (List.mem_append_right _ (List.mem_singleton_self _)), rfl⟩
      | exact fun _ => ⟨_, Or.inr (List.mem_append_right _ (List.mem_singleton_self _)), rfl⟩
      | (obtain ⟨x, hx⟩ := List.exists_mem_of_length_pos (by assumption)
         exact fun _ => ⟨_, Or.inr (List.mem_append_left _
           (List.mem_append_right _ (List.mem_map_of_mem _ hx))), rfl⟩)
      | (obtain ⟨x, hx⟩ := List.exists_mem_of_length_pos (by assumption)
         exact fun _ => ⟨_, Or.inr (List.mem_append_right _ (List.mem_map_of_mem _ hx)), rfl⟩)
      | exact Or.inl rfl
      | (refine Or.inr ?_
         simp only [LoopState.All, List.nil_append, List.forall_mem_append,
           List.forall_mem_map, List.forall_mem_singleton, List.not_mem_nil, implies_true,
           and_self, false_implies, eq_self])
      | (simp only [LoopState.All, List.nil_append, List.forall_mem_append,
        List.forall_mem_map, List.forall_mem_singleton, List.not_mem_nil, implies_true,
        and_self, false_implies, true_and, and_true, or_true]
         repeat' apply And.intro
         all_goals (
          try (intro j _)
          refine ⟨_, _, _, rfl, ?_, ?_⟩
          · first
            | exact List.infix_refl _
            | exact infix_append_of_left (List.infix_refl _)
            | exact infix_append_of_right (List.infix_refl _)
            | exact infix_append_of_left (infix_append_of_left (List.infix_refl _))
            | exact infix_append_of_left (infix_append_of_right (List.infix_refl _))
            | exact infix_append_of_left (infix_append_of_left
                (infix_append_of_left (List.infix_refl _)))
          · first
            | exact Or.inl ⟨rfl, rfl⟩
            | exact Or.inr ⟨rfl, Or.inl rfl⟩
            | exact Or.inr ⟨rfl, Or.inr rfl⟩)))
      | some nsSel =>
        simp only [egressPeer, LoopState.empty, Option.bind_eq_bind, Option.pure_def] at h
        split at h
        · simp only [Option.some.injEq] at h
          subst h
          refine ⟨⟨?_, Or.inr ?_, fun hf => absurd hf Bool.false_ne_true⟩, rfl⟩ <;>
            simp only [LoopState.All, List.not_mem_nil, false_implies, implies_true, and_self]
        · simp only [Option.bind_eq_some] at h
          obtain ⟨a, -, a2, -, b, -, b2, -, h⟩ := h
          split at h <;>
            simp only [Option.some.injEq] at h <;> subst h <;> refine ⟨⟨?_, ?_, ?_⟩, rfl⟩
          all_goals (
      first
      | exact fun hf => absurd hf Bool.false_ne_true
      | exact fun _ => ⟨_, Or.inl (List.mem_append_right _ (List.mem_singleton_self _)), rfl⟩
      | exact fun _ => ⟨_, Or.inr (List.mem_append_right _ (List.mem_singleton_self _)), rfl⟩
      | (obtain ⟨x, hx⟩ := List.exists_mem_of_length_pos (by assumption)
         exact fun _ => ⟨_, Or.inr (List.mem_append_left _
           (List.mem_append_right _ (List.mem_map_of_mem _ hx))), rfl⟩)
      | (obtain ⟨x, hx⟩ := List.exists_mem_of_length_pos (by assumption)
         exact fun _ => ⟨_, Or.inr (List.mem_append_right _ (List.mem_map_of_mem _ hx)), rfl⟩)
      | exact Or.inl rfl
      | (refine Or.inr ?_
         simp only [LoopState.All, List.nil_append, List.forall_mem_append,
           List.forall_mem_map, List.forall_mem_singleton, List.not_mem_nil, implies_true,
           and_self, false_implies, eq_self])
      | (simp only [LoopState.All, List.nil_append, List.forall_mem_append,
        List.forall_mem_map, List.forall_mem_singleton, List.not_mem_nil, implies_true,
        and_self, false_implies, true_and, and_true, or_true]
         repeat' apply And.intro
         all_goals (
          try (intro j _)
          refine ⟨_, _, _, rfl, ?_, ?_⟩
          · first
            | exact List.infix_refl _
            | exact infix_append_of_left (List.infix_refl _)
            | exact infix_append_of_right (List.infix_refl _)
            | exact infix_append_of_left (infix_append_of_left (List.infix_refl _))
            | exact infix_append_of_left (infix_append_of_right (List.infix_refl _))
            | exact infix_append_of_left (infix_append_of_left
                (infix_append_of_left (List.infix_refl _)))
          · first
            | exact Or.inl ⟨rfl, rfl⟩
            | exact Or.inr ⟨rfl, Or.inl rfl⟩
            | exact Or.inr ⟨rfl, Or.inr rfl⟩)))

set_option linter.unusedTactic true
set_option linter.unreachableTactic true

theorem foldlM_additive_inv {α : Type} (f : LoopState → α → Option LoopState)
    (hf : ∀ s x, f s x = (f LoopState.empty x).map (LoopState.append s))
    (I : LoopState → Prop) (h0 : I LoopState.empty)
    (happ : ∀ a b, I a → I b → I (a.append b)) :
    ∀ (xs : List α), (∀ x ∈ xs, ∀ d, f LoopState.empty x = some d → I d) →
      ∀ d : LoopState, xs.foldlM f LoopState.empty = some d → I d := by
  intro xs
  induction xs with
  | nil =>
    intro _ d h
    simp only [List.foldlM_nil, Option.pure_def, Option.some.injEq] at h
    subst h
    exact h0
  | cons x xs ih =>
    intro hx d h
    simp only [List.foldlM_cons, Option.bind_eq_bind, Option.bind_eq_some] at h
    obtain ⟨dx, hdx, h⟩ := h
    rw [foldlM_additive f hf] at h
    simp only [Option.map_eq_some'] at h
    obtain ⟨d2, h2, rfl⟩ := h
    exact happ _ _ (hx x (List.mem_cons_self _ _) dx hdx)
      (ih (fun y hy => hx y (List.mem_cons_of_mem _ hy)) d2 h2)

theorem ruleInv_empty (portChain peerChain : String) (tS : List String) :
    RuleInv portChain peerChain tS LoopState.empty := by
  refine ⟨?_, Or.inr ?_, fun hf => absurd hf Bool.false_ne_true⟩ <;>
    simp only [LoopState.All, LoopState.empty, List.not_mem_nil, false_implies, implies_true,
      and_self]

theorem ruleInv_append (portChain peerChain : String) (tS : List String) (a b : LoopState)
    (ha : RuleInv portChain peerChain tS a) (hb : RuleInv portChain peerChain tS b) :
    RuleInv portChain peerChain tS (a.append b) := by
  obtain ⟨ha1, ha2, ha3⟩ := ha
  obtain ⟨hb1, hb2, hb3⟩ := hb
  refine ⟨?_, ?_, ?_⟩
  · simp only [LoopState.All, LoopState.append, List.forall_mem_append]
    exact ⟨⟨ha1.1, hb1.1⟩, ha1.2, hb1.2⟩
  · rcases ha2 with ha2 | ha2
    · left
      simp only [LoopState.append, ha2, Bool.true_or]
    · rcases hb2 with hb2 | hb2
      · left
        simp only [LoopState.append, hb2, Bool.or_true]
      · right
        simp only [LoopState.All, LoopState.append, List.forall_mem_append]
        exact ⟨⟨ha2.1, hb2.1⟩, ha2.2, hb2.2⟩
  · intro hf
    simp only [LoopState.append, Bool.or_eq_true] at hf
    simp only [LoopState.append, List.mem_append]
    rcases hf with hf | hf
    · obtain ⟨e, he, hc⟩ := ha3 hf
      exact ⟨e, he.imp Or.inl Or.inl, hc⟩
    · obtain ⟨e, he, hc⟩ := hb3 hf
      exact ⟨e, he.imp Or.inr Or.inr, hc⟩

/-- A state with one more entry on the Port chain in its main list. -/
theorem ruleInv_snoc (portChain peerChain : String) (tS : List String) (a : LoopState)
    (e : IptEntry) (flag : Bool) (ha : RuleInv portChain peerChain tS a)
    (he : RuleEntry portChain peerChain tS e) (hc : e.Chain = portChain) :
    RuleInv portChain peerChain tS
      { a with entries := a.entries ++ [e], addedPortEntry := flag } := by
  obtain ⟨ha1, ha2, ha3⟩ := ha
  refine ⟨?_, ?_, ?_⟩
  · simp only [LoopState.All, List.forall_mem_append, List.forall_mem_singleton]
    exact ⟨⟨ha1.1, he⟩, ha1.2⟩
  · rcases ha2 with ha2 | ha2
    · exact Or.inl ha2
    · right
      simp only [LoopState.All, List.forall_mem_append, List.forall_mem_singleton]
      exact ⟨⟨ha2.1, hc⟩, ha2.2⟩
  · intro hf
    obtain ⟨x, hx, hxc⟩ := ha3 hf
    exact ⟨x, hx.imp (fun h => List.mem_append_left _ h) id, hxc⟩

theorem ruleInv_port_append (portChain peerChain : String) (tS : List String) (a b : LoopState)
    (ha : RuleInv portChain peerChain tS a ∧ a.addedPortEntry = false)
    (hb : RuleInv portChain peerChain tS b ∧ b.addedPortEntry = false) :
    RuleInv portChain peerChain tS (a.append b) ∧ (a.append b).addedPortEntry = false := by
  refine ⟨ruleInv_append _ _ _ _ _ ha.1 hb.1, ?_⟩
  simp only [LoopState.append, ha.2, hb.2, Bool.or_self]

theorem foldlM_additive_flag {α : Type} (f : LoopState → α → Option LoopState)
    (hf : ∀ s x, f s x = (f LoopState.empty x).map (LoopState.append s))
    (v : α → Bool)
    (hstep : ∀ x d, f LoopState.empty x = some d → d.addedPortEntry = v x) :
    ∀ (xs : List α) (d : LoopState), xs.foldlM f LoopState.empty = some d →
      d.addedPortEntry = xs.any v := by
  intro xs
  induction xs with
  | nil =>
    intro d h
    simp only [List.foldlM_nil, Option.pure_def, Option.some.injEq] at h
    subst h
    rfl
  | cons x xs ih =>
    intro d h
    simp only [List.foldlM_cons, Option.bind_eq_bind, Option.bind_eq_some] at h
    obtain ⟨dx, hdx, h⟩ := h
    rw [foldlM_additive f hf] at h
    simp only [Option.map_eq_some'] at h
    obtain ⟨d2, h2, rfl⟩ := h
    simp only [LoopState.append, List.any_cons, hstep x dx hdx, ih d2 h2]

theorem ruleInv_nil_append (portChain peerChain : String) (tS : List String) (flag : Bool)
    (d : LoopState) (h : RuleInv portChain peerChain tS d) :
    RuleInv portChain peerChain tS
      (LoopState.append { LoopState.empty with addedPortEntry := flag } d) := by
  have h0 : LoopState.append { LoopState.empty with addedPortEntry := flag } d =
      { d with addedPortEntry := flag || d.addedPortEntry } := by
    simp only [LoopState.append, LoopState.empty, List.nil_append, Bool.false_or]
  rw [h0]
  exact h

theorem ingressRule_inv (u : Util) (ns : String) (tS : List String) (tC : String)
    (rule : NetworkPolicyIngressRule) (d : LoopState)
    (h : ingressRule u ns tS tC LoopState.empty rule = some d) :
    RuleInv IptablesAzureIngressPortChain IptablesAzureIngressFromChain tS d ∧
      d.addedPortEntry = decide (rule.Ports.length > 0) := by
  simp only [ingressRule] at h
  split at h
  · simp only [Option.some.injEq] at h
    subst h
    refine ⟨⟨?_, Or.inr ?_, fun hf => absurd hf Bool.false_ne_true⟩, ?_⟩
    · simp only [LoopState.empty, LoopState.All, List.nil_append, List.forall_mem_singleton,
        List.not_mem_nil, implies_true, false_implies, and_true]
      exact ⟨_, _, _, rfl, infix_append_of_right (List.infix_refl _), Or.inl ⟨rfl, rfl⟩⟩
    · simp only [LoopState.empty, LoopState.All, List.nil_append, List.forall_mem_singleton,
        List.not_mem_nil, implies_true, false_implies, and_true]
    · simp only [LoopState.empty, Bool.false_or]
  · split at h
    · simp only [Option.some.injEq] at h
      subst h
      refine ⟨⟨?_, Or.inr ?_, fun hf => absurd hf Bool.false_ne_true⟩, ?_⟩
      · simp only [LoopState.empty, LoopState.All, List.nil_append, List.forall_mem_map,
          List.not_mem_nil, implies_true, false_implies, and_true]
        intro j _
        exact ⟨_, _, _, rfl, infix_append_of_right (List.infix_refl _), Or.inl ⟨rfl, rfl⟩⟩
      · simp only [LoopState.empty, LoopState.All, List.nil_append, List.forall_mem_map,
          List.not_mem_nil, implies_true, false_implies, and_true]
      · simp only [LoopState.empty, Bool.false_or]
    · simp only [Option.bind_eq_bind, Option.bind_eq_some] at h
      obtain ⟨d1, h1, h⟩ := h
      rw [foldlM_additive _ (ingressPeer_append u ns tS tC rule.Ports _)] at h1
      simp only [Option.map_eq_some'] at h1
      obtain ⟨d2, h2, rfl⟩ := h1
      obtain ⟨hinv, hport⟩ := foldlM_additive_inv _
        (ingressPeer_append u ns tS tC rule.Ports _)
        (fun d => RuleInv IptablesAzureIngressPortChain IptablesAzureIngressFromChain tS d ∧
          d.addedPortEntry = false)
        ⟨ruleInv_empty _ _ _, rfl⟩ (ruleInv_port_append _ _ _) (rule.From.getD [])
        (fun x _ d hd => ingressPeer_inv u ns tS tC rule.Ports _ x d hd) d2 h2
      have hinv1 := ruleInv_nil_append _ _ _ (false || decide (rule.Ports.length > 0)) d2 hinv
      have hext : RuleEntry IptablesAzureIngressPortChain IptablesAzureIngressFromChain tS
          { Chain := IptablesAzureIngressPortChain,
            Specs := tS ++ jumpAndComment IptablesAccept ("ALLOW-ALL-TO-" ++ tC) } :=
        ⟨_, _, _, rfl, List.infix_refl _, Or.inl ⟨rfl, rfl⟩⟩
      split at h <;>
        simp only [Option.some.injEq] at h <;> subst h <;>
        refine ⟨?_, ?_⟩
      · exact ruleInv_snoc _ _ _ _ _ _ hinv1 hext rfl
      · simp only [LoopState.append, LoopState.empty, hport, Bool.false_or, Bool.or_false]
      · exact hinv1
      · simp only [LoopState.append, LoopState.empty, hport, Bool.false_or, Bool.or_false]

theorem allowExternal_eq (peers : Option (List NetworkPolicyPeer)) :
    (match peers with
      | some peers => decide (peers.length = 0)
      | none => false) = decide (peers = some []) := by
  cases peers with
  | none => simp
  | some peers => cases peers <;> simp

theorem egressRule_inv (u : Util) (ns : String) (tS : List String) (tC : String)
    (rule : NetworkPolicyEgressRule) (d : LoopState)
    (h : egressRule u ns tS tC LoopState.empty rule = some d) :
    RuleInv IptablesAzureEgressPortChain IptablesAzureEgressToChain tS d ∧
      d.addedPortEntry = (decide (rule.Ports.length > 0) || decide (rule.To = some [])) := by
  simp only [egressRule] at h
  split at h
  · rename_i hc
    simp only [Bool.and_eq_true, Bool.not_eq_true'] at hc
    simp only [Option.some.injEq] at h
    subst h
    refine ⟨⟨?_, Or.inr ?_, fun hf => absurd hf Bool.false_ne_true⟩, ?_⟩
    · simp only [LoopState.empty, LoopState.All, List.nil_append, List.forall_mem_singleton,
        List.not_mem_nil, implies_true, false_implies, and_true]
      exact ⟨_, _, _, (List.append_assoc _ _ _).symm,
        infix_append_of_left (List.infix_refl _), Or.inl ⟨rfl, rfl⟩⟩
    · simp only [LoopState.empty, LoopState.All, List.nil_append, List.forall_mem_singleton,
        List.not_mem_nil, implies_true, false_implies, and_true]
    · have hext : decide (rule.To = some []) = false := by
        rw [← allowExternal_eq]
        exact hc.2
      simp only [LoopState.empty, Bool.false_or, hext, Bool.or_false]
  · split at h
    · rename_i hc
      simp only [Bool.and_eq_true, Bool.not_eq_true'] at hc
      simp only [Option.some.injEq] at h
      subst h
      refine ⟨⟨?_, Or.inr ?_, fun hf => absurd hf Bool.false_ne_true⟩, ?_⟩
      · simp only [LoopState.empty, LoopState.All, List.nil_append, List.forall_mem_map,
          List.not_mem_nil, implies_true, false_implies, and_true]
        intro j _
        exact ⟨_, _, _, rfl, infix_append_of_right (List.infix_refl _), Or.inl ⟨rfl, rfl⟩⟩
      · simp only [LoopState.empty, LoopState.All, List.nil_append, List.forall_mem_map,
          List.not_mem_nil, implies_true, false_implies, and_true]
      · have hext : decide (rule.To = some []) = false := by
          rw [← allowExternal_eq]
          exact hc.2
        simp only [LoopState.empty, Bool.false_or, hext, Bool.or_false]
    · simp only [Option.bind_eq_bind, Option.bind_eq_some] at h
      obtain ⟨d1, h1, h⟩ := h
      rw [foldlM_additive _ (egressPeer_append u ns tS tC rule.Ports _)] at h1
      simp only [Option.map_eq_some'] at h1
      obtain ⟨d2, h2, rfl⟩ := h1
      obtain ⟨hinv, hport⟩ := foldlM_additive_inv _
        (egressPeer_append u ns tS tC rule.Ports _)
        (fun d => RuleInv IptablesAzureEgressPortChain IptablesAzureEgressToChain tS d ∧
          d.addedPortEntry = false)
        ⟨ruleInv_empty _ _ _, rfl⟩ (ruleInv_port_append _ _ _) (rule.To.getD [])
        (fun x _ d hd => egressPeer_inv u ns tS tC rule.Ports _ x d hd) d2 h2
      have hinv1 := ruleInv_nil_append _ _ _ (false || decide (rule.Ports.length > 0)) d2 hinv
      have hext : RuleEntry IptablesAzureEgressPortChain IptablesAzureEgressToChain tS
          { Chain := IptablesAzureEgressPortChain,
            Specs := tS ++ jumpAndComment IptablesAccept ("ALLOW-ALL-FROM-" ++ tC) } :=
        ⟨_, _, _, rfl, List.infix_refl _, Or.inl ⟨rfl, rfl⟩⟩
      split at h <;> rename_i hc <;>
        simp only [Option.some.injEq] at h <;> subst h <;>
        refine ⟨?_, ?_⟩
      · exact ruleInv_snoc _ _ _ _ _ _ hinv1 hext rfl
      · have hext : decide (rule.To = some []) = true := by
          rw [← allowExternal_eq]
          exact hc
        simp only [hext, Bool.or_true]
      · exact hinv1
      · have hext : decide (rule.To = some []) = false := by
          rw [← allowExternal_eq]
          simp only [Bool.not_eq_true] at hc
          exact hc
        simp only [LoopState.append, LoopState.empty, hport, Bool.false_or, Bool.or_false,
          hext]

theorem jumpTarget_mk (chain : String) (m : List String) (T c : String) :
    IptEntry.jumpTarget { Chain := chain, Specs := m ++ jumpAndComment T c } = some T := by
  simp [IptEntry.jumpTarget, jumpAndComment]

theorem jumpTarget_of_specs (e : IptEntry) (m : List String) (T c : String)
    (h : e.Specs = m ++ jumpAndComment T c) : e.jumpTarget = some T := by
  simp [IptEntry.jumpTarget, h, jumpAndComment]

theorem ruleEntry_jumpTarget (portChain peerChain : String) (tS : List String) (e : IptEntry)
    (h : RuleEntry portChain peerChain tS e) :
    e.jumpTarget = some IptablesAccept ∨ e.jumpTarget = some IptablesDrop := by
  obtain ⟨m, T, c, hs, -, h | h⟩ := h
  · left
    rw [jumpTarget_of_specs e m T c hs, h.2]
  · rcases h.2 with hT | hT
    · left
      rw [jumpTarget_of_specs e m T c hs, hT]
    · right
      rw [jumpTarget_of_specs e m T c hs, hT]

theorem ingressFinish_entries (tS : List String) (tC : String) (labels : List String)
    (d : LoopState) :
    (ingressFinish tS tC ((LoopState.init labels).append d)).entries =
      (d.entries ++ d.peerEntries) ++
        (if d.addedPortEntry && !d.addedPeerEntry then
          [jumpEntry IptablesAzureIngressPortChain tS IptablesAzureTargetSetsChain
            ("ALLOW-ALL-TO-" ++ tC ++ "-TO-JUMP-TO-" ++ IptablesAzureTargetSetsChain)]
        else if d.addedPeerEntry then
          [jumpEntry IptablesAzureIngressPortChain tS IptablesAzureIngressFromChain
            ("ALLOW-ALL-TO-" ++ tC ++ "-TO-JUMP-TO-" ++ IptablesAzureIngressFromChain),
           jumpEntry IptablesAzureIngressFromChain tS IptablesAzureTargetSetsChain
            ("ALLOW-ALL-TO-" ++ tC ++ "-TO-JUMP-TO-" ++ IptablesAzureTargetSetsChain)]
        else []) := by
  simp only [ingressFinish, LoopState.init, LoopState.append, List.nil_append, Bool.false_or,
    jumpEntry]
  split
  · rfl
  · split
    · rfl
    · simp only [List.append_nil]

theorem egressFinish_entries (tS : List String) (tC : String) (labels : List String)
    (d : LoopState) :
    (egressFinish tS tC ((LoopState.init labels).append d)).entries =
      (d.entries ++ d.peerEntries) ++
        (if d.addedPortEntry && !d.addedPeerEntry then
          [jumpEntry IptablesAzureEgressPortChain tS IptablesAzureTargetSetsChain
            ("ALLOW-ALL-FROM-" ++ tC ++ "-TO-JUMP-TO-" ++ IptablesAzureTargetSetsChain)]
        else if d.addedPeerEntry then
          [jumpEntry IptablesAzureEgressPortChain tS IptablesAzureEgressToChain
            ("ALLOW-ALL-FROM-" ++ tC ++ "-TO-JUMP-TO-" ++ IptablesAzureEgressToChain),
           jumpEntry IptablesAzureEgressToChain tS IptablesAzureTargetSetsChain
            ("ALLOW-ALL-FROM-" ++ tC ++ "-TO-JUMP-TO-" ++ IptablesAzureTargetSetsChain)]
        else []) := by
  simp only [egressFinish, LoopState.init, LoopState.append, List.nil_append, Bool.false_or,
    jumpEntry]
  split
  · rfl
  · split
    · rfl
    · simp only [List.append_nil]

theorem translateIngress_loop (u : Util) (ns : String) (t : LabelSelector)
    (rules : List NetworkPolicyIngressRule) (r : Translation)
    (h : translateIngress u ns t rules = some r) :
    ∃ tS tC d,
      craftPartialIptEntrySpecFromOpsAndLabels u ns (targetOpsAndLabels u ns t).1
        (targetOpsAndLabels u ns t).2 IptablesDstFlag false = some tS ∧
      craftPartialIptablesCommentFromSelector u ns (some t) false = some tC ∧
      rules.foldlM (ingressRule u ns tS tC) LoopState.empty = some d ∧
      RuleInv IptablesAzureIngressPortChain IptablesAzureIngressFromChain tS d ∧
      d.addedPortEntry = rules.any (fun rule => decide (rule.Ports.length > 0)) ∧
      r = ingressFinish tS tC ((LoopState.init (targetOpsAndLabels u ns t).2).append d) := by
  rw [translateIngress_eq_some] at h
  obtain ⟨tS, tC, d, h1, h2, hd, rfl⟩ := h
  refine ⟨tS, tC, d, h1, h2, hd, ?_, ?_, rfl⟩
  · exact foldlM_additive_inv _ (ingressRule_append u ns tS tC) _ (ruleInv_empty _ _ _)
      (ruleInv_append _ _ _) rules
      (fun x _ dx hx => (ingressRule_inv u ns tS tC x dx hx).1) d hd
  · exact foldlM_additive_flag _ (ingressRule_append u ns tS tC) _
      (fun x dx hx => (ingressRule_inv u ns tS tC x dx hx).2) rules d hd

theorem translateEgress_loop (u : Util) (ns : String) (t : LabelSelector)
    (rules : List NetworkPolicyEgressRule) (r : Translation)
    (h : translateEgress u ns t rules = some r) :
    ∃ tS tC d,
      craftPartialIptEntrySpecFromOpsAndLabels u ns (targetOpsAndLabels u ns t).1
        (targetOpsAndLabels u ns t).2 IptablesSrcFlag false = some tS ∧
      craftPartialIptablesCommentFromSelector u ns (some t) false = some tC ∧
      rules.foldlM (egressRule u ns tS tC) LoopState.empty = some d ∧
      RuleInv IptablesAzureEgressPortChain IptablesAzureEgressToChain tS d ∧
      d.addedPortEntry = rules.any (fun rule =>
        decide (rule.Ports.length > 0) || decide (rule.To = some [])) ∧
      r = egressFinish tS tC ((LoopState.init (targetOpsAndLabels u ns t).2).append d) := by
  rw [translateEgress_eq_some] at h
  obtain ⟨tS, tC, d, h1, h2, hd, rfl⟩ := h
  refine ⟨tS, tC, d, h1, h2, hd, ?_, ?_, rfl⟩
  · exact foldlM_additive_inv _ (egressRule_append u ns tS tC) _ (ruleInv_empty _ _ _)
      (ruleInv_append _ _ _) rules
      (fun x _ dx hx => (egressRule_inv u ns tS tC x dx hx).1) d hd
  · exact foldlM_additive_flag _ (egressRule_append u ns tS tC) _
      (fun x dx hx => (egressRule_inv u ns tS tC x dx hx).2) rules d hd

/-- With the flag of the From/To chain set, the loop has placed an ACCEPT or
DROP entry on that chain. -/
theorem ruleInv_peer_entry (portChain peerChain : String) (tS : List String) (d : LoopState)
    (h : RuleInv portChain peerChain tS d) (hflag : d.addedPeerEntry = true) :
    ∃ e ∈ d.entries ++ d.peerEntries, peerChainEntry peerChain e = true := by
  obtain ⟨hall, -, hw⟩ := h
  obtain ⟨e, he, hc⟩ := hw hflag
  refine ⟨e, List.mem_append.mpr he, ?_⟩
  have hre : RuleEntry portChain peerChain tS e := by
    rcases he with he | he
    · exact hall.1 e he
    · exact hall.2 e he
  simp only [peerChainEntry, Bool.and_eq_true, Bool.or_eq_true, decide_eq_true_eq]
  exact ⟨hc, ruleEntry_jumpTarget _ _ _ _ hre⟩

/-- Without the flag of the From/To chain, every entry of the loop is on the
Port chain. -/
theorem ruleInv_port_chain (portChain peerChain : String) (tS : List String) (d : LoopState)
    (h : RuleInv portChain peerChain tS d) (hflag : d.addedPeerEntry = false) :
    ∀ e ∈ d.entries ++ d.peerEntries, e.Chain = portChain := by
  obtain ⟨-, hp, -⟩ := h
  rcases hp with hp | hp
  · rw [hflag] at hp
    cases hp
  · intro e he
    rcases List.mem_append.mp he with he | he
    · exact hp.1 e he
    · exact hp.2 e he

theorem ruleInv_jumpTarget (portChain peerChain : String) (tS : List String) (d : LoopState)
    (h : RuleInv portChain peerChain tS d) :
    ∀ e ∈ d.entries ++ d.peerEntries,
      e.jumpTarget = some IptablesAccept ∨ e.jumpTarget = some IptablesDrop := by
  intro e he
  rcases List.mem_append.mp he with he | he
  · exact ruleEntry_jumpTarget _ _ _ _ (h.1.1 e he)
  · exact ruleEntry_jumpTarget _ _ _ _ (h.1.2 e he)

theorem any_ports_of_mem {α : Type} (ports : α → List NetworkPolicyPort) (rules : List α)
    (h : ∃ rule ∈ rules, ports rule ≠ []) :
    rules.any (fun rule => decide ((ports rule).length > 0)) = true := by
  obtain ⟨rule, hr, hp⟩ := h
  rw [List.any_eq_true]
  exact ⟨rule, hr, decide_eq_true (List.length_pos.mpr hp)⟩

/-! ## C23, the entries as they are built: the jump that ends a direction with ports -/

/-- Of the entries as they are built.  For `translateIngress` and for
`translateEgress`, on every rule list: when some rule has a non-empty list of
ports and the returned entries hold no ACCEPT or DROP entry on the From/To chain
of the direction, the last returned entry is on the Port chain of the direction
and its specs are the target fragment followed by `-j AZURE-NPM-TARGET-SETS` and
the comment tokens, with no other match token; and the jump target of no
returned entry is the From/To chain. -/
theorem port_jump_without_peer_entry (u : Util) (ns : String) (t : LabelSelector) :
    (∀ (rules : List NetworkPolicyIngressRule) (r : Translation),
      translateIngress u ns t rules = some r →
      (∃ rule ∈ rules, rule.Ports ≠ []) →
      (∀ e ∈ r.entries, peerChainEntry IptablesAzureIngressFromChain e = false) →
      ∃ tS tC body,
        craftPartialIptEntrySpecFromOpsAndLabels u ns (targetOpsAndLabels u ns t).1
          (targetOpsAndLabels u ns t).2 IptablesDstFlag false = some tS ∧
        craftPartialIptablesCommentFromSelector u ns (some t) false = some tC ∧
        r.entries = body ++
          [jumpEntry IptablesAzureIngressPortChain tS IptablesAzureTargetSetsChain
            ("ALLOW-ALL-TO-" ++ tC ++ "-TO-JUMP-TO-" ++ IptablesAzureTargetSetsChain)] ∧
        ∀ e ∈ r.entries, e.jumpTarget ≠ some IptablesAzureIngressFromChain) ∧
    (∀ (rules : List NetworkPolicyEgressRule) (r : Translation),
      translateEgress u ns t rules = some r →
      (∃ rule ∈ rules, rule.Ports ≠ []) →
      (∀ e ∈ r.entries, peerChainEntry IptablesAzureEgressToChain e = false) →
      ∃ tS tC body,
        craftPartialIptEntrySpecFromOpsAndLabels u ns (targetOpsAndLabels u ns t).1
          (targetOpsAndLabels u ns t).2 IptablesSrcFlag false = some tS ∧
        craftPartialIptablesCommentFromSelector u ns (some t) false = some tC ∧
        r.entries = body ++
          [jumpEntry IptablesAzureEgressPortChain tS IptablesAzureTargetSetsChain
            ("ALLOW-ALL-FROM-" ++ tC ++ "-TO-JUMP-TO-" ++ IptablesAzureTargetSetsChain)] ∧
        ∀ e ∈ r.entries, e.jumpTarget ≠ some IptablesAzureEgressToChain) := by
  constructor
  · intro rules r h hports hnone
    obtain ⟨tS, tC, d, h1, h2, -, hinv, hport, rfl⟩ := translateIngress_loop u ns t rules r h
    have hent := ingressFinish_entries tS tC (targetOpsAndLabels u ns t).2 d
    have hflag : d.addedPeerEntry = false := by
      cases hf : d.addedPeerEntry with
      | false => rfl
      | true =>
        obtain ⟨e, he, hpe⟩ := ruleInv_peer_entry _ _ _ _ hinv hf
        rw [hnone e (by rw [hent]; exact List.mem_append_left _ he)] at hpe
        cases hpe
    have hp : d.addedPortEntry = true := by
      rw [hport]
      exact any_ports_of_mem (fun rule => rule.Ports) rules hports
    rw [hflag, hp] at hent
    simp only [Bool.not_false, Bool.and_self, if_true] at hent
    refine ⟨tS, tC, d.entries ++ d.peerEntries, h1, h2, hent, ?_⟩
    intro e he
    rw [hent] at he
    rcases List.mem_append.mp he with he | he
    · rcases ruleInv_jumpTarget _ _ _ _ hinv e he with hT | hT <;> rw [hT] <;> decide
    · rw [List.mem_singleton] at he
      subst he
      rw [jumpEntry, jumpTarget_mk]
      decide
  · intro rules r h hports hnone
    obtain ⟨tS, tC, d, h1, h2, -, hinv, hport, rfl⟩ := translateEgress_loop u ns t rules r h
    have hent := egressFinish_entries tS tC (targetOpsAndLabels u ns t).2 d
    have hflag : d.addedPeerEntry = false := by
      cases hf : d.addedPeerEntry with
      | false => rfl
      | true =>
        obtain ⟨e, he, hpe⟩ := ruleInv_peer_entry _ _ _ _ hinv hf
        rw [hnone e (by rw [hent]; exact List.mem_append_left _ he)] at hpe
        cases hpe
    have hp : d.addedPortEntry = true := by
      rw [hport]
      obtain ⟨rule, hr, hne⟩ := hports
      rw [List.any_eq_true]
      exact ⟨rule, hr, by
        rw [Bool.or_eq_true]
        exact Or.inl (decide_eq_true (List.length_pos.mpr hne))⟩
    rw [hflag, hp] at hent
    simp only [Bool.not_false, Bool.and_self, if_true] at hent
    refine ⟨tS, tC, d.entries ++ d.peerEntries, h1, h2, hent, ?_⟩
    intro e he
    rw [hent] at he
    rcases List.mem_append.mp he with he | he
    · rcases ruleInv_jumpTarget _ _ _ _ hinv e he with hT | hT <;> rw [hT] <;> decide
    · rw [List.mem_singleton] at he
      subst he
      rw [jumpEntry, jumpTarget_mk]
      decide

/-- The entries as they are built, at one rule with the port `TCP/80` and no
peers, for the pods `app=web`: the translation of either direction ends with the
jump from the Port chain to `AZURE-NPM-TARGET-SETS`. -/
theorem port_jump_without_peer_entry_witness :
    (∃ r, translateIngress exampleUtil "default" (selectorOf "app" "web") portsIngressRules =
        some r ∧
      (∃ rule ∈ portsIngressRules, rule.Ports ≠ []) ∧
      (∀ e ∈ r.entries, peerChainEntry IptablesAzureIngressFromChain e = false) ∧
      ∃ tS tC body,
        craftPartialIptEntrySpecFromOpsAndLabels exampleUtil "default"
          (targetOpsAndLabels exampleUtil "default" (selectorOf "app" "web")).1
          (targetOpsAndLabels exampleUtil "default" (selectorOf "app" "web")).2
          IptablesDstFlag false = some tS ∧
        craftPartialIptablesCommentFromSelector exampleUtil "default"
          (some (selectorOf "app" "web")) false = some tC ∧
        r.entries = body ++
          [jumpEntry IptablesAzureIngressPortChain tS IptablesAzureTargetSetsChain
            ("ALLOW-ALL-TO-" ++ tC ++ "-TO-JUMP-TO-" ++ IptablesAzureTargetSetsChain)] ∧
        ∀ e ∈ r.entries, e.jumpTarget ≠ some IptablesAzureIngressFromChain) ∧
    (∃ r, translateEgress exampleUtil "default" (selectorOf "app" "web") portsEgressRules =
        some r ∧
      (∃ rule ∈ portsEgressRules, rule.Ports ≠ []) ∧
      (∀ e ∈ r.entries, peerChainEntry IptablesAzureEgressToChain e = false) ∧
      ∃ tS tC body,
        craftPartialIptEntrySpecFromOpsAndLabels exampleUtil "default"
          (targetOpsAndLabels exampleUtil "default" (selectorOf "app" "web")).1
          (targetOpsAndLabels exampleUtil "default" (selectorOf "app" "web")).2
          IptablesSrcFlag false = some tS ∧
        craftPartialIptablesCommentFromSelector exampleUtil "default"
          (some (selectorOf "app" "web")) false = some tC ∧
        r.entries = body ++
          [jumpEntry IptablesAzureEgressPortChain tS IptablesAzureTargetSetsChain
            ("ALLOW-ALL-FROM-" ++ tC ++ "-TO-JUMP-TO-" ++ IptablesAzureTargetSetsChain)] ∧
        ∀ e ∈ r.entries, e.jumpTarget ≠ some IptablesAzureEgressToChain) :=
  ⟨⟨{ sets := ["app:web"], lists := [],
        entries :=
          [{ Chain := "AZURE-NPM-INGRESS-PORT",
             Specs := ["-p", "TCP", "--dport", "80",
                       "-m", "set", "--match-set", "azure-npm-app:web", "dst",
                       "-j", "ACCEPT", "-m", "comment", "--comment",
                       "ALLOW-ALL-TCP-PORT-80-TO-app:web"] },
           { Chain := "AZURE-NPM-INGRESS-PORT",
             Specs := ["-m", "set", "--match-set", "azure-npm-app:web", "dst",
                       "-j", "AZURE-NPM-TARGET-SETS", "-m", "comment", "--comment",
                       "ALLOW-ALL-TO-app:web-TO-JUMP-TO-AZURE-NPM-TARGET-SETS"] }] },
      rfl, ⟨_, List.mem_singleton_self _, by decide⟩, by decide,
      (port_jump_without_peer_entry exampleUtil "default" (selectorOf "app" "web")).1
        portsIngressRules _ rfl ⟨_, List.mem_singleton_self _, by decide⟩ (by decide)⟩,
    ⟨{ sets := ["app:web"], lists := [],
        entries :=
          [{ Chain := "AZURE-NPM-EGRESS-PORT",
             Specs := ["-p", "TCP", "--dport", "80",
                       "-m", "set", "--match-set", "azure-npm-app:web", "src",
                       "-j", "ACCEPT", "-m", "comment", "--comment",
                       "ALLOW-ALL-TO-TCP-PORT-80-FROM-app:web"] },
           { Chain := "AZURE-NPM-EGRESS-PORT",
             Specs := ["-m", "set", "--match-set", "azure-npm-app:web", "src",
                       "-j", "AZURE-NPM-TARGET-SETS", "-m", "comment", "--comment",
                       "ALLOW-ALL-FROM-app:web-TO-JUMP-TO-AZURE-NPM-TARGET-SETS"] }] },
      rfl, ⟨_, List.mem_singleton_self _, by decide⟩, by decide,
      (port_jump_without_peer_entry exampleUtil "default" (selectorOf "app" "web")).2
        portsEgressRules _ rfl ⟨_, List.mem_singleton_self _, by decide⟩ (by decide)⟩⟩

/-! ## C24, the entries as they are built: the two jumps that end a direction -/

/-- Of the entries as they are built.  For `translateIngress` and for
`translateEgress`, on every rule list: when the returned entries hold an ACCEPT
or DROP entry on the From/To chain of the direction, the returned entries are
the entries of the loop over the rules, those of the side buffer of the ipBlock
peers after the others, followed by exactly two entries: the jump on the Port
chain to the From/To chain, then the jump on the From/To chain to
`AZURE-NPM-TARGET-SETS`, each with the target fragment as its only match tokens.
-/
theorem peer_jumps_are_last (u : Util) (ns : String) (t : LabelSelector) :
    (∀ (rules : List NetworkPolicyIngressRule) (r : Translation),
      translateIngress u ns t rules = some r →
      (∃ e ∈ r.entries, peerChainEntry IptablesAzureIngressFromChain e = true) →
      ∃ tS tC d,
        craftPartialIptEntrySpecFromOpsAndLabels u ns (targetOpsAndLabels u ns t).1
          (targetOpsAndLabels u ns t).2 IptablesDstFlag false = some tS ∧
        craftPartialIptablesCommentFromSelector u ns (some t) false = some tC ∧
        rules.foldlM (ingressRule u ns tS tC) LoopState.empty = some d ∧
        r.entries = (d.entries ++ d.peerEntries) ++
          [jumpEntry IptablesAzureIngressPortChain tS IptablesAzureIngressFromChain
            ("ALLOW-ALL-TO-" ++ tC ++ "-TO-JUMP-TO-" ++ IptablesAzureIngressFromChain),
           jumpEntry IptablesAzureIngressFromChain tS IptablesAzureTargetSetsChain
            ("ALLOW-ALL-TO-" ++ tC ++ "-TO-JUMP-TO-" ++ IptablesAzureTargetSetsChain)]) ∧
    (∀ (rules : List NetworkPolicyEgressRule) (r : Translation),
      translateEgress u ns t rules = some r →
      (∃ e ∈ r.entries, peerChainEntry IptablesAzureEgressToChain e = true) →
      ∃ tS tC d,
        craftPartialIptEntrySpecFromOpsAndLabels u ns (targetOpsAndLabels u ns t).1
          (targetOpsAndLabels u ns t).2 IptablesSrcFlag false = some tS ∧
        craftPartialIptablesCommentFromSelector u ns (some t) false = some tC ∧
        rules.foldlM (egressRule u ns tS tC) LoopState.empty = some d ∧
        r.entries = (d.entries ++ d.peerEntries) ++
          [jumpEntry IptablesAzureEgressPortChain tS IptablesAzureEgressToChain
            ("ALLOW-ALL-FROM-" ++ tC ++ "-TO-JUMP-TO-" ++ IptablesAzureEgressToChain),
           jumpEntry IptablesAzureEgressToChain tS IptablesAzureTargetSetsChain
            ("ALLOW-ALL-FROM-" ++ tC ++ "-TO-JUMP-TO-" ++ IptablesAzureTargetSetsChain)]) := by
  constructor
  · intro rules r h hsome
    obtain ⟨tS, tC, d, h1, h2, hd, hinv, -, rfl⟩ := translateIngress_loop u ns t rules r h
    have hent := ingressFinish_entries tS tC (targetOpsAndLabels u ns t).2 d
    have hflag : d.addedPeerEntry = true := by
      cases hf : d.addedPeerEntry with
      | true => rfl
      | false =>
        exfalso
        obtain ⟨e, he, hpe⟩ := hsome
        simp only [peerChainEntry, Bool.and_eq_true, decide_eq_true_eq] at hpe
        rw [hent, hf] at he
        have hchain : e.Chain = IptablesAzureIngressPortChain := by
          rcases List.mem_append.mp he with he | he
          · exact ruleInv_port_chain _ _ _ _ hinv hf e he
          · split at he
            · rw [List.mem_singleton] at he
              rw [he]
              rfl
            · simp only [Bool.false_eq_true, if_false, List.not_mem_nil] at he
        rw [hpe.1] at hchain
        exact absurd hchain (by decide)
    rw [hflag] at hent
    simp only [Bool.not_true, Bool.and_false, Bool.false_eq_true, if_false, if_true] at hent
    exact ⟨tS, tC, d, h1, h2, hd, hent⟩
  · intro rules r h hsome
    obtain ⟨tS, tC, d, h1, h2, hd, hinv, -, rfl⟩ := translateEgress_loop u ns t rules r h
    have hent := egressFinish_entries tS tC (targetOpsAndLabels u ns t).2 d
    have hflag : d.addedPeerEntry = true := by
      cases hf : d.addedPeerEntry with
      | true => rfl
      | false =>
        exfalso
        obtain ⟨e, he, hpe⟩ := hsome
        simp only [peerChainEntry, Bool.and_eq_true, decide_eq_true_eq] at hpe
        rw [hent, hf] at he
        have hchain : e.Chain = IptablesAzureEgressPortChain := by
          rcases List.mem_append.mp he with he | he
          · exact ruleInv_port_chain _ _ _ _ hinv hf e he
          · split at he
            · rw [List.mem_singleton] at he
              rw [he]
              rfl
            · simp only [Bool.false_eq_true, if_false, List.not_mem_nil] at he
        rw [hpe.1] at hchain
        exact absurd hchain (by decide)
    rw [hflag] at hent
    simp only [Bool.not_true, Bool.and_false, Bool.false_eq_true, if_false, if_true] at hent
    exact ⟨tS, tC, d, h1, h2, hd, hent⟩

/-- The entries as they are built, at one rule that admits `10.0.0.0/8` but for
`10.1.0.0/16`, for the pods `app=web`: the translation of either direction ends
with the two jumps. -/
theorem peer_jumps_are_last_witness :
    (∃ r, translateIngress exampleUtil "default" (selectorOf "app" "web") exceptIngressRules =
        some r ∧
      (∃ e ∈ r.entries, peerChainEntry IptablesAzureIngressFromChain e = true) ∧
      ∃ tS tC d,
        craftPartialIptEntrySpecFromOpsAndLabels exampleUtil "default"
          (targetOpsAndLabels exampleUtil "default" (selectorOf "app" "web")).1
          (targetOpsAndLabels exampleUtil "default" (selectorOf "app" "web")).2
          IptablesDstFlag false = some tS ∧
        craftPartialIptablesCommentFromSelector exampleUtil "default"
          (some (selectorOf "app" "web")) false = some tC ∧
        exceptIngressRules.foldlM (ingressRule exampleUtil "default" tS tC) LoopState.empty =
          some d ∧
        r.entries = (d.entries ++ d.peerEntries) ++
          [jumpEntry IptablesAzureIngressPortChain tS IptablesAzureIngressFromChain
            ("ALLOW-ALL-TO-" ++ tC ++ "-TO-JUMP-TO-" ++ IptablesAzureIngressFromChain),
           jumpEntry IptablesAzureIngressFromChain tS IptablesAzureTargetSetsChain
            ("ALLOW-ALL-TO-" ++ tC ++ "-TO-JUMP-TO-" ++ IptablesAzureTargetSetsChain)]) ∧
    (∃ r, translateEgress exampleUtil "default" (selectorOf "app" "web") exceptEgressRules =
        some r ∧
      (∃ e ∈ r.entries, peerChainEntry IptablesAzureEgressToChain e = true) ∧
      ∃ tS tC d,
        craftPartialIptEntrySpecFromOpsAndLabels exampleUtil "default"
          (targetOpsAndLabels exampleUtil "default" (selectorOf "app" "web")).1
          (targetOpsAndLabels exampleUtil "default" (selectorOf "app" "web")).2
          IptablesSrcFlag false = some tS ∧
        craftPartialIptablesCommentFromSelector exampleUtil "default"
          (some (selectorOf "app" "web")) false = some tC ∧
        exceptEgressRules.foldlM (egressRule exampleUtil "default" tS tC) LoopState.empty =
          some d ∧
        r.entries = (d.entries ++ d.peerEntries) ++
          [jumpEntry IptablesAzureEgressPortChain tS IptablesAzureEgressToChain
            ("ALLOW-ALL-FROM-" ++ tC ++ "-TO-JUMP-TO-" ++ IptablesAzureEgressToChain),
           jumpEntry IptablesAzureEgressToChain tS IptablesAzureTargetSetsChain
            ("ALLOW-ALL-FROM-" ++ tC ++ "-TO-JUMP-TO-" ++ IptablesAzureTargetSetsChain)]) :=
  ⟨⟨{ sets := ["app:web"], lists := [],
        entries :=
          [{ Chain := "AZURE-NPM-INGRESS-FROM",
             Specs := ["-s", "10.1.0.0/16",
                       "-m", "set", "--match-set", "azure-npm-app:web", "dst",
                       "-j", "DROP", "-m", "comment", "--comment",
                       "DROP-10.1.0.0/16-TO-app:web"] },
           { Chain := "AZURE-NPM-INGRESS-FROM",
             Specs := ["-m", "set", "--match-set", "azure-npm-app:web", "dst",
                       "-s", "10.0.0.0/8",
                       "-j", "ACCEPT", "-m", "comment", "--comment",
                       "ALLOW-10.0.0.0/8-TO-app:web"] },
           { Chain := "AZURE-NPM-INGRESS-PORT",
             Specs := ["-m", "set", "--match-set", "azure-npm-app:web", "dst",
                       "-j", "AZURE-NPM-INGRESS-FROM", "-m", "comment", "--comment",
                       "ALLOW-ALL-TO-app:web-TO-JUMP-TO-AZURE-NPM-INGRESS-FROM"] },
           { Chain := "AZURE-NPM-INGRESS-FROM",
             Specs := ["-m", "set", "--match-set", "azure-npm-app:web", "dst",
                       "-j", "AZURE-NPM-TARGET-SETS", "-m", "comment", "--comment",
                       "ALLOW-ALL-TO-app:web-TO-JUMP-TO-AZURE-NPM-TARGET-SETS"] }] },
      rfl, ⟨_, List.mem_cons_self _ _, by decide⟩,
      (peer_jumps_are_last exampleUtil "default" (selectorOf "app" "web")).1
        exceptIngressRules _ rfl ⟨_, List.mem_cons_self _ _, by decide⟩⟩,
    ⟨{ sets := ["app:web"], lists := [],
        entries :=
          [{ Chain := "AZURE-NPM-EGRESS-TO",
             Specs := ["-m", "set", "--match-set", "azure-npm-app:web", "src",
                       "-d", "10.1.0.0/16",
                       "-j", "DROP", "-m", "comment", "--comment",
                       "DROP-10.1.0.0/16-FROM-app:web"] },
           { Chain := "AZURE-NPM-EGRESS-TO",
             Specs := ["-d", "10.0.0.0/8",
                       "-m", "set", "--match-set", "azure-npm-app:web", "src",
                       "-j", "ACCEPT", "-m", "comment", "--comment",
                       "ALLOW-10.0.0.0/8-FROM-app:web"] },
           { Chain := "AZURE-NPM-EGRESS-PORT",
             Specs := ["-m", "set", "--match-set", "azure-npm-app:web", "src",
                       "-j", "AZURE-NPM-EGRESS-TO", "-m", "comment", "--comment",
                       "ALLOW-ALL-FROM-app:web-TO-JUMP-TO-AZURE-NPM-EGRESS-TO"] },
           { Chain := "AZURE-NPM-EGRESS-TO",
             Specs := ["-m", "set", "--match-set", "azure-npm-app:web", "src",
                       "-j", "AZURE-NPM-TARGET-SETS", "-m", "comment", "--comment",
                       "ALLOW-ALL-FROM-app:web-TO-JUMP-TO-AZURE-NPM-TARGET-SETS"] }] },
      rfl, ⟨_, List.mem_cons_self _ _, by decide⟩,
      (peer_jumps_are_last exampleUtil "default" (selectorOf "app" "web")).2
        exceptEgressRules _ rfl ⟨_, List.mem_cons_self _ _, by decide⟩⟩⟩

/-! ## The number of entries a loop emits -/

theorem size_append (a b : LoopState) : (a.append b).size = a.size + b.size := by
  simp only [LoopState.size, LoopState.append, List.length_append]
  omega

theorem foldlM_additive_size {α : Type} (f : LoopState → α → Option LoopState)
    (hf : ∀ s x, f s x = (f LoopState.empty x).map (LoopState.append s))
    (w : α → Nat) (hstep : ∀ x d, f LoopState.empty x = some d → d.size ≤ w x) :
    ∀ (xs : List α) (d : LoopState), xs.foldlM f LoopState.empty = some d →
      d.size ≤ (xs.map w).sum := by
  intro xs
  induction xs with
  | nil =>
    intro d h
    simp only [List.foldlM_nil, Option.pure_def, Option.some.injEq] at h
    subst h
    simp [LoopState.size, LoopState.empty]
  | cons x xs ih =>
    intro d h
    simp only [List.foldlM_cons, Option.bind_eq_bind, Option.bind_eq_some] at h
    obtain ⟨dx, hdx, h⟩ := h
    rw [foldlM_additive f hf] at h
    simp only [Option.map_eq_some'] at h
    obtain ⟨d2, h2, rfl⟩ := h
    rw [size_append, List.map_cons, List.sum_cons]
    exact Nat.add_le_add (hstep x dx hdx) (ih d2 h2)

theorem sum_map_add_const {α : Type} (c : Nat) (g : α → Nat) (xs : List α) :
    (xs.map (fun x => c + g x)).sum = c * xs.length + (xs.map g).sum := by
  induction xs with
  | nil => simp
  | cons x xs ih =>
    simp only [List.map_cons, List.sum_cons, List.length_cons, ih, Nat.mul_succ]
    omega

theorem ingressPeer_size (u : Util) (ns : String) (tS : List String) (tC : String)
    (ports : List NetworkPolicyPort) (pre : Bool) (peer : NetworkPolicyPeer) (d : LoopState)
    (h : ingressPeer u ns tS tC ports pre LoopState.empty peer = some d) :
    d.size ≤ max 1 ports.length + exceptsOf peer := by
  obtain ⟨pod, nsSel, ip⟩ := peer
  cases ip with
  | some ipBlock =>
    simp only [ingressPeer, LoopState.empty] at h
    split at h <;> split at h <;> (try split at h) <;>
      simp only [Option.some.injEq] at h <;> subst h
    all_goals (
      simp only [LoopState.size, exceptsOf, List.nil_append, List.length_append,
        List.length_map, List.length_nil, List.length_singleton, List.length_cons]
      omega)
  | none =>
    cases pod with
    | none =>
      cases nsSel with
      | none =>
        simp only [ingressPeer, LoopState.empty, Option.some.injEq] at h
        subst h
        (
      simp only [LoopState.size, exceptsOf, List.nil_append, List.length_append,
        List.length_map, List.length_nil, List.length_singleton, List.length_cons]
      omega)
      | some nsSel =>
        simp only [ingressPeer, LoopState.empty, Option.bind_eq_bind, Option.bind_eq_some,
          Option.pure_def] at h
        obtain ⟨a, -, b, -, h⟩ := h
        split at h <;>
          simp only [Option.some.injEq] at h <;> subst h
        all_goals (
      simp only [LoopState.size, exceptsOf, List.nil_append, List.length_append,
        List.length_map, List.length_nil, List.length_singleton, List.length_cons]
      omega)
    | some podSel =>
      cases nsSel with
      | none =>
        simp only [ingressPeer, LoopState.empty, Option.bind_eq_bind, Option.bind_eq_some,
          Option.pure_def] at h
        obtain ⟨a, -, b, -, h⟩ := h
        split at h <;>
          simp only [Option.some.injEq] at h <;> subst h
        all_goals (
      simp only [LoopState.size, exceptsOf, List.nil_append, List.length_append,
        List.length_map, List.length_nil, List.length_singleton, List.length_cons]
      omega)
      | some nsSel =>
        simp only [ingressPeer, LoopState.empty, Option.bind_eq_bind, Option.pure_def] at h
        split at h
        · simp only [Option.some.injEq] at h
          subst h
          (
      simp only [LoopState.size, exceptsOf, List.nil_append, List.length_append,
        List.length_map, List.length_nil, List.length_singleton, List.length_cons]
      omega)
        · simp only [Option.bind_eq_some] at h
          obtain ⟨a, -, a2, -, b, -, b2, -, h⟩ := h
          split at h <;>
            simp only [Option.some.injEq] at h <;> subst h
          all_goals (
      simp only [LoopState.size, exceptsOf, List.nil_append, List.length_append,
        List.length_map, List.length_nil, List.length_singleton, List.length_cons]
      omega)

theorem egressPeer_size (u : Util) (ns : String) (tS : List String) (tC : String)
    (ports : List NetworkPolicyPort) (pre : Bool) (peer : NetworkPolicyPeer) (d : LoopState)
    (h : egressPeer u ns tS tC ports pre LoopState.empty peer = some d) :
    d.size ≤ max 1 ports.length + exceptsOf peer := by
  obtain ⟨pod, nsSel, ip⟩ := peer
  cases ip with
  | some ipBlock =>
    simp only [egressPeer, LoopState.empty] at h
    split at h <;> split at h <;> (try split at h) <;>
      simp only [Option.some.injEq] at h <;> subst h
    all_goals (
      simp only [LoopState.size, exceptsOf, List.nil_append, List.length_append,
        List.length_map, List.length_nil, List.length_singleton, List.length_cons]
      omega)
  | none =>
    cases pod with
    | none =>
      cases nsSel with
      | none =>
        simp only [egressPeer, LoopState.empty, Option.some.injEq] at h
        subst h
        (
      simp only [LoopState.size, exceptsOf, List.nil_append, List.length_append,
        List.length_map, List.length_nil, List.length_singleton, List.length_cons]
      omega)
      | some nsSel =>
        simp only [egressPeer, LoopState.empty, Option.bind_eq_bind, Option.bind_eq_some,
          Option.pure_def] at h
        obtain ⟨a, -, b, -, h⟩ := h
        split at h <;>
          simp only [Option.some.injEq] at h <;> subst h
        all_goals (
      simp only [LoopState.size, exceptsOf, List.nil_append, List.length_append,
        List.length_map, List.length_nil, List.length_singleton, List.length_cons]
      omega)
    | some podSel =>
      cases nsSel with
      | none =>
        simp only [egressPeer, LoopState.empty, Option.bind_eq_bind, Option.bind_eq_some,
          Option.pure_def] at h
        obtain ⟨a, -, b, -, h⟩ := h
        split at h <;>
          simp only [Option.some.injEq] at h <;> subst h
        all_goals (
      simp only [LoopState.size, exceptsOf, List.nil_append, List.length_append,
        List.length_map, List.length_nil, List.length_singleton, List.length_cons]
      omega)
      | some nsSel =>
        simp only [egressPeer, LoopState.empty, Option.bind_eq_bind, Option.pure_def] at h
        split at h
        · simp only [Option.some.injEq] at h
          subst h
          (
      simp only [LoopState.size, exceptsOf, List.nil_append, List.length_append,
        List.length_map, List.length_nil, List.length_singleton, List.length_cons]
      omega)
        · simp only [Option.bind_eq_some] at h
          obtain ⟨a, -, a2, -, b, -, b2, -, h⟩ := h
          split at h <;>
            simp only [Option.some.injEq] at h <;> subst h
          all_goals (
      simp only [LoopState.size, exceptsOf, List.nil_append, List.length_append,
        List.length_map, List.length_nil, List.length_singleton, List.length_cons]
      omega)

theorem ingressRule_size (u : Util) (ns : String) (tS : List String) (tC : String)
    (rule : NetworkPolicyIngressRule) (d : LoopState)
    (h : ingressRule u ns tS tC LoopState.empty rule = some d) :
    d.size ≤ ruleBound rule.Ports rule.From := by
  have hone : 1 ≤ max 1 rule.Ports.length * max 1 (rule.From.getD []).length :=
    Nat.mul_pos (by omega) (by omega)
  have hports : rule.Ports.length ≤
      max 1 rule.Ports.length * max 1 (rule.From.getD []).length :=
    (Nat.le_max_right 1 _).trans (Nat.le_mul_of_pos_right _ (by omega))
  simp only [ingressRule] at h
  split at h
  · simp only [Option.some.injEq] at h
    subst h
    simp only [LoopState.size, LoopState.empty, ruleBound, List.nil_append,
      List.length_singleton, List.length_nil]
    omega
  · split at h
    · simp only [Option.some.injEq] at h
      subst h
      simp only [LoopState.size, LoopState.empty, ruleBound, List.nil_append,
        List.length_map, List.length_nil]
      omega
    · simp only [Option.bind_eq_bind, Option.bind_eq_some] at h
      obtain ⟨d1, h1, h⟩ := h
      rw [foldlM_additive _ (ingressPeer_append u ns tS tC rule.Ports _)] at h1
      simp only [Option.map_eq_some'] at h1
      obtain ⟨d2, h2, rfl⟩ := h1
      have hd2 := foldlM_additive_size _ (ingressPeer_append u ns tS tC rule.Ports _)
        (fun peer => max 1 rule.Ports.length + exceptsOf peer)
        (fun x d hd => ingressPeer_size u ns tS tC rule.Ports _ x d hd) (rule.From.getD []) d2 h2
      rw [sum_map_add_const] at hd2
      have hmul : max 1 rule.Ports.length * (rule.From.getD []).length ≤
          max 1 rule.Ports.length * max 1 (rule.From.getD []).length :=
        Nat.mul_le_mul_left _ (Nat.le_max_right 1 _)
      split at h <;> rename_i hc <;>
        simp only [Option.some.injEq] at h <;> subst h
      · have hnil : rule.From.getD [] = [] := by
          cases hf : rule.From with
          | none => rfl
          | some peers =>
            rw [hf] at hc
            simp only [decide_eq_true_eq, List.length_eq_zero] at hc
            rw [hc]
            rfl
        rw [hnil] at h2
        simp only [List.foldlM_nil, Option.pure_def, Option.some.injEq] at h2
        subst h2
        simp only [LoopState.size, LoopState.append, LoopState.empty, ruleBound,
          List.nil_append, List.length_singleton, List.length_nil]
        omega
      · simp only [LoopState.size, LoopState.append, LoopState.empty, List.nil_append] at hd2 ⊢
        simp only [ruleBound, exceptCount]
        omega

theorem egressRule_size (u : Util) (ns : String) (tS : List String) (tC : String)
    (rule : NetworkPolicyEgressRule) (d : LoopState)
    (h : egressRule u ns tS tC LoopState.empty rule = some d) :
    d.size ≤ ruleBound rule.Ports rule.To := by
  have hone : 1 ≤ max 1 rule.Ports.length * max 1 (rule.To.getD []).length :=
    Nat.mul_pos (by omega) (by omega)
  have hports : rule.Ports.length ≤
      max 1 rule.Ports.length * max 1 (rule.To.getD []).length :=
    (Nat.le_max_right 1 _).trans (Nat.le_mul_of_pos_right _ (by omega))
  simp only [egressRule] at h
  split at h
  · simp only [Option.some.injEq] at h
    subst h
    simp only [LoopState.size, LoopState.empty, ruleBound, List.nil_append,
      List.length_singleton, List.length_nil]
    omega
  · split at h
    · simp only [Option.some.injEq] at h
      subst h
      simp only [LoopState.size, LoopState.empty, ruleBound, List.nil_append,
        List.length_map, List.length_nil]
      omega
    · simp only [Option.bind_eq_bind, Option.bind_eq_some] at h
      obtain ⟨d1, h1, h⟩ := h
      rw [foldlM_additive _ (egressPeer_append u ns tS tC rule.Ports _)] at h1
      simp only [Option.map_eq_some'] at h1
      obtain ⟨d2, h2, rfl⟩ := h1
      have hd2 := foldlM_additive_size _ (egressPeer_append u ns tS tC rule.Ports _)
        (fun peer => max 1 rule.Ports.length + exceptsOf peer)
        (fun x d hd => egressPeer_size u ns tS tC rule.Ports _ x d hd) (rule.To.getD []) d2 h2
      rw [sum_map_add_const] at hd2
      have hmul : max 1 rule.Ports.length * (rule.To.getD []).length ≤
          max 1 rule.Ports.length * max 1 (rule.To.getD []).length :=
        Nat.mul_le_mul_left _ (Nat.le_max_right 1 _)
      split at h <;> rename_i hc <;>
        simp only [Option.some.injEq] at h <;> subst h
      · have hnil : rule.To.getD [] = [] := by
          cases hf : rule.To with
          | none => rfl
          | some peers =>
            rw [hf] at hc
            simp only [decide_eq_true_eq, List.length_eq_zero] at hc
            rw [hc]
            rfl
        rw [hnil] at h2
        simp only [List.foldlM_nil, Option.pure_def, Option.some.injEq] at h2
        subst h2
        simp only [LoopState.size, LoopState.append, LoopState.empty, ruleBound,
          List.nil_append, List.length_singleton, List.length_nil]
        omega
      · simp only [LoopState.size, LoopState.append, LoopState.empty, List.nil_append] at hd2 ⊢
        simp only [ruleBound, exceptCount]
        omega

/-! ## C28: the number of entries of a direction -/

/-- C28. The number of entries `translateIngress` returns, and the number
`translateEgress` returns, is at most 2 plus the sum over the rules of
`max(1, |ports|) · max(1, |peers|)` plus the number of except CIDRs of the
ipBlock peers of the rule. -/
theorem entries_count_bound (u : Util) (ns : String) (t : LabelSelector) :
    (∀ (rules : List NetworkPolicyIngressRule) (r : Translation),
      translateIngress u ns t rules = some r →
      r.entries.length ≤
        2 + (rules.map (fun rule => ruleBound rule.Ports rule.From)).sum) ∧
    (∀ (rules : List NetworkPolicyEgressRule) (r : Translation),
      translateEgress u ns t rules = some r →
      r.entries.length ≤
        2 + (rules.map (fun rule => ruleBound rule.Ports rule.To)).sum) := by
  constructor
  · intro rules r h
    rw [translateIngress_eq_some] at h
    obtain ⟨tS, tC, d, -, -, hd, rfl⟩ := h
    have hsize := foldlM_additive_size _ (ingressRule_append u ns tS tC)
      (fun rule => ruleBound rule.Ports rule.From)
      (fun x dx hx => ingressRule_size u ns tS tC x dx hx) rules d hd
    rw [ingressFinish_entries]
    simp only [LoopState.size] at hsize
    split
    · simp only [List.length_append, List.length_singleton]
      omega
    · split
      · simp only [List.length_append, List.length_cons, List.length_nil]
        omega
      · simp only [List.length_append, List.length_nil]
        omega
  · intro rules r h
    rw [translateEgress_eq_some] at h
    obtain ⟨tS, tC, d, -, -, hd, rfl⟩ := h
    have hsize := foldlM_additive_size _ (egressRule_append u ns tS tC)
      (fun rule => ruleBound rule.Ports rule.To)
      (fun x dx hx => egressRule_size u ns tS tC x dx hx) rules d hd
    rw [egressFinish_entries]
    simp only [LoopState.size] at hsize
    split
    · simp only [List.length_append, List.length_singleton]
      omega
    · split
      · simp only [List.length_append, List.length_cons, List.length_nil]
        omega
      · simp only [List.length_append, List.length_nil]
        omega

/-- C28 at one rule that admits `10.0.0.0/8` but for `10.1.0.0/16`: either
direction returns four entries, and the bound is `2 + (1 · 1 + 1)`. -/
theorem entries_count_bound_witness :
    (∃ r, translateIngress exampleUtil "default" (selectorOf "app" "web") exceptIngressRules =
        some r ∧ r.entries.length = 4 ∧
      r.entries.length ≤
        2 + (exceptIngressRules.map (fun rule => ruleBound rule.Ports rule.From)).sum) ∧
    (∃ r, translateEgress exampleUtil "default" (selectorOf "app" "web") exceptEgressRules =
        some r ∧ r.entries.length = 4 ∧
      r.entries.length ≤
        2 + (exceptEgressRules.map (fun rule => ruleBound rule.Ports rule.To)).sum) :=
  ⟨⟨_, rfl, rfl,
      (entries_count_bound exampleUtil "default" (selectorOf "app" "web")).1
        exceptIngressRules _ rfl⟩,
    ⟨_, rfl, rfl,
      (entries_count_bound exampleUtil "default" (selectorOf "app" "web")).2
        exceptEgressRules _ rfl⟩⟩

/-! ## The two directions side by side -/

theorem ingressShape_mk (chain : String) (m : List String) (T c : String) :
    ingressShape { Chain := chain, Specs := m ++ jumpAndComment T c } =
      (mirrorChain chain, some (mirrorChain T)) := by
  simp only [ingressShape, jumpTarget_mk, Option.map_some']

theorem egressShape_mk (chain : String) (m : List String) (T c : String) :
    egressShape { Chain := chain, Specs := m ++ jumpAndComment T c } = (chain, some T) := by
  simp only [egressShape, jumpTarget_mk]

theorem mirrorChain_port : mirrorChain IptablesAzureIngressPortChain =
    IptablesAzureEgressPortChain := by decide

theorem mirrorChain_from : mirrorChain IptablesAzureIngressFromChain =
    IptablesAzureEgressToChain := by decide

theorem mirrorChain_accept : mirrorChain IptablesAccept = IptablesAccept := by decide

theorem mirrorChain_drop : mirrorChain IptablesDrop = IptablesDrop := by decide

theorem mirrorChain_targetSets : mirrorChain IptablesAzureTargetSetsChain =
    IptablesAzureTargetSetsChain := by decide

theorem map_shape_eq {α : Type} (l : List α) (f g : α → IptEntry)
    (h : ∀ x, ingressShape (f x) = egressShape (g x)) :
    (l.map f).map ingressShape = (l.map g).map egressShape := by
  simp only [List.map_map]
  exact List.map_congr_left (fun x _ => h x)

theorem craftSelector_flag (u : Util) (ns : String) (selector : Option LabelSelector)
    (flag flag' : String) (isNamespaceSelector : Bool) (a : List String)
    (h : craftPartialIptEntrySpecFromSelector u ns selector flag isNamespaceSelector =
      some a) :
    ∃ a', craftPartialIptEntrySpecFromSelector u ns selector flag' isNamespaceSelector =
      some a' := by
  simp only [craftPartialIptEntrySpecFromSelector,
    craftPartialIptEntrySpecFromOpsAndLabels] at h ⊢
  split
  · split <;> exact ⟨_, rfl⟩
  · rename_i hc
    rw [if_neg hc] at h
    split
    · rename_i hlen
      rw [if_pos hlen] at h
      cases h
    · exact ⟨_, rfl⟩

/-- One peer: when the ingress loop accepts it, the egress loop accepts it
too, with the same sets and lists and with entries of corresponding chains and
jump targets. -/
theorem peer_mirror (u : Util) (ns : String) (tSi tSe : List String) (tC : String)
    (ports : List NetworkPolicyPort) (pre : Bool) (peer : NetworkPolicyPeer) (di : LoopState)
    (h : ingressPeer u ns tSi tC ports pre LoopState.empty peer = some di) :
    ∃ de, egressPeer u ns tSe tC ports pre LoopState.empty peer = some de ∧
      MirrorState di de := by
  obtain ⟨pod, nsSel, ip⟩ := peer
  cases ip with
  | some ipBlock =>
    simp only [ingressPeer, LoopState.empty] at h
    split at h <;> split at h <;> (try split at h) <;>
      simp only [Option.some.injEq] at h <;> subst h <;>
      simp only [egressPeer, LoopState.empty, *, if_true, if_false, ne_eq, not_false_eq_true,
        not_true_eq_false, Option.some.injEq, exists_eq_left', MirrorState, List.nil_append,
        List.map_append, List.map_cons, List.map_nil, List.map_map, Function.comp_def,
        Bool.false_eq_true, Bool.not_true, Bool.not_false, Option.bind_eq_bind,
        Option.some_bind, Option.pure_def, ingressShape_mk, egressShape_mk,
        mirrorChain_port, mirrorChain_from, mirrorChain_accept, mirrorChain_drop, true_and,
        and_true, and_self]
  | none =>
    cases pod with
    | none =>
      cases nsSel with
      | none =>
        simp only [ingressPeer, LoopState.empty, Option.some.injEq] at h
        subst h
        simp only [egressPeer, LoopState.empty, *, if_true, if_false, ne_eq, not_false_eq_true,
        not_true_eq_false, Option.some.injEq, exists_eq_left', MirrorState, List.nil_append,
        List.map_append, List.map_cons, List.map_nil, List.map_map, Function.comp_def,
        Bool.false_eq_true, Bool.not_true, Bool.not_false, Option.bind_eq_bind,
        Option.some_bind, Option.pure_def, ingressShape_mk, egressShape_mk,
        mirrorChain_port, mirrorChain_from, mirrorChain_accept, mirrorChain_drop, true_and,
        and_true, and_self]
      | some nsSel =>
        simp only [ingressPeer, LoopState.empty, Option.bind_eq_bind, Option.bind_eq_some,
          Option.pure_def] at h
        obtain ⟨a, ha, b, hb, h⟩ := h
        obtain ⟨a', ha'⟩ := craftSelector_flag u ns (some nsSel) _ IptablesDstFlag true a ha
        split at h <;>
          simp only [Option.some.injEq] at h <;> subst h <;>
          simp only [egressPeer, LoopState.empty, *, if_true, if_false, ne_eq, not_false_eq_true,
        not_true_eq_false, Option.some.injEq, exists_eq_left', MirrorState, List.nil_append,
        List.map_append, List.map_cons, List.map_nil, List.map_map, Function.comp_def,
        Bool.false_eq_true, Bool.not_true, Bool.not_false, Option.bind_eq_bind,
        Option.some_bind, Option.pure_def, ingressShape_mk, egressShape_mk,
        mirrorChain_port, mirrorChain_from, mirrorChain_accept, mirrorChain_drop, true_and,
        and_true, and_self]
    | some podSel =>
      cases nsSel with
      | none =>
        simp only [ingressPeer, LoopState.empty, Option.bind_eq_bind, Option.bind_eq_some,
          Option.pure_def] at h
        obtain ⟨a, ha, b, hb, h⟩ := h
        obtain ⟨a', ha'⟩ := craftSelector_flag u ns (some podSel) _ IptablesDstFlag false a ha
        split at h <;>
          simp only [Option.some.injEq] at h <;> subst h <;>
          simp only [egressPeer, LoopState.empty, *, if_true, if_false, ne_eq, not_false_eq_true,
        not_true_eq_false, Option.some.injEq, exists_eq_left', MirrorState, List.nil_append,
        List.map_append, List.map_cons, List.map_nil, List.map_map, Function.comp_def,
        Bool.false_eq_true, Bool.not_true, Bool.not_false, Option.bind_eq_bind,
        Option.some_bind, Option.pure_def, ingressShape_mk, egressShape_mk,
        mirrorChain_port, mirrorChain_from, mirrorChain_accept, mirrorChain_drop, true_and,
        and_true, and_self]
      | some nsSel =>
        simp only [ingressPeer, LoopState.empty, Option.bind_eq_bind, Option.pure_def] at h
        split at h
        · simp only [Option.some.injEq] at h
          subst h
          simp only [egressPeer, LoopState.empty, *, if_true, if_false, ne_eq, not_false_eq_true,
        not_true_eq_false, Option.some.injEq, exists_eq_left', MirrorState, List.nil_append,
        List.map_append, List.map_cons, List.map_nil, List.map_map, Function.comp_def,
        Bool.false_eq_true, Bool.not_true, Bool.not_false, Option.bind_eq_bind,
        Option.some_bind, Option.pure_def, ingressShape_mk, egressShape_mk,
        mirrorChain_port, mirrorChain_from, mirrorChain_accept, mirrorChain_drop, true_and,
        and_true, and_self]
        · simp only [Option.bind_eq_some] at h
          obtain ⟨a, ha, a2, ha2, b, hb, b2, hb2, h⟩ := h
          obtain ⟨a', ha'⟩ := craftSelector_flag u ns (some nsSel) _ IptablesDstFlag true a ha
          obtain ⟨a2', ha2'⟩ :=
            craftSelector_flag u ns (some podSel) _ IptablesDstFlag false a2 ha2
          split at h <;>
            simp only [Option.some.injEq] at h <;> subst h <;>
            simp only [egressPeer, LoopState.empty, *, if_true, if_false, ne_eq, not_false_eq_true,
        not_true_eq_false, Option.some.injEq, exists_eq_left', MirrorState, List.nil_append,
        List.map_append, List.map_cons, List.map_nil, List.map_map, Function.comp_def,
        Bool.false_eq_true, Bool.not_true, Bool.not_false, Option.bind_eq_bind,
        Option.some_bind, Option.pure_def, ingressShape_mk, egressShape_mk,
        mirrorChain_port, mirrorChain_from, mirrorChain_accept, mirrorChain_drop, true_and,
        and_true, and_self]

theorem egressShape_mk_assoc (chain : String) (m m' : List String) (T c : String) :
    egressShape { Chain := chain, Specs := m ++ (m' ++ jumpAndComment T c) } =
      (chain, some T) := by
  rw [← List.append_assoc, egressShape_mk]

theorem mirrorState_empty : MirrorState LoopState.empty LoopState.empty :=
  ⟨rfl, rfl, rfl, rfl, rfl⟩

theorem mirrorState_append (ai ae bi be : LoopState) (ha : MirrorState ai ae)
    (hb : MirrorState bi be) : MirrorState (ai.append bi) (ae.append be) := by
  obtain ⟨ha1, ha2, ha3, ha4, ha5⟩ := ha
  obtain ⟨hb1, hb2, hb3, hb4, hb5⟩ := hb
  simp only [MirrorState, LoopState.append, List.map_append, ha1, ha2, ha3, ha4, ha5, hb1,
    hb2, hb3, hb4, hb5, and_self]

theorem foldlM_additive_mirror {α β : Type} (f : LoopState → α → Option LoopState)
    (g : LoopState → β → Option LoopState)
    (hf : ∀ s x, f s x = (f LoopState.empty x).map (LoopState.append s))
    (hg : ∀ s x, g s x = (g LoopState.empty x).map (LoopState.append s))
    (m : α → β)
    (hstep : ∀ x di, f LoopState.empty x = some di →
      ∃ de, g LoopState.empty (m x) = some de ∧ MirrorState di de) :
    ∀ (xs : List α) (di : LoopState), xs.foldlM f LoopState.empty = some di →
      ∃ de, (xs.map m).foldlM g LoopState.empty = some de ∧ MirrorState di de := by
  intro xs
  induction xs with
  | nil =>
    intro di h
    simp only [List.foldlM_nil, Option.pure_def, Option.some.injEq] at h
    subst h
    exact ⟨LoopState.empty, rfl, mirrorState_empty⟩
  | cons x xs ih =>
    intro di h
    simp only [List.foldlM_cons, Option.bind_eq_bind, Option.bind_eq_some] at h
    obtain ⟨dx, hdx, h⟩ := h
    rw [foldlM_additive f hf] at h
    simp only [Option.map_eq_some'] at h
    obtain ⟨d2, h2, rfl⟩ := h
    obtain ⟨ex, hex, hrx⟩ := hstep x dx hdx
    obtain ⟨e2, he2, hr2⟩ := ih d2 h2
    refine ⟨ex.append e2, ?_, mirrorState_append _ _ _ _ hrx hr2⟩
    simp only [List.map_cons, List.foldlM_cons, Option.bind_eq_bind, hex, Option.some_bind]
    rw [foldlM_additive g hg, he2]
    rfl

/-- The peers of one rule: when the ingress loop accepts them, the egress loop
accepts them too, from any state. -/
theorem peers_mirror (u : Util) (ns : String) (tSi tSe : List String) (tC : String)
    (ports : List NetworkPolicyPort) (pre : Bool) (peers : List NetworkPolicyPeer)
    (si d1 : LoopState) (h : peers.foldlM (ingressPeer u ns tSi tC ports pre) si = some d1) :
    ∃ d2 e2, d1 = si.append d2 ∧ MirrorState d2 e2 ∧
      ∀ se, peers.foldlM (egressPeer u ns tSe tC ports pre) se = some (se.append e2) := by
  rw [foldlM_additive _ (ingressPeer_append u ns tSi tC ports _)] at h
  simp only [Option.map_eq_some'] at h
  obtain ⟨d2, h2, rfl⟩ := h
  obtain ⟨e2, he2, hr⟩ := foldlM_additive_mirror _ _
    (ingressPeer_append u ns tSi tC ports _) (egressPeer_append u ns tSe tC ports _) id
    (fun x dx hx => peer_mirror u ns tSi tSe tC ports _ x dx hx) peers d2 h2
  rw [List.map_id] at he2
  refine ⟨d2, e2, rfl, hr, fun se => ?_⟩
  rw [foldlM_additive _ (egressPeer_append u ns tSe tC ports _), he2]
  rfl

/-- One rule: when the ingress loop accepts it, the egress loop accepts the
mirrored rule, with the same sets and lists and with entries of corresponding
chains and jump targets. -/
theorem rule_mirror (u : Util) (ns : String) (tSi tSe : List String) (tC : String)
    (rule : NetworkPolicyIngressRule) (di : LoopState)
    (h : ingressRule u ns tSi tC LoopState.empty rule = some di) :
    ∃ de, egressRule u ns tSe tC LoopState.empty (mirrorRule rule) = some de ∧
      MirrorState di de := by
  obtain ⟨ports, peers⟩ := rule
  cases peers with
  | none =>
    simp only [ingressRule] at h
    split at h
    · simp only [Option.some.injEq] at h
      subst h
      simp only [egressRule, mirrorRule, LoopState.empty, *, if_true, if_false,
        not_false_eq_true, not_true_eq_false, Option.some.injEq, exists_eq_left',
        MirrorState, List.nil_append, List.map_append, List.map_cons, List.map_nil,
        List.map_map, Function.comp_def, Bool.false_eq_true, ingressShape_mk,
        egressShape_mk, egressShape_mk_assoc, mirrorChain_port, mirrorChain_accept,
        true_and, and_true, and_self]
    · split at h
      · simp only [Option.some.injEq] at h
        subst h
        simp only [egressRule, mirrorRule, LoopState.empty, *, if_true, if_false,
        not_false_eq_true, not_true_eq_false, Option.some.injEq, exists_eq_left',
        MirrorState, List.nil_append, List.map_append, List.map_cons, List.map_nil,
        List.map_map, Function.comp_def, Bool.false_eq_true, ingressShape_mk,
        egressShape_mk, egressShape_mk_assoc, mirrorChain_port, mirrorChain_accept,
        true_and, and_true, and_self]
      · rename_i hc1 hc2
        simp only [Option.bind_eq_bind, Option.bind_eq_some, Option.getD, Bool.false_eq_true,
          if_false, Option.some.injEq] at h
        obtain ⟨d1, h1, rfl⟩ := h
        obtain ⟨d2, e2, rfl, ⟨hr1, hr2, hr3, hr4, hr5⟩, he⟩ :=
          peers_mirror u ns tSi tSe tC ports _ _ _ _ h1
        simp only [egressRule, mirrorRule, Option.getD]
        rw [if_neg hc1, if_neg hc2, he]
        simp only [Option.bind_eq_bind, Option.some_bind, Bool.false_eq_true, if_false,
          Option.some.injEq, exists_eq_left', MirrorState, LoopState.append, LoopState.empty,
          List.nil_append, hr1, hr2, hr3, hr4, hr5, Bool.false_or, and_self]
  | some peers =>
    simp only [ingressRule] at h
    split at h
    · simp only [Option.some.injEq] at h
      subst h
      simp only [egressRule, mirrorRule, LoopState.empty, *, if_true, if_false,
        not_false_eq_true, not_true_eq_false, Option.some.injEq, exists_eq_left',
        MirrorState, List.nil_append, List.map_append, List.map_cons, List.map_nil,
        List.map_map, Function.comp_def, Bool.false_eq_true, ingressShape_mk,
        egressShape_mk, egressShape_mk_assoc, mirrorChain_port, mirrorChain_accept,
        true_and, and_true, and_self]
    · split at h
      · simp only [Option.some.injEq] at h
        subst h
        simp only [egressRule, mirrorRule, LoopState.empty, *, if_true, if_false,
        not_false_eq_true, not_true_eq_false, Option.some.injEq, exists_eq_left',
        MirrorState, List.nil_append, List.map_append, List.map_cons, List.map_nil,
        List.map_map, Function.comp_def, Bool.false_eq_true, ingressShape_mk,
        egressShape_mk, egressShape_mk_assoc, mirrorChain_port, mirrorChain_accept,
        true_and, and_true, and_self]
      · rename_i hc1 hc2
        simp only [Option.bind_eq_bind, Option.bind_eq_some, Option.getD] at h
        obtain ⟨d1, h1, h⟩ := h
        obtain ⟨d2, e2, rfl, ⟨hr1, hr2, hr3, hr4, hr5⟩, he⟩ :=
          peers_mirror u ns tSi tSe tC ports _ _ _ _ h1
        simp only [egressRule, mirrorRule, Option.getD]
        rw [if_neg hc1, if_neg hc2, he]
        split at h <;> rename_i hc3 <;>
          simp only [Option.some.injEq] at h <;> subst h <;>
          simp only [Option.bind_eq_bind, Option.some_bind, hc3, if_true, if_false,
            Bool.false_eq_true, Option.some.injEq, exists_eq_left', MirrorState, LoopState.append,
            LoopState.empty, List.nil_append, List.map_append, List.map_cons, List.map_nil,
            ingressShape_mk, egressShape_mk, mirrorChain_port, mirrorChain_accept,
            hr1, hr2, hr3, hr4, hr5, Bool.false_or, and_self]

theorem craftOps_flag (u : Util) (ns : String) (ops labels : List String)
    (flag flag' : String) (isNamespaceSelector : Bool) (a : List String)
    (h : craftPartialIptEntrySpecFromOpsAndLabels u ns ops labels flag isNamespaceSelector =
      some a) :
    ∃ a', craftPartialIptEntrySpecFromOpsAndLabels u ns ops labels flag'
      isNamespaceSelector = some a' := by
  simp only [craftPartialIptEntrySpecFromOpsAndLabels] at h ⊢
  split
  · split <;> exact ⟨_, rfl⟩
  · rename_i hc
    rw [if_neg hc] at h
    split
    · rename_i hlen
      rw [if_pos hlen] at h
      cases h
    · exact ⟨_, rfl⟩

theorem any_or {α : Type} (p q : α → Bool) (l : List α) :
    l.any (fun x => p x || q x) = (l.any p || l.any q) := by
  induction l with
  | nil => rfl
  | cons x xs ih =>
    simp only [List.any_cons, ih]
    cases p x <;> cases q x <;> cases xs.any p <;> cases xs.any q <;> rfl

/-- The flag of the From chain, read off the returned entries: it is set
exactly when an ACCEPT or DROP entry is on the Ingress-From chain. -/
theorem ingress_flag_eq (tS : List String) (tC : String) (labels : List String)
    (d : LoopState)
    (hinv : RuleInv IptablesAzureIngressPortChain IptablesAzureIngressFromChain tS d) :
    (ingressFinish tS tC ((LoopState.init labels).append d)).entries.any
      (peerChainEntry IptablesAzureIngressFromChain) = d.addedPeerEntry := by
  rw [ingressFinish_entries]
  cases hf : d.addedPeerEntry with
  | true =>
    obtain ⟨e, he, hpe⟩ := ruleInv_peer_entry _ _ _ _ hinv hf
    rw [List.any_eq_true]
    exact ⟨e, List.mem_append_left _ he, hpe⟩
  | false =>
    rw [List.any_eq_false]
    intro e he
    have hchain : e.Chain = IptablesAzureIngressPortChain := by
      rcases List.mem_append.mp he with he | he
      · exact ruleInv_port_chain _ _ _ _ hinv hf e he
      · split at he
        · rw [List.mem_singleton] at he
          rw [he]
          rfl
        · simp only [Bool.false_eq_true, if_false, List.not_mem_nil] at he
    simp only [peerChainEntry, hchain, Bool.and_eq_true, decide_eq_true_eq, not_and]
    intro hc
    exact absurd hc (by decide)

theorem any_mirrorRule (p : NetworkPolicyEgressRule → Bool)
    (rules : List NetworkPolicyIngressRule) :
    (rules.map mirrorRule).any p = rules.any (fun rule => p (mirrorRule rule)) := by
  induction rules with
  | nil => rfl
  | cons x xs ih => simp only [List.map_cons, List.any_cons, ih]

/-! ## C27, the entries as they are built: the egress direction against the ingress direction -/

/-- Of the entries as they are built.  For every namespace, target selector and list of ingress
rules on which `translateIngress` returns, `translateEgress` returns on the
mirrored rules (same ports, `from` renamed to `to`), with the same sets and the
same lists.  Its entries are entries that sit, position by position, on the
corresponding chain (Ingress-Port ↦ Egress-Port, Ingress-From ↦ Egress-To) and
jump to the corresponding target (`ACCEPT`, `DROP` and the TargetSets chain
unchanged, Ingress-From ↦ Egress-To), followed by one more entry, the jump from
the Egress-Port chain to the TargetSets chain on the target fragment, exactly
when some rule has the explicit empty list of peers, no rule has ports and no
ACCEPT or DROP entry sits on the Ingress-From chain.  Nothing is stated about
the match tokens and the comments, which differ in more than the flags. -/
theorem egress_mirrors_ingress (u : Util) (ns : String) (t : LabelSelector)
    (rules : List NetworkPolicyIngressRule) (ri : Translation)
    (h : translateIngress u ns t rules = some ri) :
    ∃ re tS tC body,
      translateEgress u ns t (rules.map mirrorRule) = some re ∧
      craftPartialIptEntrySpecFromOpsAndLabels u ns (targetOpsAndLabels u ns t).1
        (targetOpsAndLabels u ns t).2 IptablesSrcFlag false = some tS ∧
      craftPartialIptablesCommentFromSelector u ns (some t) false = some tC ∧
      re.sets = ri.sets ∧ re.lists = ri.lists ∧
      body.map egressShape = ri.entries.map ingressShape ∧
      re.entries = body ++
        (if rules.any (fun rule => decide (rule.From = some [])) &&
            !rules.any (fun rule => decide (rule.Ports.length > 0)) &&
            !ri.entries.any (peerChainEntry IptablesAzureIngressFromChain) then
          [jumpEntry IptablesAzureEgressPortChain tS IptablesAzureTargetSetsChain
            ("ALLOW-ALL-FROM-" ++ tC ++ "-TO-JUMP-TO-" ++ IptablesAzureTargetSetsChain)]
        else []) := by
  obtain ⟨tSi, tC, di, h1, h2, hd, hinv, hport, rfl⟩ := translateIngress_loop u ns t rules ri h
  obtain ⟨tSe, h1e⟩ := craftOps_flag u ns _ _ _ IptablesSrcFlag false tSi h1
  obtain ⟨de, hde, hr1, hr2, hr3, hr4, hr5⟩ := foldlM_additive_mirror _ _
    (ingressRule_append u ns tSi tC) (egressRule_append u ns tSe tC) mirrorRule
    (fun x dx hx => rule_mirror u ns tSi tSe tC x dx hx) rules di hd
  have hporte : de.addedPortEntry =
      (rules.any (fun rule => decide (rule.Ports.length > 0)) ||
        rules.any (fun rule => decide (rule.From = some []))) := by
    rw [foldlM_additive_flag _ (egressRule_append u ns tSe tC) _
      (fun x dx hx => (egressRule_inv u ns tSe tC x dx hx).2) _ de hde, ← any_or]
    exact any_mirrorRule _ rules
  have hre : translateEgress u ns t (rules.map mirrorRule) =
      some (egressFinish tSe tC ((LoopState.init (targetOpsAndLabels u ns t).2).append de)) :=
    (translateEgress_eq_some u ns t _ _).2 ⟨tSe, tC, de, h1e, h2, hde, rfl⟩
  have hflag := ingress_flag_eq tSi tC (targetOpsAndLabels u ns t).2 di hinv
  have hie := ingressFinish_entries tSi tC (targetOpsAndLabels u ns t).2 di
  have hee := egressFinish_entries tSe tC (targetOpsAndLabels u ns t).2 de
  rw [hr5, hporte] at hee
  rw [hport] at hie
  have hsets : (egressFinish tSe tC
      ((LoopState.init (targetOpsAndLabels u ns t).2).append de)).sets =
      (ingressFinish tSi tC
        ((LoopState.init (targetOpsAndLabels u ns t).2).append di)).sets := by
    simp only [egressFinish, ingressFinish, LoopState.append, hr1]
  have hlists : (egressFinish tSe tC
      ((LoopState.init (targetOpsAndLabels u ns t).2).append de)).lists =
      (ingressFinish tSi tC
        ((LoopState.init (targetOpsAndLabels u ns t).2).append di)).lists := by
    simp only [egressFinish, ingressFinish, LoopState.append, hr2]
  refine ⟨_, tSe, tC,
    (de.entries ++ de.peerEntries) ++
      (if rules.any (fun rule => decide (rule.Ports.length > 0)) && !di.addedPeerEntry then
        [jumpEntry IptablesAzureEgressPortChain tSe IptablesAzureTargetSetsChain
          ("ALLOW-ALL-FROM-" ++ tC ++ "-TO-JUMP-TO-" ++ IptablesAzureTargetSetsChain)]
      else if di.addedPeerEntry then
        [jumpEntry IptablesAzureEgressPortChain tSe IptablesAzureEgressToChain
          ("ALLOW-ALL-FROM-" ++ tC ++ "-TO-JUMP-TO-" ++ IptablesAzureEgressToChain),
         jumpEntry IptablesAzureEgressToChain tSe IptablesAzureTargetSetsChain
          ("ALLOW-ALL-FROM-" ++ tC ++ "-TO-JUMP-TO-" ++ IptablesAzureTargetSetsChain)]
      else []),
    hre, h1e, h2, hsets, hlists, ?_, ?_⟩
  · rw [hie]
    simp only [List.map_append, hr3, hr4]
    congr 1
    cases di.addedPeerEntry <;>
      cases rules.any (fun rule => decide (rule.Ports.length > 0)) <;>
      simp [jumpEntry, ingressShape_mk, egressShape_mk, mirrorChain_port, mirrorChain_from,
        mirrorChain_targetSets]
  · rw [hee, hflag]
    cases di.addedPeerEntry <;>
      cases rules.any (fun rule => decide (rule.Ports.length > 0)) <;>
      cases rules.any (fun rule => decide (rule.From = some [])) <;>
      simp

/-- The entries as they are built, at one rule that admits `10.0.0.0/8` but for
`10.1.0.0/16`, for the pods `app=web`: the egress direction returns four entries
that correspond to the four of the ingress direction, and no further entry. -/
theorem egress_mirrors_ingress_witness :
    ∃ ri, translateIngress exampleUtil "default" (selectorOf "app" "web") exceptIngressRules =
        some ri ∧
      ∃ re tS tC body,
        translateEgress exampleUtil "default" (selectorOf "app" "web")
          (exceptIngressRules.map mirrorRule) = some re ∧
        craftPartialIptEntrySpecFromOpsAndLabels exampleUtil "default"
          (targetOpsAndLabels exampleUtil "default" (selectorOf "app" "web")).1
          (targetOpsAndLabels exampleUtil "default" (selectorOf "app" "web")).2
          IptablesSrcFlag false = some tS ∧
        craftPartialIptablesCommentFromSelector exampleUtil "default"
          (some (selectorOf "app" "web")) false = some tC ∧
        re.sets = ri.sets ∧ re.lists = ri.lists ∧
        body.map egressShape = ri.entries.map ingressShape ∧
        re.entries = body ++
          (if exceptIngressRules.any (fun rule => decide (rule.From = some [])) &&
              !exceptIngressRules.any (fun rule => decide (rule.Ports.length > 0)) &&
              !ri.entries.any (peerChainEntry IptablesAzureIngressFromChain) then
            [jumpEntry IptablesAzureEgressPortChain tS IptablesAzureTargetSetsChain
              ("ALLOW-ALL-FROM-" ++ tC ++ "-TO-JUMP-TO-" ++ IptablesAzureTargetSetsChain)]
          else []) :=
  ⟨_, rfl, egress_mirrors_ingress exampleUtil "default" (selectorOf "app" "web")
    exceptIngressRules _ rfl⟩

/-- The entries as they are built: for the single rule without ports and with the explicit
empty list of peers, `translateIngress` returns one entry and `translateEgress`
returns two on the mirrored rule, since only `translateEgress` sets the flag of
the Port chain for such a rule (source lines 1055-1056) and so appends the jump
to the TargetSets chain. -/
theorem egress_longer_than_ingress :
    translateIngress exampleUtil "default" (selectorOf "app" "web")
        allowExternalIngressRules =
      some { sets := ["app:web"], lists := [],
             entries :=
               [{ Chain := "AZURE-NPM-INGRESS-PORT",
                  Specs := ["-m", "set", "--match-set", "azure-npm-app:web", "dst",
                            "-j", "ACCEPT", "-m", "comment", "--comment",
                            "ALLOW-ALL-TO-app:web"] }] } ∧
    translateEgress exampleUtil "default" (selectorOf "app" "web")
        (allowExternalIngressRules.map mirrorRule) =
      some { sets := ["app:web"], lists := [],
             entries :=
               [{ Chain := "AZURE-NPM-EGRESS-PORT",
                  Specs := ["-m", "set", "--match-set", "azure-npm-app:web", "src",
                            "-j", "ACCEPT", "-m", "comment", "--comment",
                            "ALLOW-ALL-FROM-app:web"] },
                { Chain := "AZURE-NPM-EGRESS-PORT",
                  Specs := ["-m", "set", "--match-set", "azure-npm-app:web", "src",
                            "-j", "AZURE-NPM-TARGET-SETS", "-m", "comment", "--comment",
                            "ALLOW-ALL-FROM-app:web-TO-JUMP-TO-AZURE-NPM-TARGET-SETS"] }] } :=
  ⟨rfl, rfl⟩

/-! ## C31: the port fragment -/

/-- C31. For every flag, protocol and port, `craftPartialIptEntrySpecFromPort`
returns `[-p, proto]` for a port rule with the protocol only, `[flag, port]`
with the port only, `[-p, proto, flag, port]` with both and the empty list with
neither; for every port rule the result has `2·(protocol present) +
2·(port present)` tokens and is the protocol pair followed by the port pair. -/
theorem port_fragment (flag : String) :
    (∀ (proto : String) (port : IntOrString),
      craftPartialIptEntrySpecFromPort { Protocol := some proto, Port := none } flag =
        [IptablesProtFlag, proto] ∧
      craftPartialIptEntrySpecFromPort { Protocol := none, Port := some port } flag =
        [flag, port.text] ∧
      craftPartialIptEntrySpecFromPort { Protocol := some proto, Port := some port } flag =
        [IptablesProtFlag, proto, flag, port.text]) ∧
    craftPartialIptEntrySpecFromPort { Protocol := none, Port := none } flag = [] ∧
    (∀ portRule : NetworkPolicyPort,
      (craftPartialIptEntrySpecFromPort portRule flag).length =
        2 * (if portRule.Protocol.isSome then 1 else 0) +
        2 * (if portRule.Port.isSome then 1 else 0)) ∧
    (∀ portRule : NetworkPolicyPort,
      craftPartialIptEntrySpecFromPort portRule flag =
        (portRule.Protocol.toList.map (fun proto => [IptablesProtFlag, proto])).flatten ++
        (portRule.Port.toList.map (fun port => [flag, port.text])).flatten) := by
  refine ⟨fun proto port => ⟨rfl, rfl, rfl⟩, rfl, ?_, ?_⟩
  · rintro ⟨proto, port⟩
    cases proto <;> cases port <;> rfl
  · rintro ⟨proto, port⟩
    cases proto <;> cases port <;> rfl

/-! ## C32: the comment of a port -/

/-- C32. For every protocol and port, `craftPartialIptablesCommentFromPort`
returns `<PROTO>-PORT-<port>` for a port rule with both, `<PROTO>` with the
protocol only, `PORT-<port>` with the port only and the empty string with
neither; the flag argument does not change the result. -/
theorem port_comment :
    (∀ (proto : String) (port : IntOrString) (flag : String),
      craftPartialIptablesCommentFromPort { Protocol := some proto, Port := some port } flag =
        proto ++ "-PORT-" ++ port.text ∧
      craftPartialIptablesCommentFromPort { Protocol := some proto, Port := none } flag =
        proto ∧
      craftPartialIptablesCommentFromPort { Protocol := none, Port := some port } flag =
        "PORT-" ++ port.text) ∧
    (∀ flag : String,
      craftPartialIptablesCommentFromPort { Protocol := none, Port := none } flag = "") ∧
    (∀ (portRule : NetworkPolicyPort) (flag flag' : String),
      craftPartialIptablesCommentFromPort portRule flag =
        craftPartialIptablesCommentFromPort portRule flag') := by
  refine ⟨fun proto port flag => ⟨?_, ?_, ?_⟩, fun _ => rfl, fun _ _ _ => rfl⟩
  · simp only [craftPartialIptablesCommentFromPort, Option.isSome_some, if_true]
    rw [String.append_assoc, String.append_assoc]
    rfl
  · simp [craftPartialIptablesCommentFromPort]
  · simp [craftPartialIptablesCommentFromPort]

/-! ## C33: the slice that ends the comment of a selector -/

/-- C33 fails at a selector whose only expression is `In` without values, or
has an unknown operator: the parser of spec §4.1 gives it no label, the comment
accumulated by `craftPartialIptablesCommentFromSelector` is empty, the slice
`comment[:len(comment)-len("-AND-")]` is out of range, and `translatePolicy`
does not return for a policy with such a target selector. -/
theorem comment_slice_out_of_range :
    exampleUtil.GetOperatorsAndLabels (exampleUtil.parseSelector (some emptyInSelector)) = [] ∧
    craftPartialIptablesCommentFromSelector exampleUtil "default" (some emptyInSelector)
      false = none ∧
    translatePolicy exampleUtil (targetOnlyPolicy emptyInSelector) = none ∧
    exampleUtil.GetOperatorsAndLabels
      (exampleUtil.parseSelector (some unknownOperatorSelector)) = [] ∧
    craftPartialIptablesCommentFromSelector exampleUtil "default"
      (some unknownOperatorSelector) false = none ∧
    translatePolicy exampleUtil (targetOnlyPolicy unknownOperatorSelector) = none := by
  refine ⟨by decide, by decide, by decide, by decide, by decide, by decide⟩

/-! ## C34, the entries as they are built: an ipBlock with except CIDRs in a rule with ports -/

/-- Of the entries as they are built.  For a rule of `translateIngress` with at
least one port and an ipBlock peer with a non-empty cidr and a non-empty except
list: the returned entries are a body followed by the jump from the Ingress-Port
chain to the Ingress-From chain and the jump from the Ingress-From chain to the
TargetSets chain; the body holds, as consecutive entries, the DROP entries of
the except CIDRs, all on the Ingress-From chain, followed by the ACCEPT entries
of the cidr, one per port, all on the Ingress-Port chain; and no entry of the
body jumps to the Ingress-From chain, so that the one jump to it comes after
those ACCEPT entries.  Likewise for `translateEgress` with the Egress-To chain.
-/
theorem except_drops_behind_port_accepts (u : Util) (ns : String) (t : LabelSelector) :
    (∀ (pre post : List NetworkPolicyIngressRule) (rule : NetworkPolicyIngressRule)
        (ps1 ps2 : List NetworkPolicyPeer) (peer : NetworkPolicyPeer) (block : IPBlock)
        (r : Translation),
      rule.From = some (ps1 ++ peer :: ps2) → peer.IPBlock = some block →
      rule.Ports ≠ [] → block.CIDR ≠ "" → block.Except ≠ [] →
      translateIngress u ns t (pre ++ rule :: post) = some r →
      ∃ tS tC body,
        craftPartialIptEntrySpecFromOpsAndLabels u ns (targetOpsAndLabels u ns t).1
          (targetOpsAndLabels u ns t).2 IptablesDstFlag false = some tS ∧
        craftPartialIptablesCommentFromSelector u ns (some t) false = some tC ∧
        r.entries = body ++
          [jumpEntry IptablesAzureIngressPortChain tS IptablesAzureIngressFromChain
            ("ALLOW-ALL-TO-" ++ tC ++ "-TO-JUMP-TO-" ++ IptablesAzureIngressFromChain),
           jumpEntry IptablesAzureIngressFromChain tS IptablesAzureTargetSetsChain
            ("ALLOW-ALL-TO-" ++ tC ++ "-TO-JUMP-TO-" ++ IptablesAzureTargetSetsChain)] ∧
        (block.Except.map (fun except =>
            ({ Chain := IptablesAzureIngressFromChain,
               Specs := [IptablesSFlag, except] ++ tS ++
                 jumpAndComment IptablesDrop ("DROP-" ++ except ++ "-TO-" ++ tC) }
              : IptEntry)) ++
          rule.Ports.map (fun portRule =>
            { Chain := IptablesAzureIngressPortChain,
              Specs := tS ++ [IptablesSFlag, block.CIDR] ++
                craftPartialIptEntrySpecFromPort portRule IptablesDstPortFlag ++
                jumpAndComment IptablesAccept
                  ("ALLOW-" ++ block.CIDR ++ "-:-" ++
                    craftPartialIptablesCommentFromPort portRule IptablesDstPortFlag ++
                    "-TO-" ++ tC) })) <:+: body ∧
        ∀ e ∈ body, e.jumpTarget ≠ some IptablesAzureIngressFromChain) ∧
    (∀ (pre post : List NetworkPolicyEgressRule) (rule : NetworkPolicyEgressRule)
        (ps1 ps2 : List NetworkPolicyPeer) (peer : NetworkPolicyPeer) (block : IPBlock)
        (r : Translation),
      rule.To = some (ps1 ++ peer :: ps2) → peer.IPBlock = some block →
      rule.Ports ≠ [] → block.CIDR ≠ "" → block.Except ≠ [] →
      translateEgress u ns t (pre ++ rule :: post) = some r →
      ∃ tS tC body,
        craftPartialIptEntrySpecFromOpsAndLabels u ns (targetOpsAndLabels u ns t).1
          (targetOpsAndLabels u ns t).2 IptablesSrcFlag false = some tS ∧
        craftPartialIptablesCommentFromSelector u ns (some t) false = some tC ∧
        r.entries = body ++
          [jumpEntry IptablesAzureEgressPortChain tS IptablesAzureEgressToChain
            ("ALLOW-ALL-FROM-" ++ tC ++ "-TO-JUMP-TO-" ++ IptablesAzureEgressToChain),
           jumpEntry IptablesAzureEgressToChain tS IptablesAzureTargetSetsChain
            ("ALLOW-ALL-FROM-" ++ tC ++ "-TO-JUMP-TO-" ++ IptablesAzureTargetSetsChain)] ∧
        (block.Except.map (fun except =>
            ({ Chain := IptablesAzureEgressToChain,
               Specs := tS ++ [IptablesDFlag, except] ++
                 jumpAndComment IptablesDrop ("DROP-" ++ except ++ "-FROM-" ++ tC) }
              : IptEntry)) ++
          rule.Ports.map (fun portRule =>
            { Chain := IptablesAzureEgressPortChain,
              Specs := craftPartialIptEntrySpecFromPort portRule IptablesDstPortFlag ++
                tS ++ [IptablesDFlag, block.CIDR] ++
                jumpAndComment IptablesAccept
                  ("ALLOW-" ++ block.CIDR ++ "-:-" ++
                    craftPartialIptablesCommentFromPort portRule IptablesDstPortFlag ++
                    "-FROM-" ++ tC) })) <:+: body ∧
        ∀ e ∈ body, e.jumpTarget ≠ some IptablesAzureEgressToChain) := by
  constructor
  · intro pre post rule ps1 ps2 peer block r hfield hb hports hcidr hexcept h
    obtain ⟨tS, tC, d, h1, h2, hd, hinv, -, rfl⟩ := translateIngress_loop u ns t _ r h
    obtain ⟨dr, hr, hrd⟩ := foldlM_additive_within _ (ingressRule_append u ns tS tC)
      pre rule post _ d hd
    rw [ingressRule_of_peerExists u ns tS tC _ rule _ hfield
      (peerExists_append_cons ps1 ps2 peer (by simp [hb]))] at hr
    obtain ⟨dx, hx, hxr⟩ := foldlM_additive_within _
      (ingressPeer_append u ns tS tC rule.Ports _) ps1 peer ps2 _ dr hr
    obtain ⟨dx', hx', -, -, -, hpe⟩ := ingressPeer_ipBlock u ns tS tC rule.Ports
      (decide (rule.Ports.length > 0)) peer block hb
    have hdx : dx' = dx := Option.some.inj (hx'.symm.trans hx)
    subst hdx
    have hlen : rule.Ports.length > 0 := List.length_pos.2 hports
    rw [if_pos hcidr, decide_eq_true hlen] at hpe
    simp only [if_true] at hpe
    have hin : dx'.peerEntries <:+: d.entries ++ d.peerEntries :=
      ((hxr.trans hrd).2.1).trans (List.suffix_append _ _).isInfix
    have hflag : d.addedPeerEntry = true := by
      cases hf : d.addedPeerEntry with
      | true => rfl
      | false =>
        exfalso
        obtain ⟨x, xs, hxs⟩ := List.exists_cons_of_ne_nil hexcept
        have hmem := hin.subset (by
          rw [hpe, hxs]
          exact List.mem_append_left _ (List.mem_cons_self _ _))
        have hchain := ruleInv_port_chain _ _ _ _ hinv hf _ hmem
        exact absurd (show IptablesAzureIngressFromChain = IptablesAzureIngressPortChain from hchain) (by decide)
    refine ⟨tS, tC, d.entries ++ d.peerEntries, h1, h2, ?_, ?_, ?_⟩
    · rw [ingressFinish_entries, hflag]
      simp only [Bool.not_true, Bool.and_false, Bool.false_eq_true, if_false, if_true]
    · rw [← hpe]
      exact hin
    · intro e he
      rcases ruleInv_jumpTarget _ _ _ _ hinv e he with hT | hT <;> rw [hT] <;> decide
  · intro pre post rule ps1 ps2 peer block r hfield hb hports hcidr hexcept h
    obtain ⟨tS, tC, d, h1, h2, hd, hinv, -, rfl⟩ := translateEgress_loop u ns t _ r h
    obtain ⟨dr, hr, hrd⟩ := foldlM_additive_within _ (egressRule_append u ns tS tC)
      pre rule post _ d hd
    rw [egressRule_of_peerExists u ns tS tC _ rule _ hfield
      (peerExists_append_cons ps1 ps2 peer (by simp [hb]))] at hr
    obtain ⟨dx, hx, hxr⟩ := foldlM_additive_within _
      (egressPeer_append u ns tS tC rule.Ports _) ps1 peer ps2 _ dr hr
    obtain ⟨dx', hx', -, -, -, hpe⟩ := egressPeer_ipBlock u ns tS tC rule.Ports
      (decide (rule.Ports.length > 0)) peer block hb
    have hdx : dx' = dx := Option.some.inj (hx'.symm.trans hx)
    subst hdx
    have hlen : rule.Ports.length > 0 := List.length_pos.2 hports
    rw [if_pos hcidr, decide_eq_true hlen] at hpe
    simp only [if_true] at hpe
    have hin : dx'.peerEntries <:+: d.entries ++ d.peerEntries :=
      ((hxr.trans hrd).2.1).trans (List.suffix_append _ _).isInfix
    have hflag : d.addedPeerEntry = true := by
      cases hf : d.addedPeerEntry with
      | true => rfl
      | false =>
        exfalso
        obtain ⟨x, xs, hxs⟩ := List.exists_cons_of_ne_nil hexcept
        have hmem := hin.subset (by
          rw [hpe, hxs]
          exact List.mem_append_left _ (List.mem_cons_self _ _))
        have hchain := ruleInv_port_chain _ _ _ _ hinv hf _ hmem
        exact absurd (show IptablesAzureEgressToChain = IptablesAzureEgressPortChain from hchain) (by decide)
    refine ⟨tS, tC, d.entries ++ d.peerEntries, h1, h2, ?_, ?_, ?_⟩
    · rw [egressFinish_entries, hflag]
      simp only [Bool.not_true, Bool.and_false, Bool.false_eq_true, if_false, if_true]
    · rw [← hpe]
      exact hin
    · intro e he
      rcases ruleInv_jumpTarget _ _ _ _ hinv e he with hT | hT <;> rw [hT] <;> decide

/-- The entries as they are built, at the rule with the port `TCP/80` that
admits `10.0.0.0/8` but for `10.1.0.0/16`, for the pods `app=web`: in either
direction the DROP entry of the except CIDR is on the From/To chain, the ACCEPT
entry of the cidr on the Port chain, and both come before the two jumps. -/
theorem except_drops_behind_port_accepts_witness :
    (∃ r body, translateIngress exampleUtil "default" (selectorOf "app" "web")
        [portExceptIngressRule] = some r ∧
      r.entries = body ++
        [jumpEntry "AZURE-NPM-INGRESS-PORT"
            ["-m", "set", "--match-set", "azure-npm-app:web", "dst"] "AZURE-NPM-INGRESS-FROM"
            "ALLOW-ALL-TO-app:web-TO-JUMP-TO-AZURE-NPM-INGRESS-FROM",
         jumpEntry "AZURE-NPM-INGRESS-FROM"
            ["-m", "set", "--match-set", "azure-npm-app:web", "dst"] "AZURE-NPM-TARGET-SETS"
            "ALLOW-ALL-TO-app:web-TO-JUMP-TO-AZURE-NPM-TARGET-SETS"] ∧
      [({ Chain := "AZURE-NPM-INGRESS-FROM",
          Specs := ["-s", "10.1.0.0/16",
                    "-m", "set", "--match-set", "azure-npm-app:web", "dst",
                    "-j", "DROP", "-m", "comment", "--comment",
                    "DROP-10.1.0.0/16-TO-app:web"] } : IptEntry),
       { Chain := "AZURE-NPM-INGRESS-PORT",
         Specs := ["-m", "set", "--match-set", "azure-npm-app:web", "dst",
                   "-s", "10.0.0.0/8", "-p", "TCP", "--dport", "80",
                   "-j", "ACCEPT", "-m", "comment", "--comment",
                   "ALLOW-10.0.0.0/8-:-TCP-PORT-80-TO-app:web"] }] <:+: body ∧
      ∀ e ∈ body, e.jumpTarget ≠ some IptablesAzureIngressFromChain) ∧
    (∃ r body, translateEgress exampleUtil "default" (selectorOf "app" "web")
        [mirrorRule portExceptIngressRule] = some r ∧
      r.entries = body ++
        [jumpEntry "AZURE-NPM-EGRESS-PORT"
            ["-m", "set", "--match-set", "azure-npm-app:web", "src"] "AZURE-NPM-EGRESS-TO"
            "ALLOW-ALL-FROM-app:web-TO-JUMP-TO-AZURE-NPM-EGRESS-TO",
         jumpEntry "AZURE-NPM-EGRESS-TO"
            ["-m", "set", "--match-set", "azure-npm-app:web", "src"] "AZURE-NPM-TARGET-SETS"
            "ALLOW-ALL-FROM-app:web-TO-JUMP-TO-AZURE-NPM-TARGET-SETS"] ∧
      [({ Chain := "AZURE-NPM-EGRESS-TO",
          Specs := ["-m", "set", "--match-set", "azure-npm-app:web", "src",
                    "-d", "10.1.0.0/16",
                    "-j", "DROP", "-m", "comment", "--comment",
                    "DROP-10.1.0.0/16-FROM-app:web"] } : IptEntry),
       { Chain := "AZURE-NPM-EGRESS-PORT",
         Specs := ["-p", "TCP", "--dport", "80",
                   "-m", "set", "--match-set", "azure-npm-app:web", "src",
                   "-d", "10.0.0.0/8",
                   "-j", "ACCEPT", "-m", "comment", "--comment",
                   "ALLOW-10.0.0.0/8-:-TCP-PORT-80-FROM-app:web"] }] <:+: body ∧
      ∀ e ∈ body, e.jumpTarget ≠ some IptablesAzureEgressToChain) := by
  obtain ⟨tS, tC, body, h1, h2, he, hin, hno⟩ :=
    (except_drops_behind_port_accepts exampleUtil "default" (selectorOf "app" "web")).1
      [] [] portExceptIngressRule [] [] (ipBlockPeer "10.0.0.0/8" ["10.1.0.0/16"])
      { CIDR := "10.0.0.0/8", Except := ["10.1.0.0/16"] } _ rfl rfl (by decide) (by decide)
      (by decide) rfl
  cases h1
  cases h2
  obtain ⟨tS', tC', body', h1', h2', he', hin', hno'⟩ :=
    (except_drops_behind_port_accepts exampleUtil "default" (selectorOf "app" "web")).2
      [] [] (mirrorRule portExceptIngressRule) [] [] (ipBlockPeer "10.0.0.0/8" ["10.1.0.0/16"])
      { CIDR := "10.0.0.0/8", Except := ["10.1.0.0/16"] } _ rfl rfl (by decide) (by decide)
      (by decide) rfl
  cases h1'
  cases h2'
  exact ⟨⟨_, body, rfl, he, hin, hno⟩, ⟨_, body', rfl, he', hin', hno'⟩⟩

/-! ## C35: the default drops of a policy without policy types -/

/-- The labels of the target hold a non-empty name when the target selector is
parsed to the sentinel of the empty selector (the label is then `ns-<ns>`) or to
some non-empty label. -/
theorem target_label_nonempty (u : Util) (ns : String) (t : LabelSelector)
    (h : u.GetOperatorsAndLabels (u.parseSelector (some t)) = [("", "")] ∨
      ∃ l ∈ parsedLabels u (some t), l ≠ "") :
    ∃ l ∈ (targetOpsAndLabels u ns t).2, l ≠ "" := by
  simp only [targetOpsAndLabels]
  split
  · exact ⟨_, List.mem_singleton_self _, ns_append_ne_empty ns⟩
  · rename_i hc
    rcases h with h | h
    · exact absurd (by simp [parsedOps, parsedLabels, h]) hc
    · exact h

/-- With a non-empty name among the labels of the target, `translateIngress`
returns at least one set. -/
theorem translateIngress_sets_pos (u : Util) (ns : String) (t : LabelSelector)
    (rules : List NetworkPolicyIngressRule) (r : Translation)
    (hl : ∃ l ∈ (targetOpsAndLabels u ns t).2, l ≠ "")
    (h : translateIngress u ns t rules = some r) : r.sets.length > 0 := by
  rw [translateIngress_eq_some] at h
  obtain ⟨tS, tC, d, -, -, -, rfl⟩ := h
  rw [(ingressFinish_sets tS tC _).1, length_DropEmptyFields_pos]
  obtain ⟨l, hm, hne⟩ := hl
  exact ⟨l, by simp [LoopState.append, LoopState.init, hm], hne⟩

/-- With a non-empty name among the labels of the target, `translateEgress`
returns at least one set. -/
theorem translateEgress_sets_pos (u : Util) (ns : String) (t : LabelSelector)
    (rules : List NetworkPolicyEgressRule) (r : Translation)
    (hl : ∃ l ∈ (targetOpsAndLabels u ns t).2, l ≠ "")
    (h : translateEgress u ns t rules = some r) : r.sets.length > 0 := by
  rw [translateEgress_eq_some] at h
  obtain ⟨tS, tC, d, -, -, -, rfl⟩ := h
  rw [(egressFinish_sets tS tC _).1, length_DropEmptyFields_pos]
  obtain ⟨l, hm, hne⟩ := hl
  exact ⟨l, by simp [LoopState.append, LoopState.init, hm], hne⟩

/-- C35. For a policy with empty `PolicyTypes` whose target selector is parsed
to the sentinel of the empty selector or to at least one non-empty label,
whatever its ingress and egress rules are: the entries `translatePolicy` returns
end with `DROP-ALL-TO-<target>` followed by `DROP-ALL-FROM-<target>`, and these
are the only entries on the TargetSets chain.  The same policy with
`PolicyTypes = [Ingress, Egress]` does not get `DROP-ALL-TO-<target>` when its
only ingress rule is the rule without ports and without `from`. -/
theorem empty_policyTypes_both_drops (u : Util) (npObj : NetworkPolicy) (r : Translation)
    (hpt : npObj.PolicyTypes = [])
    (htarget : u.GetOperatorsAndLabels (u.parseSelector (some npObj.PodSelector)) = [("", "")] ∨
      ∃ l ∈ parsedLabels u (some npObj.PodSelector), l ≠ "")
    (h : translatePolicy u npObj = some r) :
    ∃ tSd tSs tC body,
      craftPartialIptEntrySpecFromOpsAndLabels u npObj.Namespace
        (targetOpsAndLabels u npObj.Namespace npObj.PodSelector).1
        (targetOpsAndLabels u npObj.Namespace npObj.PodSelector).2 IptablesDstFlag false
        = some tSd ∧
      craftPartialIptEntrySpecFromOpsAndLabels u npObj.Namespace
        (targetOpsAndLabels u npObj.Namespace npObj.PodSelector).1
        (targetOpsAndLabels u npObj.Namespace npObj.PodSelector).2 IptablesSrcFlag false
        = some tSs ∧
      craftPartialIptablesCommentFromSelector u npObj.Namespace (some npObj.PodSelector) false
        = some tC ∧
      r.entries = body ++ [dropAllToEntry tSd tC, dropAllFromEntry tSs tC] ∧
      (∀ e ∈ body, e.Chain ≠ IptablesAzureTargetSetsChain) ∧
      ∀ (rule : NetworkPolicyIngressRule) (r' : Translation),
        npObj.Ingress = [rule] → rule.Ports = [] → rule.From = none →
        translatePolicy u { npObj with PolicyTypes := [PolicyTypeIngress, PolicyTypeEgress] } =
          some r' →
        dropAllToEntry tSd tC ∉ r'.entries := by
  obtain ⟨st, tSd, tSs, tC, hst, h1, h2, h3, he, -, -, hchain⟩ :=
    translatePolicy_entries u npObj r h
  have hl := target_label_nonempty u npObj.Namespace npObj.PodSelector htarget
  have hdirs := hst
  unfold translatePolicyDirections at hdirs
  rw [if_pos (by simp [hpt])] at hdirs
  simp only [Option.bind_eq_bind, Option.bind_eq_some] at hdirs
  obtain ⟨i, hi, e, hg, -⟩ := hdirs
  have hI := hasIngress_eq u npObj st i hst hi
  have hE := hasEgress_eq u npObj st e hst hg
  rw [if_pos hpt] at hI hE
  rw [decide_eq_true (translateIngress_sets_pos u _ _ _ i hl hi)] at hI
  rw [decide_eq_true (translateEgress_sets_pos u _ _ _ e hl hg)] at hE
  rw [hI, hE] at he
  refine ⟨tSd, tSs, tC, st.entries, h1, h2, h3, he, hchain, ?_⟩
  intro rule r' hrule hports hfrom h'
  obtain ⟨st', tSd', tSs', tC', hst', h1', h2', h3', he', -, -, hchain'⟩ :=
    translatePolicy_entries u _ r' h'
  have hd : tSd' = tSd := Option.some.inj (h1'.symm.trans h1)
  have hc : tC' = tC := Option.some.inj (h3'.symm.trans h3)
  subst hd
  subst hc
  have hflags := (policyTypes_flags u _ st' (by simp) hst').1
  have hdeg : ingressDegenerate
      { npObj with PolicyTypes := [PolicyTypeIngress, PolicyTypeEgress] } = true := by
    simp [ingressDegenerate, hrule, hports, hfrom]
  rw [hdeg] at hflags
  simp only [Bool.not_true, Bool.and_false] at hflags
  rw [he', hflags]
  exact dropAllToEntry_not_mem _ _ _ _ hchain' _ _

/-- C35 at the policy for the pods `app=web` whose only ingress rule is the
allow-all rule: without policy types its entries end with the two default drops;
with `PolicyTypes = [Ingress, Egress]` the entry `DROP-ALL-TO-app:web` is not
returned. -/
theorem empty_policyTypes_both_drops_witness :
    (∃ r body, translatePolicy exampleUtil (allowAllPolicy []) = some r ∧
      r.entries = body ++
        [dropAllToEntry ["-m", "set", "--match-set", "azure-npm-app:web", "dst"] "app:web",
         dropAllFromEntry ["-m", "set", "--match-set", "azure-npm-app:web", "src"] "app:web"]) ∧
    (∃ r', translatePolicy exampleUtil (allowAllPolicy [PolicyTypeIngress, PolicyTypeEgress]) =
        some r' ∧
      dropAllToEntry ["-m", "set", "--match-set", "azure-npm-app:web", "dst"] "app:web" ∉
        r'.entries) := by
  obtain ⟨tSd, tSs, tC, body, h1, h2, h3, he, -, hx⟩ :=
    empty_policyTypes_both_drops exampleUtil (allowAllPolicy []) _ rfl
      (Or.inr ⟨"app:web", by decide, by decide⟩) rfl
  cases h1
  cases h2
  cases h3
  exact ⟨⟨_, body, rfl, he⟩, ⟨_, rfl, hx _ _ rfl rfl rfl rfl⟩⟩

/-! ## C36, the entries as they are built: every entry holds the target fragment -/

theorem ruleEntry_scoped (portChain peerChain : String) (tS : List String) (e : IptEntry)
    (h : RuleEntry portChain peerChain tS e) : scopedTo tS e := by
  obtain ⟨m, T, c, hs, hinf, -⟩ := h
  exact ⟨m, T, c, hs, hinf⟩

theorem jumpEntry_scoped (chain : String) (tS : List String) (T c : String) :
    scopedTo tS (jumpEntry chain tS T c) :=
  ⟨tS, T, c, rfl, List.infix_refl _⟩

theorem ruleInv_scoped (portChain peerChain : String) (tS : List String) (d : LoopState)
    (h : RuleInv portChain peerChain tS d) :
    ∀ e ∈ d.entries ++ d.peerEntries, scopedTo tS e := by
  intro e he
  rcases List.mem_append.mp he with he | he
  · exact ruleEntry_scoped _ _ _ _ (h.1.1 e he)
  · exact ruleEntry_scoped _ _ _ _ (h.1.2 e he)

/-- Every entry `translateIngress` returns holds the target fragment with the
flag `dst` before its jump. -/
theorem translateIngress_scoped (u : Util) (ns : String) (t : LabelSelector)
    (rules : List NetworkPolicyIngressRule) (r : Translation) (tS : List String)
    (htS : craftPartialIptEntrySpecFromOpsAndLabels u ns (targetOpsAndLabels u ns t).1
      (targetOpsAndLabels u ns t).2 IptablesDstFlag false = some tS)
    (h : translateIngress u ns t rules = some r) : ∀ e ∈ r.entries, scopedTo tS e := by
  obtain ⟨tS', tC, d, h1, -, -, hinv, -, rfl⟩ := translateIngress_loop u ns t rules r h
  have heq : tS' = tS := Option.some.inj (h1.symm.trans htS)
  subst heq
  rw [ingressFinish_entries]
  intro e he
  rcases List.mem_append.mp he with he | he
  · exact ruleInv_scoped _ _ _ _ hinv e he
  · split at he
    · rw [List.mem_singleton] at he
      rw [he]
      exact jumpEntry_scoped _ _ _ _
    · split at he
      · simp only [List.mem_cons, List.not_mem_nil, or_false] at he
        rcases he with he | he <;> rw [he] <;> exact jumpEntry_scoped _ _ _ _
      · cases he

/-- Every entry `translateEgress` returns holds the target fragment with the
flag `src` before its jump. -/
theorem translateEgress_scoped (u : Util) (ns : String) (t : LabelSelector)
    (rules : List NetworkPolicyEgressRule) (r : Translation) (tS : List String)
    (htS : craftPartialIptEntrySpecFromOpsAndLabels u ns (targetOpsAndLabels u ns t).1
      (targetOpsAndLabels u ns t).2 IptablesSrcFlag false = some tS)
    (h : translateEgress u ns t rules = some r) : ∀ e ∈ r.entries, scopedTo tS e := by
  obtain ⟨tS', tC, d, h1, -, -, hinv, -, rfl⟩ := translateEgress_loop u ns t rules r h
  have heq : tS' = tS := Option.some.inj (h1.symm.trans htS)
  subst heq
  rw [egressFinish_entries]
  intro e he
  rcases List.mem_append.mp he with he | he
  · exact ruleInv_scoped _ _ _ _ hinv e he
  · split at he
    · rw [List.mem_singleton] at he
      rw [he]
      exact jumpEntry_scoped _ _ _ _
    · split at he
      · simp only [List.mem_cons, List.not_mem_nil, or_false] at he
        rcases he with he | he <;> rw [he] <;> exact jumpEntry_scoped _ _ _ _
      · cases he

/-- Of the entries as they are built.  Every entry `translatePolicy` returns
holds the match fragment of the target selector as a block of consecutive tokens
before its `-j`: the fragment with the flag `dst` in the entries on the
Ingress-Port and Ingress-From chains and in `DROP-ALL-TO-<target>`, the fragment
with the flag `src` in the entries on the Egress-Port and Egress-To chains and
in `DROP-ALL-FROM-<target>`; and every returned entry is one of these. -/
theorem entries_scoped_to_target (u : Util) (npObj : NetworkPolicy) (r : Translation)
    (h : translatePolicy u npObj = some r) :
    ∃ tSd tSs tC,
      craftPartialIptEntrySpecFromOpsAndLabels u npObj.Namespace
        (targetOpsAndLabels u npObj.Namespace npObj.PodSelector).1
        (targetOpsAndLabels u npObj.Namespace npObj.PodSelector).2 IptablesDstFlag false
        = some tSd ∧
      craftPartialIptEntrySpecFromOpsAndLabels u npObj.Namespace
        (targetOpsAndLabels u npObj.Namespace npObj.PodSelector).1
        (targetOpsAndLabels u npObj.Namespace npObj.PodSelector).2 IptablesSrcFlag false
        = some tSs ∧
      craftPartialIptablesCommentFromSelector u npObj.Namespace (some npObj.PodSelector) false
        = some tC ∧
      ∀ e ∈ r.entries,
        (IngressChain e ∧ scopedTo tSd e) ∨ (EgressChain e ∧ scopedTo tSs e) ∨
        (e = dropAllToEntry tSd tC ∧ scopedTo tSd e) ∨
        (e = dropAllFromEntry tSs tC ∧ scopedTo tSs e) := by
  obtain ⟨st, tSd, tSs, tC, hst, h1, h2, h3, he, -, -, -⟩ := translatePolicy_entries u npObj r h
  refine ⟨tSd, tSs, tC, h1, h2, h3, ?_⟩
  obtain ⟨ts, hts, -, -, hse⟩ := translatePolicyDirections_spec u npObj st hst
  intro e hmem
  rw [he] at hmem
  rcases List.mem_append.mp hmem with hmem | hmem
  · rw [hse] at hmem
    simp only [List.mem_flatten, List.mem_map] at hmem
    obtain ⟨l, ⟨t, ht, rfl⟩, hel⟩ := hmem
    obtain ⟨dir, -, hdir⟩ := forall₂_right_mem hts t ht
    unfold translateDirection at hdir
    split at hdir
    · exact Or.inl ⟨translateIngress_chain u _ _ _ t hdir e hel,
        translateIngress_scoped u _ _ _ t tSd h1 hdir e hel⟩
    · exact Or.inr (Or.inl ⟨translateEgress_chain u _ _ _ t hdir e hel,
        translateEgress_scoped u _ _ _ t tSs h2 hdir e hel⟩)
  · rcases List.mem_append.mp hmem with hmem | hmem
    · split at hmem
      · rw [List.mem_singleton] at hmem
        exact Or.inr (Or.inr (Or.inl ⟨hmem, by
          rw [hmem]
          exact ⟨tSd, _, _, rfl, List.infix_refl _⟩⟩))
      · cases hmem
    · split at hmem
      · rw [List.mem_singleton] at hmem
        exact Or.inr (Or.inr (Or.inr ⟨hmem, by
          rw [hmem]
          exact ⟨tSs, _, _, rfl, List.infix_refl _⟩⟩))
      · cases hmem

/-- The entries as they are built, at `webPolicy`, whose target `app=web` has the fragments
`-m set --match-set azure-npm-app:web dst` and `… src`. -/
theorem entries_scoped_to_target_witness :
    ∃ r, translatePolicy exampleUtil webPolicy = some r ∧
      ∀ e ∈ r.entries,
        (IngressChain e ∧
          scopedTo ["-m", "set", "--match-set", "azure-npm-app:web", "dst"] e) ∨
        (EgressChain e ∧
          scopedTo ["-m", "set", "--match-set", "azure-npm-app:web", "src"] e) ∨
        (e = dropAllToEntry ["-m", "set", "--match-set", "azure-npm-app:web", "dst"]
            "app:web" ∧
          scopedTo ["-m", "set", "--match-set", "azure-npm-app:web", "dst"] e) ∨
        (e = dropAllFromEntry ["-m", "set", "--match-set", "azure-npm-app:web", "src"]
            "app:web" ∧
          scopedTo ["-m", "set", "--match-set", "azure-npm-app:web", "src"] e) := by
  obtain ⟨tSd, tSs, tC, h1, h2, h3, hall⟩ :=
    entries_scoped_to_target exampleUtil webPolicy _ rfl
  cases h1
  cases h2
  cases h3
  exact ⟨_, rfl, hall⟩

/-! ## C37: the intersection flag -/

theorem foldlM_congr_mem {σ α : Type} (f g : σ → α → Option σ) :
    ∀ (xs : List α), (∀ x ∈ xs, ∀ s, f s x = g s x) → ∀ s, xs.foldlM f s = xs.foldlM g s := by
  intro xs
  induction xs with
  | nil => intro _ s; rfl
  | cons x xs ih =>
    intro h s
    simp only [List.foldlM_cons, Option.bind_eq_bind]
    rw [h x (List.mem_cons_self _ _) s]
    cases g s x with
    | none => rfl
    | some s' =>
      simp only [Option.some_bind]
      exact ih (fun y hy => h y (List.mem_cons_of_mem _ hy)) s'

theorem ingressPeer_withFlag (u : Util) (flag : Bool) (ns : String) (tS : List String)
    (tC : String) (ports : List NetworkPolicyPort) (pre : Bool) (st : LoopState)
    (peer : NetworkPolicyPeer) (h : notCombined peer) :
    ingressPeer (u.withFlag flag) ns tS tC ports pre st peer =
      ingressPeer u ns tS tC ports pre st peer := by
  obtain ⟨pod, nsSel, ip⟩ := peer
  cases ip with
  | some ipBlock => rfl
  | none =>
    cases pod with
    | none => cases nsSel <;> rfl
    | some podSel =>
      cases nsSel with
      | none => rfl
      | some nsSel => exact absurd ⟨rfl, rfl⟩ h

theorem egressPeer_withFlag (u : Util) (flag : Bool) (ns : String) (tS : List String)
    (tC : String) (ports : List NetworkPolicyPort) (pre : Bool) (st : LoopState)
    (peer : NetworkPolicyPeer) (h : notCombined peer) :
    egressPeer (u.withFlag flag) ns tS tC ports pre st peer =
      egressPeer u ns tS tC ports pre st peer := by
  obtain ⟨pod, nsSel, ip⟩ := peer
  cases ip with
  | some ipBlock => rfl
  | none =>
    cases pod with
    | none => cases nsSel <;> rfl
    | some podSel =>
      cases nsSel with
      | none => rfl
      | some nsSel => exact absurd ⟨rfl, rfl⟩ h

theorem ingressRule_withFlag (u : Util) (flag : Bool) (ns : String) (tS : List String)
    (tC : String) (st : LoopState) (rule : NetworkPolicyIngressRule)
    (h : ∀ peer ∈ rule.From.getD [], notCombined peer) :
    ingressRule (u.withFlag flag) ns tS tC st rule = ingressRule u ns tS tC st rule := by
  have hfold : ∀ s, (rule.From.getD []).foldlM
      (ingressPeer (u.withFlag flag) ns tS tC rule.Ports (decide (rule.Ports.length > 0))) s =
      (rule.From.getD []).foldlM
        (ingressPeer u ns tS tC rule.Ports (decide (rule.Ports.length > 0))) s :=
    foldlM_congr_mem _ _ _ (fun x hx s => ingressPeer_withFlag u flag ns tS tC _ _ s x (h x hx))
  simp only [ingressRule, hfold]
  rfl

theorem egressRule_withFlag (u : Util) (flag : Bool) (ns : String) (tS : List String)
    (tC : String) (st : LoopState) (rule : NetworkPolicyEgressRule)
    (h : ∀ peer ∈ rule.To.getD [], notCombined peer) :
    egressRule (u.withFlag flag) ns tS tC st rule = egressRule u ns tS tC st rule := by
  have hfold : ∀ s, (rule.To.getD []).foldlM
      (egressPeer (u.withFlag flag) ns tS tC rule.Ports (decide (rule.Ports.length > 0))) s =
      (rule.To.getD []).foldlM
        (egressPeer u ns tS tC rule.Ports (decide (rule.Ports.length > 0))) s :=
    foldlM_congr_mem _ _ _ (fun x hx s => egressPeer_withFlag u flag ns tS tC _ _ s x (h x hx))
  simp only [egressRule, hfold]
  rfl

theorem translateIngress_withFlag (u : Util) (flag : Bool) (ns : String) (t : LabelSelector)
    (rules : List NetworkPolicyIngressRule)
    (h : ∀ rule ∈ rules, ∀ peer ∈ rule.From.getD [], notCombined peer) :
    translateIngress (u.withFlag flag) ns t rules = translateIngress u ns t rules := by
  have hfold : ∀ tS tC s, rules.foldlM (ingressRule (u.withFlag flag) ns tS tC) s =
      rules.foldlM (ingressRule u ns tS tC) s :=
    fun tS tC => foldlM_congr_mem _ _ _
      (fun x hx s => ingressRule_withFlag u flag ns tS tC s x (h x hx))
  simp only [translateIngress, hfold]
  rfl

theorem translateEgress_withFlag (u : Util) (flag : Bool) (ns : String) (t : LabelSelector)
    (rules : List NetworkPolicyEgressRule)
    (h : ∀ rule ∈ rules, ∀ peer ∈ rule.To.getD [], notCombined peer) :
    translateEgress (u.withFlag flag) ns t rules = translateEgress u ns t rules := by
  have hfold : ∀ tS tC s, rules.foldlM (egressRule (u.withFlag flag) ns tS tC) s =
      rules.foldlM (egressRule u ns tS tC) s :=
    fun tS tC => foldlM_congr_mem _ _ _
      (fun x hx s => egressRule_withFlag u flag ns tS tC s x (h x hx))
  simp only [translateEgress, hfold]
  rfl

theorem translatePolicy_withFlag (u : Util) (flag : Bool) (npObj : NetworkPolicy)
    (h : noCombinedPeer npObj) :
    translatePolicy (u.withFlag flag) npObj = translatePolicy u npObj := by
  have hI := translateIngress_withFlag u flag npObj.Namespace npObj.PodSelector npObj.Ingress h.1
  have hE := translateEgress_withFlag u flag npObj.Namespace npObj.PodSelector npObj.Egress h.2
  have hstep : policyTypeStep (u.withFlag flag) npObj = policyTypeStep u npObj := by
    funext st ptype
    simp only [policyTypeStep, hI, hE]
  have hdrops : getDefaultDropEntries (u.withFlag flag) npObj.Namespace npObj.PodSelector =
      getDefaultDropEntries u npObj.Namespace npObj.PodSelector := rfl
  simp only [translatePolicy, translatePolicyDirections, hstep, hdrops, hI, hE]

/-- C37. For every policy none of whose ingress or egress peers has both a pod
selector and a namespace selector, `translatePolicy` returns the same result
(the same sets, lists and entries, or no result in both runs) with the
intersection flag enabled as with the flag disabled. -/
theorem flag_matters_for_combined_peers_only (u : Util) (npObj : NetworkPolicy)
    (h : noCombinedPeer npObj) :
    translatePolicy (u.withFlag true) npObj = translatePolicy (u.withFlag false) npObj :=
  (translatePolicy_withFlag u true npObj h).trans (translatePolicy_withFlag u false npObj h).symm

/-- C37 at `webPolicy`, whose peers are a pod selector alone and a namespace
selector alone: both runs return the same translation. -/
theorem flag_matters_for_combined_peers_only_witness :
    noCombinedPeer webPolicy ∧
    translatePolicy (exampleUtil.withFlag true) webPolicy =
      translatePolicy (exampleUtil.withFlag false) webPolicy ∧
    (translatePolicy (exampleUtil.withFlag true) webPolicy).isSome = true :=
  have hweb : noCombinedPeer webPolicy := by
    unfold noCombinedPeer notCombined
    decide
  ⟨hweb, flag_matters_for_combined_peers_only exampleUtil webPolicy hweb, by decide⟩

/-! ## The three shapes of the entries of a direction -/

theorem translateIngress_tail (u : Util) (ns : String) (t : LabelSelector)
    (rules : List NetworkPolicyIngressRule) (r : Translation)
    (h : translateIngress u ns t rules = some r) :
    ∃ tS tC body,
      craftPartialIptEntrySpecFromOpsAndLabels u ns (targetOpsAndLabels u ns t).1
        (targetOpsAndLabels u ns t).2 IptablesDstFlag false = some tS ∧
      craftPartialIptablesCommentFromSelector u ns (some t) false = some tC ∧
      (∀ e ∈ body, e.jumpTarget = some IptablesAccept ∨ e.jumpTarget = some IptablesDrop) ∧
      ((r.entries = body ∧ ∀ e ∈ body, e.Chain = IptablesAzureIngressPortChain) ∨
       (r.entries = body ++
          [jumpEntry IptablesAzureIngressPortChain tS IptablesAzureTargetSetsChain
            ("ALLOW-ALL-TO-" ++ tC ++ "-TO-JUMP-TO-" ++ IptablesAzureTargetSetsChain)] ∧
          ∀ e ∈ body, e.Chain = IptablesAzureIngressPortChain) ∨
       (r.entries = body ++
          [jumpEntry IptablesAzureIngressPortChain tS IptablesAzureIngressFromChain
            ("ALLOW-ALL-TO-" ++ tC ++ "-TO-JUMP-TO-" ++ IptablesAzureIngressFromChain),
           jumpEntry IptablesAzureIngressFromChain tS IptablesAzureTargetSetsChain
            ("ALLOW-ALL-TO-" ++ tC ++ "-TO-JUMP-TO-" ++ IptablesAzureTargetSetsChain)] ∧
          ∃ e ∈ body, peerChainEntry IptablesAzureIngressFromChain e = true)) := by
  obtain ⟨tS, tC, d, h1, h2, -, hinv, -, rfl⟩ := translateIngress_loop u ns t rules r h
  refine ⟨tS, tC, d.entries ++ d.peerEntries, h1, h2, ruleInv_jumpTarget _ _ _ _ hinv, ?_⟩
  rw [ingressFinish_entries]
  cases hf : d.addedPeerEntry with
  | true =>
    right
    right
    simp only [Bool.not_true, Bool.and_false, Bool.false_eq_true, if_false, if_true, true_and]
    exact ruleInv_peer_entry _ _ _ _ hinv hf
  | false =>
    have hport := ruleInv_port_chain _ _ _ _ hinv hf
    cases d.addedPortEntry with
    | true =>
      right
      left
      simp only [Bool.not_false, Bool.and_self, if_true, true_and]
      exact hport
    | false =>
      left
      simp only [Bool.not_false, Bool.and_true, Bool.false_eq_true, if_false,
        List.append_nil, true_and]
      exact hport

theorem translateEgress_tail (u : Util) (ns : String) (t : LabelSelector)
    (rules : List NetworkPolicyEgressRule) (r : Translation)
    (h : translateEgress u ns t rules = some r) :
    ∃ tS tC body,
      craftPartialIptEntrySpecFromOpsAndLabels u ns (targetOpsAndLabels u ns t).1
        (targetOpsAndLabels u ns t).2 IptablesSrcFlag false = some tS ∧
      craftPartialIptablesCommentFromSelector u ns (some t) false = some tC ∧
      (∀ e ∈ body, e.jumpTarget = some IptablesAccept ∨ e.jumpTarget = some IptablesDrop) ∧
      ((r.entries = body ∧ ∀ e ∈ body, e.Chain = IptablesAzureEgressPortChain) ∨
       (r.entries = body ++
          [jumpEntry IptablesAzureEgressPortChain tS IptablesAzureTargetSetsChain
            ("ALLOW-ALL-FROM-" ++ tC ++ "-TO-JUMP-TO-" ++ IptablesAzureTargetSetsChain)] ∧
          ∀ e ∈ body, e.Chain = IptablesAzureEgressPortChain) ∨
       (r.entries = body ++
          [jumpEntry IptablesAzureEgressPortChain tS IptablesAzureEgressToChain
            ("ALLOW-ALL-FROM-" ++ tC ++ "-TO-JUMP-TO-" ++ IptablesAzureEgressToChain),
           jumpEntry IptablesAzureEgressToChain tS IptablesAzureTargetSetsChain
            ("ALLOW-ALL-FROM-" ++ tC ++ "-TO-JUMP-TO-" ++ IptablesAzureTargetSetsChain)] ∧
          ∃ e ∈ body, peerChainEntry IptablesAzureEgressToChain e = true)) := by
  obtain ⟨tS, tC, d, h1, h2, -, hinv, -, rfl⟩ := translateEgress_loop u ns t rules r h
  refine ⟨tS, tC, d.entries ++ d.peerEntries, h1, h2, ruleInv_jumpTarget _ _ _ _ hinv, ?_⟩
  rw [egressFinish_entries]
  cases hf : d.addedPeerEntry with
  | true =>
    right
    right
    simp only [Bool.not_true, Bool.and_false, Bool.false_eq_true, if_false, if_true, true_and]
    exact ruleInv_peer_entry _ _ _ _ hinv hf
  | false =>
    have hport := ruleInv_port_chain _ _ _ _ hinv hf
    cases d.addedPortEntry with
    | true =>
      right
      left
      simp only [Bool.not_false, Bool.and_self, if_true, true_and]
      exact hport
    | false =>
      left
      simp only [Bool.not_false, Bool.and_true, Bool.false_eq_true, if_false,
        List.append_nil, true_and]
      exact hport

theorem countP_jumpTarget_eq_zero (body : List IptEntry) (T : String)
    (ha : T ≠ IptablesAccept) (hd : T ≠ IptablesDrop)
    (hb : ∀ e ∈ body, e.jumpTarget = some IptablesAccept ∨ e.jumpTarget = some IptablesDrop) :
    body.countP (fun e => decide (e.jumpTarget = some T)) = 0 := by
  rw [List.countP_eq_zero]
  intro e he
  simp only [decide_eq_true_eq]
  rcases hb e he with h | h <;> rw [h] <;> intro heq
  · exact ha (Option.some.inj heq).symm
  · exact hd (Option.some.inj heq).symm

theorem jumpTarget_jumpEntry (chain : String) (tS : List String) (T c : String) :
    (jumpEntry chain tS T c).jumpTarget = some T :=
  jumpTarget_mk chain tS T c

/-- What follows from the three shapes of the entries of a direction. -/
theorem tail_shape_facts (portChain peerChain : String) (hne : portChain ≠ peerChain)
    (hpa : peerChain ≠ IptablesAccept) (hpd : peerChain ≠ IptablesDrop)
    (hpt : peerChain ≠ IptablesAzureTargetSetsChain)
    (entries body : List IptEntry) (tS : List String) (c1 c2 c3 : String)
    (hb : ∀ e ∈ body, e.jumpTarget = some IptablesAccept ∨ e.jumpTarget = some IptablesDrop)
    (h : (entries = body ∧ ∀ e ∈ body, e.Chain = portChain) ∨
      (entries = body ++ [jumpEntry portChain tS IptablesAzureTargetSetsChain c1] ∧
        ∀ e ∈ body, e.Chain = portChain) ∨
      (entries = body ++ [jumpEntry portChain tS peerChain c2,
          jumpEntry peerChain tS IptablesAzureTargetSetsChain c3] ∧
        ∃ e ∈ body, peerChainEntry peerChain e = true)) :
    ∃ tail, entries = body ++ tail ∧ tail.length ≤ 2 ∧
      (∀ e ∈ tail, e.jumpTarget = some peerChain ∨
        e.jumpTarget = some IptablesAzureTargetSetsChain) ∧
      entries.countP (fun e => decide (e.jumpTarget = some peerChain)) ≤ 1 ∧
      entries.countP (fun e => decide (e.jumpTarget = some IptablesAzureTargetSetsChain)) ≤ 1 ∧
      ((∃ e ∈ entries, e.jumpTarget = some peerChain) ↔
        ∃ e ∈ entries, peerChainEntry peerChain e = true) := by
  have hzp := countP_jumpTarget_eq_zero body peerChain hpa hpd hb
  have hzt := countP_jumpTarget_eq_zero body IptablesAzureTargetSetsChain
    (by decide) (by decide) hb
  have hnp : ∀ e ∈ body, e.jumpTarget ≠ some peerChain := by
    intro e he heq
    rcases hb e he with h | h
    · rw [h] at heq
      exact hpa (Option.some.inj heq).symm
    · rw [h] at heq
      exact hpd (Option.some.inj heq).symm
  have hoff : ∀ e : IptEntry, e.Chain = portChain → peerChainEntry peerChain e = false := by
    intro e hc
    simp only [peerChainEntry, hc, decide_eq_false hne, Bool.false_and]
  rcases h with ⟨rfl, hport⟩ | ⟨rfl, hport⟩ | ⟨rfl, hpeer⟩
  · refine ⟨[], (List.append_nil _).symm, by simp, by simp, by omega, by omega, ?_⟩
    constructor
    · rintro ⟨e, he, heq⟩
      exact absurd heq (hnp e he)
    · rintro ⟨e, he, heq⟩
      rw [hoff e (hport e he)] at heq
      cases heq
  · refine ⟨_, rfl, by simp, ?_, ?_, ?_, ?_⟩
    · intro e he
      rw [List.mem_singleton] at he
      rw [he, jumpTarget_jumpEntry]
      exact Or.inr rfl
    · rw [List.countP_append, hzp]
      simp only [List.countP_cons, List.countP_nil, jumpTarget_jumpEntry, Option.some.injEq,
        decide_eq_true_eq]
      split <;> omega
    · rw [List.countP_append, hzt]
      simp only [List.countP_cons, List.countP_nil, jumpTarget_jumpEntry, Option.some.injEq,
        decide_eq_true_eq]
      split <;> omega
    · constructor
      · rintro ⟨e, he, heq⟩
        rcases List.mem_append.mp he with he | he
        · exact absurd heq (hnp e he)
        · rw [List.mem_singleton] at he
          rw [he, jumpTarget_jumpEntry] at heq
          exact absurd (Option.some.inj heq).symm hpt
      · rintro ⟨e, he, heq⟩
        rcases List.mem_append.mp he with he | he
        · rw [hoff e (hport e he)] at heq
          cases heq
        · rw [List.mem_singleton] at he
          rw [he, hoff _ rfl] at heq
          cases heq
  · refine ⟨_, rfl, by simp, ?_, ?_, ?_, ?_⟩
    · intro e he
      simp only [List.mem_cons, List.not_mem_nil, or_false] at he
      rcases he with he | he <;> rw [he, jumpTarget_jumpEntry]
      · exact Or.inl rfl
      · exact Or.inr rfl
    · rw [List.countP_append, hzp]
      simp only [List.countP_cons, List.countP_nil, jumpTarget_jumpEntry, Option.some.injEq,
        decide_eq_true_eq]
      rw [if_neg (fun h => hpt h.symm)]
      split <;> omega
    · rw [List.countP_append, hzt]
      simp only [List.countP_cons, List.countP_nil, jumpTarget_jumpEntry, Option.some.injEq,
        decide_eq_true_eq]
      rw [if_neg hpt]
      split <;> omega
    · constructor
      · intro _
        obtain ⟨e, he, hpe⟩ := hpeer
        exact ⟨e, List.mem_append_left _ he, hpe⟩
      · intro _
        exact ⟨_, List.mem_append_right _ (List.mem_cons_self _ _), jumpTarget_jumpEntry _ _ _ _⟩

/-! ## C38, the entries as they are built: the jumps to chains come last -/

/-- Of the entries as they are built.  The entries `translateIngress` returns
are a list of entries whose jump target is `ACCEPT` or `DROP`, followed by at
most two entries whose jump target is the Ingress-From chain or the TargetSets
chain; at most one returned entry jumps to the Ingress-From chain and at most
one to the TargetSets chain; and an entry jumps to the Ingress-From chain if and
only if an ACCEPT or DROP entry is on that chain.  Likewise for
`translateEgress` with the Egress-To chain. -/
theorem chain_jumps_are_last (u : Util) (ns : String) (t : LabelSelector) :
    (∀ (rules : List NetworkPolicyIngressRule) (r : Translation),
      translateIngress u ns t rules = some r →
      ∃ body tail, r.entries = body ++ tail ∧ tail.length ≤ 2 ∧
        (∀ e ∈ body, e.jumpTarget = some IptablesAccept ∨ e.jumpTarget = some IptablesDrop) ∧
        (∀ e ∈ tail, e.jumpTarget = some IptablesAzureIngressFromChain ∨
          e.jumpTarget = some IptablesAzureTargetSetsChain) ∧
        r.entries.countP
          (fun e => decide (e.jumpTarget = some IptablesAzureIngressFromChain)) ≤ 1 ∧
        r.entries.countP
          (fun e => decide (e.jumpTarget = some IptablesAzureTargetSetsChain)) ≤ 1 ∧
        ((∃ e ∈ r.entries, e.jumpTarget = some IptablesAzureIngressFromChain) ↔
          ∃ e ∈ r.entries, peerChainEntry IptablesAzureIngressFromChain e = true)) ∧
    (∀ (rules : List NetworkPolicyEgressRule) (r : Translation),
      translateEgress u ns t rules = some r →
      ∃ body tail, r.entries = body ++ tail ∧ tail.length ≤ 2 ∧
        (∀ e ∈ body, e.jumpTarget = some IptablesAccept ∨ e.jumpTarget = some IptablesDrop) ∧
        (∀ e ∈ tail, e.jumpTarget = some IptablesAzureEgressToChain ∨
          e.jumpTarget = some IptablesAzureTargetSetsChain) ∧
        r.entries.countP
          (fun e => decide (e.jumpTarget = some IptablesAzureEgressToChain)) ≤ 1 ∧
        r.entries.countP
          (fun e => decide (e.jumpTarget = some IptablesAzureTargetSetsChain)) ≤ 1 ∧
        ((∃ e ∈ r.entries, e.jumpTarget = some IptablesAzureEgressToChain) ↔
          ∃ e ∈ r.entries, peerChainEntry IptablesAzureEgressToChain e = true)) := by
  constructor
  · intro rules r h
    obtain ⟨tS, tC, body, -, -, hb, hshape⟩ := translateIngress_tail u ns t rules r h
    obtain ⟨tail, h1, h2, h3, h4, h5, h6⟩ := tail_shape_facts IptablesAzureIngressPortChain
      IptablesAzureIngressFromChain (by decide) (by decide) (by decide) (by decide)
      r.entries body tS _ _ _ hb hshape
    exact ⟨body, tail, h1, h2, hb, h3, h4, h5, h6⟩
  · intro rules r h
    obtain ⟨tS, tC, body, -, -, hb, hshape⟩ := translateEgress_tail u ns t rules r h
    obtain ⟨tail, h1, h2, h3, h4, h5, h6⟩ := tail_shape_facts IptablesAzureEgressPortChain
      IptablesAzureEgressToChain (by decide) (by decide) (by decide) (by decide)
      r.entries body tS _ _ _ hb hshape
    exact ⟨body, tail, h1, h2, hb, h3, h4, h5, h6⟩

/-- The entries as they are built, at one rule that admits `10.0.0.0/8` but for
`10.1.0.0/16`, for the pods `app=web`: either direction returns four entries,
the last two of which are the jumps. -/
theorem chain_jumps_are_last_witness :
    (∃ r, translateIngress exampleUtil "default" (selectorOf "app" "web") exceptIngressRules =
        some r ∧
      ∃ body tail, r.entries = body ++ tail ∧ tail.length ≤ 2 ∧
        (∀ e ∈ body, e.jumpTarget = some IptablesAccept ∨ e.jumpTarget = some IptablesDrop) ∧
        (∀ e ∈ tail, e.jumpTarget = some IptablesAzureIngressFromChain ∨
          e.jumpTarget = some IptablesAzureTargetSetsChain) ∧
        r.entries.countP
          (fun e => decide (e.jumpTarget = some IptablesAzureIngressFromChain)) ≤ 1 ∧
        r.entries.countP
          (fun e => decide (e.jumpTarget = some IptablesAzureTargetSetsChain)) ≤ 1 ∧
        ((∃ e ∈ r.entries, e.jumpTarget = some IptablesAzureIngressFromChain) ↔
          ∃ e ∈ r.entries, peerChainEntry IptablesAzureIngressFromChain e = true)) ∧
    (∃ r, translateEgress exampleUtil "default" (selectorOf "app" "web") exceptEgressRules =
        some r ∧
      ∃ body tail, r.entries = body ++ tail ∧ tail.length ≤ 2 ∧
        (∀ e ∈ body, e.jumpTarget = some IptablesAccept ∨ e.jumpTarget = some IptablesDrop) ∧
        (∀ e ∈ tail, e.jumpTarget = some IptablesAzureEgressToChain ∨
          e.jumpTarget = some IptablesAzureTargetSetsChain) ∧
        r.entries.countP
          (fun e => decide (e.jumpTarget = some IptablesAzureEgressToChain)) ≤ 1 ∧
        r.entries.countP
          (fun e => decide (e.jumpTarget = some IptablesAzureTargetSetsChain)) ≤ 1 ∧
        ((∃ e ∈ r.entries, e.jumpTarget = some IptablesAzureEgressToChain) ↔
          ∃ e ∈ r.entries, peerChainEntry IptablesAzureEgressToChain e = true)) :=
  ⟨⟨_, rfl, (chain_jumps_are_last exampleUtil "default" (selectorOf "app" "web")).1
      exceptIngressRules _ rfl⟩,
    ⟨_, rfl, (chain_jumps_are_last exampleUtil "default" (selectorOf "app" "web")).2
      exceptEgressRules _ rfl⟩⟩

/-! ## C39, the entries as they are built: the explicit empty list of peers in the two directions -/

/-- Of the entries as they are built.  For every namespace and target selector
whose fragments (`tSs` with the flag `src`, `tSd` with the flag `dst`) and
comment `tC` are built: `translateEgress` on a single rule without ports whose
`to` is the explicit empty list returns exactly two entries, the ACCEPT entry
`ALLOW-ALL-FROM-<target>` on the Egress-Port chain followed by the jump from the
Egress-Port chain to the TargetSets chain, whereas `translateIngress` on the
mirrored rule returns the single ACCEPT entry `ALLOW-ALL-TO-<target>` and no
jump. -/
theorem explicit_empty_peers_two_directions (u : Util) (ns : String)
    (targetSelector : LabelSelector) (rule : NetworkPolicyIngressRule)
    (tSd tSs : List String) (tC : String)
    (hports : rule.Ports = []) (hfrom : rule.From = some [])
    (htSd : craftPartialIptEntrySpecFromOpsAndLabels u ns (targetOpsAndLabels u ns targetSelector).1
      (targetOpsAndLabels u ns targetSelector).2 IptablesDstFlag false = some tSd)
    (htSs : craftPartialIptEntrySpecFromOpsAndLabels u ns (targetOpsAndLabels u ns targetSelector).1
      (targetOpsAndLabels u ns targetSelector).2 IptablesSrcFlag false = some tSs)
    (htC : craftPartialIptablesCommentFromSelector u ns (some targetSelector) false = some tC) :
    translateEgress u ns targetSelector [mirrorRule rule] =
      some { sets := DropEmptyFields (targetOpsAndLabels u ns targetSelector).2,
             lists := [],
             entries :=
               [{ Chain := IptablesAzureEgressPortChain,
                  Specs := tSs ++
                    [IptablesJumpFlag, IptablesAccept, IptablesModuleFlag,
                     IptablesCommentModuleFlag, IptablesCommentFlag,
                     "ALLOW-ALL-FROM-" ++ tC] },
                { Chain := IptablesAzureEgressPortChain,
                  Specs := tSs ++
                    [IptablesJumpFlag, IptablesAzureTargetSetsChain, IptablesModuleFlag,
                     IptablesCommentModuleFlag, IptablesCommentFlag,
                     "ALLOW-ALL-FROM-" ++ tC ++ "-TO-JUMP-TO-" ++
                       IptablesAzureTargetSetsChain] }] } ∧
    translateIngress u ns targetSelector [rule] =
      some { sets := DropEmptyFields (targetOpsAndLabels u ns targetSelector).2,
             lists := [],
             entries :=
               [{ Chain := IptablesAzureIngressPortChain,
                  Specs := tSd ++
                    [IptablesJumpFlag, IptablesAccept, IptablesModuleFlag,
                     IptablesCommentModuleFlag, IptablesCommentFlag,
                     "ALLOW-ALL-TO-" ++ tC] }] } := by
  constructor
  · rw [translateEgress_of_target u ns targetSelector [mirrorRule rule] tSs tC htSs htC,
      foldlM_singleton,
      egressRule_allow_external u ns tSs tC (mirrorRule rule) hports hfrom]
    simp [egressFinish, LoopState.init, LoopState.append, LoopState.empty, DropEmptyFields,
      jumpAndComment]
  · rw [translateIngress_of_target u ns targetSelector [rule] tSd tC htSd htC, foldlM_singleton,
      ingressRule_explicit_empty u ns tSd tC rule hfrom]
    simp [ingressFinish, LoopState.init, LoopState.append, LoopState.empty, DropEmptyFields,
      jumpAndComment, hports]

/-- The entries as they are built, for the pods `app=web` of namespace `default`. -/
theorem explicit_empty_peers_two_directions_witness :
    translateEgress exampleUtil "default" (selectorOf "app" "web")
        [mirrorRule { Ports := [], From := some [] }] =
      some { sets := ["app:web"], lists := [],
             entries :=
               [{ Chain := "AZURE-NPM-EGRESS-PORT",
                  Specs := ["-m", "set", "--match-set", "azure-npm-app:web", "src",
                            "-j", "ACCEPT", "-m", "comment", "--comment",
                            "ALLOW-ALL-FROM-app:web"] },
                { Chain := "AZURE-NPM-EGRESS-PORT",
                  Specs := ["-m", "set", "--match-set", "azure-npm-app:web", "src",
                            "-j", "AZURE-NPM-TARGET-SETS", "-m", "comment", "--comment",
                            "ALLOW-ALL-FROM-app:web-TO-JUMP-TO-AZURE-NPM-TARGET-SETS"] }] } ∧
    translateIngress exampleUtil "default" (selectorOf "app" "web")
        [{ Ports := [], From := some [] }] =
      some { sets := ["app:web"], lists := [],
             entries :=
               [{ Chain := "AZURE-NPM-INGRESS-PORT",
                  Specs := ["-m", "set", "--match-set", "azure-npm-app:web", "dst",
                            "-j", "ACCEPT", "-m", "comment", "--comment",
                            "ALLOW-ALL-TO-app:web"] }] } :=
  explicit_empty_peers_two_directions exampleUtil "default" (selectorOf "app" "web")
    { Ports := [], From := some [] } _ _ _ rfl rfl rfl rfl rfl

/-! ## Slices: what `append` does to the heap -/

theorem getD_set_of_ne (h : Heap) (i j : Nat) (a : List String) (hij : i ≠ j) :
    (h.set j a).getD i [] = h.getD i [] := by
  simp only [List.getD_eq_getElem?_getD, List.getElem?_set_ne (Ne.symm hij)]

theorem getD_set_self (h : Heap) (j : Nat) (a : List String) (hj : j < h.length) :
    (h.set j a).getD j [] = a := by
  simp only [List.getD_eq_getElem?_getD, List.getElem?_set_self hj, Option.getD_some]

theorem getD_append_left (h : Heap) (i : Nat) (a : List String) (hi : i < h.length) :
    (h ++ [a]).getD i [] = h.getD i [] := by
  simp only [List.getD_eq_getElem?_getD, List.getElem?_append_left hi]

theorem getD_append_length (h : Heap) (a : List String) :
    (h ++ [a]).getD h.length [] = a := by
  simp [List.getD_eq_getElem?_getD]

/-- Writing `xs` into the cells behind the first `n`: the length of the array
stays. -/
theorem write_length (A xs : List String) (n : Nat) (hn : n + xs.length ≤ A.length) :
    (A.take n ++ xs ++ A.drop (n + xs.length)).length = A.length := by
  simp only [List.length_append, List.length_take, List.length_drop]
  omega

theorem write_take (A xs : List String) (n : Nat) (hn : n + xs.length ≤ A.length) :
    (A.take n ++ xs ++ A.drop (n + xs.length)).take (n + xs.length) = A.take n ++ xs := by
  have hl : (A.take n ++ xs).length = n + xs.length := by
    simp only [List.length_append, List.length_take]
    omega
  rw [← hl, List.take_left]

theorem write_take_left (A xs : List String) (n : Nat) (hn : n + xs.length ≤ A.length) :
    (A.take n ++ xs ++ A.drop (n + xs.length)).take n = A.take n := by
  have hl : (A.take n).length = n := by
    simp only [List.length_take]
    omega
  rw [List.append_assoc]
  have h2 := List.take_left (List.take n A) (xs ++ List.drop (n + xs.length) A)
  rw [hl] at h2
  exact h2

theorem goAppend_nil (rt : Runtime) (h : Heap) (s : Slice) : goAppend rt h s [] = (h, s) := by
  simp only [goAppend, List.length_nil, if_true]

theorem goAppend_room (rt : Runtime) (h : Heap) (s : Slice) (xs : List String)
    (hx : xs ≠ []) (hroom : s.len + xs.length ≤ s.cap h) :
    goAppend rt h s xs =
      (h.set s.array ((s.cells h).take s.len ++ xs ++ (s.cells h).drop (s.len + xs.length)),
       { s with len := s.len + xs.length }) := by
  have hx0 : ¬ xs.length = 0 := fun h0 => hx (List.length_eq_zero.mp h0)
  simp only [goAppend, if_neg hx0, if_pos hroom]

theorem goAppend_grow (rt : Runtime) (h : Heap) (s : Slice) (xs : List String)
    (hx : xs ≠ []) (hroom : ¬ s.len + xs.length ≤ s.cap h) :
    goAppend rt h s xs =
      (h ++ [s.read h ++ xs ++
          List.replicate
            (max (s.len + xs.length) (rt.growslice s.len (s.cap h) (s.len + xs.length)) -
              (s.len + xs.length)) ""],
       { array := h.length, len := s.len + xs.length }) := by
  have hx0 : ¬ xs.length = 0 := fun h0 => hx (List.length_eq_zero.mp h0)
  simp only [goAppend, if_neg hx0, if_neg hroom]

/-- One call of `append` on a valid slice: the new slice is valid and holds
the old elements followed by the new ones; no array other than the one of the
slice changes, and that one keeps its capacity and the cells of the slice; the
new slice is on the same array, when the elements fit, or on a new one. -/
theorem goAppend_spec (rt : Runtime) (h : Heap) (s : Slice) (xs : List String)
    (hv : s.valid h) :
    (goAppend rt h s xs).2.valid (goAppend rt h s xs).1 ∧
    (goAppend rt h s xs).2.read (goAppend rt h s xs).1 = s.read h ++ xs ∧
    h.length ≤ (goAppend rt h s xs).1.length ∧
    (∀ i, i < h.length → i ≠ s.array → (goAppend rt h s xs).1.getD i [] = h.getD i []) ∧
    ((goAppend rt h s xs).1.getD s.array []).length = (h.getD s.array []).length ∧
    ((goAppend rt h s xs).1.getD s.array []).take s.len = (h.getD s.array []).take s.len ∧
    (goAppend rt h s xs).2.len = s.len + xs.length ∧
    ((goAppend rt h s xs).2.array = s.array ∨ h.length ≤ (goAppend rt h s xs).2.array) ∧
    ((goAppend rt h s xs).2.array = s.array → s.len + xs.length ≤ s.cap h) := by
  obtain ⟨hv1, hv2⟩ := hv
  by_cases hx : xs = []
  · subst hx
    rw [goAppend_nil]
    exact ⟨⟨hv1, hv2⟩, (List.append_nil _).symm, le_refl _, fun _ _ _ => rfl, rfl, rfl, rfl,
      Or.inl rfl, fun _ => hv2⟩
  · by_cases hroom : s.len + xs.length ≤ s.cap h
    · rw [goAppend_room rt h s xs hx hroom]
      have hroom' : s.len + xs.length ≤ (s.cells h).length := hroom
      refine ⟨⟨?_, ?_⟩, ?_, ?_, ?_, ?_, ?_, rfl, Or.inl rfl, fun _ => hroom⟩
      · show s.array < (h.set _ _).length
        rw [List.length_set]
        exact hv1
      · show s.len + xs.length ≤ ((h.set _ _).getD s.array []).length
        rw [getD_set_self h _ _ hv1, write_length _ _ _ hroom']
        exact hroom'
      · show ((h.set _ _).getD s.array []).take (s.len + xs.length) = _
        rw [getD_set_self h _ _ hv1, write_take _ _ _ hroom']
        rfl
      · show h.length ≤ (h.set _ _).length
        rw [List.length_set]
      · intro i _ hi
        exact getD_set_of_ne h i _ _ hi
      · show ((h.set _ _).getD s.array []).length = _
        rw [getD_set_self h _ _ hv1, write_length _ _ _ hroom']
        rfl
      · show ((h.set _ _).getD s.array []).take s.len = _
        rw [getD_set_self h _ _ hv1, write_take_left _ _ _ hroom']
        rfl
    · rw [goAppend_grow rt h s xs hx hroom]
      refine ⟨⟨?_, ?_⟩, ?_, ?_, ?_, ?_, ?_, rfl, Or.inr (le_refl _), ?_⟩
      · show h.length < (h ++ [_]).length
        simp
      · show s.len + xs.length ≤ ((h ++ [_]).getD h.length []).length
        rw [getD_append_length]
        have : (s.read h).length = s.len := by
          simp only [Slice.read, List.length_take]
          exact Nat.min_eq_left hv2
        simp only [List.length_append, List.length_replicate, this]
        omega
      · show ((h ++ [_]).getD h.length []).take (s.len + xs.length) = _
        rw [getD_append_length]
        have : (s.read h ++ xs).length = s.len + xs.length := by
          simp only [Slice.read, List.length_append, List.length_take]
          have := Nat.min_eq_left hv2
          simp only [Slice.cap] at this
          omega
        rw [← this, List.take_left]
      · show h.length ≤ (h ++ [_]).length
        simp
      · intro i hi _
        exact getD_append_left h i _ hi
      · show ((h ++ [_]).getD s.array []).length = _
        rw [getD_append_left h _ _ hv1]
      · show ((h ++ [_]).getD s.array []).take s.len = _
        rw [getD_append_left h _ _ hv1]
      · intro heq
        have heq' : h.length = s.array := heq
        omega

theorem Frame.unchanged (s : Slice) (h : Heap) : Frame s h h :=
  ⟨le_refl _, fun _ _ _ => rfl, rfl, rfl⟩

theorem Frame.andThen {s : Slice} {h1 h2 h3 : Heap} (h12 : Frame s h1 h2) (h23 : Frame s h2 h3) :
    Frame s h1 h3 := by
  obtain ⟨a1, b1, c1, d1⟩ := h12
  obtain ⟨a2, b2, c2, d2⟩ := h23
  refine ⟨le_trans a1 a2, ?_, c2.trans c1, d2.trans d1⟩
  intro i hi hne
  rw [b2 i (lt_of_lt_of_le hi a1) hne, b1 i hi hne]

/-- A frame keeps the slice valid, with the same elements and the same
capacity. -/
theorem Frame.valid {s : Slice} {h h' : Heap} (hf : Frame s h h') (hv : s.valid h) :
    s.valid h' ∧ s.read h' = s.read h ∧ s.cap h' = s.cap h :=
  ⟨⟨lt_of_lt_of_le hv.1 hf.1, by
      show s.len ≤ (h'.getD s.array []).length
      rw [hf.2.2.1]
      exact hv.2⟩, hf.2.2.2, hf.2.2.1⟩

/-- A frame keeps what a slice on another array reads. -/
theorem Frame.read_eq {s : Slice} {h h' : Heap} (hf : Frame s h h') (e : Slice)
    (he : e.array < h.length) (hne : e.array ≠ s.array) : e.read h' = e.read h := by
  simp only [Slice.read, Slice.cells, hf.2.1 e.array he hne]

/-- A heap that only grew is a frame for every slice. -/
theorem Frame.of_prefix (s : Slice) (h h' : Heap) (hl : h.length ≤ h'.length)
    (hsame : ∀ i, i < h.length → h'.getD i [] = h.getD i []) (hs : s.array < h.length) :
    Frame s h h' :=
  ⟨hl, fun i hi _ => hsame i hi, by rw [hsame _ hs], by rw [hsame _ hs]⟩

/-- The calls of `append` that build one entry, on a valid slice: the result
is valid and holds the elements of the slice followed by everything appended;
the heap is framed; the result is on the array of the slice, and then all the
tokens fitted into it, or on an array made since. -/
theorem appendAll_spec (rt : Runtime) (xss : List (List String)) :
    ∀ (h : Heap) (s : Slice), s.valid h →
      (appendAll rt h s xss).2.valid (appendAll rt h s xss).1 ∧
      (appendAll rt h s xss).2.read (appendAll rt h s xss).1 = s.read h ++ xss.flatten ∧
      Frame s h (appendAll rt h s xss).1 ∧
      ((appendAll rt h s xss).2.array = s.array ∨
        h.length ≤ (appendAll rt h s xss).2.array) ∧
      ((appendAll rt h s xss).2.array = s.array →
        s.len + xss.flatten.length ≤ s.cap h) := by
  induction xss with
  | nil =>
    intro h s hv
    exact ⟨hv, (List.append_nil _).symm, Frame.unchanged s h, Or.inl rfl, fun _ => hv.2⟩
  | cons xs xss ih =>
    intro h s hv
    obtain ⟨g1, g2, g3, g4, g5, g6, g7, g8, g9⟩ := goAppend_spec rt h s xs hv
    obtain ⟨i1, i2, i3, i4, i5⟩ := ih (goAppend rt h s xs).1 (goAppend rt h s xs).2 g1
    simp only [appendAll, List.flatten_cons, List.length_append]
    have hlt : s.array < h.length := hv.1
    refine ⟨i1, ?_, ?_, ?_, ?_⟩
    · rw [i2, g2, List.append_assoc]
    · rcases g8 with g8 | g8
      · -- the first call wrote in place
        obtain ⟨j1, j2, j3, j4⟩ := i3
        rw [g8] at j2 j3 j4
        refine ⟨le_trans g3 j1, ?_, j3.trans g5, ?_⟩
        · intro i hi hne
          rw [j2 i (lt_of_lt_of_le hi g3) hne, g4 i hi hne]
        · have hle : s.len ≤ (goAppend rt h s xs).2.len := by rw [g7]; omega
          have := congrArg (List.take s.len) j4
          rw [List.take_take, List.take_take, Nat.min_eq_left hle] at this
          rw [this, g6]
      · -- the first call moved the slice to a new array
        obtain ⟨j1, j2, j3, j4⟩ := i3
        have hne : s.array ≠ (goAppend rt h s xs).2.array := by omega
        have hs1 : s.array < (goAppend rt h s xs).1.length := lt_of_lt_of_le hlt g3
        refine ⟨le_trans g3 j1, ?_, ?_, ?_⟩
        · intro i hi hne'
          have : i ≠ (goAppend rt h s xs).2.array := by omega
          rw [j2 i (lt_of_lt_of_le hi g3) this, g4 i hi hne']
        · rw [j2 _ hs1 hne, g5]
        · rw [j2 _ hs1 hne, g6]
    · rcases i4 with i4 | i4
      · rcases g8 with g8 | g8
        · exact Or.inl (i4.trans g8)
        · exact Or.inr (by rw [i4]; exact g8)
      · exact Or.inr (le_trans g3 i4)
    · intro heq
      have hsame : (goAppend rt h s xs).2.array = s.array := by
        rcases g8 with g8 | g8
        · exact g8
        · rcases i4 with i4 | i4
          · rw [i4] at heq
            omega
          · rw [heq] at i4
            have := le_trans g3 i4
            omega
      have h5 := i5 (by rw [hsame]; exact heq)
      have hcap : (goAppend rt h s xs).2.cap (goAppend rt h s xs).1 = s.cap h := by
        show ((goAppend rt h s xs).1.getD (goAppend rt h s xs).2.array []).length = _
        rw [hsame]
        exact g5
      rw [hcap, g7] at h5
      omega

/-- The length and the capacity of the slice `append` returns are those of
`capAppend`. -/
theorem goAppend_lenCap (rt : Runtime) (h : Heap) (s : Slice) (xs : List String)
    (hv : s.valid h) :
    ((goAppend rt h s xs).2.len, (goAppend rt h s xs).2.cap (goAppend rt h s xs).1) =
      capAppend rt (s.len, s.cap h) xs := by
  by_cases hx : xs = []
  · subst hx
    rw [goAppend_nil]
    simp only [capAppend, List.length_nil, if_true]
  · have hx0 : ¬ xs.length = 0 := fun h0 => hx (List.length_eq_zero.mp h0)
    by_cases hroom : s.len + xs.length ≤ s.cap h
    · rw [goAppend_room rt h s xs hx hroom]
      simp only [capAppend, if_neg hx0, if_pos hroom, Prod.mk.injEq, true_and]
      show ((h.set _ _).getD s.array []).length = _
      rw [getD_set_self h _ _ hv.1, write_length _ _ _ hroom]
      rfl
    · rw [goAppend_grow rt h s xs hx hroom]
      simp only [capAppend, if_neg hx0, if_neg hroom, Prod.mk.injEq, true_and]
      show ((h ++ [_]).getD h.length []).length = _
      rw [getD_append_length]
      have : (s.read h).length = s.len := by
        simp only [Slice.read, List.length_take]
        exact Nat.min_eq_left hv.2
      simp only [List.length_append, List.length_replicate, this]
      omega

theorem appendAll_lenCap (rt : Runtime) (xss : List (List String)) :
    ∀ (h : Heap) (s : Slice), s.valid h →
      ((appendAll rt h s xss).2.len, (appendAll rt h s xss).2.cap (appendAll rt h s xss).1) =
        xss.foldl (capAppend rt) (s.len, s.cap h) := by
  induction xss with
  | nil => intro h s _; rfl
  | cons xs xss ih =>
    intro h s hv
    simp only [appendAll, List.foldl_cons]
    rw [ih _ _ (goAppend_spec rt h s xs hv).1, goAppend_lenCap rt h s xs hv]

theorem alloc_valid (h : Heap) (cells : List String) : (alloc h cells).2.valid (alloc h cells).1 := by
  refine ⟨?_, ?_⟩
  · show h.length < (h ++ [cells]).length
    simp
  · show cells.length ≤ ((h ++ [cells]).getD h.length []).length
    rw [getD_append_length]

theorem alloc_read (h : Heap) (cells : List String) :
    (alloc h cells).2.read (alloc h cells).1 = cells := by
  show ((h ++ [cells]).getD h.length []).take cells.length = cells
  rw [getD_append_length, List.take_length]

/-- A fragment made on the heap: a valid slice on a new array that holds the
tokens of the fragment, with the length and the capacity of `lenCap`; the
arrays that were there are as they were. -/
theorem Fragment.make_spec (rt : Runtime) (h : Heap) (f : Fragment) :
    (f.make rt h).2.valid (f.make rt h).1 ∧
    (f.make rt h).2.read (f.make rt h).1 = f.tokens ∧
    h.length ≤ (f.make rt h).2.array ∧
    h.length ≤ (f.make rt h).1.length ∧
    (∀ i, i < h.length → (f.make rt h).1.getD i [] = h.getD i []) ∧
    (f.make rt h).2.cap (f.make rt h).1 - (f.make rt h).2.len = f.room rt := by
  have hv := alloc_valid h f.literal
  obtain ⟨a1, a2, a3, a4, -⟩ := appendAll_spec rt f.appends _ _ hv
  have hl : (alloc h f.literal).1.length = h.length + 1 := by
    show (h ++ [f.literal]).length = _
    simp
  have harr : (alloc h f.literal).2.array = h.length := rfl
  refine ⟨a1, ?_, ?_, ?_, ?_, ?_⟩
  · simp only [Fragment.make, a2, alloc_read, Fragment.tokens]
  · simp only [Fragment.make]
    rcases a4 with a4 | a4
    · rw [a4, harr]
    · rw [hl] at a4
      omega
  · simp only [Fragment.make]
    have := a3.1
    omega
  · intro i hi
    simp only [Fragment.make]
    rw [a3.2.1 i (by omega) (by rw [harr]; omega)]
    exact getD_append_left h i _ hi
  · have := appendAll_lenCap rt f.appends _ _ hv
    simp only [Prod.ext_iff] at this
    simp only [Fragment.make, Fragment.room, Fragment.lenCap, this.1, this.2]
    have hc : (alloc h f.literal).2.cap (alloc h f.literal).1 = f.literal.length := by
      show ((h ++ [f.literal]).getD h.length []).length = _
      rw [getD_append_length]
    have hlen : (alloc h f.literal).2.len = f.literal.length := rfl
    rw [hc, hlen]

/-- Entries built one after the other on a valid slice: the heap is framed,
the chains and the buffer are those of the builds, and every entry is on the
array of the slice or on an array made since. -/
theorem runBuilds_spec (rt : Runtime) (toSide : Bool) (s : Slice) (bs : List Build) :
    ∀ (h : Heap), s.valid h →
      Frame s h (runBuilds rt toSide s h bs).1 ∧
      (runBuilds rt toSide s h bs).2.map (fun b => (b.toSide, b.Chain)) =
        bs.map (fun b => (toSide, b.Chain)) ∧
      ∀ b ∈ (runBuilds rt toSide s h bs).2,
        b.Specs.valid (runBuilds rt toSide s h bs).1 ∧
        (b.Specs.array = s.array ∨ h.length ≤ b.Specs.array) := by
  induction bs with
  | nil =>
    intro h _
    exact ⟨Frame.unchanged s h, rfl, fun _ hb => absurd hb (List.not_mem_nil _)⟩
  | cons b bs ih =>
    intro h hv
    obtain ⟨a1, -, a3, a4, -⟩ := appendAll_spec rt b.appends h s hv
    obtain ⟨i1, i2, i3⟩ := ih (appendAll rt h s b.appends).1 (a3.valid hv).1
    simp only [runBuilds]
    refine ⟨a3.andThen i1, ?_, ?_⟩
    · simp only [List.map_cons, i2]
    · intro e he
      rcases List.mem_cons.mp he with he | he
      · subst he
        refine ⟨?_, a4⟩
        rcases a4 with a4 | a4
        · -- still on the array of the slice
          refine ⟨?_, ?_⟩
          · show (appendAll rt h s b.appends).2.array < _
            exact lt_of_lt_of_le a1.1 i1.1
          · show (appendAll rt h s b.appends).2.len ≤
              ((runBuilds rt toSide s (appendAll rt h s b.appends).1 bs).1.getD
                (appendAll rt h s b.appends).2.array []).length
            rw [a4, i1.2.2.1, ← a4]
            exact a1.2
        · refine ⟨lt_of_lt_of_le a1.1 i1.1, ?_⟩
          show (appendAll rt h s b.appends).2.len ≤
            ((runBuilds rt toSide s (appendAll rt h s b.appends).1 bs).1.getD
              (appendAll rt h s b.appends).2.array []).length
          rw [i1.2.1 _ a1.1 (by have := hv.1; omega)]
          exact a1.2
      · obtain ⟨j1, j2⟩ := i3 e he
        refine ⟨j1, ?_⟩
        rcases j2 with j2 | j2
        · exact Or.inl j2
        · exact Or.inr (le_trans a3.1 j2)

/-- Entries built on a slice without room for any of them: every entry is on
an array of its own and reads, once all are built, as it was built. -/
theorem runBuilds_unshared (rt : Runtime) (toSide : Bool) (s : Slice) (bs : List Build) :
    ∀ (h : Heap), s.valid h → (∀ b ∈ bs, s.cap h - s.len < b.size) →
      (runBuilds rt toSide s h bs).2.map
          (fun b => (b.toSide, b.entry (runBuilds rt toSide s h bs).1)) =
        bs.map (fun b => (toSide, b.entry (s.read h))) ∧
      ∀ b ∈ (runBuilds rt toSide s h bs).2, h.length ≤ b.Specs.array := by
  induction bs with
  | nil =>
    intro h _ _
    exact ⟨rfl, fun _ hb => absurd hb (List.not_mem_nil _)⟩
  | cons b bs ih =>
    intro h hv hroom
    obtain ⟨a1, a2, a3, a4, a5⟩ := appendAll_spec rt b.appends h s hv
    obtain ⟨v1, v2, v3⟩ := a3.valid hv
    have hfresh : h.length ≤ (appendAll rt h s b.appends).2.array := by
      rcases a4 with a4 | a4
      · have := a5 a4
        have hb := hroom b (List.mem_cons_self _ _)
        simp only [Build.size] at hb
        have := hv.2
        omega
      · exact a4
    obtain ⟨i1, i2⟩ := ih (appendAll rt h s b.appends).1 v1 (by
      intro b' hb'
      rw [v3]
      exact hroom b' (List.mem_cons_of_mem _ hb'))
    obtain ⟨f1, -, -⟩ := runBuilds_spec rt toSide s bs (appendAll rt h s b.appends).1 v1
    simp only [runBuilds, List.map_cons, List.mem_cons, forall_eq_or_imp]
    refine ⟨?_, hfresh, fun e he => le_trans a3.1 (i2 e he)⟩
    rw [i1, v2]
    congr 1
    simp only [Built.entry, Build.entry, IptEntry.mk.injEq, true_and, Prod.mk.injEq]
    rw [f1.read_eq _ a1.1 (by have := hv.1; omega), a2]

/-- A single entry built on a slice reads as it was built. -/
theorem runBuilds_single (rt : Runtime) (toSide : Bool) (s : Slice) (bs : List Build)
    (h : Heap) (hv : s.valid h) (hl : bs.length ≤ 1) :
    (runBuilds rt toSide s h bs).2.map
        (fun b => (b.toSide, b.entry (runBuilds rt toSide s h bs).1)) =
      bs.map (fun b => (toSide, b.entry (s.read h))) := by
  match bs, hl with
  | [], _ => rfl
  | [b], _ =>
    obtain ⟨-, a2, -, -, -⟩ := appendAll_spec rt b.appends h s hv
    simp only [runBuilds, List.map_cons, List.map_nil, Built.entry, Build.entry, a2]

/-- One step on a heap in which the target fragment is valid: the heap is
framed for the target, the chains and buffers are those of the step, and every
entry is a valid slice. -/
theorem runStep_spec (rt : Runtime) (t : Slice) (h : Heap) (st : Step) (hv : t.valid h)
    (tS : List String) :
    Frame t h (runStep rt t h st).1 ∧
    (runStep rt t h st).2.map (fun b => (b.toSide, b.Chain)) =
      (st.values tS).map (fun e => (st.toSide, e.Chain)) ∧
    ∀ b ∈ (runStep rt t h st).2, b.Specs.valid (runStep rt t h st).1 := by
  cases st with
  | onTarget toSide b =>
    obtain ⟨a1, a2, a3⟩ := runBuilds_spec rt toSide t [b] h hv
    refine ⟨a1, ?_, fun e he => (a3 e he).1⟩
    simp only [runStep, a2, Step.values, Step.toSide, List.map_cons, List.map_nil, Build.entry]
  | onFragment toSide f bs =>
    obtain ⟨m1, -, m3, m4, m5, -⟩ := Fragment.make_spec rt h f
    obtain ⟨a1, a2, a3⟩ := runBuilds_spec rt toSide (f.make rt h).2 bs (f.make rt h).1 m1
    refine ⟨?_, ?_, fun e he => (a3 e he).1⟩
    · apply Frame.of_prefix t h _ (le_trans m4 a1.1) _ hv.1
      intro i hi
      rw [a1.2.1 i (lt_of_lt_of_le hi m4) (by omega), m5 i hi]
    · simp only [runStep, a2, Step.values, Step.toSide, List.map_map, Function.comp_def,
        Build.entry]

/-- One step none of whose entries stays on a shared array: every entry reads
as it was built and is on an array made during the step. -/
theorem runStep_unshared (rt : Runtime) (t : Slice) (h : Heap) (st : Step) (hv : t.valid h)
    (hu : st.unshared rt (t.cap h - t.len) = true) :
    (runStep rt t h st).2.map (fun b => (b.toSide, b.entry (runStep rt t h st).1)) =
      (st.values (t.read h)).map (fun e => (st.toSide, e)) ∧
    ∀ b ∈ (runStep rt t h st).2, h.length ≤ b.Specs.array := by
  cases st with
  | onTarget toSide b =>
    simp only [Step.unshared, decide_eq_true_eq] at hu
    obtain ⟨a1, a2⟩ := runBuilds_unshared rt toSide t [b] h hv (by
      intro b' hb'
      rw [List.mem_singleton.mp hb']
      exact hu)
    exact ⟨a1, a2⟩
  | onFragment toSide f bs =>
    obtain ⟨m1, m2, m3, m4, m5, m6⟩ := Fragment.make_spec rt h f
    obtain ⟨s1, s2, s3⟩ := runBuilds_spec rt toSide (f.make rt h).2 bs (f.make rt h).1 m1
    simp only [Step.unshared, Bool.or_eq_true, decide_eq_true_eq, List.all_eq_true] at hu
    refine ⟨?_, ?_⟩
    · simp only [runStep, Step.values, Step.toSide, List.map_map, Function.comp_def]
      rw [← m2]
      rcases hu with hu | hu
      · exact runBuilds_single rt toSide _ bs _ m1 hu
      · exact (runBuilds_unshared rt toSide _ bs _ m1 (by
          intro b hb
          rw [m6]
          exact hu b hb)).1
    · intro e he
      rcases (s3 e he).2 with h1 | h1
      · rw [h1]
        exact m3
      · exact le_trans m4 h1

/-- The steps of a direction on a heap in which the target fragment is valid:
the heap is framed for the target, the chains and buffers are those of the
steps, in order, and every entry is a valid slice. -/
theorem runSteps_spec (rt : Runtime) (t : Slice) (tS : List String) (steps : List Step) :
    ∀ (h : Heap), t.valid h →
      Frame t h (runSteps rt t h steps).1 ∧
      (runSteps rt t h steps).2.map (fun b => (b.toSide, b.Chain)) =
        steps.flatMap (fun st => (st.values tS).map (fun e => (st.toSide, e.Chain))) ∧
      ∀ b ∈ (runSteps rt t h steps).2, b.Specs.valid (runSteps rt t h steps).1 := by
  induction steps with
  | nil =>
    intro h _
    exact ⟨Frame.unchanged t h, rfl, fun _ hb => absurd hb (List.not_mem_nil _)⟩
  | cons st steps ih =>
    intro h hv
    obtain ⟨a1, a2, a3⟩ := runStep_spec rt t h st hv tS
    obtain ⟨i1, i2, i3⟩ := ih (runStep rt t h st).1 (a1.valid hv).1
    simp only [runSteps, List.map_append, List.flatMap_cons, a2, i2, List.mem_append]
    refine ⟨a1.andThen i1, trivial, ?_⟩
    rintro e (he | he)
    · obtain ⟨v1, v2⟩ := a3 e he
      refine ⟨lt_of_lt_of_le v1 i1.1, ?_⟩
      show e.Specs.len ≤ ((runSteps rt t (runStep rt t h st).1 steps).1.getD e.Specs.array []).length
      by_cases heq : e.Specs.array = t.array
      · rw [heq, i1.2.2.1, ← heq]
        exact v2
      · rw [i1.2.1 _ v1 heq]
        exact v2
    · exact i3 e he

/-- The steps of a direction none of whose entries stays on a shared array:
every entry reads, in the end, as it was built. -/
theorem runSteps_unshared (rt : Runtime) (t : Slice) (steps : List Step) :
    ∀ (h : Heap), t.valid h →
      (∀ st ∈ steps, st.unshared rt (t.cap h - t.len) = true) →
      (runSteps rt t h steps).2.map
          (fun b => (b.toSide, b.entry (runSteps rt t h steps).1)) =
        steps.flatMap (fun st => (st.values (t.read h)).map (fun e => (st.toSide, e))) ∧
      ∀ b ∈ (runSteps rt t h steps).2, h.length ≤ b.Specs.array := by
  induction steps with
  | nil =>
    intro h _ _
    exact ⟨rfl, fun _ hb => absurd hb (List.not_mem_nil _)⟩
  | cons st steps ih =>
    intro h hv hu
    obtain ⟨a1, -, a3⟩ := runStep_spec rt t h st hv []
    obtain ⟨u1, u2⟩ := runStep_unshared rt t h st hv (hu st (List.mem_cons_self _ _))
    obtain ⟨v1, v2, v3⟩ := a1.valid hv
    obtain ⟨i1, i2⟩ := ih (runStep rt t h st).1 v1 (by
      intro st' hst'
      rw [v3]
      exact hu st' (List.mem_cons_of_mem _ hst'))
    obtain ⟨f1, -, -⟩ := runSteps_spec rt t [] steps (runStep rt t h st).1 v1
    simp only [runSteps, List.map_append, List.flatMap_cons, List.mem_append]
    refine ⟨?_, ?_⟩
    · rw [i1, v2, ← u1]
      congr 1
      apply List.map_congr_left
      intro e he
      simp only [Built.entry, IptEntry.mk.injEq, true_and, Prod.mk.injEq]
      exact f1.read_eq _ (a3 e he).1 (by have := u2 e he; have := hv.1; omega)
    · rintro e (he | he)
      · exact u2 e he
      · exact le_trans a1.1 (i2 e he)

theorem filter_map_pair {α β : Type} (q : Bool → Bool) (side : α → Bool) (f : α → β)
    (l : List α) :
    (l.filter (fun a => q (side a))).map f =
      ((l.map (fun a => (side a, f a))).filter (fun p => q p.1)).map Prod.snd := by
  induction l with
  | nil => rfl
  | cons a l ih =>
    simp only [List.filter_cons, List.map_cons]
    split
    · simp only [List.map_cons, ih]
    · exact ih

theorem filter_flatMap_pair {α β : Type} (q : Bool → Bool) (side : α → Bool)
    (vals : α → List β) (l : List α) :
    ((l.flatMap (fun a => (vals a).map (fun e => (side a, e)))).filter
        (fun p => q p.1)).map Prod.snd =
      (l.filter (fun a => q (side a))).flatMap vals := by
  induction l with
  | nil => rfl
  | cons a l ih =>
    simp only [List.flatMap_cons, List.filter_append, List.map_append, ih, List.filter_cons]
    cases hq : q (side a)
    · simp only [Bool.false_eq_true, if_false]
      rw [List.filter_eq_nil_iff.mpr]
      · rfl
      · intro p hp
        obtain ⟨e, -, rfl⟩ := List.mem_map.mp hp
        simp only [hq, Bool.false_eq_true, not_false_eq_true]
    · simp only [if_true, List.flatMap_cons]
      rw [List.filter_eq_self.mpr]
      · simp only [List.map_map, Function.comp_def, List.map_id']
      · intro p hp
        obtain ⟨e, -, rfl⟩ := List.mem_map.mp hp
        exact hq

/-- The entries a direction returns when none of them stays on a shared
array: the entries of the loop, those of the side buffer behind the others,
then the closing entries, each as it was built. -/
theorem returnedEntries_unshared (rt : Runtime) (tF : Fragment) (steps closing : List Step)
    (hu : ∀ st ∈ steps ++ closing, st.unshared rt (tF.room rt) = true) :
    returnedEntries rt tF steps closing =
      (steps.filter (fun s => !s.toSide)).flatMap (Step.values tF.tokens) ++
        (steps.filter (fun s => s.toSide)).flatMap (Step.values tF.tokens) ++
        closing.flatMap (Step.values tF.tokens) := by
  obtain ⟨m1, m2, -, -, -, m6⟩ := Fragment.make_spec rt [] tF
  obtain ⟨l1, l2⟩ := runSteps_unshared rt (tF.make rt []).2 steps (tF.make rt []).1 m1 (by
    intro st hst
    rw [m6]
    exact hu st (List.mem_append_left _ hst))
  obtain ⟨f1, -, f3⟩ := runSteps_spec rt (tF.make rt []).2 [] steps (tF.make rt []).1 m1
  obtain ⟨v1, v2, v3⟩ := f1.valid m1
  obtain ⟨c1, -⟩ := runSteps_unshared rt (tF.make rt []).2 closing _ v1 (by
    intro st hst
    rw [v3, m6]
    exact hu st (List.mem_append_right _ hst))
  obtain ⟨g1, -, -⟩ := runSteps_spec rt (tF.make rt []).2 [] closing _ v1
  rw [v2, m2] at c1
  rw [m2] at l1
  have hloop : ∀ b ∈ (runSteps rt (tF.make rt []).2 (tF.make rt []).1 steps).2,
      b.entry (runSteps rt (tF.make rt []).2
        (runSteps rt (tF.make rt []).2 (tF.make rt []).1 steps).1 closing).1 =
      b.entry (runSteps rt (tF.make rt []).2 (tF.make rt []).1 steps).1 := by
    intro b hb
    simp only [Built.entry, IptEntry.mk.injEq, true_and]
    exact g1.read_eq _ (f3 b hb).1 (by have := l2 b hb; have := m1.1; omega)
  have hmap : ∀ (q : Bool → Bool),
      ((runSteps rt (tF.make rt []).2 (tF.make rt []).1 steps).2.filter
          (fun b => q b.toSide)).map
        (Built.entry (runSteps rt (tF.make rt []).2
          (runSteps rt (tF.make rt []).2 (tF.make rt []).1 steps).1 closing).1) =
      (steps.filter (fun s => q s.toSide)).flatMap (Step.values tF.tokens) := by
    intro q
    rw [List.map_congr_left (fun b hb => hloop b (List.mem_filter.mp hb).1)]
    rw [filter_map_pair q Built.toSide, l1, filter_flatMap_pair]
  simp only [returnedEntries, List.map_append]
  rw [hmap (fun b => !b), hmap (fun b => b)]
  congr 1
  have := congrArg (List.map Prod.snd) c1
  simp only [List.map_map, Function.comp_def, List.map_flatMap, List.map_id'] at this
  exact this

/-! ## Slices: the entries as they are built -/

/-- The tokens of the fragment of a port. -/
theorem Slices.port_tokens (portRule : NetworkPolicyPort) (flag : String) :
    (Slices.craftPartialIptEntrySpecFromPort portRule flag).tokens =
      Npm.craftPartialIptEntrySpecFromPort portRule flag := by
  obtain ⟨proto, port⟩ := portRule
  cases proto <;> cases port <;> rfl

/-- The tokens of the fragment of operators and labels. -/
theorem Slices.opsAndLabels_tokens (u : Util) (ns : String) (ops labels : List String)
    (flag : String) (isNs : Bool) :
    (Slices.craftPartialIptEntrySpecFromOpsAndLabels u ns ops labels flag isNs).map
        Fragment.tokens =
      Npm.craftPartialIptEntrySpecFromOpsAndLabels u ns ops labels flag isNs := by
  simp only [Slices.craftPartialIptEntrySpecFromOpsAndLabels,
    Npm.craftPartialIptEntrySpecFromOpsAndLabels]
  split
  · split <;> rfl
  · split
    · rfl
    · simp only [Option.map_some', Fragment.tokens, List.nil_append, foldr_append_eq_flatten]

/-- The tokens of the fragment of a selector. -/
theorem Slices.selector_tokens (u : Util) (ns : String) (sel : Option LabelSelector)
    (flag : String) (isNs : Bool) :
    (Slices.craftPartialIptEntrySpecFromSelector u ns sel flag isNs).map Fragment.tokens =
      Npm.craftPartialIptEntrySpecFromSelector u ns sel flag isNs :=
  Slices.opsAndLabels_tokens u ns _ _ flag isNs

theorem flatMap_values_onTarget {α : Type} (tS : List String) (c : Bool) (b : α → Build)
    (l : List α) :
    (l.map (fun p => Step.onTarget c (b p))).flatMap (Step.values tS) =
      l.map (fun p => (b p).entry tS) := by
  induction l with
  | nil => rfl
  | cons a l ih => simp only [List.map_cons, List.flatMap_cons, ih, Step.values,
      List.singleton_append]

theorem flatMap_values_onFragment {α : Type} (tS : List String) (c : Bool) (f : α → Fragment)
    (b : α → Build) (l : List α) :
    (l.map (fun p => Step.onFragment c (f p) [b p])).flatMap (Step.values tS) =
      l.map (fun p => (b p).entry (f p).tokens) := by
  induction l with
  | nil => rfl
  | cons a l ih => simp only [List.map_cons, List.flatMap_cons, ih, Step.values, List.map_nil,
      List.singleton_append]

theorem filter_side_map {α : Type} (q : Bool → Bool) (g : α → Step) (c : Bool)
    (hg : ∀ p, (g p).toSide = c) (l : List α) :
    (l.map g).filter (fun s => q s.toSide) = if q c then l.map g else [] := by
  induction l with
  | nil => simp only [List.map_nil, List.filter_nil, ite_self]
  | cons a l ih =>
    simp only [List.map_cons, List.filter_cons, hg, ih]
    cases q c <;> rfl

theorem filter_side_onTarget_true {α : Type} (b : α → Build) (l : List α) :
    (l.map (fun p => Step.onTarget true (b p))).filter (fun s => s.toSide) = l.map (fun p => Step.onTarget true (b p)) := by
  rw [filter_side_map (fun c => c) (fun p => Step.onTarget true (b p)) true (fun _ => rfl)]
  rfl

theorem filter_notSide_onTarget_true {α : Type} (b : α → Build) (l : List α) :
    (l.map (fun p => Step.onTarget true (b p))).filter (fun s => !s.toSide) = [] := by
  rw [filter_side_map (fun c => !c) (fun p => Step.onTarget true (b p)) true (fun _ => rfl)]
  rfl

theorem filter_side_onTarget_false {α : Type} (b : α → Build) (l : List α) :
    (l.map (fun p => Step.onTarget false (b p))).filter (fun s => s.toSide) = [] := by
  rw [filter_side_map (fun c => c) (fun p => Step.onTarget false (b p)) false (fun _ => rfl)]
  rfl

theorem filter_notSide_onTarget_false {α : Type} (b : α → Build) (l : List α) :
    (l.map (fun p => Step.onTarget false (b p))).filter (fun s => !s.toSide) = l.map (fun p => Step.onTarget false (b p)) := by
  rw [filter_side_map (fun c => !c) (fun p => Step.onTarget false (b p)) false (fun _ => rfl)]
  rfl

theorem filter_side_onFragment_true {α : Type} (f : α → Fragment) (b : α → List Build) (l : List α) :
    (l.map (fun p => Step.onFragment true (f p) (b p))).filter (fun s => s.toSide) = l.map (fun p => Step.onFragment true (f p) (b p)) := by
  rw [filter_side_map (fun c => c) (fun p => Step.onFragment true (f p) (b p)) true (fun _ => rfl)]
  rfl

theorem filter_notSide_onFragment_true {α : Type} (f : α → Fragment) (b : α → List Build) (l : List α) :
    (l.map (fun p => Step.onFragment true (f p) (b p))).filter (fun s => !s.toSide) = [] := by
  rw [filter_side_map (fun c => !c) (fun p => Step.onFragment true (f p) (b p)) true (fun _ => rfl)]
  rfl

theorem filter_side_onFragment_false {α : Type} (f : α → Fragment) (b : α → List Build) (l : List α) :
    (l.map (fun p => Step.onFragment false (f p) (b p))).filter (fun s => s.toSide) = [] := by
  rw [filter_side_map (fun c => c) (fun p => Step.onFragment false (f p) (b p)) false (fun _ => rfl)]
  rfl

theorem filter_notSide_onFragment_false {α : Type} (f : α → Fragment) (b : α → List Build) (l : List α) :
    (l.map (fun p => Step.onFragment false (f p) (b p))).filter (fun s => !s.toSide) = l.map (fun p => Step.onFragment false (f p) (b p)) := by
  rw [filter_side_map (fun c => !c) (fun p => Step.onFragment false (f p) (b p)) false (fun _ => rfl)]
  rfl

theorem filter_side_cons_onTarget_true (b : Build) (l : List Step) :
    (Step.onTarget true b :: l).filter (fun s => s.toSide) = Step.onTarget true b :: l.filter (fun s => s.toSide) := rfl

theorem filter_notSide_cons_onTarget_true (b : Build) (l : List Step) :
    (Step.onTarget true b :: l).filter (fun s => !s.toSide) = l.filter (fun s => !s.toSide) := rfl

theorem filter_side_cons_onTarget_false (b : Build) (l : List Step) :
    (Step.onTarget false b :: l).filter (fun s => s.toSide) = l.filter (fun s => s.toSide) := rfl

theorem filter_notSide_cons_onTarget_false (b : Build) (l : List Step) :
    (Step.onTarget false b :: l).filter (fun s => !s.toSide) = Step.onTarget false b :: l.filter (fun s => !s.toSide) := rfl

theorem filter_side_cons_onFragment_true (f : Fragment) (bs : List Build) (l : List Step) :
    (Step.onFragment true f bs :: l).filter (fun s => s.toSide) = Step.onFragment true f bs :: l.filter (fun s => s.toSide) := rfl

theorem filter_notSide_cons_onFragment_true (f : Fragment) (bs : List Build) (l : List Step) :
    (Step.onFragment true f bs :: l).filter (fun s => !s.toSide) = l.filter (fun s => !s.toSide) := rfl

theorem filter_side_cons_onFragment_false (f : Fragment) (bs : List Build) (l : List Step) :
    (Step.onFragment false f bs :: l).filter (fun s => s.toSide) = l.filter (fun s => s.toSide) := rfl

theorem filter_notSide_cons_onFragment_false (f : Fragment) (bs : List Build) (l : List Step) :
    (Step.onFragment false f bs :: l).filter (fun s => !s.toSide) = Step.onFragment false f bs :: l.filter (fun s => !s.toSide) := rfl

theorem values_onTarget (tS : List String) (c : Bool) (b : Build) :
    (Step.onTarget c b).values tS = [b.entry tS] := rfl

theorem values_onFragment (tS : List String) (c : Bool) (f : Fragment) (bs : List Build) :
    (Step.onFragment c f bs).values tS = bs.map (Build.entry f.tokens) := rfl

theorem Fragment.nil_tokens : Fragment.nil.tokens = [] := rfl

set_option linter.unusedTactic false
set_option linter.unreachableTactic false

/-- What the steps of an ingress peer build is what the peer adds in the
section `Direction compilers`. -/
theorem Slices.ingressPeer_built (u : Util) (ns : String) (tS : List String) (tC : String)
    (ports : List NetworkPolicyPort) (pre : Bool) (st : Slices.LoopState)
    (peer : NetworkPolicyPeer) :
    (Slices.ingressPeer u ns tS tC ports pre st peer).map (Slices.LoopState.built tS) =
      Npm.ingressPeer u ns tS tC ports pre (st.built tS) peer := by
  obtain ⟨pod, nsSel, ip⟩ := peer
  cases ip with
  | some ipBlock =>
    simp only [Slices.ingressPeer, Npm.ingressPeer]
    split <;> split <;> (try split) <;>
      simp only [Option.map_some', Slices.LoopState.built, List.filter_append,
        List.flatMap_append, Option.some.injEq, LoopState.mk.injEq, true_and, and_true,
        filter_side_onTarget_true, filter_notSide_onTarget_true, filter_side_onTarget_false, filter_notSide_onTarget_false, filter_side_onFragment_true, filter_notSide_onFragment_true, filter_side_onFragment_false, filter_notSide_onFragment_false, filter_side_cons_onTarget_true, filter_notSide_cons_onTarget_true, filter_side_cons_onTarget_false, filter_notSide_cons_onTarget_false, filter_side_cons_onFragment_true, filter_notSide_cons_onFragment_true, filter_side_cons_onFragment_false, filter_notSide_cons_onFragment_false,
        flatMap_values_onTarget, flatMap_values_onFragment, List.flatMap_nil, List.append_nil,
        List.filter_nil, List.flatMap_cons, values_onTarget, values_onFragment, List.map_cons,
        List.map_nil, List.map_map, Function.comp_def, Build.entry, Fragment.nil_tokens, Slices.port_tokens,
        List.flatten_cons, List.flatten_nil, List.nil_append, List.append_assoc,
        List.cons_append]
  | none =>
    cases pod with
    | none =>
      cases nsSel with
      | none => rfl
      | some nsSel =>
        simp only [Slices.ingressPeer, Npm.ingressPeer]
        rw [← Slices.selector_tokens]
        cases Slices.craftPartialIptEntrySpecFromSelector u ns (some nsSel) IptablesSrcFlag true with
        | none => rfl
        | some f =>
          simp only [Option.bind_eq_bind, Option.none_bind, Option.some_bind, Option.map_none', Option.map_some', Option.pure_def, Option.bind_some, Option.bind_none]
          cases craftPartialIptablesCommentFromSelector u ns (some nsSel) true with
          | none => rfl
          | some c =>
            simp only [Option.bind_eq_bind, Option.none_bind, Option.some_bind, Option.map_none', Option.map_some', Option.pure_def, Option.bind_some, Option.bind_none]
            split <;>
              simp only [Option.map_some', Slices.LoopState.built, List.filter_append,
        List.flatMap_append, Option.some.injEq, LoopState.mk.injEq, true_and, and_true,
        filter_side_onTarget_true, filter_notSide_onTarget_true, filter_side_onTarget_false, filter_notSide_onTarget_false, filter_side_onFragment_true, filter_notSide_onFragment_true, filter_side_onFragment_false, filter_notSide_onFragment_false, filter_side_cons_onTarget_true, filter_notSide_cons_onTarget_true, filter_side_cons_onTarget_false, filter_notSide_cons_onTarget_false, filter_side_cons_onFragment_true, filter_notSide_cons_onFragment_true, filter_side_cons_onFragment_false, filter_notSide_cons_onFragment_false,
        flatMap_values_onTarget, flatMap_values_onFragment, List.flatMap_nil, List.append_nil,
        List.filter_nil, List.flatMap_cons, values_onTarget, values_onFragment, List.map_cons,
        List.map_nil, List.map_map, Function.comp_def, Build.entry, Fragment.nil_tokens, Slices.port_tokens,
        List.flatten_cons, List.flatten_nil, List.nil_append, List.append_assoc,
        List.cons_append]
    | some podSel =>
      cases nsSel with
      | none =>
        simp only [Slices.ingressPeer, Npm.ingressPeer]
        rw [← Slices.selector_tokens]
        cases Slices.craftPartialIptEntrySpecFromSelector u ns (some podSel) IptablesSrcFlag false with
        | none => rfl
        | some f =>
          simp only [Option.bind_eq_bind, Option.none_bind, Option.some_bind, Option.map_none', Option.map_some', Option.pure_def, Option.bind_some, Option.bind_none]
          cases craftPartialIptablesCommentFromSelector u ns (some podSel) false with
          | none => rfl
          | some c =>
            simp only [Option.bind_eq_bind, Option.none_bind, Option.some_bind, Option.map_none', Option.map_some', Option.pure_def, Option.bind_some, Option.bind_none]
            split <;>
              simp only [Option.map_some', Slices.LoopState.built, List.filter_append,
        List.flatMap_append, Option.some.injEq, LoopState.mk.injEq, true_and, and_true,
        filter_side_onTarget_true, filter_notSide_onTarget_true, filter_side_onTarget_false, filter_notSide_onTarget_false, filter_side_onFragment_true, filter_notSide_onFragment_true, filter_side_onFragment_false, filter_notSide_onFragment_false, filter_side_cons_onTarget_true, filter_notSide_cons_onTarget_true, filter_side_cons_onTarget_false, filter_notSide_cons_onTarget_false, filter_side_cons_onFragment_true, filter_notSide_cons_onFragment_true, filter_side_cons_onFragment_false, filter_notSide_cons_onFragment_false,
        flatMap_values_onTarget, flatMap_values_onFragment, List.flatMap_nil, List.append_nil,
        List.filter_nil, List.flatMap_cons, values_onTarget, values_onFragment, List.map_cons,
        List.map_nil, List.map_map, Function.comp_def, Build.entry, Fragment.nil_tokens, Slices.port_tokens,
        List.flatten_cons, List.flatten_nil, List.nil_append, List.append_assoc,
        List.cons_append]
      | some nsSel =>
        simp only [Slices.ingressPeer, Npm.ingressPeer]
        split
        · rfl
        · rw [← Slices.selector_tokens, ← Slices.selector_tokens]
          cases Slices.craftPartialIptEntrySpecFromSelector u ns (some nsSel) IptablesSrcFlag true with
          | none => rfl
          | some f =>
            simp only [Option.bind_eq_bind, Option.none_bind, Option.some_bind, Option.map_none', Option.map_some', Option.pure_def, Option.bind_some, Option.bind_none]
            cases Slices.craftPartialIptEntrySpecFromSelector u ns (some podSel) IptablesSrcFlag false with
            | none => rfl
            | some g =>
              simp only [Option.bind_eq_bind, Option.none_bind, Option.some_bind, Option.map_none', Option.map_some', Option.pure_def, Option.bind_some, Option.bind_none]
              cases craftPartialIptablesCommentFromSelector u ns (some nsSel) true with
              | none => rfl
              | some c =>
                simp only [Option.bind_eq_bind, Option.none_bind, Option.some_bind, Option.map_none', Option.map_some', Option.pure_def, Option.bind_some, Option.bind_none]
                cases craftPartialIptablesCommentFromSelector u ns (some podSel) false with
                | none => rfl
                | some c2 =>
                  simp only [Option.bind_eq_bind, Option.none_bind, Option.some_bind, Option.map_none', Option.map_some', Option.pure_def, Option.bind_some, Option.bind_none]
                  split <;>
                    simp only [Option.map_some', Slices.LoopState.built, List.filter_append,
        List.flatMap_append, Option.some.injEq, LoopState.mk.injEq, true_and, and_true,
        filter_side_onTarget_true, filter_notSide_onTarget_true, filter_side_onTarget_false, filter_notSide_onTarget_false, filter_side_onFragment_true, filter_notSide_onFragment_true, filter_side_onFragment_false, filter_notSide_onFragment_false, filter_side_cons_onTarget_true, filter_notSide_cons_onTarget_true, filter_side_cons_onTarget_false, filter_notSide_cons_onTarget_false, filter_side_cons_onFragment_true, filter_notSide_cons_onFragment_true, filter_side_cons_onFragment_false, filter_notSide_cons_onFragment_false,
        flatMap_values_onTarget, flatMap_values_onFragment, List.flatMap_nil, List.append_nil,
        List.filter_nil, List.flatMap_cons, values_onTarget, values_onFragment, List.map_cons,
        List.map_nil, List.map_map, Function.comp_def, Build.entry, Fragment.nil_tokens, Slices.port_tokens,
        List.flatten_cons, List.flatten_nil, List.nil_append, List.append_assoc,
        List.cons_append]

/-- What the steps of an egress peer build is what the peer adds in the section
`Direction compilers`. -/
theorem Slices.egressPeer_built (u : Util) (ns : String) (tS : List String) (tC : String)
    (ports : List NetworkPolicyPort) (pre : Bool) (st : Slices.LoopState)
    (peer : NetworkPolicyPeer) :
    (Slices.egressPeer u ns tS tC ports pre st peer).map (Slices.LoopState.built tS) =
      Npm.egressPeer u ns tS tC ports pre (st.built tS) peer := by
  obtain ⟨pod, nsSel, ip⟩ := peer
  cases ip with
  | some ipBlock =>
    simp only [Slices.egressPeer, Npm.egressPeer]
    split <;> split <;> (try split) <;>
      simp only [Option.map_some', Slices.LoopState.built, List.filter_append,
        List.flatMap_append, Option.some.injEq, LoopState.mk.injEq, true_and, and_true,
        filter_side_onTarget_true, filter_notSide_onTarget_true, filter_side_onTarget_false, filter_notSide_onTarget_false, filter_side_onFragment_true, filter_notSide_onFragment_true, filter_side_onFragment_false, filter_notSide_onFragment_false, filter_side_cons_onTarget_true, filter_notSide_cons_onTarget_true, filter_side_cons_onTarget_false, filter_notSide_cons_onTarget_false, filter_side_cons_onFragment_true, filter_notSide_cons_onFragment_true, filter_side_cons_onFragment_false, filter_notSide_cons_onFragment_false,
        flatMap_values_onTarget, flatMap_values_onFragment, List.flatMap_nil, List.append_nil,
        List.filter_nil, List.flatMap_cons, values_onTarget, values_onFragment, List.map_cons,
        List.map_nil, List.map_map, Function.comp_def, Build.entry, Fragment.nil_tokens, Slices.port_tokens,
        List.flatten_cons, List.flatten_nil, List.nil_append, List.append_assoc,
        List.cons_append]
  | none =>
    cases pod with
    | none =>
      cases nsSel with
      | none => rfl
      | some nsSel =>
        simp only [Slices.egressPeer, Npm.egressPeer]
        rw [← Slices.selector_tokens]
        cases Slices.craftPartialIptEntrySpecFromSelector u ns (some nsSel) IptablesDstFlag true with
        | none => rfl
        | some f =>
          simp only [Option.bind_eq_bind, Option.none_bind, Option.some_bind, Option.map_none', Option.map_some', Option.pure_def, Option.bind_some, Option.bind_none]
          cases craftPartialIptablesCommentFromSelector u ns (some nsSel) true with
          | none => rfl
          | some c =>
            simp only [Option.bind_eq_bind, Option.none_bind, Option.some_bind, Option.map_none', Option.map_some', Option.pure_def, Option.bind_some, Option.bind_none]
            split <;>
              simp only [Option.map_some', Slices.LoopState.built, List.filter_append,
        List.flatMap_append, Option.some.injEq, LoopState.mk.injEq, true_and, and_true,
        filter_side_onTarget_true, filter_notSide_onTarget_true, filter_side_onTarget_false, filter_notSide_onTarget_false, filter_side_onFragment_true, filter_notSide_onFragment_true, filter_side_onFragment_false, filter_notSide_onFragment_false, filter_side_cons_onTarget_true, filter_notSide_cons_onTarget_true, filter_side_cons_onTarget_false, filter_notSide_cons_onTarget_false, filter_side_cons_onFragment_true, filter_notSide_cons_onFragment_true, filter_side_cons_onFragment_false, filter_notSide_cons_onFragment_false,
        flatMap_values_onTarget, flatMap_values_onFragment, List.flatMap_nil, List.append_nil,
        List.filter_nil, List.flatMap_cons, values_onTarget, values_onFragment, List.map_cons,
        List.map_nil, List.map_map, Function.comp_def, Build.entry, Fragment.nil_tokens, Slices.port_tokens,
        List.flatten_cons, List.flatten_nil, List.nil_append, List.append_assoc,
        List.cons_append]
    | some podSel =>
      cases nsSel with
      | none =>
        simp only [Slices.egressPeer, Npm.egressPeer]
        rw [← Slices.selector_tokens]
        cases Slices.craftPartialIptEntrySpecFromSelector u ns (some podSel) IptablesDstFlag false with
        | none => rfl
        | some f =>
          simp only [Option.bind_eq_bind, Option.none_bind, Option.some_bind, Option.map_none', Option.map_some', Option.pure_def, Option.bind_some, Option.bind_none]
          cases craftPartialIptablesCommentFromSelector u ns (some podSel) false with
          | none => rfl
          | some c =>
            simp only [Option.bind_eq_bind, Option.none_bind, Option.some_bind, Option.map_none', Option.map_some', Option.pure_def, Option.bind_some, Option.bind_none]
            split <;>
              simp only [Option.map_some', Slices.LoopState.built, List.filter_append,
        List.flatMap_append, Option.some.injEq, LoopState.mk.injEq, true_and, and_true,
        filter_side_onTarget_true, filter_notSide_onTarget_true, filter_side_onTarget_false, filter_notSide_onTarget_false, filter_side_onFragment_true, filter_notSide_onFragment_true, filter_side_onFragment_false, filter_notSide_onFragment_false, filter_side_cons_onTarget_true, filter_notSide_cons_onTarget_true, filter_side_cons_onTarget_false, filter_notSide_cons_onTarget_false, filter_side_cons_onFragment_true, filter_notSide_cons_onFragment_true, filter_side_cons_onFragment_false, filter_notSide_cons_onFragment_false,
        flatMap_values_onTarget, flatMap_values_onFragment, List.flatMap_nil, List.append_nil,
        List.filter_nil, List.flatMap_cons, values_onTarget, values_onFragment, List.map_cons,
        List.map_nil, List.map_map, Function.comp_def, Build.entry, Fragment.nil_tokens, Slices.port_tokens,
        List.flatten_cons, List.flatten_nil, List.nil_append, List.append_assoc,
        List.cons_append]
      | some nsSel =>
        simp only [Slices.egressPeer, Npm.egressPeer]
        split
        · rfl
        · rw [← Slices.selector_tokens, ← Slices.selector_tokens]
          cases Slices.craftPartialIptEntrySpecFromSelector u ns (some nsSel) IptablesDstFlag true with
          | none => rfl
          | some f =>
            simp only [Option.bind_eq_bind, Option.none_bind, Option.some_bind, Option.map_none', Option.map_some', Option.pure_def, Option.bind_some, Option.bind_none]
            cases Slices.craftPartialIptEntrySpecFromSelector u ns (some podSel) IptablesDstFlag false with
            | none => rfl
            | some g =>
              simp only [Option.bind_eq_bind, Option.none_bind, Option.some_bind, Option.map_none', Option.map_some', Option.pure_def, Option.bind_some, Option.bind_none]
              cases craftPartialIptablesCommentFromSelector u ns (some nsSel) true with
              | none => rfl
              | some c =>
                simp only [Option.bind_eq_bind, Option.none_bind, Option.some_bind, Option.map_none', Option.map_some', Option.pure_def, Option.bind_some, Option.bind_none]
                cases craftPartialIptablesCommentFromSelector u ns (some podSel) false with
                | none => rfl
                | some c2 =>
                  simp only [Option.bind_eq_bind, Option.none_bind, Option.some_bind, Option.map_none', Option.map_some', Option.pure_def, Option.bind_some, Option.bind_none]
                  split <;>
                    simp only [Option.map_some', Slices.LoopState.built, List.filter_append,
        List.flatMap_append, Option.some.injEq, LoopState.mk.injEq, true_and, and_true,
        filter_side_onTarget_true, filter_notSide_onTarget_true, filter_side_onTarget_false, filter_notSide_onTarget_false, filter_side_onFragment_true, filter_notSide_onFragment_true, filter_side_onFragment_false, filter_notSide_onFragment_false, filter_side_cons_onTarget_true, filter_notSide_cons_onTarget_true, filter_side_cons_onTarget_false, filter_notSide_cons_onTarget_false, filter_side_cons_onFragment_true, filter_notSide_cons_onFragment_true, filter_side_cons_onFragment_false, filter_notSide_cons_onFragment_false,
        flatMap_values_onTarget, flatMap_values_onFragment, List.flatMap_nil, List.append_nil,
        List.filter_nil, List.flatMap_cons, values_onTarget, values_onFragment, List.map_cons,
        List.map_nil, List.map_map, Function.comp_def, Build.entry, Fragment.nil_tokens, Slices.port_tokens,
        List.flatten_cons, List.flatten_nil, List.nil_append, List.append_assoc,
        List.cons_append]

theorem foldlM_map_comm {σ τ α : Type} (f : σ → α → Option σ) (g : τ → α → Option τ)
    (φ : σ → τ) (h : ∀ s x, (f s x).map φ = g (φ s) x) :
    ∀ (xs : List α) (s : σ), (xs.foldlM f s).map φ = xs.foldlM g (φ s) := by
  intro xs
  induction xs with
  | nil => intro s; rfl
  | cons x xs ih =>
    intro s
    simp only [List.foldlM_cons, Option.bind_eq_bind]
    rw [← h s x]
    cases f s x with
    | none => rfl
    | some s1 =>
      simp only [Option.some_bind, Option.map_some']
      exact ih s1

/-- What the steps of a rule build is what the rule adds in the section
`Direction compilers`. -/
theorem Slices.ingressRule_built (u : Util) (ns : String) (tS : List String) (tC : String)
    (st : Slices.LoopState) (rule : NetworkPolicyIngressRule) :
    (Slices.ingressRule u ns tS tC st rule).map (Slices.LoopState.built tS) =
      Npm.ingressRule u ns tS tC (st.built tS) rule := by
  have hf := foldlM_map_comm
    (Slices.ingressPeer u ns tS tC rule.Ports (decide (rule.Ports.length > 0)))
    (Npm.ingressPeer u ns tS tC rule.Ports (decide (rule.Ports.length > 0)))
    (Slices.LoopState.built tS)
    (fun s x => Slices.ingressPeer_built u ns tS tC rule.Ports _ s x) (rule.From.getD [])
    { st with addedPortEntry := st.addedPortEntry || decide (rule.Ports.length > 0) }
  simp only [Slices.ingressRule, Npm.ingressRule]
  split
  · simp only [Option.map_some', Slices.LoopState.built, List.filter_append,
        List.flatMap_append, Option.some.injEq, LoopState.mk.injEq, true_and, and_true,
        filter_side_onTarget_true, filter_notSide_onTarget_true, filter_side_onTarget_false, filter_notSide_onTarget_false, filter_side_onFragment_true, filter_notSide_onFragment_true, filter_side_onFragment_false, filter_notSide_onFragment_false, filter_side_cons_onTarget_true, filter_notSide_cons_onTarget_true, filter_side_cons_onTarget_false, filter_notSide_cons_onTarget_false, filter_side_cons_onFragment_true, filter_notSide_cons_onFragment_true, filter_side_cons_onFragment_false, filter_notSide_cons_onFragment_false,
        flatMap_values_onTarget, flatMap_values_onFragment, List.flatMap_nil, List.append_nil,
        List.filter_nil, List.flatMap_cons, values_onTarget, values_onFragment, List.map_cons,
        List.map_nil, List.map_map, Function.comp_def, Build.entry, Fragment.nil_tokens, Slices.port_tokens,
        List.flatten_cons, List.flatten_nil, List.nil_append, List.append_assoc,
        List.cons_append]
  · split
    · simp only [Option.map_some', Slices.LoopState.built, List.filter_append,
        List.flatMap_append, Option.some.injEq, LoopState.mk.injEq, true_and, and_true,
        filter_side_onTarget_true, filter_notSide_onTarget_true, filter_side_onTarget_false, filter_notSide_onTarget_false, filter_side_onFragment_true, filter_notSide_onFragment_true, filter_side_onFragment_false, filter_notSide_onFragment_false, filter_side_cons_onTarget_true, filter_notSide_cons_onTarget_true, filter_side_cons_onTarget_false, filter_notSide_cons_onTarget_false, filter_side_cons_onFragment_true, filter_notSide_cons_onFragment_true, filter_side_cons_onFragment_false, filter_notSide_cons_onFragment_false,
        flatMap_values_onTarget, flatMap_values_onFragment, List.flatMap_nil, List.append_nil,
        List.filter_nil, List.flatMap_cons, values_onTarget, values_onFragment, List.map_cons,
        List.map_nil, List.map_map, Function.comp_def, Build.entry, Fragment.nil_tokens, Slices.port_tokens,
        List.flatten_cons, List.flatten_nil, List.nil_append, List.append_assoc,
        List.cons_append]
    · have hb : (Slices.LoopState.built tS
          { st with addedPortEntry := st.addedPortEntry || decide (rule.Ports.length > 0) }) =
          { (st.built tS) with
            addedPortEntry := (st.built tS).addedPortEntry || decide (rule.Ports.length > 0) } :=
        rfl
      rw [hb] at hf
      rw [← hf]
      cases List.foldlM
        (Slices.ingressPeer u ns tS tC rule.Ports (decide (rule.Ports.length > 0)))
        { st with addedPortEntry := st.addedPortEntry || decide (rule.Ports.length > 0) }
        (rule.From.getD []) with
      | none => rfl
      | some st1 =>
        simp only [Option.bind_eq_bind, Option.none_bind, Option.some_bind, Option.map_none', Option.map_some', Option.pure_def, Option.bind_some, Option.bind_none]
        split
        · simp only [Option.map_some', Slices.LoopState.built, List.filter_append,
        List.flatMap_append, Option.some.injEq, LoopState.mk.injEq, true_and, and_true,
        filter_side_onTarget_true, filter_notSide_onTarget_true, filter_side_onTarget_false, filter_notSide_onTarget_false, filter_side_onFragment_true, filter_notSide_onFragment_true, filter_side_onFragment_false, filter_notSide_onFragment_false, filter_side_cons_onTarget_true, filter_notSide_cons_onTarget_true, filter_side_cons_onTarget_false, filter_notSide_cons_onTarget_false, filter_side_cons_onFragment_true, filter_notSide_cons_onFragment_true, filter_side_cons_onFragment_false, filter_notSide_cons_onFragment_false,
        flatMap_values_onTarget, flatMap_values_onFragment, List.flatMap_nil, List.append_nil,
        List.filter_nil, List.flatMap_cons, values_onTarget, values_onFragment, List.map_cons,
        List.map_nil, List.map_map, Function.comp_def, Build.entry, Fragment.nil_tokens, Slices.port_tokens,
        List.flatten_cons, List.flatten_nil, List.nil_append, List.append_assoc,
        List.cons_append]
        · rfl

/-- With no entry left on a shared array, `translateIngress` returns the entries as
they were built: the result of the section `Direction compilers`. -/
theorem Slices.translateIngress_unshared (rt : Runtime) (u : Util) (ns : String)
    (t : LabelSelector) (rules : List NetworkPolicyIngressRule)
    (hu : Slices.ingressUnshared rt u ns t rules = true) :
    Slices.translateIngress rt u ns t rules = Npm.translateIngress u ns t rules := by
  have hf := fun tS tC => foldlM_map_comm (Slices.ingressRule u ns tS tC) (Npm.ingressRule u ns tS tC)
    (Slices.LoopState.built tS) (fun s x => Slices.ingressRule_built u ns tS tC s x) rules
    { sets := (targetOpsAndLabels u ns t).2, lists := [], steps := [],
      addedPeerEntry := false, addedPortEntry := false }
  simp only [Slices.ingressUnshared, Slices.ingressSteps] at hu
  simp only [Slices.translateIngress, Npm.translateIngress]
  rw [← Slices.opsAndLabels_tokens]
  cases h1 : Slices.craftPartialIptEntrySpecFromOpsAndLabels u ns (targetOpsAndLabels u ns t).1
      (targetOpsAndLabels u ns t).2 IptablesDstFlag false with
  | none => rfl
  | some tF =>
    rw [h1] at hu
    simp only [Option.bind_eq_bind, Option.none_bind, Option.some_bind, Option.map_none', Option.map_some', Option.pure_def, Option.bind_some, Option.bind_none]
    simp only [Option.bind_eq_bind, Option.none_bind, Option.some_bind, Option.map_none', Option.map_some', Option.pure_def, Option.bind_some, Option.bind_none] at hu
    cases h2 : craftPartialIptablesCommentFromSelector u ns (some t) false with
    | none => rfl
    | some tC =>
      rw [h2] at hu
      simp only [Option.bind_eq_bind, Option.none_bind, Option.some_bind, Option.map_none', Option.map_some', Option.pure_def, Option.bind_some, Option.bind_none]
      simp only [Option.bind_eq_bind, Option.none_bind, Option.some_bind, Option.map_none', Option.map_some', Option.pure_def, Option.bind_some, Option.bind_none] at hu
      have hb : Slices.LoopState.built tF.tokens
          { sets := (targetOpsAndLabels u ns t).2, lists := [], steps := [],
            addedPeerEntry := false, addedPortEntry := false } =
          { sets := (targetOpsAndLabels u ns t).2, lists := [], entries := [], peerEntries := [],
            addedPeerEntry := false, addedPortEntry := false } := rfl
      rw [← hb, ← hf]
      cases h3 : List.foldlM (Slices.ingressRule u ns tF.tokens tC)
          { sets := (targetOpsAndLabels u ns t).2, lists := [], steps := [],
            addedPeerEntry := false, addedPortEntry := false } rules with
      | none => rfl
      | some st =>
        rw [h3] at hu
        simp only [Option.bind_eq_bind, Option.none_bind, Option.some_bind, Option.map_none', Option.map_some', Option.pure_def, Option.bind_some, Option.bind_none]
        simp only [Option.bind_eq_bind, Option.none_bind, Option.some_bind, Option.map_none', Option.map_some', Option.pure_def, Option.bind_some, Option.bind_none] at hu
        rw [List.all_eq_true] at hu
        rw [returnedEntries_unshared rt tF _ _ hu]
        simp only [Npm.ingressFinish, Slices.ingressClosing, Slices.LoopState.built, Option.some.injEq,
          Translation.mk.injEq, true_and]
        split
        · simp only [List.flatMap_cons, List.flatMap_nil, values_onTarget, Build.entry,
            List.flatten_cons, List.flatten_nil, List.append_nil]
        · split
          · simp only [List.flatMap_cons, List.flatMap_nil, values_onTarget, Build.entry,
              List.flatten_cons, List.flatten_nil, List.append_nil, List.singleton_append]
          · simp only [List.flatMap_nil, List.append_nil]

/-- What the steps of a rule build is what the rule adds in the section
`Direction compilers`. -/
theorem Slices.egressRule_built (u : Util) (ns : String) (tS : List String) (tC : String)
    (st : Slices.LoopState) (rule : NetworkPolicyEgressRule) :
    (Slices.egressRule u ns tS tC st rule).map (Slices.LoopState.built tS) =
      Npm.egressRule u ns tS tC (st.built tS) rule := by
  have hf := foldlM_map_comm
    (Slices.egressPeer u ns tS tC rule.Ports (decide (rule.Ports.length > 0)))
    (Npm.egressPeer u ns tS tC rule.Ports (decide (rule.Ports.length > 0)))
    (Slices.LoopState.built tS)
    (fun s x => Slices.egressPeer_built u ns tS tC rule.Ports _ s x) (rule.To.getD [])
    { st with addedPortEntry := st.addedPortEntry || decide (rule.Ports.length > 0) }
  simp only [Slices.egressRule, Npm.egressRule]
  split
  · simp only [Option.map_some', Slices.LoopState.built, List.filter_append,
        List.flatMap_append, Option.some.injEq, LoopState.mk.injEq, true_and, and_true,
        filter_side_onTarget_true, filter_notSide_onTarget_true, filter_side_onTarget_false, filter_notSide_onTarget_false, filter_side_onFragment_true, filter_notSide_onFragment_true, filter_side_onFragment_false, filter_notSide_onFragment_false, filter_side_cons_onTarget_true, filter_notSide_cons_onTarget_true, filter_side_cons_onTarget_false, filter_notSide_cons_onTarget_false, filter_side_cons_onFragment_true, filter_notSide_cons_onFragment_true, filter_side_cons_onFragment_false, filter_notSide_cons_onFragment_false,
        flatMap_values_onTarget, flatMap_values_onFragment, List.flatMap_nil, List.append_nil,
        List.filter_nil, List.flatMap_cons, values_onTarget, values_onFragment, List.map_cons,
        List.map_nil, List.map_map, Function.comp_def, Build.entry, Fragment.nil_tokens, Slices.port_tokens,
        List.flatten_cons, List.flatten_nil, List.nil_append, List.append_assoc,
        List.cons_append]
  · split
    · simp only [Option.map_some', Slices.LoopState.built, List.filter_append,
        List.flatMap_append, Option.some.injEq, LoopState.mk.injEq, true_and, and_true,
        filter_side_onTarget_true, filter_notSide_onTarget_true, filter_side_onTarget_false, filter_notSide_onTarget_false, filter_side_onFragment_true, filter_notSide_onFragment_true, filter_side_onFragment_false, filter_notSide_onFragment_false, filter_side_cons_onTarget_true, filter_notSide_cons_onTarget_true, filter_side_cons_onTarget_false, filter_notSide_cons_onTarget_false, filter_side_cons_onFragment_true, filter_notSide_cons_onFragment_true, filter_side_cons_onFragment_false, filter_notSide_cons_onFragment_false,
        flatMap_values_onTarget, flatMap_values_onFragment, List.flatMap_nil, List.append_nil,
        List.filter_nil, List.flatMap_cons, values_onTarget, values_onFragment, List.map_cons,
        List.map_nil, List.map_map, Function.comp_def, Build.entry, Fragment.nil_tokens, Slices.port_tokens,
        List.flatten_cons, List.flatten_nil, List.nil_append, List.append_assoc,
        List.cons_append]
    · have hb : (Slices.LoopState.built tS
          { st with addedPortEntry := st.addedPortEntry || decide (rule.Ports.length > 0) }) =
          { (st.built tS) with
            addedPortEntry := (st.built tS).addedPortEntry || decide (rule.Ports.length > 0) } :=
        rfl
      rw [hb] at hf
      rw [← hf]
      cases List.foldlM
        (Slices.egressPeer u ns tS tC rule.Ports (decide (rule.Ports.length > 0)))
        { st with addedPortEntry := st.addedPortEntry || decide (rule.Ports.length > 0) }
        (rule.To.getD []) with
      | none => rfl
      | some st1 =>
        simp only [Option.bind_eq_bind, Option.none_bind, Option.some_bind, Option.map_none', Option.map_some', Option.pure_def, Option.bind_some, Option.bind_none]
        split
        · simp only [Option.map_some', Slices.LoopState.built, List.filter_append,
        List.flatMap_append, Option.some.injEq, LoopState.mk.injEq, true_and, and_true,
        filter_side_onTarget_true, filter_notSide_onTarget_true, filter_side_onTarget_false, filter_notSide_onTarget_false, filter_side_onFragment_true, filter_notSide_onFragment_true, filter_side_onFragment_false, filter_notSide_onFragment_false, filter_side_cons_onTarget_true, filter_notSide_cons_onTarget_true, filter_side_cons_onTarget_false, filter_notSide_cons_onTarget_false, filter_side_cons_onFragment_true, filter_notSide_cons_onFragment_true, filter_side_cons_onFragment_false, filter_notSide_cons_onFragment_false,
        flatMap_values_onTarget, flatMap_values_onFragment, List.flatMap_nil, List.append_nil,
        List.filter_nil, List.flatMap_cons, values_onTarget, values_onFragment, List.map_cons,
        List.map_nil, List.map_map, Function.comp_def, Build.entry, Fragment.nil_tokens, Slices.port_tokens,
        List.flatten_cons, List.flatten_nil, List.nil_append, List.append_assoc,
        List.cons_append]
        · rfl

/-- With no entry left on a shared array, `translateEgress` returns the entries as
they were built: the result of the section `Direction compilers`. -/
theorem Slices.translateEgress_unshared (rt : Runtime) (u : Util) (ns : String)
    (t : LabelSelector) (rules : List NetworkPolicyEgressRule)
    (hu : Slices.egressUnshared rt u ns t rules = true) :
    Slices.translateEgress rt u ns t rules = Npm.translateEgress u ns t rules := by
  have hf := fun tS tC => foldlM_map_comm (Slices.egressRule u ns tS tC) (Npm.egressRule u ns tS tC)
    (Slices.LoopState.built tS) (fun s x => Slices.egressRule_built u ns tS tC s x) rules
    { sets := (targetOpsAndLabels u ns t).2, lists := [], steps := [],
      addedPeerEntry := false, addedPortEntry := false }
  simp only [Slices.egressUnshared, Slices.egressSteps] at hu
  simp only [Slices.translateEgress, Npm.translateEgress]
  rw [← Slices.opsAndLabels_tokens]
  cases h1 : Slices.craftPartialIptEntrySpecFromOpsAndLabels u ns (targetOpsAndLabels u ns t).1
      (targetOpsAndLabels u ns t).2 IptablesSrcFlag false with
  | none => rfl
  | some tF =>
    rw [h1] at hu
    simp only [Option.bind_eq_bind, Option.none_bind, Option.some_bind, Option.map_none', Option.map_some', Option.pure_def, Option.bind_some, Option.bind_none]
    simp only [Option.bind_eq_bind, Option.none_bind, Option.some_bind, Option.map_none', Option.map_some', Option.pure_def, Option.bind_some, Option.bind_none] at hu
    cases h2 : craftPartialIptablesCommentFromSelector u ns (some t) false with
    | none => rfl
    | some tC =>
      rw [h2] at hu
      simp only [Option.bind_eq_bind, Option.none_bind, Option.some_bind, Option.map_none', Option.map_some', Option.pure_def, Option.bind_some, Option.bind_none]
      simp only [Option.bind_eq_bind, Option.none_bind, Option.some_bind, Option.map_none', Option.map_some', Option.pure_def, Option.bind_some, Option.bind_none] at hu
      have hb : Slices.LoopState.built tF.tokens
          { sets := (targetOpsAndLabels u ns t).2, lists := [], steps := [],
            addedPeerEntry := false, addedPortEntry := false } =
          { sets := (targetOpsAndLabels u ns t).2, lists := [], entries := [], peerEntries := [],
            addedPeerEntry := false, addedPortEntry := false } := rfl
      rw [← hb, ← hf]
      cases h3 : List.foldlM (Slices.egressRule u ns tF.tokens tC)
          { sets := (targetOpsAndLabels u ns t).2, lists := [], steps := [],
            addedPeerEntry := false, addedPortEntry := false } rules with
      | none => rfl
      | some st =>
        rw [h3] at hu
        simp only [Option.bind_eq_bind, Option.none_bind, Option.some_bind, Option.map_none', Option.map_some', Option.pure_def, Option.bind_some, Option.bind_none]
        simp only [Option.bind_eq_bind, Option.none_bind, Option.some_bind, Option.map_none', Option.map_some', Option.pure_def, Option.bind_some, Option.bind_none] at hu
        rw [List.all_eq_true] at hu
        rw [returnedEntries_unshared rt tF _ _ hu]
        simp only [Npm.egressFinish, Slices.egressClosing, Slices.LoopState.built, Option.some.injEq,
          Translation.mk.injEq, true_and]
        split
        · simp only [List.flatMap_cons, List.flatMap_nil, values_onTarget, Build.entry,
            List.flatten_cons, List.flatten_nil, List.append_nil]
        · split
          · simp only [List.flatMap_cons, List.flatMap_nil, values_onTarget, Build.entry,
              List.flatten_cons, List.flatten_nil, List.append_nil, List.singleton_append]
          · simp only [List.flatMap_nil, List.append_nil]

/-- With no entry of a translated direction left on a shared array,
`translatePolicy` returns the entries as they were built: the result of the
section `Policy orchestrator`. -/
theorem Slices.translatePolicy_unshared (rt : Runtime) (u : Util) (npObj : NetworkPolicy)
    (hu : Slices.policyUnshared rt u npObj) :
    Slices.translatePolicy rt u npObj = Npm.translatePolicy u npObj := by
  have hdir : Slices.translatePolicyDirections rt u npObj =
      Npm.translatePolicyDirections u npObj := by
    simp only [Slices.translatePolicyDirections, Npm.translatePolicyDirections]
    by_cases hpt : npObj.PolicyTypes.length = 0
    · have h1 := hu.1 (by simp only [translatedDirections, if_pos hpt, List.mem_cons, true_or])
      have h2 := hu.2 (by
        simp only [translatedDirections, if_pos hpt]
        exact List.mem_cons_of_mem _ (List.mem_singleton_self _))
      simp only [if_pos hpt, Slices.translateIngress_unshared rt u _ _ _ h1,
        Slices.translateEgress_unshared rt u _ _ _ h2]
    · simp only [if_neg hpt]
      apply foldlM_congr_mem
      intro ptype hp st
      simp only [Slices.policyTypeStep, Npm.policyTypeStep]
      have e1 : ptype = PolicyTypeIngress →
          Slices.translateIngress rt u npObj.Namespace npObj.PodSelector npObj.Ingress =
            Npm.translateIngress u npObj.Namespace npObj.PodSelector npObj.Ingress := by
        intro he
        apply Slices.translateIngress_unshared
        apply hu.1
        simp only [translatedDirections, if_neg hpt]
        exact List.mem_filter.mpr ⟨he ▸ hp, decide_eq_true (Or.inl rfl)⟩
      have e2 : ptype = PolicyTypeEgress →
          Slices.translateEgress rt u npObj.Namespace npObj.PodSelector npObj.Egress =
            Npm.translateEgress u npObj.Namespace npObj.PodSelector npObj.Egress := by
        intro he
        apply Slices.translateEgress_unshared
        apply hu.2
        simp only [translatedDirections, if_neg hpt]
        exact List.mem_filter.mpr ⟨he ▸ hp, decide_eq_true (Or.inr rfl)⟩
      by_cases hi : ptype = PolicyTypeIngress
      · by_cases he : ptype = PolicyTypeEgress
        · simp only [if_pos hi, if_pos he, e1 hi, e2 he]
        · simp only [if_pos hi, if_neg he, e1 hi]
      · by_cases he : ptype = PolicyTypeEgress
        · simp only [if_neg hi, if_pos he, e2 he]
        · simp only [if_neg hi, if_neg he]
  simp only [Slices.translatePolicy, Npm.translatePolicy, hdir]

/-! ## The labels of the example selectors -/

theorem strLt_false_of (a b : String) (h : ¬ a.toList < b.toList) : decide (a < b) = false := by
  rw [decide_eq_false_iff_not, String.lt_iff_toList_lt]
  exact h

/-- Insertion sort leaves a list in order as it is. -/
theorem sortBy_of_chain {α : Type} (le : α → α → Bool) :
    ∀ (l : List α), l.Chain' (fun a b => le a b = true) → sortBy le l = l := by
  intro l
  induction l with
  | nil => intro _; rfl
  | cons x l ih =>
    intro h
    have hl := ih (List.Chain'.tail h)
    simp only [sortBy, List.foldr_cons] at hl ⊢
    rw [hl]
    cases l with
    | nil => rfl
    | cons y ys =>
      have hxy : le x y = true := (List.chain'_cons.mp h).1
      simp only [insertSorted, hxy, if_true]

theorem pairLe_plain (a b : String) (h : ¬ b.toList < a.toList) :
    pairLe ("", a) ("", b) = true := by
  have e0 : decide (("" : String) < "") = false := strLt_false_of _ _ (by decide)
  simp only [pairLe, strLe, e0, strLt_false_of b a h, Bool.false_or, decide_True, Bool.true_and,
    Bool.not_false]

theorem parse_nineLabels :
    exampleUtil.parseSelector (some nineLabels) =
      ["a:1", "b:2", "c:3", "d:4", "e:5", "f:6", "g:7", "h:8", "i:9"] := by
  have hs : sortBy pairLe [("", "a:1"), ("", "b:2"), ("", "c:3"), ("", "d:4"), ("", "e:5"),
      ("", "f:6"), ("", "g:7"), ("", "h:8"), ("", "i:9")] = _ := sortBy_of_chain pairLe _ (by
    repeat' (first | apply List.Chain'.cons | exact List.chain'_singleton _)
    all_goals (apply pairLe_plain; decide))
  have hp : parse nineLabels = some [("", "a:1"), ("", "b:2"), ("", "c:3"), ("", "d:4"),
      ("", "e:5"), ("", "f:6"), ("", "g:7"), ("", "h:8"), ("", "i:9")] := by
    rw [← hs]
    rfl
  show ((parse nineLabels).getD []).map (fun p => p.1 ++ p.2) = _
  rw [hp]
  rfl

theorem parse_fiveLabels :
    exampleUtil.parseSelector (some fiveLabels) = ["a:1", "b:2", "c:3", "d:4", "e:5"] := by
  have hs : sortBy pairLe [("", "a:1"), ("", "b:2"), ("", "c:3"), ("", "d:4"), ("", "e:5")] = _ :=
    sortBy_of_chain pairLe _ (by
      repeat' (first | apply List.Chain'.cons | exact List.chain'_singleton _)
      all_goals (apply pairLe_plain; decide))
  have hp : parse fiveLabels = some [("", "a:1"), ("", "b:2"), ("", "c:3"), ("", "d:4"),
      ("", "e:5")] := by
    rw [← hs]
    rfl
  show ((parse fiveLabels).getD []).map (fun p => p.1 ++ p.2) = _
  rw [hp]
  rfl

/-- The helpers with the labels written out are the helpers of the spec. -/
theorem exampleUtilListed_eq : exampleUtilListed = exampleUtil := by
  have h : exampleUtilListed.parseSelector = exampleUtil.parseSelector := by
    funext selector
    show (if selector = some fiveLabels then _ else if selector = some nineLabels then _ else _) = _
    split
    · rename_i h1
      rw [h1, parse_fiveLabels]
    · split
      · rename_i h1 h2
        rw [h2, parse_nineLabels]
      · rfl
  show ({ exampleUtil with parseSelector := exampleUtilListed.parseSelector } : Util) = exampleUtil
  rw [h]

/-! ## Slices: what holds of the returned entries whatever the arrays share -/

/-- Running two lists of steps one after the other. -/
theorem runSteps_append (rt : Runtime) (t : Slice) (s1 s2 : List Step) :
    ∀ h : Heap, runSteps rt t h (s1 ++ s2) =
      ((runSteps rt t (runSteps rt t h s1).1 s2).1,
       (runSteps rt t h s1).2 ++ (runSteps rt t (runSteps rt t h s1).1 s2).2) := by
  induction s1 with
  | nil => intro h; simp [runSteps]
  | cons s ss ih =>
    intro h
    show runSteps rt t h (s :: (ss ++ s2)) = _
    simp only [runSteps, ih, List.append_assoc]

/-- The chains of the returned entries are those of the entries as they were
built, in the same order: a chain is never written over. -/
theorem returnedEntries_chains (rt : Runtime) (tF : Fragment) (steps closing : List Step) :
    (returnedEntries rt tF steps closing).map IptEntry.Chain =
      (builtEntries tF.tokens steps closing).map IptEntry.Chain := by
  obtain ⟨m1, -, -, -, -, -⟩ := Fragment.make_spec rt [] tF
  obtain ⟨f1, f2, -⟩ := runSteps_spec rt (tF.make rt []).2 tF.tokens steps (tF.make rt []).1 m1
  obtain ⟨v1, -, -⟩ := f1.valid m1
  obtain ⟨-, g2, -⟩ := runSteps_spec rt (tF.make rt []).2 tF.tokens closing _ v1
  have hmap : ∀ (q : Bool → Bool),
      ((runSteps rt (tF.make rt []).2 (tF.make rt []).1 steps).2.filter
          (fun b => q b.toSide)).map Built.Chain =
      ((steps.filter (fun s => q s.toSide)).flatMap (Step.values tF.tokens)).map
        IptEntry.Chain := by
    intro q
    rw [filter_map_pair q Built.toSide, f2]
    have := filter_flatMap_pair q Step.toSide
      (fun st => (st.values tF.tokens).map IptEntry.Chain) steps
    simp only [List.map_map, Function.comp_def] at this
    rw [this, List.map_flatMap]
  have hlast := congrArg (List.map Prod.snd) g2
  simp only [List.map_map, Function.comp_def, List.map_flatMap] at hlast
  simp only [returnedEntries, builtEntries, List.map_append, List.map_map, Function.comp_def,
    Built.entry]
  have e1 := hmap (fun b => !b)
  have e2 := hmap (fun b => b)
  simp only [List.map_flatMap] at e1 e2
  rw [e1, e2, hlast]
  simp only [List.map_flatMap]

/-- The entry built last on the target fragment is returned as it was built:
nothing is appended after it. -/
theorem returnedEntries_getLast (rt : Runtime) (tF : Fragment) (steps cl : List Step)
    (toSide : Bool) (b : Build) :
    (returnedEntries rt tF steps (cl ++ [Step.onTarget toSide b])).getLast? =
      some (b.entry tF.tokens) := by
  obtain ⟨m1, m2, -, -, -, -⟩ := Fragment.make_spec rt [] tF
  obtain ⟨f1, -, -⟩ := runSteps_spec rt (tF.make rt []).2 [] steps (tF.make rt []).1 m1
  obtain ⟨v1, v2, -⟩ := f1.valid m1
  obtain ⟨g1, -, -⟩ := runSteps_spec rt (tF.make rt []).2 [] cl _ v1
  obtain ⟨w1, w2, -⟩ := g1.valid v1
  obtain ⟨-, a2, -, -, -⟩ := appendAll_spec rt b.appends _ _ w1
  simp only [returnedEntries, runSteps_append, runSteps, runStep, runBuilds, List.append_nil,
    List.map_append, List.map_cons, List.map_nil]
  rw [← List.append_assoc, List.getLast?_append_cons]
  simp only [List.getLast?_singleton, Built.entry, Build.entry, Option.some.injEq,
    IptEntry.mk.injEq, true_and]
  rw [a2, w2, v2, m2]

/-- What holds of every cell of a heap holds of the cells of each of its
arrays. -/
theorem cells_of_heap {P : String → Prop} (h : Heap)
    (hh : ∀ arr ∈ h, ∀ x ∈ arr, P x) (i : Nat) : ∀ x ∈ h.getD i [], P x := by
  intro x hx
  rw [List.getD_eq_getElem?_getD] at hx
  cases hi : h[i]? with
  | none => rw [hi] at hx; exact absurd hx (List.not_mem_nil _)
  | some arr =>
    rw [hi] at hx
    exact hh arr (List.getElem?_mem hi) x hx

/-- One call of `append` writes nothing but the appended tokens and the empty
strings of a new array. -/
theorem goAppend_tokens {P : String → Prop} (hP : P "") (rt : Runtime) (h : Heap) (s : Slice)
    (xs : List String) (hh : ∀ arr ∈ h, ∀ x ∈ arr, P x) (hxs : ∀ x ∈ xs, P x) :
    ∀ arr ∈ (goAppend rt h s xs).1, ∀ x ∈ arr, P x := by
  have hc := cells_of_heap h hh s.array
  by_cases hx : xs = []
  · subst hx
    rw [goAppend_nil]
    exact hh
  · by_cases hroom : s.len + xs.length ≤ s.cap h
    · rw [goAppend_room rt h s xs hx hroom]
      intro arr harr x hxa
      rcases List.mem_or_eq_of_mem_set harr with h1 | h1
      · exact hh arr h1 x hxa
      · subst h1
        simp only [List.mem_append] at hxa
        rcases hxa with (h2 | h2) | h2
        · exact hc x (List.mem_of_mem_take h2)
        · exact hxs x h2
        · exact hc x (List.mem_of_mem_drop h2)
    · rw [goAppend_grow rt h s xs hx hroom]
      intro arr harr x hxa
      simp only [List.mem_append, List.mem_singleton] at harr
      rcases harr with h1 | h1
      · exact hh arr h1 x hxa
      · subst h1
        simp only [List.mem_append, Slice.read] at hxa
        rcases hxa with (h2 | h2) | h2
        · exact hc x (List.mem_of_mem_take h2)
        · exact hxs x h2
        · rw [(List.mem_replicate.mp h2).2]
          exact hP

/-- The calls of `append` that build one entry write nothing but their
arguments. -/
theorem appendAll_tokens {P : String → Prop} (hP : P "") (rt : Runtime)
    (xss : List (List String)) :
    ∀ (h : Heap) (s : Slice), (∀ arr ∈ h, ∀ x ∈ arr, P x) → (∀ x ∈ xss.flatten, P x) →
      ∀ arr ∈ (appendAll rt h s xss).1, ∀ x ∈ arr, P x := by
  induction xss with
  | nil => intro h s hh _; exact hh
  | cons xs xss ih =>
    intro h s hh hx
    simp only [List.flatten_cons, List.mem_append] at hx
    exact ih _ _ (goAppend_tokens hP rt h s xs hh (fun x hxs => hx x (Or.inl hxs)))
      (fun x hxs => hx x (Or.inr hxs))

/-- Making a fragment writes nothing but its tokens. -/
theorem Fragment.make_tokens {P : String → Prop} (hP : P "") (rt : Runtime) (h : Heap)
    (f : Fragment) (hh : ∀ arr ∈ h, ∀ x ∈ arr, P x) (hf : ∀ x ∈ f.tokens, P x) :
    ∀ arr ∈ (f.make rt h).1, ∀ x ∈ arr, P x := by
  simp only [Fragment.tokens, List.mem_append] at hf
  apply appendAll_tokens hP rt f.appends _ _ _ (fun x hx => hf x (Or.inr hx))
  intro arr harr x hxa
  simp only [alloc, List.mem_append, List.mem_singleton] at harr
  rcases harr with h1 | h1
  · exact hh arr h1 x hxa
  · subst h1
    exact hf x (Or.inl hxa)

/-- Building entries writes nothing but the tokens appended to them. -/
theorem runBuilds_tokens {P : String → Prop} (hP : P "") (rt : Runtime) (toSide : Bool)
    (s : Slice) (bs : List Build) :
    ∀ (h : Heap), (∀ arr ∈ h, ∀ x ∈ arr, P x) →
      (∀ b ∈ bs, ∀ x ∈ b.appends.flatten, P x) →
      ∀ arr ∈ (runBuilds rt toSide s h bs).1, ∀ x ∈ arr, P x := by
  induction bs with
  | nil => intro h hh _; exact hh
  | cons b bs ih =>
    intro h hh hb
    exact ih _ (appendAll_tokens hP rt b.appends h s hh (hb b (List.mem_cons_self _ _)))
      (fun b' hb' => hb b' (List.mem_cons_of_mem _ hb'))

/-- A step writes nothing but its tokens. -/
theorem runStep_tokens {P : String → Prop} (hP : P "") (rt : Runtime) (t : Slice) (h : Heap)
    (st : Step) (hh : ∀ arr ∈ h, ∀ x ∈ arr, P x) (hst : ∀ x ∈ st.tokens, P x) :
    ∀ arr ∈ (runStep rt t h st).1, ∀ x ∈ arr, P x := by
  cases st with
  | onTarget toSide b =>
    apply runBuilds_tokens hP rt toSide t [b] h hh
    intro b' hb'
    rw [List.mem_singleton.mp hb']
    exact hst
  | onFragment toSide f bs =>
    simp only [Step.tokens, List.mem_append, List.mem_flatMap] at hst
    apply runBuilds_tokens hP rt toSide _ bs _
      (Fragment.make_tokens hP rt h f hh (fun x hx => hst x (Or.inl hx)))
    intro b hb x hx
    exact hst x (Or.inr ⟨b, hb, hx⟩)

/-- The steps write nothing but their tokens. -/
theorem runSteps_tokens {P : String → Prop} (hP : P "") (rt : Runtime) (t : Slice)
    (steps : List Step) :
    ∀ (h : Heap), (∀ arr ∈ h, ∀ x ∈ arr, P x) → (∀ st ∈ steps, ∀ x ∈ st.tokens, P x) →
      ∀ arr ∈ (runSteps rt t h steps).1, ∀ x ∈ arr, P x := by
  induction steps with
  | nil => intro h hh _; exact hh
  | cons st steps ih =>
    intro h hh hs
    exact ih _ (runStep_tokens hP rt t h st hh (hs st (List.mem_cons_self _ _)))
      (fun st' hst' => hs st' (List.mem_cons_of_mem _ hst'))

/-- Every token of a returned entry is a token of the target fragment or a
token that one of the steps wrote (or the empty string of a cell never written,
which no entry reads): what holds of all of these holds of it, whatever the
arrays share. -/
theorem returnedEntries_tokens {P : String → Prop} (hP : P "") (rt : Runtime) (tF : Fragment)
    (steps closing : List Step) (htF : ∀ x ∈ tF.tokens, P x)
    (hs : ∀ st ∈ steps ++ closing, ∀ x ∈ st.tokens, P x) :
    ∀ e ∈ returnedEntries rt tF steps closing, ∀ x ∈ e.Specs, P x := by
  have h0 := Fragment.make_tokens hP rt [] tF (fun _ h => absurd h (List.not_mem_nil _)) htF
  have h1 := runSteps_tokens hP rt (tF.make rt []).2 steps _ h0
    (fun st hst => hs st (List.mem_append_left _ hst))
  have h2 := runSteps_tokens hP rt (tF.make rt []).2 closing _ h1
    (fun st hst => hs st (List.mem_append_right _ hst))
  intro e he x hx
  simp only [returnedEntries, List.mem_map] at he
  obtain ⟨b, -, rfl⟩ := he
  simp only [Built.entry, Slice.read, Slice.cells] at hx
  exact cells_of_heap _ h2 _ x (List.mem_of_mem_take hx)

/-- The steps of an ingress peer build entries, each of them. -/
theorem Slices.ingressPeer_proper (u : Util) (ns : String) (tS : List String) (tC : String)
    (ports : List NetworkPolicyPort) (pre : Bool) (st st' : Slices.LoopState)
    (peer : NetworkPolicyPeer) (hpre : pre = true → ports.isEmpty = false)
    (h : Slices.ingressPeer u ns tS tC ports pre st peer = some st')
    (hst : st.steps.all Step.proper = true) : st'.steps.all Step.proper = true := by
  obtain ⟨pod, nsSel, ip⟩ := peer
  cases ip with
  | some ipBlock =>
    simp only [Slices.ingressPeer] at h
    split at h <;> split at h <;> (try split at h) <;>
      simp only [Option.some.injEq] at h <;> subst h <;>
      simp [List.all_append, List.all_map, hst, Step.proper, Function.comp_def]
  | none =>
    cases pre with
    | false =>
      cases pod <;> cases nsSel <;>
        simp only [Slices.ingressPeer, Option.bind_eq_bind, Option.bind_eq_some,
          Bool.false_eq_true, if_false, Option.some.injEq, Option.pure_def] at h
      · subst h; exact hst
      · obtain ⟨f, -, c, -, h⟩ := h
        subst h
        simp [List.all_append, hst, Step.proper]
      · obtain ⟨f, -, c, -, h⟩ := h
        subst h
        simp [List.all_append, hst, Step.proper]
      · split at h
        · simp only [Option.some.injEq] at h; subst h; exact hst
        · simp only [Option.bind_eq_bind, Option.bind_eq_some, Option.some.injEq] at h
          obtain ⟨f, -, g, -, c, -, c', -, h⟩ := h
          subst h
          simp [List.all_append, hst, Step.proper]
    | true =>
      have hne := hpre rfl
      cases pod <;> cases nsSel <;>
        simp only [Slices.ingressPeer, Option.bind_eq_bind, Option.bind_eq_some,
          if_true, Option.some.injEq, Option.pure_def] at h
      · subst h; exact hst
      · obtain ⟨f, -, c, -, h⟩ := h
        subst h
        simp [List.all_append, List.all_map, hst, Step.proper, Function.comp_def]
      · obtain ⟨f, -, c, -, h⟩ := h
        subst h
        simp [List.all_append, List.all_map, hst, Step.proper, Function.comp_def]
      · split at h
        · simp only [Option.some.injEq] at h; subst h; exact hst
        · simp only [Option.bind_eq_bind, Option.bind_eq_some, Option.some.injEq] at h
          obtain ⟨f, -, g, -, c, -, c', -, h⟩ := h
          subst h
          have hne' : ¬ ports = [] := fun h0 => by rw [h0] at hne; cases hne
          simp [List.all_append, hst, Step.proper, hne']

/-- The steps of an egress peer build entries, each of them. -/
theorem Slices.egressPeer_proper (u : Util) (ns : String) (tS : List String) (tC : String)
    (ports : List NetworkPolicyPort) (pre : Bool) (st st' : Slices.LoopState)
    (peer : NetworkPolicyPeer) (hpre : pre = true → ports.isEmpty = false)
    (h : Slices.egressPeer u ns tS tC ports pre st peer = some st')
    (hst : st.steps.all Step.proper = true) : st'.steps.all Step.proper = true := by
  obtain ⟨pod, nsSel, ip⟩ := peer
  cases ip with
  | some ipBlock =>
    simp only [Slices.egressPeer] at h
    split at h <;> split at h <;> (try split at h) <;>
      simp only [Option.some.injEq] at h <;> subst h <;>
      simp [List.all_append, List.all_map, hst, Step.proper, Function.comp_def]
  | none =>
    cases pre with
    | false =>
      cases pod <;> cases nsSel <;>
        simp only [Slices.egressPeer, Option.bind_eq_bind, Option.bind_eq_some,
          Bool.false_eq_true, if_false, Option.some.injEq, Option.pure_def] at h
      · subst h; exact hst
      · obtain ⟨f, -, c, -, h⟩ := h
        subst h
        simp [List.all_append, hst, Step.proper]
      · obtain ⟨f, -, c, -, h⟩ := h
        subst h
        simp [List.all_append, hst, Step.proper]
      · split at h
        · simp only [Option.some.injEq] at h; subst h; exact hst
        · simp only [Option.bind_eq_bind, Option.bind_eq_some, Option.some.injEq] at h
          obtain ⟨f, -, g, -, c, -, c', -, h⟩ := h
          subst h
          simp [List.all_append, hst, Step.proper]
    | true =>
      have hne := hpre rfl
      have hne' : ¬ ports = [] := fun h0 => by rw [h0] at hne; cases hne
      cases pod <;> cases nsSel <;>
        simp only [Slices.egressPeer, Option.bind_eq_bind, Option.bind_eq_some,
          if_true, Option.some.injEq, Option.pure_def] at h
      · subst h; exact hst
      · obtain ⟨f, -, c, -, h⟩ := h
        subst h
        simp [List.all_append, List.all_map, hst, Step.proper, Function.comp_def, hne']
      · obtain ⟨f, -, c, -, h⟩ := h
        subst h
        simp [List.all_append, List.all_map, hst, Step.proper, Function.comp_def, hne']
      · split at h
        · simp only [Option.some.injEq] at h; subst h; exact hst
        · simp only [Option.bind_eq_bind, Option.bind_eq_some, Option.some.injEq] at h
          obtain ⟨f, -, g, -, c, -, c', -, h⟩ := h
          subst h
          simp [List.all_append, List.all_map, hst, Step.proper, Function.comp_def]

/-- What every step of a loop keeps true is true after the loop. -/
theorem foldlM_preserves {σ α : Type} (Q : σ → Prop) (f : σ → α → Option σ) (l : List α)
    (hf : ∀ s a s', f s a = some s' → Q s → Q s') :
    ∀ s s', l.foldlM f s = some s' → Q s → Q s' := by
  induction l with
  | nil =>
    intro s s' h hq
    simp only [List.foldlM, Option.pure_def, Option.some.injEq] at h
    exact h ▸ hq
  | cons a l ih =>
    intro s s' h hq
    simp only [List.foldlM, Option.bind_eq_bind, Option.bind_eq_some] at h
    obtain ⟨s1, h1, h2⟩ := h
    exact ih s1 s' h2 (hf s a s1 h1 hq)

/-- The steps of an ingress rule build entries, each of them. -/
theorem Slices.ingressRule_proper (u : Util) (ns : String) (tS : List String) (tC : String)
    (st st' : Slices.LoopState) (rule : NetworkPolicyIngressRule)
    (h : Slices.ingressRule u ns tS tC st rule = some st')
    (hst : st.steps.all Step.proper = true) : st'.steps.all Step.proper = true := by
  have hpre : decide (rule.Ports.length > 0) = true → rule.Ports.isEmpty = false := by
    intro hp
    cases hports : rule.Ports with
    | nil => rw [hports] at hp; simp at hp
    | cons => rfl
  simp only [Slices.ingressRule] at h
  split at h
  · simp only [Option.some.injEq] at h
    subst h
    simp [List.all_append, hst, Step.proper]
  · split at h
    · simp only [Option.some.injEq] at h
      subst h
      simp [List.all_append, List.all_map, hst, Step.proper, Function.comp_def]
    · simp only [Option.bind_eq_bind, Option.bind_eq_some] at h
      obtain ⟨s1, h1, h2⟩ := h
      have hs1 := foldlM_preserves (fun s => s.steps.all Step.proper = true) _ _
        (fun s a s' hs hq => Slices.ingressPeer_proper u ns tS tC rule.Ports _ s s' a hpre hs hq)
        _ _ h1 hst
      split at h2 <;> simp only [Option.some.injEq] at h2 <;> subst h2
      · simp [List.all_append, hs1, Step.proper]
      · exact hs1

/-- The steps of an egress rule build entries, each of them. -/
theorem Slices.egressRule_proper (u : Util) (ns : String) (tS : List String) (tC : String)
    (st st' : Slices.LoopState) (rule : NetworkPolicyEgressRule)
    (h : Slices.egressRule u ns tS tC st rule = some st')
    (hst : st.steps.all Step.proper = true) : st'.steps.all Step.proper = true := by
  have hpre : decide (rule.Ports.length > 0) = true → rule.Ports.isEmpty = false := by
    intro hp
    cases hports : rule.Ports with
    | nil => rw [hports] at hp; simp at hp
    | cons => rfl
  simp only [Slices.egressRule] at h
  split at h
  · simp only [Option.some.injEq] at h
    subst h
    simp [List.all_append, hst, Step.proper]
  · split at h
    · simp only [Option.some.injEq] at h
      subst h
      simp [List.all_append, List.all_map, hst, Step.proper, Function.comp_def]
    · simp only [Option.bind_eq_bind, Option.bind_eq_some] at h
      obtain ⟨s1, h1, h2⟩ := h
      have hs1 := foldlM_preserves (fun s => s.steps.all Step.proper = true) _ _
        (fun s a s' hs hq => Slices.egressPeer_proper u ns tS tC rule.Ports _ s s' a hpre hs hq)
        _ _ h1 hst
      split at h2 <;> simp only [Option.some.injEq] at h2 <;> subst h2
      · simp [List.all_append, hs1, Step.proper]
      · exact hs1

/-- The entries as built are those of the steps. -/
theorem mem_builtEntries (tS : List String) (steps closing : List Step) (e : IptEntry) :
    e ∈ builtEntries tS steps closing ↔ ∃ st ∈ steps ++ closing, e ∈ st.values tS := by
  simp only [builtEntries, List.mem_append, List.mem_flatMap, List.mem_filter]
  constructor
  · rintro ((⟨st, ⟨h1, -⟩, h2⟩ | ⟨st, ⟨h1, -⟩, h2⟩) | ⟨st, h1, h2⟩)
    · exact ⟨st, Or.inl h1, h2⟩
    · exact ⟨st, Or.inl h1, h2⟩
    · exact ⟨st, Or.inr h1, h2⟩
  · rintro ⟨st, h1 | h1, h2⟩
    · cases hs : st.toSide
      · exact Or.inl (Or.inl ⟨st, ⟨h1, by simp [hs]⟩, h2⟩)
      · exact Or.inl (Or.inr ⟨st, ⟨h1, hs⟩, h2⟩)
    · exact Or.inr ⟨st, h1, h2⟩

/-- Every token a step that builds an entry writes is a token of one of its
entries as built. -/
theorem Step.tokens_of_values (tS : List String) (st : Step) (hp : st.proper = true) :
    ∀ x ∈ st.tokens, ∃ e ∈ st.values tS, x ∈ e.Specs := by
  intro x hx
  cases st with
  | onTarget toSide b =>
    exact ⟨_, List.mem_singleton_self _, List.mem_append_right _ hx⟩
  | onFragment toSide f bs =>
    simp only [Step.tokens, List.mem_append, List.mem_flatMap] at hx
    simp only [Step.values, List.mem_map]
    rcases hx with hx | ⟨b, hb, hx⟩
    · cases bs with
      | nil => simp [Step.proper] at hp
      | cons b bs =>
        exact ⟨_, ⟨b, List.mem_cons_self _ _, rfl⟩, List.mem_append_left _ hx⟩
    · exact ⟨_, ⟨b, hb, rfl⟩, List.mem_append_right _ hx⟩

/-- The tokens of the target fragment are tokens of an entry built on it. -/
theorem Step.target_of_values (tS : List String) (toSide : Bool) (b : Build) :
    ∀ x ∈ tS, ∃ e ∈ (Step.onTarget toSide b).values tS, x ∈ e.Specs :=
  fun _ hx => ⟨_, List.mem_singleton_self _, List.mem_append_left _ hx⟩

/-- The parts of a run of `translateIngress`: the target fragment, the comment,
the state after the loop over the rules.  The steps all build entries; the
entries returned are those the steps leave on the heap; and the entries as they
were built are the result of the section `Direction compilers`, which has the
same sets and lists. -/
theorem Slices.translateIngress_parts (rt : Runtime) (u : Util) (ns : String)
    (t : LabelSelector) (rules : List NetworkPolicyIngressRule) (r : Translation)
    (h : Slices.translateIngress rt u ns t rules = some r) :
    ∃ (tF : Fragment) (tC : String) (st : Slices.LoopState),
      Npm.craftPartialIptEntrySpecFromOpsAndLabels u ns (targetOpsAndLabels u ns t).1
        (targetOpsAndLabels u ns t).2 IptablesDstFlag false = some tF.tokens ∧
      craftPartialIptablesCommentFromSelector u ns (some t) false = some tC ∧
      rules.foldlM (Npm.ingressRule u ns tF.tokens tC)
        (LoopState.init (targetOpsAndLabels u ns t).2) = some (st.built tF.tokens) ∧
      st.steps.all Step.proper = true ∧
      r.entries = returnedEntries rt tF st.steps (Slices.ingressClosing tC st) ∧
      Npm.translateIngress u ns t rules =
        some { sets := r.sets, lists := r.lists,
               entries := builtEntries tF.tokens st.steps (Slices.ingressClosing tC st) } ∧
      rules.foldlM (Slices.ingressRule u ns tF.tokens tC)
        { sets := (targetOpsAndLabels u ns t).2, lists := [], steps := [],
          addedPeerEntry := false, addedPortEntry := false } = some st := by
  have hf := fun tS tC => foldlM_map_comm (Slices.ingressRule u ns tS tC)
    (Npm.ingressRule u ns tS tC)
    (Slices.LoopState.built tS) (fun s x => Slices.ingressRule_built u ns tS tC s x) rules
    { sets := (targetOpsAndLabels u ns t).2, lists := [], steps := [],
      addedPeerEntry := false, addedPortEntry := false }
  simp only [Slices.translateIngress, Option.bind_eq_bind, Option.bind_eq_some,
    Option.some.injEq] at h
  obtain ⟨tF, h1, tC, h2, st, h3, rfl⟩ := h
  have h1' := Slices.opsAndLabels_tokens u ns (targetOpsAndLabels u ns t).1
    (targetOpsAndLabels u ns t).2 IptablesDstFlag false
  rw [h1, Option.map_some'] at h1'
  have h3' := hf tF.tokens tC
  rw [h3, Option.map_some'] at h3'
  have hproper := foldlM_preserves (fun s => s.steps.all Step.proper = true) _ _
    (fun s a s' hs hq => Slices.ingressRule_proper u ns tF.tokens tC s s' a hs hq) _ _ h3 rfl
  refine ⟨tF, tC, st, h1'.symm, h2, h3'.symm, hproper, rfl, ?_, h3⟩
  simp only [Npm.translateIngress, ← h1', h2, Option.bind_eq_bind, Option.some_bind]
  have hinit : LoopState.init (targetOpsAndLabels u ns t).2 =
      Slices.LoopState.built tF.tokens
        { sets := (targetOpsAndLabels u ns t).2, lists := [], steps := [],
          addedPeerEntry := false, addedPortEntry := false } := rfl
  change (List.foldlM (Npm.ingressRule u ns tF.tokens tC)
    (LoopState.init (targetOpsAndLabels u ns t).2) rules).bind _ = _
  rw [hinit, ← h3', Option.some_bind]
  simp only [Npm.ingressFinish, Slices.ingressClosing, Slices.LoopState.built, builtEntries,
    Option.some.injEq, Translation.mk.injEq, true_and]
  split
  · simp only [List.flatMap_cons, List.flatMap_nil, values_onTarget, Build.entry,
      List.flatten_cons, List.flatten_nil, List.append_nil]
  · split
    · simp only [List.flatMap_cons, List.flatMap_nil, values_onTarget, Build.entry,
        List.flatten_cons, List.flatten_nil, List.append_nil, List.singleton_append]
    · simp only [List.flatMap_nil, List.append_nil]

/-- The parts of a run of `translateEgress`: the target fragment, the comment,
the state after the loop over the rules.  The steps all build entries; the
entries returned are those the steps leave on the heap; and the entries as they
were built are the result of the section `Direction compilers`, which has the
same sets and lists. -/
theorem Slices.translateEgress_parts (rt : Runtime) (u : Util) (ns : String)
    (t : LabelSelector) (rules : List NetworkPolicyEgressRule) (r : Translation)
    (h : Slices.translateEgress rt u ns t rules = some r) :
    ∃ (tF : Fragment) (tC : String) (st : Slices.LoopState),
      Npm.craftPartialIptEntrySpecFromOpsAndLabels u ns (targetOpsAndLabels u ns t).1
        (targetOpsAndLabels u ns t).2 IptablesSrcFlag false = some tF.tokens ∧
      craftPartialIptablesCommentFromSelector u ns (some t) false = some tC ∧
      rules.foldlM (Npm.egressRule u ns tF.tokens tC)
        (LoopState.init (targetOpsAndLabels u ns t).2) = some (st.built tF.tokens) ∧
      st.steps.all Step.proper = true ∧
      r.entries = returnedEntries rt tF st.steps (Slices.egressClosing tC st) ∧
      Npm.translateEgress u ns t rules =
        some { sets := r.sets, lists := r.lists,
               entries := builtEntries tF.tokens st.steps (Slices.egressClosing tC st) } ∧
      rules.foldlM (Slices.egressRule u ns tF.tokens tC)
        { sets := (targetOpsAndLabels u ns t).2, lists := [], steps := [],
          addedPeerEntry := false, addedPortEntry := false } = some st := by
  have hf := fun tS tC => foldlM_map_comm (Slices.egressRule u ns tS tC)
    (Npm.egressRule u ns tS tC)
    (Slices.LoopState.built tS) (fun s x => Slices.egressRule_built u ns tS tC s x) rules
    { sets := (targetOpsAndLabels u ns t).2, lists := [], steps := [],
      addedPeerEntry := false, addedPortEntry := false }
  simp only [Slices.translateEgress, Option.bind_eq_bind, Option.bind_eq_some,
    Option.some.injEq] at h
  obtain ⟨tF, h1, tC, h2, st, h3, rfl⟩ := h
  have h1' := Slices.opsAndLabels_tokens u ns (targetOpsAndLabels u ns t).1
    (targetOpsAndLabels u ns t).2 IptablesSrcFlag false
  rw [h1, Option.map_some'] at h1'
  have h3' := hf tF.tokens tC
  rw [h3, Option.map_some'] at h3'
  have hproper := foldlM_preserves (fun s => s.steps.all Step.proper = true) _ _
    (fun s a s' hs hq => Slices.egressRule_proper u ns tF.tokens tC s s' a hs hq) _ _ h3 rfl
  refine ⟨tF, tC, st, h1'.symm, h2, h3'.symm, hproper, rfl, ?_, h3⟩
  simp only [Npm.translateEgress, ← h1', h2, Option.bind_eq_bind, Option.some_bind]
  have hinit : LoopState.init (targetOpsAndLabels u ns t).2 =
      Slices.LoopState.built tF.tokens
        { sets := (targetOpsAndLabels u ns t).2, lists := [], steps := [],
          addedPeerEntry := false, addedPortEntry := false } := rfl
  change (List.foldlM (Npm.egressRule u ns tF.tokens tC)
    (LoopState.init (targetOpsAndLabels u ns t).2) rules).bind _ = _
  rw [hinit, ← h3', Option.some_bind]
  simp only [Npm.egressFinish, Slices.egressClosing, Slices.LoopState.built, builtEntries,
    Option.some.injEq, Translation.mk.injEq, true_and]
  split
  · simp only [List.flatMap_cons, List.flatMap_nil, values_onTarget, Build.entry,
      List.flatten_cons, List.flatten_nil, List.append_nil]
  · split
    · simp only [List.flatMap_cons, List.flatMap_nil, values_onTarget, Build.entry,
        List.flatten_cons, List.flatten_nil, List.append_nil, List.singleton_append]
    · simp only [List.flatMap_nil, List.append_nil]

/-- A hashed name is not the name of a From/To chain: it starts with a small
letter. -/
theorem GetHashedName_ne_chain (u : Util) (name x : String)
    (hx : x = IptablesAzureIngressFromChain ∨ x = IptablesAzureEgressToChain) :
    GetHashedName u name ≠ x := by
  intro h
  have := congrArg String.data h
  rcases hx with rfl | rfl <;>
    simp [GetHashedName, String.data_append, IptablesAzureIngressFromChain,
      IptablesAzureEgressToChain] at this

/-- A selector-match fragment does not hold the name of a From/To chain. -/
theorem craft_no_chain (u : Util) (hops : ParserOps u) (ns : String)
    (sel : Option LabelSelector) (labels : List String) (flag : String) (isNs : Bool)
    (hflag : flag = IptablesDstFlag ∨ flag = IptablesSrcFlag) (x : String)
    (hx : x = IptablesAzureIngressFromChain ∨ x = IptablesAzureEgressToChain)
    (spec : List String)
    (h : craftPartialIptEntrySpecFromOpsAndLabels u ns (parsedOps u sel) labels flag isNs =
      some spec) : x ∉ spec := by
  intro hmem
  rcases craft_tokens u ns _ labels flag isNs spec h _ hmem with h1 | h1 | h1 | h1 | h1 | h1
  · rcases hx with rfl | rfl <;> exact absurd h1 (by decide)
  · rcases hx with rfl | rfl <;> exact absurd h1 (by decide)
  · rcases hx with rfl | rfl <;> exact absurd h1 (by decide)
  · rcases hflag with hf | hf <;> rw [hf] at h1 <;> rcases hx with rfl | rfl <;>
      exact absurd h1 (by decide)
  · rcases hops sel _ h1.1 with h2 | h2 <;> rcases hx with rfl | rfl <;>
      exact absurd h2 (by decide)
  · obtain ⟨name, hname⟩ := h1
    exact GetHashedName_ne_chain u name x hx hname.symm

/-- The properties that keep the name `x` of a chain out of the match tokens
and out of the comment: the match tokens do not hold `x`, and the second letter
of the comment is not `Z` (every comment starts with `ALLOW-` or `DROP-`). -/
theorem noChain_props (x : String) :
    TokenProps (fun m => x ∉ m) (fun _ => True)
      (fun c => ∃ a b rest, c.data = a :: b :: rest ∧ b ≠ 'Z') (fun _ => True) where
  A_append := by
    intro a b ha hb
    simp only [List.mem_append, not_or]
    exact ⟨ha, hb⟩
  K_append := by
    rintro a b ⟨ch, ch', rest, h, hne⟩ -
    exact ⟨ch, ch', rest ++ b.data, by rw [String.data_append, h]; rfl, hne⟩
  B_accept := trivial
  B_drop := trivial
  B_from := trivial
  B_to := trivial
  B_targetSets := trivial
  K_allow := ⟨_, _, _, rfl, by decide⟩
  K_allowAll := ⟨_, _, _, rfl, by decide⟩
  K_allowAllTo := ⟨_, _, _, rfl, by decide⟩
  K_allowAllFrom := ⟨_, _, _, rfl, by decide⟩
  K_drop := ⟨_, _, _, rfl, by decide⟩
  K_dropAllTo := ⟨_, _, _, rfl, by decide⟩
  K_dropAllFrom := ⟨_, _, _, rfl, by decide⟩
  Kp_to := trivial
  Kp_from := trivial
  Kp_and := trivial
  Kp_colon := trivial
  Kp_jump := trivial
  Kp_allNamespaces := trivial
  Kp_ingressFrom := trivial
  Kp_egressTo := trivial
  Kp_targetSets := trivial

/-- A policy none of whose input strings is the name `x` of a From/To chain
contributes no token `x`. -/
theorem noChain_policyOK (u : Util) (hops : ParserOps u) (npObj : NetworkPolicy) (x : String)
    (hx : x = IptablesAzureIngressFromChain ∨ x = IptablesAzureEgressToChain)
    (hin : x ∉ inputStrings npObj) :
    PolicyOK (fun m => x ∉ m) (fun _ => True) u npObj := by
  have hfix : x ≠ IptablesProtFlag ∧ x ≠ IptablesDstPortFlag ∧ x ≠ IptablesSFlag ∧
      x ≠ IptablesDFlag ∧ x ≠ IptablesModuleFlag ∧ x ≠ IptablesSetModuleFlag ∧
      x ≠ IptablesMatchSetFlag ∧ x ≠ IptablesDstFlag ∧ x ≠ IptablesSrcFlag := by
    rcases hx with rfl | rfl <;> decide
  obtain ⟨f1, f2, f3, f4, f5, f6, f7, f8, f9⟩ := hfix
  apply policyOK_of_parts
  · intro port hport
    refine ⟨?_, trivial⟩
    rcases port with ⟨proto, p⟩
    cases proto <;> cases p <;>
      simp only [craftPartialIptEntrySpecFromPort, List.append_nil, List.nil_append,
        List.cons_append, List.mem_cons, List.not_mem_nil, or_false, not_or,
        not_false_eq_true] <;>
      simp only [portStrings, Option.toList, Option.map, List.append_nil, List.nil_append,
        List.cons_append, List.mem_cons, List.not_mem_nil, or_false, forall_eq_or_imp,
        forall_eq, false_implies, implies_true] at hport
    · refine ⟨f2, ?_⟩
      intro h
      exact hin (h ▸ hport)
    · refine ⟨f1, ?_⟩
      intro h
      exact hin (h ▸ hport)
    · refine ⟨f1, ?_, f2, ?_⟩
      · intro h
        exact hin (h ▸ hport.1)
      · intro h
        exact hin (h ▸ hport.2)
  · intro flag s hflag hs
    refine ⟨?_, trivial⟩
    simp only [List.mem_cons, List.mem_singleton, List.not_mem_nil, or_false, not_or]
    refine ⟨?_, fun h => hin (h ▸ hs)⟩
    rcases hflag with hf | hf <;> rw [hf]
    · exact f3
    · exact f4
  · intro sel flag isNs _ hflag
    exact ⟨fun spec h => craft_no_chain u hops _ (some sel) _ flag isNs hflag x hx spec h,
      fun _ _ => trivial⟩
  · intro flag tS hflag h
    rw [targetOps_eq] at h
    exact craft_no_chain u hops _ (some npObj.PodSelector) _ flag false hflag x hx tS h
  · intro flag hflag
    simp only [List.mem_cons, List.mem_singleton, List.not_mem_nil, or_false, not_or]
    refine ⟨f5, f6, f7, (GetHashedName_ne_chain u _ x hx).symm, ?_⟩
    rcases hflag with hf | hf <;> rw [hf]
    · exact f8
    · exact f9

/-- An entry as built that does not jump to the chain `x` does not hold the
token `x`, when its match tokens do not and its comment starts as comments
do. -/
theorem entryOK_no_chain (x : String)
    (hx : x = IptablesAzureIngressFromChain ∨ x = IptablesAzureEgressToChain) (e : IptEntry)
    (hok : EntryOK (fun m => x ∉ m) (fun _ => True)
      (fun c => ∃ a b rest, c.data = a :: b :: rest ∧ b ≠ 'Z') e)
    (hT : e.jumpTarget ≠ some x) : x ∉ e.Specs := by
  obtain ⟨m, T, c, hs, hm, -, a, b, rest, hc, hb⟩ := hok
  rw [jumpTarget_of_specs e m T c hs] at hT
  rw [hs]
  simp only [jumpAndComment, List.mem_append, List.mem_cons, List.not_mem_nil, or_false,
    not_or]
  refine ⟨hm, ?_, fun h => hT (by rw [h]), ?_, ?_, ?_, ?_⟩
  · rcases hx with rfl | rfl <;> decide
  · rcases hx with rfl | rfl <;> decide
  · rcases hx with rfl | rfl <;> decide
  · rcases hx with rfl | rfl <;> decide
  · intro h
    subst h
    rcases hx with hx | hx <;> rw [hx] at hc <;>
      simp only [IptablesAzureIngressFromChain, IptablesAzureEgressToChain,
        List.cons.injEq] at hc <;> exact hb hc.2.1.symm

/-! ## C3 on the returned entries -/

/-- C3, as amended. Whenever `translatePolicy` returns and no entry of a
translated direction stays on a backing array it shares with another entry
(`Slices.policyUnshared`), for each translated direction and every ipBlock peer
of one of its rules, the DROP entries of the peer's except CIDRs, in the order
of the except list, are immediately followed in the returned entries by the
ACCEPT entries emitted for that same peer (one per port of the rule, or one on
the From/To chain when the rule has no ports, none when the cidr is empty). -/
theorem returned_except_drops_before_own_accepts (rt : Runtime) (u : Util) (npObj : NetworkPolicy)
    (r : Translation) (hu : Slices.policyUnshared rt u npObj)
    (h : Slices.translatePolicy rt u npObj = some r) :
    (PolicyTypeIngress ∈ translatedDirections npObj →
      ∀ (pre post : List NetworkPolicyIngressRule) (rule : NetworkPolicyIngressRule)
        (ps1 ps2 : List NetworkPolicyPeer) (peer : NetworkPolicyPeer) (block : IPBlock),
        npObj.Ingress = pre ++ rule :: post → rule.From = some (ps1 ++ peer :: ps2) →
        peer.IPBlock = some block →
        ∃ tS tC,
          craftPartialIptEntrySpecFromOpsAndLabels u npObj.Namespace
            (targetOpsAndLabels u npObj.Namespace npObj.PodSelector).1
            (targetOpsAndLabels u npObj.Namespace npObj.PodSelector).2 IptablesDstFlag false
            = some tS ∧
          craftPartialIptablesCommentFromSelector u npObj.Namespace (some npObj.PodSelector)
            false = some tC ∧
          (block.Except.map (fun except =>
              ({ Chain := IptablesAzureIngressFromChain,
                 Specs := [IptablesSFlag, except] ++ tS ++
                   jumpAndComment IptablesDrop ("DROP-" ++ except ++ "-TO-" ++ tC) }
                : IptEntry)) ++
            (if block.CIDR ≠ "" then
              if rule.Ports.length > 0 then
                rule.Ports.map (fun portRule =>
                  { Chain := IptablesAzureIngressPortChain,
                    Specs := tS ++ [IptablesSFlag, block.CIDR] ++
                      craftPartialIptEntrySpecFromPort portRule IptablesDstPortFlag ++
                      jumpAndComment IptablesAccept
                        ("ALLOW-" ++ block.CIDR ++ "-:-" ++
                          craftPartialIptablesCommentFromPort portRule IptablesDstPortFlag ++
                          "-TO-" ++ tC) })
              else
                [{ Chain := IptablesAzureIngressFromChain,
                   Specs := tS ++ [IptablesSFlag, block.CIDR] ++
                     jumpAndComment IptablesAccept
                       ("ALLOW-" ++ block.CIDR ++ "-TO-" ++ tC) }]
            else [])) <:+: r.entries) ∧
    (PolicyTypeEgress ∈ translatedDirections npObj →
      ∀ (pre post : List NetworkPolicyEgressRule) (rule : NetworkPolicyEgressRule)
        (ps1 ps2 : List NetworkPolicyPeer) (peer : NetworkPolicyPeer) (block : IPBlock),
        npObj.Egress = pre ++ rule :: post → rule.To = some (ps1 ++ peer :: ps2) →
        peer.IPBlock = some block →
        ∃ tS tC,
          craftPartialIptEntrySpecFromOpsAndLabels u npObj.Namespace
            (targetOpsAndLabels u npObj.Namespace npObj.PodSelector).1
            (targetOpsAndLabels u npObj.Namespace npObj.PodSelector).2 IptablesSrcFlag false
            = some tS ∧
          craftPartialIptablesCommentFromSelector u npObj.Namespace (some npObj.PodSelector)
            false = some tC ∧
          (block.Except.map (fun except =>
              ({ Chain := IptablesAzureEgressToChain,
                 Specs := tS ++ [IptablesDFlag, except] ++
                   jumpAndComment IptablesDrop ("DROP-" ++ except ++ "-FROM-" ++ tC) }
                : IptEntry)) ++
            (if block.CIDR ≠ "" then
              if rule.Ports.length > 0 then
                rule.Ports.map (fun portRule =>
                  { Chain := IptablesAzureEgressPortChain,
                    Specs := craftPartialIptEntrySpecFromPort portRule IptablesDstPortFlag ++
                      tS ++ [IptablesDFlag, block.CIDR] ++
                      jumpAndComment IptablesAccept
                        ("ALLOW-" ++ block.CIDR ++ "-:-" ++
                          craftPartialIptablesCommentFromPort portRule IptablesDstPortFlag ++
                          "-FROM-" ++ tC) })
              else
                [{ Chain := IptablesAzureEgressToChain,
                   Specs := [IptablesDFlag, block.CIDR] ++ tS ++
                     jumpAndComment IptablesAccept
                       ("ALLOW-" ++ block.CIDR ++ "-FROM-" ++ tC) }]
            else [])) <:+: r.entries) :=
  ipBlock_except_drops_before_own_accepts u npObj r
    (by rw [← Slices.translatePolicy_unshared rt u npObj hu]; exact h)

/-- C3 as amended, at `twoBlocksPolicy`: no entry stays on a shared array (the
fragment of the target `app=web` has no room), and the DROP entry of
`10.1.0.0/16` is immediately followed by the ACCEPT entry of its own peer. -/
theorem returned_except_drops_before_own_accepts_witness :
    ∃ r, Slices.translatePolicy gcRuntime exampleUtil twoBlocksPolicy = some r ∧
      ∃ tS tC,
        craftPartialIptEntrySpecFromOpsAndLabels exampleUtil "default"
          (targetOpsAndLabels exampleUtil "default" (selectorOf "app" "web")).1
          (targetOpsAndLabels exampleUtil "default" (selectorOf "app" "web")).2
          IptablesDstFlag false = some tS ∧
        craftPartialIptablesCommentFromSelector exampleUtil "default"
          (some (selectorOf "app" "web")) false = some tC ∧
        [({ Chain := IptablesAzureIngressFromChain,
            Specs := [IptablesSFlag, "10.1.0.0/16"] ++ tS ++
              jumpAndComment IptablesDrop ("DROP-" ++ "10.1.0.0/16" ++ "-TO-" ++ tC) }
            : IptEntry),
         { Chain := IptablesAzureIngressFromChain,
           Specs := tS ++ [IptablesSFlag, "10.0.0.0/8"] ++
             jumpAndComment IptablesAccept ("ALLOW-" ++ "10.0.0.0/8" ++ "-TO-" ++ tC) }]
          <:+: r.entries :=
  ⟨_, Slices.translatePolicy_unshared gcRuntime exampleUtil twoBlocksPolicy
      ⟨fun _ => by decide, fun _ => by decide⟩,
    (returned_except_drops_before_own_accepts gcRuntime exampleUtil twoBlocksPolicy _
      ⟨fun _ => by decide, fun _ => by decide⟩
      (Slices.translatePolicy_unshared gcRuntime exampleUtil twoBlocksPolicy
        ⟨fun _ => by decide, fun _ => by decide⟩)).1
      (by decide) [] [] _ [ipBlockPeer "10.0.0.0/8" []] []
      (ipBlockPeer "10.0.0.0/8" ["10.1.0.0/16"]) _ rfl rfl rfl⟩

/-- Counterexample to C3 as stated: in the entries returned for `twoBlocksPolicy`
the DROP entry of the except CIDR `10.1.0.0/16` (the second entry) comes after
an ACCEPT entry that matches the parent cidr `10.0.0.0/8` (the first entry,
which the other peer of the same rule emitted). -/
theorem returned_except_drop_after_accept_of_same_cidr :
    ∃ r, Slices.translatePolicy gcRuntime exampleUtil twoBlocksPolicy = some r ∧
      ¬ ExceptDropsBeforeAccepts IptablesSFlag
        { CIDR := "10.0.0.0/8", Except := ["10.1.0.0/16"] } r.entries := by
  rw [Slices.translatePolicy_unshared gcRuntime exampleUtil twoBlocksPolicy
    ⟨fun _ => by decide, fun _ => by decide⟩]
  exact except_drop_after_accept_of_same_cidr

/-! ## C14 on the returned entries -/

/-- C14, as amended. For a policy that translates ingress exactly once
(`PolicyTypes` is empty or lists `Ingress` once), in which no entry of a
translated direction stays on a backing array it shares with another entry
(`Slices.policyUnshared`), whose target has a label, and whose ingress rule list
is a single rule without ports whose only peer has a namespace selector only,
the parser giving that selector labels other than the single empty label: the
returned entries on the ingress chains are exactly the ACCEPT entry on
Ingress-From whose match is the namespace fragment (flag `src`) followed by the
target fragment (flag `dst`), then the jump from Ingress-Port to Ingress-From,
then the jump from Ingress-From to TargetSets; the entry `DROP-ALL-TO-<target>`
comes after every entry that is not on TargetSets; the sets hold the target's
labels and the lists hold `"ns-" ++ label` for every label of the namespace
selector. -/
theorem returned_namespace_peer_rule_entries (rt : Runtime) (u : Util) (npObj : NetworkPolicy)
    (rule : NetworkPolicyIngressRule) (peer : NetworkPolicyPeer) (nsSel : LabelSelector)
    (r : Translation)
    (hrules : npObj.Ingress = [rule]) (hports : rule.Ports = [])
    (hfrom : rule.From = some [peer])
    (hip : peer.IPBlock = none) (hpod : peer.PodSelector = none)
    (hnsSel : peer.NamespaceSelector = some nsSel)
    (hns : parsedLabels u (some nsSel) ≠ [""])
    (htarget : ∃ l ∈ (targetOpsAndLabels u npObj.Namespace npObj.PodSelector).2, l ≠ "")
    (hcount : (translatedDirections npObj).count PolicyTypeIngress = 1)
    (hu : Slices.policyUnshared rt u npObj)
    (h : Slices.translatePolicy rt u npObj = some r) :
    ∃ (tS : List String) (tC : String) (nsSpec : List String) (nsC : String),
      craftPartialIptEntrySpecFromOpsAndLabels u npObj.Namespace
        (targetOpsAndLabels u npObj.Namespace npObj.PodSelector).1
        (targetOpsAndLabels u npObj.Namespace npObj.PodSelector).2 IptablesDstFlag false
        = some tS ∧
      craftPartialIptablesCommentFromSelector u npObj.Namespace (some npObj.PodSelector) false
        = some tC ∧
      craftPartialIptEntrySpecFromSelector u npObj.Namespace (some nsSel) IptablesSrcFlag true
        = some nsSpec ∧
      craftPartialIptablesCommentFromSelector u npObj.Namespace (some nsSel) true = some nsC ∧
      r.entries.filter onIngressChain =
        [{ Chain := IptablesAzureIngressFromChain,
           Specs := nsSpec ++ tS ++
             jumpAndComment IptablesAccept ("ALLOW-" ++ nsC ++ "-TO-" ++ tC) },
         { Chain := IptablesAzureIngressPortChain,
           Specs := tS ++
             jumpAndComment IptablesAzureIngressFromChain
               ("ALLOW-ALL-TO-" ++ tC ++ "-TO-JUMP-TO-" ++ IptablesAzureIngressFromChain) },
         { Chain := IptablesAzureIngressFromChain,
           Specs := tS ++
             jumpAndComment IptablesAzureTargetSetsChain
               ("ALLOW-ALL-TO-" ++ tC ++ "-TO-JUMP-TO-" ++ IptablesAzureTargetSetsChain) }] ∧
      (∃ pre post, r.entries = pre ++ dropAllToEntry tS tC :: post ∧
        (∀ e ∈ pre, e.Chain ≠ IptablesAzureTargetSetsChain) ∧
        (∀ e ∈ post, e.Chain = IptablesAzureTargetSetsChain)) ∧
      (∀ l ∈ (targetOpsAndLabels u npObj.Namespace npObj.PodSelector).2, l ≠ "" → l ∈ r.sets) ∧
      (∀ l ∈ parsedLabels u (some nsSel), "ns-" ++ l ∈ r.lists) :=
  namespace_peer_rule_entries u npObj rule peer nsSel r hrules hports hfrom hip hpod hnsSel hns htarget hcount
    (by rw [← Slices.translatePolicy_unshared rt u npObj hu]; exact h)

/-- C14 as amended, at the target `app=web` and the namespace selector `env=prod`,
without policy types. -/
theorem returned_namespace_peer_rule_entries_witness :
    ∃ r, Slices.translatePolicy gcRuntime exampleUtil (namespacePeerPolicy []) = some r ∧
      r.entries.filter onIngressChain =
        [{ Chain := "AZURE-NPM-INGRESS-FROM",
           Specs := ["-m", "set", "--match-set", "azure-npm-ns-env:prod", "src",
                     "-m", "set", "--match-set", "azure-npm-app:web", "dst",
                     "-j", "ACCEPT", "-m", "comment", "--comment",
                     "ALLOW-ns-env:prod-TO-app:web"] },
         { Chain := "AZURE-NPM-INGRESS-PORT",
           Specs := ["-m", "set", "--match-set", "azure-npm-app:web", "dst",
                     "-j", "AZURE-NPM-INGRESS-FROM", "-m", "comment", "--comment",
                     "ALLOW-ALL-TO-app:web-TO-JUMP-TO-AZURE-NPM-INGRESS-FROM"] },
         { Chain := "AZURE-NPM-INGRESS-FROM",
           Specs := ["-m", "set", "--match-set", "azure-npm-app:web", "dst",
                     "-j", "AZURE-NPM-TARGET-SETS", "-m", "comment", "--comment",
                     "ALLOW-ALL-TO-app:web-TO-JUMP-TO-AZURE-NPM-TARGET-SETS"] }] ∧
      "app:web" ∈ r.sets ∧ "ns-env:prod" ∈ r.lists := by
  have hu : Slices.policyUnshared gcRuntime exampleUtil (namespacePeerPolicy []) :=
    ⟨fun _ => by decide, fun _ => by decide⟩
  have hr := Slices.translatePolicy_unshared gcRuntime exampleUtil (namespacePeerPolicy []) hu
  obtain ⟨tS, tC, nsSpec, nsC, h1, h2, h3, h4, h5, -, h7, h8⟩ :=
    returned_namespace_peer_rule_entries gcRuntime exampleUtil (namespacePeerPolicy []) _
      namespacePeer (selectorOf "env" "prod") _ rfl rfl rfl rfl rfl rfl (by decide)
      ⟨"app:web", by decide, by decide⟩ (by decide) hu hr
  cases h1
  cases h2
  cases h3
  cases h4
  exact ⟨_, hr, h5, h7 "app:web" (by decide) (by decide), h8 "env:prod" (by decide)⟩

/-- C14 as stated fails for a policy whose ingress direction is not
translated: with `PolicyTypes = [Egress]` the policy of the witness (target
`app=web`, one ingress rule admitting the namespaces `env=prod`) returns no
entry on an ingress chain, no `DROP-ALL-TO` entry and no list. -/
theorem returned_namespace_peer_not_translated :
    ∃ r, Slices.translatePolicy gcRuntime exampleUtil (namespacePeerPolicy [PolicyTypeEgress]) = some r ∧
      r.entries.filter onIngressChain = [] ∧ "ns-env:prod" ∉ r.lists ∧
      r.entries =
        [{ Chain := "AZURE-NPM-TARGET-SETS",
           Specs := ["-m", "set", "--match-set", "azure-npm-app:web", "src",
                     "-j", "DROP", "-m", "comment", "--comment", "DROP-ALL-FROM-app:web"] }] := by
  rw [Slices.translatePolicy_unshared gcRuntime exampleUtil
    (namespacePeerPolicy [PolicyTypeEgress]) ⟨fun _ => by decide, fun _ => by decide⟩]
  exact namespace_peer_not_translated

/-! ## C15 on the returned entries -/

/-- C15, as amended. For a policy that translates ingress exactly once
(`PolicyTypes` is empty or lists `Ingress` once), in which no entry of a
translated direction stays on a backing array it shares with another entry
(`Slices.policyUnshared`), and whose ingress rule list is a single rule without
ports whose only peer is an ipBlock with the non-empty cidr `c` and the except
list `e1..ek`: the returned entries on the Ingress-From chain are, in order, the
DROP entries `-s ei` followed by the target fragment, one for every `ei` in the
order of the list, then the ACCEPT entry that matches the target and `-s c`,
then the jump from Ingress-From to TargetSets. -/
theorem returned_ipBlock_rule_from_chain (rt : Runtime) (u : Util) (npObj : NetworkPolicy)
    (rule : NetworkPolicyIngressRule) (peer : NetworkPolicyPeer) (block : IPBlock)
    (r : Translation)
    (hrules : npObj.Ingress = [rule]) (hports : rule.Ports = [])
    (hfrom : rule.From = some [peer])
    (hb : peer.IPBlock = some block) (hc : block.CIDR ≠ "")
    (hcount : (translatedDirections npObj).count PolicyTypeIngress = 1)
    (hu : Slices.policyUnshared rt u npObj)
    (h : Slices.translatePolicy rt u npObj = some r) :
    ∃ (tS : List String) (tC : String),
      craftPartialIptEntrySpecFromOpsAndLabels u npObj.Namespace
        (targetOpsAndLabels u npObj.Namespace npObj.PodSelector).1
        (targetOpsAndLabels u npObj.Namespace npObj.PodSelector).2 IptablesDstFlag false
        = some tS ∧
      craftPartialIptablesCommentFromSelector u npObj.Namespace (some npObj.PodSelector) false
        = some tC ∧
      r.entries.filter (onChain IptablesAzureIngressFromChain) =
        block.Except.map (fun except =>
          { Chain := IptablesAzureIngressFromChain,
            Specs := [IptablesSFlag, except] ++ tS ++
              jumpAndComment IptablesDrop ("DROP-" ++ except ++ "-TO-" ++ tC) }) ++
        [{ Chain := IptablesAzureIngressFromChain,
           Specs := tS ++ [IptablesSFlag, block.CIDR] ++
             jumpAndComment IptablesAccept ("ALLOW-" ++ block.CIDR ++ "-TO-" ++ tC) },
         { Chain := IptablesAzureIngressFromChain,
           Specs := tS ++
             jumpAndComment IptablesAzureTargetSetsChain
               ("ALLOW-ALL-TO-" ++ tC ++ "-TO-JUMP-TO-" ++ IptablesAzureTargetSetsChain) }] :=
  ipBlock_rule_from_chain u npObj rule peer block r hrules hports hfrom hb hc hcount
    (by rw [← Slices.translatePolicy_unshared rt u npObj hu]; exact h)

/-- C15 as amended, at the cidr `10.0.0.0/8` with the except `10.1.0.0/16`, for
the pods `app=web` and without policy types. -/
theorem returned_ipBlock_rule_from_chain_witness :
    ∃ r, Slices.translatePolicy gcRuntime exampleUtil (exceptPolicy []) = some r ∧
      r.entries.filter (onChain IptablesAzureIngressFromChain) =
        [{ Chain := "AZURE-NPM-INGRESS-FROM",
           Specs := ["-s", "10.1.0.0/16",
                     "-m", "set", "--match-set", "azure-npm-app:web", "dst",
                     "-j", "DROP", "-m", "comment", "--comment",
                     "DROP-10.1.0.0/16-TO-app:web"] },
         { Chain := "AZURE-NPM-INGRESS-FROM",
           Specs := ["-m", "set", "--match-set", "azure-npm-app:web", "dst",
                     "-s", "10.0.0.0/8",
                     "-j", "ACCEPT", "-m", "comment", "--comment",
                     "ALLOW-10.0.0.0/8-TO-app:web"] },
         { Chain := "AZURE-NPM-INGRESS-FROM",
           Specs := ["-m", "set", "--match-set", "azure-npm-app:web", "dst",
                     "-j", "AZURE-NPM-TARGET-SETS", "-m", "comment", "--comment",
                     "ALLOW-ALL-TO-app:web-TO-JUMP-TO-AZURE-NPM-TARGET-SETS"] }] := by
  have hu : Slices.policyUnshared gcRuntime exampleUtil (exceptPolicy []) :=
    ⟨fun _ => by decide, fun _ => by decide⟩
  have hr := Slices.translatePolicy_unshared gcRuntime exampleUtil (exceptPolicy []) hu
  obtain ⟨tS, tC, h1, h2, h3⟩ :=
    returned_ipBlock_rule_from_chain gcRuntime exampleUtil (exceptPolicy []) _
      (ipBlockPeer "10.0.0.0/8" ["10.1.0.0/16"]) _ _ rfl rfl rfl rfl (by decide) (by decide)
      hu hr
  cases h1
  cases h2
  exact ⟨_, hr, h3⟩

/-- C15 as stated fails for a policy whose ingress direction is not
translated: with `PolicyTypes = [Egress]` the policy of the witness returns no
entry on the Ingress-From chain. -/
theorem returned_ipBlock_rule_not_translated :
    ∃ r, Slices.translatePolicy gcRuntime exampleUtil (exceptPolicy [PolicyTypeEgress]) = some r ∧
      r.entries.filter (onChain IptablesAzureIngressFromChain) = [] := by
  rw [Slices.translatePolicy_unshared gcRuntime exampleUtil
    (exceptPolicy [PolicyTypeEgress]) ⟨fun _ => by decide, fun _ => by decide⟩]
  exact ipBlock_rule_not_translated

/-! ## C17 on the returned entries -/

/-- C17, as amended. For a policy that translates egress exactly once
(`PolicyTypes` is empty or lists `Egress` once), in which no entry of a
translated direction stays on a backing array it shares with another entry
(`Slices.policyUnshared`), and whose egress rule list is a single rule without
ports and with the explicit empty list `to`: the returned entries on the egress
chains are exactly the ACCEPT entry on Egress-Port whose only match is the
target fragment (flag `src`), with the comment `ALLOW-ALL-FROM-<target>`,
followed by the jump from Egress-Port to TargetSets; and the entry
`DROP-ALL-FROM-<target>` is returned exactly when `PolicyTypes` is empty and the
target has a label.  With `PolicyTypes` listing `Egress` the rule list is the
degenerate form of source lines 1244-1248 and no `DROP-ALL-FROM` entry is
returned. -/
theorem returned_allow_external_egress_entries (rt : Runtime) (u : Util) (npObj : NetworkPolicy)
    (rule : NetworkPolicyEgressRule) (r : Translation)
    (hrules : npObj.Egress = [rule]) (hports : rule.Ports = []) (hto : rule.To = some [])
    (hcount : (translatedDirections npObj).count PolicyTypeEgress = 1)
    (hu : Slices.policyUnshared rt u npObj)
    (h : Slices.translatePolicy rt u npObj = some r) :
    ∃ (tS : List String) (tC : String),
      craftPartialIptEntrySpecFromOpsAndLabels u npObj.Namespace
        (targetOpsAndLabels u npObj.Namespace npObj.PodSelector).1
        (targetOpsAndLabels u npObj.Namespace npObj.PodSelector).2 IptablesSrcFlag false
        = some tS ∧
      craftPartialIptablesCommentFromSelector u npObj.Namespace (some npObj.PodSelector) false
        = some tC ∧
      r.entries.filter onEgressChain =
        [{ Chain := IptablesAzureEgressPortChain,
           Specs := tS ++ jumpAndComment IptablesAccept ("ALLOW-ALL-FROM-" ++ tC) },
         { Chain := IptablesAzureEgressPortChain,
           Specs := tS ++
             jumpAndComment IptablesAzureTargetSetsChain
               ("ALLOW-ALL-FROM-" ++ tC ++ "-TO-JUMP-TO-" ++ IptablesAzureTargetSetsChain) }] ∧
      (dropAllFromEntry tS tC ∈ r.entries ↔
        npObj.PolicyTypes = [] ∧
          ∃ l ∈ (targetOpsAndLabels u npObj.Namespace npObj.PodSelector).2, l ≠ "") :=
  allow_external_egress_entries u npObj rule r hrules hports hto hcount
    (by rw [← Slices.translatePolicy_unshared rt u npObj hu]; exact h)

/-- C17 as amended, at the pods `app=web`, without policy types. -/
theorem returned_allow_external_egress_entries_witness :
    ∃ r, Slices.translatePolicy gcRuntime exampleUtil (allowExternalPolicy []) = some r ∧
      r.entries.filter onEgressChain =
        [{ Chain := "AZURE-NPM-EGRESS-PORT",
           Specs := ["-m", "set", "--match-set", "azure-npm-app:web", "src",
                     "-j", "ACCEPT", "-m", "comment", "--comment", "ALLOW-ALL-FROM-app:web"] },
         { Chain := "AZURE-NPM-EGRESS-PORT",
           Specs := ["-m", "set", "--match-set", "azure-npm-app:web", "src",
                     "-j", "AZURE-NPM-TARGET-SETS", "-m", "comment", "--comment",
                     "ALLOW-ALL-FROM-app:web-TO-JUMP-TO-AZURE-NPM-TARGET-SETS"] }] ∧
      ({ Chain := "AZURE-NPM-TARGET-SETS",
         Specs := ["-m", "set", "--match-set", "azure-npm-app:web", "src",
                   "-j", "DROP", "-m", "comment", "--comment", "DROP-ALL-FROM-app:web"] }
        : IptEntry) ∈ r.entries := by
  have hu : Slices.policyUnshared gcRuntime exampleUtil (allowExternalPolicy []) :=
    ⟨fun _ => by decide, fun _ => by decide⟩
  have hr := Slices.translatePolicy_unshared gcRuntime exampleUtil (allowExternalPolicy []) hu
  obtain ⟨tS, tC, h1, h2, h3, h4⟩ :=
    returned_allow_external_egress_entries gcRuntime exampleUtil (allowExternalPolicy []) _ _
      rfl rfl rfl (by decide) hu hr
  cases h1
  cases h2
  exact ⟨_, hr, h3, h4.2 ⟨rfl, "app:web", by decide, by decide⟩⟩

/-- C17 as stated fails when the egress direction is enabled by
`PolicyTypes = [Egress]`: the single rule without ports and with `to: []` is
the degenerate form, `hasEgress` is false, and the two entries on Egress-Port
are all that is returned; there is no `DROP-ALL-FROM-<target>` entry. -/
theorem returned_allow_external_without_default_drop :
    Slices.translatePolicy gcRuntime exampleUtil (allowExternalPolicy [PolicyTypeEgress]) =
      some { sets := ["app:web"], lists := [],
             entries :=
               [{ Chain := "AZURE-NPM-EGRESS-PORT",
                  Specs := ["-m", "set", "--match-set", "azure-npm-app:web", "src",
                            "-j", "ACCEPT", "-m", "comment", "--comment",
                            "ALLOW-ALL-FROM-app:web"] },
                { Chain := "AZURE-NPM-EGRESS-PORT",
                  Specs := ["-m", "set", "--match-set", "azure-npm-app:web", "src",
                            "-j", "AZURE-NPM-TARGET-SETS", "-m", "comment", "--comment",
                            "ALLOW-ALL-FROM-app:web-TO-JUMP-TO-AZURE-NPM-TARGET-SETS"] }] } := by
  rw [Slices.translatePolicy_unshared gcRuntime exampleUtil
    (allowExternalPolicy [PolicyTypeEgress]) ⟨fun _ => by decide, fun _ => by decide⟩]
  exact allow_external_without_default_drop

/-! ## C8 on the returned entries -/

/-- Counterexample to C8 as stated: the policy `emptyCidrPolicy` contains an
ipBlock peer whose cidr is the empty string, and `translatePolicy` returns a
translation with entries for it. -/
theorem returned_empty_cidr_is_translated :
    ∃ r, Slices.translatePolicy gcRuntime exampleUtil emptyCidrPolicy = some r ∧
      r.entries ≠ [] := by
  rw [Slices.translatePolicy_unshared gcRuntime exampleUtil emptyCidrPolicy
    ⟨fun _ => by decide, fun _ => by decide⟩]
  exact empty_cidr_is_translated

/-- C8, as amended. An ipBlock peer whose cidr is the empty string raises no
error and does not abort the translation: in both directions the step for the
peer returns and adds nothing but the steps that build the DROP entries of its
except CIDRs for the side buffer of the From/To chain (no ACCEPT entry), and
whenever `translatePolicy` returns for a policy that has such a peer in a
translated direction and in which no entry of a translated direction stays on
a backing array it shares with another entry (`Slices.policyUnshared`), these
DROP entries are among the returned entries. -/
theorem returned_empty_cidr_adds_only_except_drops (rt : Runtime) (u : Util) (ns : String)
    (tS : List String) (tC : String) (ports : List NetworkPolicyPort) (pre : Bool)
    (st : Slices.LoopState) (peer : NetworkPolicyPeer) (excepts : List String)
    (hb : peer.IPBlock = some { CIDR := "", Except := excepts }) :
    Slices.ingressPeer u ns tS tC ports pre st peer =
      some { st with
        steps := st.steps ++ excepts.map (fun except =>
          Step.onFragment true Fragment.nil
            [{ Chain := IptablesAzureIngressFromChain,
               appends := [[IptablesSFlag, except], tS,
                 jumpAndComment IptablesDrop ("DROP-" ++ except ++ "-TO-" ++ tC)] }]),
        addedPeerEntry := st.addedPeerEntry || decide (excepts.length > 0) } ∧
    Slices.egressPeer u ns tS tC ports pre st peer =
      some { st with
        steps := st.steps ++ excepts.map (fun except =>
          Step.onTarget true
            { Chain := IptablesAzureEgressToChain,
              appends := [[IptablesDFlag, except],
                jumpAndComment IptablesDrop ("DROP-" ++ except ++ "-FROM-" ++ tC)] }),
        addedPeerEntry := st.addedPeerEntry || decide (excepts.length > 0) } ∧
    (∀ (npObj : NetworkPolicy) (r : Translation) (before after : List NetworkPolicyIngressRule)
      (rule : NetworkPolicyIngressRule) (ps1 ps2 : List NetworkPolicyPeer),
      Slices.policyUnshared rt u npObj → Slices.translatePolicy rt u npObj = some r →
      PolicyTypeIngress ∈ translatedDirections npObj →
      npObj.Ingress = before ++ rule :: after → rule.From = some (ps1 ++ peer :: ps2) →
      ∃ tS' tC',
        craftPartialIptEntrySpecFromOpsAndLabels u npObj.Namespace
          (targetOpsAndLabels u npObj.Namespace npObj.PodSelector).1
          (targetOpsAndLabels u npObj.Namespace npObj.PodSelector).2 IptablesDstFlag false
          = some tS' ∧
        craftPartialIptablesCommentFromSelector u npObj.Namespace (some npObj.PodSelector)
          false = some tC' ∧
        excepts.map (fun except =>
          ({ Chain := IptablesAzureIngressFromChain,
             Specs := [IptablesSFlag, except] ++ tS' ++
               jumpAndComment IptablesDrop ("DROP-" ++ except ++ "-TO-" ++ tC') }
            : IptEntry)) <:+: r.entries) ∧
    (∀ (npObj : NetworkPolicy) (r : Translation) (before after : List NetworkPolicyEgressRule)
      (rule : NetworkPolicyEgressRule) (ps1 ps2 : List NetworkPolicyPeer),
      Slices.policyUnshared rt u npObj → Slices.translatePolicy rt u npObj = some r →
      PolicyTypeEgress ∈ translatedDirections npObj →
      npObj.Egress = before ++ rule :: after → rule.To = some (ps1 ++ peer :: ps2) →
      ∃ tS' tC',
        craftPartialIptEntrySpecFromOpsAndLabels u npObj.Namespace
          (targetOpsAndLabels u npObj.Namespace npObj.PodSelector).1
          (targetOpsAndLabels u npObj.Namespace npObj.PodSelector).2 IptablesSrcFlag false
          = some tS' ∧
        craftPartialIptablesCommentFromSelector u npObj.Namespace (some npObj.PodSelector)
          false = some tC' ∧
        excepts.map (fun except =>
          ({ Chain := IptablesAzureEgressToChain,
             Specs := tS' ++ [IptablesDFlag, except] ++
               jumpAndComment IptablesDrop ("DROP-" ++ except ++ "-FROM-" ++ tC') }
            : IptEntry)) <:+: r.entries) := by
  have hold := empty_cidr_adds_only_except_drops u ns tS tC ports pre LoopState.empty peer
    excepts hb
  refine ⟨?_, ?_, ?_, ?_⟩
  · obtain ⟨pod, nsSel, ip⟩ := peer
    simp only at hb
    subst hb
    cases excepts with
    | nil => simp [Slices.ingressPeer]
    | cons x xs => simp [Slices.ingressPeer]
  · obtain ⟨pod, nsSel, ip⟩ := peer
    simp only at hb
    subst hb
    cases excepts with
    | nil => simp [Slices.egressPeer]
    | cons x xs => simp [Slices.egressPeer]
  · intro npObj r before after rule ps1 ps2 hu h
    exact hold.2.2.1 npObj r before after rule ps1 ps2
      (by rw [← Slices.translatePolicy_unshared rt u npObj hu]; exact h)
  · intro npObj r before after rule ps1 ps2 hu h
    exact hold.2.2.2 npObj r before after rule ps1 ps2
      (by rw [← Slices.translatePolicy_unshared rt u npObj hu]; exact h)

/-- C8 as amended, at the peer of `emptyCidrPolicy`: the DROP entry of its
except CIDR is returned, and no error. -/
theorem returned_empty_cidr_adds_only_except_drops_witness :
    (ipBlockPeer "" ["10.1.0.0/16"]).IPBlock =
      some { CIDR := "", Except := ["10.1.0.0/16"] } ∧
    ∃ r, Slices.translatePolicy gcRuntime exampleUtil emptyCidrPolicy = some r ∧
      ∃ tS tC,
        craftPartialIptEntrySpecFromOpsAndLabels exampleUtil emptyCidrPolicy.Namespace
          (targetOpsAndLabels exampleUtil emptyCidrPolicy.Namespace
            emptyCidrPolicy.PodSelector).1
          (targetOpsAndLabels exampleUtil emptyCidrPolicy.Namespace
            emptyCidrPolicy.PodSelector).2 IptablesDstFlag false = some tS ∧
        craftPartialIptablesCommentFromSelector exampleUtil emptyCidrPolicy.Namespace
          (some emptyCidrPolicy.PodSelector) false = some tC ∧
        ["10.1.0.0/16"].map (fun except =>
          ({ Chain := IptablesAzureIngressFromChain,
             Specs := [IptablesSFlag, except] ++ tS ++
               jumpAndComment IptablesDrop ("DROP-" ++ except ++ "-TO-" ++ tC) }
            : IptEntry)) <:+: r.entries :=
  ⟨rfl, _,
    Slices.translatePolicy_unshared gcRuntime exampleUtil emptyCidrPolicy
      ⟨fun _ => by decide, fun _ => by decide⟩,
    (returned_empty_cidr_adds_only_except_drops gcRuntime exampleUtil "default" [] "" [] false
      { sets := [], lists := [], steps := [], addedPeerEntry := false,
        addedPortEntry := false }
      (ipBlockPeer "" ["10.1.0.0/16"]) ["10.1.0.0/16"] rfl).2.2.1
      emptyCidrPolicy _ [] [] _ [] [] ⟨fun _ => by decide, fun _ => by decide⟩
      (Slices.translatePolicy_unshared gcRuntime exampleUtil emptyCidrPolicy
        ⟨fun _ => by decide, fun _ => by decide⟩) (by decide) rfl rfl⟩

/-! ## C27 on the returned entries -/

/-- C27, as amended. For every namespace, target selector and list of ingress
rules on which `translateIngress` returns and for which in neither direction an
entry stays on a backing array it shares with another entry
(`Slices.ingressUnshared`, and `Slices.egressUnshared` on the mirrored rules),
`translateEgress` returns on the mirrored rules (same ports, `from` renamed to
`to`), with the same sets and the same lists.  Its entries are entries that
sit, position by position, on the corresponding chain (Ingress-Port ↦
Egress-Port, Ingress-From ↦ Egress-To) and jump to the
corresponding target (`ACCEPT`, `DROP` and the TargetSets chain unchanged,
Ingress-From ↦ Egress-To), followed by one more entry, the jump from the
Egress-Port chain to the TargetSets chain on the target fragment, exactly when
some rule has the explicit empty list of peers, no rule has ports and no ACCEPT
or DROP entry sits on the Ingress-From chain.  Nothing is stated about the
match tokens and the comments, which differ in more than the flags. -/
theorem returned_egress_mirrors_ingress (rt : Runtime) (u : Util) (ns : String)
    (t : LabelSelector) (rules : List NetworkPolicyIngressRule) (ri : Translation)
    (hi : Slices.ingressUnshared rt u ns t rules = true)
    (he : Slices.egressUnshared rt u ns t (rules.map mirrorRule) = true)
    (h : Slices.translateIngress rt u ns t rules = some ri) :
    ∃ re tS tC body,
      Slices.translateEgress rt u ns t (rules.map mirrorRule) = some re ∧
      craftPartialIptEntrySpecFromOpsAndLabels u ns (targetOpsAndLabels u ns t).1
        (targetOpsAndLabels u ns t).2 IptablesSrcFlag false = some tS ∧
      craftPartialIptablesCommentFromSelector u ns (some t) false = some tC ∧
      re.sets = ri.sets ∧ re.lists = ri.lists ∧
      body.map egressShape = ri.entries.map ingressShape ∧
      re.entries = body ++
        (if rules.any (fun rule => decide (rule.From = some [])) &&
            !rules.any (fun rule => decide (rule.Ports.length > 0)) &&
            !ri.entries.any (peerChainEntry IptablesAzureIngressFromChain) then
          [jumpEntry IptablesAzureEgressPortChain tS IptablesAzureTargetSetsChain
            ("ALLOW-ALL-FROM-" ++ tC ++ "-TO-JUMP-TO-" ++ IptablesAzureTargetSetsChain)]
        else []) := by
  rw [Slices.translateEgress_unshared rt u ns t _ he]
  exact egress_mirrors_ingress u ns t rules ri
    (by rw [← Slices.translateIngress_unshared rt u ns t rules hi]; exact h)

/-- C27 as amended, at one rule that admits `10.0.0.0/8` but for `10.1.0.0/16`,
for the pods `app=web`: the egress direction returns four entries that
correspond to the four of the ingress direction, and no further entry. -/
theorem returned_egress_mirrors_ingress_witness :
    ∃ ri, Slices.translateIngress gcRuntime exampleUtil "default" (selectorOf "app" "web")
        exceptIngressRules = some ri ∧
      ∃ re tS tC body,
        Slices.translateEgress gcRuntime exampleUtil "default" (selectorOf "app" "web")
          (exceptIngressRules.map mirrorRule) = some re ∧
        craftPartialIptEntrySpecFromOpsAndLabels exampleUtil "default"
          (targetOpsAndLabels exampleUtil "default" (selectorOf "app" "web")).1
          (targetOpsAndLabels exampleUtil "default" (selectorOf "app" "web")).2
          IptablesSrcFlag false = some tS ∧
        craftPartialIptablesCommentFromSelector exampleUtil "default"
          (some (selectorOf "app" "web")) false = some tC ∧
        re.sets = ri.sets ∧ re.lists = ri.lists ∧
        body.map egressShape = ri.entries.map ingressShape ∧
        re.entries = body ++
          (if exceptIngressRules.any (fun rule => decide (rule.From = some [])) &&
              !exceptIngressRules.any (fun rule => decide (rule.Ports.length > 0)) &&
              !ri.entries.any (peerChainEntry IptablesAzureIngressFromChain) then
            [jumpEntry IptablesAzureEgressPortChain tS IptablesAzureTargetSetsChain
              ("ALLOW-ALL-FROM-" ++ tC ++ "-TO-JUMP-TO-" ++ IptablesAzureTargetSetsChain)]
          else []) :=
  ⟨_, Slices.translateIngress_unshared gcRuntime exampleUtil "default" (selectorOf "app" "web")
      exceptIngressRules (by decide),
    returned_egress_mirrors_ingress gcRuntime exampleUtil "default" (selectorOf "app" "web")
      exceptIngressRules _ (by decide) (by decide)
      (Slices.translateIngress_unshared gcRuntime exampleUtil "default"
        (selectorOf "app" "web") exceptIngressRules (by decide))⟩

/-- C27 as stated fails: for the single rule without ports and with the explicit
empty list of peers, `translateIngress` returns one entry and `translateEgress`
returns two on the mirrored rule, since only `translateEgress` sets the flag of
the Port chain for such a rule (source lines 1055-1056) and so appends the jump
to the TargetSets chain. -/
theorem returned_egress_longer_than_ingress :
    Slices.translateIngress gcRuntime exampleUtil "default" (selectorOf "app" "web")
        allowExternalIngressRules =
      some { sets := ["app:web"], lists := [],
             entries :=
               [{ Chain := "AZURE-NPM-INGRESS-PORT",
                  Specs := ["-m", "set", "--match-set", "azure-npm-app:web", "dst",
                            "-j", "ACCEPT", "-m", "comment", "--comment",
                            "ALLOW-ALL-TO-app:web"] }] } ∧
    Slices.translateEgress gcRuntime exampleUtil "default" (selectorOf "app" "web")
        (allowExternalIngressRules.map mirrorRule) =
      some { sets := ["app:web"], lists := [],
             entries :=
               [{ Chain := "AZURE-NPM-EGRESS-PORT",
                  Specs := ["-m", "set", "--match-set", "azure-npm-app:web", "src",
                            "-j", "ACCEPT", "-m", "comment", "--comment",
                            "ALLOW-ALL-FROM-app:web"] },
                { Chain := "AZURE-NPM-EGRESS-PORT",
                  Specs := ["-m", "set", "--match-set", "azure-npm-app:web", "src",
                            "-j", "AZURE-NPM-TARGET-SETS", "-m", "comment", "--comment",
                            "ALLOW-ALL-FROM-app:web-TO-JUMP-TO-AZURE-NPM-TARGET-SETS"] }] } := by
  constructor <;> decide

/-! ## C23 on the returned entries -/

/-- C23. For `translateIngress` and for `translateEgress`, on every rule
list: when some rule has a non-empty list of ports and no returned entry is on
the From/To chain of the direction, the last returned entry is on the Port chain
of the direction and its specs are the target fragment followed by
`-j AZURE-NPM-TARGET-SETS` and the comment tokens, with no other match token;
and no returned entry jumps to the From/To chain: when the parser gives no
operator but the empty one and `!` and no CIDR, protocol name or port text of
the rules is the name of that chain, the name is not a token of any returned
entry.  The chain of an entry and the entry built last are never written over,
so this holds whatever the backing arrays share. -/
theorem port_jump_closes_direction (rt : Runtime) (u : Util) (ns : String)
    (t : LabelSelector) :
    (∀ (rules : List NetworkPolicyIngressRule) (r : Translation),
      Slices.translateIngress rt u ns t rules = some r →
      (∃ rule ∈ rules, rule.Ports ≠ []) →
      (∀ e ∈ r.entries, e.Chain ≠ IptablesAzureIngressFromChain) →
      ∃ tS tC,
        craftPartialIptEntrySpecFromOpsAndLabels u ns (targetOpsAndLabels u ns t).1
          (targetOpsAndLabels u ns t).2 IptablesDstFlag false = some tS ∧
        craftPartialIptablesCommentFromSelector u ns (some t) false = some tC ∧
        r.entries.getLast? =
          some (jumpEntry IptablesAzureIngressPortChain tS IptablesAzureTargetSetsChain
            ("ALLOW-ALL-TO-" ++ tC ++ "-TO-JUMP-TO-" ++ IptablesAzureTargetSetsChain)) ∧
        (ParserOps u →
          IptablesAzureIngressFromChain ∉ rules.flatMap (fun rule =>
            rule.Ports.flatMap portStrings ++ (rule.From.getD []).flatMap peerStrings) →
          ∀ e ∈ r.entries, IptablesAzureIngressFromChain ∉ e.Specs ∧
            ¬ jumpsTo IptablesAzureIngressFromChain e)) ∧
    (∀ (rules : List NetworkPolicyEgressRule) (r : Translation),
      Slices.translateEgress rt u ns t rules = some r →
      (∃ rule ∈ rules, rule.Ports ≠ []) →
      (∀ e ∈ r.entries, e.Chain ≠ IptablesAzureEgressToChain) →
      ∃ tS tC,
        craftPartialIptEntrySpecFromOpsAndLabels u ns (targetOpsAndLabels u ns t).1
          (targetOpsAndLabels u ns t).2 IptablesSrcFlag false = some tS ∧
        craftPartialIptablesCommentFromSelector u ns (some t) false = some tC ∧
        r.entries.getLast? =
          some (jumpEntry IptablesAzureEgressPortChain tS IptablesAzureTargetSetsChain
            ("ALLOW-ALL-FROM-" ++ tC ++ "-TO-JUMP-TO-" ++ IptablesAzureTargetSetsChain)) ∧
        (ParserOps u →
          IptablesAzureEgressToChain ∉ rules.flatMap (fun rule =>
            rule.Ports.flatMap portStrings ++ (rule.To.getD []).flatMap peerStrings) →
          ∀ e ∈ r.entries, IptablesAzureEgressToChain ∉ e.Specs ∧
            ¬ jumpsTo IptablesAzureEgressToChain e)) := by
  constructor
  · intro rules r h hports hnone
    obtain ⟨tF, tC, st, h1, h2, h3, hproper, hent, h0, -⟩ :=
      Slices.translateIngress_parts rt u ns t rules r h
    have hchains := returnedEntries_chains rt tF st.steps (Slices.ingressClosing tC st)
    rw [← hent] at hchains
    have hnone0 : ∀ e ∈ builtEntries tF.tokens st.steps (Slices.ingressClosing tC st),
        e.Chain ≠ IptablesAzureIngressFromChain := by
      intro e he hc
      have hm : e.Chain ∈ (builtEntries tF.tokens st.steps
          (Slices.ingressClosing tC st)).map IptEntry.Chain := List.mem_map_of_mem _ he
      rw [← hchains] at hm
      obtain ⟨e', he', hce'⟩ := List.mem_map.mp hm
      exact hnone e' he' (hce'.trans hc)
    obtain ⟨tS, tC', d, g1, g2, hd, hinv, hport, hr0⟩ := translateIngress_loop u ns t rules _ h0
    obtain rfl : tS = tF.tokens := Option.some.inj (g1.symm.trans h1)
    obtain rfl : tC = tC' := Option.some.inj (h2.symm.trans g2)
    have hentries := congrArg Translation.entries hr0
    simp only [ingressFinish_entries] at hentries
    have hst : st.built tF.tokens = (LoopState.init (targetOpsAndLabels u ns t).2).append d := by
      have := foldlM_additive _ (ingressRule_append u ns tF.tokens tC) rules
        (LoopState.init (targetOpsAndLabels u ns t).2)
      rw [h3, hd, Option.map_some'] at this
      exact Option.some.inj this
    have hpeer : st.addedPeerEntry = d.addedPeerEntry := by
      have := congrArg LoopState.addedPeerEntry hst
      simpa [Slices.LoopState.built, LoopState.append, LoopState.init] using this
    have hportE : st.addedPortEntry = d.addedPortEntry := by
      have := congrArg LoopState.addedPortEntry hst
      simpa [Slices.LoopState.built, LoopState.append, LoopState.init] using this
    have hflag : d.addedPeerEntry = false := by
      cases hf : d.addedPeerEntry with
      | false => rfl
      | true =>
        obtain ⟨e, he, hc⟩ := hinv.2.2 hf
        refine absurd hc (hnone0 e ?_)
        rw [hentries]
        exact List.mem_append_left _ (List.mem_append.mpr he)
    have hp : d.addedPortEntry = true := by
      rw [hport]
      exact any_ports_of_mem (fun rule => rule.Ports) rules hports
    have hclosing : Slices.ingressClosing tC st =
        [] ++ [Step.onTarget false
          { Chain := IptablesAzureIngressPortChain,
            appends := [jumpAndComment IptablesAzureTargetSetsChain
              ("ALLOW-ALL-TO-" ++ tC ++ "-TO-JUMP-TO-" ++ IptablesAzureTargetSetsChain)] }] := by
      simp [Slices.ingressClosing, hpeer, hportE, hflag, hp]
    refine ⟨tF.tokens, tC, h1, h2, ?_, ?_⟩
    · rw [hent, hclosing, returnedEntries_getLast]
      simp [Build.entry, jumpEntry]
    · intro hops hin
      have hok := translateIngress_ok (noChain_props IptablesAzureIngressFromChain) u
        { Namespace := ns, PodSelector := t, Ingress := rules, Egress := [], PolicyTypes := [] }
        (noChain_policyOK u hops _ _ (Or.inl rfl) (by simpa [inputStrings] using hin)) _ h0
      have hjump : ∀ e ∈ builtEntries tF.tokens st.steps (Slices.ingressClosing tC st),
          e.jumpTarget ≠ some IptablesAzureIngressFromChain := by
        intro e he
        rw [hentries, hflag, hp] at he
        simp only [Bool.not_false, Bool.and_self, if_true] at he
        rcases List.mem_append.mp he with he | he
        · rcases ruleInv_jumpTarget _ _ _ _ hinv e he with hT | hT <;> rw [hT] <;> decide
        · rw [List.mem_singleton] at he
          subst he
          rw [jumpEntry, jumpTarget_mk]
          decide
      have hbuilt : ∀ e ∈ builtEntries tF.tokens st.steps (Slices.ingressClosing tC st),
          IptablesAzureIngressFromChain ∉ e.Specs :=
        fun e he => entryOK_no_chain _ (Or.inl rfl) e (hok e he) (hjump e he)
      have hproperAll : ∀ s ∈ st.steps ++ Slices.ingressClosing tC st, s.proper = true := by
        intro s hs
        rcases List.mem_append.mp hs with hs | hs
        · exact List.all_eq_true.mp hproper s hs
        · rw [hclosing] at hs
          simp only [List.nil_append, List.mem_singleton] at hs
          subst hs
          rfl
      have htokens := returnedEntries_tokens (P := fun x => x ≠ IptablesAzureIngressFromChain)
        (by decide) rt tF st.steps (Slices.ingressClosing tC st)
        (by
          intro x hx hxe
          obtain ⟨e, he, hxs⟩ := Step.target_of_values tF.tokens false
            { Chain := IptablesAzureIngressPortChain,
              appends := [jumpAndComment IptablesAzureTargetSetsChain
                ("ALLOW-ALL-TO-" ++ tC ++ "-TO-JUMP-TO-" ++ IptablesAzureTargetSetsChain)] }
            x hx
          refine hbuilt e ((mem_builtEntries _ _ _ _).mpr ⟨_, ?_, he⟩) (hxe ▸ hxs)
          rw [hclosing]
          simp)
        (by
          intro s hs x hx hxe
          obtain ⟨e, he, hxs⟩ := Step.tokens_of_values tF.tokens s (hproperAll s hs) x hx
          exact hbuilt e ((mem_builtEntries _ _ _ _).mpr ⟨s, hs, he⟩) (hxe ▸ hxs))
      intro e he
      rw [hent] at he
      have hno : IptablesAzureIngressFromChain ∉ e.Specs := fun hm => htokens e he _ hm rfl
      exact ⟨hno, fun hj => hno (hj.subset (List.mem_cons_of_mem _ (List.mem_singleton_self _)))⟩
  · intro rules r h hports hnone
    obtain ⟨tF, tC, st, h1, h2, h3, hproper, hent, h0, -⟩ :=
      Slices.translateEgress_parts rt u ns t rules r h
    have hchains := returnedEntries_chains rt tF st.steps (Slices.egressClosing tC st)
    rw [← hent] at hchains
    have hnone0 : ∀ e ∈ builtEntries tF.tokens st.steps (Slices.egressClosing tC st),
        e.Chain ≠ IptablesAzureEgressToChain := by
      intro e he hc
      have hm : e.Chain ∈ (builtEntries tF.tokens st.steps
          (Slices.egressClosing tC st)).map IptEntry.Chain := List.mem_map_of_mem _ he
      rw [← hchains] at hm
      obtain ⟨e', he', hce'⟩ := List.mem_map.mp hm
      exact hnone e' he' (hce'.trans hc)
    obtain ⟨tS, tC', d, g1, g2, hd, hinv, hport, hr0⟩ := translateEgress_loop u ns t rules _ h0
    obtain rfl : tS = tF.tokens := Option.some.inj (g1.symm.trans h1)
    obtain rfl : tC = tC' := Option.some.inj (h2.symm.trans g2)
    have hentries := congrArg Translation.entries hr0
    simp only [egressFinish_entries] at hentries
    have hst : st.built tF.tokens = (LoopState.init (targetOpsAndLabels u ns t).2).append d := by
      have := foldlM_additive _ (egressRule_append u ns tF.tokens tC) rules
        (LoopState.init (targetOpsAndLabels u ns t).2)
      rw [h3, hd, Option.map_some'] at this
      exact Option.some.inj this
    have hpeer : st.addedPeerEntry = d.addedPeerEntry := by
      have := congrArg LoopState.addedPeerEntry hst
      simpa [Slices.LoopState.built, LoopState.append, LoopState.init] using this
    have hportE : st.addedPortEntry = d.addedPortEntry := by
      have := congrArg LoopState.addedPortEntry hst
      simpa [Slices.LoopState.built, LoopState.append, LoopState.init] using this
    have hflag : d.addedPeerEntry = false := by
      cases hf : d.addedPeerEntry with
      | false => rfl
      | true =>
        obtain ⟨e, he, hc⟩ := hinv.2.2 hf
        refine absurd hc (hnone0 e ?_)
        rw [hentries]
        exact List.mem_append_left _ (List.mem_append.mpr he)
    have hp : d.addedPortEntry = true := by
      rw [hport]
      obtain ⟨rule, hr, hne⟩ := hports
      rw [List.any_eq_true]
      exact ⟨rule, hr, by
        rw [Bool.or_eq_true]
        exact Or.inl (decide_eq_true (List.length_pos.mpr hne))⟩
    have hclosing : Slices.egressClosing tC st =
        [] ++ [Step.onTarget false
          { Chain := IptablesAzureEgressPortChain,
            appends := [jumpAndComment IptablesAzureTargetSetsChain
              ("ALLOW-ALL-FROM-" ++ tC ++ "-TO-JUMP-TO-" ++ IptablesAzureTargetSetsChain)] }] := by
      simp [Slices.egressClosing, hpeer, hportE, hflag, hp]
    refine ⟨tF.tokens, tC, h1, h2, ?_, ?_⟩
    · rw [hent, hclosing, returnedEntries_getLast]
      simp [Build.entry, jumpEntry]
    · intro hops hin
      have hok := translateEgress_ok (noChain_props IptablesAzureEgressToChain) u
        { Namespace := ns, PodSelector := t, Ingress := [], Egress := rules, PolicyTypes := [] }
        (noChain_policyOK u hops _ _ (Or.inr rfl) (by simpa [inputStrings] using hin)) _ h0
      have hjump : ∀ e ∈ builtEntries tF.tokens st.steps (Slices.egressClosing tC st),
          e.jumpTarget ≠ some IptablesAzureEgressToChain := by
        intro e he
        rw [hentries, hflag, hp] at he
        simp only [Bool.not_false, Bool.and_self, if_true] at he
        rcases List.mem_append.mp he with he | he
        · rcases ruleInv_jumpTarget _ _ _ _ hinv e he with hT | hT <;> rw [hT] <;> decide
        · rw [List.mem_singleton] at he
          subst he
          rw [jumpEntry, jumpTarget_mk]
          decide
      have hbuilt : ∀ e ∈ builtEntries tF.tokens st.steps (Slices.egressClosing tC st),
          IptablesAzureEgressToChain ∉ e.Specs :=
        fun e he => entryOK_no_chain _ (Or.inr rfl) e (hok e he) (hjump e he)
      have hproperAll : ∀ s ∈ st.steps ++ Slices.egressClosing tC st, s.proper = true := by
        intro s hs
        rcases List.mem_append.mp hs with hs | hs
        · exact List.all_eq_true.mp hproper s hs
        · rw [hclosing] at hs
          simp only [List.nil_append, List.mem_singleton] at hs
          subst hs
          rfl
      have htokens := returnedEntries_tokens (P := fun x => x ≠ IptablesAzureEgressToChain)
        (by decide) rt tF st.steps (Slices.egressClosing tC st)
        (by
          intro x hx hxe
          obtain ⟨e, he, hxs⟩ := Step.target_of_values tF.tokens false
            { Chain := IptablesAzureEgressPortChain,
              appends := [jumpAndComment IptablesAzureTargetSetsChain
                ("ALLOW-ALL-FROM-" ++ tC ++ "-TO-JUMP-TO-" ++ IptablesAzureTargetSetsChain)] }
            x hx
          refine hbuilt e ((mem_builtEntries _ _ _ _).mpr ⟨_, ?_, he⟩) (hxe ▸ hxs)
          rw [hclosing]
          simp)
        (by
          intro s hs x hx hxe
          obtain ⟨e, he, hxs⟩ := Step.tokens_of_values tF.tokens s (hproperAll s hs) x hx
          exact hbuilt e ((mem_builtEntries _ _ _ _).mpr ⟨s, hs, he⟩) (hxe ▸ hxs))
      intro e he
      rw [hent] at he
      have hno : IptablesAzureEgressToChain ∉ e.Specs := fun hm => htokens e he _ hm rfl
      exact ⟨hno, fun hj => hno (hj.subset (List.mem_cons_of_mem _ (List.mem_singleton_self _)))⟩

/-- C23 at the pods with the five labels of `fiveLabels` and one rule with the
port `TCP/80` and the explicit empty list of peers, in either direction: the
entry built first is written over by the closing jump, no entry is on the
From/To chain, the entry returned last is the jump from the Port chain to
`AZURE-NPM-TARGET-SETS`, and no entry holds the name of the From/To chain. -/
theorem port_jump_closes_direction_witness :
    (∃ r, Slices.translateIngress gcRuntime exampleUtil "default" fiveLabels
          [{ Ports := [tcp80], From := some [] }] = some r ∧
      r.entries.length = 2 ∧
      (∀ e ∈ r.entries, e.Chain ≠ IptablesAzureIngressFromChain) ∧
      ∃ tS tC,
        craftPartialIptEntrySpecFromOpsAndLabels exampleUtil "default"
          (targetOpsAndLabels exampleUtil "default" fiveLabels).1
          (targetOpsAndLabels exampleUtil "default" fiveLabels).2
          IptablesDstFlag false = some tS ∧
        craftPartialIptablesCommentFromSelector exampleUtil "default" (some fiveLabels)
          false = some tC ∧
        r.entries.getLast? =
          some (jumpEntry IptablesAzureIngressPortChain tS IptablesAzureTargetSetsChain
            ("ALLOW-ALL-TO-" ++ tC ++ "-TO-JUMP-TO-" ++ IptablesAzureTargetSetsChain)) ∧
        ∀ e ∈ r.entries, IptablesAzureIngressFromChain ∉ e.Specs ∧
          ¬ jumpsTo IptablesAzureIngressFromChain e) ∧
    (∃ r, Slices.translateEgress gcRuntime exampleUtil "default" fiveLabels
          [{ Ports := [tcp80], To := some [] }] = some r ∧
      r.entries.length = 2 ∧
      (∀ e ∈ r.entries, e.Chain ≠ IptablesAzureEgressToChain) ∧
      ∃ tS tC,
        craftPartialIptEntrySpecFromOpsAndLabels exampleUtil "default"
          (targetOpsAndLabels exampleUtil "default" fiveLabels).1
          (targetOpsAndLabels exampleUtil "default" fiveLabels).2
          IptablesSrcFlag false = some tS ∧
        craftPartialIptablesCommentFromSelector exampleUtil "default" (some fiveLabels)
          false = some tC ∧
        r.entries.getLast? =
          some (jumpEntry IptablesAzureEgressPortChain tS IptablesAzureTargetSetsChain
            ("ALLOW-ALL-FROM-" ++ tC ++ "-TO-JUMP-TO-" ++ IptablesAzureTargetSetsChain)) ∧
        ∀ e ∈ r.entries, IptablesAzureEgressToChain ∉ e.Specs ∧
          ¬ jumpsTo IptablesAzureEgressToChain e) := by
  have hi : Slices.translateIngress gcRuntime exampleUtil "default" fiveLabels
      [{ Ports := [tcp80], From := some [] }] =
      some
        { sets := ["a:1", "b:2", "c:3", "d:4", "e:5"],
          lists := [],
          entries :=
           [{ Chain := "AZURE-NPM-INGRESS-PORT",
              Specs := fiveLabelsSpec "dst" ++ [
                  "-j", "AZURE-NPM-TARGET-SETS", "-m", "comment", "--comment",
                  ("ALLOW-ALL-TO-" ++ fiveLabelsComment ++ "-TO-JUMP-TO-AZURE-NPM-TARGET-SETS")] },
            { Chain := "AZURE-NPM-INGRESS-PORT",
              Specs := fiveLabelsSpec "dst" ++ [
                  "-j", "AZURE-NPM-TARGET-SETS", "-m", "comment", "--comment",
                  ("ALLOW-ALL-TO-" ++ fiveLabelsComment ++ "-TO-JUMP-TO-AZURE-NPM-TARGET-SETS")] }] } := by
    rw [← exampleUtilListed_eq]
    decide
  have he : Slices.translateEgress gcRuntime exampleUtil "default" fiveLabels
      [{ Ports := [tcp80], To := some [] }] =
      some
        { sets := ["a:1", "b:2", "c:3", "d:4", "e:5"],
          lists := [],
          entries :=
           [{ Chain := "AZURE-NPM-EGRESS-PORT",
              Specs := fiveLabelsSpec "src" ++ [
                  "-j", "AZURE-NPM-TARGET-SETS", "-m", "comment", "--comment",
                  ("ALLOW-ALL-FROM-" ++ fiveLabelsComment ++ "-TO-JUMP-TO-AZURE-NPM-TARGET-SETS")] },
            { Chain := "AZURE-NPM-EGRESS-PORT",
              Specs := fiveLabelsSpec "src" ++ [
                  "-j", "AZURE-NPM-TARGET-SETS", "-m", "comment", "--comment",
                  ("ALLOW-ALL-FROM-" ++ fiveLabelsComment ++ "-TO-JUMP-TO-AZURE-NPM-TARGET-SETS")] }] } := by
    rw [← exampleUtilListed_eq]
    decide
  constructor
  · refine ⟨_, hi, rfl, ?_, ?_⟩
    · intro e he'
      simp only [List.mem_cons, List.mem_singleton, List.not_mem_nil, or_false] at he'
      rcases he' with rfl | rfl <;> decide
    · obtain ⟨tS, tC, c1, c2, c3, c4⟩ :=
        (port_jump_closes_direction gcRuntime exampleUtil "default" fiveLabels).1
          [{ Ports := [tcp80], From := some [] }] _ hi
          ⟨_, List.mem_singleton_self _, by decide⟩ (by
            intro e he'
            simp only [List.mem_cons, List.mem_singleton, List.not_mem_nil, or_false] at he'
            rcases he' with rfl | rfl <;> decide)
      exact ⟨tS, tC, c1, c2, c3, c4 (specUtil_ops _ _) (by decide)⟩
  · refine ⟨_, he, rfl, ?_, ?_⟩
    · intro e he'
      simp only [List.mem_cons, List.mem_singleton, List.not_mem_nil, or_false] at he'
      rcases he' with rfl | rfl <;> decide
    · obtain ⟨tS, tC, c1, c2, c3, c4⟩ :=
        (port_jump_closes_direction gcRuntime exampleUtil "default" fiveLabels).2
          [{ Ports := [tcp80], To := some [] }] _ he
          ⟨_, List.mem_singleton_self _, by decide⟩ (by
            intro e he'
            simp only [List.mem_cons, List.mem_singleton, List.not_mem_nil, or_false] at he'
            rcases he' with rfl | rfl <;> decide)
      exact ⟨tS, tC, c1, c2, c3, c4 (specUtil_ops _ _) (by decide)⟩

/-! ## Slices: every returned entry holds the target fragment -/

theorem appendAll_append (rt : Runtime) (xs ys : List (List String)) :
    ∀ (h : Heap) (s : Slice), appendAll rt h s (xs ++ ys) =
      appendAll rt (appendAll rt h s xs).1 (appendAll rt h s xs).2 ys := by
  induction xs with
  | nil => intro h s; rfl
  | cons x xs ih =>
    intro h s
    show appendAll rt h s (x :: (xs ++ ys)) = _
    simp only [appendAll, ih]

/-- The length of a valid slice is the number of its elements. -/
theorem Slice.read_length (s : Slice) (h : Heap) (hv : s.valid h) :
    (s.read h).length = s.len := by
  simp only [Slice.read, List.length_take]
  exact Nat.min_eq_left hv.2

/-- Calls of `append` that fit into the array leave the slice on it. -/
theorem appendAll_room (rt : Runtime) (xss : List (List String)) :
    ∀ (h : Heap) (s : Slice), s.valid h → s.len + xss.flatten.length ≤ s.cap h →
      (appendAll rt h s xss).2.array = s.array := by
  induction xss with
  | nil => intro h s _ _; rfl
  | cons xs xss ih =>
    intro h s hv hroom
    simp only [List.flatten_cons, List.length_append] at hroom
    obtain ⟨g1, -, -, -, g5, -, g7, -, -⟩ := goAppend_spec rt h s xs hv
    have harr : (goAppend rt h s xs).2.array = s.array := by
      by_cases hx : xs = []
      · subst hx
        rw [goAppend_nil]
      · rw [goAppend_room rt h s xs hx (by omega)]
    have hcap : (goAppend rt h s xs).2.cap (goAppend rt h s xs).1 = s.cap h := by
      show ((goAppend rt h s xs).1.getD (goAppend rt h s xs).2.array []).length = _
      rw [harr]
      exact g5
    simp only [appendAll]
    rw [ih _ _ g1 (by rw [hcap, g7]; omega), harr]

/-- When the first calls of `append` fit into the array, the cells they wrote
are still there after the later calls. -/
theorem appendAll_prefix (rt : Runtime) (xs ys : List (List String)) (h : Heap) (s : Slice)
    (hv : s.valid h) (hroom : s.len + xs.flatten.length ≤ s.cap h) :
    ((appendAll rt h s (xs ++ ys)).1.getD s.array []).take (s.len + xs.flatten.length) =
      s.read h ++ xs.flatten := by
  obtain ⟨a1, a2, -, -, -⟩ := appendAll_spec rt xs h s hv
  have harr := appendAll_room rt xs h s hv hroom
  have hlen : (appendAll rt h s xs).2.len = s.len + xs.flatten.length := by
    have := Slice.read_length _ _ a1
    rw [a2, List.length_append, Slice.read_length s h hv] at this
    exact this.symm
  obtain ⟨-, -, b3, -, -⟩ := appendAll_spec rt ys _ _ a1
  rw [appendAll_append]
  have := b3.2.2.2
  rw [harr, hlen] at this
  rw [this, ← a2]
  simp only [Slice.read, Slice.cells, harr, hlen]

/-- After a loop over the ports on a fragment with room for the tokens that go
before the target fragment and for the target fragment: the array holds, behind
the fragment, those tokens of one of the entries and the target fragment. -/
theorem runBuilds_last (rt : Runtime) (toSide : Bool) (s : Slice) (tS : List String) (K : Nat)
    (bs : List Build) :
    ∀ (h : Heap), s.valid h → bs ≠ [] → (∀ b ∈ bs, Build.holdsTarget tS K b) →
      s.len + K + tS.length ≤ s.cap h →
      ∃ b ∈ bs, ∃ ps rest, b.appends = ps ++ tS :: rest ∧ ps.flatten.length ≤ K ∧
        6 ≤ rest.flatten.length ∧
        ((runBuilds rt toSide s h bs).1.getD s.array []).take
            (s.len + ps.flatten.length + tS.length) = s.read h ++ ps.flatten ++ tS := by
  induction bs with
  | nil => intro h _ hne; exact absurd rfl hne
  | cons b bs ih =>
    intro h hv _ hall hroom
    obtain ⟨-, -, a3, -, -⟩ := appendAll_spec rt b.appends h s hv
    obtain ⟨v1, v2, v3⟩ := a3.valid hv
    by_cases hbs : bs = []
    · subst hbs
      obtain ⟨ps, rest, hb, hK1, -, h6⟩ := hall b (List.mem_cons_self _ _)
      refine ⟨b, List.mem_cons_self _ _, ps, rest, hb, hK1, h6, ?_⟩
      simp only [runBuilds]
      have hsplit : b.appends = (ps ++ [tS]) ++ rest := by
        rw [hb, List.append_assoc, List.singleton_append]
      have hfl : (ps ++ [tS]).flatten = ps.flatten ++ tS := by simp
      have := appendAll_prefix rt (ps ++ [tS]) rest h s hv (by
        rw [hfl, List.length_append]; omega)
      rw [hfl, List.length_append, ← Nat.add_assoc, ← hsplit, ← List.append_assoc] at this
      exact this
    · obtain ⟨b', hb', ps, rest, e1, e2, e3, e4⟩ :=
        ih (appendAll rt h s b.appends).1 v1 hbs
          (fun x hx => hall x (List.mem_cons_of_mem _ hx)) (by rw [v3]; exact hroom)
      refine ⟨b', List.mem_cons_of_mem _ hb', ps, rest, e1, e2, e3, ?_⟩
      simp only [runBuilds]
      rw [e4, v2]

/-- The entries of a step that starts on a fragment of its own, read after the
step: each holds the tokens of the fragment, the tokens that one of the
entries puts before the target fragment, and the target fragment. -/
theorem runBuilds_holdsTarget (rt : Runtime) (toSide : Bool) (s : Slice) (tS : List String)
    (K : Nat) (bs : List Build) :
    ∀ (h : Heap), s.valid h → (∀ b ∈ bs, Build.holdsTarget tS K b) →
      ∀ e ∈ (runBuilds rt toSide s h bs).2,
        ∃ b ∈ bs, ∃ ps rest post, b.appends = ps ++ tS :: rest ∧ 6 ≤ rest.flatten.length ∧
          e.Specs.read (runBuilds rt toSide s h bs).1 = s.read h ++ ps.flatten ++ tS ++ post := by
  induction bs with
  | nil => intro h _ _ e he; exact absurd he (List.not_mem_nil _)
  | cons b bs ih =>
    intro h hv hall e he
    obtain ⟨a1, a2, a3, a4, a5⟩ := appendAll_spec rt b.appends h s hv
    obtain ⟨v1, v2, v3⟩ := a3.valid hv
    obtain ⟨f1, -, -⟩ := runBuilds_spec rt toSide s bs (appendAll rt h s b.appends).1 v1
    simp only [runBuilds, List.mem_cons] at he ⊢
    rcases he with he | he
    · subst he
      obtain ⟨ps, rest, hb, hK1, hK2, h6⟩ := hall b (List.mem_cons_self _ _)
      have hflat : b.appends.flatten = ps.flatten ++ tS ++ rest.flatten := by
        rw [hb]; simp
      show ∃ b', _ ∧ ∃ ps rest post, _ ∧ _ ∧
        (appendAll rt h s b.appends).2.read _ = _
      rcases a4 with a4 | a4
      · -- the entry is still on the array of the fragment
        by_cases hbs : bs = []
        · subst hbs
          refine ⟨b, Or.inl rfl, ps, rest, rest.flatten, hb, h6, ?_⟩
          simp only [runBuilds]
          rw [a2, hflat]
          simp only [List.append_assoc]
        · have hroom := a5 a4
          rw [hflat] at hroom
          simp only [List.length_append] at hroom
          obtain ⟨b', hb', ps', rest', e1, e2, e3, e4⟩ :=
            runBuilds_last rt toSide s tS K bs (appendAll rt h s b.appends).1 v1 hbs
              (fun x hx => hall x (List.mem_cons_of_mem _ hx)) (by rw [v3]; omega)
          have hlen : (appendAll rt h s b.appends).2.len =
              s.len + ps.flatten.length + tS.length + rest.flatten.length := by
            have := Slice.read_length _ _ a1
            rw [a2, hflat] at this
            simp only [List.length_append, Slice.read_length s h hv] at this
            omega
          obtain ⟨K', hK'⟩ : ∃ K', (appendAll rt h s b.appends).2.len =
              (s.len + ps'.flatten.length + tS.length) + K' :=
            ⟨ps.flatten.length + rest.flatten.length - ps'.flatten.length, by omega⟩
          refine ⟨b', Or.inr hb', ps', rest',
            ((runBuilds rt toSide s (appendAll rt h s b.appends).1 bs).1.getD s.array []).drop
              (s.len + ps'.flatten.length + tS.length) |>.take K', e1, e3, ?_⟩
          simp only [Slice.read, Slice.cells]
          rw [a4, hK', List.take_add, e4, v2]
          rfl
      · -- the entry has moved to an array of its own
        refine ⟨b, Or.inl rfl, ps, rest, rest.flatten, hb, h6, ?_⟩
        rw [f1.read_eq _ a1.1 (by have := hv.1; omega), a2, hflat]
        simp only [List.append_assoc]
    · obtain ⟨b', hb', ps, rest, post, e1, e2, e3⟩ :=
        ih (appendAll rt h s b.appends).1 v1 (fun x hx => hall x (List.mem_cons_of_mem _ hx)) e he
      exact ⟨b', Or.inr hb', ps, rest, post, e1, e2, by rw [e3, v2]⟩

/-- More entries as built keep what holds of an entry. -/
theorem Built.holdsTarget_mono (tS : List String) (vs vs' : List IptEntry) (t : Slice) (h : Heap)
    (e : Built) (hsub : ∀ v ∈ vs, v ∈ vs') (he : Built.holdsTarget tS vs t h e) :
    Built.holdsTarget tS vs' t h e := by
  obtain ⟨hv, hc⟩ := he
  refine ⟨hv, ?_⟩
  rcases hc with ⟨c1, c2, v, hvm, rest, c3, c4⟩ | ⟨c1, v, hvm, pre, post, rest, c2, c3, c4⟩
  · exact Or.inl ⟨c1, c2, v, hsub v hvm, rest, c3, c4⟩
  · exact Or.inr ⟨c1, v, hsub v hvm, pre, post, rest, c2, c3, c4⟩

/-- Later steps keep what holds of an entry. -/
theorem Built.holdsTarget_frame (tS : List String) (vs : List IptEntry) (t : Slice)
    (h h' : Heap) (e : Built) (hf : Frame t h h') (he : Built.holdsTarget tS vs t h e) :
    Built.holdsTarget tS vs t h' e := by
  obtain ⟨hv, hc⟩ := he
  have hv' : e.Specs.valid h' := by
    refine ⟨lt_of_lt_of_le hv.1 hf.1, ?_⟩
    show e.Specs.len ≤ (h'.getD e.Specs.array []).length
    by_cases heq : e.Specs.array = t.array
    · rw [heq, hf.2.2.1, ← heq]
      exact hv.2
    · rw [hf.2.1 _ hv.1 heq]
      exact hv.2
  refine ⟨hv', ?_⟩
  rcases hc with hc | ⟨c1, v, hvm, pre, post, rest, c2, c3, c4⟩
  · exact Or.inl hc
  · exact Or.inr ⟨c1, v, hvm, pre, post, rest, by rw [hf.read_eq _ hv.1 c1]; exact c2, c3, c4⟩

/-- One step whose entries are given the target fragment: what holds of its
entries when it has run. -/
theorem runStep_holdsTarget (rt : Runtime) (t : Slice) (h : Heap) (st : Step) (hv : t.valid h)
    (hst : st.holdsTarget (t.read h)) :
    ∀ e ∈ (runStep rt t h st).2,
      Built.holdsTarget (t.read h) (st.values (t.read h)) t (runStep rt t h st).1 e := by
  cases st with
  | onTarget toSide b =>
    intro e he
    obtain ⟨a1, a2, -, a4, -⟩ := appendAll_spec rt b.appends h t hv
    simp only [runStep, runBuilds, List.mem_singleton] at he ⊢
    subst he
    refine ⟨a1, ?_⟩
    have hlen : (appendAll rt h t b.appends).2.len = t.len + b.appends.flatten.length := by
      have := Slice.read_length _ _ a1
      rw [a2, List.length_append, Slice.read_length t h hv] at this
      exact this.symm
    rcases a4 with a4 | a4
    · exact Or.inl ⟨a4, by show t.len ≤ (appendAll rt h t b.appends).2.len; omega,
        _, List.mem_singleton_self _, b.appends.flatten, rfl, hst⟩
    · refine Or.inr ⟨by show (appendAll rt h t b.appends).2.array ≠ t.array; have := hv.1; omega,
        _, List.mem_singleton_self _, [], b.appends.flatten, b.appends.flatten, ?_, rfl, hst⟩
      show (appendAll rt h t b.appends).2.read _ = _
      rw [a2]
      rfl
  | onFragment toSide f bs =>
    intro e he
    obtain ⟨K, hK⟩ := hst
    obtain ⟨m1, m2, m3, m4, -, -⟩ := Fragment.make_spec rt h f
    obtain ⟨-, -, s3⟩ := runBuilds_spec rt toSide (f.make rt h).2 bs (f.make rt h).1 m1
    obtain ⟨b, hb, ps, rest, post, e1, e2, e3⟩ :=
      runBuilds_holdsTarget rt toSide (f.make rt h).2 (t.read h) K bs (f.make rt h).1 m1 hK e he
    refine ⟨(s3 e he).1, Or.inr ⟨?_, b.entry f.tokens, ?_, f.tokens ++ ps.flatten, post,
      rest.flatten, ?_, ?_, e2⟩⟩
    · have := hv.1
      rcases (s3 e he).2 with h1 | h1
      · rw [h1]; omega
      · omega
    · simp only [Step.values, List.mem_map]
      exact ⟨b, hb, rfl⟩
    · show e.Specs.read (runBuilds rt toSide (f.make rt h).2 (f.make rt h).1 bs).1 = _
      rw [e3, m2]
    · simp only [Build.entry, e1, List.flatten_append, List.flatten_cons, List.append_assoc]

/-- The steps of a direction, each giving its entries the target fragment: what
holds of every entry when all of them have run. -/
theorem runSteps_holdsTarget (rt : Runtime) (t : Slice) (tS : List String) (steps : List Step) :
    ∀ (h : Heap), t.valid h → t.read h = tS → (∀ st ∈ steps, st.holdsTarget tS) →
      ∀ e ∈ (runSteps rt t h steps).2,
        Built.holdsTarget tS (steps.flatMap (Step.values tS)) t (runSteps rt t h steps).1 e := by
  induction steps with
  | nil => intro h _ _ _ e he; exact absurd he (List.not_mem_nil _)
  | cons st steps ih =>
    intro h hv hr hall e he
    obtain ⟨a1, -, -⟩ := runStep_spec rt t h st hv []
    obtain ⟨v1, v2, -⟩ := a1.valid hv
    obtain ⟨i1, -, -⟩ := runSteps_spec rt t [] steps (runStep rt t h st).1 v1
    simp only [runSteps, List.mem_append, List.flatMap_cons] at he ⊢
    rcases he with he | he
    · have h1 := runStep_holdsTarget rt t h st hv (by
        rw [hr]; exact hall st (List.mem_cons_self _ _)) e he
      rw [hr] at h1
      exact Built.holdsTarget_frame _ _ _ _ _ _ i1
        (Built.holdsTarget_mono _ _ _ _ _ _ (fun v hvm => List.mem_append_left _ hvm) h1)
    · exact Built.holdsTarget_mono _ _ _ _ _ _ (fun v hvm => List.mem_append_right _ hvm)
        (ih _ v1 (v2.trans hr) (fun s hs => hall s (List.mem_cons_of_mem _ hs)) e he)

/-- Every returned entry holds the target fragment, whatever the arrays
share: it reads `pre ++ tS ++ post`, and some entry as it was built starts with
`pre ++ tS` and has six tokens or more behind. -/
theorem returnedEntries_holdsTarget (rt : Runtime) (tF : Fragment) (steps closing : List Step)
    (hs : ∀ st ∈ steps ++ closing, st.holdsTarget tF.tokens) :
    ∀ e ∈ returnedEntries rt tF steps closing,
      ∃ v ∈ builtEntries tF.tokens steps closing, ∃ pre post rest,
        e.Specs = pre ++ tF.tokens ++ post ∧ v.Specs = pre ++ tF.tokens ++ rest ∧
        6 ≤ rest.length := by
  obtain ⟨m1, m2, -, -, -, -⟩ := Fragment.make_spec rt [] tF
  have hall := runSteps_holdsTarget rt (tF.make rt []).2 tF.tokens (steps ++ closing)
    (tF.make rt []).1 m1 m2 hs
  obtain ⟨f1, -, -⟩ := runSteps_spec rt (tF.make rt []).2 [] (steps ++ closing)
    (tF.make rt []).1 m1
  obtain ⟨w1, w2, -⟩ := f1.valid m1
  rw [runSteps_append] at hall f1 w1 w2
  simp only at hall f1 w1 w2
  intro e he
  simp only [returnedEntries, List.mem_map, List.mem_append, List.mem_filter] at he
  obtain ⟨b, hb, rfl⟩ := he
  have hb' : b ∈ (runSteps rt (tF.make rt []).2 (tF.make rt []).1 steps).2 ++
      (runSteps rt (tF.make rt []).2
        (runSteps rt (tF.make rt []).2 (tF.make rt []).1 steps).1 closing).2 := by
    rcases hb with (hb | hb) | hb
    · exact List.mem_append_left _ hb.1
    · exact List.mem_append_left _ hb.1
    · exact List.mem_append_right _ hb
  obtain ⟨hv, hc⟩ := hall b hb'
  have hmem : ∀ v ∈ (steps ++ closing).flatMap (Step.values tF.tokens),
      v ∈ builtEntries tF.tokens steps closing := by
    intro v hvm
    obtain ⟨st, hst, hvs⟩ := List.mem_flatMap.mp hvm
    exact (mem_builtEntries _ _ _ _).mpr ⟨st, hst, hvs⟩
  rcases hc with ⟨c1, c2, v, hvm, rest, c3, c4⟩ | ⟨c1, v, hvm, pre, post, rest, c2, c3, c4⟩
  · obtain ⟨k, hk⟩ : ∃ k, b.Specs.len = (tF.make rt []).2.len + k :=
      ⟨b.Specs.len - (tF.make rt []).2.len, by omega⟩
    have hread : b.Specs.read (runSteps rt (tF.make rt []).2
        (runSteps rt (tF.make rt []).2 (tF.make rt []).1 steps).1 closing).1 =
        tF.tokens ++ ((List.getD (runSteps rt (tF.make rt []).2
          (runSteps rt (tF.make rt []).2 (tF.make rt []).1 steps).1 closing).1
            (tF.make rt []).2.array []).drop (tF.make rt []).2.len).take k := by
      simp only [Slice.read, Slice.cells]
      rw [c1, hk, List.take_add]
      congr 1
      rw [← m2, ← w2]
      rfl
    exact ⟨v, hmem v hvm, [], _, rest, hread, c3, c4⟩
  · exact ⟨v, hmem v hvm, pre, post, rest, c2, c3, c4⟩

theorem allHold_append (tS : List String) (a b : List Step)
    (ha : ∀ s ∈ a, s.holdsTarget tS) (hb : ∀ s ∈ b, s.holdsTarget tS) :
    ∀ s ∈ a ++ b, s.holdsTarget tS := by
  intro s hs
  rcases List.mem_append.mp hs with hs | hs
  · exact ha s hs
  · exact hb s hs

theorem allHold_singleton (tS : List String) (x : Step) (hx : x.holdsTarget tS) :
    ∀ s ∈ [x], s.holdsTarget tS := by
  intro s hs
  rw [List.mem_singleton.mp hs]
  exact hx

theorem allHold_map {α : Type} (tS : List String) (l : List α) (f : α → Step)
    (hf : ∀ x, (f x).holdsTarget tS) : ∀ s ∈ l.map f, s.holdsTarget tS := by
  intro s hs
  obtain ⟨x, -, rfl⟩ := List.mem_map.mp hs
  exact hf x

theorem port_length (portRule : NetworkPolicyPort) (flag : String) :
    (craftPartialIptEntrySpecFromPort portRule flag).length ≤ 4 := by
  obtain ⟨proto, port⟩ := portRule
  cases proto <;> cases port <;> simp [craftPartialIptEntrySpecFromPort]

theorem holdsT_jump0 (tS : List String) (side : Bool) (c T k : String) :
    (Step.onTarget side { Chain := c, appends := [jumpAndComment T k] }).holdsTarget tS := by
  simp [Step.holdsTarget, jumpAndComment]

theorem holdsT_jump1 (tS : List String) (side : Bool) (c T k : String) (a : List String) :
    (Step.onTarget side { Chain := c, appends := [a, jumpAndComment T k] }).holdsTarget tS := by
  simp [Step.holdsTarget, jumpAndComment]

theorem holdsT_jump2 (tS : List String) (side : Bool) (c T k : String) (a b : List String) :
    (Step.onTarget side { Chain := c, appends := [a, b, jumpAndComment T k] }).holdsTarget tS := by
  simp only [Step.holdsTarget, jumpAndComment, List.flatten_cons, List.flatten_nil,
    List.length_append, List.length_cons, List.length_nil]
  omega

theorem holdsT_jump3 (tS : List String) (side : Bool) (c T k : String) (a b d : List String) :
    (Step.onTarget side
      { Chain := c, appends := [a, b, d, jumpAndComment T k] }).holdsTarget tS := by
  simp only [Step.holdsTarget, jumpAndComment, List.flatten_cons, List.flatten_nil,
    List.length_append, List.length_cons, List.length_nil]
  omega

theorem holdsT_allowAll (tS : List String) (side : Bool) (c T k : String) (a : List String) :
    (Step.onTarget side { Chain := c, appends := [a ++ jumpAndComment T k] }).holdsTarget tS := by
  simp only [Step.holdsTarget, jumpAndComment, List.flatten_cons, List.flatten_nil,
    List.length_append, List.length_cons, List.length_nil]
  omega

theorem holdsF_pre0 (tS : List String) (side : Bool) (f : Fragment) (c T k : String) :
    (Step.onFragment side f
      [{ Chain := c, appends := [tS, jumpAndComment T k] }]).holdsTarget tS := by
  refine ⟨0, ?_⟩
  intro b hb
  rw [List.mem_singleton.mp hb]
  exact ⟨[], [jumpAndComment T k], rfl, by simp, by simp, by simp [jumpAndComment]⟩

theorem holdsF_pre1 (tS : List String) (side : Bool) (f : Fragment) (c T k : String)
    (a : List String) :
    (Step.onFragment side f
      [{ Chain := c, appends := [a, tS, jumpAndComment T k] }]).holdsTarget tS := by
  refine ⟨a.length, ?_⟩
  intro b hb
  rw [List.mem_singleton.mp hb]
  exact ⟨[a], [jumpAndComment T k], rfl, by simp, by simp, by simp [jumpAndComment]⟩

theorem holdsF_post1 (tS : List String) (side : Bool) (f : Fragment) (c T k : String)
    (a : List String) :
    (Step.onFragment side f
      [{ Chain := c, appends := [tS, a, jumpAndComment T k] }]).holdsTarget tS := by
  refine ⟨0, ?_⟩
  intro b hb
  rw [List.mem_singleton.mp hb]
  exact ⟨[], [a, jumpAndComment T k], rfl, by simp, by simp, by simp [jumpAndComment]⟩

theorem holdsF_ports (tS : List String) (side : Bool) (f : Fragment) (c T flag : String)
    (g : NetworkPolicyPort → String) (ports : List NetworkPolicyPort) :
    (Step.onFragment side f (ports.map (fun portRule =>
      { Chain := c,
        appends := [craftPartialIptEntrySpecFromPort portRule flag, tS,
          jumpAndComment T (g portRule)] }))).holdsTarget tS := by
  refine ⟨4, ?_⟩
  intro b hb
  obtain ⟨p, -, rfl⟩ := List.mem_map.mp hb
  have := port_length p flag
  exact ⟨[craftPartialIptEntrySpecFromPort p flag], [jumpAndComment T (g p)], rfl,
    by simpa using this, by simp [jumpAndComment], by simp [jumpAndComment]⟩

theorem holdsF_pod (tS : List String) (side : Bool) (f : Fragment) (c T flag : String)
    (pod : List String) (g : NetworkPolicyPort → String) (ports : List NetworkPolicyPort) :
    (Step.onFragment side f (ports.map (fun portRule =>
      { Chain := c,
        appends := [pod, tS, craftPartialIptEntrySpecFromPort portRule flag,
          jumpAndComment T (g portRule)] }))).holdsTarget tS := by
  refine ⟨pod.length, ?_⟩
  intro b hb
  obtain ⟨p, -, rfl⟩ := List.mem_map.mp hb
  exact ⟨[pod], [craftPartialIptEntrySpecFromPort p flag, jumpAndComment T (g p)], rfl,
    by simp, by simp, by simp [jumpAndComment]⟩

/-- Every step of an ingress peer gives its entries the target fragment. -/
theorem Slices.ingressPeer_holdsTarget (u : Util) (ns : String) (tS : List String) (tC : String)
    (ports : List NetworkPolicyPort) (pre : Bool) (st st' : Slices.LoopState)
    (peer : NetworkPolicyPeer)
    (h : Slices.ingressPeer u ns tS tC ports pre st peer = some st')
    (hst : ∀ s ∈ st.steps, s.holdsTarget tS) : ∀ s ∈ st'.steps, s.holdsTarget tS := by
  obtain ⟨pod, nsSel, ip⟩ := peer
  cases ip with
  | some ipBlock =>
    simp only [Slices.ingressPeer] at h
    split at h <;> split at h <;> (try split at h) <;>
      simp only [Option.some.injEq] at h <;> subst h <;>
      repeat (first
        | exact hst
        | refine allHold_append _ _ _ ?_ ?_
        | refine allHold_singleton _ _ ?_
        | refine allHold_map _ _ _ (fun _ => ?_)
        | apply holdsT_jump1 | apply holdsT_jump2 | apply holdsF_pre1)
  | none =>
    cases pod <;> cases nsSel <;>
      simp only [Slices.ingressPeer, Option.bind_eq_bind, Option.bind_eq_some,
        Option.some.injEq, Option.pure_def] at h
    · subst h; exact hst
    · obtain ⟨f, -, c, -, h⟩ := h
      split at h <;> simp only [Option.some.injEq] at h <;> subst h <;>
        repeat (first
          | exact hst
          | refine allHold_append _ _ _ ?_ ?_
          | refine allHold_singleton _ _ ?_
          | refine allHold_map _ _ _ (fun _ => ?_)
          | apply holdsT_jump2 | apply holdsF_pre0)
    · obtain ⟨f, -, c, -, h⟩ := h
      split at h <;> simp only [Option.some.injEq] at h <;> subst h <;>
        repeat (first
          | exact hst
          | refine allHold_append _ _ _ ?_ ?_
          | refine allHold_singleton _ _ ?_
          | refine allHold_map _ _ _ (fun _ => ?_)
          | apply holdsT_jump2 | apply holdsF_pre0)
    · split at h
      · simp only [Option.some.injEq] at h; subst h; exact hst
      · simp only [Option.bind_eq_bind, Option.bind_eq_some, Option.some.injEq] at h
        obtain ⟨f, -, g, -, c, -, c', -, h⟩ := h
        split at h <;> simp only [Option.some.injEq] at h <;> subst h <;>
          repeat (first
            | exact hst
            | refine allHold_append _ _ _ ?_ ?_
            | refine allHold_singleton _ _ ?_
            | refine allHold_map _ _ _ (fun _ => ?_)
            | apply holdsT_jump2 | apply holdsF_pod)

/-- Every step of an egress peer gives its entries the target fragment. -/
theorem Slices.egressPeer_holdsTarget (u : Util) (ns : String) (tS : List String) (tC : String)
    (ports : List NetworkPolicyPort) (pre : Bool) (st st' : Slices.LoopState)
    (peer : NetworkPolicyPeer)
    (h : Slices.egressPeer u ns tS tC ports pre st peer = some st')
    (hst : ∀ s ∈ st.steps, s.holdsTarget tS) : ∀ s ∈ st'.steps, s.holdsTarget tS := by
  obtain ⟨pod, nsSel, ip⟩ := peer
  cases ip with
  | some ipBlock =>
    simp only [Slices.egressPeer] at h
    split at h <;> split at h <;> (try split at h) <;>
      simp only [Option.some.injEq] at h <;> subst h <;>
      repeat (first
        | exact hst
        | refine allHold_append _ _ _ ?_ ?_
        | refine allHold_singleton _ _ ?_
        | refine allHold_map _ _ _ (fun _ => ?_)
        | apply holdsT_jump1 | apply holdsF_post1 | apply holdsF_pre1)
  | none =>
    cases pod <;> cases nsSel <;>
      simp only [Slices.egressPeer, Option.bind_eq_bind, Option.bind_eq_some,
        Option.some.injEq, Option.pure_def] at h
    · subst h; exact hst
    · obtain ⟨f, -, c, -, h⟩ := h
      split at h <;> simp only [Option.some.injEq] at h <;> subst h <;>
        repeat (first
          | exact hst
          | refine allHold_append _ _ _ ?_ ?_
          | refine allHold_singleton _ _ ?_
          | refine allHold_map _ _ _ (fun _ => ?_)
          | apply holdsT_jump1 | apply holdsF_ports)
    · obtain ⟨f, -, c, -, h⟩ := h
      split at h <;> simp only [Option.some.injEq] at h <;> subst h <;>
        repeat (first
          | exact hst
          | refine allHold_append _ _ _ ?_ ?_
          | refine allHold_singleton _ _ ?_
          | refine allHold_map _ _ _ (fun _ => ?_)
          | apply holdsT_jump1 | apply holdsF_ports)
    · split at h
      · simp only [Option.some.injEq] at h; subst h; exact hst
      · simp only [Option.bind_eq_bind, Option.bind_eq_some, Option.some.injEq] at h
        obtain ⟨f, -, g, -, c, -, c', -, h⟩ := h
        split at h <;> simp only [Option.some.injEq] at h <;> subst h <;>
          repeat (first
            | exact hst
            | refine allHold_append _ _ _ ?_ ?_
            | refine allHold_singleton _ _ ?_
            | refine allHold_map _ _ _ (fun _ => ?_)
            | apply holdsT_jump2 | apply holdsT_jump3)

/-- Every step of an ingress rule gives its entries the target fragment. -/
theorem Slices.ingressRule_holdsTarget (u : Util) (ns : String) (tS : List String) (tC : String)
    (st st' : Slices.LoopState) (rule : NetworkPolicyIngressRule)
    (h : Slices.ingressRule u ns tS tC st rule = some st')
    (hst : ∀ s ∈ st.steps, s.holdsTarget tS) : ∀ s ∈ st'.steps, s.holdsTarget tS := by
  simp only [Slices.ingressRule] at h
  split at h
  · simp only [Option.some.injEq] at h
    subst h
    exact allHold_append _ _ _ hst (allHold_singleton _ _ (holdsF_pre1 _ _ _ _ _ _ _))
  · split at h
    · simp only [Option.some.injEq] at h
      subst h
      exact allHold_append _ _ _ hst (allHold_map _ _ _ (fun _ => holdsF_pre0 _ _ _ _ _ _))
    · simp only [Option.bind_eq_bind, Option.bind_eq_some] at h
      obtain ⟨s1, h1, h2⟩ := h
      have hs1 := foldlM_preserves (fun s => ∀ x ∈ s.steps, x.holdsTarget tS) _ _
        (fun s a s' hs hq => Slices.ingressPeer_holdsTarget u ns tS tC rule.Ports _ s s' a hs hq)
        _ _ h1 hst
      split at h2 <;> simp only [Option.some.injEq] at h2 <;> subst h2
      · exact allHold_append _ _ _ hs1 (allHold_singleton _ _ (holdsT_jump0 _ _ _ _ _))
      · exact hs1

/-- Every step of an egress rule gives its entries the target fragment. -/
theorem Slices.egressRule_holdsTarget (u : Util) (ns : String) (tS : List String) (tC : String)
    (st st' : Slices.LoopState) (rule : NetworkPolicyEgressRule)
    (h : Slices.egressRule u ns tS tC st rule = some st')
    (hst : ∀ s ∈ st.steps, s.holdsTarget tS) : ∀ s ∈ st'.steps, s.holdsTarget tS := by
  simp only [Slices.egressRule] at h
  split at h
  · simp only [Option.some.injEq] at h
    subst h
    exact allHold_append _ _ _ hst (allHold_singleton _ _ (holdsT_allowAll _ _ _ _ _ _))
  · split at h
    · simp only [Option.some.injEq] at h
      subst h
      exact allHold_append _ _ _ hst (allHold_map _ _ _ (fun _ => holdsF_pre0 _ _ _ _ _ _))
    · simp only [Option.bind_eq_bind, Option.bind_eq_some] at h
      obtain ⟨s1, h1, h2⟩ := h
      have hs1 := foldlM_preserves (fun s => ∀ x ∈ s.steps, x.holdsTarget tS) _ _
        (fun s a s' hs hq => Slices.egressPeer_holdsTarget u ns tS tC rule.Ports _ s s' a hs hq)
        _ _ h1 hst
      split at h2 <;> simp only [Option.some.injEq] at h2 <;> subst h2
      · exact allHold_append _ _ _ hs1 (allHold_singleton _ _ (holdsT_jump0 _ _ _ _ _))
      · exact hs1

theorem Slices.ingressClosing_holdsTarget (tS : List String) (tC : String)
    (st : Slices.LoopState) : ∀ s ∈ Slices.ingressClosing tC st, s.holdsTarget tS := by
  intro s hs
  simp only [Slices.ingressClosing] at hs
  split at hs
  · rw [List.mem_singleton.mp hs]; exact holdsT_jump0 _ _ _ _ _
  · split at hs
    · simp only [List.mem_cons, List.not_mem_nil, or_false] at hs
      rcases hs with rfl | rfl <;> exact holdsT_jump0 _ _ _ _ _
    · exact absurd hs (List.not_mem_nil _)

theorem Slices.egressClosing_holdsTarget (tS : List String) (tC : String)
    (st : Slices.LoopState) : ∀ s ∈ Slices.egressClosing tC st, s.holdsTarget tS := by
  intro s hs
  simp only [Slices.egressClosing] at hs
  split at hs
  · rw [List.mem_singleton.mp hs]; exact holdsT_jump0 _ _ _ _ _
  · split at hs
    · simp only [List.mem_cons, List.not_mem_nil, or_false] at hs
      rcases hs with rfl | rfl <;> exact holdsT_jump0 _ _ _ _ _
    · exact absurd hs (List.not_mem_nil _)

/-- A block at the start of an entry as built that has six tokens or more
behind it lies in the match tokens of the entry. -/
theorem prefix_of_entryOK {A : List String → Prop} {B K : String → Prop} (v : IptEntry)
    (hok : EntryOK A B K v) (p rest : List String) (hv : v.Specs = p ++ rest)
    (h6 : 6 ≤ rest.length) : ∃ m, A m ∧ p <+: m := by
  obtain ⟨m, T, c, hs, hm, -, -⟩ := hok
  refine ⟨m, hm, ?_⟩
  rw [hv] at hs
  have hl := congrArg List.length hs
  simp only [List.length_append, jumpAndComment, List.length_cons, List.length_nil] at hl
  have hp : p = m.take p.length := by
    have := congrArg (List.take p.length) hs
    rw [List.take_left, List.take_append_of_le_length (by omega)] at this
    exact this
  rw [hp]
  exact List.take_prefix _ _

/-- Every entry `translateIngress` returns is on a chain of the ingress
direction and holds the target fragment with the flag `dst`, whatever the
arrays share; no `-j` stands in the fragment or before it, when none comes in
with the input. -/
theorem Slices.translateIngress_holdsTarget (rt : Runtime) (u : Util) (npObj : NetworkPolicy)
    (r : Translation) (tS : List String)
    (htS : Npm.craftPartialIptEntrySpecFromOpsAndLabels u npObj.Namespace
      (targetOpsAndLabels u npObj.Namespace npObj.PodSelector).1
      (targetOpsAndLabels u npObj.Namespace npObj.PodSelector).2 IptablesDstFlag false = some tS)
    (h : Slices.translateIngress rt u npObj.Namespace npObj.PodSelector npObj.Ingress = some r) :
    ∀ e ∈ r.entries, IngressChain e ∧ ∃ pre post, e.Specs = pre ++ tS ++ post ∧
      (ParserOps u → IptablesJumpFlag ∉ inputStrings npObj →
        IptablesJumpFlag ∉ pre ++ tS) := by
  obtain ⟨tF, tC, st, h1, h2, -, -, hent, h0, h3⟩ :=
    Slices.translateIngress_parts rt u _ _ _ r h
  obtain rfl : tS = tF.tokens := Option.some.inj (htS.symm.trans h1)
  have hsteps : ∀ s ∈ st.steps, s.holdsTarget tF.tokens :=
    foldlM_preserves (fun s => ∀ x ∈ s.steps, x.holdsTarget tF.tokens) _ _
      (fun s a s' hs hq => Slices.ingressRule_holdsTarget u _ _ _ s s' a hs hq) _ _ h3
      (fun _ hx => absurd hx (List.not_mem_nil _))
  have hall := returnedEntries_holdsTarget rt tF st.steps (Slices.ingressClosing tC st)
    (allHold_append _ _ _ hsteps (Slices.ingressClosing_holdsTarget _ _ _))
  have hchains := returnedEntries_chains rt tF st.steps (Slices.ingressClosing tC st)
  rw [← hent] at hchains hall
  intro e he
  refine ⟨?_, ?_⟩
  · have hm : e.Chain ∈ r.entries.map IptEntry.Chain := List.mem_map_of_mem _ he
    rw [hchains] at hm
    obtain ⟨v, hv, hcv⟩ := List.mem_map.mp hm
    have := translateIngress_chain u _ _ _ _ h0 v hv
    simpa only [IngressChain, hcv] using this
  · obtain ⟨v, hv, pre, post, rest, e1, e2, e3⟩ := hall e he
    refine ⟨pre, post, e1, ?_⟩
    intro hops hin
    have hok := translateIngress_ok noJump_props u npObj (noJump_policyOK u hops npObj hin) _ h0
    obtain ⟨m, hm, hp⟩ := prefix_of_entryOK v (hok v hv) (pre ++ tF.tokens) rest e2 e3
    exact fun hj => hm (hp.subset hj)

/-- Every entry `translateEgress` returns is on a chain of the egress
direction and holds the target fragment with the flag `src`, whatever the
arrays share; no `-j` stands in the fragment or before it, when none comes in
with the input. -/
theorem Slices.translateEgress_holdsTarget (rt : Runtime) (u : Util) (npObj : NetworkPolicy)
    (r : Translation) (tS : List String)
    (htS : Npm.craftPartialIptEntrySpecFromOpsAndLabels u npObj.Namespace
      (targetOpsAndLabels u npObj.Namespace npObj.PodSelector).1
      (targetOpsAndLabels u npObj.Namespace npObj.PodSelector).2 IptablesSrcFlag false = some tS)
    (h : Slices.translateEgress rt u npObj.Namespace npObj.PodSelector npObj.Egress = some r) :
    ∀ e ∈ r.entries, EgressChain e ∧ ∃ pre post, e.Specs = pre ++ tS ++ post ∧
      (ParserOps u → IptablesJumpFlag ∉ inputStrings npObj →
        IptablesJumpFlag ∉ pre ++ tS) := by
  obtain ⟨tF, tC, st, h1, h2, -, -, hent, h0, h3⟩ :=
    Slices.translateEgress_parts rt u _ _ _ r h
  obtain rfl : tS = tF.tokens := Option.some.inj (htS.symm.trans h1)
  have hsteps : ∀ s ∈ st.steps, s.holdsTarget tF.tokens :=
    foldlM_preserves (fun s => ∀ x ∈ s.steps, x.holdsTarget tF.tokens) _ _
      (fun s a s' hs hq => Slices.egressRule_holdsTarget u _ _ _ s s' a hs hq) _ _ h3
      (fun _ hx => absurd hx (List.not_mem_nil _))
  have hall := returnedEntries_holdsTarget rt tF st.steps (Slices.egressClosing tC st)
    (allHold_append _ _ _ hsteps (Slices.egressClosing_holdsTarget _ _ _))
  have hchains := returnedEntries_chains rt tF st.steps (Slices.egressClosing tC st)
  rw [← hent] at hchains hall
  intro e he
  refine ⟨?_, ?_⟩
  · have hm : e.Chain ∈ r.entries.map IptEntry.Chain := List.mem_map_of_mem _ he
    rw [hchains] at hm
    obtain ⟨v, hv, hcv⟩ := List.mem_map.mp hm
    have := translateEgress_chain u _ _ _ _ h0 v hv
    simpa only [EgressChain, hcv] using this
  · obtain ⟨v, hv, pre, post, rest, e1, e2, e3⟩ := hall e he
    refine ⟨pre, post, e1, ?_⟩
    intro hops hin
    have hok := translateEgress_ok noJump_props u npObj (noJump_policyOK u hops npObj hin) _ h0
    obtain ⟨m, hm, hp⟩ := prefix_of_entryOK v (hok v hv) (pre ++ tF.tokens) rest e2 e3
    exact fun hj => hm (hp.subset hj)

/-- What `translatePolicy` has collected before it appends the default-drop
entries, read by the caller: entries that `translateIngress` or `translateEgress`
returned for the rules of the policy. -/
theorem Slices.translatePolicyDirections_entries (rt : Runtime) (u : Util)
    (npObj : NetworkPolicy) (st : PolicyState)
    (h : Slices.translatePolicyDirections rt u npObj = some st) :
    ∀ e ∈ st.entries,
      (∃ ri, Slices.translateIngress rt u npObj.Namespace npObj.PodSelector npObj.Ingress =
          some ri ∧ e ∈ ri.entries) ∨
      (∃ re, Slices.translateEgress rt u npObj.Namespace npObj.PodSelector npObj.Egress =
          some re ∧ e ∈ re.entries) := by
  unfold Slices.translatePolicyDirections at h
  split at h
  · simp only [Option.bind_eq_bind, Option.bind_eq_some, Option.some.injEq] at h
    obtain ⟨i, hi, e, he, rfl⟩ := h
    intro x hx
    rcases List.mem_append.mp hx with hx | hx
    · exact Or.inl ⟨i, hi, hx⟩
    · exact Or.inr ⟨e, he, hx⟩
  · refine foldlM_preserves (fun s : PolicyState => ∀ e ∈ s.entries,
        (∃ ri, Slices.translateIngress rt u npObj.Namespace npObj.PodSelector npObj.Ingress =
            some ri ∧ e ∈ ri.entries) ∨
        (∃ re, Slices.translateEgress rt u npObj.Namespace npObj.PodSelector npObj.Egress =
            some re ∧ e ∈ re.entries)) _ _ ?_ _ _ h (fun _ hx => absurd hx (List.not_mem_nil _))
    intro s ptype s' hs hq
    simp only [Slices.policyTypeStep] at hs
    by_cases hi : ptype = PolicyTypeIngress
    · have he : ptype ≠ PolicyTypeEgress := fun he => policyTypes_ne (hi.symm.trans he)
      simp only [if_pos hi, if_neg he, Option.bind_eq_bind, Option.bind_eq_some,
        Option.some.injEq] at hs
      obtain ⟨i, hii, s1, rfl, rfl⟩ := hs
      intro x hx
      rcases List.mem_append.mp hx with hx | hx
      · exact hq x hx
      · exact Or.inl ⟨i, hii, hx⟩
    · by_cases he : ptype = PolicyTypeEgress
      · simp only [if_neg hi, if_pos he, Option.bind_eq_bind, Option.some_bind,
          Option.bind_eq_some, Option.some.injEq] at hs
        obtain ⟨i, hii, rfl⟩ := hs
        intro x hx
        rcases List.mem_append.mp hx with hx | hx
        · exact hq x hx
        · exact Or.inr ⟨i, hii, hx⟩
      · simp only [if_neg hi, if_neg he, Option.bind_eq_bind, Option.some_bind,
          Option.some.injEq] at hs
        subst hs
        exact hq

/-- Every entry `translatePolicy` returns, read as the caller reads it,
holds the match fragment of the target selector as a block of consecutive
tokens: the fragment with the flag `dst` in the entries on the Ingress-Port and
Ingress-From chains and in `DROP-ALL-TO-<target>`, the fragment with the flag
`src` in the entries on the Egress-Port and Egress-To chains and in
`DROP-ALL-FROM-<target>`, and every returned entry is one of these.  No `-j`
stands in the block or before it: when the parser gives no operator but the
empty one and `!` and no CIDR, protocol name or port text of the policy is
`-j`, no token of the block and no token before it is `-j`.  An entry left on
an array it shares with later entries keeps the block; the tokens behind the
block may be those of a later entry, and a `-j` need not be among them (the
last section has such an entry).  This holds for every growth policy of
`append`. -/
theorem returned_entries_hold_target (rt : Runtime) (u : Util) (npObj : NetworkPolicy)
    (r : Translation) (h : Slices.translatePolicy rt u npObj = some r) :
    ∃ tSd tSs tC,
      craftPartialIptEntrySpecFromOpsAndLabels u npObj.Namespace
        (targetOpsAndLabels u npObj.Namespace npObj.PodSelector).1
        (targetOpsAndLabels u npObj.Namespace npObj.PodSelector).2 IptablesDstFlag false
        = some tSd ∧
      craftPartialIptEntrySpecFromOpsAndLabels u npObj.Namespace
        (targetOpsAndLabels u npObj.Namespace npObj.PodSelector).1
        (targetOpsAndLabels u npObj.Namespace npObj.PodSelector).2 IptablesSrcFlag false
        = some tSs ∧
      craftPartialIptablesCommentFromSelector u npObj.Namespace (some npObj.PodSelector) false
        = some tC ∧
      ∀ e ∈ r.entries,
        ((IngressChain e ∨ e = dropAllToEntry tSd tC) ∧
          ∃ pre post, e.Specs = pre ++ tSd ++ post ∧
            (ParserOps u → IptablesJumpFlag ∉ inputStrings npObj →
              IptablesJumpFlag ∉ pre ++ tSd)) ∨
        ((EgressChain e ∨ e = dropAllFromEntry tSs tC) ∧
          ∃ pre post, e.Specs = pre ++ tSs ++ post ∧
            (ParserOps u → IptablesJumpFlag ∉ inputStrings npObj →
              IptablesJumpFlag ∉ pre ++ tSs)) := by
  simp only [Slices.translatePolicy, Option.bind_eq_bind, Option.bind_eq_some,
    Option.some.injEq] at h
  obtain ⟨st, hst, drops, hdrops, rfl⟩ := h
  obtain ⟨tSd, tSs, tC, h1, h2, h3, rfl⟩ :=
    (getDefaultDropEntries_eq_some u _ _ _ _ drops).1 hdrops
  refine ⟨tSd, tSs, tC, h1, h2, h3, ?_⟩
  have hdir := Slices.translatePolicyDirections_entries rt u npObj st hst
  intro e hmem
  rcases List.mem_append.mp hmem with hmem | hmem
  · rcases hdir e hmem with ⟨ri, hri, he⟩ | ⟨re, hre, he⟩
    · obtain ⟨c, hc⟩ := Slices.translateIngress_holdsTarget rt u npObj ri tSd h1 hri e he
      exact Or.inl ⟨Or.inl c, hc⟩
    · obtain ⟨c, hc⟩ := Slices.translateEgress_holdsTarget rt u npObj re tSs h2 hre e he
      exact Or.inr ⟨Or.inl c, hc⟩
  · rcases List.mem_append.mp hmem with hmem | hmem
    · split at hmem
      · rw [List.mem_singleton] at hmem
        refine Or.inl ⟨Or.inr hmem, [], _, by rw [hmem]; rfl, ?_⟩
        intro hops _
        rw [targetOps_eq] at h1
        simpa using craft_no_jump u hops _ (some npObj.PodSelector) _ _ false (Or.inl rfl) tSd h1
      · cases hmem
    · split at hmem
      · rw [List.mem_singleton] at hmem
        refine Or.inr ⟨Or.inr hmem, [], _, by rw [hmem]; rfl, ?_⟩
        intro hops _
        rw [targetOps_eq] at h2
        simpa using craft_no_jump u hops _ (some npObj.PodSelector) _ _ false (Or.inr rfl) tSs h2
      · cases hmem

/-! ## The entries returned for targets and selectors whose arrays have room -/

set_option maxRecDepth 8192 in
/-- C10, at a receivable input.  For the pods with the nine labels of `nineLabels`
and the rule without ports whose peer selects the pods `app=a` of the namespaces
`env=prod`, the entry `translateIngress` hands back on the Ingress-From chain
does not hold the namespace fragment `-m set --match-set azure-npm-ns-env:prod
src`, and its first jump is to the TargetSets chain: the entry is built on the
backing array of the target fragment, and the closing jumps are written over
the tokens that follow the target fragment. -/
theorem intersection_entry_loses_namespace_fragment :
    Slices.translateIngress gcRuntime exampleUtil "default" nineLabels
      [{ Ports := [], From := some [intersectionPeer] }] =
      some
        { sets := ["a:1", "b:2", "c:3", "d:4", "e:5", "f:6", "g:7", "h:8", "i:9", "app:a"],
          lists := ["ns-env:prod"],
          entries :=
           [{ Chain := "AZURE-NPM-INGRESS-FROM",
              Specs := nineLabelsSpec "dst" ++ [
                  "-j", "AZURE-NPM-TARGET-SETS", "-m", "comment", "--comment",
                  ("ALLOW-ALL-TO-" ++ nineLabelsComment ++ "-TO-JUMP-TO-AZURE-NPM-TARGET-SETS"),
                  "set", "--match-set", "azure-npm-app:a", "src", "-j", "ACCEPT", "-m", "comment",
                  "--comment", ("ALLOW-ns-env:prod-AND-app:a-TO-" ++ nineLabelsComment)] },
            { Chain := "AZURE-NPM-INGRESS-PORT",
              Specs := nineLabelsSpec "dst" ++ [
                  "-j", "AZURE-NPM-TARGET-SETS", "-m", "comment", "--comment",
                  ("ALLOW-ALL-TO-" ++ nineLabelsComment ++ "-TO-JUMP-TO-AZURE-NPM-TARGET-SETS")] },
            { Chain := "AZURE-NPM-INGRESS-FROM",
              Specs := nineLabelsSpec "dst" ++ [
                  "-j", "AZURE-NPM-TARGET-SETS", "-m", "comment", "--comment",
                  ("ALLOW-ALL-TO-" ++ nineLabelsComment ++ "-TO-JUMP-TO-AZURE-NPM-TARGET-SETS")] }] } := by
  rw [← exampleUtilListed_eq]
  decide

/-- C18, at a receivable input.  For the pods with the five labels of `fiveLabels`,
`PolicyTypes = [Ingress]` and the single rule without ports that admits
`10.0.0.0/8`, the first returned entry is not match tokens followed by one
`-j T -m comment --comment c`: the two closing jumps are appended to the same
backing array as the entry of the CIDR, so it reads `-j AZURE-NPM-TARGET-SETS
-m comment --comment c` followed by the last two tokens it was built with,
`--comment` and its own comment. -/
theorem cidr_entry_with_jump_written_over :
    Slices.translatePolicy gcRuntime exampleUtil
      { Namespace := "default", PodSelector := fiveLabels,
        Ingress := [{ Ports := [], From := some [ipBlockPeer "10.0.0.0/8" []] }],
        Egress := [], PolicyTypes := [PolicyTypeIngress] } =
      some
        { sets := ["a:1", "b:2", "c:3", "d:4", "e:5"],
          lists := [],
          entries :=
           [{ Chain := "AZURE-NPM-INGRESS-FROM",
              Specs := fiveLabelsSpec "dst" ++ [
                  "-j", "AZURE-NPM-TARGET-SETS", "-m", "comment", "--comment",
                  ("ALLOW-ALL-TO-" ++ fiveLabelsComment ++ "-TO-JUMP-TO-AZURE-NPM-TARGET-SETS"),
                  "--comment", ("ALLOW-10.0.0.0/8-TO-" ++ fiveLabelsComment)] },
            { Chain := "AZURE-NPM-INGRESS-PORT",
              Specs := fiveLabelsSpec "dst" ++ [
                  "-j", "AZURE-NPM-TARGET-SETS", "-m", "comment", "--comment",
                  ("ALLOW-ALL-TO-" ++ fiveLabelsComment ++ "-TO-JUMP-TO-AZURE-NPM-TARGET-SETS")] },
            { Chain := "AZURE-NPM-INGRESS-FROM",
              Specs := fiveLabelsSpec "dst" ++ [
                  "-j", "AZURE-NPM-TARGET-SETS", "-m", "comment", "--comment",
                  ("ALLOW-ALL-TO-" ++ fiveLabelsComment ++ "-TO-JUMP-TO-AZURE-NPM-TARGET-SETS")] },
            { Chain := "AZURE-NPM-TARGET-SETS",
              Specs := fiveLabelsSpec "dst" ++ [
                  "-j", "DROP", "-m", "comment", "--comment",
                  ("DROP-ALL-TO-" ++ fiveLabelsComment)] }] } := by
  rw [← exampleUtilListed_eq]
  decide

/-- C19, at an input without whitespace.  For the pods with the five labels of
`fiveLabels`, `PolicyTypes = [Ingress]`, a first rule without ports that admits
`10.0.0.0/8` and a second rule with the port of protocol `""` that admits the
namespaces without the label `k`, the last token of the second returned entry,
the one built for the CIDR, is the empty protocol: the entry of the second rule
and the closing jumps are written to the backing array the entry shares. -/
theorem cidr_entry_ends_with_empty_protocol :
    Slices.translatePolicy gcRuntime exampleUtil
      { Namespace := "default", PodSelector := fiveLabels,
        Ingress :=
          [{ Ports := [], From := some [ipBlockPeer "10.0.0.0/8" []] },
           { Ports := [{ Protocol := some "", Port := none }],
             From := some [{ PodSelector := none,
                             NamespaceSelector := some
                               { MatchLabels := [],
                                 MatchExpressions :=
                                   [{ Key := "k", Operator := "DoesNotExist", Values := [] }] },
                             IPBlock := none }] }],
        Egress := [], PolicyTypes := [PolicyTypeIngress] } =
      some
        { sets := ["a:1", "b:2", "c:3", "d:4", "e:5"],
          lists := ["ns-k"],
          entries :=
           [{ Chain := "AZURE-NPM-INGRESS-PORT",
              Specs := fiveLabelsSpec "dst" ++ [
                  "-j", "AZURE-NPM-TARGET-SETS", "-m", "comment", "--comment",
                  ("ALLOW-ALL-TO-" ++ fiveLabelsComment ++ "-TO-JUMP-TO-AZURE-NPM-TARGET-SETS"),
                  "-p", "", "-j", "ACCEPT", "-m", "comment", "--comment",
                  ("ALLOW-ns-!k-AND--TO-" ++ fiveLabelsComment)] },
            { Chain := "AZURE-NPM-INGRESS-FROM",
              Specs := fiveLabelsSpec "dst" ++ [
                  "-j", "AZURE-NPM-TARGET-SETS", "-m", "comment", "--comment",
                  ("ALLOW-ALL-TO-" ++ fiveLabelsComment ++ "-TO-JUMP-TO-AZURE-NPM-TARGET-SETS"),
                  "-p", ""] },
            { Chain := "AZURE-NPM-INGRESS-PORT",
              Specs := fiveLabelsSpec "dst" ++ [
                  "-j", "AZURE-NPM-TARGET-SETS", "-m", "comment", "--comment",
                  ("ALLOW-ALL-TO-" ++ fiveLabelsComment ++ "-TO-JUMP-TO-AZURE-NPM-TARGET-SETS")] },
            { Chain := "AZURE-NPM-INGRESS-FROM",
              Specs := fiveLabelsSpec "dst" ++ [
                  "-j", "AZURE-NPM-TARGET-SETS", "-m", "comment", "--comment",
                  ("ALLOW-ALL-TO-" ++ fiveLabelsComment ++ "-TO-JUMP-TO-AZURE-NPM-TARGET-SETS")] },
            { Chain := "AZURE-NPM-TARGET-SETS",
              Specs := fiveLabelsSpec "dst" ++ [
                  "-j", "DROP", "-m", "comment", "--comment",
                  ("DROP-ALL-TO-" ++ fiveLabelsComment)] }] } := by
  rw [← exampleUtilListed_eq]
  decide

/-- C24, at a receivable input.  For the pods with the five labels of `fiveLabels`
and the single rule without ports that admits `10.0.0.0/8`, an ACCEPT entry is
placed on the Ingress-From chain, and yet the last two returned entries both
jump to the TargetSets chain: the jump from the Ingress-Port chain to the
Ingress-From chain is built on the backing array of the target fragment, and
the jump built after it is written to the same cells. -/
theorem port_jump_reads_as_targetSets_jump :
    Slices.translateIngress gcRuntime exampleUtil "default" fiveLabels
      [{ Ports := [], From := some [ipBlockPeer "10.0.0.0/8" []] }] =
      some
        { sets := ["a:1", "b:2", "c:3", "d:4", "e:5"],
          lists := [],
          entries :=
           [{ Chain := "AZURE-NPM-INGRESS-FROM",
              Specs := fiveLabelsSpec "dst" ++ [
                  "-j", "AZURE-NPM-TARGET-SETS", "-m", "comment", "--comment",
                  ("ALLOW-ALL-TO-" ++ fiveLabelsComment ++ "-TO-JUMP-TO-AZURE-NPM-TARGET-SETS"),
                  "--comment", ("ALLOW-10.0.0.0/8-TO-" ++ fiveLabelsComment)] },
            { Chain := "AZURE-NPM-INGRESS-PORT",
              Specs := fiveLabelsSpec "dst" ++ [
                  "-j", "AZURE-NPM-TARGET-SETS", "-m", "comment", "--comment",
                  ("ALLOW-ALL-TO-" ++ fiveLabelsComment ++ "-TO-JUMP-TO-AZURE-NPM-TARGET-SETS")] },
            { Chain := "AZURE-NPM-INGRESS-FROM",
              Specs := fiveLabelsSpec "dst" ++ [
                  "-j", "AZURE-NPM-TARGET-SETS", "-m", "comment", "--comment",
                  ("ALLOW-ALL-TO-" ++ fiveLabelsComment ++ "-TO-JUMP-TO-AZURE-NPM-TARGET-SETS")] }] } := by
  rw [← exampleUtilListed_eq]
  decide

/-- C26, at a receivable input.  For the pods with the five labels of `fiveLabels`
and the single rule with the port TCP 80 and the explicit empty list of peers,
`translateIngress` hands back two entries on the Ingress-Port chain that both
jump to the TargetSets chain and no ACCEPT entry: the closing jump is written
to the backing array the ALLOW-ALL-TO entry shares with the target fragment. -/
theorem allow_external_accept_overwritten :
    Slices.translateIngress gcRuntime exampleUtil "default" fiveLabels
      [{ Ports := [tcp80], From := some [] }] =
      some
        { sets := ["a:1", "b:2", "c:3", "d:4", "e:5"],
          lists := [],
          entries :=
           [{ Chain := "AZURE-NPM-INGRESS-PORT",
              Specs := fiveLabelsSpec "dst" ++ [
                  "-j", "AZURE-NPM-TARGET-SETS", "-m", "comment", "--comment",
                  ("ALLOW-ALL-TO-" ++ fiveLabelsComment ++ "-TO-JUMP-TO-AZURE-NPM-TARGET-SETS")] },
            { Chain := "AZURE-NPM-INGRESS-PORT",
              Specs := fiveLabelsSpec "dst" ++ [
                  "-j", "AZURE-NPM-TARGET-SETS", "-m", "comment", "--comment",
                  ("ALLOW-ALL-TO-" ++ fiveLabelsComment ++ "-TO-JUMP-TO-AZURE-NPM-TARGET-SETS")] }] } := by
  rw [← exampleUtilListed_eq]
  decide

/-- C34, at a receivable input.  For the pods with the five labels of `fiveLabels`
and the single rule with the port TCP 80 that admits `10.0.0.0/8` except
`10.1.0.0/16`, the DROP entry of the except CIDR is on the Ingress-From chain,
the entry built to accept the CIDR on the Ingress-Port chain starts with a jump
to the TargetSets chain and has lost its `-s 10.0.0.0/8`, and no returned entry
jumps to the Ingress-From chain: the entry of the CIDR and the two closing jumps
share one backing array. -/
theorem except_rule_port_jump_overwritten :
    Slices.translateIngress gcRuntime exampleUtil "default" fiveLabels [portExceptIngressRule] =
      some
        { sets := ["a:1", "b:2", "c:3", "d:4", "e:5"],
          lists := [],
          entries :=
           [{ Chain := "AZURE-NPM-INGRESS-FROM",
              Specs := [
                  "-s", "10.1.0.0/16", "-m", "set", "--match-set", "azure-npm-a:1", "dst", "-m",
                  "set", "--match-set", "azure-npm-b:2", "dst", "-m", "set", "--match-set",
                  "azure-npm-c:3", "dst", "-m", "set", "--match-set", "azure-npm-d:4", "dst",
                  "-m", "set", "--match-set", "azure-npm-e:5", "dst", "-j", "DROP", "-m",
                  "comment", "--comment", ("DROP-10.1.0.0/16-TO-" ++ fiveLabelsComment)] },
            { Chain := "AZURE-NPM-INGRESS-PORT",
              Specs := fiveLabelsSpec "dst" ++ [
                  "-j", "AZURE-NPM-TARGET-SETS", "-m", "comment", "--comment",
                  ("ALLOW-ALL-TO-" ++ fiveLabelsComment ++ "-TO-JUMP-TO-AZURE-NPM-TARGET-SETS"),
                  "-j", "ACCEPT", "-m", "comment", "--comment",
                  ("ALLOW-10.0.0.0/8-:-TCP-PORT-80-TO-" ++ fiveLabelsComment)] },
            { Chain := "AZURE-NPM-INGRESS-PORT",
              Specs := fiveLabelsSpec "dst" ++ [
                  "-j", "AZURE-NPM-TARGET-SETS", "-m", "comment", "--comment",
                  ("ALLOW-ALL-TO-" ++ fiveLabelsComment ++ "-TO-JUMP-TO-AZURE-NPM-TARGET-SETS")] },
            { Chain := "AZURE-NPM-INGRESS-FROM",
              Specs := fiveLabelsSpec "dst" ++ [
                  "-j", "AZURE-NPM-TARGET-SETS", "-m", "comment", "--comment",
                  ("ALLOW-ALL-TO-" ++ fiveLabelsComment ++ "-TO-JUMP-TO-AZURE-NPM-TARGET-SETS")] }] } := by
  rw [← exampleUtilListed_eq]
  decide

/-- C38, at a receivable input.  For the pods with the five labels of `fiveLabels`
and the single egress rule without ports that admits `10.0.0.0/8` except
`10.1.0.0/16`, the Egress-To chain holds the entries of the two CIDRs, no
returned entry jumps to the Egress-To chain, and three returned entries jump to
the TargetSets chain, the first of them the entry built to drop the except
CIDR: that entry and the two closing jumps share one backing array. -/
theorem egress_to_chain_without_jump :
    Slices.translateEgress gcRuntime exampleUtil "default" fiveLabels exceptEgressRules =
      some
        { sets := ["a:1", "b:2", "c:3", "d:4", "e:5"],
          lists := [],
          entries :=
           [{ Chain := "AZURE-NPM-EGRESS-TO",
              Specs := fiveLabelsSpec "src" ++ [
                  "-j", "AZURE-NPM-TARGET-SETS", "-m", "comment", "--comment",
                  ("ALLOW-ALL-FROM-" ++ fiveLabelsComment ++ "-TO-JUMP-TO-AZURE-NPM-TARGET-SETS"),
                  "--comment", ("DROP-10.1.0.0/16-FROM-" ++ fiveLabelsComment)] },
            { Chain := "AZURE-NPM-EGRESS-TO",
              Specs := [
                  "-d", "10.0.0.0/8", "-m", "set", "--match-set", "azure-npm-a:1", "src", "-m",
                  "set", "--match-set", "azure-npm-b:2", "src", "-m", "set", "--match-set",
                  "azure-npm-c:3", "src", "-m", "set", "--match-set", "azure-npm-d:4", "src",
                  "-m", "set", "--match-set", "azure-npm-e:5", "src", "-j", "ACCEPT", "-m",
                  "comment", "--comment", ("ALLOW-10.0.0.0/8-FROM-" ++ fiveLabelsComment)] },
            { Chain := "AZURE-NPM-EGRESS-PORT",
              Specs := fiveLabelsSpec "src" ++ [
                  "-j", "AZURE-NPM-TARGET-SETS", "-m", "comment", "--comment",
                  ("ALLOW-ALL-FROM-" ++ fiveLabelsComment ++ "-TO-JUMP-TO-AZURE-NPM-TARGET-SETS")] },
            { Chain := "AZURE-NPM-EGRESS-TO",
              Specs := fiveLabelsSpec "src" ++ [
                  "-j", "AZURE-NPM-TARGET-SETS", "-m", "comment", "--comment",
                  ("ALLOW-ALL-FROM-" ++ fiveLabelsComment ++ "-TO-JUMP-TO-AZURE-NPM-TARGET-SETS")] }] } := by
  rw [← exampleUtilListed_eq]
  decide

/-- C39, at a receivable input.  For the pods with the five labels of `fiveLabels`
and the single egress rule without ports and with the explicit empty list of
peers, `translateEgress` hands back two entries that both jump to the
TargetSets chain and no ACCEPT entry: the closing jump is written to the backing
array the ALLOW-ALL-FROM entry shares with the target fragment. -/
theorem egress_allow_external_accept_overwritten :
    Slices.translateEgress gcRuntime exampleUtil "default" fiveLabels
      [{ Ports := [], To := some [] }] =
      some
        { sets := ["a:1", "b:2", "c:3", "d:4", "e:5"],
          lists := [],
          entries :=
           [{ Chain := "AZURE-NPM-EGRESS-PORT",
              Specs := fiveLabelsSpec "src" ++ [
                  "-j", "AZURE-NPM-TARGET-SETS", "-m", "comment", "--comment",
                  ("ALLOW-ALL-FROM-" ++ fiveLabelsComment ++ "-TO-JUMP-TO-AZURE-NPM-TARGET-SETS")] },
            { Chain := "AZURE-NPM-EGRESS-PORT",
              Specs := fiveLabelsSpec "src" ++ [
                  "-j", "AZURE-NPM-TARGET-SETS", "-m", "comment", "--comment",
                  ("ALLOW-ALL-FROM-" ++ fiveLabelsComment ++ "-TO-JUMP-TO-AZURE-NPM-TARGET-SETS")] }] } := by
  rw [← exampleUtilListed_eq]
  decide

end Npm
